import Mathlib

/-!
# calc: the parser and code generator (codegen.c, token.c)

A shallow embedding of the recursive-descent parser of `codegen.c` and of the
token interface of `token.c` it drives.  The parser is embedded at the level
of tokens: the characters of the input are represented by the sequence of
tokens that scanning them yields, and `gettoken` hands them out one at a time,
honouring the pushback flag `rescan` and the newline mode exactly as the
source does.

The C globals (`curtoken`, `rescan`, `newlines`, `errorcount`, `curfunc`, ...)
are the fields of one explicit state `PState`.  A C function becomes a
function `PState → Res α`; `Res.abort` is the non-local exit
`longjmp(jmpbuf, 1)` of `scanerror`.  The mutually recursive grammar rules
take a fuel argument, since the source can loop without bound; `Res.nofuel`
is the answer of a run that needs more of it.
-/

set_option maxRecDepth 4000

/-! ## Tokens (token.h, token.c) -/

/-- Token types: the `T_` values that `gettoken` returns. -/
inductive TokenType where
  | T_NULL | T_LEFTPAREN | T_RIGHTPAREN | T_LEFTBRACE | T_RIGHTBRACE
  | T_SEMICOLON | T_EOF | T_COLON | T_ASSIGN | T_PLUS | T_MINUS | T_MULT
  | T_DIV | T_MOD | T_POWER | T_EQ | T_NE | T_LT | T_GT | T_LE | T_GE
  | T_LEFTBRACKET | T_RIGHTBRACKET | T_SYMBOL | T_STRING | T_NUMBER
  | T_PLUSEQUALS | T_MINUSEQUALS | T_MULTEQUALS | T_DIVEQUALS
  | T_POWEREQUALS | T_MODEQUALS | T_SLASHSLASHEQUALS | T_COMMA | T_AND
  | T_OR | T_NOT | T_OROR | T_ANDAND | T_OLDVALUE | T_SLASHSLASH
  | T_NEWLINE | T_PLUSPLUS | T_MINUSMINUS | T_LEFTSHIFT | T_RIGHTSHIFT
  | T_ANDEQUALS | T_OREQUALS | T_LSHIFTEQUALS | T_RSHIFTEQUALS | T_PERIOD
  | T_IMAGINARY | T_QUESTIONMARK | T_AT | T_BACKQUOTE | T_DOLLAR | T_ARROW
  | T_HASH | T_HASHEQUALS | T_TILDE | T_TILDEEQUALS | T_BACKSLASH
  | T_BACKSLASHEQUALS
  | T_IF | T_ELSE | T_WHILE | T_CONTINUE | T_BREAK | T_GOTO | T_RETURN
  | T_LOCAL | T_GLOBAL | T_STATIC | T_DO | T_FOR | T_SWITCH | T_CASE
  | T_DEFAULT | T_QUIT | T_DEFINE | T_READ | T_SHOW | T_HELP | T_WRITE
  | T_MAT | T_OBJ | T_PRINT | T_CD | T_UNDEFINE
  deriving DecidableEq, Repr

open TokenType

/-- Modelled from the spec: the macro `iskeyword` of token.h, which is not part
of the sources; a token type is a keyword when it is the token of an entry of
the table `keywords` of token.c. -/
def iskeyword : TokenType → Bool
  | T_IF | T_ELSE | T_FOR | T_WHILE | T_DO | T_CONTINUE | T_BREAK | T_GOTO
  | T_RETURN | T_LOCAL | T_GLOBAL | T_STATIC | T_SWITCH | T_CASE | T_DEFAULT
  | T_QUIT | T_DEFINE | T_READ | T_SHOW | T_HELP | T_WRITE | T_MAT | T_OBJ
  | T_PRINT | T_CD | T_UNDEFINE => true
  | _ => false

/-- The current token `curtoken` of token.c.  The field `t_glued` is not in the
source: it records that the token starts at the character right after the
symbol before it, which is what the `nextchar() == ':'` test of `getstatement`
looks at. -/
structure Token where
  t_type : TokenType
  t_sym : Int := 0
  t_strindex : Int := 0
  t_numindex : Int := 0
  t_glued : Bool := false
  deriving DecidableEq, Repr

/-! ## Opcodes and the function under construction (opcodes.h, func.h) -/

/-- Opcodes: the `OP_` values that codegen.c emits. -/
inductive Opcode where
  | OP_NOP | OP_LOCALADDR | OP_GLOBALADDR | OP_PARAMADDR | OP_NUMBER
  | OP_INDEXADDR | OP_PRINTRESULT | OP_ASSIGN | OP_ADD | OP_SUB | OP_MUL
  | OP_DIV | OP_MOD | OP_SAVE | OP_NEGATE | OP_DUPLICATE | OP_POP
  | OP_RETURN | OP_JUMPEQ | OP_JUMPNE | OP_JUMP | OP_USERCALL | OP_GETVALUE
  | OP_EQ | OP_NE | OP_LE | OP_GE | OP_LT | OP_GT | OP_PREINC | OP_PREDEC
  | OP_POSTINC | OP_POSTDEC | OP_DEBUG | OP_PRINT | OP_ASSIGNPOP | OP_ZERO
  | OP_ONE | OP_PRINTEOL | OP_PRINTSPACE | OP_PRINTSTRING | OP_DUPVALUE
  | OP_OLDVALUE | OP_QUO | OP_POWER | OP_QUIT | OP_CALL | OP_AND | OP_OR
  | OP_NOT | OP_OBJCREATE | OP_ELEMADDR | OP_ELEMINIT | OP_MATCREATE
  | OP_INITFILL | OP_IMAGINARY | OP_UNDEF | OP_LEFTSHIFT | OP_RIGHTSHIFT
  | OP_CASEJUMP | OP_INITSTATIC | OP_FIADDR | OP_STRING | OP_CONDORJUMP
  | OP_CONDANDJUMP | OP_SHOW
  deriving DecidableEq, Repr

open Opcode

/-- One cell of the instruction buffer `f_opcodes`: an opcode, or an inline
operand (a number, an offset, an index or a handle). -/
inductive Slot where
  | op (o : Opcode)
  | arg (v : Int)
  deriving DecidableEq, Repr

/-- Modelled from the spec: the struct LABEL of label.h, which is not part of the
sources.  A label is resolved (`l_offset` is its instruction offset) or
unresolved (`l_offset` is -1) and then holds its chain of patch sites, the
offsets of the operand cells that wait for its offset, the most recent first.
`l_name` is the name of a `goto` label, none for the labels of the grammar
rules. -/
structure LABEL where
  l_offset : Int := -1
  l_sites : List Nat := []
  l_name : Option Int := none
  deriving DecidableEq, Repr

/-- The field `l_chain` that the source reads: the most recent patch site of the
label, -1 when no site is pending. -/
def LABEL.l_chain (l : LABEL) : Int :=
  match l.l_sites with
  | [] => -1
  | p :: _ => p

/-- Modelled from the spec: an entry of the built-in function registry of func.c,
which is not part of the sources: the name and the bounds that the
arity-checking hook `builtincheck` tests. -/
structure BuiltinFunc where
  b_name : Int
  b_minargs : Int
  b_maxargs : Int
  deriving DecidableEq, Repr

/-- A rational constant of the constant table, as numerator and denominator. -/
structure QConst where
  num : Int
  den : Nat := 1
  deriving DecidableEq, Repr

/-- An object type as `defineobject` of obj.c registers it: its name and the
indices of its elements. -/
structure ObjectType where
  name : Int
  elements : List Int
  deriving DecidableEq, Repr

/-- The state of a compilation: the globals of token.c and codegen.c, and what the
parser reads and writes of its collaborators. -/
structure PState where
  /-- the tokens that scanning the rest of the input yields -/
  input : List Token := []
  curtoken : Token := { t_type := T_NULL }
  rescan : Bool := false
  newlines : Bool := false
  allsyms : Bool := false
  errorcount : Int := 0
  /-- the configured ceiling `conf->maxscancount` -/
  maxscancount : Int := 20
  /-- the name `curfunc->f_name` -/
  f_name : List Char := []
  /-- the buffer `curfunc->f_opcodes`; `f_opcodecount` is its length -/
  f_opcodes : List Slot := []
  /-- the opcode appended last, as the emitter remembers it -/
  oldop : Opcode := OP_NOP
  /-- the labels that exist: the `LABEL` locals of the grammar rules and the
  named labels of label.c -/
  labels : List LABEL := []
  params : List Int := []
  locals : List Int := []
  /-- the global symbols, each with its static flag -/
  globals : List (Int × Bool) := []
  builtins : List BuiltinFunc := []
  userfuncs : List Int := []
  /-- the element names of obj.c -/
  elements : List Int := []
  /-- the object types of obj.c -/
  objects : List ObjectType := []
  constants : List QConst := []
  /-- the topics of `show`: what `stringindex` answers for a name -/
  showindex : List (Int × Int) := []
  /-- what `linenumber()` returns -/
  lineno : Int := 1
  /-- the functions handed to `calculate`, the most recent first -/
  calculated : List (List Slot) := []
  deriving DecidableEq, Repr

/-- The result of running a C function on a state. -/
inductive Res (α : Type) where
  | ok (a : α) (s : PState)
  | abort (s : PState)
  | nofuel
  deriving DecidableEq, Repr

/-- A C function that returns an `α`. -/
def P (α : Type) : Type := PState → Res α

/-- Return normally. -/
def P.pure {α : Type} (a : α) : P α := fun s => Res.ok a s

/-- Sequencing: the second function runs when the first returns. -/
def P.bind {α β : Type} (m : P α) (f : α → P β) : P β := fun s =>
  match m s with
  | Res.ok a s1 => f a s1
  | Res.abort s1 => Res.abort s1
  | Res.nofuel => Res.nofuel

instance : Monad P where
  pure := P.pure
  bind := P.bind

/-- Read the state. -/
def getS : P PState := fun s => Res.ok s s

/-- Change the state. -/
def modS (f : PState → PState) : P Unit := fun s => Res.ok () (f s)

/-- The run is out of fuel. -/
def outOfFuel {α : Type} : P α := fun _ => Res.nofuel

/-- The non-local exit `longjmp(jmpbuf, 1)`. -/
def longjmp {α : Type} : P α := fun s => Res.abort s

/-! ## token.c, at the level of tokens -/

/-- Modelled from the spec: the token modes of token.h, which is not part of the
sources: the default mode, "return end-of-line as a token" and "treat almost
all characters as identifier text". -/
def TM_DEFAULT : Nat := 0

/-- Modelled from the spec: see `TM_DEFAULT`. -/
def TM_NEWLINES : Nat := 1

/-- Modelled from the spec: see `TM_DEFAULT`. -/
def TM_ALLSYMS : Nat := 2

/-- The function `tokenmode` of token.c: set the mode flags, return the old ones. -/
def tokenmode (flag : Nat) : P Nat := fun s =>
  let oldflag := TM_DEFAULT
  let oldflag := if s.newlines then oldflag ||| TM_NEWLINES else oldflag
  let oldflag := if s.allsyms then oldflag ||| TM_ALLSYMS else oldflag
  Res.ok oldflag { s with
    newlines := (flag &&& TM_NEWLINES) != 0,
    allsyms := (flag &&& TM_ALLSYMS) != 0 }

/-- The scanning loop of `gettoken`, on the tokens still to come: an end of line
is a token only in newline mode and is skipped otherwise, a `T_NULL` is never
returned, and the end of the input is `T_EOF`, again at every further read. -/
def scantoken (newlines : Bool) : List Token → Token × List Token
  | [] => ({ t_type := T_EOF }, [])
  | t :: ts =>
    if t.t_type = T_NULL then scantoken newlines ts
    else if t.t_type = T_NEWLINE ∧ newlines = false then scantoken newlines ts
    else (t, ts)

/-- The function `gettoken` of token.c: the current token again when `rescan` is
set, the next token of the input otherwise. -/
def gettoken : P TokenType := fun s =>
  if s.rescan then
    Res.ok s.curtoken.t_type { s with rescan := false }
  else
    let r := scantoken s.newlines s.input
    Res.ok r.1.t_type { s with curtoken := r.1, input := r.2 }

/-- The function `rescantoken` of token.c. -/
def rescantoken : P Unit := modS fun s => { s with rescan := true }

/-- The function `tokenstring` of token.c. -/
def tokenstring : P Int := fun s => Res.ok s.curtoken.t_strindex s

/-- The function `tokennumber` of token.c. -/
def tokennumber : P Int := fun s => Res.ok s.curtoken.t_numindex s

/-- The test `nextchar() == ':'` of `getstatement` together with the `reread()`
that follows it when the test fails: true, and the colon is consumed, when the
next character of the input is a colon. -/
def nextchar_is_colon : P Bool := fun s =>
  match s.input with
  | t :: ts =>
    if t.t_type = T_COLON ∧ t.t_glued = true then Res.ok true { s with input := ts }
    else Res.ok false s
  | [] => Res.ok false s

/-- The loops of `scanerror` that discard tokens up to a boundary: end of line,
semicolon, brace or end of file, and also a comma when `comma` is set.  The
boundary token is left to be read again. -/
def scanerror_skip (comma : Bool) : Nat → P Unit
  | 0 => outOfFuel
  | n + 1 => do
    let t ← gettoken
    match t with
    | T_NEWLINE | T_SEMICOLON | T_LEFTBRACE | T_RIGHTBRACE | T_EOF =>
      modS fun s => { s with rescan := true }
    | T_COMMA =>
      if comma then modS fun s => { s with rescan := true }
      else scanerror_skip comma n
    | _ => scanerror_skip comma n

/-- The function `scanerror` of token.c: count the error, abort when there are too
many, otherwise skip to the boundary that `skip` names.  The message is not
modelled.  The skipping loop reads at most every token of the input once more
than there are tokens, which is the fuel it is given. -/
def scanerror (skip : TokenType) : P Unit := fun s =>
  let s := { s with errorcount := s.errorcount + 1 }
  if s.maxscancount > 0 ∧ s.errorcount > s.maxscancount then
    Res.abort s
  else
    match skip with
    | T_NULL => Res.ok () s
    | T_COMMA => scanerror_skip true (s.input.length + 2) { s with rescan := true }
    | _ => scanerror_skip false (s.input.length + 2) { s with rescan := true }

/-! ## The opcode emitter and the label manager -/

/-- Modelled from the spec: the emitter `addop` of func.c, which is not part of
the sources: "a thin append-only writer of instructions".  It appends the
opcode and remembers it. -/
def addop (op : Opcode) : P Unit := modS fun s =>
  { s with f_opcodes := s.f_opcodes ++ [Slot.op op], oldop := op }

/-- The store `f_opcodes[f_opcodecount++] = v` of an inline operand. -/
def addarg (v : Int) : P Unit := modS fun s =>
  { s with f_opcodes := s.f_opcodes ++ [Slot.arg v] }

/-- Modelled from the spec: `addopone` of func.c: an opcode and one inline operand. -/
def addopone (op : Opcode) (arg : Int) : P Unit := do
  addop op
  addarg arg

/-- Modelled from the spec: `addoptwo` of func.c: an opcode and two inline operands. -/
def addoptwo (op : Opcode) (arg1 arg2 : Int) : P Unit := do
  addop op
  addarg arg1
  addarg arg2

/-- Modelled from the spec: `addopptr` of func.c: an opcode and a symbolic pointer. -/
def addopptr (op : Opcode) (ptr : Int) : P Unit := do
  addop op
  addarg ptr

/-- Modelled from the spec: `addopfunction` of func.c: an opcode and a
function-index/argument-count pair. -/
def addopfunction (op : Opcode) (index : Int) (argcount : Int) : P Unit := do
  addop op
  addarg index
  addarg argcount

/-- Modelled from the spec: `clearopt` of func.c: the emitter forgets the opcode
it appended last. -/
def clearopt : P Unit := modS fun s => { s with oldop := OP_NOP }

/-- Modelled from the spec: `writeindexop` of func.c: an index address that was
emitted for reading, flag FALSE, is "rewritten in place to write-capable form":
when the opcode appended last is `OP_INDEXADDR`, its flag operand, the last
cell, becomes TRUE. -/
def writeindexop : P Unit := modS fun s =>
  if s.oldop = OP_INDEXADDR then
    { s with f_opcodes := s.f_opcodes.set (s.f_opcodes.length - 1) (Slot.arg 1) }
  else s

/-- The declaration of a local `LABEL`: a new label, whose identity is its position
among the labels. -/
def newlabel : P Nat := fun s =>
  Res.ok s.labels.length { s with labels := s.labels ++ [{}] }

/-- The label behind a label pointer. -/
def readlabel (lp : Nat) : P LABEL := fun s => Res.ok (s.labels.getD lp {}) s

/-- Modelled from the spec: `clearlabel` of label.c: the label becomes unresolved
with an empty chain. -/
def clearlabel (lp : Nat) : P Unit := modS fun s =>
  { s with labels := s.labels.set lp { s.labels.getD lp {} with l_offset := -1, l_sites := [] } }

/-- Overwrite every patch site with the offset. -/
def patchsites (sites : List Nat) (offset : Int) (code : List Slot) : List Slot :=
  sites.foldl (fun c p => c.set p (Slot.arg offset)) code

/-- Modelled from the spec: `setlabel` of label.c: "resolving it walks and
overwrites every chained patch site with the final offset, then marks the
label resolved"; the offset is the current end of the code. -/
def setlabel (lp : Nat) : P Unit := modS fun s =>
  let l := s.labels.getD lp {}
  let offset : Int := s.f_opcodes.length
  { s with
    f_opcodes := patchsites l.l_sites offset s.f_opcodes,
    labels := s.labels.set lp { l with l_offset := offset, l_sites := [] } }

/-- Modelled from the spec: `uselabel` of label.c: the operand of a jump.  For a
resolved label "the address is substituted immediately"; for an unresolved one
the operand cell joins the chain of patch sites (and holds the site before
it until it is patched). -/
def uselabel (lp : Nat) : P Unit := modS fun s =>
  let l := s.labels.getD lp {}
  if l.l_offset ≥ 0 then
    { s with f_opcodes := s.f_opcodes ++ [Slot.arg l.l_offset] }
  else
    { s with
      f_opcodes := s.f_opcodes ++ [Slot.arg l.l_chain],
      labels := s.labels.set lp { l with l_sites := s.f_opcodes.length :: l.l_sites } }

/-- Modelled from the spec: `addoplabel` of func.c: a jump opcode referring to a
label. -/
def addoplabel (op : Opcode) (lp : Nat) : P Unit := do
  addop op
  uselabel lp

/-- The position of a named label. -/
def findlabel (name : Int) (ls : List LABEL) : Option Nat :=
  ls.findIdx? fun l => l.l_name == some name

/-- Modelled from the spec: `definelabel` of label.c: the target `name:` of a
`goto`.  A label is resolved at most once, so a second definition is a
recoverable error; otherwise the label, new if no `goto` named it before, is
resolved here. -/
def definelabel (name : Int) : P Unit := fun s =>
  match findlabel name s.labels with
  | some i =>
    if (s.labels.getD i {}).l_offset ≥ 0 then scanerror T_NULL s
    else setlabel i s
  | none =>
    setlabel s.labels.length
      { s with labels := s.labels ++ [{ l_name := some name }] }

/-- Modelled from the spec: `addlabel` of label.c: the operand of `goto name`, a
reference to the label of that name, new and unresolved if it is not known. -/
def addlabel (name : Int) : P Unit := fun s =>
  match findlabel name s.labels with
  | some i => uselabel i s
  | none =>
    uselabel s.labels.length
      { s with labels := s.labels ++ [{ l_name := some name }] }

/-- The loop of `checklabels` over the labels. -/
def checklabels_loop : List LABEL → P Unit
  | [] => P.pure ()
  | l :: ls => do
    if l.l_name.isSome ∧ l.l_offset < 0 then scanerror T_NULL
    checklabels_loop ls

/-- Modelled from the spec: `checklabels` of label.c: "any goto target referenced
but never defined is reported as an additional error". -/
def checklabels : P Unit := fun s => checklabels_loop s.labels s

/-! ## The collaborators of the parser -/

/-- Modelled from the spec: the symbol types of symbol.h, the classes of the scope
contract: "parameter, local-to-current-block, static, global, undefined". -/
inductive SymType where
  | SYM_UNDEFINED | SYM_PARAM | SYM_LOCAL | SYM_GLOBAL | SYM_STATIC
  deriving DecidableEq, Repr

open SymType

/-- Modelled from the spec: `symboltype` of symbol.c, the `classify` of the scope
contract.  A parameter or local of the function comes before a global of the
same name, which it shadows. -/
def symboltype (name : Int) : P SymType := fun s =>
  Res.ok
    (if s.params.contains name then SYM_PARAM
     else if s.locals.contains name then SYM_LOCAL
     else match s.globals.find? (fun g => g.1 == name) with
       | some g => if g.2 then SYM_STATIC else SYM_GLOBAL
       | none => SYM_UNDEFINED) s

/-- Modelled from the spec: `addlocal` of symbol.c, `declare_local`. -/
def addlocal (name : Int) : P Unit := modS fun s =>
  { s with locals := s.locals ++ [name] }

/-- Modelled from the spec: `addparam` of symbol.c, `declare_parameter`. -/
def addparam (name : Int) : P Unit := modS fun s =>
  { s with params := s.params ++ [name] }

/-- Modelled from the spec: `addglobal` of symbol.c, `declare_global(name,
is_static)`: the binding of the name is renewed when there is one. -/
def addglobal (name : Int) (isstatic : Bool) : P Unit := modS fun s =>
  if s.globals.any (fun g => g.1 == name) then
    { s with globals := s.globals.map fun g => if g.1 == name then (name, isstatic) else g }
  else
    { s with globals := s.globals ++ [(name, isstatic)] }

/-- Modelled from the spec: `findlocal` of symbol.c, the slot index of a local. -/
def findlocal (name : Int) : P Int := fun s => Res.ok (s.locals.indexOf name) s

/-- Modelled from the spec: `findparam` of symbol.c, the slot index of a parameter. -/
def findparam (name : Int) : P Int := fun s => Res.ok (s.params.indexOf name) s

/-- Modelled from the spec: `findglobal` of symbol.c, the persistent slot of a
global, here its position among the globals. -/
def findglobal (name : Int) : P Int := fun s =>
  Res.ok ((s.globals.map Prod.fst).indexOf name) s

/-- The position of `x` in a table of names, -1 when it is not there: what
`findstr` of string.c answers. -/
def findstr (table : List Int) (x : Int) : Int :=
  if table.contains x then table.indexOf x else -1

/-- Modelled from the spec: `getbuiltinfunc` of func.c, `lookup_builtin`: the
index of a built-in function, negative when the name is not built in. -/
def getbuiltinfunc (name : Int) : P Int := fun s =>
  Res.ok (findstr (s.builtins.map BuiltinFunc.b_name) name) s

/-- Modelled from the spec: `builtincheck` of func.c, the "arity-checking hook" of
the built-in registry: a recoverable error for too few and for too many
arguments. -/
def builtincheck (index : Int) (count : Int) : P Unit := do
  let s ← getS
  let b := s.builtins.getD index.toNat { b_name := 0, b_minargs := 0, b_maxargs := 0 }
  if count < b.b_minargs then scanerror T_NULL
  if count > b.b_maxargs then scanerror T_NULL

/-- Modelled from the spec: `adduserfunc` of func.c, `intern_user_function`. -/
def adduserfunc (name : Int) : P Int := fun s =>
  if s.userfuncs.contains name then Res.ok (s.userfuncs.indexOf name) s
  else Res.ok s.userfuncs.length { s with userfuncs := s.userfuncs ++ [name] }

/-- The function `addelement` of obj.c. -/
def addelement (name : Int) : P Int := fun s =>
  let index := findstr s.elements name
  if index ≥ 0 then Res.ok index s
  else
    let s1 := { s with elements := s.elements ++ [name] }
    Res.ok (findstr s1.elements name) s1

/-- The function `findelement` of obj.c. -/
def findelement (name : Int) : P Int := fun s => Res.ok (findstr s.elements name) s

/-- The function `checkobject` of obj.c. -/
def checkobject (name : Int) : P Int := fun s =>
  Res.ok (findstr (s.objects.map ObjectType.name) name) s

/-- Modelled from the spec: the constant MAXOBJECTS of calc.h, the number of object
types that can exist. -/
def MAXOBJECTS : Nat := 10

/-- The function `math_error`: a fatal error, which leaves through the non-local
exit. -/
def math_error {α : Type} : P α := fun s => Res.abort s

/-- The function `defineobject` of obj.c, for the element indices collected by
`getobjdeclaration`; `count` is their number. -/
def defineobject (name : Int) (indices : List Int) : P Unit := fun s =>
  let index := findstr (s.objects.map ObjectType.name) name
  if index ≥ 0 then
    let oap := s.objects.getD index.toNat { name := 0, elements := [] }
    if oap.elements = indices then Res.ok () s
    else math_error s
  else if s.objects.length ≥ MAXOBJECTS then math_error s
  else Res.ok () { s with objects := s.objects ++ [{ name := name, elements := indices }] }

/-- The conversion `itoq` of qmath.h. -/
def itoq (i : Int) : QConst := { num := i, den := 1 }

/-- Modelled from the spec: `addqconstant` of const.c, `intern_numeric_constant`:
the index of the constant in the constant table, where it is entered when it
is new. -/
def addqconstant (q : QConst) : P Int := fun s =>
  if s.constants.contains q then Res.ok (s.constants.indexOf q) s
  else Res.ok s.constants.length { s with constants := s.constants ++ [q] }

/-- The function `linenumber` of input.c, which the parser only reads. -/
def linenumber : P Int := fun s => Res.ok s.lineno s

/-- The handle of the name `fact`, the built-in function behind the postfix `!`. -/
def NAME_fact : Int := -1

/-- The handle of the name `quomod`, which `getcallargs` compares names with. -/
def NAME_quomod : Int := -2

/-- Modelled from the spec: the constant MAXDIM of calc.h, the number of
dimensions a matrix can have. -/
def MAXDIM : Int := 4

/-- Modelled from the spec: the expression type-flags: "already-an-rvalue (not
further assignable)". -/
def EXPR_RVALUE : Nat := 1

/-- Modelled from the spec: the expression type-flags: "compile-time-constant". -/
def EXPR_CONST : Nat := 2

/-- Modelled from the spec: the expression type-flags: "is itself an assignment". -/
def EXPR_ASSIGN : Nat := 4

/-- Modelled from the spec: the macro `isrvalue`. -/
def isrvalue (n : Nat) : Bool := (n &&& EXPR_RVALUE) != 0

/-- Modelled from the spec: the macro `isassign`. -/
def isassign (n : Nat) : Bool := (n &&& EXPR_ASSIGN) != 0

/-! ## codegen.c: names -/

/-- The function `getid` of codegen.c: the flag it returns and the name it copies
into the buffer. -/
def getid : P (Bool × Int) := do
  let type ← gettoken
  if iskeyword type then
    scanerror T_NULL
    pure (false, 0)
  else if type ≠ T_SYMBOL then
    rescantoken
    scanerror T_NULL
    pure (false, 0)
  else
    let name ← tokenstring
    pure (true, name)

/-- The function `definesymbol` of codegen.c. -/
def definesymbol (name : Int) (symtype : SymType) : P Unit := do
  match (← symboltype name) with
  | SYM_UNDEFINED | SYM_GLOBAL | SYM_STATIC =>
    if symtype = SYM_LOCAL then addlocal name
    else addglobal name (symtype = SYM_STATIC)
  | SYM_PARAM | SYM_LOCAL =>
    scanerror T_COMMA

/-- The function `usesymbol` of codegen.c. -/
def usesymbol (name : Int) (autodef : Bool) : P Unit := do
  match (← symboltype name) with
  | SYM_LOCAL => addopone OP_LOCALADDR (← findlocal name)
  | SYM_PARAM => addopone OP_PARAMADDR (← findparam name)
  | SYM_GLOBAL | SYM_STATIC => addopptr OP_GLOBALADDR (← findglobal name)
  | SYM_UNDEFINED =>
    let s ← getS
    if s.f_name.head? ≠ some '*' ∨ autodef = false then
      scanerror T_NULL
    else
      addglobal name false
      addopptr OP_GLOBALADDR (← findglobal name)

/-- The function `getelement` of codegen.c. -/
def getelement : P Unit := do
  let (ok, name) ← getid
  if ok = false then pure ()
  else
    let index ← findelement name
    if index < 0 then scanerror T_NULL
    else addopone OP_ELEMADDR index

/-- The loop `while (gettoken() == T_COMMA);` of `getonematrix` and `getoneobj`. -/
def skipcommas : Nat → P Unit
  | 0 => outOfFuel
  | n + 1 => do
    if (← gettoken) = T_COMMA then skipcommas n
    else pure ()

/-- The loop of `getshiftexpr` after a postfix `++` or `--`: the token that ends
it. -/
def getshiftexpr_loop : Nat → P TokenType
  | 0 => outOfFuel
  | n + 1 => do
    let tok ← gettoken
    match tok with
    | T_PLUSPLUS => do
      addop OP_PREINC
      getshiftexpr_loop n
    | T_MINUSMINUS => do
      addop OP_PREDEC
      getshiftexpr_loop n
    | _ => do
      addop OP_POP
      pure tok

/-! ## codegen.c: expressions

Every grammar rule takes the fuel first and hands one unit less to the rules it
calls; a loop `for (;;)` of the source is the function `..._loop`, which covers
the body of the loop and what follows the loop.  A local `LABEL` comes into
being with the `clearlabel` that starts its life. -/

mutual

/-- The function `getexprlist` of codegen.c. -/
def getexprlist : Nat → P Nat
  | 0 => outOfFuel
  | n + 1 => do
    let type ← getassignment n
    getexprlist_loop n type
termination_by structural n => n

/-- The loop of `getexprlist`. -/
def getexprlist_loop : Nat → Nat → P Nat
  | 0, _ => outOfFuel
  | n + 1, type => do
    if (← gettoken) = T_COMMA then
      addop OP_POP
      let _ ← getassignment n
      getexprlist_loop n EXPR_RVALUE
    else
      rescantoken
      pure type
termination_by structural n _ => n

/-- The function `getassignment` of codegen.c; `assign` is the code after the
switch, for the operation `op` of a compound assignment, none for `=`. -/
def getassignment : Nat → P Nat
  | 0 => outOfFuel
  | n + 1 => do
    let type ← getaltcond n
    let assign : Option Opcode → P Nat := fun op => do
      if isrvalue type then
        scanerror T_NULL
        let _ ← getassignment n
        pure (EXPR_RVALUE ||| EXPR_ASSIGN)
      else
        writeindexop
        if op.isSome then addop OP_DUPLICATE
        if (← gettoken) = T_LEFTBRACE then
          rescantoken
          match op with
          | some o => do
            addop OP_DUPVALUE
            let _ ← getinitlist n
            addop o
            addop OP_ASSIGN
            pure EXPR_ASSIGN
          | none => do
            let _ ← getinitlist n
            pure EXPR_ASSIGN
        else
          rescantoken
          let _ ← getassignment n
          match op with
          | some o => do
            addop o
            addop OP_ASSIGN
            pure EXPR_ASSIGN
          | none => do
            addop OP_ASSIGN
            pure EXPR_ASSIGN
    match (← gettoken) with
    | T_ASSIGN => assign none
    | T_PLUSEQUALS => assign (some OP_ADD)
    | T_MINUSEQUALS => assign (some OP_SUB)
    | T_MULTEQUALS => assign (some OP_MUL)
    | T_DIVEQUALS => assign (some OP_DIV)
    | T_SLASHSLASHEQUALS => assign (some OP_QUO)
    | T_MODEQUALS => assign (some OP_MOD)
    | T_ANDEQUALS => assign (some OP_AND)
    | T_OREQUALS => assign (some OP_OR)
    | T_LSHIFTEQUALS => assign (some OP_LEFTSHIFT)
    | T_RSHIFTEQUALS => assign (some OP_RIGHTSHIFT)
    | T_POWEREQUALS => assign (some OP_POWER)
    | T_NUMBER | T_IMAGINARY | T_STRING | T_SYMBOL | T_OLDVALUE
    | T_LEFTPAREN | T_PLUSPLUS | T_MINUSMINUS | T_NOT => do
      scanerror T_NULL
      pure type
    | _ => do
      rescantoken
      pure type
termination_by structural n => n

/-- The function `getaltcond` of codegen.c. -/
def getaltcond : Nat → P Nat
  | 0 => outOfFuel
  | n + 1 => do
    let type ← getorcond n
    if (← gettoken) ≠ T_QUESTIONMARK then
      rescantoken
      pure type
    else
      let donelab ← newlabel
      let altlab ← newlabel
      addoplabel OP_JUMPEQ altlab
      let _ ← getaltcond n
      if (← gettoken) ≠ T_COLON then
        scanerror T_SEMICOLON
        pure EXPR_RVALUE
      else
        addoplabel OP_JUMP donelab
        setlabel altlab
        let _ ← getaltcond n
        setlabel donelab
        pure EXPR_RVALUE
termination_by structural n => n

/-- The function `getorcond` of codegen.c. -/
def getorcond : Nat → P Nat
  | 0 => outOfFuel
  | n + 1 => do
    let donelab ← newlabel
    let type ← getandcond n
    getorcond_loop n donelab type
termination_by structural n => n

/-- The loop of `getorcond` and the code after it. -/
def getorcond_loop : Nat → Nat → Nat → P Nat
  | 0, _, _ => outOfFuel
  | n + 1, donelab, type => do
    if (← gettoken) = T_OROR then
      addoplabel OP_CONDORJUMP donelab
      let _ ← getandcond n
      getorcond_loop n donelab EXPR_RVALUE
    else
      rescantoken
      if (← readlabel donelab).l_chain > 0 then setlabel donelab
      pure type
termination_by structural n _ _ => n

/-- The function `getandcond` of codegen.c. -/
def getandcond : Nat → P Nat
  | 0 => outOfFuel
  | n + 1 => do
    let donelab ← newlabel
    let type ← getrelation n
    getandcond_loop n donelab type
termination_by structural n => n

/-- The loop of `getandcond` and the code after it. -/
def getandcond_loop : Nat → Nat → Nat → P Nat
  | 0, _, _ => outOfFuel
  | n + 1, donelab, type => do
    if (← gettoken) = T_ANDAND then
      addoplabel OP_CONDANDJUMP donelab
      let _ ← getrelation n
      getandcond_loop n donelab EXPR_RVALUE
    else
      rescantoken
      if (← readlabel donelab).l_chain > 0 then setlabel donelab
      pure type
termination_by structural n _ _ => n

/-- The function `getrelation` of codegen.c. -/
def getrelation : Nat → P Nat
  | 0 => outOfFuel
  | n + 1 => do
    let type ← getsum n
    let relation : Opcode → P Nat := fun op => do
      let _ ← getsum n
      addop op
      pure EXPR_RVALUE
    match (← gettoken) with
    | T_EQ => relation OP_EQ
    | T_NE => relation OP_NE
    | T_LT => relation OP_LT
    | T_GT => relation OP_GT
    | T_LE => relation OP_LE
    | T_GE => relation OP_GE
    | _ => do
      rescantoken
      pure type
termination_by structural n => n

/-- The function `getsum` of codegen.c. -/
def getsum : Nat → P Nat
  | 0 => outOfFuel
  | n + 1 => do
    let type ← getproduct n
    getsum_loop n type
termination_by structural n => n

/-- The loop of `getsum`. -/
def getsum_loop : Nat → Nat → P Nat
  | 0, _ => outOfFuel
  | n + 1, type => do
    let sum : Opcode → P Nat := fun op => do
      let _ ← getproduct n
      addop op
      getsum_loop n EXPR_RVALUE
    match (← gettoken) with
    | T_PLUS => sum OP_ADD
    | T_MINUS => sum OP_SUB
    | _ => do
      rescantoken
      pure type
termination_by structural n _ => n

/-- The function `getproduct` of codegen.c. -/
def getproduct : Nat → P Nat
  | 0 => outOfFuel
  | n + 1 => do
    let type ← getorexpr n
    getproduct_loop n type
termination_by structural n => n

/-- The loop of `getproduct`. -/
def getproduct_loop : Nat → Nat → P Nat
  | 0, _ => outOfFuel
  | n + 1, type => do
    let product : Opcode → P Nat := fun op => do
      let _ ← getorexpr n
      addop op
      getproduct_loop n EXPR_RVALUE
    match (← gettoken) with
    | T_MULT => product OP_MUL
    | T_DIV => product OP_DIV
    | T_MOD => product OP_MOD
    | T_SLASHSLASH => product OP_QUO
    | _ => do
      rescantoken
      pure type
termination_by structural n _ => n

/-- The function `getorexpr` of codegen.c. -/
def getorexpr : Nat → P Nat
  | 0 => outOfFuel
  | n + 1 => do
    let type ← getandexpr n
    getorexpr_loop n type
termination_by structural n => n

/-- The loop of `getorexpr`. -/
def getorexpr_loop : Nat → Nat → P Nat
  | 0, _ => outOfFuel
  | n + 1, type => do
    if (← gettoken) = T_OR then
      let _ ← getandexpr n
      addop OP_OR
      getorexpr_loop n EXPR_RVALUE
    else
      rescantoken
      pure type
termination_by structural n _ => n

/-- The function `getandexpr` of codegen.c. -/
def getandexpr : Nat → P Nat
  | 0 => outOfFuel
  | n + 1 => do
    let type ← getshiftexpr n
    getandexpr_loop n type
termination_by structural n => n

/-- The loop of `getandexpr`. -/
def getandexpr_loop : Nat → Nat → P Nat
  | 0, _ => outOfFuel
  | n + 1, type => do
    if (← gettoken) = T_AND then
      let _ ← getshiftexpr n
      addop OP_AND
      getandexpr_loop n EXPR_RVALUE
    else
      rescantoken
      pure type
termination_by structural n _ => n

/-- The function `getshiftexpr` of codegen.c. -/
def getshiftexpr : Nat → P Nat
  | 0 => outOfFuel
  | n + 1 => do
    let type ← getterm n
    let tok ← gettoken
    let (type, tok) ← (
      if tok = T_PLUSPLUS ∨ tok = T_MINUSMINUS then do
        if isrvalue type then scanerror T_NULL
        writeindexop
        if tok = T_PLUSPLUS then addop OP_POSTINC else addop OP_POSTDEC
        let tok ← getshiftexpr_loop n
        pure (EXPR_RVALUE ||| EXPR_ASSIGN, tok)
      else pure (type, tok) : P (Nat × TokenType))
    let (type, tok) ← (
      if tok = T_NOT then do
        addopfunction OP_CALL (← getbuiltinfunc NAME_fact) 1
        let tok ← gettoken
        pure (EXPR_RVALUE, tok)
      else pure (type, tok) : P (Nat × TokenType))
    let shift : Opcode → P Nat := fun op => do
      let _ ← getshiftexpr n
      addop op
      pure EXPR_RVALUE
    match tok with
    | T_POWER => shift OP_POWER
    | T_LEFTSHIFT => shift OP_LEFTSHIFT
    | T_RIGHTSHIFT => shift OP_RIGHTSHIFT
    | _ => do
      rescantoken
      pure type
termination_by structural n => n

/-- The function `getterm` of codegen.c. -/
def getterm : Nat → P Nat
  | 0 => outOfFuel
  | n + 1 => do
    let type ← gettoken
    match type with
    | T_NUMBER => do
      addopone OP_NUMBER (← tokennumber)
      pure (EXPR_RVALUE ||| EXPR_CONST)
    | T_IMAGINARY => do
      addopone OP_IMAGINARY (← tokennumber)
      pure (EXPR_RVALUE ||| EXPR_CONST)
    | T_OLDVALUE => do
      addop OP_OLDVALUE
      pure 0
    | T_STRING => do
      addopptr OP_STRING (← tokenstring)
      pure (EXPR_RVALUE ||| EXPR_CONST)
    | T_PLUSPLUS => do
      if isrvalue (← getterm n) then scanerror T_NULL
      writeindexop
      addop OP_PREINC
      pure EXPR_ASSIGN
    | T_MINUSMINUS => do
      if isrvalue (← getterm n) then scanerror T_NULL
      writeindexop
      addop OP_PREDEC
      pure EXPR_ASSIGN
    | T_NOT => do
      let _ ← getterm n
      addop OP_NOT
      pure EXPR_RVALUE
    | T_MINUS => do
      let _ ← getterm n
      addop OP_NEGATE
      pure EXPR_RVALUE
    | T_PLUS => do
      let _ ← getterm n
      pure EXPR_RVALUE
    | T_LEFTPAREN => do
      let type ← getexprlist n
      if (← gettoken) ≠ T_RIGHTPAREN then scanerror T_SEMICOLON
      pure type
    | T_MAT => do
      getmatdeclaration n SYM_UNDEFINED
      pure EXPR_ASSIGN
    | T_OBJ => do
      getobjdeclaration n SYM_UNDEFINED
      pure EXPR_ASSIGN
    | T_SYMBOL => do
      rescantoken
      getidexpr n true false
    | T_LEFTBRACKET => do
      scanerror T_NULL
      pure 0
    | T_PERIOD => do
      scanerror T_NULL
      pure 0
    | _ => do
      if iskeyword type then
        scanerror T_NULL
        pure 0
      else
        rescantoken
        scanerror T_COMMA
        pure 0
termination_by structural n => n

/-- The function `getidexpr` of codegen.c. -/
def getidexpr : Nat → Bool → Bool → P Nat
  | 0, _, _ => outOfFuel
  | n + 1, okmat, autodef => do
    let (ok, name) ← getid
    if ok = false then pure 0
    else
      match (← gettoken) with
      | T_LEFTPAREN => getcallargs n name
      | T_ASSIGN => do
        rescantoken
        usesymbol name true
      | _ => do
        rescantoken
        usesymbol name autodef
      getidexpr_loop n okmat
termination_by structural n _ _ => n

/-- The loop of `getidexpr` over the index and element references. -/
def getidexpr_loop : Nat → Bool → P Nat
  | 0, _ => outOfFuel
  | n + 1, okmat => do
    match (← gettoken) with
    | T_LEFTBRACKET => do
      rescantoken
      if okmat = false then pure 0
      else
        getmatargs n
        getidexpr_loop n okmat
    | T_PERIOD => do
      getelement
      getidexpr_loop n okmat
    | T_LEFTPAREN => do
      scanerror T_NULL
      rescantoken
      pure 0
    | _ => do
      rescantoken
      pure 0
termination_by structural n _ => n

/-- The function `getmatargs` of codegen.c. -/
def getmatargs : Nat → P Unit
  | 0 => outOfFuel
  | n + 1 => do
    if (← gettoken) ≠ T_LEFTBRACKET then
      scanerror T_NULL
    else if (← gettoken) = T_LEFTBRACKET then
      let _ ← getassignment n
      if (← gettoken) ≠ T_RIGHTBRACKET then scanerror T_NULL
      else if (← gettoken) ≠ T_RIGHTBRACKET then scanerror T_NULL
      else addop OP_FIADDR
    else
      rescantoken
      getmatargs_loop n 1
termination_by structural n => n

/-- The loop of `getmatargs` over the indices. -/
def getmatargs_loop : Nat → Int → P Unit
  | 0, _ => outOfFuel
  | n + 1, dim => do
    let _ ← getassignment n
    match (← gettoken) with
    | T_RIGHTBRACKET => addoptwo OP_INDEXADDR dim 0
    | T_COMMA => getmatargs_loop n (dim + 1)
    | _ => do
      rescantoken
      scanerror T_NULL
termination_by structural n _ => n

/-- The function `getcallargs` of codegen.c. -/
def getcallargs : Nat → Int → P Unit
  | 0, _ => outOfFuel
  | n + 1, name => do
    let builtin ← getbuiltinfunc name
    let (op, index) ← (
      if builtin < 0 then do
        let index ← adduserfunc name
        pure (OP_USERCALL, index)
      else pure (OP_CALL, builtin) : P (Opcode × Int))
    if (← gettoken) = T_RIGHTPAREN then
      if op = OP_CALL then builtincheck index 0
      addopfunction op index 0
    else
      rescantoken
      getcallargs_loop n name op index 0
termination_by structural n _ => n

/-- The loop of `getcallargs` over the arguments; `argcount` is the count before
the `argcount++` that starts the round. -/
def getcallargs_loop : Nat → Int → Opcode → Int → Int → P Unit
  | 0, _, _, _, _ => outOfFuel
  | n + 1, name, op, index, argcount0 => do
    let argcount := argcount0 + 1
    if (← gettoken) = T_RIGHTPAREN then
      addop OP_UNDEF
      if op = OP_CALL then builtincheck index argcount
      addopfunction op index argcount
    else
      rescantoken
      if (← gettoken) = T_COMMA then
        addop OP_UNDEF
        getcallargs_loop n name op index argcount
      else
        rescantoken
        let addrflag : Bool := (← gettoken) = T_AND
        if addrflag = false then rescantoken
        let type ← getassignment n
        if addrflag then
          if isrvalue type then scanerror T_NULL
          writeindexop
        if addrflag = false ∧ op ≠ OP_CALL then addop OP_GETVALUE
        if name = NAME_quomod ∧ argcount > 2 then writeindexop
        match (← gettoken) with
        | T_RIGHTPAREN => do
          if op = OP_CALL then builtincheck index argcount
          addopfunction op index argcount
        | T_COMMA => getcallargs_loop n name op index argcount
        | _ => scanerror T_SEMICOLON
termination_by structural n _ _ _ _ => n

/-- The function `getmatdeclaration` of codegen.c. -/
def getmatdeclaration : Nat → SymType → P Unit
  | 0, _ => outOfFuel
  | n + 1, symtype => do
    getonematrix n symtype
    if (← gettoken) ≠ T_COMMA then
      rescantoken
    else
      addop OP_POP
      getmatdeclaration n symtype
termination_by structural n _ => n

/-- The function `getonematrix` of codegen.c. -/
def getonematrix : Nat → SymType → P Unit
  | 0, _ => outOfFuel
  | n + 1, symtype => do
    if (← gettoken) = T_SYMBOL then
      if symtype = SYM_UNDEFINED then
        rescantoken
        let _ ← getidexpr n false true
      else
        let name ← tokenstring
        definesymbol name symtype
        usesymbol name false
      skipcommas n
      rescantoken
      getonematrix n symtype
      addop OP_ASSIGN
    else
      rescantoken
      if (← gettoken) ≠ T_LEFTBRACKET then
        addopone OP_MATCREATE 0
        rescantoken
      else
        let dim : Int := 1
        if (← gettoken) = T_RIGHTBRACKET then
          clearopt
          let patchpc := (← getS).f_opcodes.length + 1
          addopone OP_NUMBER (-1)
          clearopt
          addop OP_ZERO
          addopone OP_MATCREATE dim
          addop OP_ZERO
          addop OP_INITFILL
          let count : Int ← (
            if (← gettoken) = T_ASSIGN then getinitlist n
            else do
              rescantoken
              pure 0 : P Int)
          let index ← addqconstant (itoq count)
          if index < 0 then math_error
          modS fun s => { s with f_opcodes := s.f_opcodes.set patchpc (Slot.arg index) }
        else
          rescantoken
          creatematrix n 1
          if (← gettoken) = T_ASSIGN then
            let _ ← getinitlist n
          else
            rescantoken
termination_by structural n _ => n

/-- The function `creatematrix` of codegen.c; the argument is `dim`, which is 1
when the function is entered. -/
def creatematrix : Nat → Int → P Unit
  | 0, _ => outOfFuel
  | n + 1, dim => do
    let _ ← getassignment n
    match (← gettoken) with
    | T_RIGHTBRACKET | T_COMMA => do
      rescantoken
      addop OP_ONE
      addop OP_SUB
      addop OP_ZERO
    | T_COLON => do
      let _ ← getassignment n
    | _ => rescantoken
    match (← gettoken) with
    | T_RIGHTBRACKET => do
      addopone OP_MATCREATE dim
      if (← gettoken) = T_LEFTBRACKET then
        creatematrix n 1
      else
        rescantoken
        addop OP_ZERO
      addop OP_INITFILL
    | T_COMMA =>
      if dim + 1 ≤ MAXDIM then creatematrix n (dim + 1)
      else scanerror T_SEMICOLON
    | _ => scanerror T_SEMICOLON
termination_by structural n _ => n

/-- The function `getinitlist` of codegen.c. -/
def getinitlist : Nat → P Int
  | 0 => outOfFuel
  | n + 1 => do
    let oldmode ← tokenmode TM_DEFAULT
    if (← gettoken) ≠ T_LEFTBRACE then
      scanerror T_SEMICOLON
      let _ ← tokenmode oldmode
      pure (-1)
    else
      getinitlist_loop n oldmode 0
termination_by structural n => n

/-- The loop of `getinitlist`; `entry` is the code after the first switch. -/
def getinitlist_loop : Nat → Nat → Int → P Int
  | 0, _, _ => outOfFuel
  | n + 1, oldmode, index => do
    let entry : P Int := do
      addopone OP_ELEMINIT index
      match (← gettoken) with
      | T_COMMA => getinitlist_loop n oldmode (index + 1)
      | T_RIGHTBRACE => do
        let _ ← tokenmode oldmode
        pure index
      | _ => do
        scanerror T_SEMICOLON
        let _ ← tokenmode oldmode
        pure (-1)
    match (← gettoken) with
    | T_COMMA => getinitlist_loop n oldmode (index + 1)
    | T_RIGHTBRACE => do
      let _ ← tokenmode oldmode
      pure index
    | T_LEFTBRACE => do
      rescantoken
      addop OP_DUPLICATE
      addopone OP_ELEMADDR index
      let _ ← getinitlist n
      entry
    | _ => do
      rescantoken
      let _ ← getassignment n
      entry
termination_by structural n _ _ => n

/-- The function `getobjdeclaration` of codegen.c. -/
def getobjdeclaration : Nat → SymType → P Unit
  | 0, _ => outOfFuel
  | n + 1, symtype => do
    if (← gettoken) ≠ T_SYMBOL then
      scanerror T_SEMICOLON
    else
      let name ← tokenstring
      if (← gettoken) ≠ T_LEFTBRACE then
        rescantoken
        getobjvars n name symtype
      else
        getobjdeclaration_loop n name symtype [] false
termination_by structural n _ => n

/-- The loop of `getobjdeclaration` over the element names; `indices` holds the
`count` indices stored so far. -/
def getobjdeclaration_loop : Nat → Int → SymType → List Int → Bool → P Unit
  | 0, _, _, _, _ => outOfFuel
  | n + 1, name, symtype, indices, err => do
    if (← gettoken) ≠ T_SYMBOL then
      scanerror T_SEMICOLON
    else
      let index ← addelement (← tokenstring)
      let err ← (
        if indices.contains index then do
          scanerror T_NULL
          pure true
        else pure err : P Bool)
      let indices := indices ++ [index]
      match (← gettoken) with
      | T_RIGHTBRACE =>
        if err = false then
          defineobject name indices
          getobjvars n name symtype
        else
          scanerror T_SEMICOLON
          getobjdeclaration_loop n name symtype indices err
      | T_COMMA | T_SEMICOLON | T_NEWLINE =>
        getobjdeclaration_loop n name symtype indices err
      | _ => scanerror T_SEMICOLON
termination_by structural n _ _ _ _ => n

/-- The function `getoneobj` of codegen.c. -/
def getoneobj : Nat → Int → SymType → P Unit
  | 0, _, _ => outOfFuel
  | n + 1, index, symtype => do
    if (← gettoken) = T_SYMBOL then
      if symtype = SYM_UNDEFINED then
        rescantoken
        let _ ← getidexpr n false true
      else
        let symname ← tokenstring
        definesymbol symname symtype
        usesymbol symname false
      skipcommas n
      rescantoken
      getoneobj n index symtype
      addop OP_ASSIGN
    else
      rescantoken
      addopone OP_OBJCREATE index
      if (← gettoken) = T_ASSIGN then
        let _ ← getinitlist n
      else
        rescantoken
termination_by structural n _ _ => n

/-- The function `getobjvars` of codegen.c. -/
def getobjvars : Nat → Int → SymType → P Unit
  | 0, _, _ => outOfFuel
  | n + 1, name, symtype => do
    let index ← checkobject name
    if index < 0 then
      scanerror T_SEMICOLON
    else
      getobjvars_loop n index symtype
termination_by structural n _ _ => n

/-- The loop of `getobjvars`. -/
def getobjvars_loop : Nat → Int → SymType → P Unit
  | 0, _, _ => outOfFuel
  | n + 1, index, symtype => do
    getoneobj n index symtype
    if (← gettoken) ≠ T_COMMA then
      rescantoken
    else
      addop OP_POP
      getobjvars_loop n index symtype
termination_by structural n _ _ => n

end

/-! ## codegen.c: statements and declarations -/

/-- The character `curfunc->f_name[i]`, the terminating NUL past the end. -/
def f_name_at (s : PState) (i : Nat) : Char := s.f_name.getD i (Char.ofNat 0)

/-- The function `getcondition` of codegen.c. -/
def getcondition (n : Nat) : P Unit := do
  if (← gettoken) ≠ T_LEFTPAREN then
    scanerror T_SEMICOLON
  else
    let _ ← getexprlist n
    if (← gettoken) ≠ T_RIGHTPAREN then scanerror T_SEMICOLON

/-- The lookup `stringindex` of `getshowstatement`, of the first four letters of a
name among the topics: the position, from 1, or 0. -/
def stringindex (name : Int) : P Int := fun s =>
  Res.ok (match s.showindex.find? (fun e => e.1 == name) with
    | some e => e.2
    | none => 0) s

/-- The function `getshowstatement` of codegen.c; what it prints is not modelled. -/
def getshowstatement : P Unit := do
  match (← gettoken) with
  | T_SYMBOL => do
    let arg ← stringindex (← tokenstring)
    if arg = 9 then
      if (← gettoken) ≠ T_SYMBOL then
        rescantoken
        scanerror T_SEMICOLON
      else
        let index ← adduserfunc (← tokenstring)
        addopone OP_SHOW (index + 9)
    else if arg > 0 then addopone OP_SHOW arg
    else pure ()
  | _ => rescantoken

/-- The loop of the `print` statement in `getstatement`, which ends the statement. -/
def getstatement_print : Nat → Bool → P Unit
  | 0, _ => outOfFuel
  | n + 1, printeol => do
    match (← gettoken) with
    | T_RIGHTBRACE | T_NEWLINE | T_EOF => do
      rescantoken
      if printeol then addop OP_PRINTEOL
    | T_SEMICOLON =>
      if printeol then addop OP_PRINTEOL
    | T_COMMA => do
      addop OP_PRINTSPACE
      getstatement_print n false
    | T_COLON => getstatement_print n false
    | T_STRING => do
      addopptr OP_PRINTSTRING (← tokenstring)
      getstatement_print n true
    | _ => do
      rescantoken
      let _ ← getassignment n
      addopone OP_PRINT 0
      getstatement_print n true

/-- The function `getonedeclaration` of codegen.c.  The local `label` exists from
the entry of the function and is cleared for a static declaration. -/
def getonedeclaration (n : Nat) (type : TokenType) : P Unit := do
  let label ← newlabel
  let symtype ← (
    match type with
    | T_LOCAL => pure SYM_LOCAL
    | T_GLOBAL => pure SYM_GLOBAL
    | T_STATIC => do
      clearlabel label
      addoplabel OP_INITSTATIC label
      pure SYM_STATIC
    | _ => pure SYM_UNDEFINED : P SymType)
  match (← gettoken) with
  | T_SYMBOL => do
    let name ← tokenstring
    definesymbol name symtype
    if (← gettoken) ≠ T_ASSIGN then
      rescantoken
      if symtype = SYM_STATIC then setlabel label
    else
      addopone OP_DEBUG (← linenumber)
      usesymbol name false
      let _ ← getassignment n
      addop OP_ASSIGNPOP
      if symtype = SYM_STATIC then setlabel label
  | T_MAT => do
    addopone OP_DEBUG (← linenumber)
    getmatdeclaration n symtype
    addop OP_POP
    if symtype = SYM_STATIC then setlabel label
  | T_OBJ => do
    addopone OP_DEBUG (← linenumber)
    getobjdeclaration n symtype
    addop OP_POP
    if symtype = SYM_STATIC then setlabel label
  | _ => scanerror T_COMMA

/-- The loop of `getdeclarations`. -/
def getdeclarations_loop : Nat → TokenType → P Unit
  | 0, _ => outOfFuel
  | n + 1, type => do
    getonedeclaration n type
    match (← gettoken) with
    | T_COMMA => getdeclarations_loop n type
    | T_NEWLINE => rescantoken
    | T_SEMICOLON => pure ()
    | _ => scanerror T_SEMICOLON

/-- The function `getdeclarations` of codegen.c. -/
def getdeclarations (n : Nat) : P Unit := do
  let type ← gettoken
  if type ≠ T_LOCAL ∧ type ≠ T_GLOBAL ∧ type ≠ T_STATIC then
    rescantoken
  else
    getdeclarations_loop n type

mutual

/-- The function `getstatement` of codegen.c; `finish` is the switch after the
statement, which looks for its end. -/
def getstatement : Nat → Option Nat → Option Nat → Option Nat → Option Nat → P Unit
  | 0, _, _, _, _ => outOfFuel
  | n + 1, contlabel, breaklabel, nextcaselabel, defaultlabel => do
    addopone OP_DEBUG (← linenumber)
    let finish : P Unit := do
      match (← gettoken) with
      | T_RIGHTBRACE | T_NEWLINE | T_EOF => rescantoken
      | T_SEMICOLON => pure ()
      | _ => scanerror T_SEMICOLON
    let expression : P Unit := do
      rescantoken
      let type ← getexprlist n
      let s ← getS
      if contlabel.isSome ∨ breaklabel.isSome ∨ f_name_at s 0 ≠ '*' then
        addop OP_POP
        finish
      else
        addop OP_SAVE
        if isassign type ∨ f_name_at s 1 ≠ Char.ofNat 0 then
          addop OP_POP
          finish
        else
          addop OP_PRINTRESULT
          finish
    match (← gettoken) with
    | T_NEWLINE | T_SEMICOLON => pure ()
    | T_RIGHTBRACE => scanerror T_NULL
    | T_CONTINUE =>
      match contlabel with
      | none => scanerror T_SEMICOLON
      | some l => do
        addoplabel OP_JUMP l
        finish
    | T_BREAK =>
      match breaklabel with
      | none => scanerror T_SEMICOLON
      | some l => do
        addoplabel OP_JUMP l
        finish
    | T_GOTO => do
      if (← gettoken) ≠ T_SYMBOL then
        scanerror T_SEMICOLON
      else
        addop OP_JUMP
        addlabel (← tokenstring)
        finish
    | T_RETURN => do
      match (← gettoken) with
      | T_NEWLINE | T_SEMICOLON => do
        addop OP_UNDEF
        addop OP_RETURN
      | _ => do
        rescantoken
        let _ ← getexprlist n
        if f_name_at (← getS) 0 = '*' then addop OP_SAVE
        addop OP_RETURN
        finish
    | T_LEFTBRACE => do
      rescantoken
      getbody n contlabel breaklabel nextcaselabel defaultlabel false
    | T_IF => do
      let label1 ← newlabel
      let label2 ← newlabel
      getcondition n
      addoplabel OP_JUMPEQ label1
      getstatement n contlabel breaklabel none none
      if (← gettoken) ≠ T_ELSE then
        setlabel label1
        rescantoken
      else
        addoplabel OP_JUMP label2
        setlabel label1
        getstatement n contlabel breaklabel none none
        setlabel label2
    | T_FOR => do
      let label1 ← newlabel
      let label2 ← newlabel
      let label3 ← newlabel
      let label4 ← newlabel
      let breaklabel := label4
      let body : Option Nat → P Unit := fun contlabel => do
        setlabel label3
        let contlabel := match contlabel with
          | none => label3
          | some l => l
        getstatement n (some contlabel) (some breaklabel) none none
        addoplabel OP_JUMP contlabel
        setlabel breaklabel
      let cpart : Option Nat → P Unit := fun contlabel => do
        if (← gettoken) ≠ T_RIGHTPAREN then
          if (← readlabel label1).l_offset ≤ 0 then addoplabel OP_JUMP label3
          setlabel label2
          rescantoken
          let _ ← getexprlist n
          addop OP_POP
          if (← readlabel label1).l_offset > 0 then addoplabel OP_JUMP label1
          if (← gettoken) ≠ T_RIGHTPAREN then scanerror T_SEMICOLON
          else body (some label2)
        else body contlabel
      let bpart : P Unit := do
        if (← gettoken) ≠ T_SEMICOLON then
          setlabel label1
          rescantoken
          let _ ← getexprlist n
          addoplabel OP_JUMPNE label3
          addoplabel OP_JUMP breaklabel
          if (← gettoken) ≠ T_SEMICOLON then scanerror T_SEMICOLON
          else cpart (some label1)
        else cpart none
      if (← gettoken) ≠ T_LEFTPAREN then
        scanerror T_SEMICOLON
      else if (← gettoken) ≠ T_SEMICOLON then
        rescantoken
        let _ ← getexprlist n
        addop OP_POP
        if (← gettoken) ≠ T_SEMICOLON then scanerror T_SEMICOLON
        else bpart
      else bpart
    | T_WHILE => do
      let contlabel ← newlabel
      let breaklabel ← newlabel
      setlabel contlabel
      getcondition n
      addoplabel OP_JUMPEQ breaklabel
      getstatement n (some contlabel) (some breaklabel) none none
      addoplabel OP_JUMP contlabel
      setlabel breaklabel
    | T_DO => do
      let contlabel ← newlabel
      let breaklabel ← newlabel
      let label3 ← newlabel
      setlabel label3
      getstatement n (some contlabel) (some breaklabel) none none
      if (← gettoken) ≠ T_WHILE then
        scanerror T_SEMICOLON
      else
        setlabel contlabel
        getcondition n
        addoplabel OP_JUMPNE label3
        setlabel breaklabel
    | T_SWITCH => do
      let breaklabel ← newlabel
      let nextcaselabel ← newlabel
      let defaultlabel ← newlabel
      getcondition n
      if (← gettoken) ≠ T_LEFTBRACE then
        scanerror T_SEMICOLON
      else
        addoplabel OP_JUMP nextcaselabel
        rescantoken
        getstatement n contlabel (some breaklabel) (some nextcaselabel) (some defaultlabel)
        addoplabel OP_JUMP breaklabel
        setlabel nextcaselabel
        if (← readlabel defaultlabel).l_offset > 0 then addoplabel OP_JUMP defaultlabel
        else addop OP_POP
        setlabel breaklabel
    | T_CASE =>
      match nextcaselabel with
      | none => scanerror T_SEMICOLON
      | some nextcase => do
        let label1 ← newlabel
        addoplabel OP_JUMP label1
        setlabel nextcase
        clearlabel nextcase
        let _ ← getexprlist n
        if (← gettoken) ≠ T_COLON then
          scanerror T_SEMICOLON
        else
          addoplabel OP_CASEJUMP nextcase
          setlabel label1
          getstatement n contlabel breaklabel nextcaselabel defaultlabel
    | T_DEFAULT => do
      if (← gettoken) ≠ T_COLON then
        scanerror T_SEMICOLON
      else
        match defaultlabel with
        | none => scanerror T_SEMICOLON
        | some dflt => do
          if (← readlabel dflt).l_offset > 0 then
            scanerror T_SEMICOLON
          else
            let label1 ← newlabel
            addoplabel OP_JUMP label1
            setlabel dflt
            addop OP_POP
            setlabel label1
            getstatement n contlabel breaklabel nextcaselabel defaultlabel
    | T_ELSE => scanerror T_SEMICOLON
    | T_SHOW => do
      getshowstatement
      finish
    | T_PRINT => getstatement_print n true
    | T_QUIT => do
      match (← gettoken) with
      | T_STRING => addopptr OP_QUIT (← tokenstring)
      | _ => do
        addopptr OP_QUIT 0
        rescantoken
      finish
    | T_SYMBOL => do
      if (← nextchar_is_colon) then
        definelabel (← tokenstring)
        getstatement n contlabel breaklabel none none
      else
        expression
    | _ => expression
termination_by structural n _ _ _ _ => n

/-- The function `getbody` of codegen.c. -/
def getbody : Nat → Option Nat → Option Nat → Option Nat → Option Nat → Bool → P Unit
  | 0, _, _, _, _, _ => outOfFuel
  | n + 1, contlabel, breaklabel, nextcaselabel, defaultlabel, toplevel => do
    if (← gettoken) ≠ T_LEFTBRACE then
      scanerror T_SEMICOLON
    else
      let oldmode ← tokenmode TM_DEFAULT
      getbody_loop n contlabel breaklabel nextcaselabel defaultlabel toplevel oldmode false
termination_by structural n _ _ _ _ _ => n

/-- The loop of `getbody`. -/
def getbody_loop : Nat → Option Nat → Option Nat → Option Nat → Option Nat → Bool →
    Nat → Bool → P Unit
  | 0, _, _, _, _, _, _, _ => outOfFuel
  | n + 1, contlabel, breaklabel, nextcaselabel, defaultlabel, toplevel, oldmode,
      gotstatement => do
    match (← gettoken) with
    | T_RIGHTBRACE => do
      let _ ← tokenmode oldmode
    | T_GLOBAL | T_LOCAL | T_STATIC =>
      if toplevel = false then scanerror T_SEMICOLON
      else if gotstatement then scanerror T_SEMICOLON
      else do
        rescantoken
        getdeclarations n
        getbody_loop n contlabel breaklabel nextcaselabel defaultlabel toplevel oldmode
          gotstatement
    | _ => do
      rescantoken
      getstatement n contlabel breaklabel nextcaselabel defaultlabel
      getbody_loop n contlabel breaklabel nextcaselabel defaultlabel toplevel oldmode true
termination_by structural n _ _ _ _ _ _ _ => n

end

/-! ## codegen.c: the evaluation of a line -/

/-- Modelled from the spec: `beginfunc` of func.c: the function under construction
is "created when a define or top-level evaluation begins", with its name, an
empty instruction buffer, no labels and no locals; the errors counted are
those of the unit. -/
def beginfunc (name : List Char) (_newflag : Bool) : P Unit := modS fun s =>
  { s with f_name := name, f_opcodes := [], oldop := OP_NOP, labels := [],
           params := [], locals := [], errorcount := 0 }

/-- The function `calculate` of the virtual machine, the execution collaborator:
the code it is handed is recorded. -/
def calculate : P Unit := modS fun s =>
  { s with calculated := s.f_opcodes :: s.calculated }

/-- The end of `evaluate`, after its loop. -/
def evaluate_end : P Bool := do
  addop OP_UNDEF
  addop OP_RETURN
  checklabels
  if (← getS).errorcount ≠ 0 then
    pure false
  else
    calculate
    pure true

/-- The loop of `evaluate` and the code after it. -/
def evaluate_loop : Nat → Bool → P Bool
  | 0, _ => outOfFuel
  | n + 1, gotstatement => do
    match (← gettoken) with
    | T_SEMICOLON => evaluate_loop n gotstatement
    | T_NEWLINE | T_EOF => evaluate_end
    | T_GLOBAL | T_LOCAL | T_STATIC =>
      if gotstatement then
        scanerror T_SEMICOLON
        pure false
      else
        rescantoken
        getdeclarations n
        evaluate_loop n gotstatement
    | _ => do
      rescantoken
      getstatement n none none none none
      evaluate_loop n true

/-- The function `evaluate` of codegen.c. -/
def evaluate (n : Nat) (nestflag : Bool) : P Bool := do
  let funcname := if nestflag then ['*', '*'] else ['*']
  beginfunc funcname nestflag
  if nestflag then
    let _ ← tokenmode TM_DEFAULT
  evaluate_loop n false

/-! ## Expressions over number literals and binary operators

What the claim about `getsum` speaks of: the expressions built from number
literals with the operators `+ - * / // % | &`, written level by level as the
grammar comments of codegen.c give them (`sum = product [ {'+' | '-'} product ]
...`); their tokens; and the expression tree they denote, in which the
operators of one level associate to the left. -/

/-- An expression tree: a number literal, by the index of its constant, or a binary
operation, by its opcode. -/
inductive Expr where
  | number (numindex : Int)
  | binary (op : Opcode) (left right : Expr)
  deriving DecidableEq, Repr

/-- The post-order traversal of an expression tree: the code of the left operand,
the code of the right operand, the opcode of the operator. -/
def Expr.postorder : Expr → List Slot
  | Expr.number i => [Slot.op OP_NUMBER, Slot.arg i]
  | Expr.binary op l r => l.postorder ++ r.postorder ++ [Slot.op op]

/-- The opcode a tree ends with. -/
def Expr.lastop : Expr → Opcode
  | Expr.number _ => OP_NUMBER
  | Expr.binary op _ _ => op

/-- The operators of a sum. -/
inductive AddOp where
  | plus | minus
  deriving DecidableEq, Repr

/-- The operators of a product. -/
inductive MulOp where
  | mult | div | mod | slashslash
  deriving DecidableEq, Repr

/-- The token of an operator of a sum. -/
def AddOp.token : AddOp → TokenType
  | AddOp.plus => T_PLUS
  | AddOp.minus => T_MINUS

/-- The opcode of an operator of a sum. -/
def AddOp.opcode : AddOp → Opcode
  | AddOp.plus => OP_ADD
  | AddOp.minus => OP_SUB

/-- The token of an operator of a product. -/
def MulOp.token : MulOp → TokenType
  | MulOp.mult => T_MULT
  | MulOp.div => T_DIV
  | MulOp.mod => T_MOD
  | MulOp.slashslash => T_SLASHSLASH

/-- The opcode of an operator of a product. -/
def MulOp.opcode : MulOp → Opcode
  | MulOp.mult => OP_MUL
  | MulOp.div => OP_DIV
  | MulOp.mod => OP_MOD
  | MulOp.slashslash => OP_QUO

/-- The token of a number literal. -/
def numtok (numindex : Int) : Token := { t_type := T_NUMBER, t_numindex := numindex }

/-- The token of an operator. -/
def optok (t : TokenType) : Token := { t_type := t }

/-- Number literals joined by `&`. -/
structure AndExpr where
  first : Int
  more : List Int
  deriving DecidableEq, Repr

/-- And-expressions joined by `|`. -/
structure OrExpr where
  first : AndExpr
  more : List AndExpr
  deriving DecidableEq, Repr

/-- Or-expressions joined by `*`, `/`, `%` and `//`. -/
structure ProductExpr where
  first : OrExpr
  more : List (MulOp × OrExpr)
  deriving DecidableEq, Repr

/-- Products joined by `+` and `-`. -/
structure SumExpr where
  first : ProductExpr
  more : List (AddOp × ProductExpr)
  deriving DecidableEq, Repr

/-- The tokens of an and-expression. -/
def AndExpr.tokens (e : AndExpr) : List Token :=
  numtok e.first :: e.more.flatMap fun i => [optok T_AND, numtok i]

/-- The tree of an and-expression: `&` associates to the left. -/
def AndExpr.tree (e : AndExpr) : Expr :=
  e.more.foldl (fun l i => Expr.binary OP_AND l (Expr.number i)) (Expr.number e.first)

/-- The tokens of an or-expression. -/
def OrExpr.tokens (e : OrExpr) : List Token :=
  e.first.tokens ++ e.more.flatMap fun a => optok T_OR :: a.tokens

/-- The tree of an or-expression: `|` associates to the left, and its operands are
the trees of the and-expressions. -/
def OrExpr.tree (e : OrExpr) : Expr :=
  e.more.foldl (fun l a => Expr.binary OP_OR l a.tree) e.first.tree

/-- The tokens of a product. -/
def ProductExpr.tokens (e : ProductExpr) : List Token :=
  e.first.tokens ++ e.more.flatMap fun p => optok p.1.token :: p.2.tokens

/-- The tree of a product. -/
def ProductExpr.tree (e : ProductExpr) : Expr :=
  e.more.foldl (fun l p => Expr.binary p.1.opcode l p.2.tree) e.first.tree

/-- The tokens of a sum. -/
def SumExpr.tokens (e : SumExpr) : List Token :=
  e.first.tokens ++ e.more.flatMap fun p => optok p.1.token :: p.2.tokens

/-- The tree of a sum. -/
def SumExpr.tree (e : SumExpr) : Expr :=
  e.more.foldl (fun l p => Expr.binary p.1.opcode l p.2.tree) e.first.tree

/-- The tokens that `gettoken` is still to hand out: the token pushed back, if one
is, and the input. -/
def pending (s : PState) : List Token :=
  if s.rescan then s.curtoken :: s.input else s.input

/-- The token types that continue an expression of the levels of `getsum` after a
number literal: the operators of these levels and the postfix and shift
operators that `getshiftexpr` looks for. -/
def continues_sum : TokenType → Bool
  | T_PLUS | T_MINUS | T_MULT | T_DIV | T_MOD | T_SLASHSLASH | T_OR | T_AND
  | T_PLUSPLUS | T_MINUSMINUS | T_NOT | T_POWER | T_LEFTSHIFT | T_RIGHTSHIFT => true
  | _ => false

/-- The state after a rule has appended `code`, ending with the opcode `old`, and
has left the token `cur` current, pushed back or not, before the input `inp`. -/
def PState.advance (s : PState) (code : List Slot) (old : Opcode) (cur : Token)
    (inp : List Token) (resc : Bool) : PState :=
  { s with f_opcodes := s.f_opcodes ++ code, oldop := old, curtoken := cur, input := inp,
           rescan := resc }

/-- The state after a rule has parsed an expression in front of the tokens `rest`:
it has appended `code`, and the token after the expression is read and pushed
back. -/
def PState.parsed (s : PState) (code : List Slot) (old : Opcode) (rest : List Token) :
    PState :=
  s.advance code old (scantoken s.newlines rest).1 (scantoken s.newlines rest).2 true

/-- A token that the scanning loop returns as it is: not `T_NULL`, and not an end
of line. -/
def Token.plain (t : Token) : Prop := t.t_type ≠ T_NULL ∧ t.t_type ≠ T_NEWLINE

/-- The type of the token that `gettoken` returns first from the tokens `l`. -/
def starts (nl : Bool) (l : List Token) : TokenType := (scantoken nl l).1.t_type

/-- The tokens that continue a term in `getshiftexpr`: the postfix operators and
the operators of the shift level. -/
def continues_term : TokenType → Bool
  | T_PLUSPLUS | T_MINUSMINUS | T_NOT | T_POWER | T_LEFTSHIFT | T_RIGHTSHIFT => true
  | _ => false

/-- The tokens of the operands that `&` joins to a first one. -/
def and_tokens (more : List Int) : List Token :=
  more.flatMap fun i => [optok T_AND, numtok i]

/-- The code of the operands that `&` joins to a first one. -/
def and_code (more : List Int) : List Slot :=
  more.flatMap fun i => [Slot.op OP_NUMBER, Slot.arg i, Slot.op OP_AND]

/-- The fuel that `getandexpr` needs for an and-expression. -/
def AndExpr.cost (e : AndExpr) : Nat := e.more.length + 4

/-- The tokens of the operands that `|` joins to a first one. -/
def or_tokens (more : List AndExpr) : List Token :=
  more.flatMap fun a => optok T_OR :: a.tokens

/-- The code of the operands that `|` joins to a first one. -/
def or_code (more : List AndExpr) : List Slot :=
  more.flatMap fun a => a.tree.postorder ++ [Slot.op OP_OR]

/-- The fuel that `getorexpr` needs for an or-expression. -/
def OrExpr.cost (e : OrExpr) : Nat :=
  e.first.cost + (e.more.map AndExpr.cost).sum + e.more.length + 2

/-- The tokens of the operators of a product. -/
def is_mulop : TokenType → Bool
  | T_MULT | T_DIV | T_MOD | T_SLASHSLASH => true
  | _ => false

/-- The tokens of the operators of a sum. -/
def is_addop : TokenType → Bool
  | T_PLUS | T_MINUS => true
  | _ => false

/-- The tokens of the operands that the operators of a product join to a first
one. -/
def product_tokens (more : List (MulOp × OrExpr)) : List Token :=
  more.flatMap fun p => optok p.1.token :: p.2.tokens

/-- The code of the operands that the operators of a product join to a first one. -/
def product_code (more : List (MulOp × OrExpr)) : List Slot :=
  more.flatMap fun p => p.2.tree.postorder ++ [Slot.op p.1.opcode]

/-- The opcode a list of operations ends with. -/
def product_lastop (o : Opcode) : List (MulOp × OrExpr) → Opcode
  | [] => o
  | p :: more => product_lastop p.1.opcode more

/-- The fuel that `getproduct` needs for a product. -/
def ProductExpr.cost (e : ProductExpr) : Nat :=
  e.first.cost + (e.more.map fun p => p.2.cost).sum + e.more.length + 2

/-- The tokens of the operands that the operators of a sum join to a first one. -/
def sum_tokens (more : List (AddOp × ProductExpr)) : List Token :=
  more.flatMap fun p => optok p.1.token :: p.2.tokens

/-- The code of the operands that the operators of a sum join to a first one. -/
def sum_code (more : List (AddOp × ProductExpr)) : List Slot :=
  more.flatMap fun p => p.2.tree.postorder ++ [Slot.op p.1.opcode]

/-- The opcode a list of operations ends with. -/
def sum_lastop (o : Opcode) : List (AddOp × ProductExpr) → Opcode
  | [] => o
  | p :: more => sum_lastop p.1.opcode more

/-- The fuel that `getsum` needs for a sum. -/
def SumExpr.cost (e : SumExpr) : Nat :=
  e.first.cost + (e.more.map fun p => p.2.cost).sum + e.more.length + 2

/-- The sum `1 + 2 * 3`, by the indices 1, 2, 3 of its constants. -/
def sum_1_plus_2_times_3 : SumExpr :=
  { first := { first := { first := { first := 1, more := [] }, more := [] }, more := [] },
    more := [(AddOp.plus,
      { first := { first := { first := 2, more := [] }, more := [] },
        more := [(MulOp.mult, { first := { first := 3, more := [] }, more := [] })] })] }

/-- The rule returns the flags 0 whenever it returns. -/
def ReturnsZero (p : P Nat) : Prop :=
  ∀ s, match p s with
    | Res.ok t _ => t = 0
    | _ => True

/-- The token of a symbol, by the handle of its name. -/
def symtok (name : Int) : Token := { t_type := T_SYMBOL, t_strindex := name }

/-- The state in which a line with the tokens `ts` is compiled at the top level: the
function under construction is the evaluator `*`, ends of line are tokens, and
the constants 1, 2 and 3 have the indices 0, 1 and 2. -/
def top_level (ts : List Token) : PState :=
  { input := ts, f_name := ['*'], newlines := true,
    constants := [{ num := 1 }, { num := 2 }, { num := 3 }] }

/-- The tokens of the operators that `getassignment` takes for an assignment. -/
def is_assignop : TokenType → Bool
  | T_ASSIGN | T_PLUSEQUALS | T_MINUSEQUALS | T_MULTEQUALS | T_DIVEQUALS
  | T_SLASHSLASHEQUALS | T_MODEQUALS | T_ANDEQUALS | T_OREQUALS | T_LSHIFTEQUALS
  | T_RSHIFTEQUALS | T_POWEREQUALS => true
  | _ => false

/-- The length of the code that `writeindexop` cannot reach: the whole code, less
the flag of an `OP_INDEXADDR` that is the last instruction. -/
def plen (s : PState) : Nat :=
  if s.oldop = OP_INDEXADDR then s.f_opcodes.length - 1 else s.f_opcodes.length

/-- The patch sites pending for the label `i`. -/
def sitesOf (s : PState) (i : Nat) : List Nat := (s.labels.getD i {}).l_sites

/-- The name of the label `i`. -/
def nameOf (s : PState) (i : Nat) : Option Int := (s.labels.getD i {}).l_name

/-- What every run of a grammar rule keeps: the counters only grow, the
configuration stays, labels keep their names, and a patch site is new only at
a cell that is new. -/
structure Extends (s t : PState) : Prop where
  errorcount : s.errorcount ≤ t.errorcount
  length : s.f_opcodes.length ≤ t.f_opcodes.length
  plen : plen s ≤ plen t
  nlabels : s.labels.length ≤ t.labels.length
  calculated : t.calculated = s.calculated
  maxscancount : t.maxscancount = s.maxscancount
  f_name : t.f_name = s.f_name
  names : ∀ i, i < s.labels.length → nameOf t i = nameOf s i
  sites : ∀ i x, x ∈ sitesOf t i → x ∈ sitesOf s i ∨ s.f_opcodes.length ≤ x
  bounded : (∀ i x, x ∈ sitesOf s i → x < s.f_opcodes.length) →
    ∀ i x, x ∈ sitesOf t i → x < t.f_opcodes.length

/-- A label that the run may change: one it was handed, or, when named labels are
in play, a named one. -/
def Touchable (nm : Bool) (L : List Nat) (s : PState) (i : Nat) : Prop :=
  i ∈ L ∨ (nm = true ∧ nameOf s i ≠ none)

/-- The frame of a run: besides `Extends`, the labels that existed and are not
touchable are as they were, and so is every cell of the code below `plen`
that is not a patch site of a touchable label; the flag of an index address
that was the last instruction is as it was or is the flag of writing. -/
structure Frame (nm : Bool) (L : List Nat) (s t : PState) : Prop where
  ext : Extends s t
  labels : ∀ i, i < s.labels.length → ¬ Touchable nm L s i →
    t.labels.getD i {} = s.labels.getD i {}
  code : ∀ j, j < plen s → (∀ i, Touchable nm L s i → j ∉ sitesOf s i) →
    t.f_opcodes[j]? = s.f_opcodes[j]?
  flag : s.oldop = OP_INDEXADDR → plen s < s.f_opcodes.length →
    (∀ i, Touchable nm L s i → plen s ∉ sitesOf s i) →
    t.f_opcodes[plen s]? = s.f_opcodes[plen s]? ∨ t.f_opcodes[plen s]? = some (Slot.arg 1)

/-- The run of a function that leaves code, labels and configuration alone. -/
structure Quiet (s t : PState) : Prop where
  f_opcodes : t.f_opcodes = s.f_opcodes
  oldop : t.oldop = s.oldop
  labels : t.labels = s.labels
  calculated : t.calculated = s.calculated
  maxscancount : t.maxscancount = s.maxscancount
  f_name : t.f_name = s.f_name
  errorcount : s.errorcount ≤ t.errorcount

/-- Every return and every abort of the function is quiet. -/
def QuietSpec {α : Type} (p : P α) : Prop :=
  ∀ s, match p s with
    | Res.ok _ t => Quiet s t
    | Res.abort t => Quiet s t
    | Res.nofuel => True

/-- Every return and every abort of the function keeps the frame. -/
def Spec {α : Type} (nm : Bool) (L : List Nat) (p : P α) : Prop :=
  ∀ s, match p s with
    | Res.ok _ t => Frame nm L s t
    | Res.abort t => Frame nm L s t
    | Res.nofuel => True

/-- From a state that keeps the frame of `s0`, every return and every abort of the
function keeps the frame of `s0`. -/
def Keeps {α : Type} (nm : Bool) (L : List Nat) (s0 : PState) (p : P α) : Prop :=
  ∀ s, Frame nm L s0 s →
    match p s with
    | Res.ok _ t => Frame nm L s0 t
    | Res.abort t => Frame nm L s0 t
    | Res.nofuel => True

/-- The frames of the expression rules, for one amount of fuel. -/
structure ExprFrames (n : Nat) : Prop where
  getexprlist : Spec false [] (getexprlist n)
  getexprlist_loop : ∀ (type : Nat), Spec false [] (getexprlist_loop n type)
  getassignment : Spec false [] (getassignment n)
  getaltcond : Spec false [] (getaltcond n)
  getorcond : Spec false [] (getorcond n)
  getorcond_loop : ∀ ( donelab : Nat) (type : Nat), Spec false [ donelab] (getorcond_loop n donelab type)
  getandcond : Spec false [] (getandcond n)
  getandcond_loop : ∀ ( donelab : Nat) (type : Nat), Spec false [ donelab] (getandcond_loop n donelab type)
  getrelation : Spec false [] (getrelation n)
  getsum : Spec false [] (getsum n)
  getsum_loop : ∀ (type : Nat), Spec false [] (getsum_loop n type)
  getproduct : Spec false [] (getproduct n)
  getproduct_loop : ∀ (type : Nat), Spec false [] (getproduct_loop n type)
  getorexpr : Spec false [] (getorexpr n)
  getorexpr_loop : ∀ (type : Nat), Spec false [] (getorexpr_loop n type)
  getandexpr : Spec false [] (getandexpr n)
  getandexpr_loop : ∀ (type : Nat), Spec false [] (getandexpr_loop n type)
  getshiftexpr : Spec false [] (getshiftexpr n)
  getterm : Spec false [] (getterm n)
  getidexpr : ∀ (okmat : Bool) (autodef : Bool), Spec false [] (getidexpr n okmat autodef)
  getidexpr_loop : ∀ (okmat : Bool), Spec false [] (getidexpr_loop n okmat)
  getmatargs : Spec false [] (getmatargs n)
  getmatargs_loop : ∀ (dim : Int), Spec false [] (getmatargs_loop n dim)
  getcallargs : ∀ (name : Int), Spec false [] (getcallargs n name)
  getcallargs_loop : ∀ (name : Int) (op : Opcode) (index : Int) (argcount : Int), Spec false [] (getcallargs_loop n name op index argcount)
  getmatdeclaration : ∀ (symtype : SymType), Spec false [] (getmatdeclaration n symtype)
  getonematrix : ∀ (symtype : SymType), Spec false [] (getonematrix n symtype)
  creatematrix : ∀ (dim : Int), Spec false [] (creatematrix n dim)
  getinitlist : Spec false [] (getinitlist n)
  getinitlist_loop : ∀ (oldmode : Nat) (index : Int), Spec false [] (getinitlist_loop n oldmode index)
  getobjdeclaration : ∀ (symtype : SymType), Spec false [] (getobjdeclaration n symtype)
  getobjdeclaration_loop : ∀ (name : Int) (symtype : SymType) (indices : List Int) (err : Bool), Spec false [] (getobjdeclaration_loop n name symtype indices err)
  getoneobj : ∀ (index : Int) (symtype : SymType), Spec false [] (getoneobj n index symtype)
  getobjvars : ∀ (name : Int) (symtype : SymType), Spec false [] (getobjvars n name symtype)
  getobjvars_loop : ∀ (index : Int) (symtype : SymType), Spec false [] (getobjvars_loop n index symtype)

/-- The labels a statement is handed. -/
def handed (c b x d : Option Nat) : List Nat := c.toList ++ b.toList ++ x.toList ++ d.toList

/-- The frames of the statement rules, for one amount of fuel. -/
structure StmtFrames (n : Nat) : Prop where
  getstatement : ∀ c b x d, Spec true (handed c b x d) (getstatement n c b x d)
  getbody : ∀ c b x d toplevel, Spec true (handed c b x d) (getbody n c b x d toplevel)
  getbody_loop : ∀ c b x d toplevel oldmode got,
    Spec true (handed c b x d) (getbody_loop n c b x d toplevel oldmode got)

/-- What a run of `evaluate` from the state `s` may leave: handed to `calculate` is
the code, which ends in `OP_UNDEF`, `OP_RETURN`, when the result is TRUE, and
that is when no error has been counted; nothing when the result is FALSE or
the run is aborted. -/
def EvalPost (s : PState) : Res Bool → Prop
  | Res.ok b t =>
    (0 ≤ s.errorcount → (b = true ↔ t.errorcount = 0)) ∧
    (b = true → t.calculated = t.f_opcodes :: s.calculated ∧
      ∃ code, t.f_opcodes = code ++ [Slot.op OP_UNDEF, Slot.op OP_RETURN]) ∧
    (b = false → t.calculated = s.calculated)
  | Res.abort t => t.calculated = s.calculated
  | Res.nofuel => True

/-- Every run of the function leaves what `evaluate` may leave. -/
def EvalSpec (p : P Bool) : Prop := ∀ s, EvalPost s (p s)

/-- The line `goto foo`, the name `foo` being 7. -/
def line_goto_foo : List Token := [optok T_GOTO, symtok 7, optok T_NEWLINE]

/-- The state `evaluate` leaves of the line `goto foo`. -/
def after_goto_foo : PState :=
  { top_level [] with
    curtoken := optok T_NEWLINE
    errorcount := 1
    f_opcodes := [Slot.op OP_DEBUG, Slot.arg 1, Slot.op OP_JUMP, Slot.arg (-1),
      Slot.op OP_UNDEF, Slot.op OP_RETURN]
    oldop := OP_RETURN
    labels := [{ l_offset := -1, l_sites := [3], l_name := some 7 }] }

/-- What is seen of a run of `evaluate`: the result, the errors counted and the
code handed to `calculate`, latest first. -/
def outcome : Res Bool → Option (Bool × Int × List (List Slot))
  | Res.ok b t => some (b, t.errorcount, t.calculated)
  | _ => none

namespace Lexer

/-- The state of the scanner: the globals of token.c and what it reads and writes
of its collaborators. -/
structure State where
  /-- the characters of the input that `nextchar` has not read yet -/
  chars : List Char := []
  /-- the character `nextchar` returned last -/
  lastch : Option Char := none
  /-- a `reread()` is pending: `nextchar` returns `lastch` again -/
  pushed : Bool := false
  /-- the field `curtoken.t_type` -/
  t_type : TokenType := T_NULL
  /-- the field `curtoken.t_sym`: `NULL` or the text of the buffer it points to -/
  t_sym : Option (List Char) := none
  /-- the field `curtoken.t_strindex` -/
  t_strindex : Int := 0
  /-- the field `curtoken.t_numindex` -/
  t_numindex : Int := 0
  rescan : Bool := false
  newlines : Bool := false
  allsyms : Bool := false
  /-- the table `strings` of the literal strings -/
  strings : List (List Char) := []
  /-- the texts of the numeric constants that `addnumber` has interned -/
  numbers : List (List Char) := []
  errorcount : Int := 0
  /-- the configured ceiling `conf->maxscancount` -/
  maxscancount : Int := 20
  /-- what `inputisterminal()` answers -/
  terminal : Bool := false
  deriving DecidableEq, Repr

/-- The result of running a function of the scanner; `abort` is the
`longjmp(jmpbuf, 1)` of `scanerror`. -/
inductive Res (α : Type) where
  | ok (a : α) (s : State)
  | abort (s : State)
  | nofuel
  deriving DecidableEq, Repr

/-- A function of the scanner that returns an `α`. -/
def L (α : Type) : Type := State → Res α

/-- Return normally. -/
def L.pure {α : Type} (a : α) : L α := fun s => Res.ok a s

/-- Sequencing: the second function runs when the first returns. -/
def L.bind {α β : Type} (m : L α) (f : α → L β) : L β := fun s =>
  match m s with
  | Res.ok a s1 => f a s1
  | Res.abort s1 => Res.abort s1
  | Res.nofuel => Res.nofuel

instance : Monad L where
  pure := L.pure
  bind := L.bind

/-- Read the state. -/
def get : L State := fun s => Res.ok s s

/-- Change the state. -/
def modify (f : State → State) : L Unit := fun s => Res.ok () (f s)

/-- The run is out of fuel. -/
def outOfFuel {α : Type} : L α := fun _ => Res.nofuel

/-- Modelled from the spec: `nextchar` of input.c, which is not part of the
sources: the character source `next_char() -> char_or_eof` with its
"one-character pushback": the character returned last again when a pushback
is pending, the next character of the input otherwise, `EOF` at its end. -/
def nextchar : L (Option Char) := fun s =>
  if s.pushed then Res.ok s.lastch { s with pushed := false }
  else
    match s.chars with
    | [] => Res.ok none { s with lastch := none }
    | c :: cs => Res.ok (some c) { s with chars := cs, lastch := some c }

/-- Modelled from the spec: `reread` of input.c, the pushback `push_back_char()`
of one character. -/
def reread : L Unit := modify fun s => { s with pushed := true }

/-- The macro `isletter` of token.c. -/
def isletter (ch : Option Char) : Bool :=
  match ch with
  | some c => (('a' ≤ c ∧ c ≤ 'z') ∨ ('A' ≤ c ∧ c ≤ 'Z'))
  | none => false

/-- The macro `isdigit` of token.c. -/
def isdigit (ch : Option Char) : Bool :=
  match ch with
  | some c => ('0' ≤ c ∧ c ≤ '9')
  | none => false

/-- The macro `issymbol` of token.c. -/
def issymbol (ch : Option Char) : Bool :=
  isletter ch || isdigit ch || ch == some '_'

/-- The macro `isoctal` of token.c. -/
def isoctal (ch : Option Char) : Bool :=
  match ch with
  | some c => ('0' ≤ c ∧ c ≤ '7')
  | none => false

/-- The constant `STRBUFSIZE` of token.c. -/
def STRBUFSIZE : Nat := 1024

/-- A character as a `char` of C: `EOF`, which is -1, is the byte 255. -/
def tochar (ch : Option Char) : Char :=
  match ch with
  | some c => c
  | none => Char.ofNat 255

/-- The string that a `char` buffer holds for the functions of C: the characters
before the first NUL. -/
def cstring (buf : List Char) : List Char := buf.takeWhile fun c => c ≠ Char.ofNat 0

/-- The calls `scanerror(T_NULL, ...)`, the only ones of the scanner itself: the
error is counted, the compilation is aborted when there are too many, and
nothing is skipped.  The message is not modelled. -/
def scanerror_null : L Unit := fun s =>
  let s := { s with errorcount := s.errorcount + 1 }
  if s.maxscancount > 0 ∧ s.errorcount > s.maxscancount then Res.abort s
  else Res.ok () s

/-- Modelled from the spec: `addstring` of string.c, which is not part of the
sources: `intern_string(text) -> string_id`; the first `len` characters of
`str` join the table of strings, and the index is their place in it. -/
def addstring (str : List Char) (len : Nat) : L Int := fun s =>
  Res.ok s.strings.length { s with strings := s.strings ++ [str.take len] }

/-- Modelled from the spec: `addnumber` of const.c, which is not part of the
sources: `intern_numeric_constant(text) -> constant_id`, "so further uses of
the same constant will not take more memory": the index of the text among the
constants, where it is put when it is new. -/
def addnumber (text : List Char) : L Int := fun s =>
  match s.numbers.indexOf? text with
  | some i => Res.ok i s
  | none => Res.ok s.numbers.length { s with numbers := s.numbers ++ [text] }

/-- The function `tokenmode` of token.c; the flags are `TM_NEWLINES` and
`TM_ALLSYMS`. -/
def tokenmode (flag : Nat) : L Nat := fun s =>
  let oldflag := TM_DEFAULT
  let oldflag := if s.newlines then oldflag ||| TM_NEWLINES else oldflag
  let oldflag := if s.allsyms then oldflag ||| TM_ALLSYMS else oldflag
  Res.ok oldflag { s with
    newlines := (flag &&& TM_NEWLINES) != 0,
    allsyms := (flag &&& TM_ALLSYMS) != 0 }

/-- The function `eatcomment` of token.c. -/
def eatcomment : Nat → L Unit
  | 0 => outOfFuel
  | n + 1 => do
    let ch ← nextchar
    let ended ← (
      if ch = some '*' then do
        let ch ← nextchar
        if ch = some '/' then pure (true, ch)
        else do
          reread
          pure (false, ch)
      else pure (false, ch) : L (Bool × Option Char))
    if ended.1 then pure ()
    else
      let ch := ended.2
      let s ← get
      if ch = none ∨ ch = some (Char.ofNat 0) ∨
          (s.newlines ∧ ch = some '\n' ∧ s.terminal) then
        reread
        scanerror_null
      else eatcomment n

/-- The table `keywords` of token.c. -/
def keywords : List (String × TokenType) :=
  [("if", T_IF), ("else", T_ELSE), ("for", T_FOR), ("while", T_WHILE), ("do", T_DO),
   ("continue", T_CONTINUE), ("break", T_BREAK), ("goto", T_GOTO), ("return", T_RETURN),
   ("local", T_LOCAL), ("global", T_GLOBAL), ("static", T_STATIC), ("switch", T_SWITCH),
   ("case", T_CASE), ("default", T_DEFAULT), ("quit", T_QUIT), ("exit", T_QUIT),
   ("define", T_DEFINE), ("read", T_READ), ("show", T_SHOW), ("help", T_HELP),
   ("write", T_WRITE), ("mat", T_MAT), ("obj", T_OBJ), ("print", T_PRINT), ("cd", T_CD),
   ("undefine", T_UNDEFINE)]

/-- The loops of `eatsymbol`: characters are read up to the first that `stop`
holds of, and kept while there is room; `cc` is the room left, which goes
below zero when the name is too long. -/
def eatsymbol_loop (stop : Option Char → Bool) : Nat → List Char → Int → L (List Char × Int)
  | 0, _, _ => outOfFuel
  | n + 1, buf, cc => do
    let ch ← nextchar
    if stop ch then pure (buf, cc)
    else if cc > 0 then eatsymbol_loop stop n (buf ++ [tochar ch]) (cc - 1)
    else eatsymbol_loop stop n buf (cc - 1)

/-- The function `eatsymbol` of token.c; the constant `SYMBOLSIZE` of calc.h,
which is not part of the sources, is a parameter. -/
def eatsymbol (SYMBOLSIZE : Nat) (n : Nat) : L TokenType := do
  if (← get).allsyms then
    let (buf, cc) ← eatsymbol_loop
      (fun ch => ch = some ' ' ∨ ch = some ';' ∨ ch = some '\n') n [] SYMBOLSIZE
    reread
    if cc < 0 then scanerror_null
    modify fun s => { s with t_sym := some (cstring buf) }
    pure T_SYMBOL
  else
    let (buf, cc) ← eatsymbol_loop (fun ch => !issymbol ch) n [] SYMBOLSIZE
    reread
    if cc < 0 then scanerror_null
    match keywords.find? (fun kp => kp.1.toList == cstring buf) with
    | some kp => pure kp.2
    | none =>
      modify fun s => { s with t_sym := some (cstring buf) }
      pure T_SYMBOL

/-- The loop of `eatnumber`: the text grows by one character at a time while
`qparse` accepts all of it.  The result is the token of an early return, or
the buffer at the `break`, the character read last included.  The growth of
the buffer `numbuf` is not modelled. -/
def eatnumber_loop (qparse : List Char → Int) : Nat → List Char →
    L (Option TokenType × List Char)
  | 0, _ => outOfFuel
  | n + 1, numbuf => do
    let ch ← nextchar
    let numbuf := numbuf ++ [tochar ch]
    if numbuf.getD 0 (Char.ofNat 0) = '.' ∧ isletter (some (numbuf.getD 1 (Char.ofNat 0))) then
      reread
      pure (some T_PERIOD, numbuf)
    else
      let res := qparse (cstring numbuf)
      if res < 0 then
        reread
        scanerror_null
        let i ← addnumber ['0']
        modify fun s => { s with t_numindex := i }
        pure (some T_NUMBER, numbuf)
      else if res ≠ numbuf.length then pure (none, numbuf)
      else eatnumber_loop qparse n numbuf

/-- The function `eatnumber` of token.c; `qparse` stands for
`qparse(numbuf, QPF_IMAG)` of the arithmetic collaborator, which is not part
of the sources.  After the loop the character read last is cut off the text
and pushed back.  The read of `cp[-2]` before the buffer, when the text is
empty, is taken to be no `i`. -/
def eatnumber (qparse : List Char → Int) (n : Nat) : L TokenType := do
  let (early, numbuf) ← eatnumber_loop qparse n []
  match early with
  | some t => pure t
  | none =>
    let numbuf := numbuf.dropLast
    reread
    if numbuf.getD 0 (Char.ofNat 0) = '.' ∧ numbuf.getD 1 (Char.ofNat 0) = Char.ofNat 0 then
      modify fun s => { s with t_numindex := 0 }
      pure T_OLDVALUE
    else if numbuf.getLast? = some 'i' ∨ numbuf.getLast? = some 'I' then
      let i ← addnumber (cstring numbuf.dropLast)
      modify fun s => { s with t_numindex := i }
      pure T_IMAGINARY
    else
      let i ← addnumber (cstring numbuf)
      modify fun s => { s with t_numindex := i }
      pure T_NUMBER

/-- The loop `for (i = 2; i > 0; i--)` of the octal escape in `eatstring`: the
value so far and the rounds left go in, the value and the rounds left at the
exit come out. -/
def eatstring_octal : Nat → Nat → L (Nat × Nat)
  | 0, ch => pure (ch, 0)
  | i + 1, ch => do
    let cch ← nextchar
    if !isoctal cch then pure (ch, i + 1)
    else eatstring_octal i (8 * ch + (tochar cch).toNat - '0'.toNat)

/-- The loop `for (i = 2; i > 0; i--)` of the escape `\x` in `eatstring`. -/
def eatstring_hex : Nat → Nat → L (Nat × Nat)
  | 0, ch => pure (ch, 0)
  | i + 1, ch => do
    let cch ← nextchar
    if isdigit cch then eatstring_hex i (16 * ch + (tochar cch).toNat - '0'.toNat)
    else
      match cch with
      | some c =>
        if 'a' ≤ c ∧ c ≤ 'f' then eatstring_hex i (16 * ch + 10 + c.toNat - 'a'.toNat)
        else if 'A' ≤ c ∧ c ≤ 'F' then eatstring_hex i (16 * ch + 10 + c.toNat - 'A'.toNat)
        else pure (ch, i + 1)
      | none => pure (ch, i + 1)

/-- The body of the inner loop of `eatstring` up to the store `*cp++ = (char) ch`:
`none` for a `continue`, otherwise the flag `done` and the character to store.
The cases of the switches are tried in the order of the source. -/
def eatstring_char (quotechar : Char) : L (Option (Bool × Char)) := do
  let ch ← nextchar
  let unterminated : L (Option (Bool × Char)) := do
    reread
    scanerror_null
    pure (some (true, Char.ofNat 0))
  if ch = some '\n' then
    if (← get).newlines = false then pure (some (false, '\n'))
    else unterminated
  else if ch = none then unterminated
  else if ch = some '\\' then
    let ch ← nextchar
    if isoctal ch then
      let (v, i) ← eatstring_octal 2 ((tochar ch).toNat - '0'.toNat)
      if i > 0 then reread
      pure (some (false, Char.ofNat (v % 256)))
    else if ch = some 'n' then pure (some (false, '\n'))
    else if ch = some 'r' then pure (some (false, '\r'))
    else if ch = some 't' then pure (some (false, '\t'))
    else if ch = some 'b' then pure (some (false, Char.ofNat 8))
    else if ch = some 'f' then pure (some (false, Char.ofNat 12))
    else if ch = some 'v' then pure (some (false, Char.ofNat 11))
    else if ch = some 'a' then pure (some (false, Char.ofNat 7))
    else if ch = some 'e' then pure (some (false, Char.ofNat 27))
    else if ch = some '\n' then pure none
    else if ch = none then
      reread
      pure none
    else if ch = some 'x' then
      let (v, i) ← eatstring_hex 2 0
      if i > 0 then reread
      pure (some (false, Char.ofNat v))
    else pure (some (false, tochar ch))
  else if (ch = some '"' ∨ ch = some (Char.ofNat 39)) ∧ ch = some quotechar then
    pure (some (true, Char.ofNat 0))
  else pure (some (false, tochar ch))

/-- The loops of `eatstring` and the `addstring` after them: `str` and `totlen`
are the copy of the chunks that were full and its length, `buf` is the chunk
being filled, whose length is `len`.  For a string of more than one chunk the
source hands `addstring` a length that exceeds the copy by `len`; what it
reads past the copy is not modelled. -/
def eatstring_loop (quotechar : Char) : Nat → List Char → Nat → List Char → L Unit
  | 0, _, _, _ => outOfFuel
  | n + 1, str, totlen, buf =>
    if buf.length < STRBUFSIZE then do
      match (← eatstring_char quotechar) with
      | none => eatstring_loop quotechar n str totlen buf
      | some (done, c) =>
        let buf := buf ++ [c]
        if done then
          let i ← (
            if totlen ≠ 0 then addstring (str ++ buf) (totlen + buf.length + buf.length)
            else addstring buf (totlen + buf.length))
          modify fun s => { s with t_strindex := i }
        else eatstring_loop quotechar n str totlen buf
    else eatstring_loop quotechar n (str ++ buf) (totlen + buf.length) []

/-- The function `eatstring` of token.c. -/
def eatstring (quotechar : Char) (n : Nat) : L Unit :=
  eatstring_loop quotechar n [] 0 []

/-- An operator of one character or of two: the switch on the character after
`ch` when only `=` extends the operator. -/
def gettoken_eq (one two : TokenType) : L TokenType := do
  let ch ← nextchar
  if ch = some '=' then pure two
  else
    reread
    pure one

/-- An operator of one character or of two, of which there are two: the switch on
the character after `ch` with the cases `c1` and `c2`. -/
def gettoken_two (c1 : Char) (t1 : TokenType) (c2 : Char) (t2 : TokenType)
    (one : TokenType) : L TokenType := do
  let ch ← nextchar
  if ch = some c1 then pure t1
  else if ch = some c2 then pure t2
  else
    reread
    pure one

/-- An operator of one, two or three characters: the switch on the character
after `ch`, with the case `=`, and the case of `ch` again, in which a third
character is looked at. -/
def gettoken_three (c : Char) (one eq two three : TokenType) : L TokenType := do
  let ch ← nextchar
  if ch = some '=' then pure eq
  else if ch = some c then gettoken_eq two three
  else
    reread
    pure one

/-- The loop `while (type == T_NULL)` of `gettoken`.  The cases of the switch are
tried in the order of the source. -/
def gettoken_loop (SYMBOLSIZE : Nat) (qparse : List Char → Int) : Nat → L TokenType
  | 0 => outOfFuel
  | n + 1 => do
    let ch ← nextchar
    if (← get).allsyms ∧ ch ≠ some ' ' ∧ ch ≠ some ';' ∧ ch ≠ some '"' ∧ ch ≠ some '\n' then
      reread
      eatsymbol SYMBOLSIZE n
    else if ch = some ' ' ∨ ch = some '\t' ∨ ch = some (Char.ofNat 0) then
      gettoken_loop SYMBOLSIZE qparse n
    else if ch = some '\n' then
      if (← get).newlines then pure T_NEWLINE else gettoken_loop SYMBOLSIZE qparse n
    else if ch = none then pure T_EOF
    else if ch = some '{' then pure T_LEFTBRACE
    else if ch = some '}' then pure T_RIGHTBRACE
    else if ch = some '(' then pure T_LEFTPAREN
    else if ch = some ')' then pure T_RIGHTPAREN
    else if ch = some '[' then pure T_LEFTBRACKET
    else if ch = some ']' then pure T_RIGHTBRACKET
    else if ch = some ';' then pure T_SEMICOLON
    else if ch = some ':' then pure T_COLON
    else if ch = some ',' then pure T_COMMA
    else if ch = some '?' then pure T_QUESTIONMARK
    else if ch = some '@' then pure T_AT
    else if ch = some (Char.ofNat 96) then pure T_BACKQUOTE
    else if ch = some '$' then pure T_DOLLAR
    else if ch = some '"' ∨ ch = some (Char.ofNat 39) then
      eatstring (tochar ch) n
      pure T_STRING
    else if ch = some '^' then gettoken_eq T_POWER T_POWEREQUALS
    else if ch = some '=' then gettoken_eq T_ASSIGN T_EQ
    else if ch = some '+' then gettoken_two '+' T_PLUSPLUS '=' T_PLUSEQUALS T_PLUS
    else if ch = some '-' then
      let ch ← nextchar
      if ch = some '-' then pure T_MINUSMINUS
      else if ch = some '=' then pure T_MINUSEQUALS
      else if ch = some '>' then pure T_ARROW
      else
        reread
        pure T_MINUS
    else if ch = some '*' then gettoken_three '*' T_MULT T_MULTEQUALS T_POWER T_POWEREQUALS
    else if ch = some '/' then
      let ch ← nextchar
      if ch = some '/' then gettoken_eq T_SLASHSLASH T_SLASHSLASHEQUALS
      else if ch = some '=' then pure T_DIVEQUALS
      else if ch = some '*' then
        eatcomment n
        gettoken_loop SYMBOLSIZE qparse n
      else
        reread
        pure T_DIV
    else if ch = some '%' then gettoken_eq T_MOD T_MODEQUALS
    else if ch = some '<' then gettoken_three '<' T_LT T_LE T_LEFTSHIFT T_LSHIFTEQUALS
    else if ch = some '>' then gettoken_three '>' T_GT T_GE T_RIGHTSHIFT T_RSHIFTEQUALS
    else if ch = some '&' then gettoken_two '&' T_ANDAND '=' T_ANDEQUALS T_AND
    else if ch = some '|' then gettoken_two '|' T_OROR '=' T_OREQUALS T_OR
    else if ch = some '!' then gettoken_eq T_NOT T_NE
    else if ch = some '#' then gettoken_eq T_HASH T_HASHEQUALS
    else if ch = some '~' then gettoken_eq T_TILDE T_TILDEEQUALS
    else if ch = some '\\' then
      let ch ← nextchar
      if ch = some '\n' then gettoken_loop SYMBOLSIZE qparse n
      else if ch = some '=' then pure T_BACKSLASHEQUALS
      else
        reread
        pure T_BACKSLASH
    else if isletter ch ∨ ch = some '_' then
      reread
      eatsymbol SYMBOLSIZE n
    else if isdigit ch ∨ ch = some '.' then
      reread
      eatnumber qparse n
    else
      scanerror_null
      gettoken_loop SYMBOLSIZE qparse n

/-- The function `gettoken` of token.c. -/
def gettoken (SYMBOLSIZE : Nat) (qparse : List Char → Int) (n : Nat) : L TokenType := do
  if (← get).rescan then
    modify fun s => { s with rescan := false }
    pure (← get).t_type
  else
    modify fun s => { s with t_sym := none, t_strindex := 0, t_numindex := 0 }
    let type ← gettoken_loop SYMBOLSIZE qparse n
    modify fun s => { s with t_type := type }
    pure type

/-- The function `tokenstring` of token.c. -/
def tokenstring : L Int := fun s => Res.ok s.t_strindex s

/-- The function `tokennumber` of token.c. -/
def tokennumber : L Int := fun s => Res.ok s.t_numindex s

/-- The function `tokensymbol` of token.c. -/
def tokensymbol : L (Option (List Char)) := fun s => Res.ok s.t_sym s

/-- The function `rescantoken` of token.c. -/
def rescantoken : L Unit := modify fun s => { s with rescan := true }

end Lexer

namespace Lexer

/-- The state `t` comes from the state `s` by scanning: the modes and the
pushback flag of the token are the same, and no error is forgotten. -/
structure Scans (s t : State) : Prop where
  rescan : t.rescan = s.rescan
  newlines : t.newlines = s.newlines
  allsyms : t.allsyms = s.allsyms
  maxscancount : t.maxscancount = s.maxscancount
  terminal : t.terminal = s.terminal
  errorcount : s.errorcount ≤ t.errorcount

/-- Every return and every abort of the function is a scanning step. -/
def ScanSpec {α : Type} (p : L α) : Prop :=
  ∀ s, match p s with
    | Res.ok _ t => Scans s t
    | Res.abort t => Scans s t
    | Res.nofuel => True

end Lexer

namespace Lexer

/-- A numeric parser for the examples, in the place of `qparse`: decimal digits, a
fraction after a `.` and a trailing `i` or `I`; the answer is the number of
characters that form the number, and -1 when a second `.` follows it. -/
def qparse_decimal (text : List Char) : Int :=
  let digits := text.takeWhile Char.isDigit
  let rest := text.drop digits.length
  let (n, rest) :=
    match rest with
    | '.' :: more =>
      let fraction := more.takeWhile Char.isDigit
      (digits.length + 1 + fraction.length, more.drop fraction.length)
    | _ => (digits.length, rest)
  let (n, rest) :=
    match rest with
    | 'i' :: more => (n + 1, more)
    | 'I' :: more => (n + 1, more)
    | _ => (n, rest)
  match rest with
  | '.' :: _ => -1
  | _ => n

end Lexer

namespace Lexer

/-- The characters that `nextchar` will return from the state, one after the
other: the character pushed back, when a pushback is pending, and the
characters not read yet. -/
def Unread (s : State) (input : List Char) : Prop :=
  if s.pushed = true then
    match s.lastch with
    | some c => input = c :: s.chars
    | none => input = [] ∧ s.chars = []
  else input = s.chars

/-- The operators and the punctuation of `gettoken`, as they are spelled. -/
def operators : List (List Char × TokenType) :=
  [(['{'], T_LEFTBRACE), (['}'], T_RIGHTBRACE), (['('], T_LEFTPAREN), ([')'], T_RIGHTPAREN),
   (['['], T_LEFTBRACKET), ([']'], T_RIGHTBRACKET), ([';'], T_SEMICOLON), ([':'], T_COLON),
   ([','], T_COMMA), (['?'], T_QUESTIONMARK), (['@'], T_AT), ([Char.ofNat 96], T_BACKQUOTE),
   (['$'], T_DOLLAR),
   (['^'], T_POWER), (['^', '='], T_POWEREQUALS),
   (['='], T_ASSIGN), (['=', '='], T_EQ),
   (['+'], T_PLUS), (['+', '+'], T_PLUSPLUS), (['+', '='], T_PLUSEQUALS),
   (['-'], T_MINUS), (['-', '-'], T_MINUSMINUS), (['-', '='], T_MINUSEQUALS),
   (['-', '>'], T_ARROW),
   (['*'], T_MULT), (['*', '='], T_MULTEQUALS), (['*', '*'], T_POWER),
   (['*', '*', '='], T_POWEREQUALS),
   (['/'], T_DIV), (['/', '/'], T_SLASHSLASH), (['/', '/', '='], T_SLASHSLASHEQUALS),
   (['/', '='], T_DIVEQUALS),
   (['%'], T_MOD), (['%', '='], T_MODEQUALS),
   (['<'], T_LT), (['<', '='], T_LE), (['<', '<'], T_LEFTSHIFT),
   (['<', '<', '='], T_LSHIFTEQUALS),
   (['>'], T_GT), (['>', '='], T_GE), (['>', '>'], T_RIGHTSHIFT),
   (['>', '>', '='], T_RSHIFTEQUALS),
   (['&'], T_AND), (['&', '&'], T_ANDAND), (['&', '='], T_ANDEQUALS),
   (['|'], T_OR), (['|', '|'], T_OROR), (['|', '='], T_OREQUALS),
   (['!'], T_NOT), (['!', '='], T_NE),
   (['#'], T_HASH), (['#', '='], T_HASHEQUALS),
   (['~'], T_TILDE), (['~', '='], T_TILDEEQUALS),
   (['\\'], T_BACKSLASH), (['\\', '='], T_BACKSLASHEQUALS)]

/-- The longer of two spellings, the first when they are as long. -/
def longer (best : Option (List Char × TokenType)) (e : List Char × TokenType) :
    Option (List Char × TokenType) :=
  match best with
  | none => some e
  | some b => if b.1.length < e.1.length then some e else some b

/-- The longest prefix of the input that spells an operator, with its token. -/
def longest_operator (input : List Char) : Option (List Char × TokenType) :=
  (operators.filter fun e => e.1.isPrefixOf input).foldl longer none

end Lexer

namespace Lexer

/-- The octal digits of an escape: the octal digits at the head of the input, three
at most. -/
def octal_digits (input : List Char) : List Char :=
  (input.takeWhile fun c => isoctal (some c)).take 3

/-- The number that octal digits denote. -/
def octal_value (digits : List Char) : Nat :=
  digits.foldl (fun v d => 8 * v + (d.toNat - '0'.toNat)) 0

end Lexer

/-- The state in which a run leaves off: where it returned or where it was
aborted. -/
def stateOf {α : Type} (p : P α) (s : PState) : PState :=
  match p s with
  | Res.ok _ t => t
  | Res.abort t => t
  | Res.nofuel => s

/-- What `getaltcond` does between the `?` and the true branch: the labels
`donelab` and `altlab` are new, and the jump to the false branch is emitted. -/
def altcond_test : P (Nat × Nat) := do
  let donelab ← newlabel
  let altlab ← newlabel
  addoplabel OP_JUMPEQ altlab
  pure ( donelab, altlab)

/-- What `getaltcond` does between the `:` and the false branch. -/
def altcond_else ( donelab altlab : Nat) : P Unit := do
  addoplabel OP_JUMP donelab
  setlabel altlab

/-- The line `1 ? 2 : 3 ? 1 : 2;` at the top level. -/
def cond_line : PState :=
  top_level [numtok 0, optok T_QUESTIONMARK, numtok 1, optok T_COLON, numtok 2,
    optok T_QUESTIONMARK, numtok 0, optok T_COLON, numtok 1, optok T_SEMICOLON]

/-- The states of `cond_line` after the condition, after the `?`, after the true
branch, after the `:` and after the false branch. -/
def cond_states : PState × PState × PState × PState × PState :=
  let s1 := stateOf (getorcond 29) cond_line
  let s2 := stateOf gettoken s1
  let s3 := stateOf (getaltcond 29) (stateOf altcond_test s2)
  let s4 := stateOf gettoken s3
  let s5 := stateOf (getaltcond 29)
    (stateOf (altcond_else s2.labels.length (s2.labels.length + 1)) s4)
  (s1, s2, s3, s4, s5)

/-- The line `1 ? 2 ; 3`, in which the `:` is missing. -/
def nocolon_line : PState :=
  top_level [numtok 0, optok T_QUESTIONMARK, numtok 1, optok T_SEMICOLON, numtok 2]

/-- The states of `nocolon_line` after the condition, after the `?`, after the true
branch and after the token that is not a `:`. -/
def nocolon_states : PState × PState × PState × PState :=
  let s1 := stateOf (getorcond 29) nocolon_line
  let s2 := stateOf gettoken s1
  let s3 := stateOf (getaltcond 29) (stateOf altcond_test s2)
  (s1, s2, s3, stateOf gettoken s3)

/-- The switch of `getassignment` on the token after the left side: the opcode of
the base operation of a compound assignment, none for `=`; no answer for a
token that is not an assignment operator. -/
def assign_opcode : TokenType → Option (Option Opcode)
  | T_ASSIGN => some none
  | T_PLUSEQUALS => some (some OP_ADD)
  | T_MINUSEQUALS => some (some OP_SUB)
  | T_MULTEQUALS => some (some OP_MUL)
  | T_DIVEQUALS => some (some OP_DIV)
  | T_SLASHSLASHEQUALS => some (some OP_QUO)
  | T_MODEQUALS => some (some OP_MOD)
  | T_ANDEQUALS => some (some OP_AND)
  | T_OREQUALS => some (some OP_OR)
  | T_LSHIFTEQUALS => some (some OP_LEFTSHIFT)
  | T_RSHIFTEQUALS => some (some OP_RIGHTSHIFT)
  | T_POWEREQUALS => some (some OP_POWER)
  | _ => none

/-- What `getassignment` does between the operator and the right side, for an
assignable left side: the left side is marked for writing and, for a compound
assignment, its address is duplicated. -/
def assign_mark (op : Option Opcode) : P Unit := do
  writeindexop
  if op.isSome then addop OP_DUPLICATE

/-- What `getassignment` emits after the right side. -/
def assign_emit (op : Option Opcode) : P Unit := do
  match op with
  | some o => addop o
  | none => pure ()
  addop OP_ASSIGN

/-- The line `a += 2;` at the top level, `a`, `b` and `c` being the globals with
the names 7, 8 and 9. -/
def plus_line : PState :=
  { top_level [symtok 7, optok T_PLUSEQUALS, numtok 1, optok T_SEMICOLON] with
    globals := [(7, false), (8, false), (9, false)] }

/-- The line `a = b = c;` at the top level. -/
def chain_line : PState :=
  { top_level [symtok 7, optok T_ASSIGN, symtok 8, optok T_ASSIGN, symtok 9,
      optok T_SEMICOLON] with
    globals := [(7, false), (8, false), (9, false)] }

/-- The states of a line with an assignment after the left side, after the
operator `tok` with the opcode `op`, after the token that follows it, and
after the right side. -/
def assign_states (line : PState) (op : Option Opcode) :
    PState × PState × PState × PState :=
  let s1 := stateOf (getaltcond 29) line
  let s2 := stateOf gettoken s1
  let s3 := stateOf gettoken (stateOf (assign_mark op) s2)
  (s1, s2, s3, stateOf (getassignment 29) (stateOf rescantoken s3))

/-- The switch of `getrelation` on the token after the first sum: the opcode of
the relation; no answer for a token that is not a relational operator. -/
def relation_opcode : TokenType → Option Opcode
  | T_EQ => some OP_EQ
  | T_NE => some OP_NE
  | T_LT => some OP_LT
  | T_GT => some OP_GT
  | T_LE => some OP_LE
  | T_GE => some OP_GE
  | _ => none

/-- The line `1 < 2 == 3;` at the top level. -/
def relation_line : PState :=
  top_level [numtok 0, optok T_LT, numtok 1, optok T_EQ, numtok 2, optok T_SEMICOLON]

/-- The switch of `getshiftexpr` on the token after the term: the opcode of the
operator; no answer for a token that is not a shift or power operator. -/
def shift_opcode : TokenType → Option Opcode
  | T_POWER => some OP_POWER
  | T_LEFTSHIFT => some OP_LEFTSHIFT
  | T_RIGHTSHIFT => some OP_RIGHTSHIFT
  | _ => none

/-- The line `1 << 2 >> 3;` at the top level. -/
def shift_line : PState :=
  top_level [numtok 0, optok T_LEFTSHIFT, numtok 1, optok T_RIGHTSHIFT, numtok 2,
    optok T_SEMICOLON]

/-- The beginning of `getstatement`: the line number is recorded. -/
def statement_begin : P Unit := do
  addopone OP_DEBUG (← linenumber)

/-- The switch at the end of `getstatement`, which looks for the end of the
statement. -/
def statement_finish : P Unit := do
  match (← gettoken) with
  | T_RIGHTBRACE | T_NEWLINE | T_EOF => rescantoken
  | T_SEMICOLON => pure ()
  | _ => scanerror T_SEMICOLON

/-- The tokens for which the switch of `getstatement` has no case of their own,
and `T_SYMBOL`, whose case falls into the default case when no colon follows:
the tokens that begin an expression statement. -/
def starts_expression : TokenType → Bool
  | T_NEWLINE | T_SEMICOLON | T_RIGHTBRACE | T_CONTINUE | T_BREAK | T_GOTO | T_RETURN
  | T_LEFTBRACE | T_IF | T_FOR | T_WHILE | T_DO | T_SWITCH | T_CASE | T_DEFAULT | T_ELSE
  | T_SHOW | T_PRINT | T_QUIT => false
  | _ => true

/-- The opcodes that follow the code of an expression statement. -/
def expression_tail (contlabel breaklabel : Option Nat) (type : Nat) (s : PState) :
    List Opcode :=
  if contlabel.isSome ∨ breaklabel.isSome ∨ f_name_at s 0 ≠ '*' then [OP_POP]
  else if isassign type = false ∧ f_name_at s 1 = Char.ofNat 0 then [OP_SAVE, OP_PRINTRESULT]
  else [OP_SAVE, OP_POP]

/-- The line `1 + 2;` at the top level. -/
def sum_line : PState := top_level [numtok 0, optok T_PLUS, numtok 1, optok T_SEMICOLON]

/-- The line `x = 2;` at the top level, `x` being a name that is not defined. -/
def define_line : PState :=
  top_level [symtok 7, optok T_ASSIGN, numtok 1, optok T_SEMICOLON]

/-- The scanning mode that the flags `m` of `tokenmode` stand for is the mode of
the state. -/
def InMode (m : Nat) (t : PState) : Prop :=
  t.newlines = ((m &&& TM_NEWLINES) != 0) ∧ t.allsyms = ((m &&& TM_ALLSYMS) != 0)

/-- Every return of the function is in the mode `m`. -/
def Restores {α : Type} (m : Nat) (p : P α) : Prop :=
  ∀ s, match p s with
    | Res.ok _ t => InMode m t
    | Res.abort _ => True
    | Res.nofuel => True

/-- Every return of the function that has counted no error is in the mode `m`. -/
def RestoresOrErr {α : Type} (m : Nat) (p : P α) : Prop :=
  ∀ s, match p s with
    | Res.ok _ t => t.errorcount = s.errorcount → InMode m t
    | Res.abort _ => True
    | Res.nofuel => True

/-- The function only adds to the errors counted. -/
def CountsUp {α : Type} (p : P α) : Prop :=
  ∀ s, match p s with
    | Res.ok _ t => s.errorcount ≤ t.errorcount
    | Res.abort _ => True
    | Res.nofuel => True

/-- The line `{ local x; }` in the mode of the top level. -/
def local_line : PState :=
  top_level [optok T_LEFTBRACE, optok T_LOCAL, symtok 7, optok T_SEMICOLON,
    optok T_RIGHTBRACE]

/-- The line `{ 1, 2 }` in the mode of the top level. -/
def initlist_line : PState :=
  top_level [optok T_LEFTBRACE, numtok 0, optok T_COMMA, numtok 1, optok T_RIGHTBRACE]

/-- The line `{ 1; }` in the mode of the top level. -/
def body_line : PState :=
  top_level [optok T_LEFTBRACE, numtok 0, optok T_SEMICOLON, optok T_RIGHTBRACE]

/-- The token types that continue an expression after a sum at one of the levels
from `getsum` to `getassignment`: the operators of all the levels, and the
tokens that `getassignment` reports as a missing operator. -/
def continues_assignment : TokenType → Bool
  | T_PLUS | T_MINUS | T_MULT | T_DIV | T_MOD | T_SLASHSLASH | T_OR | T_AND
  | T_PLUSPLUS | T_MINUSMINUS | T_NOT | T_POWER | T_LEFTSHIFT | T_RIGHTSHIFT
  | T_EQ | T_NE | T_LT | T_GT | T_LE | T_GE | T_ANDAND | T_OROR | T_QUESTIONMARK
  | T_ASSIGN | T_PLUSEQUALS | T_MINUSEQUALS | T_MULTEQUALS | T_DIVEQUALS
  | T_SLASHSLASHEQUALS | T_MODEQUALS | T_ANDEQUALS | T_OREQUALS | T_LSHIFTEQUALS
  | T_RSHIFTEQUALS | T_POWEREQUALS
  | T_NUMBER | T_IMAGINARY | T_STRING | T_SYMBOL | T_OLDVALUE | T_LEFTPAREN => true
  | _ => false

/-- The state with the two labels that `getorcond` and `getandcond` declare. -/
def PState.with_labels (s : PState) : PState :=
  { s with labels := s.labels ++ [{}] ++ [{}] }

/-- The tokens that `getassignment` reports as a missing operator. -/
def missing_operator : TokenType → Bool
  | T_NUMBER | T_IMAGINARY | T_STRING | T_SYMBOL | T_OLDVALUE | T_LEFTPAREN
  | T_PLUSPLUS | T_MINUSMINUS | T_NOT => true
  | _ => false

/-- An argument of a call: a number literal, `&` and the name of a global, or
nothing. -/
inductive CallArg where
  | value (numindex : Int)
  | address (name : Int)
  | empty
  deriving DecidableEq, Repr

/-- The tokens of an argument. -/
def CallArg.tokens : CallArg → List Token
  | CallArg.value i => [numtok i]
  | CallArg.address x => [optok T_AND, symtok x]
  | CallArg.empty => []

/-- The tokens of the arguments of a call, which commas separate. -/
def call_tokens : List CallArg → List Token
  | [] => []
  | [a] => a.tokens
  | a :: b :: l => a.tokens ++ optok T_COMMA :: call_tokens (b :: l)

/-- The code of an argument, in a call with the opcode `op`, the globals being
`globals`. -/
def CallArg.code (op : Opcode) (globals : List (Int × Bool)) : CallArg → List Slot
  | CallArg.value i =>
    [Slot.op OP_NUMBER, Slot.arg i] ++ (if op ≠ OP_CALL then [Slot.op OP_GETVALUE] else [])
  | CallArg.address x =>
    [Slot.op OP_GLOBALADDR, Slot.arg ((globals.map Prod.fst).indexOf x)]
  | CallArg.empty => [Slot.op OP_UNDEF]

/-- The opcode that the code of an argument ends with. -/
def CallArg.lastop (op : Opcode) : CallArg → Opcode
  | CallArg.value _ => if op ≠ OP_CALL then OP_GETVALUE else OP_NUMBER
  | CallArg.address _ => OP_GLOBALADDR
  | CallArg.empty => OP_UNDEF

/-- The labels that the expression levels declare for an argument. -/
def CallArg.nlabels : CallArg → Nat
  | CallArg.empty => 0
  | _ => 2

/-- The end of `getcallargs`: the check of the number of arguments of a built-in
function, and the call. -/
def call_end (op : Opcode) (index : Int) (argcount : Int) : P Unit := do
  if op = OP_CALL then builtincheck index argcount
  addopfunction op index argcount

/-- The state with `g` more labels, none of them used. -/
def PState.grown (s : PState) (g : Nat) : PState :=
  { s with labels := s.labels ++ List.replicate g {} }

/-- The number literal as a sum. -/
def SumExpr.literal (i : Int) : SumExpr :=
  { first := { first := { first := { first := i, more := [] }, more := [] }, more := [] },
    more := [] }

/-- The names that an argument takes the address of are globals that no
parameter and no local of the function hides. -/
def CallArg.known (s : PState) : CallArg → Prop
  | CallArg.address x =>
    s.params.contains x = false ∧ s.locals.contains x = false ∧
      (s.globals.find? fun g => g.1 == x).isSome
  | _ => True

/-- The code of the arguments of a call, one after the other. -/
def call_code (op : Opcode) (globals : List (Int × Bool)) : List CallArg → List Slot
  | [] => []
  | a :: l => a.code op globals ++ call_code op globals l

/-- The opcode that the code of the arguments ends with, `o` when there is
none. -/
def call_lastop (op : Opcode) (o : Opcode) : List CallArg → Opcode
  | [] => o
  | a :: l => call_lastop op (a.lastop op) l

/-- The labels that the expression levels declare for the arguments. -/
def call_labels : List CallArg → Nat
  | [] => 0
  | a :: l => a.nlabels + call_labels l

/-- The opcode and the function index that `getcallargs` calls the function
`name` with: `OP_CALL` and the index of the built-in function, or `OP_USERCALL`
and the index that `adduserfunc` gives the name. -/
def call_target (s : PState) (name : Int) : Opcode × Int :=
  if findstr (s.builtins.map BuiltinFunc.b_name) name < 0 then
    (OP_USERCALL,
      if s.userfuncs.contains name then s.userfuncs.indexOf name else s.userfuncs.length)
  else (OP_CALL, findstr (s.builtins.map BuiltinFunc.b_name) name)

/-- The state in which the function `name` has been called: a name that is not
built in is among the user functions. -/
def PState.calling (s : PState) (name : Int) : PState :=
  if findstr (s.builtins.map BuiltinFunc.b_name) name < 0 ∧ s.userfuncs.contains name = false
  then { s with userfuncs := s.userfuncs ++ [name] } else s

/-- The bounds of a built-in function hold for `count` arguments. -/
def arity_fits (s : PState) (index : Int) (count : Int) : Prop :=
  (s.builtins.getD index.toNat { b_name := 0, b_minargs := 0, b_maxargs := 0 }).b_minargs
      ≤ count ∧
    count ≤
      (s.builtins.getD index.toNat { b_name := 0, b_minargs := 0, b_maxargs := 0 }).b_maxargs

/-- The state in which the calls of the examples are compiled: the name 7 is a
global, and the name 3 is a built-in function of one to two arguments. -/
def call_state : PState :=
  { globals := [(7, false)], builtins := [{ b_name := 3, b_minargs := 1, b_maxargs := 2 }],
    f_name := ['*'] }

/-- The tokens of `1, , &a, )`, of `1)` and of `)`: what follows `f(`. -/
def call_lines : List Token × List Token × List Token :=
  ([numtok 0, optok T_COMMA, optok T_COMMA, optok T_AND, symtok 7, optok T_COMMA,
      optok T_RIGHTPAREN, optok T_SEMICOLON],
    [numtok 0, optok T_RIGHTPAREN, optok T_SEMICOLON],
    [optok T_RIGHTPAREN, optok T_SEMICOLON])

/-- An initializer list behind its opening brace: the end of the list, or a slot
and the slots after it.  A slot holds a number literal, a nested list in
braces, or nothing. -/
inductive InitList where
  | done
  | value (numindex : Int) (more : InitList)
  | nested (inner : InitList) (more : InitList)
  | empty (more : InitList)
  deriving DecidableEq, Repr

/-- The comma in front of the slots that are left, if there are any. -/
def InitList.sep : InitList → List Token
  | InitList.done => []
  | _ => [optok T_COMMA]

/-- The tokens of the slots, without the closing brace of the list. -/
def InitList.tokens : InitList → List Token
  | InitList.done => []
  | InitList.value i more => numtok i :: (more.sep ++ more.tokens)
  | InitList.nested inner more =>
    optok T_LEFTBRACE :: (inner.tokens ++ optok T_RIGHTBRACE :: (more.sep ++ more.tokens))
  | InitList.empty more => more.sep ++ more.tokens

/-- The code of the slots, the first of which has the position `k`. -/
def InitList.code (k : Int) : InitList → List Slot
  | InitList.done => []
  | InitList.value i more =>
    [Slot.op OP_NUMBER, Slot.arg i, Slot.op OP_ELEMINIT, Slot.arg k] ++ more.code (k + 1)
  | InitList.nested inner more =>
    [Slot.op OP_DUPLICATE, Slot.op OP_ELEMADDR, Slot.arg k] ++ inner.code 0 ++
      [Slot.op OP_ELEMINIT, Slot.arg k] ++ more.code (k + 1)
  | InitList.empty more => more.code (k + 1)

/-- The opcode that the code of the slots ends with, `o` when there is no code. -/
def InitList.lastop (o : Opcode) : InitList → Opcode
  | InitList.done => o
  | InitList.value _ more => more.lastop OP_ELEMINIT
  | InitList.nested _ more => more.lastop OP_ELEMINIT
  | InitList.empty more => more.lastop o

/-- The labels that the expression levels declare for the slots. -/
def InitList.nlabels : InitList → Nat
  | InitList.done => 0
  | InitList.value _ more => 2 + more.nlabels
  | InitList.nested inner more => inner.nlabels + more.nlabels
  | InitList.empty more => more.nlabels

/-- The position that the loop of `getinitlist` has reached at the closing brace,
from the position `k` of the first slot: every comma advances it. -/
def InitList.last (k : Int) : InitList → Int
  | InitList.done => k
  | InitList.value _ more => if more = InitList.done then k else more.last (k + 1)
  | InitList.nested _ more => if more = InitList.done then k else more.last (k + 1)
  | InitList.empty more => if more = InitList.done then k else more.last (k + 1)

/-- Fuel that is enough for the slots. -/
def InitList.cost : InitList → Nat
  | InitList.done => 16
  | InitList.value _ more => more.cost + 1
  | InitList.nested inner more => inner.cost + more.cost + 2
  | InitList.empty more => more.cost + 1

/-- The state in the token mode `m`. -/
def PState.inmode (s : PState) (m : Nat) : PState :=
  { s with newlines := (m &&& TM_NEWLINES) != 0, allsyms := (m &&& TM_ALLSYMS) != 0 }

/-- The token mode of the state, as `tokenmode` returns it. -/
def PState.mode (s : PState) : Nat :=
  let oldflag := TM_DEFAULT
  let oldflag := if s.newlines then oldflag ||| TM_NEWLINES else oldflag
  if s.allsyms then oldflag ||| TM_ALLSYMS else oldflag

/-- What the loop of `getinitlist` does after a slot at the position `index`, the
token `t` behind the slot being read: it goes on at a comma and returns at the
closing brace. -/
def initlist_next (n oldmode : Nat) (index : Int) (t : TokenType) : P Int :=
  if t = T_RIGHTBRACE then do
    let _ ← tokenmode oldmode
    pure index
  else getinitlist_loop n oldmode (index + 1)

/-- The loop of `getinitlist` on the slots `l` from the position `k`, in front
of the closing brace of the list. -/
def InitLoop (l : InitList) : Prop :=
  ∀ (n m : Nat) (k : Int) (s : PState) (g : Nat) (c : List Slot) (o : Opcode) (cur : Token)
    (inp : List Token) (r : Bool) (rest : List Token),
    (if r then cur :: inp else inp) = l.tokens ++ optok T_RIGHTBRACE :: rest →
    l.cost ≤ n →
    getinitlist_loop n m k ((s.grown g).advance c o cur inp r) =
      Res.ok (l.last k)
        (((s.inmode m).grown (g + l.nlabels)).advance (c ++ l.code k) (l.lastop o)
          (optok T_RIGHTBRACE) rest false)

/-- The list whose slots hold the number literals `is`, none of them empty. -/
def InitList.values : List Int → InitList
  | [] => InitList.done
  | i :: is => InitList.value i (InitList.values is)

/-- The tokens of `1, {2, 3}, , 4}` behind the opening brace, the literals having
the indices 0 to 3. -/
def init_line : List Token :=
  [numtok 0, optok T_COMMA, optok T_LEFTBRACE, numtok 1, optok T_COMMA, numtok 2,
    optok T_RIGHTBRACE, optok T_COMMA, optok T_COMMA, numtok 3, optok T_RIGHTBRACE,
    optok T_SEMICOLON]

/-- The labels of a `for` statement, which `getstatement` clears first. -/
def for_begin : P (Nat × Nat × Nat × Nat) := do
  let label1 ← newlabel
  let label2 ← newlabel
  let label3 ← newlabel
  let label4 ← newlabel
  pure (label1, label2, label3, label4)

/-- The end of a `for` statement, from `setlabel(&label3)` on: the body, with the
continue label `contlabel`, which is `label3` when there is none, and the break
label `label4`. -/
def for_body (n : Nat) (label3 label4 : Nat) (contlabel : Option Nat) : P Unit := do
  setlabel label3
  let contlabel := match contlabel with
    | none => label3
    | some l => l
  getstatement n (some contlabel) (some label4) none none
  addoplabel OP_JUMP contlabel
  setlabel label4

/-- The `for` statement from the `c` part on; `contlabel` is the continue label
that the `b` part has set. -/
def for_step (n : Nat) (label1 label2 label3 label4 : Nat) (contlabel : Option Nat) :
    P Unit := do
  if (← gettoken) ≠ T_RIGHTPAREN then
    if (← readlabel label1).l_offset ≤ 0 then addoplabel OP_JUMP label3
    setlabel label2
    rescantoken
    let _ ← getexprlist n
    addop OP_POP
    if (← readlabel label1).l_offset > 0 then addoplabel OP_JUMP label1
    if (← gettoken) ≠ T_RIGHTPAREN then scanerror T_SEMICOLON
    else for_body n label3 label4 (some label2)
  else for_body n label3 label4 contlabel

/-- The `for` statement from the `b` part on. -/
def for_test (n : Nat) (label1 label2 label3 label4 : Nat) : P Unit := do
  if (← gettoken) ≠ T_SEMICOLON then
    setlabel label1
    rescantoken
    let _ ← getexprlist n
    addoplabel OP_JUMPNE label3
    addoplabel OP_JUMP label4
    if (← gettoken) ≠ T_SEMICOLON then scanerror T_SEMICOLON
    else for_step n label1 label2 label3 label4 (some label1)
  else for_step n label1 label2 label3 label4 none

/-- What `getstatement` does with the `a` part of a `for` statement, the first
token of the part being read. -/
def for_init (n : Nat) : P Unit := do
  rescantoken
  let _ ← getexprlist n
  addop OP_POP

/-- What `getstatement` does in front of the `b` part of a `for` statement. -/
def for_test_begin (label1 : Nat) : P Unit := do
  setlabel label1
  rescantoken

/-- What `getstatement` does behind the `b` part of a `for` statement. -/
def for_test_end (label3 label4 : Nat) : P Unit := do
  addoplabel OP_JUMPNE label3
  addoplabel OP_JUMP label4

/-- What `getstatement` does in front of the `c` part of a `for` statement. -/
def for_step_begin (label1 label2 label3 : Nat) : P Unit := do
  if (← readlabel label1).l_offset ≤ 0 then addoplabel OP_JUMP label3
  setlabel label2
  rescantoken

/-- What `getstatement` does behind the `c` part of a `for` statement. -/
def for_step_end (label1 : Nat) : P Unit := do
  addop OP_POP
  if (← readlabel label1).l_offset > 0 then addoplabel OP_JUMP label1

/-- What `getstatement` does behind the body of a `for` statement. -/
def for_end (contlabel label4 : Nat) : P Unit := do
  addoplabel OP_JUMP contlabel
  setlabel label4

/-- The `a` part of a `for` statement, from the state `s2` behind the left
parenthesis to the state `sa` behind its semicolon: an expression list, whose
value is popped, when the part is present, and nothing when it is not. -/
def for_init_parsed (n : Nat) (s2 sa : PState) : Bool → Prop
  | true =>
    ∃ (tok : TokenType) (s2a s2b : PState) (ta : Nat),
      gettoken s2 = Res.ok tok s2a ∧ tok ≠ T_SEMICOLON ∧
      getexprlist n (stateOf rescantoken s2a) = Res.ok ta s2b ∧
      gettoken (stateOf (addop OP_POP) s2b) = Res.ok T_SEMICOLON sa
  | false => gettoken s2 = Res.ok T_SEMICOLON sa

/-- The `b` part of a `for` statement, from the state `sa` to the state `sc0`
behind its semicolon: when the part is present, its position is `p`, the offset
at which its first token is read, `label1` is resolved there, and the
expression list is followed by the jump into the body and the jump to the
break label. -/
def for_test_parsed (n : Nat) (label1 label3 label4 : Nat) (sa sc0 : PState) :
    Option Nat → Prop
  | some p =>
    ∃ (tokb : TokenType) (sb sb1 : PState) (tb : Nat),
      gettoken sa = Res.ok tokb sb ∧ tokb ≠ T_SEMICOLON ∧ p = sb.f_opcodes.length ∧
      getexprlist n (stateOf (for_test_begin label1) sb) = Res.ok tb sb1 ∧
      gettoken (stateOf (for_test_end label3 label4) sb1) = Res.ok T_SEMICOLON sc0
  | none => gettoken sa = Res.ok T_SEMICOLON sc0

/-- The `c` part of a `for` statement, from the state `sc0` to the state `sd`
behind the right parenthesis: when the part is present, its position is `p`,
the offset at which its expression list begins, where `label2` is resolved. -/
def for_step_parsed (n : Nat) (label1 label2 label3 : Nat) (sc0 sd : PState) :
    Option Nat → Prop
  | some p =>
    ∃ (tokc : TokenType) (sc sc1 : PState) (tc : Nat),
      gettoken sc0 = Res.ok tokc sc ∧ tokc ≠ T_RIGHTPAREN ∧
      p = (stateOf (for_step_begin label1 label2 label3) sc).f_opcodes.length ∧
      getexprlist n (stateOf (for_step_begin label1 label2 label3) sc) = Res.ok tc sc1 ∧
      gettoken (stateOf (for_step_end label1) sc1) = Res.ok T_RIGHTPAREN sd
  | none => gettoken sc0 = Res.ok T_RIGHTPAREN sd

/-- The continue label of the body of a `for` statement with the labels `label1`,
`label2` and `label3`: `label2` when the `c` part is present, otherwise
`label1` when the `b` part is present, otherwise `label3`. -/
def for_continue (label1 label2 label3 : Nat) (bpos cpos : Option Nat) : Nat :=
  match cpos, bpos with
  | some _, _ => label2
  | none, some _ => label1
  | none, none => label3

/-- The line `for (1; 2; 3) ;` at the top level. -/
def for_line : PState :=
  top_level [optok T_FOR, optok T_LEFTPAREN, numtok 0, optok T_SEMICOLON, numtok 1,
    optok T_SEMICOLON, numtok 2, optok T_RIGHTPAREN, optok T_SEMICOLON, optok T_NEWLINE]

/-- The line `for (; 2;) continue;` at the top level. -/
def for_while : PState :=
  top_level [optok T_FOR, optok T_LEFTPAREN, optok T_SEMICOLON, numtok 1,
    optok T_SEMICOLON, optok T_RIGHTPAREN, optok T_CONTINUE, optok T_SEMICOLON,
    optok T_NEWLINE]

/-- The line `for (;;) ;` at the top level. -/
def for_ever : PState :=
  top_level [optok T_FOR, optok T_LEFTPAREN, optok T_SEMICOLON,
    optok T_SEMICOLON, optok T_RIGHTPAREN, optok T_SEMICOLON, optok T_NEWLINE]

/-- The state behind the left parenthesis of a `for` statement. -/
def for_open (s : PState) : PState :=
  stateOf gettoken (stateOf for_begin (stateOf gettoken (stateOf statement_begin s)))

/-- The states of the `a` part that is present, from the state `s2`: the first
token read, the expression list parsed, and the semicolon read. -/
def for_init_states (s2 : PState) : PState × PState × PState :=
  let s2a := stateOf gettoken s2
  let s2b := stateOf (getexprlist 30) (stateOf rescantoken s2a)
  (s2a, s2b, stateOf gettoken (stateOf (addop OP_POP) s2b))

/-- The states of the `b` part that is present, from the state `sa`. -/
def for_test_states (sa : PState) : PState × PState × PState :=
  let sb := stateOf gettoken sa
  let sb1 := stateOf (getexprlist 30) (stateOf (for_test_begin 0) sb)
  (sb, sb1, stateOf gettoken (stateOf (for_test_end 2 3) sb1))

/-- The states of the `c` part that is present, from the state `sc0`. -/
def for_step_states (sc0 : PState) : PState × PState × PState :=
  let sc := stateOf gettoken sc0
  let sc1 := stateOf (getexprlist 30) (stateOf (for_step_begin 0 1 2) sc)
  (sc, sc1, stateOf gettoken (stateOf (for_step_end 0) sc1))

/-- The state in which the body of a `for` statement with the continue label
`contlabel` is parsed, from the state `sd` behind the right parenthesis. -/
def for_body_state (contlabel : Nat) (sd : PState) : PState :=
  stateOf (getstatement 30 (some contlabel) (some 3) none none) (stateOf (setlabel 2) sd)

/-- The beginning of a static declaration in `getonedeclaration`: the guard
`OP_INITSTATIC`, which refers to the label of the function, cleared. -/
def static_begin : P Nat := do
  let label ← newlabel
  clearlabel label
  addoplabel OP_INITSTATIC label
  pure label

/-- What `getonedeclaration` does for a static declaration between the guard and
the `setlabel` of its label: the declarator and its initializer. -/
def static_declarator (n : Nat) : P Unit := do
  match (← gettoken) with
  | T_SYMBOL => do
    let name ← tokenstring
    definesymbol name SYM_STATIC
    if (← gettoken) ≠ T_ASSIGN then
      rescantoken
    else
      addopone OP_DEBUG (← linenumber)
      usesymbol name false
      let _ ← getassignment n
      addop OP_ASSIGNPOP
  | T_MAT => do
    addopone OP_DEBUG (← linenumber)
    getmatdeclaration n SYM_STATIC
    addop OP_POP
  | T_OBJ => do
    addopone OP_DEBUG (← linenumber)
    getobjdeclaration n SYM_STATIC
    addop OP_POP
  | _ => scanerror T_COMMA

/-- The line `static mat a[2], b[3];` at the top level, the names being 7 and 8
and the literals having the indices 1 and 2. -/
def static_mats : PState :=
  top_level [optok T_STATIC, optok T_MAT, symtok 7, optok T_LEFTBRACKET, numtok 1,
    optok T_RIGHTBRACKET, optok T_COMMA, symtok 8, optok T_LEFTBRACKET, numtok 2,
    optok T_RIGHTBRACKET, optok T_SEMICOLON]

/-- The line `static a, b = 1;` at the top level. -/
def static_names : PState :=
  top_level [optok T_STATIC, symtok 7, optok T_COMMA, symtok 8, optok T_ASSIGN, numtok 0,
    optok T_SEMICOLON]

/-- The state in which `getdeclarations` calls `getonedeclaration` first. -/
def static_first (s : PState) : PState := stateOf gettoken s

/-- The state behind the first declarator of a static declaration. -/
def static_second (s : PState) : PState :=
  stateOf (setlabel (static_first s).labels.length)
    (stateOf (static_declarator 30) (stateOf static_begin (static_first s)))

/-- The labels of an `if` statement, which `getstatement` clears first. -/
def if_begin : P (Nat × Nat) := do
  let label1 ← newlabel
  let label2 ← newlabel
  pure (label1, label2)

/-- What `getstatement` does between the `else` of an `if` statement and the
statement behind it: the jump over that statement, from where the jump of the
condition lands. -/
def if_else (label1 label2 : Nat) : P Unit := do
  addoplabel OP_JUMP label2
  setlabel label1

/-- The line `if (1) 2; else 3;` at the top level. -/
def if_line : PState :=
  top_level [optok T_IF, optok T_LEFTPAREN, numtok 0, optok T_RIGHTPAREN, numtok 1,
    optok T_SEMICOLON, optok T_ELSE, numtok 2, optok T_SEMICOLON, optok T_NEWLINE]

/-- The line `if (1) 2;` at the top level. -/
def if_only : PState :=
  top_level [optok T_IF, optok T_LEFTPAREN, numtok 0, optok T_RIGHTPAREN, numtok 1,
    optok T_SEMICOLON, optok T_NEWLINE]

/-- The states of the run of `getstatement` on an `if` statement in the state `s`
with no label: after `if`, after the condition, after the first statement, and
after the token behind it. -/
def if_states (s : PState) : PState × PState × PState × PState :=
  let s1 := stateOf gettoken (stateOf statement_begin s)
  let s2 := stateOf (getcondition 30) (stateOf if_begin s1)
  let s3 := stateOf (getstatement 30 none none none none) (stateOf (addoplabel OP_JUMPEQ 0) s2)
  (s1, s2, s3, stateOf gettoken s3)

/-- The tokens of the right operands of a chain of `||` or of `&&`, each behind
the operator `t`; the operands are sums of number literals. -/
def chain_tokens (t : TokenType) : List SumExpr → List Token
  | [] => []
  | e :: es => optok t :: (e.tokens ++ chain_tokens t es)

/-- The code of the right operands of a chain, each behind the conditional jump
`op` to the offset `target`. -/
def chain_code (op : Opcode) (target : Int) : List SumExpr → List Slot
  | [] => []
  | e :: es => [Slot.op op, Slot.arg target] ++ e.tree.postorder ++ chain_code op target es

/-- The code of the right operands of a chain as it is emitted from the offset
`base`, before the label is resolved: the operand of each jump is the patch
site before it, `prev` for the first. -/
def chain_pending (op : Opcode) : Nat → Int → List SumExpr → List Slot
  | _, _, [] => []
  | base, prev, e :: es =>
    [Slot.op op, Slot.arg prev] ++ e.tree.postorder ++
      chain_pending op (base + 2 + e.tree.postorder.length) ((base + 1 : Nat) : Int) es

/-- The patch sites of the label of a chain whose right operands are emitted from
the offset `base`, the most recent first, in front of the sites `sites`. -/
def chain_sites : Nat → List SumExpr → List Nat → List Nat
  | _, [], sites => sites
  | base, e :: es, sites =>
    chain_sites (base + 2 + e.tree.postorder.length) es ((base + 1) :: sites)

/-- The opcode that the code of a chain ends with. -/
def chain_lastop (o : Opcode) : List SumExpr → Opcode
  | [] => o
  | e :: es => chain_lastop e.tree.lastop es

/-- Fuel that is enough for the right operands of a chain. -/
def chain_cost : List SumExpr → Nat
  | [] => 0
  | e :: es => e.cost + 3 + chain_cost es

/-- The state in which the label of a chain is `label` and `k` labels that are
not used follow it. -/
def PState.chain (s : PState) (label : LABEL) (k : Nat) : PState :=
  { s with labels := s.labels ++ label :: List.replicate k {} }

/-- A token behind an operand of a chain of `||` that ends the chain: it is
returned by `gettoken` as it is, and it is no operator of the levels from
`getsum` to `getorcond`. -/
def Token.ends_chain (t : Token) : Prop :=
  t.plain ∧ continues_sum t.t_type = false ∧ relation_opcode t.t_type = none ∧
    t.t_type ≠ T_ANDAND ∧ t.t_type ≠ T_OROR

/-- The state in which the loop of a chain returns: the label of the chain is
resolved to the end of the code that is there, and its patch sites `sites` are
overwritten with that offset, when the chain of patch sites is not empty; the
token behind the chain is pushed back. -/
def chain_done (s : PState) (sites : List Nat) (k : Nat) (c : List Slot) (o : Opcode)
    (t : Token) (rest : List Token) : PState :=
  if 0 < ({ l_sites := sites } : LABEL).l_chain then
    { (s.chain { l_offset := ((s.f_opcodes ++ c).length : Int) } k).advance c o t rest true with
      f_opcodes := patchsites sites ((s.f_opcodes ++ c).length : Int) (s.f_opcodes ++ c) }
  else (s.chain { l_sites := sites } k).advance c o t rest true

/-- The label of a chain when the rule returns: resolved to `target` when the
chain has a right operand, and as it was cleared when it has none. -/
def chain_label (es : List SumExpr) (target : Int) : LABEL :=
  if es = [] then {} else { l_offset := target }

/-- The tokens of `1 || 2 || 3;`, of `1 && 2;` and of `1;`, the literals having
the indices 0, 1 and 2. -/
def chain_lines : List Token × List Token × List Token :=
  ([numtok 0, optok T_OROR, numtok 1, optok T_OROR, numtok 2, optok T_SEMICOLON],
    [numtok 0, optok T_ANDAND, numtok 1, optok T_SEMICOLON],
    [numtok 0, optok T_SEMICOLON])

/-! ## commath.c: complex arithmetic -/

namespace Commath

/-- The struct `number` of qmath.h behind a pointer: `addr` is the pointer, which
the source compares, and `val` the rational it holds, numerator and
denominator in lowest terms with a positive denominator. -/
structure NUMBER where
  addr : Nat
  val : ℚ
  deriving DecidableEq

/-- Modelled from the spec: the struct `COMPLEX` of cmath.h, which is not part of
the sources: the pointers to the real and to the imaginary part. -/
structure COMPLEX where
  real : NUMBER
  imag : NUMBER
  deriving DecidableEq

/-- The routines and constants of the rational library (qmath.c), which are not
part of the sources and are parameters here. -/
structure QMath where
  qzero : NUMBER
  qone : NUMBER
  qnegone : NUMBER
  qqadd : NUMBER → NUMBER → NUMBER
  qsub : NUMBER → NUMBER → NUMBER
  qmul : NUMBER → NUMBER → NUMBER
  qdiv : NUMBER → NUMBER → NUMBER
  qsquare : NUMBER → NUMBER
  qneg : NUMBER → NUMBER
  qscale : NUMBER → Int → NUMBER

/-- The rational library computes exactly. -/
structure QMath.Exact (m : QMath) : Prop where
  qzero : m.qzero.val = 0
  qone : m.qone.val = 1
  qnegone : m.qnegone.val = -1
  qqadd : ∀ a b, (m.qqadd a b).val = a.val + b.val
  qsub : ∀ a b, (m.qsub a b).val = a.val - b.val
  qmul : ∀ a b, (m.qmul a b).val = a.val * b.val
  qdiv : ∀ a b, b.val ≠ 0 → (m.qdiv a b).val = a.val / b.val
  qsquare : ∀ a, (m.qsquare a).val = a.val * a.val
  qneg : ∀ a, (m.qneg a).val = -a.val
  qscale : ∀ a (n : Nat), (m.qscale a n).val = a.val * 2 ^ n

/-- The macro `qiszero` of qmath.h: the numerator is zero. -/
def qiszero (q : NUMBER) : Bool := q.val.num == 0

/-- The macro `qisone` of qmath.h: the numerator is one and the denominator a
unit. -/
def qisone (q : NUMBER) : Bool := q.val.num == 1 && q.val.den == 1

/-- The macro `qisnegone` of qmath.h. -/
def qisnegone (q : NUMBER) : Bool := q.val.num == -1 && q.val.den == 1

/-- The macro `qisunit` of qmath.h: numerator and denominator are units, of either
sign. -/
def qisunit (q : NUMBER) : Bool := q.val.num.natAbs == 1 && q.val.den == 1

/-- Modelled from the spec: the macro `cisreal` of cmath.h, which is not part of
the sources: the imaginary part is zero. -/
def cisreal (c : COMPLEX) : Bool := qiszero c.imag

/-- Modelled from the spec: the macro `cisimag` of cmath.h: the real part is zero
and the imaginary part is not. -/
def cisimag (c : COMPLEX) : Bool := qiszero c.real && !cisreal c

/-- Modelled from the spec: the macro `ciszero` of cmath.h. -/
def ciszero (c : COMPLEX) : Bool := cisreal c && qiszero c.real

/-- Modelled from the spec: the macro `cisone` of cmath.h. -/
def cisone (c : COMPLEX) : Bool := cisreal c && qisone c.real

/-- Modelled from the spec: the macro `cisrunit` of cmath.h: the number is 1 or
-1. -/
def cisrunit (c : COMPLEX) : Bool := cisreal c && qisunit c.real

/-- Modelled from the spec: the macro `cisiunit` of cmath.h: the number is i or
-i. -/
def cisiunit (c : COMPLEX) : Bool := qiszero c.real && qisunit c.imag

/-- The constant `_czero_`. -/
def czero (m : QMath) : COMPLEX := ⟨m.qzero, m.qzero⟩

/-- The constant `_cone_`. -/
def cone (m : QMath) : COMPLEX := ⟨m.qone, m.qzero⟩

/-- The constant `_cnegone_`. -/
def cnegone (m : QMath) : COMPLEX := ⟨m.qnegone, m.qzero⟩

/-- The function `comalloc` of commath.c, when the allocation succeeds: both parts
are links to `_qzero_`. -/
def comalloc (m : QMath) : COMPLEX := ⟨m.qzero, m.qzero⟩

/-- The function `cneg` of commath.c. -/
def cneg (m : QMath) (c : COMPLEX) : COMPLEX :=
  if ciszero c then czero m
  else
    let r := comalloc m
    let r := if !qiszero c.real then { r with real := m.qneg c.real } else r
    let r := if !qiszero c.imag then { r with imag := m.qneg c.imag } else r
    r

/-- The function `cmulq` of commath.c. -/
def cmulq (m : QMath) (c : COMPLEX) (q : NUMBER) : COMPLEX :=
  if qiszero q then czero m
  else if qisone q then c
  else if qisnegone q then cneg m c
  else
    let r := comalloc m
    let r := { r with real := m.qmul c.real q }
    let r := { r with imag := m.qmul c.imag q }
    r

/-- The function `cmul` of commath.c. -/
def cmul (m : QMath) (c1 c2 : COMPLEX) : COMPLEX :=
  if ciszero c1 || ciszero c2 then czero m
  else if cisone c1 then c2
  else if cisone c2 then c1
  else if cisreal c2 then cmulq m c1 c2.real
  else if cisreal c1 then cmulq m c2 c1.real
  else
    let r := comalloc m
    let q2 := m.qqadd c1.real c1.imag
    let q3 := m.qqadd c2.real c2.imag
    let q1 := m.qmul q2 q3
    let q2 := m.qmul c1.real c2.real
    let q3 := m.qmul c1.imag c2.imag
    let q4 := m.qqadd q2 q3
    let r := { r with real := m.qsub q2 q3 }
    let r := { r with imag := m.qsub q1 q4 }
    r

/-- The function `csquare` of commath.c. -/
def csquare (m : QMath) (c : COMPLEX) : COMPLEX :=
  if ciszero c then czero m
  else if cisrunit c then cone m
  else if cisiunit c then cnegone m
  else
    let r := comalloc m
    if cisreal c then { r with real := m.qsquare c.real }
    else if cisimag c then
      let q1 := m.qsquare c.imag
      { r with real := m.qneg q1 }
    else
      let q1 := m.qsquare c.real
      let q2 := m.qsquare c.imag
      let r := { r with real := m.qsub q1 q2 }
      let q1 := m.qmul c.real c.imag
      { r with imag := m.qscale q1 1 }

instance decEqExcept {ε α : Type} [DecidableEq ε] [DecidableEq α] : DecidableEq (Except ε α) :=
  fun a b =>
    match a, b with
    | Except.ok x, Except.ok y =>
      if h : x = y then isTrue (by rw [h]) else isFalse (fun e => h (by cases e; rfl))
    | Except.error x, Except.error y =>
      if h : x = y then isTrue (by rw [h]) else isFalse (fun e => h (by cases e; rfl))
    | Except.ok _, Except.error _ => isFalse (fun e => by cases e)
    | Except.error _, Except.ok _ => isFalse (fun e => by cases e)

/-- The function `cdiv` of commath.c; `math_error` does not return, which is the
error here. -/
def cdiv (m : QMath) (c1 c2 : COMPLEX) : Except String COMPLEX :=
  if ciszero c2 then Except.error "Division by zero"
  else if c1.real.addr = c2.real.addr ∧ c1.imag.addr = c2.imag.addr then Except.ok (cone m)
  else
    let r := comalloc m
    if cisreal c1 && cisreal c2 then Except.ok { r with real := m.qdiv c1.real c2.real }
    else if cisimag c1 && cisimag c2 then Except.ok { r with real := m.qdiv c1.imag c2.imag }
    else if cisimag c1 && cisreal c2 then Except.ok { r with imag := m.qdiv c1.imag c2.real }
    else if cisreal c1 && cisimag c2 then
      let q1 := m.qdiv c1.real c2.imag
      Except.ok { r with imag := m.qneg q1 }
    else if cisreal c2 then
      let r := { r with real := m.qdiv c1.real c2.real }
      let r := { r with imag := m.qdiv c1.imag c2.real }
      Except.ok r
    else
      let q1 := m.qsquare c2.real
      let q2 := m.qsquare c2.imag
      let den := m.qqadd q1 q2
      let q1 := m.qmul c1.real c2.real
      let q2 := m.qmul c1.imag c2.imag
      let q3 := m.qqadd q1 q2
      let r := { r with real := m.qdiv q3 den }
      let q1 := m.qmul c1.real c2.imag
      let q2 := m.qmul c1.imag c2.real
      let q3 := m.qsub q2 q1
      let r := { r with imag := m.qdiv q3 den }
      Except.ok r

/-- The complex number a `COMPLEX` denotes: its real and its imaginary part. -/
def COMPLEX.value (c : COMPLEX) : ℚ × ℚ := (c.real.val, c.imag.val)

/-- A rational library that computes exactly, allocating every result at the
address 0; its constants are at the addresses 1, 2 and 3. -/
def exactLib : QMath where
  qzero := ⟨1, 0⟩
  qone := ⟨2, 1⟩
  qnegone := ⟨3, -1⟩
  qqadd := fun a b => ⟨0, a.val + b.val⟩
  qsub := fun a b => ⟨0, a.val - b.val⟩
  qmul := fun a b => ⟨0, a.val * b.val⟩
  qdiv := fun a b => ⟨0, a.val / b.val⟩
  qsquare := fun a => ⟨0, a.val * a.val⟩
  qneg := fun a => ⟨0, -a.val⟩
  qscale := fun a n => ⟨0, a.val * 2 ^ n⟩

end Commath

/-! ## obj.c: the default power of an object -/

namespace Obj

/-- How a routine of obj.c ends: with a value, with `math_error`, which does not
return, or, in the model only, with the fuel of a loop used up. -/
inductive Outcome (α : Type) where
  | value (a : α)
  | error (msg : String)
  | nofuel
  deriving DecidableEq, Repr

/-- The calls that `objpowi` makes, with their arguments: `objcall` with the
action `OBJ_ONE`, `OBJ_INV`, `OBJ_SQUARE` or `OBJ_MUL`, and `objcopy`. -/
inductive Call (V : Type) where
  | one (v : V)
  | inv (v : V)
  | square (v : V)
  | mul (v w : V)
  | copy (v : V)
  deriving DecidableEq, Repr

/-- What the calls return: `objcall` runs the routines that the user defined for
the object type, which are parameters here, and `objcopy` copies. -/
structure Actions (V : Type) where
  one : V → V
  inv : V → V
  square : V → V
  mul : V → V → V
  copy : V → V

/-- The loop `while ((bit & power) == 0) bit >>= 1L;` of `objpowi`. -/
def findbit (power : Nat) : Nat → Nat → Outcome Nat
  | 0, _ => Outcome.nofuel
  | n + 1, bit =>
    if bit &&& power = 0 then findbit power n (bit >>> 1)
    else Outcome.value bit

/-- The loop `while (bit)` of `objpowi`: the value and the calls made so far. -/
def powloop {V : Type} (a : Actions V) (v : V) (power : Nat) :
    Nat → Nat → V × List (Call V) → Outcome (V × List (Call V))
  | 0, _, _ => Outcome.nofuel
  | n + 1, bit, (res, log) =>
    if bit ≠ 0 then
      let tmp := a.square res
      let log := log ++ [Call.square res]
      let res := tmp
      if bit &&& power ≠ 0 then
        let tmp := a.mul res v
        let log := log ++ [Call.mul res v]
        let res := tmp
        powloop a v power n (bit >>> 1) (res, log)
      else powloop a v power n (bit >>> 1) (res, log)
    else Outcome.value (res, log)

/-- The function `objpowi` of obj.c: the value it returns and the calls it makes,
in their order.  The exponent is the rational `q`; `TOPFULL` is the highest bit
of the type `FULL` (zmath.h, not part of the sources) and a parameter;
`zge31b` says that the magnitude is at least 2^31 and `ztolong` gives the
magnitude. -/
def objpowi {V : Type} (TOPFULL : Nat) (a : Actions V) (fuel : Nat) (vp : V) (q : ℚ) :
    Outcome (V × List (Call V)) :=
  if q.den ≠ 1 then Outcome.error "Raising object to non-integral power"
  else if q.num.natAbs ≥ 2 ^ 31 then Outcome.error "Raising object to very large power"
  else
    let power : Int := q.num.natAbs
    let power := if q.num < 0 then -power else power
    let general : Outcome (V × List (Call V)) :=
      let power : Int := if power < 0 then -power else power
      let power : Nat := power.toNat
      let bit := TOPFULL
      match findbit power fuel bit with
      | Outcome.value bit =>
        let bit := bit >>> 1
        let res := a.square vp
        let log := [Call.square vp]
        let (res, log) :=
          if bit &&& power ≠ 0 then (a.mul res vp, log ++ [Call.mul res vp]) else (res, log)
        let bit := bit >>> 1
        match powloop a vp power fuel bit (res, log) with
        | Outcome.value (res, log) =>
          if q.num < 0 then Outcome.value (a.inv res, log ++ [Call.inv res])
          else Outcome.value (res, log)
        | Outcome.error msg => Outcome.error msg
        | Outcome.nofuel => Outcome.nofuel
      | Outcome.error msg => Outcome.error msg
      | Outcome.nofuel => Outcome.nofuel
    if power ≤ 2 ∧ power ≥ -2 then
      if power = 0 then Outcome.value (a.one vp, [Call.one vp])
      else if power = 1 then Outcome.value (a.copy vp, [Call.copy vp])
      else if power = -1 then Outcome.value (a.inv vp, [Call.inv vp])
      else if power = 2 then Outcome.value (a.square vp, [Call.square vp])
      else general
    else general

/-- The product of `n + 1` factors `v`, multiplied from the left. -/
def power_of {V : Type} (a : Actions V) (v : V) : Nat → V
  | 0 => v
  | n + 1 => a.mul (power_of a v n) v

/-- The number of one bits of `n` among the bits below the bit `m`. -/
def onebits_below (n m : Nat) : Nat := ((List.range m).filter fun i => n.testBit i).length

/-- The number of one bits of `n`. -/
def onebits (n : Nat) : Nat := onebits_below n (Nat.log 2 n + 1)

/-- The call is a call of `OBJ_SQUARE`. -/
def Call.is_square {V : Type} : Call V → Bool
  | Call.square _ => true
  | _ => false

/-- The call is a call of `OBJ_MUL`. -/
def Call.is_mul {V : Type} : Call V → Bool
  | Call.mul _ _ => true
  | _ => false

/-- The call is a call of `OBJ_INV`. -/
def Call.is_inv {V : Type} : Call V → Bool
  | Call.inv _ => true
  | _ => false

/-- What the loops of `objpowi` do for the `m` lowest bits of the exponent `n`, the
highest of them first: a square for every bit, and a product by `v` after it
for a bit that is one. -/
def runbits {V : Type} (a : Actions V) (v : V) (n : Nat) :
    Nat → V × List (Call V) → V × List (Call V)
  | 0, st => st
  | m + 1, (res, log) =>
    if n.testBit m then
      runbits a v n m (a.mul (a.square res) v,
        log ++ [Call.square res] ++ [Call.mul (a.square res) v])
    else runbits a v n m (a.square res, log ++ [Call.square res])

/-- The value of `bit` when `m` bits are left. -/
def bit_of (m : Nat) : Nat := if m = 0 then 0 else 2 ^ (m - 1)

/-- The integers modulo 1000 with their product: the routines of an object type. -/
def modular : Actions Nat where
  one := fun _ => 1
  inv := fun v => v ^ 399 % 1000
  square := fun v => v * v % 1000
  mul := fun v w => v * w % 1000
  copy := fun v => v

end Obj

/-! ## obj.c: the definition of an object type -/

namespace Obj

/-- The structure `OBJECTACTIONS` of obj.h: the name of an object type, the number
of its elements, the function indices of its actions, `OBJ_MAXFUNC + 1` of
them, and the indices of its element names. -/
structure OBJECTACTIONS where
  name : String
  count : Int
  actions : List Int
  elements : List Int
  deriving DecidableEq, Repr

/-- The routines of string.c that `defineobject` calls on a table of names of
type `H`, and the fields of the `STRINGHEAD` it reads; string.c is not part of
the sources, so they are parameters.  `h_list_null` is `hp->h_list == NULL`;
`addstr` gives the table afterwards and the stored copy of the name, `none`
for `NULL`. -/
structure StringOps (H : Type) where
  h_list_null : H → Bool
  h_count : H → Int
  initstr : H → H
  findstr : H → String → Int
  addstr : H → String → H × Option String

/-- The statics `objectnames` and `objects` of obj.c.  The table of pointers
`objects[]` is given by index; an entry is `none` for a null pointer. -/
structure Types (H : Type) where
  objectnames : H
  objects : Int → Option OBJECTACTIONS

/-- How `defineobject` ends, and the statics then: it returns, or `math_error`
leaves it with a message, or it reads through a null pointer. -/
inductive Ended (σ : Type) where
  | returned (s : σ)
  | math_error (msg : String) (s : σ)
  | undefined

/-- The loop of `defineobject` that compares the stored element indices with the
new ones, from `index` on: `true` for its `return`, `false` for its `break`.
The first argument bounds the number of rounds. -/
def sameelements (elements indices : List Int) (count : Int) : Nat → Int → Bool
  | 0, _ => true
  | n + 1, index =>
    if index ≥ count then true
    else if elements.getD index.toNat 0 ≠ indices.getD index.toNat 0 then false
    else sameelements elements indices count n (index + 1)

/-- The loop `for (index = OBJ_MAXFUNC; index >= 0; index--) oap->actions[index] = 0;`
with `index + 1` as the first argument. -/
def clearactions : Nat → List Int → List Int
  | 0, actions => actions
  | n + 1, actions => clearactions n (actions.set n 0)

/-- The loop `for (index = 0; index < count; index++) oap->elements[index] = indices[index];`
from `index` on.  The first argument bounds the number of rounds. -/
def copyelements (indices : List Int) (count : Int) : Nat → Int → List Int → List Int
  | 0, _, elements => elements
  | n + 1, index, elements =>
    if index < count then
      copyelements indices count n (index + 1)
        (elements.set index.toNat (indices.getD index.toNat 0))
    else elements

/-- The function `defineobject` of obj.c.  `MAXOBJECTS` and `OBJ_MAXFUNC` are
constants of the headers, which are not part of the sources; `mem` is what
`malloc` returns, `none` for `NULL`, else the block with the contents it
happens to have. -/
def defineobject {H : Type} (ops : StringOps H) (MAXOBJECTS : Int) (OBJ_MAXFUNC : Nat)
    (mem : Option OBJECTACTIONS) (name : String) (indices : List Int) (count : Int)
    (s : Types H) : Ended (Types H) :=
  let hp := if ops.h_list_null s.objectnames then ops.initstr s.objectnames else s.objectnames
  let s : Types H := { s with objectnames := hp }
  let index := ops.findstr hp name
  if index ≥ 0 then
    match s.objects index with
    | none => Ended.undefined
    | some oap =>
      if oap.count = count ∧ sameelements oap.elements indices count (count.toNat + 1) 0 then
        Ended.returned s
      else
        Ended.math_error ("Object type \"" ++ name ++ "\" is already defined") s
  else if ops.h_count hp ≥ MAXOBJECTS then
    Ended.math_error "Too many object types in use" s
  else
    match mem with
    | none => Ended.math_error "Cannot allocate object type" s
    | some oap =>
      match ops.addstr hp name with
      | (hp, none) => Ended.math_error "Cannot allocate object type" { s with objectnames := hp }
      | (hp, some name) =>
        let oap := { oap with name := name, count := count }
        let oap := { oap with actions := clearactions (OBJ_MAXFUNC + 1) oap.actions }
        let oap := { oap with elements := copyelements indices count count.toNat 0 oap.elements }
        let index := ops.findstr hp name
        Ended.returned { objectnames := hp, objects := Function.update s.objects index (some oap) }

/-- The table of names that `defineobject` works on: the table `hp`, set up by
`initstr` when its list is still `NULL`. -/
def openedNames {H : Type} (ops : StringOps H) (hp : H) : H :=
  if ops.h_list_null hp then ops.initstr hp else hp

/-- A table of names for the examples: `none` before `initstr`, then the list of
the names in the order in which they were added.  A table that is not set up
holds no name and takes none. -/
def listOps : StringOps (Option (List String)) where
  h_list_null := fun hp => hp.isNone
  h_count := fun hp => ((hp.getD []).length : Int)
  initstr := fun _ => some []
  findstr := fun hp str =>
    if (hp.getD []).contains str then ((hp.getD []).indexOf str : Int) else -1
  addstr := fun hp str =>
    match hp with
    | none => (none, none)
    | some names => (some (names ++ [str]), some str)

/-- The statics before any object type is defined, for the examples. -/
def noTypes : Types (Option (List String)) where
  objectnames := none
  objects := fun _ => none

/-- The statics after the definition of the type `point` with the elements `x` and
`y`, for the examples; the element names have the indices 0 and 1. -/
def onePoint : Types (Option (List String)) where
  objectnames := some ["point"]
  objects := fun i =>
    if i = 0 then some { name := "point", count := 2, actions := [0, 0, 0], elements := [0, 1] }
    else none

end Obj

/-- The first `j` element indices, in their order. -/
def firstIndices (j : Nat) : List Int := (List.range j).map Int.ofNat

/-- The tokens of the element names of an `obj` statement with the `k + 1`
names whose indices in the table of strings are `j`, ..., `j + k`: the names
with commas between them, and the closing brace. -/
def elementNames : Nat → Nat → List Token
  | 0, j => [{ t_type := T_SYMBOL, t_strindex := j }, { t_type := T_RIGHTBRACE }]
  | k + 1, j =>
    { t_type := T_SYMBOL, t_strindex := j } :: { t_type := T_COMMA } :: elementNames k (j + 1)

/-! ## hist.c: the table of saved lines -/

namespace Hist

/-- The structure `HIST` of hist.c, a record of the history table: the length of a
saved line and its characters. -/
structure HIST where
  len : Int
  data : List Char
  deriving DecidableEq, Repr

/-- The statics of hist.c that `hist_saveline` works on.  `records` are the
records that lie in `histbuf` one behind the other from offset 0; the end mark,
a length of zero, follows the last of them at offset `histused`. -/
structure Table where
  histused : Int
  records : List HIST
  histcount : Int
  curhist : Int
  deriving DecidableEq, Repr

/-- How a call ends: it returns, or it asks `memcpy` for a negative number of
bytes, or, in the model only, the fuel of a loop is used up. -/
inductive Outcome where
  | value (s : Table)
  | undefined
  | nofuel
  deriving DecidableEq, Repr

/-- The macro `HISTLEN` of hist.c, the bytes a record takes: the length rounded up
to a multiple of `sizeof(int)`, here `isz`, and the `int` in front.  The mask
`& ~INTROUND` clears the bits below `sizeof(int)`, a power of two. -/
def HISTLEN (isz : Int) (hp : HIST) : Int :=
  ((hp.len + (isz - 1)) - (hp.len + (isz - 1)) % isz) + isz

/-- The macro `HISTOFFSET` of hist.c for the record number `i`: the bytes of the
records in front of it. -/
def HISTOFFSET (isz : Int) (records : List HIST) (i : Nat) : Int :=
  ((records.take i).map (HISTLEN isz)).sum

/-- The function `find_event` of hist.c on the records from number `i` on: the
number of the first record that holds the `len` characters of `pat`, `none` for
`NULL`. -/
def find_event (pat : List Char) (len : Int) : List HIST → Nat → Option Nat
  | [], _ => none
  | hp :: rest, i =>
    if hp.len = 0 then none
    else if hp.len = len ∧ hp.data.take len.toNat = pat.take len.toNat then some i
    else find_event pat len rest (i + 1)

/-- The loop of `hist_saveline` that deletes the earliest record while
`histused + len >= HIST_SIZE`.  With no record left, the record it reads at
the start of the buffer is the end mark. -/
def makeroom (HIST_SIZE isz len : Int) : Nat → Table → Outcome
  | 0, _ => Outcome.nofuel
  | n + 1, s =>
    if s.histused + len ≥ HIST_SIZE then
      let hp := s.records.headD { len := 0, data := [] }
      let left := s.histused - HISTLEN isz hp
      if left + 1 < 0 then Outcome.undefined
      else
        makeroom HIST_SIZE isz len n
          { s with histused := s.histused - HISTLEN isz hp, records := s.records.tail,
                   histcount := s.histcount - 1 }
    else Outcome.value s

/-- The end of `hist_saveline`: the line goes to the end of the table. -/
def addline (isz : Int) (line : List Char) (len : Int) (s : Table) : Table :=
  let hp : HIST := { len := len, data := line.take len.toNat }
  { histused := s.histused + HISTLEN isz hp, records := s.records ++ [hp],
    histcount := s.histcount + 1, curhist := s.histcount + 1 }

/-- The function `hist_saveline` of hist.c.  `HIST_SIZE` is a constant of hist.h,
which is not part of the sources, and `isz` is `sizeof(int)`. -/
def hist_saveline (HIST_SIZE isz : Int) (fuel : Nat) (line : List Char) (len : Int)
    (s : Table) : Outcome :=
  let len := if len > 0 ∧ line.getD (len - 1).toNat (Char.ofNat 0) = '\n' then len - 1 else len
  if len ≤ 0 then Outcome.value s
  else
    match find_event line len s.records 0 with
    | some i =>
      let hp := s.records.getD i { len := 0, data := [] }
      let left := s.histused - HISTOFFSET isz s.records (i + 1)
      if left ≤ 0 then Outcome.value s
      else
        match makeroom HIST_SIZE isz len fuel
            { s with histused := s.histused - HISTLEN isz hp, records := s.records.eraseIdx i,
                     histcount := s.histcount - 1 } with
        | Outcome.value s => Outcome.value (addline isz line len s)
        | r => r
    | none =>
      match makeroom HIST_SIZE isz len fuel s with
      | Outcome.value s => Outcome.value (addline isz line len s)
      | r => r

/-- The calls of `hist_saveline` for the lines of a list, one after the other,
each with its full length. -/
def savelines (HIST_SIZE isz : Int) (fuel : Nat) : List (List Char) → Table → Outcome
  | [], s => Outcome.value s
  | line :: lines, s =>
    match hist_saveline HIST_SIZE isz fuel line line.length s with
    | Outcome.value s => savelines HIST_SIZE isz fuel lines s
    | r => r

/-- The statics when no line is saved. -/
def noLines : Table := { histused := 0, records := [], histcount := 0, curhist := 0 }

/-- The statics after the lines `prev`, each of 12 characters, were saved into an
empty table with `sizeof(int)` 4 and no line deleted. -/
def tableOf (prev : List (List Char)) : Table :=
  { histused := 16 * prev.length,
    records := prev.map fun l => { len := 12, data := l },
    histcount := prev.length, curhist := prev.length }

end Hist

/-! ## token.c: strings that fill the buffer of `eatstring` -/

namespace Lexer

/-- The character that `nextchar` returned last after the characters `body` were
read, `d` before them. -/
def lastOf : List Char → Option Char → Option Char
  | [], d => d
  | c :: cs, _ => lastOf cs (some c)

/-- A character of a string in double quotes that `eatstring` stores as it is. -/
def plainChar (c : Char) : Bool := c != '\n' && c != '\\' && c != '"'

end Lexer

/-! ## token.c: the end of the input in the mode for filenames -/

namespace Lexer

/-- A character that does not end a symbol in the mode `TM_ALLSYMS` and does not
start a string. -/
def nameChar (c : Char) : Bool := c != ' ' && c != ';' && c != '\n' && c != '"'

end Lexer

/-- The input is at its end, `T_EOF` is the current token, and the ceiling of the
errors is 0, with which `scanerror` does not abort. -/
def AtEof (s : PState) : Prop :=
  s.input = [] ∧ s.curtoken.t_type = T_EOF ∧ s.maxscancount = 0

/-- At the end of the input the function returns with a result of which `Q`
holds, the input still at its end, unless the fuel runs out. -/
def Ends {α : Type} (Q : α → Prop) (p : P α) : Prop :=
  ∀ s, AtEof s → p s = Res.nofuel ∨ ∃ a t, p s = Res.ok a t ∧ Q a ∧ AtEof t

/-- At the end of the input the function does not come to a return or to the
abort: its run is out of fuel. -/
def Never {α : Type} (p : P α) : Prop := ∀ s, AtEof s → p s = Res.nofuel

/-! ## codegen.c: a declaration behind a statement -/

/-- The line `{ 1; local x; }` in the mode of the top level. -/
def late_local_line : PState :=
  top_level [optok T_LEFTBRACE, numtok 0, optok T_SEMICOLON, optok T_LOCAL, symtok 7,
    optok T_SEMICOLON, optok T_RIGHTBRACE]

/-! ## codegen.c: the slots of an initializer list -/

/-- A slot of an initializer list as `getinitlist` ran it: nothing, an expression
with the code that the run of `getassignment` appended for it, or a list in
braces with the code that the run of `getinitlist` appended for it. -/
inductive InitSlot where
  | empty
  | value (code : List Slot)
  | nested (code : List Slot)
  deriving DecidableEq, Repr

/-- The code of a slot at the position `k`. -/
def InitSlot.code (k : Int) : InitSlot → List Slot
  | InitSlot.empty => []
  | InitSlot.value c => c ++ [Slot.op OP_ELEMINIT, Slot.arg k]
  | InitSlot.nested c =>
    [Slot.op OP_DUPLICATE, Slot.op OP_ELEMADDR, Slot.arg k] ++ c ++
      [Slot.op OP_ELEMINIT, Slot.arg k]

/-- The code of the slots, the first of which has the position `k`: each slot
takes the position behind the one before it. -/
def slotsCode : Int → List InitSlot → List Slot
  | _, [] => []
  | k, slot :: l => slot.code k ++ slotsCode (k + 1) l

/-- What `getinitlist` emits in front of a nested list at the position `k`, the
opening brace being left to be read again. -/
def nested_begin (k : Int) : P Unit := do
  rescantoken
  addop OP_DUPLICATE
  addopone OP_ELEMADDR k

/-- The slots of an initializer list from the position `k` on, as runs: `s` is
the state in which the loop of `getinitlist` reads the first token of the
slots, `t` the state in which the closing brace of the list has been read,
and `v` the position reached there.  A slot is empty when the token read is a
comma, or the closing brace; otherwise it is an expression, which
`getassignment` parses, or, at an opening brace, a list, which `getinitlist`
parses, and a comma or the closing brace is the token behind it.  The first
index is the fuel of the loop. -/
inductive InitSlots : Nat → Int → PState → List InitSlot → Int → PState → Prop where
  | close (n : Nat) (k : Int) (s t : PState) :
      gettoken s = Res.ok T_RIGHTBRACE t →
      InitSlots (n + 1) k s [InitSlot.empty] k t
  | empty (n : Nat) (k : Int) (s s1 : PState) (l : List InitSlot) (v : Int) (t : PState) :
      gettoken s = Res.ok T_COMMA s1 →
      InitSlots n (k + 1) s1 l v t →
      InitSlots (n + 1) k s (InitSlot.empty :: l) v t
  | value (n : Nat) (k : Int) (s s1 s2 s3 : PState) (tok : TokenType) (ty : Nat)
      (l : List InitSlot) (v : Int) (t : PState) :
      gettoken s = Res.ok tok s1 →
      tok ≠ T_COMMA → tok ≠ T_RIGHTBRACE → tok ≠ T_LEFTBRACE →
      getassignment n (stateOf rescantoken s1) = Res.ok ty s2 →
      gettoken (stateOf (addopone OP_ELEMINIT k) s2) = Res.ok T_COMMA s3 →
      InitSlots n (k + 1) s3 l v t →
      InitSlots (n + 1) k s
        (InitSlot.value (s2.f_opcodes.drop s1.f_opcodes.length) :: l) v t
  | value_last (n : Nat) (k : Int) (s s1 s2 : PState) (tok : TokenType) (ty : Nat)
      (t : PState) :
      gettoken s = Res.ok tok s1 →
      tok ≠ T_COMMA → tok ≠ T_RIGHTBRACE → tok ≠ T_LEFTBRACE →
      getassignment n (stateOf rescantoken s1) = Res.ok ty s2 →
      gettoken (stateOf (addopone OP_ELEMINIT k) s2) = Res.ok T_RIGHTBRACE t →
      InitSlots (n + 1) k s
        [InitSlot.value (s2.f_opcodes.drop s1.f_opcodes.length)] k t
  | nested (n : Nat) (k : Int) (s s1 s2 s3 : PState) (vi : Int)
      (l : List InitSlot) (v : Int) (t : PState) :
      gettoken s = Res.ok T_LEFTBRACE s1 →
      getinitlist n (stateOf (nested_begin k) s1) = Res.ok vi s2 →
      gettoken (stateOf (addopone OP_ELEMINIT k) s2) = Res.ok T_COMMA s3 →
      InitSlots n (k + 1) s3 l v t →
      InitSlots (n + 1) k s
        (InitSlot.nested (s2.f_opcodes.drop (s1.f_opcodes.length + 3)) :: l) v t
  | nested_last (n : Nat) (k : Int) (s s1 s2 : PState) (vi : Int) (t : PState) :
      gettoken s = Res.ok T_LEFTBRACE s1 →
      getinitlist n (stateOf (nested_begin k) s1) = Res.ok vi s2 →
      gettoken (stateOf (addopone OP_ELEMINIT k) s2) = Res.ok T_RIGHTBRACE t →
      InitSlots (n + 1) k s
        [InitSlot.nested (s2.f_opcodes.drop (s1.f_opcodes.length + 3))] k t

/-- The last cell of the code is not an index address that can still be marked
for writing: what `Frame.code_append` asks of the state in which a run
starts. -/
def FlagSet (s : PState) : Prop :=
  s.oldop = OP_INDEXADDR → 0 < s.f_opcodes.length →
    s.f_opcodes[s.f_opcodes.length - 1]? = some (Slot.arg 1)

/-- The tokens `{a, 1 + 2, , {3}};` in the state of the top level, `a` being a
global variable. -/
def slots_line : PState :=
  { top_level [optok T_LEFTBRACE, symtok 7, optok T_COMMA, numtok 0, optok T_PLUS, numtok 1,
      optok T_COMMA, optok T_COMMA, optok T_LEFTBRACE, numtok 2, optok T_RIGHTBRACE,
      optok T_RIGHTBRACE, optok T_SEMICOLON] with globals := [(7, false)] }

/-- The run of `getinitlist 31` on `slots_line`, state by state: behind the
opening brace (0); for the slot `a` the first token read (1), the expression
parsed (2) and the comma read (3); the same for the slot `1 + 2` (4, 5, 6);
the comma of the empty slot read (7); for the slot `{3}` the brace read (8),
the list parsed (9) and the closing brace of the whole list read (10). -/
def slots_state : Fin 11 → PState
  | 0 => stateOf gettoken (stateOf (tokenmode TM_DEFAULT) slots_line)
  | 1 => stateOf gettoken (slots_state 0)
  | 2 => stateOf (getassignment 29) (stateOf rescantoken (slots_state 1))
  | 3 => stateOf gettoken (stateOf (addopone OP_ELEMINIT 0) (slots_state 2))
  | 4 => stateOf gettoken (slots_state 3)
  | 5 => stateOf (getassignment 28) (stateOf rescantoken (slots_state 4))
  | 6 => stateOf gettoken (stateOf (addopone OP_ELEMINIT 1) (slots_state 5))
  | 7 => stateOf gettoken (slots_state 6)
  | 8 => stateOf gettoken (slots_state 7)
  | 9 => stateOf (getinitlist 26) (stateOf (nested_begin 3) (slots_state 8))
  | 10 => stateOf gettoken (stateOf (addopone OP_ELEMINIT 3) (slots_state 9))


/-! ## codegen.c: the argument positions of a call -/

/-- What `getcallargs` does behind the expression of an argument: an argument
behind `&` must not be a value and has its index address marked for writing,
any other argument of a user function has its value taken, and the arguments of
`quomod` from the third on are marked for writing. -/
def arg_end (name : Int) (op : Opcode) (argcount : Int) (addrflag : Bool) (type : Nat) :
    P Unit := do
  if addrflag then
    if isrvalue type then scanerror T_NULL
    writeindexop
  if addrflag = false ∧ op ≠ OP_CALL then addop OP_GETVALUE
  if name = NAME_quomod ∧ argcount > 2 then writeindexop

/-- The code in which the flag of the index address that is the last instruction
is TRUE: what `writeindexop` makes of code that ends in `OP_INDEXADDR`. -/
def marked (c : List Slot) : List Slot := c.set (c.length - 1) (Slot.arg 1)

/-- An argument position of a call as `getcallargs` ran it: nothing, an expression
or an expression behind `&`, with the code that the run of `getassignment`
appended for it and whether that run left `OP_INDEXADDR` as the last
instruction. -/
inductive ArgSlot where
  | empty
  | value (code : List Slot) (indexed : Bool)
  | address (code : List Slot) (indexed : Bool)
  deriving DecidableEq, Repr

/-- The code of an argument position that is number `argcount` of a call of `name`
with the opcode `op`: `OP_UNDEF` for nothing; the code of the expression
behind `&`, an index address at its end marked; the code of any other
expression, followed by `OP_GETVALUE` unless the opcode is `OP_CALL`, where it
is followed by nothing and an index address at its end is marked for `quomod`
from the third argument on. -/
def ArgSlot.code (name : Int) (op : Opcode) (argcount : Int) : ArgSlot → List Slot
  | ArgSlot.empty => [Slot.op OP_UNDEF]
  | ArgSlot.value c indexed =>
    if op ≠ OP_CALL then c ++ [Slot.op OP_GETVALUE]
    else if name = NAME_quomod ∧ argcount > 2 ∧ indexed = true then marked c
    else c
  | ArgSlot.address c indexed => if indexed then marked c else c

/-- The argument leaves an index address as the last instruction with nothing
behind it: an expression without `&` in front, in a call with `OP_CALL`. -/
def ArgSlot.isopen (op : Opcode) : ArgSlot → Bool
  | ArgSlot.value _ indexed => decide (op = OP_CALL) && indexed
  | _ => false

/-- The codes of the argument positions from number `argcount` on, one list of
cells for each position: the code of the position, where the flag of an index
address that an open position ends with is as the expression left it or
TRUE. -/
def slotCodes (name : Int) (op : Opcode) : Int → List ArgSlot → List (List Slot) → Prop
  | _, [], [] => True
  | argcount, slot :: l, code :: codes =>
    (code = slot.code name op argcount ∨
      (slot.isopen op = true ∧ code = marked (slot.code name op argcount))) ∧
    slotCodes name op (argcount + 1) l codes
  | _, _, _ => False

/-- The rounds of the loop of `getcallargs` as runs of its parts, from the state
`s` of a round, `argcount` arguments having been counted, to the state `t`
behind the closing parenthesis: the positions in their order and the number
of the commas that the loop read between them.  A position is empty when the
round starts at the parenthesis or at a comma, and `OP_UNDEF` is emitted;
otherwise `getassignment` runs, behind the `&` or at the token read again,
`arg_end` follows, and a comma or the parenthesis ends the round.  No error
is counted for an expression behind `&` that is a value. -/
inductive CallArgs (name : Int) (op : Opcode) :
    Nat → Int → PState → List ArgSlot → Nat → PState → Prop where
  | close (n : Nat) (argcount : Int) (s s1 : PState) :
    gettoken s = Res.ok T_RIGHTPAREN s1 →
    CallArgs name op (n + 1) argcount s [ArgSlot.empty] 0 (stateOf (addop OP_UNDEF) s1)
  | empty (n : Nat) (argcount : Int) (s s1 : PState) (l : List ArgSlot) (commas : Nat)
      (t : PState) :
    gettoken s = Res.ok T_COMMA s1 →
    CallArgs name op n (argcount + 1) (stateOf (addop OP_UNDEF) s1) l commas t →
    CallArgs name op (n + 1) argcount s (ArgSlot.empty :: l) (commas + 1) t
  | value (n : Nat) (argcount : Int) (s s1 s2 s3 : PState) (tok : TokenType) (type : Nat)
      (l : List ArgSlot) (commas : Nat) (t : PState) :
    gettoken s = Res.ok tok s1 → tok ≠ T_RIGHTPAREN → tok ≠ T_COMMA → tok ≠ T_AND →
    getassignment n (stateOf rescantoken s1) = Res.ok type s2 →
    gettoken (stateOf (arg_end name op (argcount + 1) false type) s2) = Res.ok T_COMMA s3 →
    CallArgs name op n (argcount + 1) s3 l commas t →
    CallArgs name op (n + 1) argcount s
      (ArgSlot.value (s2.f_opcodes.drop s1.f_opcodes.length)
        (decide (s2.oldop = OP_INDEXADDR)) :: l) (commas + 1) t
  | value_last (n : Nat) (argcount : Int) (s s1 s2 : PState) (tok : TokenType) (type : Nat)
      (t : PState) :
    gettoken s = Res.ok tok s1 → tok ≠ T_RIGHTPAREN → tok ≠ T_COMMA → tok ≠ T_AND →
    getassignment n (stateOf rescantoken s1) = Res.ok type s2 →
    gettoken (stateOf (arg_end name op (argcount + 1) false type) s2) =
      Res.ok T_RIGHTPAREN t →
    CallArgs name op (n + 1) argcount s
      [ArgSlot.value (s2.f_opcodes.drop s1.f_opcodes.length)
        (decide (s2.oldop = OP_INDEXADDR))] 0 t
  | address (n : Nat) (argcount : Int) (s s1 s2 s3 : PState) (type : Nat)
      (l : List ArgSlot) (commas : Nat) (t : PState) :
    gettoken s = Res.ok T_AND s1 →
    getassignment n s1 = Res.ok type s2 → isrvalue type = false →
    gettoken (stateOf (arg_end name op (argcount + 1) true type) s2) = Res.ok T_COMMA s3 →
    CallArgs name op n (argcount + 1) s3 l commas t →
    CallArgs name op (n + 1) argcount s
      (ArgSlot.address (s2.f_opcodes.drop s1.f_opcodes.length)
        (decide (s2.oldop = OP_INDEXADDR)) :: l) (commas + 1) t
  | address_last (n : Nat) (argcount : Int) (s s1 s2 : PState) (type : Nat) (t : PState) :
    gettoken s = Res.ok T_AND s1 →
    getassignment n s1 = Res.ok type s2 → isrvalue type = false →
    gettoken (stateOf (arg_end name op (argcount + 1) true type) s2) =
      Res.ok T_RIGHTPAREN t →
    CallArgs name op (n + 1) argcount s
      [ArgSlot.address (s2.f_opcodes.drop s1.f_opcodes.length)
        (decide (s2.oldop = OP_INDEXADDR))] 0 t

/-- The cells `pre` are the code `c` whose last opcode is `o`, or that code with
the flag of its closing index address TRUE. -/
def Reach (c : List Slot) (o : Opcode) (pre : List Slot) : Prop :=
  pre = c ∨ (o = OP_INDEXADDR ∧ pre = marked c)

/-- What a round of the loop of `getcallargs` makes of the code `c`, whose last
opcode is `o`: in the state `w` behind the argument the code is the cells that
were there and the code of the argument position, and when the argument leaves
an index address as the last instruction, marking it is marking it in the code
of the position, which only an open position does not do itself. -/
def SlotRun (c : List Slot) (o : Opcode) (w : PState) (code : List Slot) (isopen : Bool) :
    Prop :=
  (∃ pre, Reach c o pre ∧ w.f_opcodes = pre ++ code) ∧
  (w.oldop = OP_INDEXADDR →
    ∃ pre code2, Reach c o pre ∧ marked w.f_opcodes = pre ++ code2 ∧
      (code2 = code ∨ (isopen = true ∧ code2 = marked code)))

/-- The code of the argument positions from number `argcount` on, one after the
other. -/
def argsCode (name : Int) (op : Opcode) : Int → List ArgSlot → List Slot
  | _, [] => []
  | argcount, slot :: l => slot.code name op argcount ++ argsCode name op (argcount + 1) l

/-- The tokens of `a + 1, , &a, );` behind `f(`, where `a` is a global variable,
in the state of the examples of calls. -/
def args_line : PState :=
  { call_state with
    input := [symtok 7, optok T_PLUS, numtok 0, optok T_COMMA, optok T_COMMA, optok T_AND,
      symtok 7, optok T_COMMA, optok T_RIGHTPAREN, optok T_SEMICOLON] }

/-- The tokens of `a);` behind `b(` in the state of the examples of calls. -/
def arg_line : PState :=
  { call_state with input := [symtok 7, optok T_RIGHTPAREN, optok T_SEMICOLON] }

/-- The tokens of `);` behind `f(` in the state of the examples of calls. -/
def noarg_line : PState :=
  { call_state with input := [optok T_RIGHTPAREN, optok T_SEMICOLON] }

/-- The states that `getcallargs` goes through on `args_line` in the call of the
user function `f`, the name 5: behind the first token, behind the sum, behind
the first comma, behind the second comma, behind the `&`, behind the variable,
behind the third comma, and behind the closing parenthesis. -/
def args_state : Fin 8 → PState
  | 0 => stateOf gettoken (args_line.calling 5)
  | 1 => stateOf (getassignment 29) (stateOf rescantoken (args_state 0))
  | 2 => stateOf gettoken (stateOf (arg_end 5 OP_USERCALL 1 false 1) (args_state 1))
  | 3 => stateOf gettoken (args_state 2)
  | 4 => stateOf gettoken (stateOf (addop OP_UNDEF) (args_state 3))
  | 5 => stateOf (getassignment 27) (args_state 4)
  | 6 => stateOf gettoken (stateOf (arg_end 5 OP_USERCALL 3 true 0) (args_state 5))
  | 7 => stateOf gettoken (args_state 6)

/-- The states that `getcallargs` goes through on `arg_line` in the call of the
built-in function `b`, the name 3: behind the first token, behind the
variable, and behind the closing parenthesis. -/
def arg_state : Fin 3 → PState
  | 0 => stateOf gettoken (arg_line.calling 3)
  | 1 => stateOf (getassignment 29) (stateOf rescantoken (arg_state 0))
  | 2 => stateOf gettoken (stateOf (arg_end 3 OP_CALL 1 false 0) (arg_state 1))

/-! ## codegen.c: the matrix with a bound left out -/

/-- What `getonematrix` emits for a bound left out, `[]`: the number of the upper
bound, with -1 in place of its index in the table of constants, the lower
bound 0, the creation of the matrix of one dimension, and its filling with 0. -/
def matrix_head : P Unit := do
  clearopt
  addopone OP_NUMBER (-1)
  clearopt
  addop OP_ZERO
  addopone OP_MATCREATE 1
  addop OP_ZERO
  addop OP_INITFILL

/-- The tokens `[] = {1, 2, 3};` behind `mat m`, in the state of the top level. -/
def bound_line : PState :=
  top_level [optok T_LEFTBRACKET, optok T_RIGHTBRACKET, optok T_ASSIGN, optok T_LEFTBRACE,
    numtok 0, optok T_COMMA, numtok 1, optok T_COMMA, numtok 2, optok T_RIGHTBRACE,
    optok T_SEMICOLON]

/-- The tokens `[] = {a, {1, 2}, 1 + 2};` behind `mat m`, in the state of the top
level, `a` being a global variable. -/
def matrix_line : PState :=
  { top_level [optok T_LEFTBRACKET, optok T_RIGHTBRACKET, optok T_ASSIGN, optok T_LEFTBRACE,
      symtok 7, optok T_COMMA, optok T_LEFTBRACE, numtok 0, optok T_COMMA, numtok 1,
      optok T_RIGHTBRACE, optok T_COMMA, numtok 0, optok T_PLUS, numtok 1, optok T_RIGHTBRACE,
      optok T_SEMICOLON] with
    globals := [(7, false)] }

/-- The states that `getonematrix` goes through on `matrix_line`: behind `[`,
behind `]`, behind `=`, behind the list; and inside the list behind `{`, behind
the first token, behind the variable, behind the comma, behind the second `{`,
behind the nested list, behind the comma, behind the first token of the sum,
behind the sum, and behind the closing brace. -/
def matrix_state : Fin 14 → PState
  | 0 => stateOf gettoken matrix_line
  | 1 => stateOf gettoken (matrix_state 0)
  | 2 => stateOf gettoken (stateOf matrix_head (matrix_state 1))
  | 3 => stateOf (getinitlist 29) (matrix_state 2)
  | 4 => stateOf gettoken (stateOf (tokenmode TM_DEFAULT) (matrix_state 2))
  | 5 => stateOf gettoken (matrix_state 4)
  | 6 => stateOf (getassignment 27) (stateOf rescantoken (matrix_state 5))
  | 7 => stateOf gettoken (stateOf (addopone OP_ELEMINIT 0) (matrix_state 6))
  | 8 => stateOf gettoken (matrix_state 7)
  | 9 => stateOf (getinitlist 26) (stateOf (nested_begin 1) (matrix_state 8))
  | 10 => stateOf gettoken (stateOf (addopone OP_ELEMINIT 1) (matrix_state 9))
  | 11 => stateOf gettoken (matrix_state 10)
  | 12 => stateOf (getassignment 25) (stateOf rescantoken (matrix_state 11))
  | 13 => stateOf gettoken (stateOf (addopone OP_ELEMINIT 2) (matrix_state 12))

/-! ## codegen.c: the rounds of a chain of conditions -/

/-- What the loops of `getorcond` and `getandcond` do behind the chain: the token
that ends the chain is pushed back, and the label is resolved when a jump
refers to it. -/
def chain_close ( donelab : Nat) : P Unit := do
  rescantoken
  if (← readlabel donelab).l_chain > 0 then setlabel donelab

/-- The code of the right operands of a chain, given as the codes of the operands:
each behind the conditional jump `op` to the offset `target`. -/
def chainCode (op : Opcode) (target : Int) : List (List Slot) → List Slot
  | [] => []
  | c :: cs => [Slot.op op, Slot.arg target] ++ c ++ chainCode op target cs

/-- The rounds of the loop of a chain as runs of its parts, from the state `s`
behind an operand to the state `t` behind the token that ends the chain, with
the codes of the right operands in their order: `tok` is the operator of the
chain, `op` the conditional jump, `operand` the rule of the operands and
`donelab` the label of the chain.  A round reads the operator, emits the jump
to the label, and runs the rule of the operands, which appends the code of the
operand; the chain ends at a token that is not the operator. -/
inductive CondChain (tok : TokenType) (op : Opcode) (operand : Nat → P Nat) ( donelab : Nat) :
    Nat → PState → List (List Slot) → PState → Prop where
  | done (n : Nat) (s t : PState) (last : TokenType) :
    gettoken s = Res.ok last t → last ≠ tok →
    CondChain tok op operand donelab (n + 1) s [] t
  | more (n : Nat) (s s1 s2 t : PState) (type : Nat) (l : List (List Slot)) :
    gettoken s = Res.ok tok s1 →
    operand n (stateOf (addoplabel op donelab) s1) = Res.ok type s2 →
    CondChain tok op operand donelab n s2 l t →
    CondChain tok op operand donelab (n + 1) s
      (s2.f_opcodes.drop (s1.f_opcodes.length + 2) :: l) t

/-- The tokens of `a || 1 && 2 || 3 < 1;`, of `a && 1 == 2;` and of `a;` in the state
of the top level, `a` being a global variable. -/
def cond_lines : PState × PState × PState :=
  ({ top_level [symtok 7, optok T_OROR, numtok 0, optok T_ANDAND, numtok 1, optok T_OROR,
        numtok 2, optok T_LT, numtok 0, optok T_SEMICOLON] with globals := [(7, false)] },
    { top_level [symtok 7, optok T_ANDAND, numtok 0, optok T_EQ, numtok 1,
        optok T_SEMICOLON] with globals := [(7, false)] },
    { top_level [symtok 7, optok T_SEMICOLON] with globals := [(7, false)] })

/-- The states that `getorcond` goes through on `a || 1 && 2 || 3 < 1;`: behind the
first operand, behind the first `||`, behind the second operand, behind the
second `||`, behind the third operand, and behind the semicolon. -/
def or_state : Fin 6 → PState
  | 0 => stateOf (getandcond 29) (stateOf newlabel cond_lines.1)
  | 1 => stateOf gettoken (or_state 0)
  | 2 => stateOf (getandcond 28) (stateOf (addoplabel OP_CONDORJUMP 0) (or_state 1))
  | 3 => stateOf gettoken (or_state 2)
  | 4 => stateOf (getandcond 27) (stateOf (addoplabel OP_CONDORJUMP 0) (or_state 3))
  | 5 => stateOf gettoken (or_state 4)

/-- The states that `getandcond` goes through on `a && 1 == 2;`: behind the first
operand, behind the `&&`, behind the second operand, and behind the semicolon. -/
def and_state : Fin 4 → PState
  | 0 => stateOf (getrelation 29) (stateOf newlabel cond_lines.2.1)
  | 1 => stateOf gettoken (and_state 0)
  | 2 => stateOf (getrelation 28) (stateOf (addoplabel OP_CONDANDJUMP 0) (and_state 1))
  | 3 => stateOf gettoken (and_state 2)

/-- The states that `getorcond` goes through on `a;`: behind the operand and behind
the semicolon. -/
def one_state : Fin 2 → PState
  | 0 => stateOf (getandcond 29) (stateOf newlabel cond_lines.2.2)
  | 1 => stateOf gettoken (one_state 0)

/-! ## Running the state functions -/

theorem bind_run {α β : Type} (m : P α) (f : α → P β) (s : PState) :
    (m >>= f) s = match m s with
      | Res.ok a s1 => f a s1
      | Res.abort s1 => Res.abort s1
      | Res.nofuel => Res.nofuel := rfl

theorem pure_run {α : Type} (a : α) (s : PState) : (pure a : P α) s = Res.ok a s := rfl

theorem modS_run (f : PState → PState) (s : PState) : modS f s = Res.ok () (f s) := rfl

theorem getS_run (s : PState) : getS s = Res.ok s s := rfl

/-! ## scanerror -/

theorem scantoken_length (nl : Bool) (ts : List Token) :
    (scantoken nl ts).2.length ≤ ts.length := by
  induction ts with
  | nil => simp [scantoken]
  | cons t ts ih =>
    unfold scantoken
    split
    · exact Nat.le_succ_of_le ih
    · split
      · exact Nat.le_succ_of_le ih
      · simp

theorem scantoken_progress (nl : Bool) (ts : List Token) :
    (scantoken nl ts).1.t_type = T_EOF ∨ (scantoken nl ts).2.length < ts.length := by
  induction ts with
  | nil => simp [scantoken]
  | cons t ts ih =>
    unfold scantoken
    split
    · rcases ih with h | h
      · exact Or.inl h
      · exact Or.inr (Nat.lt_succ_of_lt h)
    · split
      · rcases ih with h | h
        · exact Or.inl h
        · exact Or.inr (Nat.lt_succ_of_lt h)
      · right; simp

/-- What `gettoken` does: it returns, changes only the token state, clears the
pushback flag, and either answers the end of file or leaves less to read. -/
theorem gettoken_spec (s : PState) :
    ∃ t s1, gettoken s = Res.ok t s1 ∧
      s1 = { s with input := s1.input, curtoken := s1.curtoken, rescan := false } ∧
      (t = T_EOF ∨
        s1.input.length + (if s1.rescan then 1 else 0)
          < s.input.length + (if s.rescan then 1 else 0)) := by
  by_cases hr : s.rescan = true
  · refine ⟨s.curtoken.t_type, { s with rescan := false }, by simp [gettoken, hr], rfl, ?_⟩
    right; simp [hr]
  · have hr' : s.rescan = false := by simpa using hr
    refine ⟨(scantoken s.newlines s.input).1.t_type,
      { s with curtoken := (scantoken s.newlines s.input).1
               input := (scantoken s.newlines s.input).2 },
      by simp [gettoken, hr'], by simp [hr'], ?_⟩
    rcases scantoken_progress s.newlines s.input with he | hl
    · exact Or.inl he
    · right; simpa [hr'] using hl

/-- One round of the skipping loop of `scanerror`. -/
theorem scanerror_skip_succ (comma : Bool) (n : Nat) (s s1 : PState) (t : TokenType)
    (hg : gettoken s = Res.ok t s1) :
    scanerror_skip comma (n + 1) s =
      if t = T_NEWLINE ∨ t = T_SEMICOLON ∨ t = T_LEFTBRACE ∨ t = T_RIGHTBRACE ∨ t = T_EOF ∨
          (t = T_COMMA ∧ comma = true) then
        Res.ok () { s1 with rescan := true }
      else scanerror_skip comma n s1 := by
  rw [scanerror_skip, bind_run, hg]
  cases t <;> cases comma <;> simp [modS]

/-- The skipping loop of `scanerror` returns when its fuel exceeds the number of
tokens it can still read, and changes only the token state. -/
theorem scanerror_skip_returns (comma : Bool) :
    ∀ (n : Nat) (s : PState),
      s.input.length + (if s.rescan then 1 else 0) < n →
      ∃ s1, scanerror_skip comma n s = Res.ok () s1 ∧
        s1 = { s with input := s1.input, curtoken := s1.curtoken, rescan := true } := by
  intro n
  induction n with
  | zero => intro s h; omega
  | succ n ih =>
    intro s h
    obtain ⟨t, s1, hg, hs1, hm⟩ := gettoken_spec s
    rw [scanerror_skip_succ comma n s s1 t hg]
    split
    · exact ⟨_, rfl, by rw [hs1]⟩
    · rename_i hstop
      rcases hm with he | hl
      · exact absurd he (by intro h; exact hstop (by simp [h]))
      · obtain ⟨s2, h2, h3⟩ := ih s1 (by omega)
        exact ⟨s2, h2, by rw [h3, hs1]⟩

/-- The function `scanerror` always returns or aborts: its skipping loop has fuel
enough.  The state it leaves differs from the one it found in the error count
and in the token state only. -/
theorem scanerror_spec (skip : TokenType) (s : PState) :
    if 0 < s.maxscancount ∧ s.maxscancount < s.errorcount + 1 then
      scanerror skip s = Res.abort { s with errorcount := s.errorcount + 1 }
    else
      ∃ s1, scanerror skip s = Res.ok () s1 ∧
        s1 = { s with errorcount := s.errorcount + 1, input := s1.input,
                      curtoken := s1.curtoken, rescan := s1.rescan } ∧
        (skip = T_NULL → s1 = { s with errorcount := s.errorcount + 1 }) := by
  split
  · rename_i h
    have h' : s.maxscancount > 0 ∧ s.errorcount + 1 > s.maxscancount := h
    simp [scanerror, h']
  · rename_i h
    have h' : ¬ (s.maxscancount > 0 ∧ s.errorcount + 1 > s.maxscancount) := h
    by_cases h0 : skip = T_NULL
    · subst h0
      exact ⟨{ s with errorcount := s.errorcount + 1 }, by simp [scanerror, h'], rfl,
        fun _ => rfl⟩
    · by_cases hc : skip = T_COMMA
      · subst hc
        obtain ⟨s1, h1, h2⟩ := scanerror_skip_returns true (s.input.length + 2)
          { s with errorcount := s.errorcount + 1, rescan := true } (by simp)
        refine ⟨s1, ?_, ?_, fun h => absurd h h0⟩
        · simp only [scanerror]
          rw [if_neg h']
          exact h1
        · rw [h2]
      · obtain ⟨s1, h1, h2⟩ := scanerror_skip_returns false (s.input.length + 2)
          { s with errorcount := s.errorcount + 1, rescan := true } (by simp)
        refine ⟨s1, ?_, ?_, fun h => absurd h h0⟩
        · simp only [scanerror]
          rw [if_neg h']
          cases skip <;> exact h1
        · rw [h2]

@[simp] theorem advance_newlines (s : PState) (c : List Slot) (o : Opcode) (cur : Token)
    (inp : List Token) (r : Bool) : (s.advance c o cur inp r).newlines = s.newlines := rfl

theorem advance_self (s : PState) :
    s.advance [] s.oldop s.curtoken s.input s.rescan = s := by
  simp [PState.advance]

theorem gettoken_advance_rescan (s : PState) (c : List Slot) (o : Opcode) (cur : Token)
    (inp : List Token) :
    gettoken (s.advance c o cur inp true) = Res.ok cur.t_type (s.advance c o cur inp false) := by
  simp [gettoken, PState.advance]

theorem gettoken_advance_scan (s : PState) (c : List Slot) (o : Opcode) (cur : Token)
    (inp : List Token) :
    gettoken (s.advance c o cur inp false) =
      Res.ok (scantoken s.newlines inp).1.t_type
        (s.advance c o (scantoken s.newlines inp).1 (scantoken s.newlines inp).2 false) := by
  simp [gettoken, PState.advance]

theorem scantoken_plain (nl : Bool) (t : Token) (ts : List Token) (h : t.plain) :
    scantoken nl (t :: ts) = (t, ts) := by
  simp [scantoken, h.1, h.2]

/-- Reading the next token when the tokens to come start with a plain one. -/
theorem gettoken_advance (s : PState) (c : List Slot) (o : Opcode) (cur : Token)
    (inp : List Token) (r : Bool) (t : Token) (ts : List Token) (ht : t.plain)
    (h : (if r then cur :: inp else inp) = t :: ts) :
    gettoken (s.advance c o cur inp r) = Res.ok t.t_type (s.advance c o t ts false) := by
  cases r
  · simp at h
    subst h
    rw [gettoken_advance_scan, scantoken_plain _ _ _ ht]
  · simp at h
    obtain ⟨h1, h2⟩ := h
    subst h1; subst h2
    rw [gettoken_advance_rescan]

theorem rescantoken_advance (s : PState) (c : List Slot) (o : Opcode) (cur : Token)
    (inp : List Token) (r : Bool) :
    rescantoken (s.advance c o cur inp r) = Res.ok () (s.advance c o cur inp true) := rfl

theorem addop_advance (s : PState) (c : List Slot) (o : Opcode) (cur : Token)
    (inp : List Token) (r : Bool) (x : Opcode) :
    addop x (s.advance c o cur inp r) =
      Res.ok () (s.advance (c ++ [Slot.op x]) x cur inp r) := by
  simp [addop, modS, PState.advance]

theorem addopone_advance (s : PState) (c : List Slot) (o : Opcode) (cur : Token)
    (inp : List Token) (r : Bool) (x : Opcode) (v : Int) :
    addopone x v (s.advance c o cur inp r) =
      Res.ok () (s.advance (c ++ [Slot.op x, Slot.arg v]) x cur inp r) := by
  simp [addopone, addop, addarg, modS, PState.advance, bind_run]

theorem tokennumber_advance (s : PState) (c : List Slot) (o : Opcode) (cur : Token)
    (inp : List Token) (r : Bool) :
    tokennumber (s.advance c o cur inp r) = Res.ok cur.t_numindex (s.advance c o cur inp r) := rfl

theorem numtok_plain (i : Int) : (numtok i).plain := by simp [Token.plain, numtok]

/-! ## The levels of `getsum` on number literals -/

theorem starts_cons (nl : Bool) (t : Token) (ts : List Token) (h : t.plain) :
    starts nl (t :: ts) = t.t_type := by
  simp [starts, scantoken_plain nl t ts h]

theorem parsed_advance (s : PState) (c : List Slot) (o : Opcode) (cur : Token)
    (inp : List Token) (r : Bool) (code : List Slot) (old : Opcode) (rest : List Token) :
    (s.advance c o cur inp r).parsed code old rest =
      s.advance (c ++ code) old (scantoken s.newlines rest).1 (scantoken s.newlines rest).2
        true := by
  simp [PState.parsed, PState.advance]

/-- A number literal as a term, with a token after it that does not continue the
term: `getshiftexpr` emits `OP_NUMBER` with the index of the constant and
pushes the token after it back. -/
theorem getshiftexpr_number (n : Nat) (hn : 2 ≤ n) (s : PState) (c : List Slot) (o : Opcode)
    (cur : Token) (inp : List Token) (r : Bool) (i : Int) (rest : List Token)
    (h : (if r then cur :: inp else inp) = numtok i :: rest)
    (hstop : continues_term (starts s.newlines rest) = false) :
    getshiftexpr n (s.advance c o cur inp r) =
      Res.ok (EXPR_RVALUE ||| EXPR_CONST)
        (s.advance (c ++ [Slot.op OP_NUMBER, Slot.arg i]) OP_NUMBER
          (scantoken s.newlines rest).1 (scantoken s.newlines rest).2 true) := by
  obtain ⟨m, rfl⟩ : ∃ m, n = m + 2 := ⟨n - 2, by omega⟩
  rw [getshiftexpr, bind_run, getterm, bind_run,
    gettoken_advance s c o cur inp r _ _ (numtok_plain i) h]
  simp only [numtok, bind_run, tokennumber_advance, addopone_advance, pure_run,
    gettoken_advance_scan]
  unfold starts at hstop
  generalize (scantoken s.newlines rest).1.t_type = T at *
  cases T <;> simp_all [continues_term, rescantoken, modS, pure_run, bind_run, PState.advance]

theorem optok_plain (t : TokenType) (h1 : t ≠ T_NULL) (h2 : t ≠ T_NEWLINE) :
    (optok t).plain := by
  simp [Token.plain, optok, h1, h2]

theorem getandexpr_loop_spec (s : PState) (rest : List Token)
    (hstop : continues_term (starts s.newlines rest) = false)
    (hand : starts s.newlines rest ≠ T_AND) :
    ∀ (more : List Int) (n : Nat), more.length + 3 ≤ n →
      ∀ (c : List Slot) (o : Opcode) (type : Nat),
        getandexpr_loop n type
            (s.advance c o (scantoken s.newlines (and_tokens more ++ rest)).1
              (scantoken s.newlines (and_tokens more ++ rest)).2 true) =
          Res.ok (if more = [] then type else EXPR_RVALUE)
            (s.advance (c ++ and_code more) (if more = [] then o else OP_AND)
              (scantoken s.newlines rest).1 (scantoken s.newlines rest).2 true) := by
  intro more
  induction more with
  | nil =>
    intro n hn c o type
    obtain ⟨m, rfl⟩ : ∃ m, n = m + 1 := ⟨n - 1, by omega⟩
    simp only [and_tokens, and_code, List.flatMap_nil, List.nil_append, List.append_nil,
      if_true]
    rw [getandexpr_loop, bind_run, gettoken_advance_rescan]
    unfold starts at hand
    simp [hand, bind_run, rescantoken, modS, pure_run, PState.advance]
  | cons i more ih =>
    intro n hn c o type
    obtain ⟨m, rfl⟩ : ∃ m, n = m + 1 := ⟨n - 1, by simp at hn; omega⟩
    have htoks : and_tokens (i :: more) ++ rest =
        optok T_AND :: numtok i :: (and_tokens more ++ rest) := by
      simp [and_tokens]
    rw [htoks, scantoken_plain _ _ _ (optok_plain T_AND (by decide) (by decide))]
    have hnext : continues_term (starts s.newlines (and_tokens more ++ rest)) = false := by
      cases more with
      | nil => simpa [and_tokens] using hstop
      | cons j more =>
        have : and_tokens (j :: more) ++ rest =
            optok T_AND :: numtok j :: (and_tokens more ++ rest) := by simp [and_tokens]
        rw [this, starts_cons _ _ _ (optok_plain T_AND (by decide) (by decide))]
        rfl
    rw [getandexpr_loop, bind_run, gettoken_advance_rescan]
    simp only [optok, if_true, bind_run]
    rw [getshiftexpr_number m (by simp at hn; omega) s c o _ _ false i
      (and_tokens more ++ rest) (by simp) hnext]
    simp only [addop_advance]
    rw [ih m (by simp at hn; omega)]
    simp [and_code]

theorem and_tree_postorder (first : Int) (more : List Int) :
    (AndExpr.tree { first := first, more := more }).postorder =
      [Slot.op OP_NUMBER, Slot.arg first] ++ and_code more := by
  have h : ∀ (more : List Int) (l : Expr),
      (more.foldl (fun l i => Expr.binary OP_AND l (Expr.number i)) l).postorder =
        l.postorder ++ and_code more := by
    intro more
    induction more with
    | nil => intro l; simp [and_code]
    | cons i more ih =>
      intro l
      rw [List.foldl_cons, ih]
      simp [Expr.postorder, and_code]
  simpa [AndExpr.tree, Expr.postorder] using h more (Expr.number first)

theorem and_tree_lastop (first : Int) (more : List Int) :
    (AndExpr.tree { first := first, more := more }).lastop =
      if more = [] then OP_NUMBER else OP_AND := by
  have h : ∀ (more : List Int) (l : Expr), more ≠ [] →
      (more.foldl (fun l i => Expr.binary OP_AND l (Expr.number i)) l).lastop = OP_AND := by
    intro more
    induction more with
    | nil => intro l h; exact absurd rfl h
    | cons i more ih =>
      intro l _
      rw [List.foldl_cons]
      cases more with
      | nil => rfl
      | cons j more => exact ih _ (by simp)
  cases more with
  | nil => rfl
  | cons i more => simpa [AndExpr.tree] using h (i :: more) (Expr.number first) (by simp)

theorem starts_and_tokens (nl : Bool) (more : List Int) (rest : List Token) :
    starts nl (and_tokens more ++ rest) = if more = [] then starts nl rest else T_AND := by
  cases more with
  | nil => simp [and_tokens]
  | cons i more =>
    have : and_tokens (i :: more) ++ rest = optok T_AND :: numtok i :: (and_tokens more ++ rest) := by
      simp [and_tokens]
    rw [this, starts_cons _ _ _ (optok_plain T_AND (by decide) (by decide))]
    simp [optok]

theorem getandexpr_spec (s : PState) (rest : List Token)
    (hstop : continues_term (starts s.newlines rest) = false)
    (hand : starts s.newlines rest ≠ T_AND)
    (e : AndExpr) (n : Nat) (hn : e.cost ≤ n) (c : List Slot) (o : Opcode) (cur : Token)
    (inp : List Token) (r : Bool)
    (h : (if r then cur :: inp else inp) = e.tokens ++ rest) :
    ∃ type, getandexpr n (s.advance c o cur inp r) =
      Res.ok type
        (s.advance (c ++ e.tree.postorder) e.tree.lastop
          (scantoken s.newlines rest).1 (scantoken s.newlines rest).2 true) := by
  obtain ⟨first, more⟩ := e
  obtain ⟨m, rfl⟩ : ∃ m, n = m + 1 := ⟨n - 1, by simp [AndExpr.cost] at hn; omega⟩
  simp only [AndExpr.cost] at hn
  have hnext : continues_term (starts s.newlines (and_tokens more ++ rest)) = false := by
    rw [starts_and_tokens]
    split
    · exact hstop
    · rfl
  rw [getandexpr, bind_run,
    getshiftexpr_number m (by omega) s c o cur inp r first (and_tokens more ++ rest)
      (by simpa [AndExpr.tokens, and_tokens] using h) hnext]
  simp only
  rw [getandexpr_loop_spec s rest hstop hand more m (by omega)]
  rw [and_tree_postorder, and_tree_lastop]
  simp only [List.append_assoc]
  exact ⟨_, rfl⟩

/-! ### The level of `|` -/

theorem and_tokens_cons_plain (e : AndExpr) :
    ∃ ts, e.tokens = numtok e.first :: ts := ⟨_, rfl⟩

theorem starts_or_tokens (nl : Bool) (more : List AndExpr) (rest : List Token) :
    starts nl (or_tokens more ++ rest) = if more = [] then starts nl rest else T_OR := by
  cases more with
  | nil => simp [or_tokens]
  | cons a more =>
    have : or_tokens (a :: more) ++ rest = optok T_OR :: (a.tokens ++ (or_tokens more ++ rest)) := by
      simp [or_tokens]
    rw [this, starts_cons _ _ _ (optok_plain T_OR (by decide) (by decide))]
    simp [optok]

theorem getorexpr_loop_spec (s : PState) (rest : List Token)
    (hstop : continues_term (starts s.newlines rest) = false)
    (hand : starts s.newlines rest ≠ T_AND) (hor : starts s.newlines rest ≠ T_OR) :
    ∀ (more : List AndExpr) (n : Nat), (more.map AndExpr.cost).sum + more.length + 1 ≤ n →
      ∀ (c : List Slot) (o : Opcode) (type : Nat),
        ∃ type1, getorexpr_loop n type
            (s.advance c o (scantoken s.newlines (or_tokens more ++ rest)).1
              (scantoken s.newlines (or_tokens more ++ rest)).2 true) =
          Res.ok type1
            (s.advance (c ++ or_code more) (if more = [] then o else OP_OR)
              (scantoken s.newlines rest).1 (scantoken s.newlines rest).2 true) := by
  intro more
  induction more with
  | nil =>
    intro n hn c o type
    obtain ⟨m, rfl⟩ : ∃ m, n = m + 1 := ⟨n - 1, by omega⟩
    simp only [or_tokens, or_code, List.flatMap_nil, List.nil_append, List.append_nil,
      if_true]
    rw [getorexpr_loop, bind_run, gettoken_advance_rescan]
    unfold starts at hor
    simp [hor, bind_run, rescantoken, modS, pure_run, PState.advance]
  | cons a more ih =>
    intro n hn c o type
    simp only [List.map_cons, List.sum_cons, List.length_cons] at hn
    obtain ⟨m, rfl⟩ : ∃ m, n = m + 1 := ⟨n - 1, by omega⟩
    have htoks : or_tokens (a :: more) ++ rest =
        optok T_OR :: (a.tokens ++ (or_tokens more ++ rest)) := by
      simp [or_tokens]
    rw [htoks, scantoken_plain _ _ _ (optok_plain T_OR (by decide) (by decide))]
    have hnext : continues_term (starts s.newlines (or_tokens more ++ rest)) = false := by
      rw [starts_or_tokens]; split
      · exact hstop
      · rfl
    have hnext2 : starts s.newlines (or_tokens more ++ rest) ≠ T_AND := by
      rw [starts_or_tokens]; split
      · exact hand
      · decide
    rw [getorexpr_loop, bind_run, gettoken_advance_rescan]
    simp only [optok, if_true, bind_run]
    obtain ⟨t1, h1⟩ := getandexpr_spec s (or_tokens more ++ rest) hnext hnext2 a m (by omega)
      c o { t_type := T_OR } (a.tokens ++ (or_tokens more ++ rest)) false (by simp)
    rw [h1]
    simp only [addop_advance]
    obtain ⟨t2, h2⟩ := ih m (by omega) (c ++ a.tree.postorder ++ [Slot.op OP_OR]) OP_OR
      EXPR_RVALUE
    rw [h2]
    simp only [or_code, List.flatMap_cons, List.append_assoc, List.cons_append,
      List.nil_append, reduceCtorEq, if_false, ite_self]
    exact ⟨_, rfl⟩

theorem or_tree_postorder (first : AndExpr) (more : List AndExpr) :
    (OrExpr.tree { first := first, more := more }).postorder =
      first.tree.postorder ++ or_code more := by
  have h : ∀ (more : List AndExpr) (l : Expr),
      (more.foldl (fun l a => Expr.binary OP_OR l a.tree) l).postorder =
        l.postorder ++ or_code more := by
    intro more
    induction more with
    | nil => intro l; simp [or_code]
    | cons i more ih =>
      intro l
      rw [List.foldl_cons, ih]
      simp [Expr.postorder, or_code]
  simpa [OrExpr.tree] using h more first.tree

theorem or_tree_lastop (first : AndExpr) (more : List AndExpr) :
    (OrExpr.tree { first := first, more := more }).lastop =
      if more = [] then first.tree.lastop else OP_OR := by
  have h : ∀ (more : List AndExpr) (l : Expr), more ≠ [] →
      (more.foldl (fun l a => Expr.binary OP_OR l a.tree) l).lastop = OP_OR := by
    intro more
    induction more with
    | nil => intro l h; exact absurd rfl h
    | cons i more ih =>
      intro l _
      rw [List.foldl_cons]
      cases more with
      | nil => rfl
      | cons j more => exact ih _ (by simp)
  cases more with
  | nil => rfl
  | cons i more => simpa [OrExpr.tree] using h (i :: more) first.tree (by simp)

theorem getorexpr_spec (s : PState) (rest : List Token)
    (hstop : continues_term (starts s.newlines rest) = false)
    (hand : starts s.newlines rest ≠ T_AND) (hor : starts s.newlines rest ≠ T_OR)
    (e : OrExpr) (n : Nat) (hn : e.cost ≤ n) (c : List Slot) (o : Opcode) (cur : Token)
    (inp : List Token) (r : Bool)
    (h : (if r then cur :: inp else inp) = e.tokens ++ rest) :
    ∃ type, getorexpr n (s.advance c o cur inp r) =
      Res.ok type
        (s.advance (c ++ e.tree.postorder) e.tree.lastop
          (scantoken s.newlines rest).1 (scantoken s.newlines rest).2 true) := by
  obtain ⟨first, more⟩ := e
  simp only [OrExpr.cost] at hn
  obtain ⟨m, rfl⟩ : ∃ m, n = m + 1 := ⟨n - 1, by omega⟩
  have hnext : continues_term (starts s.newlines (or_tokens more ++ rest)) = false := by
    rw [starts_or_tokens]; split
    · exact hstop
    · rfl
  have hnext2 : starts s.newlines (or_tokens more ++ rest) ≠ T_AND := by
    rw [starts_or_tokens]; split
    · exact hand
    · decide
  obtain ⟨t1, h1⟩ := getandexpr_spec s (or_tokens more ++ rest) hnext hnext2 first m (by omega)
    c o cur inp r (by simpa [OrExpr.tokens, or_tokens] using h)
  rw [getorexpr, bind_run, h1]
  simp only
  obtain ⟨t2, h2⟩ := getorexpr_loop_spec s rest hstop hand hor more m (by omega)
    (c ++ first.tree.postorder) first.tree.lastop t1
  rw [h2, or_tree_postorder, or_tree_lastop]
  simp only [List.append_assoc]
  exact ⟨_, rfl⟩

/-! ### The level of `*`, `/`, `%` and `//` -/

theorem mulop_plain (op : MulOp) : (optok op.token).plain := by
  cases op <;> simp [Token.plain, optok, MulOp.token]

theorem starts_product_tokens (nl : Bool) (more : List (MulOp × OrExpr)) (rest : List Token) :
    starts nl (product_tokens more ++ rest) =
      match more with
      | [] => starts nl rest
      | p :: _ => p.1.token := by
  cases more with
  | nil => simp [product_tokens]
  | cons a more =>
    have : product_tokens (a :: more) ++ rest =
        optok a.1.token :: (a.2.tokens ++ (product_tokens more ++ rest)) := by
      simp [product_tokens]
    rw [this, starts_cons _ _ _ (mulop_plain a.1)]
    simp [optok]

theorem getproduct_loop_step (m : Nat) (type : Nat) (s : PState) (c : List Slot) (o : Opcode)
    (op : MulOp) (inp : List Token) :
    getproduct_loop (m + 1) type (s.advance c o (optok op.token) inp true) =
      (do
        let _ ← getorexpr m
        addop op.opcode
        getproduct_loop m EXPR_RVALUE) (s.advance c o (optok op.token) inp false) := by
  rw [getproduct_loop, bind_run, gettoken_advance_rescan]
  cases op <;> rfl

theorem getproduct_loop_stop (m : Nat) (type : Nat) (s : PState) (c : List Slot) (o : Opcode)
    (cur : Token) (inp : List Token) (h : is_mulop cur.t_type = false) :
    getproduct_loop (m + 1) type (s.advance c o cur inp true) =
      Res.ok type (s.advance c o cur inp true) := by
  rw [getproduct_loop, bind_run, gettoken_advance_rescan]
  generalize cur.t_type = T at *
  cases T <;> simp_all [is_mulop, bind_run, rescantoken, modS, pure_run, PState.advance]

theorem product_lastop_cons (o : Opcode) (a : MulOp × OrExpr) (more : List (MulOp × OrExpr)) :
    product_lastop o (a :: more) = product_lastop a.1.opcode more := rfl

theorem getproduct_loop_spec (s : PState) (rest : List Token)
    (hstop : continues_term (starts s.newlines rest) = false)
    (hand : starts s.newlines rest ≠ T_AND) (hor : starts s.newlines rest ≠ T_OR)
    (hmul : is_mulop (starts s.newlines rest) = false) :
    ∀ (more : List (MulOp × OrExpr)) (n : Nat),
      (more.map fun p => p.2.cost).sum + more.length + 1 ≤ n →
      ∀ (c : List Slot) (o : Opcode) (type : Nat),
        ∃ type1, getproduct_loop n type
            (s.advance c o (scantoken s.newlines (product_tokens more ++ rest)).1
              (scantoken s.newlines (product_tokens more ++ rest)).2 true) =
          Res.ok type1
            (s.advance (c ++ product_code more) (product_lastop o more)
              (scantoken s.newlines rest).1 (scantoken s.newlines rest).2 true) := by
  intro more
  induction more with
  | nil =>
    intro n hn c o type
    obtain ⟨m, rfl⟩ : ∃ m, n = m + 1 := ⟨n - 1, by omega⟩
    simp only [product_tokens, product_code, List.flatMap_nil, List.nil_append,
      List.append_nil]
    rw [getproduct_loop_stop _ _ _ _ _ _ _ hmul]
    exact ⟨_, rfl⟩
  | cons a more ih =>
    intro n hn c o type
    simp only [List.map_cons, List.sum_cons, List.length_cons] at hn
    obtain ⟨m, rfl⟩ : ∃ m, n = m + 1 := ⟨n - 1, by omega⟩
    have htoks : product_tokens (a :: more) ++ rest =
        optok a.1.token :: (a.2.tokens ++ (product_tokens more ++ rest)) := by
      simp [product_tokens]
    rw [htoks, scantoken_plain _ _ _ (mulop_plain a.1)]
    have hnext : continues_term (starts s.newlines (product_tokens more ++ rest)) = false := by
      rw [starts_product_tokens]; split
      · exact hstop
      · rename_i p _; cases p.1 <;> rfl
    have hnext2 : starts s.newlines (product_tokens more ++ rest) ≠ T_AND := by
      rw [starts_product_tokens]; split
      · exact hand
      · rename_i p _; cases p.1 <;> decide
    have hnext3 : starts s.newlines (product_tokens more ++ rest) ≠ T_OR := by
      rw [starts_product_tokens]; split
      · exact hor
      · rename_i p _; cases p.1 <;> decide
    rw [getproduct_loop_step, bind_run]
    obtain ⟨t1, h1⟩ := getorexpr_spec s (product_tokens more ++ rest) hnext hnext2 hnext3 a.2 m
      (by omega) c o (optok a.1.token) (a.2.tokens ++ (product_tokens more ++ rest)) false
      (by simp)
    rw [h1]
    simp only [bind_run, addop_advance]
    obtain ⟨t2, h2⟩ := ih m (by omega) (c ++ a.2.tree.postorder ++ [Slot.op a.1.opcode])
      a.1.opcode EXPR_RVALUE
    rw [h2, product_lastop_cons]
    simp only [product_code, List.flatMap_cons, List.append_assoc]
    exact ⟨_, rfl⟩

theorem product_tree_postorder (first : OrExpr) (more : List (MulOp × OrExpr)) :
    (ProductExpr.tree { first := first, more := more }).postorder =
      first.tree.postorder ++ product_code more := by
  have h : ∀ (more : List (MulOp × OrExpr)) (l : Expr),
      (more.foldl (fun l p => Expr.binary p.1.opcode l p.2.tree) l).postorder =
        l.postorder ++ product_code more := by
    intro more
    induction more with
    | nil => intro l; simp [product_code]
    | cons i more ih =>
      intro l
      rw [List.foldl_cons, ih]
      simp [Expr.postorder, product_code]
  simpa [ProductExpr.tree] using h more first.tree

theorem product_tree_lastop (first : OrExpr) (more : List (MulOp × OrExpr)) :
    (ProductExpr.tree { first := first, more := more }).lastop =
      product_lastop first.tree.lastop more := by
  have h : ∀ (more : List (MulOp × OrExpr)) (l : Expr),
      (more.foldl (fun l p => Expr.binary p.1.opcode l p.2.tree) l).lastop =
        product_lastop l.lastop more := by
    intro more
    induction more with
    | nil => intro l; rfl
    | cons i more ih =>
      intro l
      rw [List.foldl_cons, ih, product_lastop_cons]
      rfl
  simpa [ProductExpr.tree] using h more first.tree

theorem getproduct_spec (s : PState) (rest : List Token)
    (hstop : continues_term (starts s.newlines rest) = false)
    (hand : starts s.newlines rest ≠ T_AND) (hor : starts s.newlines rest ≠ T_OR)
    (hmul : is_mulop (starts s.newlines rest) = false)
    (e : ProductExpr) (n : Nat) (hn : e.cost ≤ n) (c : List Slot) (o : Opcode) (cur : Token)
    (inp : List Token) (r : Bool)
    (h : (if r then cur :: inp else inp) = e.tokens ++ rest) :
    ∃ type, getproduct n (s.advance c o cur inp r) =
      Res.ok type
        (s.advance (c ++ e.tree.postorder) e.tree.lastop
          (scantoken s.newlines rest).1 (scantoken s.newlines rest).2 true) := by
  obtain ⟨first, more⟩ := e
  simp only [ProductExpr.cost] at hn
  obtain ⟨m, rfl⟩ : ∃ m, n = m + 1 := ⟨n - 1, by omega⟩
  have hnext : continues_term (starts s.newlines (product_tokens more ++ rest)) = false := by
    rw [starts_product_tokens]; split
    · exact hstop
    · rename_i p _; cases p.1 <;> rfl
  have hnext2 : starts s.newlines (product_tokens more ++ rest) ≠ T_AND := by
    rw [starts_product_tokens]; split
    · exact hand
    · rename_i p _; cases p.1 <;> decide
  have hnext3 : starts s.newlines (product_tokens more ++ rest) ≠ T_OR := by
    rw [starts_product_tokens]; split
    · exact hor
    · rename_i p _; cases p.1 <;> decide
  obtain ⟨t1, h1⟩ := getorexpr_spec s (product_tokens more ++ rest) hnext hnext2 hnext3 first m
    (by omega) c o cur inp r (by simpa [ProductExpr.tokens, product_tokens] using h)
  rw [getproduct, bind_run, h1]
  simp only
  obtain ⟨t2, h2⟩ := getproduct_loop_spec s rest hstop hand hor hmul more m (by omega)
    (c ++ first.tree.postorder) first.tree.lastop t1
  rw [h2, product_tree_postorder, product_tree_lastop]
  simp only [List.append_assoc]
  exact ⟨_, rfl⟩

/-! ### The level of `+` and `-` -/

theorem addop_plain (op : AddOp) : (optok op.token).plain := by
  cases op <;> simp [Token.plain, optok, AddOp.token]

theorem starts_sum_tokens (nl : Bool) (more : List (AddOp × ProductExpr)) (rest : List Token) :
    starts nl (sum_tokens more ++ rest) =
      match more with
      | [] => starts nl rest
      | p :: _ => p.1.token := by
  cases more with
  | nil => simp [sum_tokens]
  | cons a more =>
    have : sum_tokens (a :: more) ++ rest =
        optok a.1.token :: (a.2.tokens ++ (sum_tokens more ++ rest)) := by
      simp [sum_tokens]
    rw [this, starts_cons _ _ _ (addop_plain a.1)]
    simp [optok]

theorem getsum_loop_step (m : Nat) (type : Nat) (s : PState) (c : List Slot) (o : Opcode)
    (op : AddOp) (inp : List Token) :
    getsum_loop (m + 1) type (s.advance c o (optok op.token) inp true) =
      (do
        let _ ← getproduct m
        addop op.opcode
        getsum_loop m EXPR_RVALUE) (s.advance c o (optok op.token) inp false) := by
  rw [getsum_loop, bind_run, gettoken_advance_rescan]
  cases op <;> rfl

theorem getsum_loop_stop (m : Nat) (type : Nat) (s : PState) (c : List Slot) (o : Opcode)
    (cur : Token) (inp : List Token) (h : is_addop cur.t_type = false) :
    getsum_loop (m + 1) type (s.advance c o cur inp true) =
      Res.ok type (s.advance c o cur inp true) := by
  rw [getsum_loop, bind_run, gettoken_advance_rescan]
  generalize cur.t_type = T at *
  cases T <;> simp_all [is_addop, bind_run, rescantoken, modS, pure_run, PState.advance]

theorem getsum_loop_spec (s : PState) (rest : List Token)
    (hstop : continues_term (starts s.newlines rest) = false)
    (hand : starts s.newlines rest ≠ T_AND) (hor : starts s.newlines rest ≠ T_OR)
    (hmul : is_mulop (starts s.newlines rest) = false)
    (hadd : is_addop (starts s.newlines rest) = false) :
    ∀ (more : List (AddOp × ProductExpr)) (n : Nat),
      (more.map fun p => p.2.cost).sum + more.length + 1 ≤ n →
      ∀ (c : List Slot) (o : Opcode) (type : Nat),
        ∃ type1, getsum_loop n type
            (s.advance c o (scantoken s.newlines (sum_tokens more ++ rest)).1
              (scantoken s.newlines (sum_tokens more ++ rest)).2 true) =
          Res.ok type1
            (s.advance (c ++ sum_code more) (sum_lastop o more)
              (scantoken s.newlines rest).1 (scantoken s.newlines rest).2 true) := by
  intro more
  induction more with
  | nil =>
    intro n hn c o type
    obtain ⟨m, rfl⟩ : ∃ m, n = m + 1 := ⟨n - 1, by omega⟩
    simp only [sum_tokens, sum_code, List.flatMap_nil, List.nil_append, List.append_nil]
    rw [getsum_loop_stop _ _ _ _ _ _ _ hadd]
    exact ⟨_, rfl⟩
  | cons a more ih =>
    intro n hn c o type
    simp only [List.map_cons, List.sum_cons, List.length_cons] at hn
    obtain ⟨m, rfl⟩ : ∃ m, n = m + 1 := ⟨n - 1, by omega⟩
    have htoks : sum_tokens (a :: more) ++ rest =
        optok a.1.token :: (a.2.tokens ++ (sum_tokens more ++ rest)) := by
      simp [sum_tokens]
    rw [htoks, scantoken_plain _ _ _ (addop_plain a.1)]
    have hnext : continues_term (starts s.newlines (sum_tokens more ++ rest)) = false := by
      rw [starts_sum_tokens]; split
      · exact hstop
      · rename_i p _; cases p.1 <;> rfl
    have hnext2 : starts s.newlines (sum_tokens more ++ rest) ≠ T_AND := by
      rw [starts_sum_tokens]; split
      · exact hand
      · rename_i p _; cases p.1 <;> decide
    have hnext3 : starts s.newlines (sum_tokens more ++ rest) ≠ T_OR := by
      rw [starts_sum_tokens]; split
      · exact hor
      · rename_i p _; cases p.1 <;> decide
    have hnext4 : is_mulop (starts s.newlines (sum_tokens more ++ rest)) = false := by
      rw [starts_sum_tokens]; split
      · exact hmul
      · rename_i p _; cases p.1 <;> rfl
    rw [getsum_loop_step, bind_run]
    obtain ⟨t1, h1⟩ := getproduct_spec s (sum_tokens more ++ rest) hnext hnext2 hnext3 hnext4
      a.2 m (by omega) c o (optok a.1.token) (a.2.tokens ++ (sum_tokens more ++ rest)) false
      (by simp)
    rw [h1]
    simp only [bind_run, addop_advance]
    obtain ⟨t2, h2⟩ := ih m (by omega) (c ++ a.2.tree.postorder ++ [Slot.op a.1.opcode])
      a.1.opcode EXPR_RVALUE
    rw [h2]
    simp only [sum_code, sum_lastop, List.flatMap_cons, List.append_assoc]
    exact ⟨_, rfl⟩

theorem sum_tree_postorder (first : ProductExpr) (more : List (AddOp × ProductExpr)) :
    (SumExpr.tree { first := first, more := more }).postorder =
      first.tree.postorder ++ sum_code more := by
  have h : ∀ (more : List (AddOp × ProductExpr)) (l : Expr),
      (more.foldl (fun l p => Expr.binary p.1.opcode l p.2.tree) l).postorder =
        l.postorder ++ sum_code more := by
    intro more
    induction more with
    | nil => intro l; simp [sum_code]
    | cons i more ih =>
      intro l
      rw [List.foldl_cons, ih]
      simp [Expr.postorder, sum_code]
  simpa [SumExpr.tree] using h more first.tree

theorem sum_tree_lastop (first : ProductExpr) (more : List (AddOp × ProductExpr)) :
    (SumExpr.tree { first := first, more := more }).lastop =
      sum_lastop first.tree.lastop more := by
  have h : ∀ (more : List (AddOp × ProductExpr)) (l : Expr),
      (more.foldl (fun l p => Expr.binary p.1.opcode l p.2.tree) l).lastop =
        sum_lastop l.lastop more := by
    intro more
    induction more with
    | nil => intro l; rfl
    | cons i more ih =>
      intro l
      rw [List.foldl_cons, ih]
      rfl
  simpa [SumExpr.tree] using h more first.tree

theorem getsum_spec (s : PState) (rest : List Token)
    (hstop : continues_sum (starts s.newlines rest) = false)
    (e : SumExpr) (n : Nat) (hn : e.cost ≤ n) (c : List Slot) (o : Opcode) (cur : Token)
    (inp : List Token) (r : Bool)
    (h : (if r then cur :: inp else inp) = e.tokens ++ rest) :
    ∃ type, getsum n (s.advance c o cur inp r) =
      Res.ok type
        (s.advance (c ++ e.tree.postorder) e.tree.lastop
          (scantoken s.newlines rest).1 (scantoken s.newlines rest).2 true) := by
  have hterm : continues_term (starts s.newlines rest) = false := by
    generalize starts s.newlines rest = T at *
    cases T <;> first | rfl | exact absurd hstop (by decide)
  have hand : starts s.newlines rest ≠ T_AND := by
    intro h; rw [h] at hstop; exact absurd hstop (by decide)
  have hor : starts s.newlines rest ≠ T_OR := by
    intro h; rw [h] at hstop; exact absurd hstop (by decide)
  have hmul : is_mulop (starts s.newlines rest) = false := by
    generalize starts s.newlines rest = T at *
    cases T <;> first | rfl | exact absurd hstop (by decide)
  have hadd : is_addop (starts s.newlines rest) = false := by
    generalize starts s.newlines rest = T at *
    cases T <;> first | rfl | exact absurd hstop (by decide)
  obtain ⟨first, more⟩ := e
  simp only [SumExpr.cost] at hn
  obtain ⟨m, rfl⟩ : ∃ m, n = m + 1 := ⟨n - 1, by omega⟩
  have hnext : continues_term (starts s.newlines (sum_tokens more ++ rest)) = false := by
    rw [starts_sum_tokens]; split
    · exact hterm
    · rename_i p _; cases p.1 <;> rfl
  have hnext2 : starts s.newlines (sum_tokens more ++ rest) ≠ T_AND := by
    rw [starts_sum_tokens]; split
    · exact hand
    · rename_i p _; cases p.1 <;> decide
  have hnext3 : starts s.newlines (sum_tokens more ++ rest) ≠ T_OR := by
    rw [starts_sum_tokens]; split
    · exact hor
    · rename_i p _; cases p.1 <;> decide
  have hnext4 : is_mulop (starts s.newlines (sum_tokens more ++ rest)) = false := by
    rw [starts_sum_tokens]; split
    · exact hmul
    · rename_i p _; cases p.1 <;> rfl
  obtain ⟨t1, h1⟩ := getproduct_spec s (sum_tokens more ++ rest) hnext hnext2 hnext3 hnext4
    first m (by omega) c o cur inp r (by simpa [SumExpr.tokens, sum_tokens] using h)
  rw [getsum, bind_run, h1]
  simp only
  obtain ⟨t2, h2⟩ := getsum_loop_spec s rest hterm hand hor hmul hadd more m (by omega)
    (c ++ first.tree.postorder) first.tree.lastop t1
  rw [h2, sum_tree_postorder, sum_tree_lastop]
  simp only [List.append_assoc]
  exact ⟨_, rfl⟩

/-- C1: for every expression over number literals and the binary operators
`+ - * / // % | &`, followed by a token that does not continue it, `getsum`
(with fuel enough for the expression) returns, reports no error, and the
opcodes it appends are the post-order traversal of the expression tree in
which `&` binds tighter than `|`, `|` tighter than `* / // %`, those tighter
than `+ -`, and the operators of one level associate to the left.  The token
after the expression is left to be read again, and nothing else of the state
changes but the opcode remembered as the last one. -/
theorem getsum_postorder (e : SumExpr) (s : PState) (rest : List Token) (n : Nat)
    (hfuel : e.cost ≤ n)
    (htokens : pending s = e.tokens ++ rest)
    (hrest : continues_sum (scantoken s.newlines rest).1.t_type = false) :
    ∃ type, getsum n s =
      Res.ok type
        { s with
          f_opcodes := s.f_opcodes ++ e.tree.postorder
          oldop := e.tree.lastop
          curtoken := (scantoken s.newlines rest).1
          input := (scantoken s.newlines rest).2
          rescan := true } := by
  have h := getsum_spec s rest hrest e n hfuel [] s.oldop s.curtoken s.input s.rescan
    (by simpa [pending] using htokens)
  rw [advance_self] at h
  simpa [PState.advance] using h

/-- C1, at the input `1 + 2 * 3` followed by the end of the input: `getsum` emits
`OP_NUMBER` 1, `OP_NUMBER` 2, `OP_NUMBER` 3, `OP_MUL`, `OP_ADD`. -/
theorem getsum_postorder_witness :
    ∃ type, getsum 30
        { input := [numtok 1, optok T_PLUS, numtok 2, optok T_MULT, numtok 3] } =
      Res.ok type
        { input := []
          curtoken := { t_type := T_EOF }
          rescan := true
          oldop := OP_ADD
          f_opcodes := [Slot.op OP_NUMBER, Slot.arg 1, Slot.op OP_NUMBER, Slot.arg 2,
            Slot.op OP_NUMBER, Slot.arg 3, Slot.op OP_MUL, Slot.op OP_ADD] } :=
  getsum_postorder sum_1_plus_2_times_3
    { input := [numtok 1, optok T_PLUS, numtok 2, optok T_MULT, numtok 3] } [] 30
    (by decide) (by decide) (by decide)

theorem returnsZero_bind {α : Type} (m : P α) (f : α → P Nat) (h : ∀ a, ReturnsZero (f a)) :
    ReturnsZero (m >>= f) := by
  intro s
  rw [bind_run]
  cases hm : m s with
  | ok a s1 => exact h a s1
  | abort s1 => trivial
  | nofuel => trivial

theorem returnsZero_pure : ReturnsZero (pure 0) := fun _ => rfl

theorem getidexpr_loop_zero : ∀ (n : Nat) (okmat : Bool), ReturnsZero (getidexpr_loop n okmat) := by
  intro n
  induction n with
  | zero => intro okmat s; rw [getidexpr_loop]; trivial
  | succ n ih =>
    intro okmat
    rw [getidexpr_loop]
    apply returnsZero_bind
    intro t
    split
    all_goals repeat' first
      | exact ih _
      | exact returnsZero_pure
      | (apply returnsZero_bind; intro _)
      | split

theorem getidexpr_zero (n : Nat) (okmat autodef : Bool) :
    ReturnsZero (getidexpr n okmat autodef) := by
  cases n with
  | zero => intro s; rw [getidexpr]; trivial
  | succ n =>
    rw [getidexpr]
    apply returnsZero_bind
    rintro ⟨ok, name⟩
    simp only
    repeat' first
      | exact getidexpr_loop_zero n okmat
      | exact returnsZero_pure
      | (apply returnsZero_bind; intro _)
      | split

/-! ## Assignment to what is not assignable -/

theorem scanerror_null_run (s : PState)
    (h : ¬ (0 < s.maxscancount ∧ s.maxscancount < s.errorcount + 1)) :
    scanerror T_NULL s = Res.ok () { s with errorcount := s.errorcount + 1 } := by
  have h' : ¬ (s.maxscancount > 0 ∧ s.errorcount + 1 > s.maxscancount) := h
  simp [scanerror, h']

/-- C5: when the left side of `=` or of a compound assignment operator carries the
rvalue flag and the ceiling of errors is not reached, `getassignment` counts
exactly one error, discarding no token; it then parses one right-hand side
with `getassignment`; the state in which that returns is the state in which
the assignment returns, so that nothing, and no `OP_ASSIGN`, is emitted after
the right-hand side; and the flags returned are `EXPR_RVALUE | EXPR_ASSIGN`. -/
theorem getassignment_of_rvalue (n : Nat) (s s1 s2 : PState) (type : Nat) (tok : TokenType)
    (hleft : getaltcond n s = Res.ok type s1) (hflag : isrvalue type = true)
    (htok : gettoken s1 = Res.ok tok s2) (hop : is_assignop tok = true)
    (hceiling : ¬ (0 < s2.maxscancount ∧ s2.maxscancount < s2.errorcount + 1)) :
    getassignment (n + 1) s =
      match getassignment n { s2 with errorcount := s2.errorcount + 1 } with
      | Res.ok _ s3 => Res.ok (EXPR_RVALUE ||| EXPR_ASSIGN) s3
      | Res.abort s3 => Res.abort s3
      | Res.nofuel => Res.nofuel := by
  rw [getassignment, bind_run, hleft]
  simp only [bind_run, htok]
  cases tok <;> first
    | exact absurd hop (by decide)
    | (simp only [hflag, if_true, bind_run, scanerror_null_run s2 hceiling, pure_run]
       generalize getassignment n _ = r
       cases r <;> rfl)

/-- C5, at the input `1 + 2 = 3;`: the left side `1 + 2` carries the rvalue flag;
`getassignment` counts one error, emits the code of `1 + 2` and of `3` and no
`OP_ASSIGN`, and returns `EXPR_RVALUE | EXPR_ASSIGN`.  The statement `2 + 3;`
that follows `1 + 2 = 3;` on the line is compiled without a further error:
the error count of the line is 1 and the code of both statements is there. -/
theorem getassignment_of_rvalue_witness :
    (getassignment 21
        (top_level [numtok 0, optok T_PLUS, numtok 1, optok T_ASSIGN, numtok 2,
          optok T_SEMICOLON]) =
      Res.ok (EXPR_RVALUE ||| EXPR_ASSIGN)
        { top_level [] with
          curtoken := optok T_SEMICOLON
          rescan := true
          errorcount := 1
          f_opcodes := [Slot.op OP_NUMBER, Slot.arg 0, Slot.op OP_NUMBER, Slot.arg 1,
            Slot.op OP_ADD, Slot.op OP_NUMBER, Slot.arg 2]
          oldop := OP_NUMBER
          labels := [{}, {}, {}, {}] }) ∧
    evaluate 40 false
        (top_level [numtok 0, optok T_PLUS, numtok 1, optok T_ASSIGN, numtok 2,
          optok T_SEMICOLON, numtok 1, optok T_PLUS, numtok 2, optok T_SEMICOLON,
          optok T_NEWLINE]) =
      Res.ok false
        { top_level [] with
          curtoken := optok T_NEWLINE
          errorcount := 1
          f_opcodes := [Slot.op OP_DEBUG, Slot.arg 1, Slot.op OP_NUMBER, Slot.arg 0,
            Slot.op OP_NUMBER, Slot.arg 1, Slot.op OP_ADD, Slot.op OP_NUMBER, Slot.arg 2,
            Slot.op OP_SAVE, Slot.op OP_POP,
            Slot.op OP_DEBUG, Slot.arg 1, Slot.op OP_NUMBER, Slot.arg 1, Slot.op OP_NUMBER,
            Slot.arg 2, Slot.op OP_ADD, Slot.op OP_SAVE, Slot.op OP_PRINTRESULT,
            Slot.op OP_UNDEF, Slot.op OP_RETURN]
          oldop := OP_RETURN
          labels := [{}, {}, {}, {}, {}, {}] } :=
  ⟨(getassignment_of_rvalue 20
      (top_level [numtok 0, optok T_PLUS, numtok 1, optok T_ASSIGN, numtok 2,
        optok T_SEMICOLON])
      { top_level [numtok 2, optok T_SEMICOLON] with
        curtoken := optok T_ASSIGN
        rescan := true
        f_opcodes := [Slot.op OP_NUMBER, Slot.arg 0, Slot.op OP_NUMBER, Slot.arg 1,
          Slot.op OP_ADD]
        oldop := OP_ADD
        labels := [{}, {}] }
      { top_level [numtok 2, optok T_SEMICOLON] with
        curtoken := optok T_ASSIGN
        rescan := false
        f_opcodes := [Slot.op OP_NUMBER, Slot.arg 0, Slot.op OP_NUMBER, Slot.arg 1,
          Slot.op OP_ADD]
        oldop := OP_ADD
        labels := [{}, {}] }
      EXPR_RVALUE T_ASSIGN (by decide!) (by decide!) (by decide!) (by decide!)
      (by decide!)).trans (by decide!),
   by decide!⟩

/-! ## Assignment to a function call -/

/-- C6, the claim as stated fails: the statement `f() = 3;`, with `f` a name that is
not built in, is compiled without an error (the error count stays 0) and the
code emitted for it has `OP_ASSIGN` after the call and the right-hand side. -/
theorem call_assignment_is_compiled :
    getstatement 30 none none none none
        (top_level [symtok 7, optok T_LEFTPAREN, optok T_RIGHTPAREN, optok T_ASSIGN,
          numtok 2, optok T_SEMICOLON]) =
      Res.ok ()
        { top_level [] with
          curtoken := optok T_SEMICOLON
          errorcount := 0
          f_opcodes := [Slot.op OP_DEBUG, Slot.arg 1, Slot.op OP_USERCALL, Slot.arg 0,
            Slot.arg 0, Slot.op OP_NUMBER, Slot.arg 2, Slot.op OP_ASSIGN, Slot.op OP_SAVE,
            Slot.op OP_POP]
          oldop := OP_POP
          labels := [{}, {}, {}, {}]
          userfuncs := [7] } := by
  decide!

/-- C6, as amended: an assignment whose left side is a function call is not
rejected while compiling.  Whenever `getidexpr` returns, for a call as for
every identifier expression, it returns the flags 0, which do not carry the
rvalue flag; and parsing `f() = 3` with `getassignment` counts no error and
emits `OP_USERCALL` for the call, the code of the right-hand side and
`OP_ASSIGN`. -/
theorem call_is_not_flagged_rvalue (n : Nat) (okmat autodef : Bool) (s : PState) :
    (match getidexpr n okmat autodef s with
      | Res.ok type _ => type = 0 ∧ isrvalue type = false
      | _ => True) ∧
    getassignment 30
        (top_level [symtok 7, optok T_LEFTPAREN, optok T_RIGHTPAREN, optok T_ASSIGN,
          numtok 2, optok T_SEMICOLON]) =
      Res.ok EXPR_ASSIGN
        { top_level [] with
          curtoken := optok T_SEMICOLON
          rescan := true
          errorcount := 0
          f_opcodes := [Slot.op OP_USERCALL, Slot.arg 0, Slot.arg 0, Slot.op OP_NUMBER,
            Slot.arg 2, Slot.op OP_ASSIGN]
          oldop := OP_ASSIGN
          labels := [{}, {}, {}, {}]
          userfuncs := [7] } := by
  refine ⟨?_, by decide!⟩
  have h := getidexpr_zero n okmat autodef s
  revert h
  cases getidexpr n okmat autodef s with
  | ok t s1 => intro h; subst h; exact ⟨rfl, rfl⟩
  | abort s1 => intro _; trivial
  | nofuel => intro _; trivial

/-! ## What the grammar rules leave as it is

The rules only append to the code, with three exceptions: `setlabel` overwrites
the patch sites of its label, `getonematrix` overwrites the operand it
reserved, and `writeindexop` overwrites the flag of an `OP_INDEXADDR` that is
the last instruction.  The relation `Frame nm L s t` says what a run from `s`
to `t` has left as it was, when the labels it was handed are those of `L` and
`nm` tells whether it may define and use named labels. -/

theorem plen_le (s : PState) : plen s ≤ s.f_opcodes.length := by
  unfold plen; split <;> omega

theorem sitesOf_of_ge (s : PState) (i : Nat) (h : s.labels.length ≤ i) : sitesOf s i = [] := by
  simp [sitesOf, List.getD_eq_getElem?_getD, List.getElem?_eq_none h]

theorem nameOf_of_ge (s : PState) (i : Nat) (h : s.labels.length ≤ i) : nameOf s i = none := by
  simp [nameOf, List.getD_eq_getElem?_getD, List.getElem?_eq_none h]

theorem Extends.refl (s : PState) : Extends s s where
  errorcount := le_refl _
  length := le_refl _
  plen := le_refl _
  nlabels := le_refl _
  calculated := rfl
  maxscancount := rfl
  f_name := rfl
  names := fun _ _ => rfl
  sites := fun _ _ h => Or.inl h
  bounded := fun h => h

theorem Extends.trans {s t u : PState} (h1 : Extends s t) (h2 : Extends t u) : Extends s u where
  errorcount := le_trans h1.errorcount h2.errorcount
  length := le_trans h1.length h2.length
  plen := le_trans h1.plen h2.plen
  nlabels := le_trans h1.nlabels h2.nlabels
  calculated := h2.calculated.trans h1.calculated
  maxscancount := h2.maxscancount.trans h1.maxscancount
  f_name := h2.f_name.trans h1.f_name
  names := fun i hi => (h2.names i (lt_of_lt_of_le hi h1.nlabels)).trans (h1.names i hi)
  sites := fun i x hx => by
    rcases h2.sites i x hx with h | h
    · exact h1.sites i x h
    · exact Or.inr (le_trans h1.length h)
  bounded := fun h => h2.bounded (h1.bounded h)

theorem Frame.same (nm : Bool) (L : List Nat) (s : PState) : Frame nm L s s where
  ext := Extends.refl s
  labels := fun _ _ _ => rfl
  code := fun _ _ _ => rfl
  flag := fun _ _ _ => Or.inl rfl

/-- Frames compose: the second run may be handed labels that the first was not,
when they did not exist where the first began. -/
theorem Frame.andThen {nm nm2 : Bool} {L L2 : List Nat} {s t u : PState}
    (h1 : Frame nm L s t) (h2 : Frame nm2 L2 t u) (hnm : nm2 = true → nm = true)
    (hL : ∀ i ∈ L2, i < s.labels.length → i ∈ L) : Frame nm L s u where
  ext := h1.ext.trans h2.ext
  labels := fun i hi hn => by
    have e1 := h1.labels i hi hn
    have hn2 : ¬ Touchable nm2 L2 t i := by
      rintro (h | ⟨h, h'⟩)
      · exact hn (Or.inl (hL i h hi))
      · exact hn (Or.inr ⟨hnm h, by rwa [h1.ext.names i hi] at h'⟩)
    rw [h2.labels i (lt_of_lt_of_le hi h1.ext.nlabels) hn2, e1]
  code := fun j hj hn => by
    have e1 := h1.code j hj hn
    have hn2 : ∀ i, Touchable nm2 L2 t i → j ∉ sitesOf t i := by
      intro i hi hmem
      rcases h1.ext.sites i j hmem with h | h
      · have hlt : i < s.labels.length := by
          by_contra hge
          rw [sitesOf_of_ge s i (by omega)] at h
          exact absurd h (by simp)
        refine hn i ?_ h
        rcases hi with h' | ⟨h', h''⟩
        · exact Or.inl (hL i h' hlt)
        · exact Or.inr ⟨hnm h', by rwa [h1.ext.names i hlt] at h''⟩
      · have := plen_le s
        omega
    rw [h2.code j (lt_of_lt_of_le hj h1.ext.plen) hn2, e1]
  flag := fun ho hl hn => by
    have e1 := h1.flag ho hl hn
    have hn2 : ∀ i, Touchable nm2 L2 t i → plen s ∉ sitesOf t i := by
      intro i hi hmem
      rcases h1.ext.sites i (plen s) hmem with h | h
      · have hlt : i < s.labels.length := by
          by_contra hge
          rw [sitesOf_of_ge s i (by omega)] at h
          exact absurd h (by simp)
        refine hn i ?_ h
        rcases hi with h' | ⟨h', h''⟩
        · exact Or.inl (hL i h' hlt)
        · exact Or.inr ⟨hnm h', by rwa [h1.ext.names i hlt] at h''⟩
      · omega
    by_cases hp : plen s < plen t
    · rw [h2.code (plen s) hp hn2]
      exact e1
    · have hpe : plen t = plen s := le_antisymm (not_lt.mp hp) h1.ext.plen
      have hlen := h1.ext.length
      have hot : t.oldop = OP_INDEXADDR := by
        by_contra hne
        have : plen t = t.f_opcodes.length := by simp [plen, hne]
        omega
      have e2 := h2.flag hot (by omega) (by rw [hpe]; exact hn2)
      rw [hpe] at e2
      rcases e2 with e2 | e2
      · rw [e2]; exact e1
      · exact Or.inr e2

/-- A frame for fewer touchable labels is a frame for more. -/
theorem Frame.weaken {nm nm2 : Bool} {L L2 : List Nat} {s t : PState}
    (h : Frame nm2 L2 s t) (hnm : nm2 = true → nm = true)
    (hL : ∀ i ∈ L2, i < s.labels.length → i ∈ L) : Frame nm L s t :=
  (Frame.same nm L s).andThen h hnm hL

theorem Quiet.still (s : PState) : Quiet s s :=
  ⟨rfl, rfl, rfl, rfl, rfl, rfl, le_refl _⟩

theorem Quiet.seq {s t u : PState} (h1 : Quiet s t) (h2 : Quiet t u) : Quiet s u :=
  ⟨h2.f_opcodes.trans h1.f_opcodes, h2.oldop.trans h1.oldop, h2.labels.trans h1.labels,
   h2.calculated.trans h1.calculated, h2.maxscancount.trans h1.maxscancount,
   h2.f_name.trans h1.f_name, le_trans h1.errorcount h2.errorcount⟩

theorem Quiet.frame {s t : PState} (h : Quiet s t) (nm : Bool) (L : List Nat) :
    Frame nm L s t where
  ext := {
    errorcount := h.errorcount
    length := by rw [h.f_opcodes]
    plen := by unfold plen; rw [h.f_opcodes, h.oldop]
    nlabels := by rw [h.labels]
    calculated := h.calculated
    maxscancount := h.maxscancount
    f_name := h.f_name
    names := fun i _ => by unfold nameOf; rw [h.labels]
    sites := fun i x hx => by unfold sitesOf at *; rw [h.labels] at hx; exact Or.inl hx
    bounded := fun hb i x hx => by
      unfold sitesOf at *; rw [h.labels] at hx; rw [h.f_opcodes]; exact hb i x hx }
  labels := fun i _ _ => by rw [h.labels]
  code := fun j _ _ => by rw [h.f_opcodes]
  flag := fun _ _ _ => by rw [h.f_opcodes]; exact Or.inl rfl

theorem quietSpec_bind {α β : Type} {m : P α} {f : α → P β} (hm : QuietSpec m)
    (hf : ∀ a, QuietSpec (f a)) : QuietSpec (m >>= f) := by
  intro s
  rw [bind_run]
  have h1 := hm s
  cases hms : m s with
  | ok a t =>
    rw [hms] at h1
    have h2 := hf a t
    simp only
    cases hft : f a t with
    | ok b u => rw [hft] at h2; exact h1.seq h2
    | abort u => rw [hft] at h2; exact h1.seq h2
    | nofuel => trivial
  | abort t => rw [hms] at h1; exact h1
  | nofuel => trivial

theorem quietSpec_pure {α : Type} (a : α) : QuietSpec (pure a : P α) := fun s => Quiet.still s

theorem QuietSpec.spec {α : Type} {p : P α} (h : QuietSpec p) (nm : Bool) (L : List Nat) :
    Spec nm L p := by
  intro s
  have h1 := h s
  cases hp : p s with
  | ok a t => rw [hp] at h1; exact h1.frame nm L
  | abort t => rw [hp] at h1; exact h1.frame nm L
  | nofuel => trivial

theorem keeps_bind {α β : Type} {nm : Bool} {L : List Nat} {s0 : PState} {m : P α}
    {f : α → P β} (hm : Keeps nm L s0 m) (hf : ∀ a, Keeps nm L s0 (f a)) :
    Keeps nm L s0 (m >>= f) := by
  intro s hs
  rw [bind_run]
  have h1 := hm s hs
  cases hms : m s with
  | ok a t =>
    rw [hms] at h1
    exact hf a t h1
  | abort t => rw [hms] at h1; exact h1
  | nofuel => trivial

theorem keeps_pure {α : Type} {nm : Bool} {L : List Nat} {s0 : PState} (a : α) :
    Keeps nm L s0 (pure a : P α) := fun _ hs => hs

/-- A function that keeps its own frame keeps the frame of `s0`, when the labels it
is handed are labels handed to the run from `s0` or did not exist at `s0`. -/
theorem Spec.keeps {α : Type} {nm nm2 : Bool} {L L2 : List Nat} {s0 : PState} {p : P α}
    (h : Spec nm2 L2 p) (hnm : nm2 = true → nm = true)
    (hL : ∀ i ∈ L2, i < s0.labels.length → i ∈ L) : Keeps nm L s0 p := by
  intro s hs
  have h1 := h s
  cases hp : p s with
  | ok a t => rw [hp] at h1; exact hs.andThen h1 hnm hL
  | abort t => rw [hp] at h1; exact hs.andThen h1 hnm hL
  | nofuel => trivial

theorem QuietSpec.keeps_quiet {α : Type} {nm : Bool} {L : List Nat} {s0 : PState} {p : P α}
    (h : QuietSpec p) : Keeps nm L s0 p :=
  (h.spec false []).keeps (by simp) (by simp)

theorem Keeps.to_spec {α : Type} {nm : Bool} {L : List Nat} {p : P α}
    (h : ∀ s0, Keeps nm L s0 p) : Spec nm L p := fun s => h s s (Frame.same nm L s)

/-- A frame of the expression rules, which are handed no label and know no named
one, in a run that is. -/
theorem Spec.keeps_expr {α : Type} {nm : Bool} {L : List Nat} {s0 : PState} {p : P α}
    (h : Spec false [] p) : Keeps nm L s0 p :=
  h.keeps (by simp) (by simp)

/-! ### The token interface and the collaborators are quiet -/

theorem gettoken_quiet : QuietSpec gettoken := by
  intro s
  unfold gettoken
  split_ifs <;> exact ⟨rfl, rfl, rfl, rfl, rfl, rfl, le_refl _⟩

theorem modS_quiet (f : PState → PState) (h : ∀ s, Quiet s (f s)) : QuietSpec (modS f) :=
  fun s => h s

theorem rescantoken_quiet : QuietSpec rescantoken :=
  modS_quiet _ fun _ => ⟨rfl, rfl, rfl, rfl, rfl, rfl, le_refl _⟩

theorem tokenstring_quiet : QuietSpec tokenstring := fun s => Quiet.still s

theorem tokennumber_quiet : QuietSpec tokennumber := fun s => Quiet.still s

theorem tokenmode_quiet (flag : Nat) : QuietSpec (tokenmode flag) :=
  fun _ => ⟨rfl, rfl, rfl, rfl, rfl, rfl, le_refl _⟩

theorem nextchar_is_colon_quiet : QuietSpec nextchar_is_colon := by
  intro s
  unfold nextchar_is_colon
  cases s.input with
  | nil => exact Quiet.still s
  | cons t ts =>
    simp only
    split_ifs
    · exact ⟨rfl, rfl, rfl, rfl, rfl, rfl, le_refl _⟩
    · exact Quiet.still s

theorem scanerror_quiet (skip : TokenType) : QuietSpec (scanerror skip) := by
  intro s
  have h := scanerror_spec skip s
  split at h
  · rw [h]; exact ⟨rfl, rfl, rfl, rfl, rfl, rfl, by simp⟩
  · obtain ⟨s1, h1, h2, _⟩ := h
    rw [h1]
    simp only
    rw [h2]
    exact ⟨rfl, rfl, rfl, rfl, rfl, rfl, by simp⟩

theorem getS_quiet : QuietSpec getS := fun s => Quiet.still s

theorem outOfFuel_quiet {α : Type} : QuietSpec (outOfFuel : P α) := fun _ => trivial

theorem math_error_quiet {α : Type} : QuietSpec (math_error : P α) := fun s => Quiet.still s

theorem symboltype_quiet (name : Int) : QuietSpec (symboltype name) := fun s => Quiet.still s

theorem addlocal_quiet (name : Int) : QuietSpec (addlocal name) :=
  fun _ => ⟨rfl, rfl, rfl, rfl, rfl, rfl, le_refl _⟩

theorem addparam_quiet (name : Int) : QuietSpec (addparam name) :=
  fun _ => ⟨rfl, rfl, rfl, rfl, rfl, rfl, le_refl _⟩

theorem addglobal_quiet (name : Int) (b : Bool) : QuietSpec (addglobal name b) := by
  intro s
  simp only [addglobal, modS]
  split_ifs <;> exact ⟨rfl, rfl, rfl, rfl, rfl, rfl, le_refl _⟩

theorem findlocal_quiet (name : Int) : QuietSpec (findlocal name) := fun s => Quiet.still s

theorem findparam_quiet (name : Int) : QuietSpec (findparam name) := fun s => Quiet.still s

theorem findglobal_quiet (name : Int) : QuietSpec (findglobal name) := fun s => Quiet.still s

theorem getbuiltinfunc_quiet (name : Int) : QuietSpec (getbuiltinfunc name) :=
  fun s => Quiet.still s

theorem adduserfunc_quiet (name : Int) : QuietSpec (adduserfunc name) := by
  intro s
  unfold adduserfunc
  split_ifs <;> exact ⟨rfl, rfl, rfl, rfl, rfl, rfl, le_refl _⟩

theorem addelement_quiet (name : Int) : QuietSpec (addelement name) := by
  intro s
  unfold addelement
  simp only
  split_ifs <;> exact ⟨rfl, rfl, rfl, rfl, rfl, rfl, le_refl _⟩

theorem findelement_quiet (name : Int) : QuietSpec (findelement name) := fun s => Quiet.still s

theorem checkobject_quiet (name : Int) : QuietSpec (checkobject name) := fun s => Quiet.still s

theorem defineobject_quiet (name : Int) (indices : List Int) :
    QuietSpec (defineobject name indices) := by
  intro s
  unfold defineobject
  simp only
  split_ifs <;> first
    | exact Quiet.still s
    | exact ⟨rfl, rfl, rfl, rfl, rfl, rfl, le_refl _⟩

theorem addqconstant_quiet (q : QConst) : QuietSpec (addqconstant q) := by
  intro s
  unfold addqconstant
  split_ifs <;> exact ⟨rfl, rfl, rfl, rfl, rfl, rfl, le_refl _⟩

theorem linenumber_quiet : QuietSpec linenumber := fun s => Quiet.still s

theorem stringindex_quiet (name : Int) : QuietSpec (stringindex name) := fun s => Quiet.still s

theorem readlabel_quiet (lp : Nat) : QuietSpec (readlabel lp) := fun s => Quiet.still s

theorem builtincheck_quiet (index count : Int) : QuietSpec (builtincheck index count) := by
  unfold builtincheck
  repeat' first
    | exact getS_quiet
    | exact scanerror_quiet _
    | exact quietSpec_pure _
    | refine quietSpec_bind ?_ (fun _ => ?_)
    | dsimp only
    | split

theorem getid_quiet : QuietSpec getid := by
  unfold getid
  repeat' first
    | exact gettoken_quiet
    | exact rescantoken_quiet
    | exact tokenstring_quiet
    | exact scanerror_quiet _
    | exact quietSpec_pure _
    | refine quietSpec_bind ?_ (fun _ => ?_)
    | dsimp only
    | split

theorem definesymbol_quiet (name : Int) (symtype : SymType) :
    QuietSpec (definesymbol name symtype) := by
  unfold definesymbol
  repeat' first
    | exact symboltype_quiet _
    | exact addlocal_quiet _
    | exact addglobal_quiet _ _
    | exact scanerror_quiet _
    | exact quietSpec_pure _
    | refine quietSpec_bind ?_ (fun _ => ?_)
    | dsimp only
    | split

theorem checklabels_loop_quiet : ∀ ls : List LABEL, QuietSpec (checklabels_loop ls) := by
  intro ls
  induction ls with
  | nil => exact fun s => Quiet.still s
  | cons l ls ih =>
    unfold checklabels_loop
    repeat' first
      | exact ih
      | exact scanerror_quiet _
      | exact quietSpec_pure _
      | refine quietSpec_bind ?_ (fun _ => ?_)
      | dsimp only
      | split

theorem checklabels_quiet : QuietSpec checklabels := fun s => checklabels_loop_quiet s.labels s

theorem skipcommas_quiet : ∀ n, QuietSpec (skipcommas n) := by
  intro n
  induction n with
  | zero => exact fun _ => trivial
  | succ n ih =>
    unfold skipcommas
    repeat' first
      | exact ih
      | exact gettoken_quiet
      | exact quietSpec_pure _
      | refine quietSpec_bind ?_ (fun _ => ?_)
      | dsimp only
      | split

/-! ### The emitter keeps the frame -/

/-- A step that leaves the labels alone and the code below `plen` as it is. -/
theorem Frame.of_code {s t : PState} (nm : Bool) (L : List Nat)
    (hlabels : t.labels = s.labels) (herr : s.errorcount ≤ t.errorcount)
    (hcalc : t.calculated = s.calculated) (hmax : t.maxscancount = s.maxscancount)
    (hname : t.f_name = s.f_name) (hlen : s.f_opcodes.length ≤ t.f_opcodes.length)
    (hplen : plen s ≤ plen t)
    (hcode : ∀ j, j < plen s → t.f_opcodes[j]? = s.f_opcodes[j]?)
    (hflag : plen s < s.f_opcodes.length →
      t.f_opcodes[plen s]? = s.f_opcodes[plen s]? ∨
        t.f_opcodes[plen s]? = some (Slot.arg 1)) : Frame nm L s t where
  ext := {
    errorcount := herr
    length := hlen
    plen := hplen
    nlabels := by rw [hlabels]
    calculated := hcalc
    maxscancount := hmax
    f_name := hname
    names := fun i _ => by unfold nameOf; rw [hlabels]
    sites := fun i x hx => by unfold sitesOf at *; rw [hlabels] at hx; exact Or.inl hx
    bounded := fun hb i x hx => by
      unfold sitesOf at *; rw [hlabels] at hx; exact lt_of_lt_of_le (hb i x hx) hlen }
  labels := fun i _ _ => by rw [hlabels]
  code := fun j hj _ => hcode j hj
  flag := fun _ hl _ => hflag hl

theorem addop_spec (op : Opcode) : Spec false [] (addop op) := by
  intro s
  simp only [addop, modS]
  refine Frame.of_code _ _ rfl (le_refl _) rfl rfl rfl (by simp) ?_ ?_ ?_
  · have := plen_le s
    unfold plen
    simp only [List.length_append, List.length_singleton]
    split_ifs <;> omega
  · intro j hj
    have := plen_le s
    simp only
    rw [List.getElem?_append_left (by omega)]
  · intro hl
    simp only
    rw [List.getElem?_append_left hl]
    exact Or.inl rfl

theorem addarg_spec (v : Int) : Spec false [] (addarg v) := by
  intro s
  simp only [addarg, modS]
  refine Frame.of_code _ _ rfl (le_refl _) rfl rfl rfl (by simp) ?_ ?_ ?_
  · unfold plen
    simp only [List.length_append, List.length_singleton]
    split <;> omega
  · intro j hj
    have := plen_le s
    simp only
    rw [List.getElem?_append_left (by omega)]
  · intro hl
    simp only
    rw [List.getElem?_append_left hl]
    exact Or.inl rfl

theorem clearopt_spec : Spec false [] clearopt := by
  intro s
  simp only [clearopt, modS]
  refine Frame.of_code _ _ rfl (le_refl _) rfl rfl rfl (le_refl _) ?_ (fun _ _ => rfl) (fun _ => Or.inl rfl)
  have := plen_le s
  simpa [plen] using this

theorem writeindexop_spec : Spec false [] writeindexop := by
  intro s
  simp only [writeindexop, modS]
  split
  · rename_i h
    refine Frame.of_code _ _ rfl (le_refl _) rfl rfl rfl (by simp) ?_ ?_ ?_
    · simp [plen, h]
    · intro j hj
      simp only [plen, h, if_true] at hj
      simp only
      rw [List.getElem?_set_ne (by omega)]
    · intro hl
      simp only
      refine Or.inr ?_
      simp only [plen, h, if_true] at hl ⊢
      rw [List.getElem?_set_eq_of_lt _ hl]
  · exact Frame.same _ _ _

/-- Overwriting a cell that is not below `plen` of the state the run began in. -/
theorem patch_keeps (nm : Bool) (L : List Nat) (s0 : PState) (pc : Nat) (v : Slot)
    (hpc : plen s0 < pc) :
    Keeps nm L s0 (modS fun s => { s with f_opcodes := s.f_opcodes.set pc v }) := by
  intro s hs
  simp only [modS]
  have hstep : Frame nm L s { s with f_opcodes := s.f_opcodes.set pc v } → True := fun _ => trivial
  refine ⟨⟨hs.ext.errorcount, by simpa using hs.ext.length, ?_, hs.ext.nlabels,
    hs.ext.calculated, hs.ext.maxscancount, hs.ext.f_name, hs.ext.names, ?_, ?_⟩,
    hs.labels, ?_, ?_⟩
  · have := hs.ext.plen
    simpa [plen] using this
  · intro i x hx
    have := hs.ext.sites i x hx
    simpa using this
  · intro hb i x hx
    have := hs.ext.bounded hb i x hx
    simpa using this
  · intro j hj hn
    simp only
    rw [List.getElem?_set_ne (by omega)]
    exact hs.code j hj hn
  · intro ho hl hn
    simp only
    rw [List.getElem?_set_ne (by omega)]
    exact hs.flag ho hl hn

/-! ### The label manager keeps the frame -/

theorem getD_append_default (ls : List LABEL) (i : Nat) :
    (ls ++ [({} : LABEL)]).getD i {} = ls.getD i {} := by
  simp only [List.getD_eq_getElem?_getD]
  by_cases h : i < ls.length
  · rw [List.getElem?_append_left h]
  · by_cases h2 : i = ls.length
    · subst h2
      simp
    · rw [List.getElem?_eq_none (by simp; omega), List.getElem?_eq_none (by omega)]

theorem newlabel_spec : Spec false [] newlabel := by
  intro s
  simp only [newlabel]
  have hD : ∀ i, (s.labels ++ [({} : LABEL)]).getD i {} = s.labels.getD i {} :=
    getD_append_default s.labels
  exact {
    ext := {
      errorcount := le_refl _
      length := le_refl _
      plen := le_refl _
      nlabels := by simp
      calculated := rfl
      maxscancount := rfl
      f_name := rfl
      names := fun i _ => by simp only [nameOf, hD]
      sites := fun i x hx => by simp only [sitesOf, hD] at hx ⊢; exact Or.inl hx
      bounded := fun hb i x hx => by
        simp only [sitesOf, hD] at hx hb ⊢; exact hb i x hx }
    labels := fun i _ _ => hD i
    code := fun _ _ _ => rfl
    flag := fun _ _ _ => Or.inl rfl }

theorem touchable_single (s : PState) (lp i : Nat) : Touchable false [lp] s i ↔ i = lp := by
  simp [Touchable]

theorem getD_set (ls : List LABEL) (lp i : Nat) (l : LABEL) :
    (ls.set lp l).getD i {} = if i = lp ∧ lp < ls.length then l else ls.getD i {} := by
  simp only [List.getD_eq_getElem?_getD, List.getElem?_set]
  by_cases h : lp = i
  · subst h
    by_cases h2 : lp < ls.length
    · simp [h2]
    · simp [h2, List.getElem?_eq_none (not_lt.mp h2)]
  · have : ¬ i = lp := fun h' => h h'.symm
    simp [h, this]

theorem clearlabel_spec (lp : Nat) : Spec false [lp] (clearlabel lp) := by
  intro s
  simp only [clearlabel, modS]
  exact {
    ext := {
      errorcount := le_refl _
      length := le_refl _
      plen := le_refl _
      nlabels := by simp
      calculated := rfl
      maxscancount := rfl
      f_name := rfl
      names := fun i _ => by
        simp only [nameOf, getD_set]
        split
        · rename_i h; rw [h.1]
        · rfl
      sites := fun i x hx => by
        simp only [sitesOf, getD_set] at hx ⊢
        split at hx
        · exact absurd hx (by simp)
        · exact Or.inl hx
      bounded := fun hb i x hx => by
        simp only [sitesOf, getD_set] at hx hb ⊢
        split at hx
        · exact absurd hx (by simp)
        · exact hb i x hx }
    labels := fun i _ hn => by
      rw [touchable_single] at hn
      simp only [getD_set, hn, false_and, if_false]
    code := fun _ _ _ => rfl
    flag := fun _ _ _ => Or.inl rfl }

theorem patchsites_length (sites : List Nat) (offset : Int) (code : List Slot) :
    (patchsites sites offset code).length = code.length := by
  unfold patchsites
  induction sites generalizing code with
  | nil => rfl
  | cons p sites ih => simp [List.foldl_cons, ih]

theorem patchsites_getElem? (sites : List Nat) (offset : Int) (code : List Slot) (j : Nat)
    (h : j ∉ sites) : (patchsites sites offset code)[j]? = code[j]? := by
  unfold patchsites
  induction sites generalizing code with
  | nil => rfl
  | cons p sites ih =>
    simp only [List.mem_cons, not_or] at h
    rw [List.foldl_cons, ih _ h.2, List.getElem?_set_ne (fun e => h.1 e.symm)]

theorem setlabel_spec (lp : Nat) : Spec false [lp] (setlabel lp) := by
  intro s
  simp only [setlabel, modS]
  exact {
    ext := {
      errorcount := le_refl _
      length := by simp [patchsites_length]
      plen := by simp [plen, patchsites_length]
      nlabels := by simp
      calculated := rfl
      maxscancount := rfl
      f_name := rfl
      names := fun i _ => by
        simp only [nameOf, getD_set]
        split
        · rename_i h; rw [h.1]
        · rfl
      sites := fun i x hx => by
        simp only [sitesOf, getD_set] at hx ⊢
        split at hx
        · exact absurd hx (by simp)
        · exact Or.inl hx
      bounded := fun hb i x hx => by
        simp only [sitesOf, getD_set, patchsites_length] at hx hb ⊢
        split at hx
        · exact absurd hx (by simp)
        · exact hb i x hx }
    labels := fun i _ hn => by
      rw [touchable_single] at hn
      simp only [getD_set, hn, false_and, if_false]
    code := fun j _ hn => by
      have := hn lp ((touchable_single s lp lp).mpr rfl)
      simp only
      exact patchsites_getElem? _ _ _ _ this
    flag := fun _ _ hn => by
      have := hn lp ((touchable_single s lp lp).mpr rfl)
      simp only
      exact Or.inl (patchsites_getElem? _ _ _ _ this) }

theorem uselabel_spec (lp : Nat) : Spec false [lp] (uselabel lp) := by
  intro s
  simp only [uselabel, modS]
  split
  · refine Frame.of_code _ _ rfl (le_refl _) rfl rfl rfl (by simp) ?_ ?_ ?_
    · unfold plen
      simp only [List.length_append, List.length_singleton]
      split <;> omega
    · intro j hj
      have := plen_le s
      simp only
      rw [List.getElem?_append_left (by omega)]
    · intro hl
      simp only
      rw [List.getElem?_append_left hl]
      exact Or.inl rfl
  · exact {
      ext := {
        errorcount := le_refl _
        length := by simp
        plen := by
          unfold plen
          simp only [List.length_append, List.length_singleton]
          split <;> omega
        nlabels := by simp
        calculated := rfl
        maxscancount := rfl
        f_name := rfl
        names := fun i _ => by
          simp only [nameOf, getD_set]
          split
          · rename_i h; rw [h.1]
          · rfl
        sites := fun i x hx => by
          simp only [sitesOf, getD_set] at hx ⊢
          split at hx
          · rename_i h
            simp only [List.mem_cons] at hx
            rcases hx with hx | hx
            · exact Or.inr (le_of_eq hx.symm)
            · rw [h.1]; exact Or.inl hx
          · exact Or.inl hx
        bounded := fun hb i x hx => by
          simp only [sitesOf, getD_set, List.length_append, List.length_singleton] at hx hb ⊢
          split at hx
          · simp only [List.mem_cons] at hx
            rcases hx with hx | hx
            · omega
            · exact Nat.lt_succ_of_lt (hb lp x hx)
          · exact Nat.lt_succ_of_lt (hb i x hx) }
      labels := fun i _ hn => by
        rw [touchable_single] at hn
        simp only [getD_set, hn, false_and, if_false]
      code := fun j hj _ => by
        have := plen_le s
        simp only
        rw [List.getElem?_append_left (by omega)]
      flag := fun _ hl _ => by
        simp only
        rw [List.getElem?_append_left hl]
        exact Or.inl rfl }

theorem keeps_newlabel {β : Type} {nm : Bool} {L : List Nat} {s0 : PState} {f : Nat → P β}
    (hf : ∀ a, s0.labels.length ≤ a → Keeps nm L s0 (f a)) :
    Keeps nm L s0 (newlabel >>= f) := by
  intro s hs
  rw [bind_run]
  have h1 := newlabel_spec s
  simp only [newlabel] at h1 ⊢
  exact hf s.labels.length hs.ext.nlabels _ (hs.andThen h1 (by simp) (by simp))

/-- A function that is handed the one label `lp`, in a run that was handed it or
began before the label existed. -/
theorem Spec.keeps_label {α : Type} {nm : Bool} {L : List Nat} {s0 : PState} {p : P α}
    {lp : Nat} (h : Spec false [lp] p) (hlp : s0.labels.length ≤ lp ∨ lp ∈ L) :
    Keeps nm L s0 p := by
  refine h.keeps (by simp) ?_
  intro i hi hlt
  simp only [List.mem_singleton] at hi
  subst hi
  rcases hlp with h | h
  · omega
  · exact h

theorem addopone_spec (op : Opcode) (v : Int) : Spec false [] (addopone op v) :=
  Keeps.to_spec fun _ => keeps_bind (addop_spec op).keeps_expr fun _ => (addarg_spec v).keeps_expr

theorem addopptr_spec (op : Opcode) (v : Int) : Spec false [] (addopptr op v) :=
  Keeps.to_spec fun _ => keeps_bind (addop_spec op).keeps_expr fun _ => (addarg_spec v).keeps_expr

theorem addoptwo_spec (op : Opcode) (v w : Int) : Spec false [] (addoptwo op v w) :=
  Keeps.to_spec fun _ => keeps_bind (addop_spec op).keeps_expr fun _ =>
    keeps_bind (addarg_spec v).keeps_expr fun _ => (addarg_spec w).keeps_expr

theorem addopfunction_spec (op : Opcode) (v w : Int) : Spec false [] (addopfunction op v w) :=
  Keeps.to_spec fun _ => keeps_bind (addop_spec op).keeps_expr fun _ =>
    keeps_bind (addarg_spec v).keeps_expr fun _ => (addarg_spec w).keeps_expr

theorem addoplabel_spec (op : Opcode) (lp : Nat) : Spec false [lp] (addoplabel op lp) :=
  Keeps.to_spec fun _ => keeps_bind (addop_spec op).keeps_expr fun _ =>
    (uselabel_spec lp).keeps_label (Or.inr (by simp))

theorem usesymbol_spec (name : Int) (autodef : Bool) : Spec false [] (usesymbol name autodef) := by
  refine Keeps.to_spec fun s0 => ?_
  unfold usesymbol
  repeat' first
    | exact (symboltype_quiet _).keeps_quiet
    | exact (findlocal_quiet _).keeps_quiet
    | exact (findparam_quiet _).keeps_quiet
    | exact (findglobal_quiet _).keeps_quiet
    | exact (addglobal_quiet _ _).keeps_quiet
    | exact (scanerror_quiet _).keeps_quiet
    | exact getS_quiet.keeps_quiet
    | exact (addopone_spec _ _).keeps_expr
    | exact (addopptr_spec _ _).keeps_expr
    | exact keeps_pure _
    | refine keeps_bind ?_ (fun _ => ?_)
    | dsimp only
    | split

theorem getelement_spec : Spec false [] getelement := by
  refine Keeps.to_spec fun s0 => ?_
  unfold getelement
  repeat' first
    | exact getid_quiet.keeps_quiet
    | exact (findelement_quiet _).keeps_quiet
    | exact (scanerror_quiet _).keeps_quiet
    | exact (addopone_spec _ _).keeps_expr
    | exact keeps_pure _
    | refine keeps_bind ?_ (fun _ => ?_)
    | dsimp only
    | split

theorem getshiftexpr_loop_spec : ∀ n, Spec false [] (getshiftexpr_loop n) := by
  intro n
  induction n with
  | zero => exact outOfFuel_quiet.spec _ _
  | succ n ih =>
    refine Keeps.to_spec fun s0 => ?_
    rw [getshiftexpr_loop]
    repeat' first
      | exact ih.keeps_expr
      | exact gettoken_quiet.keeps_quiet
      | exact (addop_spec _).keeps_expr
      | exact keeps_pure _
      | refine keeps_bind ?_ (fun _ => ?_)
      | dsimp only
      | split

theorem keeps_getS {β : Type} {nm : Bool} {L : List Nat} {s0 : PState} {f : PState → P β}
    (hf : ∀ t, Frame nm L s0 t → Keeps nm L s0 (f t)) : Keeps nm L s0 (getS >>= f) := by
  intro s hs
  rw [bind_run]
  exact hf s hs s hs

theorem keeps_ite {β : Type} {nm : Bool} {L : List Nat} {s0 : PState} {c : Prop} [Decidable c]
    {p q : P β} (hp : c → Keeps nm L s0 p) (hq : ¬ c → Keeps nm L s0 q) :
    Keeps nm L s0 (if c then p else q) := by
  split
  · exact hp (by assumption)
  · exact hq (by assumption)

theorem exprFrames_zero : ExprFrames 0 where
  getexprlist := by rw [getexprlist]; exact outOfFuel_quiet.spec _ _
  getexprlist_loop := fun _ => by rw [getexprlist_loop]; exact outOfFuel_quiet.spec _ _
  getassignment := by rw [getassignment]; exact outOfFuel_quiet.spec _ _
  getaltcond := by rw [getaltcond]; exact outOfFuel_quiet.spec _ _
  getorcond := by rw [getorcond]; exact outOfFuel_quiet.spec _ _
  getorcond_loop := fun _ _ => by rw [getorcond_loop]; exact outOfFuel_quiet.spec _ _
  getandcond := by rw [getandcond]; exact outOfFuel_quiet.spec _ _
  getandcond_loop := fun _ _ => by rw [getandcond_loop]; exact outOfFuel_quiet.spec _ _
  getrelation := by rw [getrelation]; exact outOfFuel_quiet.spec _ _
  getsum := by rw [getsum]; exact outOfFuel_quiet.spec _ _
  getsum_loop := fun _ => by rw [getsum_loop]; exact outOfFuel_quiet.spec _ _
  getproduct := by rw [getproduct]; exact outOfFuel_quiet.spec _ _
  getproduct_loop := fun _ => by rw [getproduct_loop]; exact outOfFuel_quiet.spec _ _
  getorexpr := by rw [getorexpr]; exact outOfFuel_quiet.spec _ _
  getorexpr_loop := fun _ => by rw [getorexpr_loop]; exact outOfFuel_quiet.spec _ _
  getandexpr := by rw [getandexpr]; exact outOfFuel_quiet.spec _ _
  getandexpr_loop := fun _ => by rw [getandexpr_loop]; exact outOfFuel_quiet.spec _ _
  getshiftexpr := by rw [getshiftexpr]; exact outOfFuel_quiet.spec _ _
  getterm := by rw [getterm]; exact outOfFuel_quiet.spec _ _
  getidexpr := fun _ _ => by rw [getidexpr]; exact outOfFuel_quiet.spec _ _
  getidexpr_loop := fun _ => by rw [getidexpr_loop]; exact outOfFuel_quiet.spec _ _
  getmatargs := by rw [getmatargs]; exact outOfFuel_quiet.spec _ _
  getmatargs_loop := fun _ => by rw [getmatargs_loop]; exact outOfFuel_quiet.spec _ _
  getcallargs := fun _ => by rw [getcallargs]; exact outOfFuel_quiet.spec _ _
  getcallargs_loop := fun _ _ _ _ => by rw [getcallargs_loop]; exact outOfFuel_quiet.spec _ _
  getmatdeclaration := fun _ => by rw [getmatdeclaration]; exact outOfFuel_quiet.spec _ _
  getonematrix := fun _ => by rw [getonematrix]; exact outOfFuel_quiet.spec _ _
  creatematrix := fun _ => by rw [creatematrix]; exact outOfFuel_quiet.spec _ _
  getinitlist := by rw [getinitlist]; exact outOfFuel_quiet.spec _ _
  getinitlist_loop := fun _ _ => by rw [getinitlist_loop]; exact outOfFuel_quiet.spec _ _
  getobjdeclaration := fun _ => by rw [getobjdeclaration]; exact outOfFuel_quiet.spec _ _
  getobjdeclaration_loop := fun _ _ _ _ => by rw [getobjdeclaration_loop]; exact outOfFuel_quiet.spec _ _
  getoneobj := fun _ _ => by rw [getoneobj]; exact outOfFuel_quiet.spec _ _
  getobjvars := fun _ _ => by rw [getobjvars]; exact outOfFuel_quiet.spec _ _
  getobjvars_loop := fun _ _ => by rw [getobjvars_loop]; exact outOfFuel_quiet.spec _ _

set_option maxHeartbeats 1600000 in
theorem getexprlist_frame_succ (n : Nat) (ih : ExprFrames n) :
    Spec false [] (getexprlist (n + 1)) := by
  refine Keeps.to_spec fun s0 => ?_
  rw [getexprlist]
  repeat' first
    | with_reducible refine keeps_newlabel (fun _ _ => ?_)
    | with_reducible refine keeps_getS (fun _ _ => ?_)
    | with_reducible refine keeps_bind ?_ (fun _ => ?_)
    | with_reducible refine keeps_ite (fun _ => ?_) (fun _ => ?_)
    | with_reducible exact keeps_pure _
    | with_reducible exact gettoken_quiet.keeps_quiet
    | with_reducible exact rescantoken_quiet.keeps_quiet
    | with_reducible exact tokenstring_quiet.keeps_quiet
    | with_reducible exact tokennumber_quiet.keeps_quiet
    | with_reducible exact (tokenmode_quiet _).keeps_quiet
    | with_reducible exact (scanerror_quiet _).keeps_quiet
    | with_reducible exact getS_quiet.keeps_quiet
    | with_reducible exact outOfFuel_quiet.keeps_quiet
    | with_reducible exact math_error_quiet.keeps_quiet
    | with_reducible exact (symboltype_quiet _).keeps_quiet
    | with_reducible exact (getbuiltinfunc_quiet _).keeps_quiet
    | with_reducible exact (adduserfunc_quiet _).keeps_quiet
    | with_reducible exact (addelement_quiet _).keeps_quiet
    | with_reducible exact (checkobject_quiet _).keeps_quiet
    | with_reducible exact (defineobject_quiet _ _).keeps_quiet
    | with_reducible exact (addqconstant_quiet _).keeps_quiet
    | with_reducible exact (readlabel_quiet _).keeps_quiet
    | with_reducible exact (builtincheck_quiet _ _).keeps_quiet
    | with_reducible exact getid_quiet.keeps_quiet
    | with_reducible exact (definesymbol_quiet _ _).keeps_quiet
    | with_reducible exact (skipcommas_quiet _).keeps_quiet
    | with_reducible exact linenumber_quiet.keeps_quiet
    | with_reducible exact (addop_spec _).keeps_expr
    | with_reducible exact (addopone_spec _ _).keeps_expr
    | with_reducible exact (addoptwo_spec _ _ _).keeps_expr
    | with_reducible exact (addopptr_spec _ _).keeps_expr
    | with_reducible exact (addopfunction_spec _ _ _).keeps_expr
    | with_reducible exact clearopt_spec.keeps_expr
    | with_reducible exact writeindexop_spec.keeps_expr
    | with_reducible exact (usesymbol_spec _ _).keeps_expr
    | with_reducible exact getelement_spec.keeps_expr
    | with_reducible exact (getshiftexpr_loop_spec _).keeps_expr
    | with_reducible exact ih.getexprlist.keeps_expr
    | with_reducible exact (ih.getexprlist_loop _).keeps_expr
    | with_reducible exact ih.getassignment.keeps_expr
    | with_reducible exact ih.getaltcond.keeps_expr
    | with_reducible exact ih.getorcond.keeps_expr
    | with_reducible exact (ih.getorcond_loop _ _).keeps_label (by first | exact Or.inl (by assumption) | exact Or.inr (by simp))
    | with_reducible exact ih.getandcond.keeps_expr
    | with_reducible exact (ih.getandcond_loop _ _).keeps_label (by first | exact Or.inl (by assumption) | exact Or.inr (by simp))
    | with_reducible exact ih.getrelation.keeps_expr
    | with_reducible exact ih.getsum.keeps_expr
    | with_reducible exact (ih.getsum_loop _).keeps_expr
    | with_reducible exact ih.getproduct.keeps_expr
    | with_reducible exact (ih.getproduct_loop _).keeps_expr
    | with_reducible exact ih.getorexpr.keeps_expr
    | with_reducible exact (ih.getorexpr_loop _).keeps_expr
    | with_reducible exact ih.getandexpr.keeps_expr
    | with_reducible exact (ih.getandexpr_loop _).keeps_expr
    | with_reducible exact ih.getshiftexpr.keeps_expr
    | with_reducible exact ih.getterm.keeps_expr
    | with_reducible exact (ih.getidexpr _ _).keeps_expr
    | with_reducible exact (ih.getidexpr_loop _).keeps_expr
    | with_reducible exact ih.getmatargs.keeps_expr
    | with_reducible exact (ih.getmatargs_loop _).keeps_expr
    | with_reducible exact (ih.getcallargs _).keeps_expr
    | with_reducible exact (ih.getcallargs_loop _ _ _ _).keeps_expr
    | with_reducible exact (ih.getmatdeclaration _).keeps_expr
    | with_reducible exact (ih.getonematrix _).keeps_expr
    | with_reducible exact (ih.creatematrix _).keeps_expr
    | with_reducible exact ih.getinitlist.keeps_expr
    | with_reducible exact (ih.getinitlist_loop _ _).keeps_expr
    | with_reducible exact (ih.getobjdeclaration _).keeps_expr
    | with_reducible exact (ih.getobjdeclaration_loop _ _ _ _).keeps_expr
    | with_reducible exact (ih.getoneobj _ _).keeps_expr
    | with_reducible exact (ih.getobjvars _ _).keeps_expr
    | with_reducible exact (ih.getobjvars_loop _ _).keeps_expr
    | with_reducible exact (setlabel_spec _).keeps_label (by first | exact Or.inl (by assumption) | exact Or.inr (by simp))
    | with_reducible exact (addoplabel_spec _ _).keeps_label (by first | exact Or.inl (by assumption) | exact Or.inr (by simp))
    | with_reducible exact (clearlabel_spec _).keeps_label (by first | exact Or.inl (by assumption) | exact Or.inr (by simp))
    | exact patch_keeps _ _ _ _ _ (Nat.lt_succ_of_le (le_trans (Frame.ext (by assumption)).plen (plen_le _)))
    | dsimp only
    | split

set_option maxHeartbeats 1600000 in
theorem getexprlist_loop_frame_succ (n : Nat) (ih : ExprFrames n) (type : Nat) :
    Spec false [] (getexprlist_loop (n + 1) type) := by
  refine Keeps.to_spec fun s0 => ?_
  rw [getexprlist_loop]
  repeat' first
    | with_reducible refine keeps_newlabel (fun _ _ => ?_)
    | with_reducible refine keeps_getS (fun _ _ => ?_)
    | with_reducible refine keeps_bind ?_ (fun _ => ?_)
    | with_reducible refine keeps_ite (fun _ => ?_) (fun _ => ?_)
    | with_reducible exact keeps_pure _
    | with_reducible exact gettoken_quiet.keeps_quiet
    | with_reducible exact rescantoken_quiet.keeps_quiet
    | with_reducible exact tokenstring_quiet.keeps_quiet
    | with_reducible exact tokennumber_quiet.keeps_quiet
    | with_reducible exact (tokenmode_quiet _).keeps_quiet
    | with_reducible exact (scanerror_quiet _).keeps_quiet
    | with_reducible exact getS_quiet.keeps_quiet
    | with_reducible exact outOfFuel_quiet.keeps_quiet
    | with_reducible exact math_error_quiet.keeps_quiet
    | with_reducible exact (symboltype_quiet _).keeps_quiet
    | with_reducible exact (getbuiltinfunc_quiet _).keeps_quiet
    | with_reducible exact (adduserfunc_quiet _).keeps_quiet
    | with_reducible exact (addelement_quiet _).keeps_quiet
    | with_reducible exact (checkobject_quiet _).keeps_quiet
    | with_reducible exact (defineobject_quiet _ _).keeps_quiet
    | with_reducible exact (addqconstant_quiet _).keeps_quiet
    | with_reducible exact (readlabel_quiet _).keeps_quiet
    | with_reducible exact (builtincheck_quiet _ _).keeps_quiet
    | with_reducible exact getid_quiet.keeps_quiet
    | with_reducible exact (definesymbol_quiet _ _).keeps_quiet
    | with_reducible exact (skipcommas_quiet _).keeps_quiet
    | with_reducible exact linenumber_quiet.keeps_quiet
    | with_reducible exact (addop_spec _).keeps_expr
    | with_reducible exact (addopone_spec _ _).keeps_expr
    | with_reducible exact (addoptwo_spec _ _ _).keeps_expr
    | with_reducible exact (addopptr_spec _ _).keeps_expr
    | with_reducible exact (addopfunction_spec _ _ _).keeps_expr
    | with_reducible exact clearopt_spec.keeps_expr
    | with_reducible exact writeindexop_spec.keeps_expr
    | with_reducible exact (usesymbol_spec _ _).keeps_expr
    | with_reducible exact getelement_spec.keeps_expr
    | with_reducible exact (getshiftexpr_loop_spec _).keeps_expr
    | with_reducible exact ih.getexprlist.keeps_expr
    | with_reducible exact (ih.getexprlist_loop _).keeps_expr
    | with_reducible exact ih.getassignment.keeps_expr
    | with_reducible exact ih.getaltcond.keeps_expr
    | with_reducible exact ih.getorcond.keeps_expr
    | with_reducible exact (ih.getorcond_loop _ _).keeps_label (by first | exact Or.inl (by assumption) | exact Or.inr (by simp))
    | with_reducible exact ih.getandcond.keeps_expr
    | with_reducible exact (ih.getandcond_loop _ _).keeps_label (by first | exact Or.inl (by assumption) | exact Or.inr (by simp))
    | with_reducible exact ih.getrelation.keeps_expr
    | with_reducible exact ih.getsum.keeps_expr
    | with_reducible exact (ih.getsum_loop _).keeps_expr
    | with_reducible exact ih.getproduct.keeps_expr
    | with_reducible exact (ih.getproduct_loop _).keeps_expr
    | with_reducible exact ih.getorexpr.keeps_expr
    | with_reducible exact (ih.getorexpr_loop _).keeps_expr
    | with_reducible exact ih.getandexpr.keeps_expr
    | with_reducible exact (ih.getandexpr_loop _).keeps_expr
    | with_reducible exact ih.getshiftexpr.keeps_expr
    | with_reducible exact ih.getterm.keeps_expr
    | with_reducible exact (ih.getidexpr _ _).keeps_expr
    | with_reducible exact (ih.getidexpr_loop _).keeps_expr
    | with_reducible exact ih.getmatargs.keeps_expr
    | with_reducible exact (ih.getmatargs_loop _).keeps_expr
    | with_reducible exact (ih.getcallargs _).keeps_expr
    | with_reducible exact (ih.getcallargs_loop _ _ _ _).keeps_expr
    | with_reducible exact (ih.getmatdeclaration _).keeps_expr
    | with_reducible exact (ih.getonematrix _).keeps_expr
    | with_reducible exact (ih.creatematrix _).keeps_expr
    | with_reducible exact ih.getinitlist.keeps_expr
    | with_reducible exact (ih.getinitlist_loop _ _).keeps_expr
    | with_reducible exact (ih.getobjdeclaration _).keeps_expr
    | with_reducible exact (ih.getobjdeclaration_loop _ _ _ _).keeps_expr
    | with_reducible exact (ih.getoneobj _ _).keeps_expr
    | with_reducible exact (ih.getobjvars _ _).keeps_expr
    | with_reducible exact (ih.getobjvars_loop _ _).keeps_expr
    | with_reducible exact (setlabel_spec _).keeps_label (by first | exact Or.inl (by assumption) | exact Or.inr (by simp))
    | with_reducible exact (addoplabel_spec _ _).keeps_label (by first | exact Or.inl (by assumption) | exact Or.inr (by simp))
    | with_reducible exact (clearlabel_spec _).keeps_label (by first | exact Or.inl (by assumption) | exact Or.inr (by simp))
    | exact patch_keeps _ _ _ _ _ (Nat.lt_succ_of_le (le_trans (Frame.ext (by assumption)).plen (plen_le _)))
    | dsimp only
    | split

set_option maxHeartbeats 1600000 in
theorem getassignment_frame_succ (n : Nat) (ih : ExprFrames n) :
    Spec false [] (getassignment (n + 1)) := by
  refine Keeps.to_spec fun s0 => ?_
  rw [getassignment]
  repeat' first
    | with_reducible refine keeps_newlabel (fun _ _ => ?_)
    | with_reducible refine keeps_getS (fun _ _ => ?_)
    | with_reducible refine keeps_bind ?_ (fun _ => ?_)
    | with_reducible refine keeps_ite (fun _ => ?_) (fun _ => ?_)
    | with_reducible exact keeps_pure _
    | with_reducible exact gettoken_quiet.keeps_quiet
    | with_reducible exact rescantoken_quiet.keeps_quiet
    | with_reducible exact tokenstring_quiet.keeps_quiet
    | with_reducible exact tokennumber_quiet.keeps_quiet
    | with_reducible exact (tokenmode_quiet _).keeps_quiet
    | with_reducible exact (scanerror_quiet _).keeps_quiet
    | with_reducible exact getS_quiet.keeps_quiet
    | with_reducible exact outOfFuel_quiet.keeps_quiet
    | with_reducible exact math_error_quiet.keeps_quiet
    | with_reducible exact (symboltype_quiet _).keeps_quiet
    | with_reducible exact (getbuiltinfunc_quiet _).keeps_quiet
    | with_reducible exact (adduserfunc_quiet _).keeps_quiet
    | with_reducible exact (addelement_quiet _).keeps_quiet
    | with_reducible exact (checkobject_quiet _).keeps_quiet
    | with_reducible exact (defineobject_quiet _ _).keeps_quiet
    | with_reducible exact (addqconstant_quiet _).keeps_quiet
    | with_reducible exact (readlabel_quiet _).keeps_quiet
    | with_reducible exact (builtincheck_quiet _ _).keeps_quiet
    | with_reducible exact getid_quiet.keeps_quiet
    | with_reducible exact (definesymbol_quiet _ _).keeps_quiet
    | with_reducible exact (skipcommas_quiet _).keeps_quiet
    | with_reducible exact linenumber_quiet.keeps_quiet
    | with_reducible exact (addop_spec _).keeps_expr
    | with_reducible exact (addopone_spec _ _).keeps_expr
    | with_reducible exact (addoptwo_spec _ _ _).keeps_expr
    | with_reducible exact (addopptr_spec _ _).keeps_expr
    | with_reducible exact (addopfunction_spec _ _ _).keeps_expr
    | with_reducible exact clearopt_spec.keeps_expr
    | with_reducible exact writeindexop_spec.keeps_expr
    | with_reducible exact (usesymbol_spec _ _).keeps_expr
    | with_reducible exact getelement_spec.keeps_expr
    | with_reducible exact (getshiftexpr_loop_spec _).keeps_expr
    | with_reducible exact ih.getexprlist.keeps_expr
    | with_reducible exact (ih.getexprlist_loop _).keeps_expr
    | with_reducible exact ih.getassignment.keeps_expr
    | with_reducible exact ih.getaltcond.keeps_expr
    | with_reducible exact ih.getorcond.keeps_expr
    | with_reducible exact (ih.getorcond_loop _ _).keeps_label (by first | exact Or.inl (by assumption) | exact Or.inr (by simp))
    | with_reducible exact ih.getandcond.keeps_expr
    | with_reducible exact (ih.getandcond_loop _ _).keeps_label (by first | exact Or.inl (by assumption) | exact Or.inr (by simp))
    | with_reducible exact ih.getrelation.keeps_expr
    | with_reducible exact ih.getsum.keeps_expr
    | with_reducible exact (ih.getsum_loop _).keeps_expr
    | with_reducible exact ih.getproduct.keeps_expr
    | with_reducible exact (ih.getproduct_loop _).keeps_expr
    | with_reducible exact ih.getorexpr.keeps_expr
    | with_reducible exact (ih.getorexpr_loop _).keeps_expr
    | with_reducible exact ih.getandexpr.keeps_expr
    | with_reducible exact (ih.getandexpr_loop _).keeps_expr
    | with_reducible exact ih.getshiftexpr.keeps_expr
    | with_reducible exact ih.getterm.keeps_expr
    | with_reducible exact (ih.getidexpr _ _).keeps_expr
    | with_reducible exact (ih.getidexpr_loop _).keeps_expr
    | with_reducible exact ih.getmatargs.keeps_expr
    | with_reducible exact (ih.getmatargs_loop _).keeps_expr
    | with_reducible exact (ih.getcallargs _).keeps_expr
    | with_reducible exact (ih.getcallargs_loop _ _ _ _).keeps_expr
    | with_reducible exact (ih.getmatdeclaration _).keeps_expr
    | with_reducible exact (ih.getonematrix _).keeps_expr
    | with_reducible exact (ih.creatematrix _).keeps_expr
    | with_reducible exact ih.getinitlist.keeps_expr
    | with_reducible exact (ih.getinitlist_loop _ _).keeps_expr
    | with_reducible exact (ih.getobjdeclaration _).keeps_expr
    | with_reducible exact (ih.getobjdeclaration_loop _ _ _ _).keeps_expr
    | with_reducible exact (ih.getoneobj _ _).keeps_expr
    | with_reducible exact (ih.getobjvars _ _).keeps_expr
    | with_reducible exact (ih.getobjvars_loop _ _).keeps_expr
    | with_reducible exact (setlabel_spec _).keeps_label (by first | exact Or.inl (by assumption) | exact Or.inr (by simp))
    | with_reducible exact (addoplabel_spec _ _).keeps_label (by first | exact Or.inl (by assumption) | exact Or.inr (by simp))
    | with_reducible exact (clearlabel_spec _).keeps_label (by first | exact Or.inl (by assumption) | exact Or.inr (by simp))
    | exact patch_keeps _ _ _ _ _ (Nat.lt_succ_of_le (le_trans (Frame.ext (by assumption)).plen (plen_le _)))
    | dsimp only
    | split

set_option maxHeartbeats 1600000 in
theorem getaltcond_frame_succ (n : Nat) (ih : ExprFrames n) :
    Spec false [] (getaltcond (n + 1)) := by
  refine Keeps.to_spec fun s0 => ?_
  rw [getaltcond]
  repeat' first
    | with_reducible refine keeps_newlabel (fun _ _ => ?_)
    | with_reducible refine keeps_getS (fun _ _ => ?_)
    | with_reducible refine keeps_bind ?_ (fun _ => ?_)
    | with_reducible refine keeps_ite (fun _ => ?_) (fun _ => ?_)
    | with_reducible exact keeps_pure _
    | with_reducible exact gettoken_quiet.keeps_quiet
    | with_reducible exact rescantoken_quiet.keeps_quiet
    | with_reducible exact tokenstring_quiet.keeps_quiet
    | with_reducible exact tokennumber_quiet.keeps_quiet
    | with_reducible exact (tokenmode_quiet _).keeps_quiet
    | with_reducible exact (scanerror_quiet _).keeps_quiet
    | with_reducible exact getS_quiet.keeps_quiet
    | with_reducible exact outOfFuel_quiet.keeps_quiet
    | with_reducible exact math_error_quiet.keeps_quiet
    | with_reducible exact (symboltype_quiet _).keeps_quiet
    | with_reducible exact (getbuiltinfunc_quiet _).keeps_quiet
    | with_reducible exact (adduserfunc_quiet _).keeps_quiet
    | with_reducible exact (addelement_quiet _).keeps_quiet
    | with_reducible exact (checkobject_quiet _).keeps_quiet
    | with_reducible exact (defineobject_quiet _ _).keeps_quiet
    | with_reducible exact (addqconstant_quiet _).keeps_quiet
    | with_reducible exact (readlabel_quiet _).keeps_quiet
    | with_reducible exact (builtincheck_quiet _ _).keeps_quiet
    | with_reducible exact getid_quiet.keeps_quiet
    | with_reducible exact (definesymbol_quiet _ _).keeps_quiet
    | with_reducible exact (skipcommas_quiet _).keeps_quiet
    | with_reducible exact linenumber_quiet.keeps_quiet
    | with_reducible exact (addop_spec _).keeps_expr
    | with_reducible exact (addopone_spec _ _).keeps_expr
    | with_reducible exact (addoptwo_spec _ _ _).keeps_expr
    | with_reducible exact (addopptr_spec _ _).keeps_expr
    | with_reducible exact (addopfunction_spec _ _ _).keeps_expr
    | with_reducible exact clearopt_spec.keeps_expr
    | with_reducible exact writeindexop_spec.keeps_expr
    | with_reducible exact (usesymbol_spec _ _).keeps_expr
    | with_reducible exact getelement_spec.keeps_expr
    | with_reducible exact (getshiftexpr_loop_spec _).keeps_expr
    | with_reducible exact ih.getexprlist.keeps_expr
    | with_reducible exact (ih.getexprlist_loop _).keeps_expr
    | with_reducible exact ih.getassignment.keeps_expr
    | with_reducible exact ih.getaltcond.keeps_expr
    | with_reducible exact ih.getorcond.keeps_expr
    | with_reducible exact (ih.getorcond_loop _ _).keeps_label (by first | exact Or.inl (by assumption) | exact Or.inr (by simp))
    | with_reducible exact ih.getandcond.keeps_expr
    | with_reducible exact (ih.getandcond_loop _ _).keeps_label (by first | exact Or.inl (by assumption) | exact Or.inr (by simp))
    | with_reducible exact ih.getrelation.keeps_expr
    | with_reducible exact ih.getsum.keeps_expr
    | with_reducible exact (ih.getsum_loop _).keeps_expr
    | with_reducible exact ih.getproduct.keeps_expr
    | with_reducible exact (ih.getproduct_loop _).keeps_expr
    | with_reducible exact ih.getorexpr.keeps_expr
    | with_reducible exact (ih.getorexpr_loop _).keeps_expr
    | with_reducible exact ih.getandexpr.keeps_expr
    | with_reducible exact (ih.getandexpr_loop _).keeps_expr
    | with_reducible exact ih.getshiftexpr.keeps_expr
    | with_reducible exact ih.getterm.keeps_expr
    | with_reducible exact (ih.getidexpr _ _).keeps_expr
    | with_reducible exact (ih.getidexpr_loop _).keeps_expr
    | with_reducible exact ih.getmatargs.keeps_expr
    | with_reducible exact (ih.getmatargs_loop _).keeps_expr
    | with_reducible exact (ih.getcallargs _).keeps_expr
    | with_reducible exact (ih.getcallargs_loop _ _ _ _).keeps_expr
    | with_reducible exact (ih.getmatdeclaration _).keeps_expr
    | with_reducible exact (ih.getonematrix _).keeps_expr
    | with_reducible exact (ih.creatematrix _).keeps_expr
    | with_reducible exact ih.getinitlist.keeps_expr
    | with_reducible exact (ih.getinitlist_loop _ _).keeps_expr
    | with_reducible exact (ih.getobjdeclaration _).keeps_expr
    | with_reducible exact (ih.getobjdeclaration_loop _ _ _ _).keeps_expr
    | with_reducible exact (ih.getoneobj _ _).keeps_expr
    | with_reducible exact (ih.getobjvars _ _).keeps_expr
    | with_reducible exact (ih.getobjvars_loop _ _).keeps_expr
    | with_reducible exact (setlabel_spec _).keeps_label (by first | exact Or.inl (by assumption) | exact Or.inr (by simp))
    | with_reducible exact (addoplabel_spec _ _).keeps_label (by first | exact Or.inl (by assumption) | exact Or.inr (by simp))
    | with_reducible exact (clearlabel_spec _).keeps_label (by first | exact Or.inl (by assumption) | exact Or.inr (by simp))
    | exact patch_keeps _ _ _ _ _ (Nat.lt_succ_of_le (le_trans (Frame.ext (by assumption)).plen (plen_le _)))
    | dsimp only
    | split

set_option maxHeartbeats 1600000 in
theorem getorcond_frame_succ (n : Nat) (ih : ExprFrames n) :
    Spec false [] (getorcond (n + 1)) := by
  refine Keeps.to_spec fun s0 => ?_
  rw [getorcond]
  repeat' first
    | with_reducible refine keeps_newlabel (fun _ _ => ?_)
    | with_reducible refine keeps_getS (fun _ _ => ?_)
    | with_reducible refine keeps_bind ?_ (fun _ => ?_)
    | with_reducible refine keeps_ite (fun _ => ?_) (fun _ => ?_)
    | with_reducible exact keeps_pure _
    | with_reducible exact gettoken_quiet.keeps_quiet
    | with_reducible exact rescantoken_quiet.keeps_quiet
    | with_reducible exact tokenstring_quiet.keeps_quiet
    | with_reducible exact tokennumber_quiet.keeps_quiet
    | with_reducible exact (tokenmode_quiet _).keeps_quiet
    | with_reducible exact (scanerror_quiet _).keeps_quiet
    | with_reducible exact getS_quiet.keeps_quiet
    | with_reducible exact outOfFuel_quiet.keeps_quiet
    | with_reducible exact math_error_quiet.keeps_quiet
    | with_reducible exact (symboltype_quiet _).keeps_quiet
    | with_reducible exact (getbuiltinfunc_quiet _).keeps_quiet
    | with_reducible exact (adduserfunc_quiet _).keeps_quiet
    | with_reducible exact (addelement_quiet _).keeps_quiet
    | with_reducible exact (checkobject_quiet _).keeps_quiet
    | with_reducible exact (defineobject_quiet _ _).keeps_quiet
    | with_reducible exact (addqconstant_quiet _).keeps_quiet
    | with_reducible exact (readlabel_quiet _).keeps_quiet
    | with_reducible exact (builtincheck_quiet _ _).keeps_quiet
    | with_reducible exact getid_quiet.keeps_quiet
    | with_reducible exact (definesymbol_quiet _ _).keeps_quiet
    | with_reducible exact (skipcommas_quiet _).keeps_quiet
    | with_reducible exact linenumber_quiet.keeps_quiet
    | with_reducible exact (addop_spec _).keeps_expr
    | with_reducible exact (addopone_spec _ _).keeps_expr
    | with_reducible exact (addoptwo_spec _ _ _).keeps_expr
    | with_reducible exact (addopptr_spec _ _).keeps_expr
    | with_reducible exact (addopfunction_spec _ _ _).keeps_expr
    | with_reducible exact clearopt_spec.keeps_expr
    | with_reducible exact writeindexop_spec.keeps_expr
    | with_reducible exact (usesymbol_spec _ _).keeps_expr
    | with_reducible exact getelement_spec.keeps_expr
    | with_reducible exact (getshiftexpr_loop_spec _).keeps_expr
    | with_reducible exact ih.getexprlist.keeps_expr
    | with_reducible exact (ih.getexprlist_loop _).keeps_expr
    | with_reducible exact ih.getassignment.keeps_expr
    | with_reducible exact ih.getaltcond.keeps_expr
    | with_reducible exact ih.getorcond.keeps_expr
    | with_reducible exact (ih.getorcond_loop _ _).keeps_label (by first | exact Or.inl (by assumption) | exact Or.inr (by simp))
    | with_reducible exact ih.getandcond.keeps_expr
    | with_reducible exact (ih.getandcond_loop _ _).keeps_label (by first | exact Or.inl (by assumption) | exact Or.inr (by simp))
    | with_reducible exact ih.getrelation.keeps_expr
    | with_reducible exact ih.getsum.keeps_expr
    | with_reducible exact (ih.getsum_loop _).keeps_expr
    | with_reducible exact ih.getproduct.keeps_expr
    | with_reducible exact (ih.getproduct_loop _).keeps_expr
    | with_reducible exact ih.getorexpr.keeps_expr
    | with_reducible exact (ih.getorexpr_loop _).keeps_expr
    | with_reducible exact ih.getandexpr.keeps_expr
    | with_reducible exact (ih.getandexpr_loop _).keeps_expr
    | with_reducible exact ih.getshiftexpr.keeps_expr
    | with_reducible exact ih.getterm.keeps_expr
    | with_reducible exact (ih.getidexpr _ _).keeps_expr
    | with_reducible exact (ih.getidexpr_loop _).keeps_expr
    | with_reducible exact ih.getmatargs.keeps_expr
    | with_reducible exact (ih.getmatargs_loop _).keeps_expr
    | with_reducible exact (ih.getcallargs _).keeps_expr
    | with_reducible exact (ih.getcallargs_loop _ _ _ _).keeps_expr
    | with_reducible exact (ih.getmatdeclaration _).keeps_expr
    | with_reducible exact (ih.getonematrix _).keeps_expr
    | with_reducible exact (ih.creatematrix _).keeps_expr
    | with_reducible exact ih.getinitlist.keeps_expr
    | with_reducible exact (ih.getinitlist_loop _ _).keeps_expr
    | with_reducible exact (ih.getobjdeclaration _).keeps_expr
    | with_reducible exact (ih.getobjdeclaration_loop _ _ _ _).keeps_expr
    | with_reducible exact (ih.getoneobj _ _).keeps_expr
    | with_reducible exact (ih.getobjvars _ _).keeps_expr
    | with_reducible exact (ih.getobjvars_loop _ _).keeps_expr
    | with_reducible exact (setlabel_spec _).keeps_label (by first | exact Or.inl (by assumption) | exact Or.inr (by simp))
    | with_reducible exact (addoplabel_spec _ _).keeps_label (by first | exact Or.inl (by assumption) | exact Or.inr (by simp))
    | with_reducible exact (clearlabel_spec _).keeps_label (by first | exact Or.inl (by assumption) | exact Or.inr (by simp))
    | exact patch_keeps _ _ _ _ _ (Nat.lt_succ_of_le (le_trans (Frame.ext (by assumption)).plen (plen_le _)))
    | dsimp only
    | split

set_option maxHeartbeats 1600000 in
theorem getorcond_loop_frame_succ (n : Nat) (ih : ExprFrames n) ( donelab : Nat) (type : Nat) :
    Spec false [ donelab] (getorcond_loop (n + 1) donelab type) := by
  refine Keeps.to_spec fun s0 => ?_
  rw [getorcond_loop]
  repeat' first
    | with_reducible refine keeps_newlabel (fun _ _ => ?_)
    | with_reducible refine keeps_getS (fun _ _ => ?_)
    | with_reducible refine keeps_bind ?_ (fun _ => ?_)
    | with_reducible refine keeps_ite (fun _ => ?_) (fun _ => ?_)
    | with_reducible exact keeps_pure _
    | with_reducible exact gettoken_quiet.keeps_quiet
    | with_reducible exact rescantoken_quiet.keeps_quiet
    | with_reducible exact tokenstring_quiet.keeps_quiet
    | with_reducible exact tokennumber_quiet.keeps_quiet
    | with_reducible exact (tokenmode_quiet _).keeps_quiet
    | with_reducible exact (scanerror_quiet _).keeps_quiet
    | with_reducible exact getS_quiet.keeps_quiet
    | with_reducible exact outOfFuel_quiet.keeps_quiet
    | with_reducible exact math_error_quiet.keeps_quiet
    | with_reducible exact (symboltype_quiet _).keeps_quiet
    | with_reducible exact (getbuiltinfunc_quiet _).keeps_quiet
    | with_reducible exact (adduserfunc_quiet _).keeps_quiet
    | with_reducible exact (addelement_quiet _).keeps_quiet
    | with_reducible exact (checkobject_quiet _).keeps_quiet
    | with_reducible exact (defineobject_quiet _ _).keeps_quiet
    | with_reducible exact (addqconstant_quiet _).keeps_quiet
    | with_reducible exact (readlabel_quiet _).keeps_quiet
    | with_reducible exact (builtincheck_quiet _ _).keeps_quiet
    | with_reducible exact getid_quiet.keeps_quiet
    | with_reducible exact (definesymbol_quiet _ _).keeps_quiet
    | with_reducible exact (skipcommas_quiet _).keeps_quiet
    | with_reducible exact linenumber_quiet.keeps_quiet
    | with_reducible exact (addop_spec _).keeps_expr
    | with_reducible exact (addopone_spec _ _).keeps_expr
    | with_reducible exact (addoptwo_spec _ _ _).keeps_expr
    | with_reducible exact (addopptr_spec _ _).keeps_expr
    | with_reducible exact (addopfunction_spec _ _ _).keeps_expr
    | with_reducible exact clearopt_spec.keeps_expr
    | with_reducible exact writeindexop_spec.keeps_expr
    | with_reducible exact (usesymbol_spec _ _).keeps_expr
    | with_reducible exact getelement_spec.keeps_expr
    | with_reducible exact (getshiftexpr_loop_spec _).keeps_expr
    | with_reducible exact ih.getexprlist.keeps_expr
    | with_reducible exact (ih.getexprlist_loop _).keeps_expr
    | with_reducible exact ih.getassignment.keeps_expr
    | with_reducible exact ih.getaltcond.keeps_expr
    | with_reducible exact ih.getorcond.keeps_expr
    | with_reducible exact (ih.getorcond_loop _ _).keeps_label (by first | exact Or.inl (by assumption) | exact Or.inr (by simp))
    | with_reducible exact ih.getandcond.keeps_expr
    | with_reducible exact (ih.getandcond_loop _ _).keeps_label (by first | exact Or.inl (by assumption) | exact Or.inr (by simp))
    | with_reducible exact ih.getrelation.keeps_expr
    | with_reducible exact ih.getsum.keeps_expr
    | with_reducible exact (ih.getsum_loop _).keeps_expr
    | with_reducible exact ih.getproduct.keeps_expr
    | with_reducible exact (ih.getproduct_loop _).keeps_expr
    | with_reducible exact ih.getorexpr.keeps_expr
    | with_reducible exact (ih.getorexpr_loop _).keeps_expr
    | with_reducible exact ih.getandexpr.keeps_expr
    | with_reducible exact (ih.getandexpr_loop _).keeps_expr
    | with_reducible exact ih.getshiftexpr.keeps_expr
    | with_reducible exact ih.getterm.keeps_expr
    | with_reducible exact (ih.getidexpr _ _).keeps_expr
    | with_reducible exact (ih.getidexpr_loop _).keeps_expr
    | with_reducible exact ih.getmatargs.keeps_expr
    | with_reducible exact (ih.getmatargs_loop _).keeps_expr
    | with_reducible exact (ih.getcallargs _).keeps_expr
    | with_reducible exact (ih.getcallargs_loop _ _ _ _).keeps_expr
    | with_reducible exact (ih.getmatdeclaration _).keeps_expr
    | with_reducible exact (ih.getonematrix _).keeps_expr
    | with_reducible exact (ih.creatematrix _).keeps_expr
    | with_reducible exact ih.getinitlist.keeps_expr
    | with_reducible exact (ih.getinitlist_loop _ _).keeps_expr
    | with_reducible exact (ih.getobjdeclaration _).keeps_expr
    | with_reducible exact (ih.getobjdeclaration_loop _ _ _ _).keeps_expr
    | with_reducible exact (ih.getoneobj _ _).keeps_expr
    | with_reducible exact (ih.getobjvars _ _).keeps_expr
    | with_reducible exact (ih.getobjvars_loop _ _).keeps_expr
    | with_reducible exact (setlabel_spec _).keeps_label (by first | exact Or.inl (by assumption) | exact Or.inr (by simp))
    | with_reducible exact (addoplabel_spec _ _).keeps_label (by first | exact Or.inl (by assumption) | exact Or.inr (by simp))
    | with_reducible exact (clearlabel_spec _).keeps_label (by first | exact Or.inl (by assumption) | exact Or.inr (by simp))
    | exact patch_keeps _ _ _ _ _ (Nat.lt_succ_of_le (le_trans (Frame.ext (by assumption)).plen (plen_le _)))
    | dsimp only
    | split

set_option maxHeartbeats 1600000 in
theorem getandcond_frame_succ (n : Nat) (ih : ExprFrames n) :
    Spec false [] (getandcond (n + 1)) := by
  refine Keeps.to_spec fun s0 => ?_
  rw [getandcond]
  repeat' first
    | with_reducible refine keeps_newlabel (fun _ _ => ?_)
    | with_reducible refine keeps_getS (fun _ _ => ?_)
    | with_reducible refine keeps_bind ?_ (fun _ => ?_)
    | with_reducible refine keeps_ite (fun _ => ?_) (fun _ => ?_)
    | with_reducible exact keeps_pure _
    | with_reducible exact gettoken_quiet.keeps_quiet
    | with_reducible exact rescantoken_quiet.keeps_quiet
    | with_reducible exact tokenstring_quiet.keeps_quiet
    | with_reducible exact tokennumber_quiet.keeps_quiet
    | with_reducible exact (tokenmode_quiet _).keeps_quiet
    | with_reducible exact (scanerror_quiet _).keeps_quiet
    | with_reducible exact getS_quiet.keeps_quiet
    | with_reducible exact outOfFuel_quiet.keeps_quiet
    | with_reducible exact math_error_quiet.keeps_quiet
    | with_reducible exact (symboltype_quiet _).keeps_quiet
    | with_reducible exact (getbuiltinfunc_quiet _).keeps_quiet
    | with_reducible exact (adduserfunc_quiet _).keeps_quiet
    | with_reducible exact (addelement_quiet _).keeps_quiet
    | with_reducible exact (checkobject_quiet _).keeps_quiet
    | with_reducible exact (defineobject_quiet _ _).keeps_quiet
    | with_reducible exact (addqconstant_quiet _).keeps_quiet
    | with_reducible exact (readlabel_quiet _).keeps_quiet
    | with_reducible exact (builtincheck_quiet _ _).keeps_quiet
    | with_reducible exact getid_quiet.keeps_quiet
    | with_reducible exact (definesymbol_quiet _ _).keeps_quiet
    | with_reducible exact (skipcommas_quiet _).keeps_quiet
    | with_reducible exact linenumber_quiet.keeps_quiet
    | with_reducible exact (addop_spec _).keeps_expr
    | with_reducible exact (addopone_spec _ _).keeps_expr
    | with_reducible exact (addoptwo_spec _ _ _).keeps_expr
    | with_reducible exact (addopptr_spec _ _).keeps_expr
    | with_reducible exact (addopfunction_spec _ _ _).keeps_expr
    | with_reducible exact clearopt_spec.keeps_expr
    | with_reducible exact writeindexop_spec.keeps_expr
    | with_reducible exact (usesymbol_spec _ _).keeps_expr
    | with_reducible exact getelement_spec.keeps_expr
    | with_reducible exact (getshiftexpr_loop_spec _).keeps_expr
    | with_reducible exact ih.getexprlist.keeps_expr
    | with_reducible exact (ih.getexprlist_loop _).keeps_expr
    | with_reducible exact ih.getassignment.keeps_expr
    | with_reducible exact ih.getaltcond.keeps_expr
    | with_reducible exact ih.getorcond.keeps_expr
    | with_reducible exact (ih.getorcond_loop _ _).keeps_label (by first | exact Or.inl (by assumption) | exact Or.inr (by simp))
    | with_reducible exact ih.getandcond.keeps_expr
    | with_reducible exact (ih.getandcond_loop _ _).keeps_label (by first | exact Or.inl (by assumption) | exact Or.inr (by simp))
    | with_reducible exact ih.getrelation.keeps_expr
    | with_reducible exact ih.getsum.keeps_expr
    | with_reducible exact (ih.getsum_loop _).keeps_expr
    | with_reducible exact ih.getproduct.keeps_expr
    | with_reducible exact (ih.getproduct_loop _).keeps_expr
    | with_reducible exact ih.getorexpr.keeps_expr
    | with_reducible exact (ih.getorexpr_loop _).keeps_expr
    | with_reducible exact ih.getandexpr.keeps_expr
    | with_reducible exact (ih.getandexpr_loop _).keeps_expr
    | with_reducible exact ih.getshiftexpr.keeps_expr
    | with_reducible exact ih.getterm.keeps_expr
    | with_reducible exact (ih.getidexpr _ _).keeps_expr
    | with_reducible exact (ih.getidexpr_loop _).keeps_expr
    | with_reducible exact ih.getmatargs.keeps_expr
    | with_reducible exact (ih.getmatargs_loop _).keeps_expr
    | with_reducible exact (ih.getcallargs _).keeps_expr
    | with_reducible exact (ih.getcallargs_loop _ _ _ _).keeps_expr
    | with_reducible exact (ih.getmatdeclaration _).keeps_expr
    | with_reducible exact (ih.getonematrix _).keeps_expr
    | with_reducible exact (ih.creatematrix _).keeps_expr
    | with_reducible exact ih.getinitlist.keeps_expr
    | with_reducible exact (ih.getinitlist_loop _ _).keeps_expr
    | with_reducible exact (ih.getobjdeclaration _).keeps_expr
    | with_reducible exact (ih.getobjdeclaration_loop _ _ _ _).keeps_expr
    | with_reducible exact (ih.getoneobj _ _).keeps_expr
    | with_reducible exact (ih.getobjvars _ _).keeps_expr
    | with_reducible exact (ih.getobjvars_loop _ _).keeps_expr
    | with_reducible exact (setlabel_spec _).keeps_label (by first | exact Or.inl (by assumption) | exact Or.inr (by simp))
    | with_reducible exact (addoplabel_spec _ _).keeps_label (by first | exact Or.inl (by assumption) | exact Or.inr (by simp))
    | with_reducible exact (clearlabel_spec _).keeps_label (by first | exact Or.inl (by assumption) | exact Or.inr (by simp))
    | exact patch_keeps _ _ _ _ _ (Nat.lt_succ_of_le (le_trans (Frame.ext (by assumption)).plen (plen_le _)))
    | dsimp only
    | split

set_option maxHeartbeats 1600000 in
theorem getandcond_loop_frame_succ (n : Nat) (ih : ExprFrames n) ( donelab : Nat) (type : Nat) :
    Spec false [ donelab] (getandcond_loop (n + 1) donelab type) := by
  refine Keeps.to_spec fun s0 => ?_
  rw [getandcond_loop]
  repeat' first
    | with_reducible refine keeps_newlabel (fun _ _ => ?_)
    | with_reducible refine keeps_getS (fun _ _ => ?_)
    | with_reducible refine keeps_bind ?_ (fun _ => ?_)
    | with_reducible refine keeps_ite (fun _ => ?_) (fun _ => ?_)
    | with_reducible exact keeps_pure _
    | with_reducible exact gettoken_quiet.keeps_quiet
    | with_reducible exact rescantoken_quiet.keeps_quiet
    | with_reducible exact tokenstring_quiet.keeps_quiet
    | with_reducible exact tokennumber_quiet.keeps_quiet
    | with_reducible exact (tokenmode_quiet _).keeps_quiet
    | with_reducible exact (scanerror_quiet _).keeps_quiet
    | with_reducible exact getS_quiet.keeps_quiet
    | with_reducible exact outOfFuel_quiet.keeps_quiet
    | with_reducible exact math_error_quiet.keeps_quiet
    | with_reducible exact (symboltype_quiet _).keeps_quiet
    | with_reducible exact (getbuiltinfunc_quiet _).keeps_quiet
    | with_reducible exact (adduserfunc_quiet _).keeps_quiet
    | with_reducible exact (addelement_quiet _).keeps_quiet
    | with_reducible exact (checkobject_quiet _).keeps_quiet
    | with_reducible exact (defineobject_quiet _ _).keeps_quiet
    | with_reducible exact (addqconstant_quiet _).keeps_quiet
    | with_reducible exact (readlabel_quiet _).keeps_quiet
    | with_reducible exact (builtincheck_quiet _ _).keeps_quiet
    | with_reducible exact getid_quiet.keeps_quiet
    | with_reducible exact (definesymbol_quiet _ _).keeps_quiet
    | with_reducible exact (skipcommas_quiet _).keeps_quiet
    | with_reducible exact linenumber_quiet.keeps_quiet
    | with_reducible exact (addop_spec _).keeps_expr
    | with_reducible exact (addopone_spec _ _).keeps_expr
    | with_reducible exact (addoptwo_spec _ _ _).keeps_expr
    | with_reducible exact (addopptr_spec _ _).keeps_expr
    | with_reducible exact (addopfunction_spec _ _ _).keeps_expr
    | with_reducible exact clearopt_spec.keeps_expr
    | with_reducible exact writeindexop_spec.keeps_expr
    | with_reducible exact (usesymbol_spec _ _).keeps_expr
    | with_reducible exact getelement_spec.keeps_expr
    | with_reducible exact (getshiftexpr_loop_spec _).keeps_expr
    | with_reducible exact ih.getexprlist.keeps_expr
    | with_reducible exact (ih.getexprlist_loop _).keeps_expr
    | with_reducible exact ih.getassignment.keeps_expr
    | with_reducible exact ih.getaltcond.keeps_expr
    | with_reducible exact ih.getorcond.keeps_expr
    | with_reducible exact (ih.getorcond_loop _ _).keeps_label (by first | exact Or.inl (by assumption) | exact Or.inr (by simp))
    | with_reducible exact ih.getandcond.keeps_expr
    | with_reducible exact (ih.getandcond_loop _ _).keeps_label (by first | exact Or.inl (by assumption) | exact Or.inr (by simp))
    | with_reducible exact ih.getrelation.keeps_expr
    | with_reducible exact ih.getsum.keeps_expr
    | with_reducible exact (ih.getsum_loop _).keeps_expr
    | with_reducible exact ih.getproduct.keeps_expr
    | with_reducible exact (ih.getproduct_loop _).keeps_expr
    | with_reducible exact ih.getorexpr.keeps_expr
    | with_reducible exact (ih.getorexpr_loop _).keeps_expr
    | with_reducible exact ih.getandexpr.keeps_expr
    | with_reducible exact (ih.getandexpr_loop _).keeps_expr
    | with_reducible exact ih.getshiftexpr.keeps_expr
    | with_reducible exact ih.getterm.keeps_expr
    | with_reducible exact (ih.getidexpr _ _).keeps_expr
    | with_reducible exact (ih.getidexpr_loop _).keeps_expr
    | with_reducible exact ih.getmatargs.keeps_expr
    | with_reducible exact (ih.getmatargs_loop _).keeps_expr
    | with_reducible exact (ih.getcallargs _).keeps_expr
    | with_reducible exact (ih.getcallargs_loop _ _ _ _).keeps_expr
    | with_reducible exact (ih.getmatdeclaration _).keeps_expr
    | with_reducible exact (ih.getonematrix _).keeps_expr
    | with_reducible exact (ih.creatematrix _).keeps_expr
    | with_reducible exact ih.getinitlist.keeps_expr
    | with_reducible exact (ih.getinitlist_loop _ _).keeps_expr
    | with_reducible exact (ih.getobjdeclaration _).keeps_expr
    | with_reducible exact (ih.getobjdeclaration_loop _ _ _ _).keeps_expr
    | with_reducible exact (ih.getoneobj _ _).keeps_expr
    | with_reducible exact (ih.getobjvars _ _).keeps_expr
    | with_reducible exact (ih.getobjvars_loop _ _).keeps_expr
    | with_reducible exact (setlabel_spec _).keeps_label (by first | exact Or.inl (by assumption) | exact Or.inr (by simp))
    | with_reducible exact (addoplabel_spec _ _).keeps_label (by first | exact Or.inl (by assumption) | exact Or.inr (by simp))
    | with_reducible exact (clearlabel_spec _).keeps_label (by first | exact Or.inl (by assumption) | exact Or.inr (by simp))
    | exact patch_keeps _ _ _ _ _ (Nat.lt_succ_of_le (le_trans (Frame.ext (by assumption)).plen (plen_le _)))
    | dsimp only
    | split

set_option maxHeartbeats 1600000 in
theorem getrelation_frame_succ (n : Nat) (ih : ExprFrames n) :
    Spec false [] (getrelation (n + 1)) := by
  refine Keeps.to_spec fun s0 => ?_
  rw [getrelation]
  repeat' first
    | with_reducible refine keeps_newlabel (fun _ _ => ?_)
    | with_reducible refine keeps_getS (fun _ _ => ?_)
    | with_reducible refine keeps_bind ?_ (fun _ => ?_)
    | with_reducible refine keeps_ite (fun _ => ?_) (fun _ => ?_)
    | with_reducible exact keeps_pure _
    | with_reducible exact gettoken_quiet.keeps_quiet
    | with_reducible exact rescantoken_quiet.keeps_quiet
    | with_reducible exact tokenstring_quiet.keeps_quiet
    | with_reducible exact tokennumber_quiet.keeps_quiet
    | with_reducible exact (tokenmode_quiet _).keeps_quiet
    | with_reducible exact (scanerror_quiet _).keeps_quiet
    | with_reducible exact getS_quiet.keeps_quiet
    | with_reducible exact outOfFuel_quiet.keeps_quiet
    | with_reducible exact math_error_quiet.keeps_quiet
    | with_reducible exact (symboltype_quiet _).keeps_quiet
    | with_reducible exact (getbuiltinfunc_quiet _).keeps_quiet
    | with_reducible exact (adduserfunc_quiet _).keeps_quiet
    | with_reducible exact (addelement_quiet _).keeps_quiet
    | with_reducible exact (checkobject_quiet _).keeps_quiet
    | with_reducible exact (defineobject_quiet _ _).keeps_quiet
    | with_reducible exact (addqconstant_quiet _).keeps_quiet
    | with_reducible exact (readlabel_quiet _).keeps_quiet
    | with_reducible exact (builtincheck_quiet _ _).keeps_quiet
    | with_reducible exact getid_quiet.keeps_quiet
    | with_reducible exact (definesymbol_quiet _ _).keeps_quiet
    | with_reducible exact (skipcommas_quiet _).keeps_quiet
    | with_reducible exact linenumber_quiet.keeps_quiet
    | with_reducible exact (addop_spec _).keeps_expr
    | with_reducible exact (addopone_spec _ _).keeps_expr
    | with_reducible exact (addoptwo_spec _ _ _).keeps_expr
    | with_reducible exact (addopptr_spec _ _).keeps_expr
    | with_reducible exact (addopfunction_spec _ _ _).keeps_expr
    | with_reducible exact clearopt_spec.keeps_expr
    | with_reducible exact writeindexop_spec.keeps_expr
    | with_reducible exact (usesymbol_spec _ _).keeps_expr
    | with_reducible exact getelement_spec.keeps_expr
    | with_reducible exact (getshiftexpr_loop_spec _).keeps_expr
    | with_reducible exact ih.getexprlist.keeps_expr
    | with_reducible exact (ih.getexprlist_loop _).keeps_expr
    | with_reducible exact ih.getassignment.keeps_expr
    | with_reducible exact ih.getaltcond.keeps_expr
    | with_reducible exact ih.getorcond.keeps_expr
    | with_reducible exact (ih.getorcond_loop _ _).keeps_label (by first | exact Or.inl (by assumption) | exact Or.inr (by simp))
    | with_reducible exact ih.getandcond.keeps_expr
    | with_reducible exact (ih.getandcond_loop _ _).keeps_label (by first | exact Or.inl (by assumption) | exact Or.inr (by simp))
    | with_reducible exact ih.getrelation.keeps_expr
    | with_reducible exact ih.getsum.keeps_expr
    | with_reducible exact (ih.getsum_loop _).keeps_expr
    | with_reducible exact ih.getproduct.keeps_expr
    | with_reducible exact (ih.getproduct_loop _).keeps_expr
    | with_reducible exact ih.getorexpr.keeps_expr
    | with_reducible exact (ih.getorexpr_loop _).keeps_expr
    | with_reducible exact ih.getandexpr.keeps_expr
    | with_reducible exact (ih.getandexpr_loop _).keeps_expr
    | with_reducible exact ih.getshiftexpr.keeps_expr
    | with_reducible exact ih.getterm.keeps_expr
    | with_reducible exact (ih.getidexpr _ _).keeps_expr
    | with_reducible exact (ih.getidexpr_loop _).keeps_expr
    | with_reducible exact ih.getmatargs.keeps_expr
    | with_reducible exact (ih.getmatargs_loop _).keeps_expr
    | with_reducible exact (ih.getcallargs _).keeps_expr
    | with_reducible exact (ih.getcallargs_loop _ _ _ _).keeps_expr
    | with_reducible exact (ih.getmatdeclaration _).keeps_expr
    | with_reducible exact (ih.getonematrix _).keeps_expr
    | with_reducible exact (ih.creatematrix _).keeps_expr
    | with_reducible exact ih.getinitlist.keeps_expr
    | with_reducible exact (ih.getinitlist_loop _ _).keeps_expr
    | with_reducible exact (ih.getobjdeclaration _).keeps_expr
    | with_reducible exact (ih.getobjdeclaration_loop _ _ _ _).keeps_expr
    | with_reducible exact (ih.getoneobj _ _).keeps_expr
    | with_reducible exact (ih.getobjvars _ _).keeps_expr
    | with_reducible exact (ih.getobjvars_loop _ _).keeps_expr
    | with_reducible exact (setlabel_spec _).keeps_label (by first | exact Or.inl (by assumption) | exact Or.inr (by simp))
    | with_reducible exact (addoplabel_spec _ _).keeps_label (by first | exact Or.inl (by assumption) | exact Or.inr (by simp))
    | with_reducible exact (clearlabel_spec _).keeps_label (by first | exact Or.inl (by assumption) | exact Or.inr (by simp))
    | exact patch_keeps _ _ _ _ _ (Nat.lt_succ_of_le (le_trans (Frame.ext (by assumption)).plen (plen_le _)))
    | dsimp only
    | split

set_option maxHeartbeats 1600000 in
theorem getsum_frame_succ (n : Nat) (ih : ExprFrames n) :
    Spec false [] (getsum (n + 1)) := by
  refine Keeps.to_spec fun s0 => ?_
  rw [getsum]
  repeat' first
    | with_reducible refine keeps_newlabel (fun _ _ => ?_)
    | with_reducible refine keeps_getS (fun _ _ => ?_)
    | with_reducible refine keeps_bind ?_ (fun _ => ?_)
    | with_reducible refine keeps_ite (fun _ => ?_) (fun _ => ?_)
    | with_reducible exact keeps_pure _
    | with_reducible exact gettoken_quiet.keeps_quiet
    | with_reducible exact rescantoken_quiet.keeps_quiet
    | with_reducible exact tokenstring_quiet.keeps_quiet
    | with_reducible exact tokennumber_quiet.keeps_quiet
    | with_reducible exact (tokenmode_quiet _).keeps_quiet
    | with_reducible exact (scanerror_quiet _).keeps_quiet
    | with_reducible exact getS_quiet.keeps_quiet
    | with_reducible exact outOfFuel_quiet.keeps_quiet
    | with_reducible exact math_error_quiet.keeps_quiet
    | with_reducible exact (symboltype_quiet _).keeps_quiet
    | with_reducible exact (getbuiltinfunc_quiet _).keeps_quiet
    | with_reducible exact (adduserfunc_quiet _).keeps_quiet
    | with_reducible exact (addelement_quiet _).keeps_quiet
    | with_reducible exact (checkobject_quiet _).keeps_quiet
    | with_reducible exact (defineobject_quiet _ _).keeps_quiet
    | with_reducible exact (addqconstant_quiet _).keeps_quiet
    | with_reducible exact (readlabel_quiet _).keeps_quiet
    | with_reducible exact (builtincheck_quiet _ _).keeps_quiet
    | with_reducible exact getid_quiet.keeps_quiet
    | with_reducible exact (definesymbol_quiet _ _).keeps_quiet
    | with_reducible exact (skipcommas_quiet _).keeps_quiet
    | with_reducible exact linenumber_quiet.keeps_quiet
    | with_reducible exact (addop_spec _).keeps_expr
    | with_reducible exact (addopone_spec _ _).keeps_expr
    | with_reducible exact (addoptwo_spec _ _ _).keeps_expr
    | with_reducible exact (addopptr_spec _ _).keeps_expr
    | with_reducible exact (addopfunction_spec _ _ _).keeps_expr
    | with_reducible exact clearopt_spec.keeps_expr
    | with_reducible exact writeindexop_spec.keeps_expr
    | with_reducible exact (usesymbol_spec _ _).keeps_expr
    | with_reducible exact getelement_spec.keeps_expr
    | with_reducible exact (getshiftexpr_loop_spec _).keeps_expr
    | with_reducible exact ih.getexprlist.keeps_expr
    | with_reducible exact (ih.getexprlist_loop _).keeps_expr
    | with_reducible exact ih.getassignment.keeps_expr
    | with_reducible exact ih.getaltcond.keeps_expr
    | with_reducible exact ih.getorcond.keeps_expr
    | with_reducible exact (ih.getorcond_loop _ _).keeps_label (by first | exact Or.inl (by assumption) | exact Or.inr (by simp))
    | with_reducible exact ih.getandcond.keeps_expr
    | with_reducible exact (ih.getandcond_loop _ _).keeps_label (by first | exact Or.inl (by assumption) | exact Or.inr (by simp))
    | with_reducible exact ih.getrelation.keeps_expr
    | with_reducible exact ih.getsum.keeps_expr
    | with_reducible exact (ih.getsum_loop _).keeps_expr
    | with_reducible exact ih.getproduct.keeps_expr
    | with_reducible exact (ih.getproduct_loop _).keeps_expr
    | with_reducible exact ih.getorexpr.keeps_expr
    | with_reducible exact (ih.getorexpr_loop _).keeps_expr
    | with_reducible exact ih.getandexpr.keeps_expr
    | with_reducible exact (ih.getandexpr_loop _).keeps_expr
    | with_reducible exact ih.getshiftexpr.keeps_expr
    | with_reducible exact ih.getterm.keeps_expr
    | with_reducible exact (ih.getidexpr _ _).keeps_expr
    | with_reducible exact (ih.getidexpr_loop _).keeps_expr
    | with_reducible exact ih.getmatargs.keeps_expr
    | with_reducible exact (ih.getmatargs_loop _).keeps_expr
    | with_reducible exact (ih.getcallargs _).keeps_expr
    | with_reducible exact (ih.getcallargs_loop _ _ _ _).keeps_expr
    | with_reducible exact (ih.getmatdeclaration _).keeps_expr
    | with_reducible exact (ih.getonematrix _).keeps_expr
    | with_reducible exact (ih.creatematrix _).keeps_expr
    | with_reducible exact ih.getinitlist.keeps_expr
    | with_reducible exact (ih.getinitlist_loop _ _).keeps_expr
    | with_reducible exact (ih.getobjdeclaration _).keeps_expr
    | with_reducible exact (ih.getobjdeclaration_loop _ _ _ _).keeps_expr
    | with_reducible exact (ih.getoneobj _ _).keeps_expr
    | with_reducible exact (ih.getobjvars _ _).keeps_expr
    | with_reducible exact (ih.getobjvars_loop _ _).keeps_expr
    | with_reducible exact (setlabel_spec _).keeps_label (by first | exact Or.inl (by assumption) | exact Or.inr (by simp))
    | with_reducible exact (addoplabel_spec _ _).keeps_label (by first | exact Or.inl (by assumption) | exact Or.inr (by simp))
    | with_reducible exact (clearlabel_spec _).keeps_label (by first | exact Or.inl (by assumption) | exact Or.inr (by simp))
    | exact patch_keeps _ _ _ _ _ (Nat.lt_succ_of_le (le_trans (Frame.ext (by assumption)).plen (plen_le _)))
    | dsimp only
    | split

set_option maxHeartbeats 1600000 in
theorem getsum_loop_frame_succ (n : Nat) (ih : ExprFrames n) (type : Nat) :
    Spec false [] (getsum_loop (n + 1) type) := by
  refine Keeps.to_spec fun s0 => ?_
  rw [getsum_loop]
  repeat' first
    | with_reducible refine keeps_newlabel (fun _ _ => ?_)
    | with_reducible refine keeps_getS (fun _ _ => ?_)
    | with_reducible refine keeps_bind ?_ (fun _ => ?_)
    | with_reducible refine keeps_ite (fun _ => ?_) (fun _ => ?_)
    | with_reducible exact keeps_pure _
    | with_reducible exact gettoken_quiet.keeps_quiet
    | with_reducible exact rescantoken_quiet.keeps_quiet
    | with_reducible exact tokenstring_quiet.keeps_quiet
    | with_reducible exact tokennumber_quiet.keeps_quiet
    | with_reducible exact (tokenmode_quiet _).keeps_quiet
    | with_reducible exact (scanerror_quiet _).keeps_quiet
    | with_reducible exact getS_quiet.keeps_quiet
    | with_reducible exact outOfFuel_quiet.keeps_quiet
    | with_reducible exact math_error_quiet.keeps_quiet
    | with_reducible exact (symboltype_quiet _).keeps_quiet
    | with_reducible exact (getbuiltinfunc_quiet _).keeps_quiet
    | with_reducible exact (adduserfunc_quiet _).keeps_quiet
    | with_reducible exact (addelement_quiet _).keeps_quiet
    | with_reducible exact (checkobject_quiet _).keeps_quiet
    | with_reducible exact (defineobject_quiet _ _).keeps_quiet
    | with_reducible exact (addqconstant_quiet _).keeps_quiet
    | with_reducible exact (readlabel_quiet _).keeps_quiet
    | with_reducible exact (builtincheck_quiet _ _).keeps_quiet
    | with_reducible exact getid_quiet.keeps_quiet
    | with_reducible exact (definesymbol_quiet _ _).keeps_quiet
    | with_reducible exact (skipcommas_quiet _).keeps_quiet
    | with_reducible exact linenumber_quiet.keeps_quiet
    | with_reducible exact (addop_spec _).keeps_expr
    | with_reducible exact (addopone_spec _ _).keeps_expr
    | with_reducible exact (addoptwo_spec _ _ _).keeps_expr
    | with_reducible exact (addopptr_spec _ _).keeps_expr
    | with_reducible exact (addopfunction_spec _ _ _).keeps_expr
    | with_reducible exact clearopt_spec.keeps_expr
    | with_reducible exact writeindexop_spec.keeps_expr
    | with_reducible exact (usesymbol_spec _ _).keeps_expr
    | with_reducible exact getelement_spec.keeps_expr
    | with_reducible exact (getshiftexpr_loop_spec _).keeps_expr
    | with_reducible exact ih.getexprlist.keeps_expr
    | with_reducible exact (ih.getexprlist_loop _).keeps_expr
    | with_reducible exact ih.getassignment.keeps_expr
    | with_reducible exact ih.getaltcond.keeps_expr
    | with_reducible exact ih.getorcond.keeps_expr
    | with_reducible exact (ih.getorcond_loop _ _).keeps_label (by first | exact Or.inl (by assumption) | exact Or.inr (by simp))
    | with_reducible exact ih.getandcond.keeps_expr
    | with_reducible exact (ih.getandcond_loop _ _).keeps_label (by first | exact Or.inl (by assumption) | exact Or.inr (by simp))
    | with_reducible exact ih.getrelation.keeps_expr
    | with_reducible exact ih.getsum.keeps_expr
    | with_reducible exact (ih.getsum_loop _).keeps_expr
    | with_reducible exact ih.getproduct.keeps_expr
    | with_reducible exact (ih.getproduct_loop _).keeps_expr
    | with_reducible exact ih.getorexpr.keeps_expr
    | with_reducible exact (ih.getorexpr_loop _).keeps_expr
    | with_reducible exact ih.getandexpr.keeps_expr
    | with_reducible exact (ih.getandexpr_loop _).keeps_expr
    | with_reducible exact ih.getshiftexpr.keeps_expr
    | with_reducible exact ih.getterm.keeps_expr
    | with_reducible exact (ih.getidexpr _ _).keeps_expr
    | with_reducible exact (ih.getidexpr_loop _).keeps_expr
    | with_reducible exact ih.getmatargs.keeps_expr
    | with_reducible exact (ih.getmatargs_loop _).keeps_expr
    | with_reducible exact (ih.getcallargs _).keeps_expr
    | with_reducible exact (ih.getcallargs_loop _ _ _ _).keeps_expr
    | with_reducible exact (ih.getmatdeclaration _).keeps_expr
    | with_reducible exact (ih.getonematrix _).keeps_expr
    | with_reducible exact (ih.creatematrix _).keeps_expr
    | with_reducible exact ih.getinitlist.keeps_expr
    | with_reducible exact (ih.getinitlist_loop _ _).keeps_expr
    | with_reducible exact (ih.getobjdeclaration _).keeps_expr
    | with_reducible exact (ih.getobjdeclaration_loop _ _ _ _).keeps_expr
    | with_reducible exact (ih.getoneobj _ _).keeps_expr
    | with_reducible exact (ih.getobjvars _ _).keeps_expr
    | with_reducible exact (ih.getobjvars_loop _ _).keeps_expr
    | with_reducible exact (setlabel_spec _).keeps_label (by first | exact Or.inl (by assumption) | exact Or.inr (by simp))
    | with_reducible exact (addoplabel_spec _ _).keeps_label (by first | exact Or.inl (by assumption) | exact Or.inr (by simp))
    | with_reducible exact (clearlabel_spec _).keeps_label (by first | exact Or.inl (by assumption) | exact Or.inr (by simp))
    | exact patch_keeps _ _ _ _ _ (Nat.lt_succ_of_le (le_trans (Frame.ext (by assumption)).plen (plen_le _)))
    | dsimp only
    | split

set_option maxHeartbeats 1600000 in
theorem getproduct_frame_succ (n : Nat) (ih : ExprFrames n) :
    Spec false [] (getproduct (n + 1)) := by
  refine Keeps.to_spec fun s0 => ?_
  rw [getproduct]
  repeat' first
    | with_reducible refine keeps_newlabel (fun _ _ => ?_)
    | with_reducible refine keeps_getS (fun _ _ => ?_)
    | with_reducible refine keeps_bind ?_ (fun _ => ?_)
    | with_reducible refine keeps_ite (fun _ => ?_) (fun _ => ?_)
    | with_reducible exact keeps_pure _
    | with_reducible exact gettoken_quiet.keeps_quiet
    | with_reducible exact rescantoken_quiet.keeps_quiet
    | with_reducible exact tokenstring_quiet.keeps_quiet
    | with_reducible exact tokennumber_quiet.keeps_quiet
    | with_reducible exact (tokenmode_quiet _).keeps_quiet
    | with_reducible exact (scanerror_quiet _).keeps_quiet
    | with_reducible exact getS_quiet.keeps_quiet
    | with_reducible exact outOfFuel_quiet.keeps_quiet
    | with_reducible exact math_error_quiet.keeps_quiet
    | with_reducible exact (symboltype_quiet _).keeps_quiet
    | with_reducible exact (getbuiltinfunc_quiet _).keeps_quiet
    | with_reducible exact (adduserfunc_quiet _).keeps_quiet
    | with_reducible exact (addelement_quiet _).keeps_quiet
    | with_reducible exact (checkobject_quiet _).keeps_quiet
    | with_reducible exact (defineobject_quiet _ _).keeps_quiet
    | with_reducible exact (addqconstant_quiet _).keeps_quiet
    | with_reducible exact (readlabel_quiet _).keeps_quiet
    | with_reducible exact (builtincheck_quiet _ _).keeps_quiet
    | with_reducible exact getid_quiet.keeps_quiet
    | with_reducible exact (definesymbol_quiet _ _).keeps_quiet
    | with_reducible exact (skipcommas_quiet _).keeps_quiet
    | with_reducible exact linenumber_quiet.keeps_quiet
    | with_reducible exact (addop_spec _).keeps_expr
    | with_reducible exact (addopone_spec _ _).keeps_expr
    | with_reducible exact (addoptwo_spec _ _ _).keeps_expr
    | with_reducible exact (addopptr_spec _ _).keeps_expr
    | with_reducible exact (addopfunction_spec _ _ _).keeps_expr
    | with_reducible exact clearopt_spec.keeps_expr
    | with_reducible exact writeindexop_spec.keeps_expr
    | with_reducible exact (usesymbol_spec _ _).keeps_expr
    | with_reducible exact getelement_spec.keeps_expr
    | with_reducible exact (getshiftexpr_loop_spec _).keeps_expr
    | with_reducible exact ih.getexprlist.keeps_expr
    | with_reducible exact (ih.getexprlist_loop _).keeps_expr
    | with_reducible exact ih.getassignment.keeps_expr
    | with_reducible exact ih.getaltcond.keeps_expr
    | with_reducible exact ih.getorcond.keeps_expr
    | with_reducible exact (ih.getorcond_loop _ _).keeps_label (by first | exact Or.inl (by assumption) | exact Or.inr (by simp))
    | with_reducible exact ih.getandcond.keeps_expr
    | with_reducible exact (ih.getandcond_loop _ _).keeps_label (by first | exact Or.inl (by assumption) | exact Or.inr (by simp))
    | with_reducible exact ih.getrelation.keeps_expr
    | with_reducible exact ih.getsum.keeps_expr
    | with_reducible exact (ih.getsum_loop _).keeps_expr
    | with_reducible exact ih.getproduct.keeps_expr
    | with_reducible exact (ih.getproduct_loop _).keeps_expr
    | with_reducible exact ih.getorexpr.keeps_expr
    | with_reducible exact (ih.getorexpr_loop _).keeps_expr
    | with_reducible exact ih.getandexpr.keeps_expr
    | with_reducible exact (ih.getandexpr_loop _).keeps_expr
    | with_reducible exact ih.getshiftexpr.keeps_expr
    | with_reducible exact ih.getterm.keeps_expr
    | with_reducible exact (ih.getidexpr _ _).keeps_expr
    | with_reducible exact (ih.getidexpr_loop _).keeps_expr
    | with_reducible exact ih.getmatargs.keeps_expr
    | with_reducible exact (ih.getmatargs_loop _).keeps_expr
    | with_reducible exact (ih.getcallargs _).keeps_expr
    | with_reducible exact (ih.getcallargs_loop _ _ _ _).keeps_expr
    | with_reducible exact (ih.getmatdeclaration _).keeps_expr
    | with_reducible exact (ih.getonematrix _).keeps_expr
    | with_reducible exact (ih.creatematrix _).keeps_expr
    | with_reducible exact ih.getinitlist.keeps_expr
    | with_reducible exact (ih.getinitlist_loop _ _).keeps_expr
    | with_reducible exact (ih.getobjdeclaration _).keeps_expr
    | with_reducible exact (ih.getobjdeclaration_loop _ _ _ _).keeps_expr
    | with_reducible exact (ih.getoneobj _ _).keeps_expr
    | with_reducible exact (ih.getobjvars _ _).keeps_expr
    | with_reducible exact (ih.getobjvars_loop _ _).keeps_expr
    | with_reducible exact (setlabel_spec _).keeps_label (by first | exact Or.inl (by assumption) | exact Or.inr (by simp))
    | with_reducible exact (addoplabel_spec _ _).keeps_label (by first | exact Or.inl (by assumption) | exact Or.inr (by simp))
    | with_reducible exact (clearlabel_spec _).keeps_label (by first | exact Or.inl (by assumption) | exact Or.inr (by simp))
    | exact patch_keeps _ _ _ _ _ (Nat.lt_succ_of_le (le_trans (Frame.ext (by assumption)).plen (plen_le _)))
    | dsimp only
    | split

set_option maxHeartbeats 1600000 in
theorem getproduct_loop_frame_succ (n : Nat) (ih : ExprFrames n) (type : Nat) :
    Spec false [] (getproduct_loop (n + 1) type) := by
  refine Keeps.to_spec fun s0 => ?_
  rw [getproduct_loop]
  repeat' first
    | with_reducible refine keeps_newlabel (fun _ _ => ?_)
    | with_reducible refine keeps_getS (fun _ _ => ?_)
    | with_reducible refine keeps_bind ?_ (fun _ => ?_)
    | with_reducible refine keeps_ite (fun _ => ?_) (fun _ => ?_)
    | with_reducible exact keeps_pure _
    | with_reducible exact gettoken_quiet.keeps_quiet
    | with_reducible exact rescantoken_quiet.keeps_quiet
    | with_reducible exact tokenstring_quiet.keeps_quiet
    | with_reducible exact tokennumber_quiet.keeps_quiet
    | with_reducible exact (tokenmode_quiet _).keeps_quiet
    | with_reducible exact (scanerror_quiet _).keeps_quiet
    | with_reducible exact getS_quiet.keeps_quiet
    | with_reducible exact outOfFuel_quiet.keeps_quiet
    | with_reducible exact math_error_quiet.keeps_quiet
    | with_reducible exact (symboltype_quiet _).keeps_quiet
    | with_reducible exact (getbuiltinfunc_quiet _).keeps_quiet
    | with_reducible exact (adduserfunc_quiet _).keeps_quiet
    | with_reducible exact (addelement_quiet _).keeps_quiet
    | with_reducible exact (checkobject_quiet _).keeps_quiet
    | with_reducible exact (defineobject_quiet _ _).keeps_quiet
    | with_reducible exact (addqconstant_quiet _).keeps_quiet
    | with_reducible exact (readlabel_quiet _).keeps_quiet
    | with_reducible exact (builtincheck_quiet _ _).keeps_quiet
    | with_reducible exact getid_quiet.keeps_quiet
    | with_reducible exact (definesymbol_quiet _ _).keeps_quiet
    | with_reducible exact (skipcommas_quiet _).keeps_quiet
    | with_reducible exact linenumber_quiet.keeps_quiet
    | with_reducible exact (addop_spec _).keeps_expr
    | with_reducible exact (addopone_spec _ _).keeps_expr
    | with_reducible exact (addoptwo_spec _ _ _).keeps_expr
    | with_reducible exact (addopptr_spec _ _).keeps_expr
    | with_reducible exact (addopfunction_spec _ _ _).keeps_expr
    | with_reducible exact clearopt_spec.keeps_expr
    | with_reducible exact writeindexop_spec.keeps_expr
    | with_reducible exact (usesymbol_spec _ _).keeps_expr
    | with_reducible exact getelement_spec.keeps_expr
    | with_reducible exact (getshiftexpr_loop_spec _).keeps_expr
    | with_reducible exact ih.getexprlist.keeps_expr
    | with_reducible exact (ih.getexprlist_loop _).keeps_expr
    | with_reducible exact ih.getassignment.keeps_expr
    | with_reducible exact ih.getaltcond.keeps_expr
    | with_reducible exact ih.getorcond.keeps_expr
    | with_reducible exact (ih.getorcond_loop _ _).keeps_label (by first | exact Or.inl (by assumption) | exact Or.inr (by simp))
    | with_reducible exact ih.getandcond.keeps_expr
    | with_reducible exact (ih.getandcond_loop _ _).keeps_label (by first | exact Or.inl (by assumption) | exact Or.inr (by simp))
    | with_reducible exact ih.getrelation.keeps_expr
    | with_reducible exact ih.getsum.keeps_expr
    | with_reducible exact (ih.getsum_loop _).keeps_expr
    | with_reducible exact ih.getproduct.keeps_expr
    | with_reducible exact (ih.getproduct_loop _).keeps_expr
    | with_reducible exact ih.getorexpr.keeps_expr
    | with_reducible exact (ih.getorexpr_loop _).keeps_expr
    | with_reducible exact ih.getandexpr.keeps_expr
    | with_reducible exact (ih.getandexpr_loop _).keeps_expr
    | with_reducible exact ih.getshiftexpr.keeps_expr
    | with_reducible exact ih.getterm.keeps_expr
    | with_reducible exact (ih.getidexpr _ _).keeps_expr
    | with_reducible exact (ih.getidexpr_loop _).keeps_expr
    | with_reducible exact ih.getmatargs.keeps_expr
    | with_reducible exact (ih.getmatargs_loop _).keeps_expr
    | with_reducible exact (ih.getcallargs _).keeps_expr
    | with_reducible exact (ih.getcallargs_loop _ _ _ _).keeps_expr
    | with_reducible exact (ih.getmatdeclaration _).keeps_expr
    | with_reducible exact (ih.getonematrix _).keeps_expr
    | with_reducible exact (ih.creatematrix _).keeps_expr
    | with_reducible exact ih.getinitlist.keeps_expr
    | with_reducible exact (ih.getinitlist_loop _ _).keeps_expr
    | with_reducible exact (ih.getobjdeclaration _).keeps_expr
    | with_reducible exact (ih.getobjdeclaration_loop _ _ _ _).keeps_expr
    | with_reducible exact (ih.getoneobj _ _).keeps_expr
    | with_reducible exact (ih.getobjvars _ _).keeps_expr
    | with_reducible exact (ih.getobjvars_loop _ _).keeps_expr
    | with_reducible exact (setlabel_spec _).keeps_label (by first | exact Or.inl (by assumption) | exact Or.inr (by simp))
    | with_reducible exact (addoplabel_spec _ _).keeps_label (by first | exact Or.inl (by assumption) | exact Or.inr (by simp))
    | with_reducible exact (clearlabel_spec _).keeps_label (by first | exact Or.inl (by assumption) | exact Or.inr (by simp))
    | exact patch_keeps _ _ _ _ _ (Nat.lt_succ_of_le (le_trans (Frame.ext (by assumption)).plen (plen_le _)))
    | dsimp only
    | split

set_option maxHeartbeats 1600000 in
theorem getorexpr_frame_succ (n : Nat) (ih : ExprFrames n) :
    Spec false [] (getorexpr (n + 1)) := by
  refine Keeps.to_spec fun s0 => ?_
  rw [getorexpr]
  repeat' first
    | with_reducible refine keeps_newlabel (fun _ _ => ?_)
    | with_reducible refine keeps_getS (fun _ _ => ?_)
    | with_reducible refine keeps_bind ?_ (fun _ => ?_)
    | with_reducible refine keeps_ite (fun _ => ?_) (fun _ => ?_)
    | with_reducible exact keeps_pure _
    | with_reducible exact gettoken_quiet.keeps_quiet
    | with_reducible exact rescantoken_quiet.keeps_quiet
    | with_reducible exact tokenstring_quiet.keeps_quiet
    | with_reducible exact tokennumber_quiet.keeps_quiet
    | with_reducible exact (tokenmode_quiet _).keeps_quiet
    | with_reducible exact (scanerror_quiet _).keeps_quiet
    | with_reducible exact getS_quiet.keeps_quiet
    | with_reducible exact outOfFuel_quiet.keeps_quiet
    | with_reducible exact math_error_quiet.keeps_quiet
    | with_reducible exact (symboltype_quiet _).keeps_quiet
    | with_reducible exact (getbuiltinfunc_quiet _).keeps_quiet
    | with_reducible exact (adduserfunc_quiet _).keeps_quiet
    | with_reducible exact (addelement_quiet _).keeps_quiet
    | with_reducible exact (checkobject_quiet _).keeps_quiet
    | with_reducible exact (defineobject_quiet _ _).keeps_quiet
    | with_reducible exact (addqconstant_quiet _).keeps_quiet
    | with_reducible exact (readlabel_quiet _).keeps_quiet
    | with_reducible exact (builtincheck_quiet _ _).keeps_quiet
    | with_reducible exact getid_quiet.keeps_quiet
    | with_reducible exact (definesymbol_quiet _ _).keeps_quiet
    | with_reducible exact (skipcommas_quiet _).keeps_quiet
    | with_reducible exact linenumber_quiet.keeps_quiet
    | with_reducible exact (addop_spec _).keeps_expr
    | with_reducible exact (addopone_spec _ _).keeps_expr
    | with_reducible exact (addoptwo_spec _ _ _).keeps_expr
    | with_reducible exact (addopptr_spec _ _).keeps_expr
    | with_reducible exact (addopfunction_spec _ _ _).keeps_expr
    | with_reducible exact clearopt_spec.keeps_expr
    | with_reducible exact writeindexop_spec.keeps_expr
    | with_reducible exact (usesymbol_spec _ _).keeps_expr
    | with_reducible exact getelement_spec.keeps_expr
    | with_reducible exact (getshiftexpr_loop_spec _).keeps_expr
    | with_reducible exact ih.getexprlist.keeps_expr
    | with_reducible exact (ih.getexprlist_loop _).keeps_expr
    | with_reducible exact ih.getassignment.keeps_expr
    | with_reducible exact ih.getaltcond.keeps_expr
    | with_reducible exact ih.getorcond.keeps_expr
    | with_reducible exact (ih.getorcond_loop _ _).keeps_label (by first | exact Or.inl (by assumption) | exact Or.inr (by simp))
    | with_reducible exact ih.getandcond.keeps_expr
    | with_reducible exact (ih.getandcond_loop _ _).keeps_label (by first | exact Or.inl (by assumption) | exact Or.inr (by simp))
    | with_reducible exact ih.getrelation.keeps_expr
    | with_reducible exact ih.getsum.keeps_expr
    | with_reducible exact (ih.getsum_loop _).keeps_expr
    | with_reducible exact ih.getproduct.keeps_expr
    | with_reducible exact (ih.getproduct_loop _).keeps_expr
    | with_reducible exact ih.getorexpr.keeps_expr
    | with_reducible exact (ih.getorexpr_loop _).keeps_expr
    | with_reducible exact ih.getandexpr.keeps_expr
    | with_reducible exact (ih.getandexpr_loop _).keeps_expr
    | with_reducible exact ih.getshiftexpr.keeps_expr
    | with_reducible exact ih.getterm.keeps_expr
    | with_reducible exact (ih.getidexpr _ _).keeps_expr
    | with_reducible exact (ih.getidexpr_loop _).keeps_expr
    | with_reducible exact ih.getmatargs.keeps_expr
    | with_reducible exact (ih.getmatargs_loop _).keeps_expr
    | with_reducible exact (ih.getcallargs _).keeps_expr
    | with_reducible exact (ih.getcallargs_loop _ _ _ _).keeps_expr
    | with_reducible exact (ih.getmatdeclaration _).keeps_expr
    | with_reducible exact (ih.getonematrix _).keeps_expr
    | with_reducible exact (ih.creatematrix _).keeps_expr
    | with_reducible exact ih.getinitlist.keeps_expr
    | with_reducible exact (ih.getinitlist_loop _ _).keeps_expr
    | with_reducible exact (ih.getobjdeclaration _).keeps_expr
    | with_reducible exact (ih.getobjdeclaration_loop _ _ _ _).keeps_expr
    | with_reducible exact (ih.getoneobj _ _).keeps_expr
    | with_reducible exact (ih.getobjvars _ _).keeps_expr
    | with_reducible exact (ih.getobjvars_loop _ _).keeps_expr
    | with_reducible exact (setlabel_spec _).keeps_label (by first | exact Or.inl (by assumption) | exact Or.inr (by simp))
    | with_reducible exact (addoplabel_spec _ _).keeps_label (by first | exact Or.inl (by assumption) | exact Or.inr (by simp))
    | with_reducible exact (clearlabel_spec _).keeps_label (by first | exact Or.inl (by assumption) | exact Or.inr (by simp))
    | exact patch_keeps _ _ _ _ _ (Nat.lt_succ_of_le (le_trans (Frame.ext (by assumption)).plen (plen_le _)))
    | dsimp only
    | split

set_option maxHeartbeats 1600000 in
theorem getorexpr_loop_frame_succ (n : Nat) (ih : ExprFrames n) (type : Nat) :
    Spec false [] (getorexpr_loop (n + 1) type) := by
  refine Keeps.to_spec fun s0 => ?_
  rw [getorexpr_loop]
  repeat' first
    | with_reducible refine keeps_newlabel (fun _ _ => ?_)
    | with_reducible refine keeps_getS (fun _ _ => ?_)
    | with_reducible refine keeps_bind ?_ (fun _ => ?_)
    | with_reducible refine keeps_ite (fun _ => ?_) (fun _ => ?_)
    | with_reducible exact keeps_pure _
    | with_reducible exact gettoken_quiet.keeps_quiet
    | with_reducible exact rescantoken_quiet.keeps_quiet
    | with_reducible exact tokenstring_quiet.keeps_quiet
    | with_reducible exact tokennumber_quiet.keeps_quiet
    | with_reducible exact (tokenmode_quiet _).keeps_quiet
    | with_reducible exact (scanerror_quiet _).keeps_quiet
    | with_reducible exact getS_quiet.keeps_quiet
    | with_reducible exact outOfFuel_quiet.keeps_quiet
    | with_reducible exact math_error_quiet.keeps_quiet
    | with_reducible exact (symboltype_quiet _).keeps_quiet
    | with_reducible exact (getbuiltinfunc_quiet _).keeps_quiet
    | with_reducible exact (adduserfunc_quiet _).keeps_quiet
    | with_reducible exact (addelement_quiet _).keeps_quiet
    | with_reducible exact (checkobject_quiet _).keeps_quiet
    | with_reducible exact (defineobject_quiet _ _).keeps_quiet
    | with_reducible exact (addqconstant_quiet _).keeps_quiet
    | with_reducible exact (readlabel_quiet _).keeps_quiet
    | with_reducible exact (builtincheck_quiet _ _).keeps_quiet
    | with_reducible exact getid_quiet.keeps_quiet
    | with_reducible exact (definesymbol_quiet _ _).keeps_quiet
    | with_reducible exact (skipcommas_quiet _).keeps_quiet
    | with_reducible exact linenumber_quiet.keeps_quiet
    | with_reducible exact (addop_spec _).keeps_expr
    | with_reducible exact (addopone_spec _ _).keeps_expr
    | with_reducible exact (addoptwo_spec _ _ _).keeps_expr
    | with_reducible exact (addopptr_spec _ _).keeps_expr
    | with_reducible exact (addopfunction_spec _ _ _).keeps_expr
    | with_reducible exact clearopt_spec.keeps_expr
    | with_reducible exact writeindexop_spec.keeps_expr
    | with_reducible exact (usesymbol_spec _ _).keeps_expr
    | with_reducible exact getelement_spec.keeps_expr
    | with_reducible exact (getshiftexpr_loop_spec _).keeps_expr
    | with_reducible exact ih.getexprlist.keeps_expr
    | with_reducible exact (ih.getexprlist_loop _).keeps_expr
    | with_reducible exact ih.getassignment.keeps_expr
    | with_reducible exact ih.getaltcond.keeps_expr
    | with_reducible exact ih.getorcond.keeps_expr
    | with_reducible exact (ih.getorcond_loop _ _).keeps_label (by first | exact Or.inl (by assumption) | exact Or.inr (by simp))
    | with_reducible exact ih.getandcond.keeps_expr
    | with_reducible exact (ih.getandcond_loop _ _).keeps_label (by first | exact Or.inl (by assumption) | exact Or.inr (by simp))
    | with_reducible exact ih.getrelation.keeps_expr
    | with_reducible exact ih.getsum.keeps_expr
    | with_reducible exact (ih.getsum_loop _).keeps_expr
    | with_reducible exact ih.getproduct.keeps_expr
    | with_reducible exact (ih.getproduct_loop _).keeps_expr
    | with_reducible exact ih.getorexpr.keeps_expr
    | with_reducible exact (ih.getorexpr_loop _).keeps_expr
    | with_reducible exact ih.getandexpr.keeps_expr
    | with_reducible exact (ih.getandexpr_loop _).keeps_expr
    | with_reducible exact ih.getshiftexpr.keeps_expr
    | with_reducible exact ih.getterm.keeps_expr
    | with_reducible exact (ih.getidexpr _ _).keeps_expr
    | with_reducible exact (ih.getidexpr_loop _).keeps_expr
    | with_reducible exact ih.getmatargs.keeps_expr
    | with_reducible exact (ih.getmatargs_loop _).keeps_expr
    | with_reducible exact (ih.getcallargs _).keeps_expr
    | with_reducible exact (ih.getcallargs_loop _ _ _ _).keeps_expr
    | with_reducible exact (ih.getmatdeclaration _).keeps_expr
    | with_reducible exact (ih.getonematrix _).keeps_expr
    | with_reducible exact (ih.creatematrix _).keeps_expr
    | with_reducible exact ih.getinitlist.keeps_expr
    | with_reducible exact (ih.getinitlist_loop _ _).keeps_expr
    | with_reducible exact (ih.getobjdeclaration _).keeps_expr
    | with_reducible exact (ih.getobjdeclaration_loop _ _ _ _).keeps_expr
    | with_reducible exact (ih.getoneobj _ _).keeps_expr
    | with_reducible exact (ih.getobjvars _ _).keeps_expr
    | with_reducible exact (ih.getobjvars_loop _ _).keeps_expr
    | with_reducible exact (setlabel_spec _).keeps_label (by first | exact Or.inl (by assumption) | exact Or.inr (by simp))
    | with_reducible exact (addoplabel_spec _ _).keeps_label (by first | exact Or.inl (by assumption) | exact Or.inr (by simp))
    | with_reducible exact (clearlabel_spec _).keeps_label (by first | exact Or.inl (by assumption) | exact Or.inr (by simp))
    | exact patch_keeps _ _ _ _ _ (Nat.lt_succ_of_le (le_trans (Frame.ext (by assumption)).plen (plen_le _)))
    | dsimp only
    | split

set_option maxHeartbeats 1600000 in
theorem getandexpr_frame_succ (n : Nat) (ih : ExprFrames n) :
    Spec false [] (getandexpr (n + 1)) := by
  refine Keeps.to_spec fun s0 => ?_
  rw [getandexpr]
  repeat' first
    | with_reducible refine keeps_newlabel (fun _ _ => ?_)
    | with_reducible refine keeps_getS (fun _ _ => ?_)
    | with_reducible refine keeps_bind ?_ (fun _ => ?_)
    | with_reducible refine keeps_ite (fun _ => ?_) (fun _ => ?_)
    | with_reducible exact keeps_pure _
    | with_reducible exact gettoken_quiet.keeps_quiet
    | with_reducible exact rescantoken_quiet.keeps_quiet
    | with_reducible exact tokenstring_quiet.keeps_quiet
    | with_reducible exact tokennumber_quiet.keeps_quiet
    | with_reducible exact (tokenmode_quiet _).keeps_quiet
    | with_reducible exact (scanerror_quiet _).keeps_quiet
    | with_reducible exact getS_quiet.keeps_quiet
    | with_reducible exact outOfFuel_quiet.keeps_quiet
    | with_reducible exact math_error_quiet.keeps_quiet
    | with_reducible exact (symboltype_quiet _).keeps_quiet
    | with_reducible exact (getbuiltinfunc_quiet _).keeps_quiet
    | with_reducible exact (adduserfunc_quiet _).keeps_quiet
    | with_reducible exact (addelement_quiet _).keeps_quiet
    | with_reducible exact (checkobject_quiet _).keeps_quiet
    | with_reducible exact (defineobject_quiet _ _).keeps_quiet
    | with_reducible exact (addqconstant_quiet _).keeps_quiet
    | with_reducible exact (readlabel_quiet _).keeps_quiet
    | with_reducible exact (builtincheck_quiet _ _).keeps_quiet
    | with_reducible exact getid_quiet.keeps_quiet
    | with_reducible exact (definesymbol_quiet _ _).keeps_quiet
    | with_reducible exact (skipcommas_quiet _).keeps_quiet
    | with_reducible exact linenumber_quiet.keeps_quiet
    | with_reducible exact (addop_spec _).keeps_expr
    | with_reducible exact (addopone_spec _ _).keeps_expr
    | with_reducible exact (addoptwo_spec _ _ _).keeps_expr
    | with_reducible exact (addopptr_spec _ _).keeps_expr
    | with_reducible exact (addopfunction_spec _ _ _).keeps_expr
    | with_reducible exact clearopt_spec.keeps_expr
    | with_reducible exact writeindexop_spec.keeps_expr
    | with_reducible exact (usesymbol_spec _ _).keeps_expr
    | with_reducible exact getelement_spec.keeps_expr
    | with_reducible exact (getshiftexpr_loop_spec _).keeps_expr
    | with_reducible exact ih.getexprlist.keeps_expr
    | with_reducible exact (ih.getexprlist_loop _).keeps_expr
    | with_reducible exact ih.getassignment.keeps_expr
    | with_reducible exact ih.getaltcond.keeps_expr
    | with_reducible exact ih.getorcond.keeps_expr
    | with_reducible exact (ih.getorcond_loop _ _).keeps_label (by first | exact Or.inl (by assumption) | exact Or.inr (by simp))
    | with_reducible exact ih.getandcond.keeps_expr
    | with_reducible exact (ih.getandcond_loop _ _).keeps_label (by first | exact Or.inl (by assumption) | exact Or.inr (by simp))
    | with_reducible exact ih.getrelation.keeps_expr
    | with_reducible exact ih.getsum.keeps_expr
    | with_reducible exact (ih.getsum_loop _).keeps_expr
    | with_reducible exact ih.getproduct.keeps_expr
    | with_reducible exact (ih.getproduct_loop _).keeps_expr
    | with_reducible exact ih.getorexpr.keeps_expr
    | with_reducible exact (ih.getorexpr_loop _).keeps_expr
    | with_reducible exact ih.getandexpr.keeps_expr
    | with_reducible exact (ih.getandexpr_loop _).keeps_expr
    | with_reducible exact ih.getshiftexpr.keeps_expr
    | with_reducible exact ih.getterm.keeps_expr
    | with_reducible exact (ih.getidexpr _ _).keeps_expr
    | with_reducible exact (ih.getidexpr_loop _).keeps_expr
    | with_reducible exact ih.getmatargs.keeps_expr
    | with_reducible exact (ih.getmatargs_loop _).keeps_expr
    | with_reducible exact (ih.getcallargs _).keeps_expr
    | with_reducible exact (ih.getcallargs_loop _ _ _ _).keeps_expr
    | with_reducible exact (ih.getmatdeclaration _).keeps_expr
    | with_reducible exact (ih.getonematrix _).keeps_expr
    | with_reducible exact (ih.creatematrix _).keeps_expr
    | with_reducible exact ih.getinitlist.keeps_expr
    | with_reducible exact (ih.getinitlist_loop _ _).keeps_expr
    | with_reducible exact (ih.getobjdeclaration _).keeps_expr
    | with_reducible exact (ih.getobjdeclaration_loop _ _ _ _).keeps_expr
    | with_reducible exact (ih.getoneobj _ _).keeps_expr
    | with_reducible exact (ih.getobjvars _ _).keeps_expr
    | with_reducible exact (ih.getobjvars_loop _ _).keeps_expr
    | with_reducible exact (setlabel_spec _).keeps_label (by first | exact Or.inl (by assumption) | exact Or.inr (by simp))
    | with_reducible exact (addoplabel_spec _ _).keeps_label (by first | exact Or.inl (by assumption) | exact Or.inr (by simp))
    | with_reducible exact (clearlabel_spec _).keeps_label (by first | exact Or.inl (by assumption) | exact Or.inr (by simp))
    | exact patch_keeps _ _ _ _ _ (Nat.lt_succ_of_le (le_trans (Frame.ext (by assumption)).plen (plen_le _)))
    | dsimp only
    | split

set_option maxHeartbeats 1600000 in
theorem getandexpr_loop_frame_succ (n : Nat) (ih : ExprFrames n) (type : Nat) :
    Spec false [] (getandexpr_loop (n + 1) type) := by
  refine Keeps.to_spec fun s0 => ?_
  rw [getandexpr_loop]
  repeat' first
    | with_reducible refine keeps_newlabel (fun _ _ => ?_)
    | with_reducible refine keeps_getS (fun _ _ => ?_)
    | with_reducible refine keeps_bind ?_ (fun _ => ?_)
    | with_reducible refine keeps_ite (fun _ => ?_) (fun _ => ?_)
    | with_reducible exact keeps_pure _
    | with_reducible exact gettoken_quiet.keeps_quiet
    | with_reducible exact rescantoken_quiet.keeps_quiet
    | with_reducible exact tokenstring_quiet.keeps_quiet
    | with_reducible exact tokennumber_quiet.keeps_quiet
    | with_reducible exact (tokenmode_quiet _).keeps_quiet
    | with_reducible exact (scanerror_quiet _).keeps_quiet
    | with_reducible exact getS_quiet.keeps_quiet
    | with_reducible exact outOfFuel_quiet.keeps_quiet
    | with_reducible exact math_error_quiet.keeps_quiet
    | with_reducible exact (symboltype_quiet _).keeps_quiet
    | with_reducible exact (getbuiltinfunc_quiet _).keeps_quiet
    | with_reducible exact (adduserfunc_quiet _).keeps_quiet
    | with_reducible exact (addelement_quiet _).keeps_quiet
    | with_reducible exact (checkobject_quiet _).keeps_quiet
    | with_reducible exact (defineobject_quiet _ _).keeps_quiet
    | with_reducible exact (addqconstant_quiet _).keeps_quiet
    | with_reducible exact (readlabel_quiet _).keeps_quiet
    | with_reducible exact (builtincheck_quiet _ _).keeps_quiet
    | with_reducible exact getid_quiet.keeps_quiet
    | with_reducible exact (definesymbol_quiet _ _).keeps_quiet
    | with_reducible exact (skipcommas_quiet _).keeps_quiet
    | with_reducible exact linenumber_quiet.keeps_quiet
    | with_reducible exact (addop_spec _).keeps_expr
    | with_reducible exact (addopone_spec _ _).keeps_expr
    | with_reducible exact (addoptwo_spec _ _ _).keeps_expr
    | with_reducible exact (addopptr_spec _ _).keeps_expr
    | with_reducible exact (addopfunction_spec _ _ _).keeps_expr
    | with_reducible exact clearopt_spec.keeps_expr
    | with_reducible exact writeindexop_spec.keeps_expr
    | with_reducible exact (usesymbol_spec _ _).keeps_expr
    | with_reducible exact getelement_spec.keeps_expr
    | with_reducible exact (getshiftexpr_loop_spec _).keeps_expr
    | with_reducible exact ih.getexprlist.keeps_expr
    | with_reducible exact (ih.getexprlist_loop _).keeps_expr
    | with_reducible exact ih.getassignment.keeps_expr
    | with_reducible exact ih.getaltcond.keeps_expr
    | with_reducible exact ih.getorcond.keeps_expr
    | with_reducible exact (ih.getorcond_loop _ _).keeps_label (by first | exact Or.inl (by assumption) | exact Or.inr (by simp))
    | with_reducible exact ih.getandcond.keeps_expr
    | with_reducible exact (ih.getandcond_loop _ _).keeps_label (by first | exact Or.inl (by assumption) | exact Or.inr (by simp))
    | with_reducible exact ih.getrelation.keeps_expr
    | with_reducible exact ih.getsum.keeps_expr
    | with_reducible exact (ih.getsum_loop _).keeps_expr
    | with_reducible exact ih.getproduct.keeps_expr
    | with_reducible exact (ih.getproduct_loop _).keeps_expr
    | with_reducible exact ih.getorexpr.keeps_expr
    | with_reducible exact (ih.getorexpr_loop _).keeps_expr
    | with_reducible exact ih.getandexpr.keeps_expr
    | with_reducible exact (ih.getandexpr_loop _).keeps_expr
    | with_reducible exact ih.getshiftexpr.keeps_expr
    | with_reducible exact ih.getterm.keeps_expr
    | with_reducible exact (ih.getidexpr _ _).keeps_expr
    | with_reducible exact (ih.getidexpr_loop _).keeps_expr
    | with_reducible exact ih.getmatargs.keeps_expr
    | with_reducible exact (ih.getmatargs_loop _).keeps_expr
    | with_reducible exact (ih.getcallargs _).keeps_expr
    | with_reducible exact (ih.getcallargs_loop _ _ _ _).keeps_expr
    | with_reducible exact (ih.getmatdeclaration _).keeps_expr
    | with_reducible exact (ih.getonematrix _).keeps_expr
    | with_reducible exact (ih.creatematrix _).keeps_expr
    | with_reducible exact ih.getinitlist.keeps_expr
    | with_reducible exact (ih.getinitlist_loop _ _).keeps_expr
    | with_reducible exact (ih.getobjdeclaration _).keeps_expr
    | with_reducible exact (ih.getobjdeclaration_loop _ _ _ _).keeps_expr
    | with_reducible exact (ih.getoneobj _ _).keeps_expr
    | with_reducible exact (ih.getobjvars _ _).keeps_expr
    | with_reducible exact (ih.getobjvars_loop _ _).keeps_expr
    | with_reducible exact (setlabel_spec _).keeps_label (by first | exact Or.inl (by assumption) | exact Or.inr (by simp))
    | with_reducible exact (addoplabel_spec _ _).keeps_label (by first | exact Or.inl (by assumption) | exact Or.inr (by simp))
    | with_reducible exact (clearlabel_spec _).keeps_label (by first | exact Or.inl (by assumption) | exact Or.inr (by simp))
    | exact patch_keeps _ _ _ _ _ (Nat.lt_succ_of_le (le_trans (Frame.ext (by assumption)).plen (plen_le _)))
    | dsimp only
    | split

set_option maxHeartbeats 1600000 in
theorem getshiftexpr_frame_succ (n : Nat) (ih : ExprFrames n) :
    Spec false [] (getshiftexpr (n + 1)) := by
  refine Keeps.to_spec fun s0 => ?_
  rw [getshiftexpr]
  repeat' first
    | with_reducible refine keeps_newlabel (fun _ _ => ?_)
    | with_reducible refine keeps_getS (fun _ _ => ?_)
    | with_reducible refine keeps_bind ?_ (fun _ => ?_)
    | with_reducible refine keeps_ite (fun _ => ?_) (fun _ => ?_)
    | with_reducible exact keeps_pure _
    | with_reducible exact gettoken_quiet.keeps_quiet
    | with_reducible exact rescantoken_quiet.keeps_quiet
    | with_reducible exact tokenstring_quiet.keeps_quiet
    | with_reducible exact tokennumber_quiet.keeps_quiet
    | with_reducible exact (tokenmode_quiet _).keeps_quiet
    | with_reducible exact (scanerror_quiet _).keeps_quiet
    | with_reducible exact getS_quiet.keeps_quiet
    | with_reducible exact outOfFuel_quiet.keeps_quiet
    | with_reducible exact math_error_quiet.keeps_quiet
    | with_reducible exact (symboltype_quiet _).keeps_quiet
    | with_reducible exact (getbuiltinfunc_quiet _).keeps_quiet
    | with_reducible exact (adduserfunc_quiet _).keeps_quiet
    | with_reducible exact (addelement_quiet _).keeps_quiet
    | with_reducible exact (checkobject_quiet _).keeps_quiet
    | with_reducible exact (defineobject_quiet _ _).keeps_quiet
    | with_reducible exact (addqconstant_quiet _).keeps_quiet
    | with_reducible exact (readlabel_quiet _).keeps_quiet
    | with_reducible exact (builtincheck_quiet _ _).keeps_quiet
    | with_reducible exact getid_quiet.keeps_quiet
    | with_reducible exact (definesymbol_quiet _ _).keeps_quiet
    | with_reducible exact (skipcommas_quiet _).keeps_quiet
    | with_reducible exact linenumber_quiet.keeps_quiet
    | with_reducible exact (addop_spec _).keeps_expr
    | with_reducible exact (addopone_spec _ _).keeps_expr
    | with_reducible exact (addoptwo_spec _ _ _).keeps_expr
    | with_reducible exact (addopptr_spec _ _).keeps_expr
    | with_reducible exact (addopfunction_spec _ _ _).keeps_expr
    | with_reducible exact clearopt_spec.keeps_expr
    | with_reducible exact writeindexop_spec.keeps_expr
    | with_reducible exact (usesymbol_spec _ _).keeps_expr
    | with_reducible exact getelement_spec.keeps_expr
    | with_reducible exact (getshiftexpr_loop_spec _).keeps_expr
    | with_reducible exact ih.getexprlist.keeps_expr
    | with_reducible exact (ih.getexprlist_loop _).keeps_expr
    | with_reducible exact ih.getassignment.keeps_expr
    | with_reducible exact ih.getaltcond.keeps_expr
    | with_reducible exact ih.getorcond.keeps_expr
    | with_reducible exact (ih.getorcond_loop _ _).keeps_label (by first | exact Or.inl (by assumption) | exact Or.inr (by simp))
    | with_reducible exact ih.getandcond.keeps_expr
    | with_reducible exact (ih.getandcond_loop _ _).keeps_label (by first | exact Or.inl (by assumption) | exact Or.inr (by simp))
    | with_reducible exact ih.getrelation.keeps_expr
    | with_reducible exact ih.getsum.keeps_expr
    | with_reducible exact (ih.getsum_loop _).keeps_expr
    | with_reducible exact ih.getproduct.keeps_expr
    | with_reducible exact (ih.getproduct_loop _).keeps_expr
    | with_reducible exact ih.getorexpr.keeps_expr
    | with_reducible exact (ih.getorexpr_loop _).keeps_expr
    | with_reducible exact ih.getandexpr.keeps_expr
    | with_reducible exact (ih.getandexpr_loop _).keeps_expr
    | with_reducible exact ih.getshiftexpr.keeps_expr
    | with_reducible exact ih.getterm.keeps_expr
    | with_reducible exact (ih.getidexpr _ _).keeps_expr
    | with_reducible exact (ih.getidexpr_loop _).keeps_expr
    | with_reducible exact ih.getmatargs.keeps_expr
    | with_reducible exact (ih.getmatargs_loop _).keeps_expr
    | with_reducible exact (ih.getcallargs _).keeps_expr
    | with_reducible exact (ih.getcallargs_loop _ _ _ _).keeps_expr
    | with_reducible exact (ih.getmatdeclaration _).keeps_expr
    | with_reducible exact (ih.getonematrix _).keeps_expr
    | with_reducible exact (ih.creatematrix _).keeps_expr
    | with_reducible exact ih.getinitlist.keeps_expr
    | with_reducible exact (ih.getinitlist_loop _ _).keeps_expr
    | with_reducible exact (ih.getobjdeclaration _).keeps_expr
    | with_reducible exact (ih.getobjdeclaration_loop _ _ _ _).keeps_expr
    | with_reducible exact (ih.getoneobj _ _).keeps_expr
    | with_reducible exact (ih.getobjvars _ _).keeps_expr
    | with_reducible exact (ih.getobjvars_loop _ _).keeps_expr
    | with_reducible exact (setlabel_spec _).keeps_label (by first | exact Or.inl (by assumption) | exact Or.inr (by simp))
    | with_reducible exact (addoplabel_spec _ _).keeps_label (by first | exact Or.inl (by assumption) | exact Or.inr (by simp))
    | with_reducible exact (clearlabel_spec _).keeps_label (by first | exact Or.inl (by assumption) | exact Or.inr (by simp))
    | exact patch_keeps _ _ _ _ _ (Nat.lt_succ_of_le (le_trans (Frame.ext (by assumption)).plen (plen_le _)))
    | dsimp only
    | split

set_option maxHeartbeats 1600000 in
theorem getterm_frame_succ (n : Nat) (ih : ExprFrames n) :
    Spec false [] (getterm (n + 1)) := by
  refine Keeps.to_spec fun s0 => ?_
  rw [getterm]
  repeat' first
    | with_reducible refine keeps_newlabel (fun _ _ => ?_)
    | with_reducible refine keeps_getS (fun _ _ => ?_)
    | with_reducible refine keeps_bind ?_ (fun _ => ?_)
    | with_reducible refine keeps_ite (fun _ => ?_) (fun _ => ?_)
    | with_reducible exact keeps_pure _
    | with_reducible exact gettoken_quiet.keeps_quiet
    | with_reducible exact rescantoken_quiet.keeps_quiet
    | with_reducible exact tokenstring_quiet.keeps_quiet
    | with_reducible exact tokennumber_quiet.keeps_quiet
    | with_reducible exact (tokenmode_quiet _).keeps_quiet
    | with_reducible exact (scanerror_quiet _).keeps_quiet
    | with_reducible exact getS_quiet.keeps_quiet
    | with_reducible exact outOfFuel_quiet.keeps_quiet
    | with_reducible exact math_error_quiet.keeps_quiet
    | with_reducible exact (symboltype_quiet _).keeps_quiet
    | with_reducible exact (getbuiltinfunc_quiet _).keeps_quiet
    | with_reducible exact (adduserfunc_quiet _).keeps_quiet
    | with_reducible exact (addelement_quiet _).keeps_quiet
    | with_reducible exact (checkobject_quiet _).keeps_quiet
    | with_reducible exact (defineobject_quiet _ _).keeps_quiet
    | with_reducible exact (addqconstant_quiet _).keeps_quiet
    | with_reducible exact (readlabel_quiet _).keeps_quiet
    | with_reducible exact (builtincheck_quiet _ _).keeps_quiet
    | with_reducible exact getid_quiet.keeps_quiet
    | with_reducible exact (definesymbol_quiet _ _).keeps_quiet
    | with_reducible exact (skipcommas_quiet _).keeps_quiet
    | with_reducible exact linenumber_quiet.keeps_quiet
    | with_reducible exact (addop_spec _).keeps_expr
    | with_reducible exact (addopone_spec _ _).keeps_expr
    | with_reducible exact (addoptwo_spec _ _ _).keeps_expr
    | with_reducible exact (addopptr_spec _ _).keeps_expr
    | with_reducible exact (addopfunction_spec _ _ _).keeps_expr
    | with_reducible exact clearopt_spec.keeps_expr
    | with_reducible exact writeindexop_spec.keeps_expr
    | with_reducible exact (usesymbol_spec _ _).keeps_expr
    | with_reducible exact getelement_spec.keeps_expr
    | with_reducible exact (getshiftexpr_loop_spec _).keeps_expr
    | with_reducible exact ih.getexprlist.keeps_expr
    | with_reducible exact (ih.getexprlist_loop _).keeps_expr
    | with_reducible exact ih.getassignment.keeps_expr
    | with_reducible exact ih.getaltcond.keeps_expr
    | with_reducible exact ih.getorcond.keeps_expr
    | with_reducible exact (ih.getorcond_loop _ _).keeps_label (by first | exact Or.inl (by assumption) | exact Or.inr (by simp))
    | with_reducible exact ih.getandcond.keeps_expr
    | with_reducible exact (ih.getandcond_loop _ _).keeps_label (by first | exact Or.inl (by assumption) | exact Or.inr (by simp))
    | with_reducible exact ih.getrelation.keeps_expr
    | with_reducible exact ih.getsum.keeps_expr
    | with_reducible exact (ih.getsum_loop _).keeps_expr
    | with_reducible exact ih.getproduct.keeps_expr
    | with_reducible exact (ih.getproduct_loop _).keeps_expr
    | with_reducible exact ih.getorexpr.keeps_expr
    | with_reducible exact (ih.getorexpr_loop _).keeps_expr
    | with_reducible exact ih.getandexpr.keeps_expr
    | with_reducible exact (ih.getandexpr_loop _).keeps_expr
    | with_reducible exact ih.getshiftexpr.keeps_expr
    | with_reducible exact ih.getterm.keeps_expr
    | with_reducible exact (ih.getidexpr _ _).keeps_expr
    | with_reducible exact (ih.getidexpr_loop _).keeps_expr
    | with_reducible exact ih.getmatargs.keeps_expr
    | with_reducible exact (ih.getmatargs_loop _).keeps_expr
    | with_reducible exact (ih.getcallargs _).keeps_expr
    | with_reducible exact (ih.getcallargs_loop _ _ _ _).keeps_expr
    | with_reducible exact (ih.getmatdeclaration _).keeps_expr
    | with_reducible exact (ih.getonematrix _).keeps_expr
    | with_reducible exact (ih.creatematrix _).keeps_expr
    | with_reducible exact ih.getinitlist.keeps_expr
    | with_reducible exact (ih.getinitlist_loop _ _).keeps_expr
    | with_reducible exact (ih.getobjdeclaration _).keeps_expr
    | with_reducible exact (ih.getobjdeclaration_loop _ _ _ _).keeps_expr
    | with_reducible exact (ih.getoneobj _ _).keeps_expr
    | with_reducible exact (ih.getobjvars _ _).keeps_expr
    | with_reducible exact (ih.getobjvars_loop _ _).keeps_expr
    | with_reducible exact (setlabel_spec _).keeps_label (by first | exact Or.inl (by assumption) | exact Or.inr (by simp))
    | with_reducible exact (addoplabel_spec _ _).keeps_label (by first | exact Or.inl (by assumption) | exact Or.inr (by simp))
    | with_reducible exact (clearlabel_spec _).keeps_label (by first | exact Or.inl (by assumption) | exact Or.inr (by simp))
    | exact patch_keeps _ _ _ _ _ (Nat.lt_succ_of_le (le_trans (Frame.ext (by assumption)).plen (plen_le _)))
    | dsimp only
    | split

set_option maxHeartbeats 1600000 in
theorem getidexpr_frame_succ (n : Nat) (ih : ExprFrames n) (okmat : Bool) (autodef : Bool) :
    Spec false [] (getidexpr (n + 1) okmat autodef) := by
  refine Keeps.to_spec fun s0 => ?_
  rw [getidexpr]
  repeat' first
    | with_reducible refine keeps_newlabel (fun _ _ => ?_)
    | with_reducible refine keeps_getS (fun _ _ => ?_)
    | with_reducible refine keeps_bind ?_ (fun _ => ?_)
    | with_reducible refine keeps_ite (fun _ => ?_) (fun _ => ?_)
    | with_reducible exact keeps_pure _
    | with_reducible exact gettoken_quiet.keeps_quiet
    | with_reducible exact rescantoken_quiet.keeps_quiet
    | with_reducible exact tokenstring_quiet.keeps_quiet
    | with_reducible exact tokennumber_quiet.keeps_quiet
    | with_reducible exact (tokenmode_quiet _).keeps_quiet
    | with_reducible exact (scanerror_quiet _).keeps_quiet
    | with_reducible exact getS_quiet.keeps_quiet
    | with_reducible exact outOfFuel_quiet.keeps_quiet
    | with_reducible exact math_error_quiet.keeps_quiet
    | with_reducible exact (symboltype_quiet _).keeps_quiet
    | with_reducible exact (getbuiltinfunc_quiet _).keeps_quiet
    | with_reducible exact (adduserfunc_quiet _).keeps_quiet
    | with_reducible exact (addelement_quiet _).keeps_quiet
    | with_reducible exact (checkobject_quiet _).keeps_quiet
    | with_reducible exact (defineobject_quiet _ _).keeps_quiet
    | with_reducible exact (addqconstant_quiet _).keeps_quiet
    | with_reducible exact (readlabel_quiet _).keeps_quiet
    | with_reducible exact (builtincheck_quiet _ _).keeps_quiet
    | with_reducible exact getid_quiet.keeps_quiet
    | with_reducible exact (definesymbol_quiet _ _).keeps_quiet
    | with_reducible exact (skipcommas_quiet _).keeps_quiet
    | with_reducible exact linenumber_quiet.keeps_quiet
    | with_reducible exact (addop_spec _).keeps_expr
    | with_reducible exact (addopone_spec _ _).keeps_expr
    | with_reducible exact (addoptwo_spec _ _ _).keeps_expr
    | with_reducible exact (addopptr_spec _ _).keeps_expr
    | with_reducible exact (addopfunction_spec _ _ _).keeps_expr
    | with_reducible exact clearopt_spec.keeps_expr
    | with_reducible exact writeindexop_spec.keeps_expr
    | with_reducible exact (usesymbol_spec _ _).keeps_expr
    | with_reducible exact getelement_spec.keeps_expr
    | with_reducible exact (getshiftexpr_loop_spec _).keeps_expr
    | with_reducible exact ih.getexprlist.keeps_expr
    | with_reducible exact (ih.getexprlist_loop _).keeps_expr
    | with_reducible exact ih.getassignment.keeps_expr
    | with_reducible exact ih.getaltcond.keeps_expr
    | with_reducible exact ih.getorcond.keeps_expr
    | with_reducible exact (ih.getorcond_loop _ _).keeps_label (by first | exact Or.inl (by assumption) | exact Or.inr (by simp))
    | with_reducible exact ih.getandcond.keeps_expr
    | with_reducible exact (ih.getandcond_loop _ _).keeps_label (by first | exact Or.inl (by assumption) | exact Or.inr (by simp))
    | with_reducible exact ih.getrelation.keeps_expr
    | with_reducible exact ih.getsum.keeps_expr
    | with_reducible exact (ih.getsum_loop _).keeps_expr
    | with_reducible exact ih.getproduct.keeps_expr
    | with_reducible exact (ih.getproduct_loop _).keeps_expr
    | with_reducible exact ih.getorexpr.keeps_expr
    | with_reducible exact (ih.getorexpr_loop _).keeps_expr
    | with_reducible exact ih.getandexpr.keeps_expr
    | with_reducible exact (ih.getandexpr_loop _).keeps_expr
    | with_reducible exact ih.getshiftexpr.keeps_expr
    | with_reducible exact ih.getterm.keeps_expr
    | with_reducible exact (ih.getidexpr _ _).keeps_expr
    | with_reducible exact (ih.getidexpr_loop _).keeps_expr
    | with_reducible exact ih.getmatargs.keeps_expr
    | with_reducible exact (ih.getmatargs_loop _).keeps_expr
    | with_reducible exact (ih.getcallargs _).keeps_expr
    | with_reducible exact (ih.getcallargs_loop _ _ _ _).keeps_expr
    | with_reducible exact (ih.getmatdeclaration _).keeps_expr
    | with_reducible exact (ih.getonematrix _).keeps_expr
    | with_reducible exact (ih.creatematrix _).keeps_expr
    | with_reducible exact ih.getinitlist.keeps_expr
    | with_reducible exact (ih.getinitlist_loop _ _).keeps_expr
    | with_reducible exact (ih.getobjdeclaration _).keeps_expr
    | with_reducible exact (ih.getobjdeclaration_loop _ _ _ _).keeps_expr
    | with_reducible exact (ih.getoneobj _ _).keeps_expr
    | with_reducible exact (ih.getobjvars _ _).keeps_expr
    | with_reducible exact (ih.getobjvars_loop _ _).keeps_expr
    | with_reducible exact (setlabel_spec _).keeps_label (by first | exact Or.inl (by assumption) | exact Or.inr (by simp))
    | with_reducible exact (addoplabel_spec _ _).keeps_label (by first | exact Or.inl (by assumption) | exact Or.inr (by simp))
    | with_reducible exact (clearlabel_spec _).keeps_label (by first | exact Or.inl (by assumption) | exact Or.inr (by simp))
    | exact patch_keeps _ _ _ _ _ (Nat.lt_succ_of_le (le_trans (Frame.ext (by assumption)).plen (plen_le _)))
    | dsimp only
    | split

set_option maxHeartbeats 1600000 in
theorem getidexpr_loop_frame_succ (n : Nat) (ih : ExprFrames n) (okmat : Bool) :
    Spec false [] (getidexpr_loop (n + 1) okmat) := by
  refine Keeps.to_spec fun s0 => ?_
  rw [getidexpr_loop]
  repeat' first
    | with_reducible refine keeps_newlabel (fun _ _ => ?_)
    | with_reducible refine keeps_getS (fun _ _ => ?_)
    | with_reducible refine keeps_bind ?_ (fun _ => ?_)
    | with_reducible refine keeps_ite (fun _ => ?_) (fun _ => ?_)
    | with_reducible exact keeps_pure _
    | with_reducible exact gettoken_quiet.keeps_quiet
    | with_reducible exact rescantoken_quiet.keeps_quiet
    | with_reducible exact tokenstring_quiet.keeps_quiet
    | with_reducible exact tokennumber_quiet.keeps_quiet
    | with_reducible exact (tokenmode_quiet _).keeps_quiet
    | with_reducible exact (scanerror_quiet _).keeps_quiet
    | with_reducible exact getS_quiet.keeps_quiet
    | with_reducible exact outOfFuel_quiet.keeps_quiet
    | with_reducible exact math_error_quiet.keeps_quiet
    | with_reducible exact (symboltype_quiet _).keeps_quiet
    | with_reducible exact (getbuiltinfunc_quiet _).keeps_quiet
    | with_reducible exact (adduserfunc_quiet _).keeps_quiet
    | with_reducible exact (addelement_quiet _).keeps_quiet
    | with_reducible exact (checkobject_quiet _).keeps_quiet
    | with_reducible exact (defineobject_quiet _ _).keeps_quiet
    | with_reducible exact (addqconstant_quiet _).keeps_quiet
    | with_reducible exact (readlabel_quiet _).keeps_quiet
    | with_reducible exact (builtincheck_quiet _ _).keeps_quiet
    | with_reducible exact getid_quiet.keeps_quiet
    | with_reducible exact (definesymbol_quiet _ _).keeps_quiet
    | with_reducible exact (skipcommas_quiet _).keeps_quiet
    | with_reducible exact linenumber_quiet.keeps_quiet
    | with_reducible exact (addop_spec _).keeps_expr
    | with_reducible exact (addopone_spec _ _).keeps_expr
    | with_reducible exact (addoptwo_spec _ _ _).keeps_expr
    | with_reducible exact (addopptr_spec _ _).keeps_expr
    | with_reducible exact (addopfunction_spec _ _ _).keeps_expr
    | with_reducible exact clearopt_spec.keeps_expr
    | with_reducible exact writeindexop_spec.keeps_expr
    | with_reducible exact (usesymbol_spec _ _).keeps_expr
    | with_reducible exact getelement_spec.keeps_expr
    | with_reducible exact (getshiftexpr_loop_spec _).keeps_expr
    | with_reducible exact ih.getexprlist.keeps_expr
    | with_reducible exact (ih.getexprlist_loop _).keeps_expr
    | with_reducible exact ih.getassignment.keeps_expr
    | with_reducible exact ih.getaltcond.keeps_expr
    | with_reducible exact ih.getorcond.keeps_expr
    | with_reducible exact (ih.getorcond_loop _ _).keeps_label (by first | exact Or.inl (by assumption) | exact Or.inr (by simp))
    | with_reducible exact ih.getandcond.keeps_expr
    | with_reducible exact (ih.getandcond_loop _ _).keeps_label (by first | exact Or.inl (by assumption) | exact Or.inr (by simp))
    | with_reducible exact ih.getrelation.keeps_expr
    | with_reducible exact ih.getsum.keeps_expr
    | with_reducible exact (ih.getsum_loop _).keeps_expr
    | with_reducible exact ih.getproduct.keeps_expr
    | with_reducible exact (ih.getproduct_loop _).keeps_expr
    | with_reducible exact ih.getorexpr.keeps_expr
    | with_reducible exact (ih.getorexpr_loop _).keeps_expr
    | with_reducible exact ih.getandexpr.keeps_expr
    | with_reducible exact (ih.getandexpr_loop _).keeps_expr
    | with_reducible exact ih.getshiftexpr.keeps_expr
    | with_reducible exact ih.getterm.keeps_expr
    | with_reducible exact (ih.getidexpr _ _).keeps_expr
    | with_reducible exact (ih.getidexpr_loop _).keeps_expr
    | with_reducible exact ih.getmatargs.keeps_expr
    | with_reducible exact (ih.getmatargs_loop _).keeps_expr
    | with_reducible exact (ih.getcallargs _).keeps_expr
    | with_reducible exact (ih.getcallargs_loop _ _ _ _).keeps_expr
    | with_reducible exact (ih.getmatdeclaration _).keeps_expr
    | with_reducible exact (ih.getonematrix _).keeps_expr
    | with_reducible exact (ih.creatematrix _).keeps_expr
    | with_reducible exact ih.getinitlist.keeps_expr
    | with_reducible exact (ih.getinitlist_loop _ _).keeps_expr
    | with_reducible exact (ih.getobjdeclaration _).keeps_expr
    | with_reducible exact (ih.getobjdeclaration_loop _ _ _ _).keeps_expr
    | with_reducible exact (ih.getoneobj _ _).keeps_expr
    | with_reducible exact (ih.getobjvars _ _).keeps_expr
    | with_reducible exact (ih.getobjvars_loop _ _).keeps_expr
    | with_reducible exact (setlabel_spec _).keeps_label (by first | exact Or.inl (by assumption) | exact Or.inr (by simp))
    | with_reducible exact (addoplabel_spec _ _).keeps_label (by first | exact Or.inl (by assumption) | exact Or.inr (by simp))
    | with_reducible exact (clearlabel_spec _).keeps_label (by first | exact Or.inl (by assumption) | exact Or.inr (by simp))
    | exact patch_keeps _ _ _ _ _ (Nat.lt_succ_of_le (le_trans (Frame.ext (by assumption)).plen (plen_le _)))
    | dsimp only
    | split

set_option maxHeartbeats 1600000 in
theorem getmatargs_frame_succ (n : Nat) (ih : ExprFrames n) :
    Spec false [] (getmatargs (n + 1)) := by
  refine Keeps.to_spec fun s0 => ?_
  rw [getmatargs]
  repeat' first
    | with_reducible refine keeps_newlabel (fun _ _ => ?_)
    | with_reducible refine keeps_getS (fun _ _ => ?_)
    | with_reducible refine keeps_bind ?_ (fun _ => ?_)
    | with_reducible refine keeps_ite (fun _ => ?_) (fun _ => ?_)
    | with_reducible exact keeps_pure _
    | with_reducible exact gettoken_quiet.keeps_quiet
    | with_reducible exact rescantoken_quiet.keeps_quiet
    | with_reducible exact tokenstring_quiet.keeps_quiet
    | with_reducible exact tokennumber_quiet.keeps_quiet
    | with_reducible exact (tokenmode_quiet _).keeps_quiet
    | with_reducible exact (scanerror_quiet _).keeps_quiet
    | with_reducible exact getS_quiet.keeps_quiet
    | with_reducible exact outOfFuel_quiet.keeps_quiet
    | with_reducible exact math_error_quiet.keeps_quiet
    | with_reducible exact (symboltype_quiet _).keeps_quiet
    | with_reducible exact (getbuiltinfunc_quiet _).keeps_quiet
    | with_reducible exact (adduserfunc_quiet _).keeps_quiet
    | with_reducible exact (addelement_quiet _).keeps_quiet
    | with_reducible exact (checkobject_quiet _).keeps_quiet
    | with_reducible exact (defineobject_quiet _ _).keeps_quiet
    | with_reducible exact (addqconstant_quiet _).keeps_quiet
    | with_reducible exact (readlabel_quiet _).keeps_quiet
    | with_reducible exact (builtincheck_quiet _ _).keeps_quiet
    | with_reducible exact getid_quiet.keeps_quiet
    | with_reducible exact (definesymbol_quiet _ _).keeps_quiet
    | with_reducible exact (skipcommas_quiet _).keeps_quiet
    | with_reducible exact linenumber_quiet.keeps_quiet
    | with_reducible exact (addop_spec _).keeps_expr
    | with_reducible exact (addopone_spec _ _).keeps_expr
    | with_reducible exact (addoptwo_spec _ _ _).keeps_expr
    | with_reducible exact (addopptr_spec _ _).keeps_expr
    | with_reducible exact (addopfunction_spec _ _ _).keeps_expr
    | with_reducible exact clearopt_spec.keeps_expr
    | with_reducible exact writeindexop_spec.keeps_expr
    | with_reducible exact (usesymbol_spec _ _).keeps_expr
    | with_reducible exact getelement_spec.keeps_expr
    | with_reducible exact (getshiftexpr_loop_spec _).keeps_expr
    | with_reducible exact ih.getexprlist.keeps_expr
    | with_reducible exact (ih.getexprlist_loop _).keeps_expr
    | with_reducible exact ih.getassignment.keeps_expr
    | with_reducible exact ih.getaltcond.keeps_expr
    | with_reducible exact ih.getorcond.keeps_expr
    | with_reducible exact (ih.getorcond_loop _ _).keeps_label (by first | exact Or.inl (by assumption) | exact Or.inr (by simp))
    | with_reducible exact ih.getandcond.keeps_expr
    | with_reducible exact (ih.getandcond_loop _ _).keeps_label (by first | exact Or.inl (by assumption) | exact Or.inr (by simp))
    | with_reducible exact ih.getrelation.keeps_expr
    | with_reducible exact ih.getsum.keeps_expr
    | with_reducible exact (ih.getsum_loop _).keeps_expr
    | with_reducible exact ih.getproduct.keeps_expr
    | with_reducible exact (ih.getproduct_loop _).keeps_expr
    | with_reducible exact ih.getorexpr.keeps_expr
    | with_reducible exact (ih.getorexpr_loop _).keeps_expr
    | with_reducible exact ih.getandexpr.keeps_expr
    | with_reducible exact (ih.getandexpr_loop _).keeps_expr
    | with_reducible exact ih.getshiftexpr.keeps_expr
    | with_reducible exact ih.getterm.keeps_expr
    | with_reducible exact (ih.getidexpr _ _).keeps_expr
    | with_reducible exact (ih.getidexpr_loop _).keeps_expr
    | with_reducible exact ih.getmatargs.keeps_expr
    | with_reducible exact (ih.getmatargs_loop _).keeps_expr
    | with_reducible exact (ih.getcallargs _).keeps_expr
    | with_reducible exact (ih.getcallargs_loop _ _ _ _).keeps_expr
    | with_reducible exact (ih.getmatdeclaration _).keeps_expr
    | with_reducible exact (ih.getonematrix _).keeps_expr
    | with_reducible exact (ih.creatematrix _).keeps_expr
    | with_reducible exact ih.getinitlist.keeps_expr
    | with_reducible exact (ih.getinitlist_loop _ _).keeps_expr
    | with_reducible exact (ih.getobjdeclaration _).keeps_expr
    | with_reducible exact (ih.getobjdeclaration_loop _ _ _ _).keeps_expr
    | with_reducible exact (ih.getoneobj _ _).keeps_expr
    | with_reducible exact (ih.getobjvars _ _).keeps_expr
    | with_reducible exact (ih.getobjvars_loop _ _).keeps_expr
    | with_reducible exact (setlabel_spec _).keeps_label (by first | exact Or.inl (by assumption) | exact Or.inr (by simp))
    | with_reducible exact (addoplabel_spec _ _).keeps_label (by first | exact Or.inl (by assumption) | exact Or.inr (by simp))
    | with_reducible exact (clearlabel_spec _).keeps_label (by first | exact Or.inl (by assumption) | exact Or.inr (by simp))
    | exact patch_keeps _ _ _ _ _ (Nat.lt_succ_of_le (le_trans (Frame.ext (by assumption)).plen (plen_le _)))
    | dsimp only
    | split

set_option maxHeartbeats 1600000 in
theorem getmatargs_loop_frame_succ (n : Nat) (ih : ExprFrames n) (dim : Int) :
    Spec false [] (getmatargs_loop (n + 1) dim) := by
  refine Keeps.to_spec fun s0 => ?_
  rw [getmatargs_loop]
  repeat' first
    | with_reducible refine keeps_newlabel (fun _ _ => ?_)
    | with_reducible refine keeps_getS (fun _ _ => ?_)
    | with_reducible refine keeps_bind ?_ (fun _ => ?_)
    | with_reducible refine keeps_ite (fun _ => ?_) (fun _ => ?_)
    | with_reducible exact keeps_pure _
    | with_reducible exact gettoken_quiet.keeps_quiet
    | with_reducible exact rescantoken_quiet.keeps_quiet
    | with_reducible exact tokenstring_quiet.keeps_quiet
    | with_reducible exact tokennumber_quiet.keeps_quiet
    | with_reducible exact (tokenmode_quiet _).keeps_quiet
    | with_reducible exact (scanerror_quiet _).keeps_quiet
    | with_reducible exact getS_quiet.keeps_quiet
    | with_reducible exact outOfFuel_quiet.keeps_quiet
    | with_reducible exact math_error_quiet.keeps_quiet
    | with_reducible exact (symboltype_quiet _).keeps_quiet
    | with_reducible exact (getbuiltinfunc_quiet _).keeps_quiet
    | with_reducible exact (adduserfunc_quiet _).keeps_quiet
    | with_reducible exact (addelement_quiet _).keeps_quiet
    | with_reducible exact (checkobject_quiet _).keeps_quiet
    | with_reducible exact (defineobject_quiet _ _).keeps_quiet
    | with_reducible exact (addqconstant_quiet _).keeps_quiet
    | with_reducible exact (readlabel_quiet _).keeps_quiet
    | with_reducible exact (builtincheck_quiet _ _).keeps_quiet
    | with_reducible exact getid_quiet.keeps_quiet
    | with_reducible exact (definesymbol_quiet _ _).keeps_quiet
    | with_reducible exact (skipcommas_quiet _).keeps_quiet
    | with_reducible exact linenumber_quiet.keeps_quiet
    | with_reducible exact (addop_spec _).keeps_expr
    | with_reducible exact (addopone_spec _ _).keeps_expr
    | with_reducible exact (addoptwo_spec _ _ _).keeps_expr
    | with_reducible exact (addopptr_spec _ _).keeps_expr
    | with_reducible exact (addopfunction_spec _ _ _).keeps_expr
    | with_reducible exact clearopt_spec.keeps_expr
    | with_reducible exact writeindexop_spec.keeps_expr
    | with_reducible exact (usesymbol_spec _ _).keeps_expr
    | with_reducible exact getelement_spec.keeps_expr
    | with_reducible exact (getshiftexpr_loop_spec _).keeps_expr
    | with_reducible exact ih.getexprlist.keeps_expr
    | with_reducible exact (ih.getexprlist_loop _).keeps_expr
    | with_reducible exact ih.getassignment.keeps_expr
    | with_reducible exact ih.getaltcond.keeps_expr
    | with_reducible exact ih.getorcond.keeps_expr
    | with_reducible exact (ih.getorcond_loop _ _).keeps_label (by first | exact Or.inl (by assumption) | exact Or.inr (by simp))
    | with_reducible exact ih.getandcond.keeps_expr
    | with_reducible exact (ih.getandcond_loop _ _).keeps_label (by first | exact Or.inl (by assumption) | exact Or.inr (by simp))
    | with_reducible exact ih.getrelation.keeps_expr
    | with_reducible exact ih.getsum.keeps_expr
    | with_reducible exact (ih.getsum_loop _).keeps_expr
    | with_reducible exact ih.getproduct.keeps_expr
    | with_reducible exact (ih.getproduct_loop _).keeps_expr
    | with_reducible exact ih.getorexpr.keeps_expr
    | with_reducible exact (ih.getorexpr_loop _).keeps_expr
    | with_reducible exact ih.getandexpr.keeps_expr
    | with_reducible exact (ih.getandexpr_loop _).keeps_expr
    | with_reducible exact ih.getshiftexpr.keeps_expr
    | with_reducible exact ih.getterm.keeps_expr
    | with_reducible exact (ih.getidexpr _ _).keeps_expr
    | with_reducible exact (ih.getidexpr_loop _).keeps_expr
    | with_reducible exact ih.getmatargs.keeps_expr
    | with_reducible exact (ih.getmatargs_loop _).keeps_expr
    | with_reducible exact (ih.getcallargs _).keeps_expr
    | with_reducible exact (ih.getcallargs_loop _ _ _ _).keeps_expr
    | with_reducible exact (ih.getmatdeclaration _).keeps_expr
    | with_reducible exact (ih.getonematrix _).keeps_expr
    | with_reducible exact (ih.creatematrix _).keeps_expr
    | with_reducible exact ih.getinitlist.keeps_expr
    | with_reducible exact (ih.getinitlist_loop _ _).keeps_expr
    | with_reducible exact (ih.getobjdeclaration _).keeps_expr
    | with_reducible exact (ih.getobjdeclaration_loop _ _ _ _).keeps_expr
    | with_reducible exact (ih.getoneobj _ _).keeps_expr
    | with_reducible exact (ih.getobjvars _ _).keeps_expr
    | with_reducible exact (ih.getobjvars_loop _ _).keeps_expr
    | with_reducible exact (setlabel_spec _).keeps_label (by first | exact Or.inl (by assumption) | exact Or.inr (by simp))
    | with_reducible exact (addoplabel_spec _ _).keeps_label (by first | exact Or.inl (by assumption) | exact Or.inr (by simp))
    | with_reducible exact (clearlabel_spec _).keeps_label (by first | exact Or.inl (by assumption) | exact Or.inr (by simp))
    | exact patch_keeps _ _ _ _ _ (Nat.lt_succ_of_le (le_trans (Frame.ext (by assumption)).plen (plen_le _)))
    | dsimp only
    | split

set_option maxHeartbeats 1600000 in
theorem getcallargs_frame_succ (n : Nat) (ih : ExprFrames n) (name : Int) :
    Spec false [] (getcallargs (n + 1) name) := by
  refine Keeps.to_spec fun s0 => ?_
  rw [getcallargs]
  repeat' first
    | with_reducible refine keeps_newlabel (fun _ _ => ?_)
    | with_reducible refine keeps_getS (fun _ _ => ?_)
    | with_reducible refine keeps_bind ?_ (fun _ => ?_)
    | with_reducible refine keeps_ite (fun _ => ?_) (fun _ => ?_)
    | with_reducible exact keeps_pure _
    | with_reducible exact gettoken_quiet.keeps_quiet
    | with_reducible exact rescantoken_quiet.keeps_quiet
    | with_reducible exact tokenstring_quiet.keeps_quiet
    | with_reducible exact tokennumber_quiet.keeps_quiet
    | with_reducible exact (tokenmode_quiet _).keeps_quiet
    | with_reducible exact (scanerror_quiet _).keeps_quiet
    | with_reducible exact getS_quiet.keeps_quiet
    | with_reducible exact outOfFuel_quiet.keeps_quiet
    | with_reducible exact math_error_quiet.keeps_quiet
    | with_reducible exact (symboltype_quiet _).keeps_quiet
    | with_reducible exact (getbuiltinfunc_quiet _).keeps_quiet
    | with_reducible exact (adduserfunc_quiet _).keeps_quiet
    | with_reducible exact (addelement_quiet _).keeps_quiet
    | with_reducible exact (checkobject_quiet _).keeps_quiet
    | with_reducible exact (defineobject_quiet _ _).keeps_quiet
    | with_reducible exact (addqconstant_quiet _).keeps_quiet
    | with_reducible exact (readlabel_quiet _).keeps_quiet
    | with_reducible exact (builtincheck_quiet _ _).keeps_quiet
    | with_reducible exact getid_quiet.keeps_quiet
    | with_reducible exact (definesymbol_quiet _ _).keeps_quiet
    | with_reducible exact (skipcommas_quiet _).keeps_quiet
    | with_reducible exact linenumber_quiet.keeps_quiet
    | with_reducible exact (addop_spec _).keeps_expr
    | with_reducible exact (addopone_spec _ _).keeps_expr
    | with_reducible exact (addoptwo_spec _ _ _).keeps_expr
    | with_reducible exact (addopptr_spec _ _).keeps_expr
    | with_reducible exact (addopfunction_spec _ _ _).keeps_expr
    | with_reducible exact clearopt_spec.keeps_expr
    | with_reducible exact writeindexop_spec.keeps_expr
    | with_reducible exact (usesymbol_spec _ _).keeps_expr
    | with_reducible exact getelement_spec.keeps_expr
    | with_reducible exact (getshiftexpr_loop_spec _).keeps_expr
    | with_reducible exact ih.getexprlist.keeps_expr
    | with_reducible exact (ih.getexprlist_loop _).keeps_expr
    | with_reducible exact ih.getassignment.keeps_expr
    | with_reducible exact ih.getaltcond.keeps_expr
    | with_reducible exact ih.getorcond.keeps_expr
    | with_reducible exact (ih.getorcond_loop _ _).keeps_label (by first | exact Or.inl (by assumption) | exact Or.inr (by simp))
    | with_reducible exact ih.getandcond.keeps_expr
    | with_reducible exact (ih.getandcond_loop _ _).keeps_label (by first | exact Or.inl (by assumption) | exact Or.inr (by simp))
    | with_reducible exact ih.getrelation.keeps_expr
    | with_reducible exact ih.getsum.keeps_expr
    | with_reducible exact (ih.getsum_loop _).keeps_expr
    | with_reducible exact ih.getproduct.keeps_expr
    | with_reducible exact (ih.getproduct_loop _).keeps_expr
    | with_reducible exact ih.getorexpr.keeps_expr
    | with_reducible exact (ih.getorexpr_loop _).keeps_expr
    | with_reducible exact ih.getandexpr.keeps_expr
    | with_reducible exact (ih.getandexpr_loop _).keeps_expr
    | with_reducible exact ih.getshiftexpr.keeps_expr
    | with_reducible exact ih.getterm.keeps_expr
    | with_reducible exact (ih.getidexpr _ _).keeps_expr
    | with_reducible exact (ih.getidexpr_loop _).keeps_expr
    | with_reducible exact ih.getmatargs.keeps_expr
    | with_reducible exact (ih.getmatargs_loop _).keeps_expr
    | with_reducible exact (ih.getcallargs _).keeps_expr
    | with_reducible exact (ih.getcallargs_loop _ _ _ _).keeps_expr
    | with_reducible exact (ih.getmatdeclaration _).keeps_expr
    | with_reducible exact (ih.getonematrix _).keeps_expr
    | with_reducible exact (ih.creatematrix _).keeps_expr
    | with_reducible exact ih.getinitlist.keeps_expr
    | with_reducible exact (ih.getinitlist_loop _ _).keeps_expr
    | with_reducible exact (ih.getobjdeclaration _).keeps_expr
    | with_reducible exact (ih.getobjdeclaration_loop _ _ _ _).keeps_expr
    | with_reducible exact (ih.getoneobj _ _).keeps_expr
    | with_reducible exact (ih.getobjvars _ _).keeps_expr
    | with_reducible exact (ih.getobjvars_loop _ _).keeps_expr
    | with_reducible exact (setlabel_spec _).keeps_label (by first | exact Or.inl (by assumption) | exact Or.inr (by simp))
    | with_reducible exact (addoplabel_spec _ _).keeps_label (by first | exact Or.inl (by assumption) | exact Or.inr (by simp))
    | with_reducible exact (clearlabel_spec _).keeps_label (by first | exact Or.inl (by assumption) | exact Or.inr (by simp))
    | exact patch_keeps _ _ _ _ _ (Nat.lt_succ_of_le (le_trans (Frame.ext (by assumption)).plen (plen_le _)))
    | dsimp only
    | split

set_option maxHeartbeats 1600000 in
theorem getcallargs_loop_frame_succ (n : Nat) (ih : ExprFrames n) (name : Int) (op : Opcode) (index : Int) (argcount : Int) :
    Spec false [] (getcallargs_loop (n + 1) name op index argcount) := by
  refine Keeps.to_spec fun s0 => ?_
  rw [getcallargs_loop]
  repeat' first
    | with_reducible refine keeps_newlabel (fun _ _ => ?_)
    | with_reducible refine keeps_getS (fun _ _ => ?_)
    | with_reducible refine keeps_bind ?_ (fun _ => ?_)
    | with_reducible refine keeps_ite (fun _ => ?_) (fun _ => ?_)
    | with_reducible exact keeps_pure _
    | with_reducible exact gettoken_quiet.keeps_quiet
    | with_reducible exact rescantoken_quiet.keeps_quiet
    | with_reducible exact tokenstring_quiet.keeps_quiet
    | with_reducible exact tokennumber_quiet.keeps_quiet
    | with_reducible exact (tokenmode_quiet _).keeps_quiet
    | with_reducible exact (scanerror_quiet _).keeps_quiet
    | with_reducible exact getS_quiet.keeps_quiet
    | with_reducible exact outOfFuel_quiet.keeps_quiet
    | with_reducible exact math_error_quiet.keeps_quiet
    | with_reducible exact (symboltype_quiet _).keeps_quiet
    | with_reducible exact (getbuiltinfunc_quiet _).keeps_quiet
    | with_reducible exact (adduserfunc_quiet _).keeps_quiet
    | with_reducible exact (addelement_quiet _).keeps_quiet
    | with_reducible exact (checkobject_quiet _).keeps_quiet
    | with_reducible exact (defineobject_quiet _ _).keeps_quiet
    | with_reducible exact (addqconstant_quiet _).keeps_quiet
    | with_reducible exact (readlabel_quiet _).keeps_quiet
    | with_reducible exact (builtincheck_quiet _ _).keeps_quiet
    | with_reducible exact getid_quiet.keeps_quiet
    | with_reducible exact (definesymbol_quiet _ _).keeps_quiet
    | with_reducible exact (skipcommas_quiet _).keeps_quiet
    | with_reducible exact linenumber_quiet.keeps_quiet
    | with_reducible exact (addop_spec _).keeps_expr
    | with_reducible exact (addopone_spec _ _).keeps_expr
    | with_reducible exact (addoptwo_spec _ _ _).keeps_expr
    | with_reducible exact (addopptr_spec _ _).keeps_expr
    | with_reducible exact (addopfunction_spec _ _ _).keeps_expr
    | with_reducible exact clearopt_spec.keeps_expr
    | with_reducible exact writeindexop_spec.keeps_expr
    | with_reducible exact (usesymbol_spec _ _).keeps_expr
    | with_reducible exact getelement_spec.keeps_expr
    | with_reducible exact (getshiftexpr_loop_spec _).keeps_expr
    | with_reducible exact ih.getexprlist.keeps_expr
    | with_reducible exact (ih.getexprlist_loop _).keeps_expr
    | with_reducible exact ih.getassignment.keeps_expr
    | with_reducible exact ih.getaltcond.keeps_expr
    | with_reducible exact ih.getorcond.keeps_expr
    | with_reducible exact (ih.getorcond_loop _ _).keeps_label (by first | exact Or.inl (by assumption) | exact Or.inr (by simp))
    | with_reducible exact ih.getandcond.keeps_expr
    | with_reducible exact (ih.getandcond_loop _ _).keeps_label (by first | exact Or.inl (by assumption) | exact Or.inr (by simp))
    | with_reducible exact ih.getrelation.keeps_expr
    | with_reducible exact ih.getsum.keeps_expr
    | with_reducible exact (ih.getsum_loop _).keeps_expr
    | with_reducible exact ih.getproduct.keeps_expr
    | with_reducible exact (ih.getproduct_loop _).keeps_expr
    | with_reducible exact ih.getorexpr.keeps_expr
    | with_reducible exact (ih.getorexpr_loop _).keeps_expr
    | with_reducible exact ih.getandexpr.keeps_expr
    | with_reducible exact (ih.getandexpr_loop _).keeps_expr
    | with_reducible exact ih.getshiftexpr.keeps_expr
    | with_reducible exact ih.getterm.keeps_expr
    | with_reducible exact (ih.getidexpr _ _).keeps_expr
    | with_reducible exact (ih.getidexpr_loop _).keeps_expr
    | with_reducible exact ih.getmatargs.keeps_expr
    | with_reducible exact (ih.getmatargs_loop _).keeps_expr
    | with_reducible exact (ih.getcallargs _).keeps_expr
    | with_reducible exact (ih.getcallargs_loop _ _ _ _).keeps_expr
    | with_reducible exact (ih.getmatdeclaration _).keeps_expr
    | with_reducible exact (ih.getonematrix _).keeps_expr
    | with_reducible exact (ih.creatematrix _).keeps_expr
    | with_reducible exact ih.getinitlist.keeps_expr
    | with_reducible exact (ih.getinitlist_loop _ _).keeps_expr
    | with_reducible exact (ih.getobjdeclaration _).keeps_expr
    | with_reducible exact (ih.getobjdeclaration_loop _ _ _ _).keeps_expr
    | with_reducible exact (ih.getoneobj _ _).keeps_expr
    | with_reducible exact (ih.getobjvars _ _).keeps_expr
    | with_reducible exact (ih.getobjvars_loop _ _).keeps_expr
    | with_reducible exact (setlabel_spec _).keeps_label (by first | exact Or.inl (by assumption) | exact Or.inr (by simp))
    | with_reducible exact (addoplabel_spec _ _).keeps_label (by first | exact Or.inl (by assumption) | exact Or.inr (by simp))
    | with_reducible exact (clearlabel_spec _).keeps_label (by first | exact Or.inl (by assumption) | exact Or.inr (by simp))
    | exact patch_keeps _ _ _ _ _ (Nat.lt_succ_of_le (le_trans (Frame.ext (by assumption)).plen (plen_le _)))
    | dsimp only
    | split

set_option maxHeartbeats 1600000 in
theorem getmatdeclaration_frame_succ (n : Nat) (ih : ExprFrames n) (symtype : SymType) :
    Spec false [] (getmatdeclaration (n + 1) symtype) := by
  refine Keeps.to_spec fun s0 => ?_
  rw [getmatdeclaration]
  repeat' first
    | with_reducible refine keeps_newlabel (fun _ _ => ?_)
    | with_reducible refine keeps_getS (fun _ _ => ?_)
    | with_reducible refine keeps_bind ?_ (fun _ => ?_)
    | with_reducible refine keeps_ite (fun _ => ?_) (fun _ => ?_)
    | with_reducible exact keeps_pure _
    | with_reducible exact gettoken_quiet.keeps_quiet
    | with_reducible exact rescantoken_quiet.keeps_quiet
    | with_reducible exact tokenstring_quiet.keeps_quiet
    | with_reducible exact tokennumber_quiet.keeps_quiet
    | with_reducible exact (tokenmode_quiet _).keeps_quiet
    | with_reducible exact (scanerror_quiet _).keeps_quiet
    | with_reducible exact getS_quiet.keeps_quiet
    | with_reducible exact outOfFuel_quiet.keeps_quiet
    | with_reducible exact math_error_quiet.keeps_quiet
    | with_reducible exact (symboltype_quiet _).keeps_quiet
    | with_reducible exact (getbuiltinfunc_quiet _).keeps_quiet
    | with_reducible exact (adduserfunc_quiet _).keeps_quiet
    | with_reducible exact (addelement_quiet _).keeps_quiet
    | with_reducible exact (checkobject_quiet _).keeps_quiet
    | with_reducible exact (defineobject_quiet _ _).keeps_quiet
    | with_reducible exact (addqconstant_quiet _).keeps_quiet
    | with_reducible exact (readlabel_quiet _).keeps_quiet
    | with_reducible exact (builtincheck_quiet _ _).keeps_quiet
    | with_reducible exact getid_quiet.keeps_quiet
    | with_reducible exact (definesymbol_quiet _ _).keeps_quiet
    | with_reducible exact (skipcommas_quiet _).keeps_quiet
    | with_reducible exact linenumber_quiet.keeps_quiet
    | with_reducible exact (addop_spec _).keeps_expr
    | with_reducible exact (addopone_spec _ _).keeps_expr
    | with_reducible exact (addoptwo_spec _ _ _).keeps_expr
    | with_reducible exact (addopptr_spec _ _).keeps_expr
    | with_reducible exact (addopfunction_spec _ _ _).keeps_expr
    | with_reducible exact clearopt_spec.keeps_expr
    | with_reducible exact writeindexop_spec.keeps_expr
    | with_reducible exact (usesymbol_spec _ _).keeps_expr
    | with_reducible exact getelement_spec.keeps_expr
    | with_reducible exact (getshiftexpr_loop_spec _).keeps_expr
    | with_reducible exact ih.getexprlist.keeps_expr
    | with_reducible exact (ih.getexprlist_loop _).keeps_expr
    | with_reducible exact ih.getassignment.keeps_expr
    | with_reducible exact ih.getaltcond.keeps_expr
    | with_reducible exact ih.getorcond.keeps_expr
    | with_reducible exact (ih.getorcond_loop _ _).keeps_label (by first | exact Or.inl (by assumption) | exact Or.inr (by simp))
    | with_reducible exact ih.getandcond.keeps_expr
    | with_reducible exact (ih.getandcond_loop _ _).keeps_label (by first | exact Or.inl (by assumption) | exact Or.inr (by simp))
    | with_reducible exact ih.getrelation.keeps_expr
    | with_reducible exact ih.getsum.keeps_expr
    | with_reducible exact (ih.getsum_loop _).keeps_expr
    | with_reducible exact ih.getproduct.keeps_expr
    | with_reducible exact (ih.getproduct_loop _).keeps_expr
    | with_reducible exact ih.getorexpr.keeps_expr
    | with_reducible exact (ih.getorexpr_loop _).keeps_expr
    | with_reducible exact ih.getandexpr.keeps_expr
    | with_reducible exact (ih.getandexpr_loop _).keeps_expr
    | with_reducible exact ih.getshiftexpr.keeps_expr
    | with_reducible exact ih.getterm.keeps_expr
    | with_reducible exact (ih.getidexpr _ _).keeps_expr
    | with_reducible exact (ih.getidexpr_loop _).keeps_expr
    | with_reducible exact ih.getmatargs.keeps_expr
    | with_reducible exact (ih.getmatargs_loop _).keeps_expr
    | with_reducible exact (ih.getcallargs _).keeps_expr
    | with_reducible exact (ih.getcallargs_loop _ _ _ _).keeps_expr
    | with_reducible exact (ih.getmatdeclaration _).keeps_expr
    | with_reducible exact (ih.getonematrix _).keeps_expr
    | with_reducible exact (ih.creatematrix _).keeps_expr
    | with_reducible exact ih.getinitlist.keeps_expr
    | with_reducible exact (ih.getinitlist_loop _ _).keeps_expr
    | with_reducible exact (ih.getobjdeclaration _).keeps_expr
    | with_reducible exact (ih.getobjdeclaration_loop _ _ _ _).keeps_expr
    | with_reducible exact (ih.getoneobj _ _).keeps_expr
    | with_reducible exact (ih.getobjvars _ _).keeps_expr
    | with_reducible exact (ih.getobjvars_loop _ _).keeps_expr
    | with_reducible exact (setlabel_spec _).keeps_label (by first | exact Or.inl (by assumption) | exact Or.inr (by simp))
    | with_reducible exact (addoplabel_spec _ _).keeps_label (by first | exact Or.inl (by assumption) | exact Or.inr (by simp))
    | with_reducible exact (clearlabel_spec _).keeps_label (by first | exact Or.inl (by assumption) | exact Or.inr (by simp))
    | exact patch_keeps _ _ _ _ _ (Nat.lt_succ_of_le (le_trans (Frame.ext (by assumption)).plen (plen_le _)))
    | dsimp only
    | split

set_option maxHeartbeats 1600000 in
theorem getonematrix_frame_succ (n : Nat) (ih : ExprFrames n) (symtype : SymType) :
    Spec false [] (getonematrix (n + 1) symtype) := by
  refine Keeps.to_spec fun s0 => ?_
  rw [getonematrix]
  repeat' first
    | with_reducible refine keeps_newlabel (fun _ _ => ?_)
    | with_reducible refine keeps_getS (fun _ _ => ?_)
    | with_reducible refine keeps_bind ?_ (fun _ => ?_)
    | with_reducible refine keeps_ite (fun _ => ?_) (fun _ => ?_)
    | with_reducible exact keeps_pure _
    | with_reducible exact gettoken_quiet.keeps_quiet
    | with_reducible exact rescantoken_quiet.keeps_quiet
    | with_reducible exact tokenstring_quiet.keeps_quiet
    | with_reducible exact tokennumber_quiet.keeps_quiet
    | with_reducible exact (tokenmode_quiet _).keeps_quiet
    | with_reducible exact (scanerror_quiet _).keeps_quiet
    | with_reducible exact getS_quiet.keeps_quiet
    | with_reducible exact outOfFuel_quiet.keeps_quiet
    | with_reducible exact math_error_quiet.keeps_quiet
    | with_reducible exact (symboltype_quiet _).keeps_quiet
    | with_reducible exact (getbuiltinfunc_quiet _).keeps_quiet
    | with_reducible exact (adduserfunc_quiet _).keeps_quiet
    | with_reducible exact (addelement_quiet _).keeps_quiet
    | with_reducible exact (checkobject_quiet _).keeps_quiet
    | with_reducible exact (defineobject_quiet _ _).keeps_quiet
    | with_reducible exact (addqconstant_quiet _).keeps_quiet
    | with_reducible exact (readlabel_quiet _).keeps_quiet
    | with_reducible exact (builtincheck_quiet _ _).keeps_quiet
    | with_reducible exact getid_quiet.keeps_quiet
    | with_reducible exact (definesymbol_quiet _ _).keeps_quiet
    | with_reducible exact (skipcommas_quiet _).keeps_quiet
    | with_reducible exact linenumber_quiet.keeps_quiet
    | with_reducible exact (addop_spec _).keeps_expr
    | with_reducible exact (addopone_spec _ _).keeps_expr
    | with_reducible exact (addoptwo_spec _ _ _).keeps_expr
    | with_reducible exact (addopptr_spec _ _).keeps_expr
    | with_reducible exact (addopfunction_spec _ _ _).keeps_expr
    | with_reducible exact clearopt_spec.keeps_expr
    | with_reducible exact writeindexop_spec.keeps_expr
    | with_reducible exact (usesymbol_spec _ _).keeps_expr
    | with_reducible exact getelement_spec.keeps_expr
    | with_reducible exact (getshiftexpr_loop_spec _).keeps_expr
    | with_reducible exact ih.getexprlist.keeps_expr
    | with_reducible exact (ih.getexprlist_loop _).keeps_expr
    | with_reducible exact ih.getassignment.keeps_expr
    | with_reducible exact ih.getaltcond.keeps_expr
    | with_reducible exact ih.getorcond.keeps_expr
    | with_reducible exact (ih.getorcond_loop _ _).keeps_label (by first | exact Or.inl (by assumption) | exact Or.inr (by simp))
    | with_reducible exact ih.getandcond.keeps_expr
    | with_reducible exact (ih.getandcond_loop _ _).keeps_label (by first | exact Or.inl (by assumption) | exact Or.inr (by simp))
    | with_reducible exact ih.getrelation.keeps_expr
    | with_reducible exact ih.getsum.keeps_expr
    | with_reducible exact (ih.getsum_loop _).keeps_expr
    | with_reducible exact ih.getproduct.keeps_expr
    | with_reducible exact (ih.getproduct_loop _).keeps_expr
    | with_reducible exact ih.getorexpr.keeps_expr
    | with_reducible exact (ih.getorexpr_loop _).keeps_expr
    | with_reducible exact ih.getandexpr.keeps_expr
    | with_reducible exact (ih.getandexpr_loop _).keeps_expr
    | with_reducible exact ih.getshiftexpr.keeps_expr
    | with_reducible exact ih.getterm.keeps_expr
    | with_reducible exact (ih.getidexpr _ _).keeps_expr
    | with_reducible exact (ih.getidexpr_loop _).keeps_expr
    | with_reducible exact ih.getmatargs.keeps_expr
    | with_reducible exact (ih.getmatargs_loop _).keeps_expr
    | with_reducible exact (ih.getcallargs _).keeps_expr
    | with_reducible exact (ih.getcallargs_loop _ _ _ _).keeps_expr
    | with_reducible exact (ih.getmatdeclaration _).keeps_expr
    | with_reducible exact (ih.getonematrix _).keeps_expr
    | with_reducible exact (ih.creatematrix _).keeps_expr
    | with_reducible exact ih.getinitlist.keeps_expr
    | with_reducible exact (ih.getinitlist_loop _ _).keeps_expr
    | with_reducible exact (ih.getobjdeclaration _).keeps_expr
    | with_reducible exact (ih.getobjdeclaration_loop _ _ _ _).keeps_expr
    | with_reducible exact (ih.getoneobj _ _).keeps_expr
    | with_reducible exact (ih.getobjvars _ _).keeps_expr
    | with_reducible exact (ih.getobjvars_loop _ _).keeps_expr
    | with_reducible exact (setlabel_spec _).keeps_label (by first | exact Or.inl (by assumption) | exact Or.inr (by simp))
    | with_reducible exact (addoplabel_spec _ _).keeps_label (by first | exact Or.inl (by assumption) | exact Or.inr (by simp))
    | with_reducible exact (clearlabel_spec _).keeps_label (by first | exact Or.inl (by assumption) | exact Or.inr (by simp))
    | exact patch_keeps _ _ _ _ _ (Nat.lt_succ_of_le (le_trans (Frame.ext (by assumption)).plen (plen_le _)))
    | dsimp only
    | split

set_option maxHeartbeats 1600000 in
theorem creatematrix_frame_succ (n : Nat) (ih : ExprFrames n) (dim : Int) :
    Spec false [] (creatematrix (n + 1) dim) := by
  refine Keeps.to_spec fun s0 => ?_
  rw [creatematrix]
  repeat' first
    | with_reducible refine keeps_newlabel (fun _ _ => ?_)
    | with_reducible refine keeps_getS (fun _ _ => ?_)
    | with_reducible refine keeps_bind ?_ (fun _ => ?_)
    | with_reducible refine keeps_ite (fun _ => ?_) (fun _ => ?_)
    | with_reducible exact keeps_pure _
    | with_reducible exact gettoken_quiet.keeps_quiet
    | with_reducible exact rescantoken_quiet.keeps_quiet
    | with_reducible exact tokenstring_quiet.keeps_quiet
    | with_reducible exact tokennumber_quiet.keeps_quiet
    | with_reducible exact (tokenmode_quiet _).keeps_quiet
    | with_reducible exact (scanerror_quiet _).keeps_quiet
    | with_reducible exact getS_quiet.keeps_quiet
    | with_reducible exact outOfFuel_quiet.keeps_quiet
    | with_reducible exact math_error_quiet.keeps_quiet
    | with_reducible exact (symboltype_quiet _).keeps_quiet
    | with_reducible exact (getbuiltinfunc_quiet _).keeps_quiet
    | with_reducible exact (adduserfunc_quiet _).keeps_quiet
    | with_reducible exact (addelement_quiet _).keeps_quiet
    | with_reducible exact (checkobject_quiet _).keeps_quiet
    | with_reducible exact (defineobject_quiet _ _).keeps_quiet
    | with_reducible exact (addqconstant_quiet _).keeps_quiet
    | with_reducible exact (readlabel_quiet _).keeps_quiet
    | with_reducible exact (builtincheck_quiet _ _).keeps_quiet
    | with_reducible exact getid_quiet.keeps_quiet
    | with_reducible exact (definesymbol_quiet _ _).keeps_quiet
    | with_reducible exact (skipcommas_quiet _).keeps_quiet
    | with_reducible exact linenumber_quiet.keeps_quiet
    | with_reducible exact (addop_spec _).keeps_expr
    | with_reducible exact (addopone_spec _ _).keeps_expr
    | with_reducible exact (addoptwo_spec _ _ _).keeps_expr
    | with_reducible exact (addopptr_spec _ _).keeps_expr
    | with_reducible exact (addopfunction_spec _ _ _).keeps_expr
    | with_reducible exact clearopt_spec.keeps_expr
    | with_reducible exact writeindexop_spec.keeps_expr
    | with_reducible exact (usesymbol_spec _ _).keeps_expr
    | with_reducible exact getelement_spec.keeps_expr
    | with_reducible exact (getshiftexpr_loop_spec _).keeps_expr
    | with_reducible exact ih.getexprlist.keeps_expr
    | with_reducible exact (ih.getexprlist_loop _).keeps_expr
    | with_reducible exact ih.getassignment.keeps_expr
    | with_reducible exact ih.getaltcond.keeps_expr
    | with_reducible exact ih.getorcond.keeps_expr
    | with_reducible exact (ih.getorcond_loop _ _).keeps_label (by first | exact Or.inl (by assumption) | exact Or.inr (by simp))
    | with_reducible exact ih.getandcond.keeps_expr
    | with_reducible exact (ih.getandcond_loop _ _).keeps_label (by first | exact Or.inl (by assumption) | exact Or.inr (by simp))
    | with_reducible exact ih.getrelation.keeps_expr
    | with_reducible exact ih.getsum.keeps_expr
    | with_reducible exact (ih.getsum_loop _).keeps_expr
    | with_reducible exact ih.getproduct.keeps_expr
    | with_reducible exact (ih.getproduct_loop _).keeps_expr
    | with_reducible exact ih.getorexpr.keeps_expr
    | with_reducible exact (ih.getorexpr_loop _).keeps_expr
    | with_reducible exact ih.getandexpr.keeps_expr
    | with_reducible exact (ih.getandexpr_loop _).keeps_expr
    | with_reducible exact ih.getshiftexpr.keeps_expr
    | with_reducible exact ih.getterm.keeps_expr
    | with_reducible exact (ih.getidexpr _ _).keeps_expr
    | with_reducible exact (ih.getidexpr_loop _).keeps_expr
    | with_reducible exact ih.getmatargs.keeps_expr
    | with_reducible exact (ih.getmatargs_loop _).keeps_expr
    | with_reducible exact (ih.getcallargs _).keeps_expr
    | with_reducible exact (ih.getcallargs_loop _ _ _ _).keeps_expr
    | with_reducible exact (ih.getmatdeclaration _).keeps_expr
    | with_reducible exact (ih.getonematrix _).keeps_expr
    | with_reducible exact (ih.creatematrix _).keeps_expr
    | with_reducible exact ih.getinitlist.keeps_expr
    | with_reducible exact (ih.getinitlist_loop _ _).keeps_expr
    | with_reducible exact (ih.getobjdeclaration _).keeps_expr
    | with_reducible exact (ih.getobjdeclaration_loop _ _ _ _).keeps_expr
    | with_reducible exact (ih.getoneobj _ _).keeps_expr
    | with_reducible exact (ih.getobjvars _ _).keeps_expr
    | with_reducible exact (ih.getobjvars_loop _ _).keeps_expr
    | with_reducible exact (setlabel_spec _).keeps_label (by first | exact Or.inl (by assumption) | exact Or.inr (by simp))
    | with_reducible exact (addoplabel_spec _ _).keeps_label (by first | exact Or.inl (by assumption) | exact Or.inr (by simp))
    | with_reducible exact (clearlabel_spec _).keeps_label (by first | exact Or.inl (by assumption) | exact Or.inr (by simp))
    | exact patch_keeps _ _ _ _ _ (Nat.lt_succ_of_le (le_trans (Frame.ext (by assumption)).plen (plen_le _)))
    | dsimp only
    | split

set_option maxHeartbeats 1600000 in
theorem getinitlist_frame_succ (n : Nat) (ih : ExprFrames n) :
    Spec false [] (getinitlist (n + 1)) := by
  refine Keeps.to_spec fun s0 => ?_
  rw [getinitlist]
  repeat' first
    | with_reducible refine keeps_newlabel (fun _ _ => ?_)
    | with_reducible refine keeps_getS (fun _ _ => ?_)
    | with_reducible refine keeps_bind ?_ (fun _ => ?_)
    | with_reducible refine keeps_ite (fun _ => ?_) (fun _ => ?_)
    | with_reducible exact keeps_pure _
    | with_reducible exact gettoken_quiet.keeps_quiet
    | with_reducible exact rescantoken_quiet.keeps_quiet
    | with_reducible exact tokenstring_quiet.keeps_quiet
    | with_reducible exact tokennumber_quiet.keeps_quiet
    | with_reducible exact (tokenmode_quiet _).keeps_quiet
    | with_reducible exact (scanerror_quiet _).keeps_quiet
    | with_reducible exact getS_quiet.keeps_quiet
    | with_reducible exact outOfFuel_quiet.keeps_quiet
    | with_reducible exact math_error_quiet.keeps_quiet
    | with_reducible exact (symboltype_quiet _).keeps_quiet
    | with_reducible exact (getbuiltinfunc_quiet _).keeps_quiet
    | with_reducible exact (adduserfunc_quiet _).keeps_quiet
    | with_reducible exact (addelement_quiet _).keeps_quiet
    | with_reducible exact (checkobject_quiet _).keeps_quiet
    | with_reducible exact (defineobject_quiet _ _).keeps_quiet
    | with_reducible exact (addqconstant_quiet _).keeps_quiet
    | with_reducible exact (readlabel_quiet _).keeps_quiet
    | with_reducible exact (builtincheck_quiet _ _).keeps_quiet
    | with_reducible exact getid_quiet.keeps_quiet
    | with_reducible exact (definesymbol_quiet _ _).keeps_quiet
    | with_reducible exact (skipcommas_quiet _).keeps_quiet
    | with_reducible exact linenumber_quiet.keeps_quiet
    | with_reducible exact (addop_spec _).keeps_expr
    | with_reducible exact (addopone_spec _ _).keeps_expr
    | with_reducible exact (addoptwo_spec _ _ _).keeps_expr
    | with_reducible exact (addopptr_spec _ _).keeps_expr
    | with_reducible exact (addopfunction_spec _ _ _).keeps_expr
    | with_reducible exact clearopt_spec.keeps_expr
    | with_reducible exact writeindexop_spec.keeps_expr
    | with_reducible exact (usesymbol_spec _ _).keeps_expr
    | with_reducible exact getelement_spec.keeps_expr
    | with_reducible exact (getshiftexpr_loop_spec _).keeps_expr
    | with_reducible exact ih.getexprlist.keeps_expr
    | with_reducible exact (ih.getexprlist_loop _).keeps_expr
    | with_reducible exact ih.getassignment.keeps_expr
    | with_reducible exact ih.getaltcond.keeps_expr
    | with_reducible exact ih.getorcond.keeps_expr
    | with_reducible exact (ih.getorcond_loop _ _).keeps_label (by first | exact Or.inl (by assumption) | exact Or.inr (by simp))
    | with_reducible exact ih.getandcond.keeps_expr
    | with_reducible exact (ih.getandcond_loop _ _).keeps_label (by first | exact Or.inl (by assumption) | exact Or.inr (by simp))
    | with_reducible exact ih.getrelation.keeps_expr
    | with_reducible exact ih.getsum.keeps_expr
    | with_reducible exact (ih.getsum_loop _).keeps_expr
    | with_reducible exact ih.getproduct.keeps_expr
    | with_reducible exact (ih.getproduct_loop _).keeps_expr
    | with_reducible exact ih.getorexpr.keeps_expr
    | with_reducible exact (ih.getorexpr_loop _).keeps_expr
    | with_reducible exact ih.getandexpr.keeps_expr
    | with_reducible exact (ih.getandexpr_loop _).keeps_expr
    | with_reducible exact ih.getshiftexpr.keeps_expr
    | with_reducible exact ih.getterm.keeps_expr
    | with_reducible exact (ih.getidexpr _ _).keeps_expr
    | with_reducible exact (ih.getidexpr_loop _).keeps_expr
    | with_reducible exact ih.getmatargs.keeps_expr
    | with_reducible exact (ih.getmatargs_loop _).keeps_expr
    | with_reducible exact (ih.getcallargs _).keeps_expr
    | with_reducible exact (ih.getcallargs_loop _ _ _ _).keeps_expr
    | with_reducible exact (ih.getmatdeclaration _).keeps_expr
    | with_reducible exact (ih.getonematrix _).keeps_expr
    | with_reducible exact (ih.creatematrix _).keeps_expr
    | with_reducible exact ih.getinitlist.keeps_expr
    | with_reducible exact (ih.getinitlist_loop _ _).keeps_expr
    | with_reducible exact (ih.getobjdeclaration _).keeps_expr
    | with_reducible exact (ih.getobjdeclaration_loop _ _ _ _).keeps_expr
    | with_reducible exact (ih.getoneobj _ _).keeps_expr
    | with_reducible exact (ih.getobjvars _ _).keeps_expr
    | with_reducible exact (ih.getobjvars_loop _ _).keeps_expr
    | with_reducible exact (setlabel_spec _).keeps_label (by first | exact Or.inl (by assumption) | exact Or.inr (by simp))
    | with_reducible exact (addoplabel_spec _ _).keeps_label (by first | exact Or.inl (by assumption) | exact Or.inr (by simp))
    | with_reducible exact (clearlabel_spec _).keeps_label (by first | exact Or.inl (by assumption) | exact Or.inr (by simp))
    | exact patch_keeps _ _ _ _ _ (Nat.lt_succ_of_le (le_trans (Frame.ext (by assumption)).plen (plen_le _)))
    | dsimp only
    | split

set_option maxHeartbeats 1600000 in
theorem getinitlist_loop_frame_succ (n : Nat) (ih : ExprFrames n) (oldmode : Nat) (index : Int) :
    Spec false [] (getinitlist_loop (n + 1) oldmode index) := by
  refine Keeps.to_spec fun s0 => ?_
  rw [getinitlist_loop]
  repeat' first
    | with_reducible refine keeps_newlabel (fun _ _ => ?_)
    | with_reducible refine keeps_getS (fun _ _ => ?_)
    | with_reducible refine keeps_bind ?_ (fun _ => ?_)
    | with_reducible refine keeps_ite (fun _ => ?_) (fun _ => ?_)
    | with_reducible exact keeps_pure _
    | with_reducible exact gettoken_quiet.keeps_quiet
    | with_reducible exact rescantoken_quiet.keeps_quiet
    | with_reducible exact tokenstring_quiet.keeps_quiet
    | with_reducible exact tokennumber_quiet.keeps_quiet
    | with_reducible exact (tokenmode_quiet _).keeps_quiet
    | with_reducible exact (scanerror_quiet _).keeps_quiet
    | with_reducible exact getS_quiet.keeps_quiet
    | with_reducible exact outOfFuel_quiet.keeps_quiet
    | with_reducible exact math_error_quiet.keeps_quiet
    | with_reducible exact (symboltype_quiet _).keeps_quiet
    | with_reducible exact (getbuiltinfunc_quiet _).keeps_quiet
    | with_reducible exact (adduserfunc_quiet _).keeps_quiet
    | with_reducible exact (addelement_quiet _).keeps_quiet
    | with_reducible exact (checkobject_quiet _).keeps_quiet
    | with_reducible exact (defineobject_quiet _ _).keeps_quiet
    | with_reducible exact (addqconstant_quiet _).keeps_quiet
    | with_reducible exact (readlabel_quiet _).keeps_quiet
    | with_reducible exact (builtincheck_quiet _ _).keeps_quiet
    | with_reducible exact getid_quiet.keeps_quiet
    | with_reducible exact (definesymbol_quiet _ _).keeps_quiet
    | with_reducible exact (skipcommas_quiet _).keeps_quiet
    | with_reducible exact linenumber_quiet.keeps_quiet
    | with_reducible exact (addop_spec _).keeps_expr
    | with_reducible exact (addopone_spec _ _).keeps_expr
    | with_reducible exact (addoptwo_spec _ _ _).keeps_expr
    | with_reducible exact (addopptr_spec _ _).keeps_expr
    | with_reducible exact (addopfunction_spec _ _ _).keeps_expr
    | with_reducible exact clearopt_spec.keeps_expr
    | with_reducible exact writeindexop_spec.keeps_expr
    | with_reducible exact (usesymbol_spec _ _).keeps_expr
    | with_reducible exact getelement_spec.keeps_expr
    | with_reducible exact (getshiftexpr_loop_spec _).keeps_expr
    | with_reducible exact ih.getexprlist.keeps_expr
    | with_reducible exact (ih.getexprlist_loop _).keeps_expr
    | with_reducible exact ih.getassignment.keeps_expr
    | with_reducible exact ih.getaltcond.keeps_expr
    | with_reducible exact ih.getorcond.keeps_expr
    | with_reducible exact (ih.getorcond_loop _ _).keeps_label (by first | exact Or.inl (by assumption) | exact Or.inr (by simp))
    | with_reducible exact ih.getandcond.keeps_expr
    | with_reducible exact (ih.getandcond_loop _ _).keeps_label (by first | exact Or.inl (by assumption) | exact Or.inr (by simp))
    | with_reducible exact ih.getrelation.keeps_expr
    | with_reducible exact ih.getsum.keeps_expr
    | with_reducible exact (ih.getsum_loop _).keeps_expr
    | with_reducible exact ih.getproduct.keeps_expr
    | with_reducible exact (ih.getproduct_loop _).keeps_expr
    | with_reducible exact ih.getorexpr.keeps_expr
    | with_reducible exact (ih.getorexpr_loop _).keeps_expr
    | with_reducible exact ih.getandexpr.keeps_expr
    | with_reducible exact (ih.getandexpr_loop _).keeps_expr
    | with_reducible exact ih.getshiftexpr.keeps_expr
    | with_reducible exact ih.getterm.keeps_expr
    | with_reducible exact (ih.getidexpr _ _).keeps_expr
    | with_reducible exact (ih.getidexpr_loop _).keeps_expr
    | with_reducible exact ih.getmatargs.keeps_expr
    | with_reducible exact (ih.getmatargs_loop _).keeps_expr
    | with_reducible exact (ih.getcallargs _).keeps_expr
    | with_reducible exact (ih.getcallargs_loop _ _ _ _).keeps_expr
    | with_reducible exact (ih.getmatdeclaration _).keeps_expr
    | with_reducible exact (ih.getonematrix _).keeps_expr
    | with_reducible exact (ih.creatematrix _).keeps_expr
    | with_reducible exact ih.getinitlist.keeps_expr
    | with_reducible exact (ih.getinitlist_loop _ _).keeps_expr
    | with_reducible exact (ih.getobjdeclaration _).keeps_expr
    | with_reducible exact (ih.getobjdeclaration_loop _ _ _ _).keeps_expr
    | with_reducible exact (ih.getoneobj _ _).keeps_expr
    | with_reducible exact (ih.getobjvars _ _).keeps_expr
    | with_reducible exact (ih.getobjvars_loop _ _).keeps_expr
    | with_reducible exact (setlabel_spec _).keeps_label (by first | exact Or.inl (by assumption) | exact Or.inr (by simp))
    | with_reducible exact (addoplabel_spec _ _).keeps_label (by first | exact Or.inl (by assumption) | exact Or.inr (by simp))
    | with_reducible exact (clearlabel_spec _).keeps_label (by first | exact Or.inl (by assumption) | exact Or.inr (by simp))
    | exact patch_keeps _ _ _ _ _ (Nat.lt_succ_of_le (le_trans (Frame.ext (by assumption)).plen (plen_le _)))
    | dsimp only
    | split

set_option maxHeartbeats 1600000 in
theorem getobjdeclaration_frame_succ (n : Nat) (ih : ExprFrames n) (symtype : SymType) :
    Spec false [] (getobjdeclaration (n + 1) symtype) := by
  refine Keeps.to_spec fun s0 => ?_
  rw [getobjdeclaration]
  repeat' first
    | with_reducible refine keeps_newlabel (fun _ _ => ?_)
    | with_reducible refine keeps_getS (fun _ _ => ?_)
    | with_reducible refine keeps_bind ?_ (fun _ => ?_)
    | with_reducible refine keeps_ite (fun _ => ?_) (fun _ => ?_)
    | with_reducible exact keeps_pure _
    | with_reducible exact gettoken_quiet.keeps_quiet
    | with_reducible exact rescantoken_quiet.keeps_quiet
    | with_reducible exact tokenstring_quiet.keeps_quiet
    | with_reducible exact tokennumber_quiet.keeps_quiet
    | with_reducible exact (tokenmode_quiet _).keeps_quiet
    | with_reducible exact (scanerror_quiet _).keeps_quiet
    | with_reducible exact getS_quiet.keeps_quiet
    | with_reducible exact outOfFuel_quiet.keeps_quiet
    | with_reducible exact math_error_quiet.keeps_quiet
    | with_reducible exact (symboltype_quiet _).keeps_quiet
    | with_reducible exact (getbuiltinfunc_quiet _).keeps_quiet
    | with_reducible exact (adduserfunc_quiet _).keeps_quiet
    | with_reducible exact (addelement_quiet _).keeps_quiet
    | with_reducible exact (checkobject_quiet _).keeps_quiet
    | with_reducible exact (defineobject_quiet _ _).keeps_quiet
    | with_reducible exact (addqconstant_quiet _).keeps_quiet
    | with_reducible exact (readlabel_quiet _).keeps_quiet
    | with_reducible exact (builtincheck_quiet _ _).keeps_quiet
    | with_reducible exact getid_quiet.keeps_quiet
    | with_reducible exact (definesymbol_quiet _ _).keeps_quiet
    | with_reducible exact (skipcommas_quiet _).keeps_quiet
    | with_reducible exact linenumber_quiet.keeps_quiet
    | with_reducible exact (addop_spec _).keeps_expr
    | with_reducible exact (addopone_spec _ _).keeps_expr
    | with_reducible exact (addoptwo_spec _ _ _).keeps_expr
    | with_reducible exact (addopptr_spec _ _).keeps_expr
    | with_reducible exact (addopfunction_spec _ _ _).keeps_expr
    | with_reducible exact clearopt_spec.keeps_expr
    | with_reducible exact writeindexop_spec.keeps_expr
    | with_reducible exact (usesymbol_spec _ _).keeps_expr
    | with_reducible exact getelement_spec.keeps_expr
    | with_reducible exact (getshiftexpr_loop_spec _).keeps_expr
    | with_reducible exact ih.getexprlist.keeps_expr
    | with_reducible exact (ih.getexprlist_loop _).keeps_expr
    | with_reducible exact ih.getassignment.keeps_expr
    | with_reducible exact ih.getaltcond.keeps_expr
    | with_reducible exact ih.getorcond.keeps_expr
    | with_reducible exact (ih.getorcond_loop _ _).keeps_label (by first | exact Or.inl (by assumption) | exact Or.inr (by simp))
    | with_reducible exact ih.getandcond.keeps_expr
    | with_reducible exact (ih.getandcond_loop _ _).keeps_label (by first | exact Or.inl (by assumption) | exact Or.inr (by simp))
    | with_reducible exact ih.getrelation.keeps_expr
    | with_reducible exact ih.getsum.keeps_expr
    | with_reducible exact (ih.getsum_loop _).keeps_expr
    | with_reducible exact ih.getproduct.keeps_expr
    | with_reducible exact (ih.getproduct_loop _).keeps_expr
    | with_reducible exact ih.getorexpr.keeps_expr
    | with_reducible exact (ih.getorexpr_loop _).keeps_expr
    | with_reducible exact ih.getandexpr.keeps_expr
    | with_reducible exact (ih.getandexpr_loop _).keeps_expr
    | with_reducible exact ih.getshiftexpr.keeps_expr
    | with_reducible exact ih.getterm.keeps_expr
    | with_reducible exact (ih.getidexpr _ _).keeps_expr
    | with_reducible exact (ih.getidexpr_loop _).keeps_expr
    | with_reducible exact ih.getmatargs.keeps_expr
    | with_reducible exact (ih.getmatargs_loop _).keeps_expr
    | with_reducible exact (ih.getcallargs _).keeps_expr
    | with_reducible exact (ih.getcallargs_loop _ _ _ _).keeps_expr
    | with_reducible exact (ih.getmatdeclaration _).keeps_expr
    | with_reducible exact (ih.getonematrix _).keeps_expr
    | with_reducible exact (ih.creatematrix _).keeps_expr
    | with_reducible exact ih.getinitlist.keeps_expr
    | with_reducible exact (ih.getinitlist_loop _ _).keeps_expr
    | with_reducible exact (ih.getobjdeclaration _).keeps_expr
    | with_reducible exact (ih.getobjdeclaration_loop _ _ _ _).keeps_expr
    | with_reducible exact (ih.getoneobj _ _).keeps_expr
    | with_reducible exact (ih.getobjvars _ _).keeps_expr
    | with_reducible exact (ih.getobjvars_loop _ _).keeps_expr
    | with_reducible exact (setlabel_spec _).keeps_label (by first | exact Or.inl (by assumption) | exact Or.inr (by simp))
    | with_reducible exact (addoplabel_spec _ _).keeps_label (by first | exact Or.inl (by assumption) | exact Or.inr (by simp))
    | with_reducible exact (clearlabel_spec _).keeps_label (by first | exact Or.inl (by assumption) | exact Or.inr (by simp))
    | exact patch_keeps _ _ _ _ _ (Nat.lt_succ_of_le (le_trans (Frame.ext (by assumption)).plen (plen_le _)))
    | dsimp only
    | split

set_option maxHeartbeats 1600000 in
theorem getobjdeclaration_loop_frame_succ (n : Nat) (ih : ExprFrames n) (name : Int) (symtype : SymType) (indices : List Int) (err : Bool) :
    Spec false [] (getobjdeclaration_loop (n + 1) name symtype indices err) := by
  refine Keeps.to_spec fun s0 => ?_
  rw [getobjdeclaration_loop]
  repeat' first
    | with_reducible refine keeps_newlabel (fun _ _ => ?_)
    | with_reducible refine keeps_getS (fun _ _ => ?_)
    | with_reducible refine keeps_bind ?_ (fun _ => ?_)
    | with_reducible refine keeps_ite (fun _ => ?_) (fun _ => ?_)
    | with_reducible exact keeps_pure _
    | with_reducible exact gettoken_quiet.keeps_quiet
    | with_reducible exact rescantoken_quiet.keeps_quiet
    | with_reducible exact tokenstring_quiet.keeps_quiet
    | with_reducible exact tokennumber_quiet.keeps_quiet
    | with_reducible exact (tokenmode_quiet _).keeps_quiet
    | with_reducible exact (scanerror_quiet _).keeps_quiet
    | with_reducible exact getS_quiet.keeps_quiet
    | with_reducible exact outOfFuel_quiet.keeps_quiet
    | with_reducible exact math_error_quiet.keeps_quiet
    | with_reducible exact (symboltype_quiet _).keeps_quiet
    | with_reducible exact (getbuiltinfunc_quiet _).keeps_quiet
    | with_reducible exact (adduserfunc_quiet _).keeps_quiet
    | with_reducible exact (addelement_quiet _).keeps_quiet
    | with_reducible exact (checkobject_quiet _).keeps_quiet
    | with_reducible exact (defineobject_quiet _ _).keeps_quiet
    | with_reducible exact (addqconstant_quiet _).keeps_quiet
    | with_reducible exact (readlabel_quiet _).keeps_quiet
    | with_reducible exact (builtincheck_quiet _ _).keeps_quiet
    | with_reducible exact getid_quiet.keeps_quiet
    | with_reducible exact (definesymbol_quiet _ _).keeps_quiet
    | with_reducible exact (skipcommas_quiet _).keeps_quiet
    | with_reducible exact linenumber_quiet.keeps_quiet
    | with_reducible exact (addop_spec _).keeps_expr
    | with_reducible exact (addopone_spec _ _).keeps_expr
    | with_reducible exact (addoptwo_spec _ _ _).keeps_expr
    | with_reducible exact (addopptr_spec _ _).keeps_expr
    | with_reducible exact (addopfunction_spec _ _ _).keeps_expr
    | with_reducible exact clearopt_spec.keeps_expr
    | with_reducible exact writeindexop_spec.keeps_expr
    | with_reducible exact (usesymbol_spec _ _).keeps_expr
    | with_reducible exact getelement_spec.keeps_expr
    | with_reducible exact (getshiftexpr_loop_spec _).keeps_expr
    | with_reducible exact ih.getexprlist.keeps_expr
    | with_reducible exact (ih.getexprlist_loop _).keeps_expr
    | with_reducible exact ih.getassignment.keeps_expr
    | with_reducible exact ih.getaltcond.keeps_expr
    | with_reducible exact ih.getorcond.keeps_expr
    | with_reducible exact (ih.getorcond_loop _ _).keeps_label (by first | exact Or.inl (by assumption) | exact Or.inr (by simp))
    | with_reducible exact ih.getandcond.keeps_expr
    | with_reducible exact (ih.getandcond_loop _ _).keeps_label (by first | exact Or.inl (by assumption) | exact Or.inr (by simp))
    | with_reducible exact ih.getrelation.keeps_expr
    | with_reducible exact ih.getsum.keeps_expr
    | with_reducible exact (ih.getsum_loop _).keeps_expr
    | with_reducible exact ih.getproduct.keeps_expr
    | with_reducible exact (ih.getproduct_loop _).keeps_expr
    | with_reducible exact ih.getorexpr.keeps_expr
    | with_reducible exact (ih.getorexpr_loop _).keeps_expr
    | with_reducible exact ih.getandexpr.keeps_expr
    | with_reducible exact (ih.getandexpr_loop _).keeps_expr
    | with_reducible exact ih.getshiftexpr.keeps_expr
    | with_reducible exact ih.getterm.keeps_expr
    | with_reducible exact (ih.getidexpr _ _).keeps_expr
    | with_reducible exact (ih.getidexpr_loop _).keeps_expr
    | with_reducible exact ih.getmatargs.keeps_expr
    | with_reducible exact (ih.getmatargs_loop _).keeps_expr
    | with_reducible exact (ih.getcallargs _).keeps_expr
    | with_reducible exact (ih.getcallargs_loop _ _ _ _).keeps_expr
    | with_reducible exact (ih.getmatdeclaration _).keeps_expr
    | with_reducible exact (ih.getonematrix _).keeps_expr
    | with_reducible exact (ih.creatematrix _).keeps_expr
    | with_reducible exact ih.getinitlist.keeps_expr
    | with_reducible exact (ih.getinitlist_loop _ _).keeps_expr
    | with_reducible exact (ih.getobjdeclaration _).keeps_expr
    | with_reducible exact (ih.getobjdeclaration_loop _ _ _ _).keeps_expr
    | with_reducible exact (ih.getoneobj _ _).keeps_expr
    | with_reducible exact (ih.getobjvars _ _).keeps_expr
    | with_reducible exact (ih.getobjvars_loop _ _).keeps_expr
    | with_reducible exact (setlabel_spec _).keeps_label (by first | exact Or.inl (by assumption) | exact Or.inr (by simp))
    | with_reducible exact (addoplabel_spec _ _).keeps_label (by first | exact Or.inl (by assumption) | exact Or.inr (by simp))
    | with_reducible exact (clearlabel_spec _).keeps_label (by first | exact Or.inl (by assumption) | exact Or.inr (by simp))
    | exact patch_keeps _ _ _ _ _ (Nat.lt_succ_of_le (le_trans (Frame.ext (by assumption)).plen (plen_le _)))
    | dsimp only
    | split

set_option maxHeartbeats 1600000 in
theorem getoneobj_frame_succ (n : Nat) (ih : ExprFrames n) (index : Int) (symtype : SymType) :
    Spec false [] (getoneobj (n + 1) index symtype) := by
  refine Keeps.to_spec fun s0 => ?_
  rw [getoneobj]
  repeat' first
    | with_reducible refine keeps_newlabel (fun _ _ => ?_)
    | with_reducible refine keeps_getS (fun _ _ => ?_)
    | with_reducible refine keeps_bind ?_ (fun _ => ?_)
    | with_reducible refine keeps_ite (fun _ => ?_) (fun _ => ?_)
    | with_reducible exact keeps_pure _
    | with_reducible exact gettoken_quiet.keeps_quiet
    | with_reducible exact rescantoken_quiet.keeps_quiet
    | with_reducible exact tokenstring_quiet.keeps_quiet
    | with_reducible exact tokennumber_quiet.keeps_quiet
    | with_reducible exact (tokenmode_quiet _).keeps_quiet
    | with_reducible exact (scanerror_quiet _).keeps_quiet
    | with_reducible exact getS_quiet.keeps_quiet
    | with_reducible exact outOfFuel_quiet.keeps_quiet
    | with_reducible exact math_error_quiet.keeps_quiet
    | with_reducible exact (symboltype_quiet _).keeps_quiet
    | with_reducible exact (getbuiltinfunc_quiet _).keeps_quiet
    | with_reducible exact (adduserfunc_quiet _).keeps_quiet
    | with_reducible exact (addelement_quiet _).keeps_quiet
    | with_reducible exact (checkobject_quiet _).keeps_quiet
    | with_reducible exact (defineobject_quiet _ _).keeps_quiet
    | with_reducible exact (addqconstant_quiet _).keeps_quiet
    | with_reducible exact (readlabel_quiet _).keeps_quiet
    | with_reducible exact (builtincheck_quiet _ _).keeps_quiet
    | with_reducible exact getid_quiet.keeps_quiet
    | with_reducible exact (definesymbol_quiet _ _).keeps_quiet
    | with_reducible exact (skipcommas_quiet _).keeps_quiet
    | with_reducible exact linenumber_quiet.keeps_quiet
    | with_reducible exact (addop_spec _).keeps_expr
    | with_reducible exact (addopone_spec _ _).keeps_expr
    | with_reducible exact (addoptwo_spec _ _ _).keeps_expr
    | with_reducible exact (addopptr_spec _ _).keeps_expr
    | with_reducible exact (addopfunction_spec _ _ _).keeps_expr
    | with_reducible exact clearopt_spec.keeps_expr
    | with_reducible exact writeindexop_spec.keeps_expr
    | with_reducible exact (usesymbol_spec _ _).keeps_expr
    | with_reducible exact getelement_spec.keeps_expr
    | with_reducible exact (getshiftexpr_loop_spec _).keeps_expr
    | with_reducible exact ih.getexprlist.keeps_expr
    | with_reducible exact (ih.getexprlist_loop _).keeps_expr
    | with_reducible exact ih.getassignment.keeps_expr
    | with_reducible exact ih.getaltcond.keeps_expr
    | with_reducible exact ih.getorcond.keeps_expr
    | with_reducible exact (ih.getorcond_loop _ _).keeps_label (by first | exact Or.inl (by assumption) | exact Or.inr (by simp))
    | with_reducible exact ih.getandcond.keeps_expr
    | with_reducible exact (ih.getandcond_loop _ _).keeps_label (by first | exact Or.inl (by assumption) | exact Or.inr (by simp))
    | with_reducible exact ih.getrelation.keeps_expr
    | with_reducible exact ih.getsum.keeps_expr
    | with_reducible exact (ih.getsum_loop _).keeps_expr
    | with_reducible exact ih.getproduct.keeps_expr
    | with_reducible exact (ih.getproduct_loop _).keeps_expr
    | with_reducible exact ih.getorexpr.keeps_expr
    | with_reducible exact (ih.getorexpr_loop _).keeps_expr
    | with_reducible exact ih.getandexpr.keeps_expr
    | with_reducible exact (ih.getandexpr_loop _).keeps_expr
    | with_reducible exact ih.getshiftexpr.keeps_expr
    | with_reducible exact ih.getterm.keeps_expr
    | with_reducible exact (ih.getidexpr _ _).keeps_expr
    | with_reducible exact (ih.getidexpr_loop _).keeps_expr
    | with_reducible exact ih.getmatargs.keeps_expr
    | with_reducible exact (ih.getmatargs_loop _).keeps_expr
    | with_reducible exact (ih.getcallargs _).keeps_expr
    | with_reducible exact (ih.getcallargs_loop _ _ _ _).keeps_expr
    | with_reducible exact (ih.getmatdeclaration _).keeps_expr
    | with_reducible exact (ih.getonematrix _).keeps_expr
    | with_reducible exact (ih.creatematrix _).keeps_expr
    | with_reducible exact ih.getinitlist.keeps_expr
    | with_reducible exact (ih.getinitlist_loop _ _).keeps_expr
    | with_reducible exact (ih.getobjdeclaration _).keeps_expr
    | with_reducible exact (ih.getobjdeclaration_loop _ _ _ _).keeps_expr
    | with_reducible exact (ih.getoneobj _ _).keeps_expr
    | with_reducible exact (ih.getobjvars _ _).keeps_expr
    | with_reducible exact (ih.getobjvars_loop _ _).keeps_expr
    | with_reducible exact (setlabel_spec _).keeps_label (by first | exact Or.inl (by assumption) | exact Or.inr (by simp))
    | with_reducible exact (addoplabel_spec _ _).keeps_label (by first | exact Or.inl (by assumption) | exact Or.inr (by simp))
    | with_reducible exact (clearlabel_spec _).keeps_label (by first | exact Or.inl (by assumption) | exact Or.inr (by simp))
    | exact patch_keeps _ _ _ _ _ (Nat.lt_succ_of_le (le_trans (Frame.ext (by assumption)).plen (plen_le _)))
    | dsimp only
    | split

set_option maxHeartbeats 1600000 in
theorem getobjvars_frame_succ (n : Nat) (ih : ExprFrames n) (name : Int) (symtype : SymType) :
    Spec false [] (getobjvars (n + 1) name symtype) := by
  refine Keeps.to_spec fun s0 => ?_
  rw [getobjvars]
  repeat' first
    | with_reducible refine keeps_newlabel (fun _ _ => ?_)
    | with_reducible refine keeps_getS (fun _ _ => ?_)
    | with_reducible refine keeps_bind ?_ (fun _ => ?_)
    | with_reducible refine keeps_ite (fun _ => ?_) (fun _ => ?_)
    | with_reducible exact keeps_pure _
    | with_reducible exact gettoken_quiet.keeps_quiet
    | with_reducible exact rescantoken_quiet.keeps_quiet
    | with_reducible exact tokenstring_quiet.keeps_quiet
    | with_reducible exact tokennumber_quiet.keeps_quiet
    | with_reducible exact (tokenmode_quiet _).keeps_quiet
    | with_reducible exact (scanerror_quiet _).keeps_quiet
    | with_reducible exact getS_quiet.keeps_quiet
    | with_reducible exact outOfFuel_quiet.keeps_quiet
    | with_reducible exact math_error_quiet.keeps_quiet
    | with_reducible exact (symboltype_quiet _).keeps_quiet
    | with_reducible exact (getbuiltinfunc_quiet _).keeps_quiet
    | with_reducible exact (adduserfunc_quiet _).keeps_quiet
    | with_reducible exact (addelement_quiet _).keeps_quiet
    | with_reducible exact (checkobject_quiet _).keeps_quiet
    | with_reducible exact (defineobject_quiet _ _).keeps_quiet
    | with_reducible exact (addqconstant_quiet _).keeps_quiet
    | with_reducible exact (readlabel_quiet _).keeps_quiet
    | with_reducible exact (builtincheck_quiet _ _).keeps_quiet
    | with_reducible exact getid_quiet.keeps_quiet
    | with_reducible exact (definesymbol_quiet _ _).keeps_quiet
    | with_reducible exact (skipcommas_quiet _).keeps_quiet
    | with_reducible exact linenumber_quiet.keeps_quiet
    | with_reducible exact (addop_spec _).keeps_expr
    | with_reducible exact (addopone_spec _ _).keeps_expr
    | with_reducible exact (addoptwo_spec _ _ _).keeps_expr
    | with_reducible exact (addopptr_spec _ _).keeps_expr
    | with_reducible exact (addopfunction_spec _ _ _).keeps_expr
    | with_reducible exact clearopt_spec.keeps_expr
    | with_reducible exact writeindexop_spec.keeps_expr
    | with_reducible exact (usesymbol_spec _ _).keeps_expr
    | with_reducible exact getelement_spec.keeps_expr
    | with_reducible exact (getshiftexpr_loop_spec _).keeps_expr
    | with_reducible exact ih.getexprlist.keeps_expr
    | with_reducible exact (ih.getexprlist_loop _).keeps_expr
    | with_reducible exact ih.getassignment.keeps_expr
    | with_reducible exact ih.getaltcond.keeps_expr
    | with_reducible exact ih.getorcond.keeps_expr
    | with_reducible exact (ih.getorcond_loop _ _).keeps_label (by first | exact Or.inl (by assumption) | exact Or.inr (by simp))
    | with_reducible exact ih.getandcond.keeps_expr
    | with_reducible exact (ih.getandcond_loop _ _).keeps_label (by first | exact Or.inl (by assumption) | exact Or.inr (by simp))
    | with_reducible exact ih.getrelation.keeps_expr
    | with_reducible exact ih.getsum.keeps_expr
    | with_reducible exact (ih.getsum_loop _).keeps_expr
    | with_reducible exact ih.getproduct.keeps_expr
    | with_reducible exact (ih.getproduct_loop _).keeps_expr
    | with_reducible exact ih.getorexpr.keeps_expr
    | with_reducible exact (ih.getorexpr_loop _).keeps_expr
    | with_reducible exact ih.getandexpr.keeps_expr
    | with_reducible exact (ih.getandexpr_loop _).keeps_expr
    | with_reducible exact ih.getshiftexpr.keeps_expr
    | with_reducible exact ih.getterm.keeps_expr
    | with_reducible exact (ih.getidexpr _ _).keeps_expr
    | with_reducible exact (ih.getidexpr_loop _).keeps_expr
    | with_reducible exact ih.getmatargs.keeps_expr
    | with_reducible exact (ih.getmatargs_loop _).keeps_expr
    | with_reducible exact (ih.getcallargs _).keeps_expr
    | with_reducible exact (ih.getcallargs_loop _ _ _ _).keeps_expr
    | with_reducible exact (ih.getmatdeclaration _).keeps_expr
    | with_reducible exact (ih.getonematrix _).keeps_expr
    | with_reducible exact (ih.creatematrix _).keeps_expr
    | with_reducible exact ih.getinitlist.keeps_expr
    | with_reducible exact (ih.getinitlist_loop _ _).keeps_expr
    | with_reducible exact (ih.getobjdeclaration _).keeps_expr
    | with_reducible exact (ih.getobjdeclaration_loop _ _ _ _).keeps_expr
    | with_reducible exact (ih.getoneobj _ _).keeps_expr
    | with_reducible exact (ih.getobjvars _ _).keeps_expr
    | with_reducible exact (ih.getobjvars_loop _ _).keeps_expr
    | with_reducible exact (setlabel_spec _).keeps_label (by first | exact Or.inl (by assumption) | exact Or.inr (by simp))
    | with_reducible exact (addoplabel_spec _ _).keeps_label (by first | exact Or.inl (by assumption) | exact Or.inr (by simp))
    | with_reducible exact (clearlabel_spec _).keeps_label (by first | exact Or.inl (by assumption) | exact Or.inr (by simp))
    | exact patch_keeps _ _ _ _ _ (Nat.lt_succ_of_le (le_trans (Frame.ext (by assumption)).plen (plen_le _)))
    | dsimp only
    | split

set_option maxHeartbeats 1600000 in
theorem getobjvars_loop_frame_succ (n : Nat) (ih : ExprFrames n) (index : Int) (symtype : SymType) :
    Spec false [] (getobjvars_loop (n + 1) index symtype) := by
  refine Keeps.to_spec fun s0 => ?_
  rw [getobjvars_loop]
  repeat' first
    | with_reducible refine keeps_newlabel (fun _ _ => ?_)
    | with_reducible refine keeps_getS (fun _ _ => ?_)
    | with_reducible refine keeps_bind ?_ (fun _ => ?_)
    | with_reducible refine keeps_ite (fun _ => ?_) (fun _ => ?_)
    | with_reducible exact keeps_pure _
    | with_reducible exact gettoken_quiet.keeps_quiet
    | with_reducible exact rescantoken_quiet.keeps_quiet
    | with_reducible exact tokenstring_quiet.keeps_quiet
    | with_reducible exact tokennumber_quiet.keeps_quiet
    | with_reducible exact (tokenmode_quiet _).keeps_quiet
    | with_reducible exact (scanerror_quiet _).keeps_quiet
    | with_reducible exact getS_quiet.keeps_quiet
    | with_reducible exact outOfFuel_quiet.keeps_quiet
    | with_reducible exact math_error_quiet.keeps_quiet
    | with_reducible exact (symboltype_quiet _).keeps_quiet
    | with_reducible exact (getbuiltinfunc_quiet _).keeps_quiet
    | with_reducible exact (adduserfunc_quiet _).keeps_quiet
    | with_reducible exact (addelement_quiet _).keeps_quiet
    | with_reducible exact (checkobject_quiet _).keeps_quiet
    | with_reducible exact (defineobject_quiet _ _).keeps_quiet
    | with_reducible exact (addqconstant_quiet _).keeps_quiet
    | with_reducible exact (readlabel_quiet _).keeps_quiet
    | with_reducible exact (builtincheck_quiet _ _).keeps_quiet
    | with_reducible exact getid_quiet.keeps_quiet
    | with_reducible exact (definesymbol_quiet _ _).keeps_quiet
    | with_reducible exact (skipcommas_quiet _).keeps_quiet
    | with_reducible exact linenumber_quiet.keeps_quiet
    | with_reducible exact (addop_spec _).keeps_expr
    | with_reducible exact (addopone_spec _ _).keeps_expr
    | with_reducible exact (addoptwo_spec _ _ _).keeps_expr
    | with_reducible exact (addopptr_spec _ _).keeps_expr
    | with_reducible exact (addopfunction_spec _ _ _).keeps_expr
    | with_reducible exact clearopt_spec.keeps_expr
    | with_reducible exact writeindexop_spec.keeps_expr
    | with_reducible exact (usesymbol_spec _ _).keeps_expr
    | with_reducible exact getelement_spec.keeps_expr
    | with_reducible exact (getshiftexpr_loop_spec _).keeps_expr
    | with_reducible exact ih.getexprlist.keeps_expr
    | with_reducible exact (ih.getexprlist_loop _).keeps_expr
    | with_reducible exact ih.getassignment.keeps_expr
    | with_reducible exact ih.getaltcond.keeps_expr
    | with_reducible exact ih.getorcond.keeps_expr
    | with_reducible exact (ih.getorcond_loop _ _).keeps_label (by first | exact Or.inl (by assumption) | exact Or.inr (by simp))
    | with_reducible exact ih.getandcond.keeps_expr
    | with_reducible exact (ih.getandcond_loop _ _).keeps_label (by first | exact Or.inl (by assumption) | exact Or.inr (by simp))
    | with_reducible exact ih.getrelation.keeps_expr
    | with_reducible exact ih.getsum.keeps_expr
    | with_reducible exact (ih.getsum_loop _).keeps_expr
    | with_reducible exact ih.getproduct.keeps_expr
    | with_reducible exact (ih.getproduct_loop _).keeps_expr
    | with_reducible exact ih.getorexpr.keeps_expr
    | with_reducible exact (ih.getorexpr_loop _).keeps_expr
    | with_reducible exact ih.getandexpr.keeps_expr
    | with_reducible exact (ih.getandexpr_loop _).keeps_expr
    | with_reducible exact ih.getshiftexpr.keeps_expr
    | with_reducible exact ih.getterm.keeps_expr
    | with_reducible exact (ih.getidexpr _ _).keeps_expr
    | with_reducible exact (ih.getidexpr_loop _).keeps_expr
    | with_reducible exact ih.getmatargs.keeps_expr
    | with_reducible exact (ih.getmatargs_loop _).keeps_expr
    | with_reducible exact (ih.getcallargs _).keeps_expr
    | with_reducible exact (ih.getcallargs_loop _ _ _ _).keeps_expr
    | with_reducible exact (ih.getmatdeclaration _).keeps_expr
    | with_reducible exact (ih.getonematrix _).keeps_expr
    | with_reducible exact (ih.creatematrix _).keeps_expr
    | with_reducible exact ih.getinitlist.keeps_expr
    | with_reducible exact (ih.getinitlist_loop _ _).keeps_expr
    | with_reducible exact (ih.getobjdeclaration _).keeps_expr
    | with_reducible exact (ih.getobjdeclaration_loop _ _ _ _).keeps_expr
    | with_reducible exact (ih.getoneobj _ _).keeps_expr
    | with_reducible exact (ih.getobjvars _ _).keeps_expr
    | with_reducible exact (ih.getobjvars_loop _ _).keeps_expr
    | with_reducible exact (setlabel_spec _).keeps_label (by first | exact Or.inl (by assumption) | exact Or.inr (by simp))
    | with_reducible exact (addoplabel_spec _ _).keeps_label (by first | exact Or.inl (by assumption) | exact Or.inr (by simp))
    | with_reducible exact (clearlabel_spec _).keeps_label (by first | exact Or.inl (by assumption) | exact Or.inr (by simp))
    | exact patch_keeps _ _ _ _ _ (Nat.lt_succ_of_le (le_trans (Frame.ext (by assumption)).plen (plen_le _)))
    | dsimp only
    | split

theorem exprFrames_succ (n : Nat) (ih : ExprFrames n) : ExprFrames (n + 1) where
  getexprlist := getexprlist_frame_succ n ih
  getexprlist_loop := getexprlist_loop_frame_succ n ih
  getassignment := getassignment_frame_succ n ih
  getaltcond := getaltcond_frame_succ n ih
  getorcond := getorcond_frame_succ n ih
  getorcond_loop := getorcond_loop_frame_succ n ih
  getandcond := getandcond_frame_succ n ih
  getandcond_loop := getandcond_loop_frame_succ n ih
  getrelation := getrelation_frame_succ n ih
  getsum := getsum_frame_succ n ih
  getsum_loop := getsum_loop_frame_succ n ih
  getproduct := getproduct_frame_succ n ih
  getproduct_loop := getproduct_loop_frame_succ n ih
  getorexpr := getorexpr_frame_succ n ih
  getorexpr_loop := getorexpr_loop_frame_succ n ih
  getandexpr := getandexpr_frame_succ n ih
  getandexpr_loop := getandexpr_loop_frame_succ n ih
  getshiftexpr := getshiftexpr_frame_succ n ih
  getterm := getterm_frame_succ n ih
  getidexpr := getidexpr_frame_succ n ih
  getidexpr_loop := getidexpr_loop_frame_succ n ih
  getmatargs := getmatargs_frame_succ n ih
  getmatargs_loop := getmatargs_loop_frame_succ n ih
  getcallargs := getcallargs_frame_succ n ih
  getcallargs_loop := getcallargs_loop_frame_succ n ih
  getmatdeclaration := getmatdeclaration_frame_succ n ih
  getonematrix := getonematrix_frame_succ n ih
  creatematrix := creatematrix_frame_succ n ih
  getinitlist := getinitlist_frame_succ n ih
  getinitlist_loop := getinitlist_loop_frame_succ n ih
  getobjdeclaration := getobjdeclaration_frame_succ n ih
  getobjdeclaration_loop := getobjdeclaration_loop_frame_succ n ih
  getoneobj := getoneobj_frame_succ n ih
  getobjvars := getobjvars_frame_succ n ih
  getobjvars_loop := getobjvars_loop_frame_succ n ih

/-- Every expression rule keeps the frame: it leaves the labels that existed as
they were, and the code that existed too, but for the flag of an index
address that is its last instruction. -/
theorem exprFrames : ∀ n, ExprFrames n := by
  intro n
  induction n with
  | zero => exact exprFrames_zero
  | succ n ih => exact exprFrames_succ n ih

/-! ### Named labels -/

theorem Frame.mono {nm nm2 : Bool} {L L2 : List Nat} {s t : PState}
    (h : Frame nm2 L2 s t)
    (hT : ∀ i, i < s.labels.length → Touchable nm2 L2 s i → Touchable nm L s i) :
    Frame nm L s t where
  ext := h.ext
  labels := fun i hi hn => h.labels i hi (fun h2 => hn (hT i hi h2))
  code := fun j hj hn => h.code j hj (fun i hi => by
    by_cases hlt : i < s.labels.length
    · exact hn i (hT i hlt hi)
    · rw [sitesOf_of_ge s i (not_lt.mp hlt)]
      simp)
  flag := fun ho hl hn => h.flag ho hl (fun i hi => by
    by_cases hlt : i < s.labels.length
    · exact hn i (hT i hlt hi)
    · rw [sitesOf_of_ge s i (not_lt.mp hlt)]
      simp)

theorem getD_append_label (ls : List LABEL) (l : LABEL) (i : Nat) (h : i < ls.length) :
    (ls ++ [l]).getD i {} = ls.getD i {} := by
  simp only [List.getD_eq_getElem?_getD]
  rw [List.getElem?_append_left h]

theorem getD_append_label_ge (ls : List LABEL) (name : Int) (i : Nat) (h : ls.length ≤ i) :
    ((ls ++ [({ l_name := some name } : LABEL)]).getD i {}).l_sites = [] := by
  simp only [List.getD_eq_getElem?_getD]
  by_cases h2 : i = ls.length
  · subst h2
    simp
  · rw [List.getElem?_eq_none (by simp; omega)]
    rfl

/-- A new label with a name and nothing else leaves all there was. -/
theorem namedlabel_frame (nm : Bool) (L : List Nat) (s : PState) (name : Int) :
    Frame nm L s { s with labels := s.labels ++ [({ l_name := some name } : LABEL)] } := by
  have hS : ∀ i, sitesOf { s with labels := s.labels ++ [({ l_name := some name } : LABEL)] } i
      = sitesOf s i := by
    intro i
    by_cases h : i < s.labels.length
    · simp only [sitesOf, getD_append_label _ _ _ h]
    · rw [sitesOf_of_ge s i (not_lt.mp h)]
      exact getD_append_label_ge _ _ _ (not_lt.mp h)
  exact {
    ext := {
      errorcount := le_refl _
      length := le_refl _
      plen := le_refl _
      nlabels := by simp
      calculated := rfl
      maxscancount := rfl
      f_name := rfl
      names := fun i hi => by simp only [nameOf, getD_append_label _ _ _ hi]
      sites := fun i x hx => by rw [hS] at hx; exact Or.inl hx
      bounded := fun hb i x hx => by rw [hS] at hx; exact hb i x hx }
    labels := fun i hi _ => getD_append_label _ _ _ hi
    code := fun _ _ _ => rfl
    flag := fun _ _ _ => Or.inl rfl }

theorem findlabel_some {name : Int} {ls : List LABEL} {i : Nat}
    (h : findlabel name ls = some i) : i < ls.length ∧ (ls.getD i {}).l_name = some name := by
  unfold findlabel at h
  rw [List.findIdx?_eq_some_iff_getElem] at h
  obtain ⟨hi, hp, _⟩ := h
  refine ⟨hi, ?_⟩
  simp only [List.getD_eq_getElem?_getD, List.getElem?_eq_getElem hi, Option.getD_some]
  simpa using hp

theorem touchable_named {s : PState} {name : Int} {i : Nat}
    (h : findlabel name s.labels = some i) (L : List Nat) : Touchable true L s i :=
  Or.inr ⟨rfl, by rw [nameOf, (findlabel_some h).2]; simp⟩

theorem definelabel_spec (name : Int) : Spec true [] (definelabel name) := by
  intro s
  unfold definelabel
  cases hf : findlabel name s.labels with
  | some i =>
    simp only
    split_ifs
    · exact (scanerror_quiet T_NULL).spec true [] s
    · have h := setlabel_spec i s
      simp only [setlabel, modS] at h ⊢
      refine h.mono fun k _ hk => ?_
      rw [(touchable_single s i k).mp hk]
      exact touchable_named hf []
  | none =>
    simp only
    have h1 := namedlabel_frame true [] s name
    have h2 := setlabel_spec s.labels.length
      { s with labels := s.labels ++ [({ l_name := some name } : LABEL)] }
    simp only [setlabel, modS] at h2 ⊢
    refine h1.andThen h2 (by simp) ?_
    intro i hi hlt
    simp only [List.mem_singleton] at hi
    omega

theorem addlabel_spec (name : Int) : Spec true [] (addlabel name) := by
  intro s
  unfold addlabel
  cases hf : findlabel name s.labels with
  | some i =>
    simp only
    have h := uselabel_spec i s
    cases hu : uselabel i s with
    | ok a t =>
      rw [hu] at h
      refine Frame.mono h fun k _ hk => ?_
      rw [(touchable_single s i k).mp hk]
      exact touchable_named hf []
    | abort t =>
      rw [hu] at h
      refine Frame.mono h fun k _ hk => ?_
      rw [(touchable_single s i k).mp hk]
      exact touchable_named hf []
    | nofuel => trivial
  | none =>
    simp only
    have h1 := namedlabel_frame true [] s name
    have h2 := uselabel_spec s.labels.length
      { s with labels := s.labels ++ [({ l_name := some name } : LABEL)] }
    cases hu : uselabel s.labels.length
        { s with labels := s.labels ++ [({ l_name := some name } : LABEL)] } with
    | ok a t =>
      rw [hu] at h2
      refine h1.andThen h2 (by simp) ?_
      intro i hi hlt
      simp only [List.mem_singleton] at hi
      omega
    | abort t =>
      rw [hu] at h2
      refine h1.andThen h2 (by simp) ?_
      intro i hi hlt
      simp only [List.mem_singleton] at hi
      omega
    | nofuel => trivial

set_option maxHeartbeats 1600000 in
theorem getcondition_spec (n : Nat) :
    Spec false [] (getcondition n) := by
  refine Keeps.to_spec fun s0 => ?_
  unfold getcondition
  repeat' first
    | with_reducible refine keeps_newlabel (fun _ _ => ?_)
    | with_reducible refine keeps_getS (fun _ _ => ?_)
    | with_reducible refine keeps_bind ?_ (fun _ => ?_)
    | with_reducible refine keeps_ite (fun _ => ?_) (fun _ => ?_)
    | with_reducible exact keeps_pure _
    | with_reducible exact gettoken_quiet.keeps_quiet
    | with_reducible exact rescantoken_quiet.keeps_quiet
    | with_reducible exact tokenstring_quiet.keeps_quiet
    | with_reducible exact tokennumber_quiet.keeps_quiet
    | with_reducible exact (tokenmode_quiet _).keeps_quiet
    | with_reducible exact (scanerror_quiet _).keeps_quiet
    | with_reducible exact getS_quiet.keeps_quiet
    | with_reducible exact outOfFuel_quiet.keeps_quiet
    | with_reducible exact math_error_quiet.keeps_quiet
    | with_reducible exact (symboltype_quiet _).keeps_quiet
    | with_reducible exact (getbuiltinfunc_quiet _).keeps_quiet
    | with_reducible exact (adduserfunc_quiet _).keeps_quiet
    | with_reducible exact (addelement_quiet _).keeps_quiet
    | with_reducible exact (checkobject_quiet _).keeps_quiet
    | with_reducible exact (defineobject_quiet _ _).keeps_quiet
    | with_reducible exact (addqconstant_quiet _).keeps_quiet
    | with_reducible exact (readlabel_quiet _).keeps_quiet
    | with_reducible exact (builtincheck_quiet _ _).keeps_quiet
    | with_reducible exact getid_quiet.keeps_quiet
    | with_reducible exact (definesymbol_quiet _ _).keeps_quiet
    | with_reducible exact (skipcommas_quiet _).keeps_quiet
    | with_reducible exact linenumber_quiet.keeps_quiet
    | with_reducible exact nextchar_is_colon_quiet.keeps_quiet
    | with_reducible exact (stringindex_quiet _).keeps_quiet
    | with_reducible exact (addop_spec _).keeps_expr
    | with_reducible exact (addopone_spec _ _).keeps_expr
    | with_reducible exact (addoptwo_spec _ _ _).keeps_expr
    | with_reducible exact (addopptr_spec _ _).keeps_expr
    | with_reducible exact (addopfunction_spec _ _ _).keeps_expr
    | with_reducible exact clearopt_spec.keeps_expr
    | with_reducible exact writeindexop_spec.keeps_expr
    | with_reducible exact (usesymbol_spec _ _).keeps_expr
    | with_reducible exact getelement_spec.keeps_expr
    | with_reducible exact (getshiftexpr_loop_spec _).keeps_expr
    | with_reducible exact (exprFrames _).getexprlist |>.keeps_expr
    | with_reducible exact (exprFrames _).getexprlist_loop _ |>.keeps_expr
    | with_reducible exact (exprFrames _).getassignment |>.keeps_expr
    | with_reducible exact (exprFrames _).getaltcond |>.keeps_expr
    | with_reducible exact (exprFrames _).getorcond |>.keeps_expr
    | with_reducible exact (exprFrames _).getandcond |>.keeps_expr
    | with_reducible exact (exprFrames _).getrelation |>.keeps_expr
    | with_reducible exact (exprFrames _).getsum |>.keeps_expr
    | with_reducible exact (exprFrames _).getsum_loop _ |>.keeps_expr
    | with_reducible exact (exprFrames _).getproduct |>.keeps_expr
    | with_reducible exact (exprFrames _).getproduct_loop _ |>.keeps_expr
    | with_reducible exact (exprFrames _).getorexpr |>.keeps_expr
    | with_reducible exact (exprFrames _).getorexpr_loop _ |>.keeps_expr
    | with_reducible exact (exprFrames _).getandexpr |>.keeps_expr
    | with_reducible exact (exprFrames _).getandexpr_loop _ |>.keeps_expr
    | with_reducible exact (exprFrames _).getshiftexpr |>.keeps_expr
    | with_reducible exact (exprFrames _).getterm |>.keeps_expr
    | with_reducible exact (exprFrames _).getidexpr _ _ |>.keeps_expr
    | with_reducible exact (exprFrames _).getidexpr_loop _ |>.keeps_expr
    | with_reducible exact (exprFrames _).getmatargs |>.keeps_expr
    | with_reducible exact (exprFrames _).getmatargs_loop _ |>.keeps_expr
    | with_reducible exact (exprFrames _).getcallargs _ |>.keeps_expr
    | with_reducible exact (exprFrames _).getcallargs_loop _ _ _ _ |>.keeps_expr
    | with_reducible exact (exprFrames _).getmatdeclaration _ |>.keeps_expr
    | with_reducible exact (exprFrames _).getonematrix _ |>.keeps_expr
    | with_reducible exact (exprFrames _).creatematrix _ |>.keeps_expr
    | with_reducible exact (exprFrames _).getinitlist |>.keeps_expr
    | with_reducible exact (exprFrames _).getinitlist_loop _ _ |>.keeps_expr
    | with_reducible exact (exprFrames _).getobjdeclaration _ |>.keeps_expr
    | with_reducible exact (exprFrames _).getobjdeclaration_loop _ _ _ _ |>.keeps_expr
    | with_reducible exact (exprFrames _).getoneobj _ _ |>.keeps_expr
    | with_reducible exact (exprFrames _).getobjvars _ _ |>.keeps_expr
    | with_reducible exact (exprFrames _).getobjvars_loop _ _ |>.keeps_expr
    | with_reducible exact (setlabel_spec _).keeps_label (by first | exact Or.inl (by assumption) | exact Or.inr (by simp))
    | with_reducible exact (addoplabel_spec _ _).keeps_label (by first | exact Or.inl (by assumption) | exact Or.inr (by simp))
    | with_reducible exact (clearlabel_spec _).keeps_label (by first | exact Or.inl (by assumption) | exact Or.inr (by simp))
    | dsimp only
    | split

set_option maxHeartbeats 1600000 in
theorem getshowstatement_spec  :
    Spec false [] getshowstatement := by
  refine Keeps.to_spec fun s0 => ?_
  unfold getshowstatement
  repeat' first
    | with_reducible refine keeps_newlabel (fun _ _ => ?_)
    | with_reducible refine keeps_getS (fun _ _ => ?_)
    | with_reducible refine keeps_bind ?_ (fun _ => ?_)
    | with_reducible refine keeps_ite (fun _ => ?_) (fun _ => ?_)
    | with_reducible exact keeps_pure _
    | with_reducible exact gettoken_quiet.keeps_quiet
    | with_reducible exact rescantoken_quiet.keeps_quiet
    | with_reducible exact tokenstring_quiet.keeps_quiet
    | with_reducible exact tokennumber_quiet.keeps_quiet
    | with_reducible exact (tokenmode_quiet _).keeps_quiet
    | with_reducible exact (scanerror_quiet _).keeps_quiet
    | with_reducible exact getS_quiet.keeps_quiet
    | with_reducible exact outOfFuel_quiet.keeps_quiet
    | with_reducible exact math_error_quiet.keeps_quiet
    | with_reducible exact (symboltype_quiet _).keeps_quiet
    | with_reducible exact (getbuiltinfunc_quiet _).keeps_quiet
    | with_reducible exact (adduserfunc_quiet _).keeps_quiet
    | with_reducible exact (addelement_quiet _).keeps_quiet
    | with_reducible exact (checkobject_quiet _).keeps_quiet
    | with_reducible exact (defineobject_quiet _ _).keeps_quiet
    | with_reducible exact (addqconstant_quiet _).keeps_quiet
    | with_reducible exact (readlabel_quiet _).keeps_quiet
    | with_reducible exact (builtincheck_quiet _ _).keeps_quiet
    | with_reducible exact getid_quiet.keeps_quiet
    | with_reducible exact (definesymbol_quiet _ _).keeps_quiet
    | with_reducible exact (skipcommas_quiet _).keeps_quiet
    | with_reducible exact linenumber_quiet.keeps_quiet
    | with_reducible exact nextchar_is_colon_quiet.keeps_quiet
    | with_reducible exact (stringindex_quiet _).keeps_quiet
    | with_reducible exact (addop_spec _).keeps_expr
    | with_reducible exact (addopone_spec _ _).keeps_expr
    | with_reducible exact (addoptwo_spec _ _ _).keeps_expr
    | with_reducible exact (addopptr_spec _ _).keeps_expr
    | with_reducible exact (addopfunction_spec _ _ _).keeps_expr
    | with_reducible exact clearopt_spec.keeps_expr
    | with_reducible exact writeindexop_spec.keeps_expr
    | with_reducible exact (usesymbol_spec _ _).keeps_expr
    | with_reducible exact getelement_spec.keeps_expr
    | with_reducible exact (getshiftexpr_loop_spec _).keeps_expr
    | with_reducible exact (exprFrames _).getexprlist |>.keeps_expr
    | with_reducible exact (exprFrames _).getexprlist_loop _ |>.keeps_expr
    | with_reducible exact (exprFrames _).getassignment |>.keeps_expr
    | with_reducible exact (exprFrames _).getaltcond |>.keeps_expr
    | with_reducible exact (exprFrames _).getorcond |>.keeps_expr
    | with_reducible exact (exprFrames _).getandcond |>.keeps_expr
    | with_reducible exact (exprFrames _).getrelation |>.keeps_expr
    | with_reducible exact (exprFrames _).getsum |>.keeps_expr
    | with_reducible exact (exprFrames _).getsum_loop _ |>.keeps_expr
    | with_reducible exact (exprFrames _).getproduct |>.keeps_expr
    | with_reducible exact (exprFrames _).getproduct_loop _ |>.keeps_expr
    | with_reducible exact (exprFrames _).getorexpr |>.keeps_expr
    | with_reducible exact (exprFrames _).getorexpr_loop _ |>.keeps_expr
    | with_reducible exact (exprFrames _).getandexpr |>.keeps_expr
    | with_reducible exact (exprFrames _).getandexpr_loop _ |>.keeps_expr
    | with_reducible exact (exprFrames _).getshiftexpr |>.keeps_expr
    | with_reducible exact (exprFrames _).getterm |>.keeps_expr
    | with_reducible exact (exprFrames _).getidexpr _ _ |>.keeps_expr
    | with_reducible exact (exprFrames _).getidexpr_loop _ |>.keeps_expr
    | with_reducible exact (exprFrames _).getmatargs |>.keeps_expr
    | with_reducible exact (exprFrames _).getmatargs_loop _ |>.keeps_expr
    | with_reducible exact (exprFrames _).getcallargs _ |>.keeps_expr
    | with_reducible exact (exprFrames _).getcallargs_loop _ _ _ _ |>.keeps_expr
    | with_reducible exact (exprFrames _).getmatdeclaration _ |>.keeps_expr
    | with_reducible exact (exprFrames _).getonematrix _ |>.keeps_expr
    | with_reducible exact (exprFrames _).creatematrix _ |>.keeps_expr
    | with_reducible exact (exprFrames _).getinitlist |>.keeps_expr
    | with_reducible exact (exprFrames _).getinitlist_loop _ _ |>.keeps_expr
    | with_reducible exact (exprFrames _).getobjdeclaration _ |>.keeps_expr
    | with_reducible exact (exprFrames _).getobjdeclaration_loop _ _ _ _ |>.keeps_expr
    | with_reducible exact (exprFrames _).getoneobj _ _ |>.keeps_expr
    | with_reducible exact (exprFrames _).getobjvars _ _ |>.keeps_expr
    | with_reducible exact (exprFrames _).getobjvars_loop _ _ |>.keeps_expr
    | with_reducible exact (setlabel_spec _).keeps_label (by first | exact Or.inl (by assumption) | exact Or.inr (by simp))
    | with_reducible exact (addoplabel_spec _ _).keeps_label (by first | exact Or.inl (by assumption) | exact Or.inr (by simp))
    | with_reducible exact (clearlabel_spec _).keeps_label (by first | exact Or.inl (by assumption) | exact Or.inr (by simp))
    | dsimp only
    | split

theorem getstatement_print_spec : ∀ (n : Nat) (printeol : Bool), Spec false [] (getstatement_print n printeol) := by
  intro n
  induction n with
  | zero => exact fun _ => outOfFuel_quiet.spec _ _
  | succ n ih =>
    intro printeol
    refine Keeps.to_spec fun s0 => ?_
    rw [getstatement_print]
    repeat' first
      | with_reducible refine keeps_newlabel (fun _ _ => ?_)
      | with_reducible refine keeps_getS (fun _ _ => ?_)
      | with_reducible refine keeps_bind ?_ (fun _ => ?_)
      | with_reducible refine keeps_ite (fun _ => ?_) (fun _ => ?_)
      | with_reducible exact keeps_pure _
      | with_reducible exact gettoken_quiet.keeps_quiet
      | with_reducible exact rescantoken_quiet.keeps_quiet
      | with_reducible exact tokenstring_quiet.keeps_quiet
      | with_reducible exact tokennumber_quiet.keeps_quiet
      | with_reducible exact (tokenmode_quiet _).keeps_quiet
      | with_reducible exact (scanerror_quiet _).keeps_quiet
      | with_reducible exact getS_quiet.keeps_quiet
      | with_reducible exact outOfFuel_quiet.keeps_quiet
      | with_reducible exact math_error_quiet.keeps_quiet
      | with_reducible exact (symboltype_quiet _).keeps_quiet
      | with_reducible exact (getbuiltinfunc_quiet _).keeps_quiet
      | with_reducible exact (adduserfunc_quiet _).keeps_quiet
      | with_reducible exact (addelement_quiet _).keeps_quiet
      | with_reducible exact (checkobject_quiet _).keeps_quiet
      | with_reducible exact (defineobject_quiet _ _).keeps_quiet
      | with_reducible exact (addqconstant_quiet _).keeps_quiet
      | with_reducible exact (readlabel_quiet _).keeps_quiet
      | with_reducible exact (builtincheck_quiet _ _).keeps_quiet
      | with_reducible exact getid_quiet.keeps_quiet
      | with_reducible exact (definesymbol_quiet _ _).keeps_quiet
      | with_reducible exact (skipcommas_quiet _).keeps_quiet
      | with_reducible exact linenumber_quiet.keeps_quiet
      | with_reducible exact nextchar_is_colon_quiet.keeps_quiet
      | with_reducible exact (stringindex_quiet _).keeps_quiet
      | with_reducible exact (addop_spec _).keeps_expr
      | with_reducible exact (addopone_spec _ _).keeps_expr
      | with_reducible exact (addoptwo_spec _ _ _).keeps_expr
      | with_reducible exact (addopptr_spec _ _).keeps_expr
      | with_reducible exact (addopfunction_spec _ _ _).keeps_expr
      | with_reducible exact clearopt_spec.keeps_expr
      | with_reducible exact writeindexop_spec.keeps_expr
      | with_reducible exact (usesymbol_spec _ _).keeps_expr
      | with_reducible exact getelement_spec.keeps_expr
      | with_reducible exact (getshiftexpr_loop_spec _).keeps_expr
      | with_reducible exact (exprFrames _).getexprlist |>.keeps_expr
      | with_reducible exact (exprFrames _).getexprlist_loop _ |>.keeps_expr
      | with_reducible exact (exprFrames _).getassignment |>.keeps_expr
      | with_reducible exact (exprFrames _).getaltcond |>.keeps_expr
      | with_reducible exact (exprFrames _).getorcond |>.keeps_expr
      | with_reducible exact (exprFrames _).getandcond |>.keeps_expr
      | with_reducible exact (exprFrames _).getrelation |>.keeps_expr
      | with_reducible exact (exprFrames _).getsum |>.keeps_expr
      | with_reducible exact (exprFrames _).getsum_loop _ |>.keeps_expr
      | with_reducible exact (exprFrames _).getproduct |>.keeps_expr
      | with_reducible exact (exprFrames _).getproduct_loop _ |>.keeps_expr
      | with_reducible exact (exprFrames _).getorexpr |>.keeps_expr
      | with_reducible exact (exprFrames _).getorexpr_loop _ |>.keeps_expr
      | with_reducible exact (exprFrames _).getandexpr |>.keeps_expr
      | with_reducible exact (exprFrames _).getandexpr_loop _ |>.keeps_expr
      | with_reducible exact (exprFrames _).getshiftexpr |>.keeps_expr
      | with_reducible exact (exprFrames _).getterm |>.keeps_expr
      | with_reducible exact (exprFrames _).getidexpr _ _ |>.keeps_expr
      | with_reducible exact (exprFrames _).getidexpr_loop _ |>.keeps_expr
      | with_reducible exact (exprFrames _).getmatargs |>.keeps_expr
      | with_reducible exact (exprFrames _).getmatargs_loop _ |>.keeps_expr
      | with_reducible exact (exprFrames _).getcallargs _ |>.keeps_expr
      | with_reducible exact (exprFrames _).getcallargs_loop _ _ _ _ |>.keeps_expr
      | with_reducible exact (exprFrames _).getmatdeclaration _ |>.keeps_expr
      | with_reducible exact (exprFrames _).getonematrix _ |>.keeps_expr
      | with_reducible exact (exprFrames _).creatematrix _ |>.keeps_expr
      | with_reducible exact (exprFrames _).getinitlist |>.keeps_expr
      | with_reducible exact (exprFrames _).getinitlist_loop _ _ |>.keeps_expr
      | with_reducible exact (exprFrames _).getobjdeclaration _ |>.keeps_expr
      | with_reducible exact (exprFrames _).getobjdeclaration_loop _ _ _ _ |>.keeps_expr
      | with_reducible exact (exprFrames _).getoneobj _ _ |>.keeps_expr
      | with_reducible exact (exprFrames _).getobjvars _ _ |>.keeps_expr
      | with_reducible exact (exprFrames _).getobjvars_loop _ _ |>.keeps_expr
      | with_reducible exact (setlabel_spec _).keeps_label (by first | exact Or.inl (by assumption) | exact Or.inr (by simp))
      | with_reducible exact (addoplabel_spec _ _).keeps_label (by first | exact Or.inl (by assumption) | exact Or.inr (by simp))
      | with_reducible exact (clearlabel_spec _).keeps_label (by first | exact Or.inl (by assumption) | exact Or.inr (by simp))
      | with_reducible exact (ih _).keeps_expr
      | dsimp only
      | split

set_option maxHeartbeats 1600000 in
theorem getonedeclaration_spec (n : Nat) (type : TokenType) :
    Spec false [] (getonedeclaration n type) := by
  refine Keeps.to_spec fun s0 => ?_
  unfold getonedeclaration
  repeat' first
    | with_reducible refine keeps_newlabel (fun _ _ => ?_)
    | with_reducible refine keeps_getS (fun _ _ => ?_)
    | with_reducible refine keeps_bind ?_ (fun _ => ?_)
    | with_reducible refine keeps_ite (fun _ => ?_) (fun _ => ?_)
    | with_reducible exact keeps_pure _
    | with_reducible exact gettoken_quiet.keeps_quiet
    | with_reducible exact rescantoken_quiet.keeps_quiet
    | with_reducible exact tokenstring_quiet.keeps_quiet
    | with_reducible exact tokennumber_quiet.keeps_quiet
    | with_reducible exact (tokenmode_quiet _).keeps_quiet
    | with_reducible exact (scanerror_quiet _).keeps_quiet
    | with_reducible exact getS_quiet.keeps_quiet
    | with_reducible exact outOfFuel_quiet.keeps_quiet
    | with_reducible exact math_error_quiet.keeps_quiet
    | with_reducible exact (symboltype_quiet _).keeps_quiet
    | with_reducible exact (getbuiltinfunc_quiet _).keeps_quiet
    | with_reducible exact (adduserfunc_quiet _).keeps_quiet
    | with_reducible exact (addelement_quiet _).keeps_quiet
    | with_reducible exact (checkobject_quiet _).keeps_quiet
    | with_reducible exact (defineobject_quiet _ _).keeps_quiet
    | with_reducible exact (addqconstant_quiet _).keeps_quiet
    | with_reducible exact (readlabel_quiet _).keeps_quiet
    | with_reducible exact (builtincheck_quiet _ _).keeps_quiet
    | with_reducible exact getid_quiet.keeps_quiet
    | with_reducible exact (definesymbol_quiet _ _).keeps_quiet
    | with_reducible exact (skipcommas_quiet _).keeps_quiet
    | with_reducible exact linenumber_quiet.keeps_quiet
    | with_reducible exact nextchar_is_colon_quiet.keeps_quiet
    | with_reducible exact (stringindex_quiet _).keeps_quiet
    | with_reducible exact (addop_spec _).keeps_expr
    | with_reducible exact (addopone_spec _ _).keeps_expr
    | with_reducible exact (addoptwo_spec _ _ _).keeps_expr
    | with_reducible exact (addopptr_spec _ _).keeps_expr
    | with_reducible exact (addopfunction_spec _ _ _).keeps_expr
    | with_reducible exact clearopt_spec.keeps_expr
    | with_reducible exact writeindexop_spec.keeps_expr
    | with_reducible exact (usesymbol_spec _ _).keeps_expr
    | with_reducible exact getelement_spec.keeps_expr
    | with_reducible exact (getshiftexpr_loop_spec _).keeps_expr
    | with_reducible exact (exprFrames _).getexprlist |>.keeps_expr
    | with_reducible exact (exprFrames _).getexprlist_loop _ |>.keeps_expr
    | with_reducible exact (exprFrames _).getassignment |>.keeps_expr
    | with_reducible exact (exprFrames _).getaltcond |>.keeps_expr
    | with_reducible exact (exprFrames _).getorcond |>.keeps_expr
    | with_reducible exact (exprFrames _).getandcond |>.keeps_expr
    | with_reducible exact (exprFrames _).getrelation |>.keeps_expr
    | with_reducible exact (exprFrames _).getsum |>.keeps_expr
    | with_reducible exact (exprFrames _).getsum_loop _ |>.keeps_expr
    | with_reducible exact (exprFrames _).getproduct |>.keeps_expr
    | with_reducible exact (exprFrames _).getproduct_loop _ |>.keeps_expr
    | with_reducible exact (exprFrames _).getorexpr |>.keeps_expr
    | with_reducible exact (exprFrames _).getorexpr_loop _ |>.keeps_expr
    | with_reducible exact (exprFrames _).getandexpr |>.keeps_expr
    | with_reducible exact (exprFrames _).getandexpr_loop _ |>.keeps_expr
    | with_reducible exact (exprFrames _).getshiftexpr |>.keeps_expr
    | with_reducible exact (exprFrames _).getterm |>.keeps_expr
    | with_reducible exact (exprFrames _).getidexpr _ _ |>.keeps_expr
    | with_reducible exact (exprFrames _).getidexpr_loop _ |>.keeps_expr
    | with_reducible exact (exprFrames _).getmatargs |>.keeps_expr
    | with_reducible exact (exprFrames _).getmatargs_loop _ |>.keeps_expr
    | with_reducible exact (exprFrames _).getcallargs _ |>.keeps_expr
    | with_reducible exact (exprFrames _).getcallargs_loop _ _ _ _ |>.keeps_expr
    | with_reducible exact (exprFrames _).getmatdeclaration _ |>.keeps_expr
    | with_reducible exact (exprFrames _).getonematrix _ |>.keeps_expr
    | with_reducible exact (exprFrames _).creatematrix _ |>.keeps_expr
    | with_reducible exact (exprFrames _).getinitlist |>.keeps_expr
    | with_reducible exact (exprFrames _).getinitlist_loop _ _ |>.keeps_expr
    | with_reducible exact (exprFrames _).getobjdeclaration _ |>.keeps_expr
    | with_reducible exact (exprFrames _).getobjdeclaration_loop _ _ _ _ |>.keeps_expr
    | with_reducible exact (exprFrames _).getoneobj _ _ |>.keeps_expr
    | with_reducible exact (exprFrames _).getobjvars _ _ |>.keeps_expr
    | with_reducible exact (exprFrames _).getobjvars_loop _ _ |>.keeps_expr
    | with_reducible exact (setlabel_spec _).keeps_label (by first | exact Or.inl (by assumption) | exact Or.inr (by simp))
    | with_reducible exact (addoplabel_spec _ _).keeps_label (by first | exact Or.inl (by assumption) | exact Or.inr (by simp))
    | with_reducible exact (clearlabel_spec _).keeps_label (by first | exact Or.inl (by assumption) | exact Or.inr (by simp))
    | dsimp only
    | split

theorem getdeclarations_loop_spec : ∀ (n : Nat) (type : TokenType), Spec false [] (getdeclarations_loop n type) := by
  intro n
  induction n with
  | zero => exact fun _ => outOfFuel_quiet.spec _ _
  | succ n ih =>
    intro type
    refine Keeps.to_spec fun s0 => ?_
    rw [getdeclarations_loop]
    repeat' first
      | with_reducible refine keeps_newlabel (fun _ _ => ?_)
      | with_reducible refine keeps_getS (fun _ _ => ?_)
      | with_reducible refine keeps_bind ?_ (fun _ => ?_)
      | with_reducible refine keeps_ite (fun _ => ?_) (fun _ => ?_)
      | with_reducible exact keeps_pure _
      | with_reducible exact gettoken_quiet.keeps_quiet
      | with_reducible exact rescantoken_quiet.keeps_quiet
      | with_reducible exact tokenstring_quiet.keeps_quiet
      | with_reducible exact tokennumber_quiet.keeps_quiet
      | with_reducible exact (tokenmode_quiet _).keeps_quiet
      | with_reducible exact (scanerror_quiet _).keeps_quiet
      | with_reducible exact getS_quiet.keeps_quiet
      | with_reducible exact outOfFuel_quiet.keeps_quiet
      | with_reducible exact math_error_quiet.keeps_quiet
      | with_reducible exact (symboltype_quiet _).keeps_quiet
      | with_reducible exact (getbuiltinfunc_quiet _).keeps_quiet
      | with_reducible exact (adduserfunc_quiet _).keeps_quiet
      | with_reducible exact (addelement_quiet _).keeps_quiet
      | with_reducible exact (checkobject_quiet _).keeps_quiet
      | with_reducible exact (defineobject_quiet _ _).keeps_quiet
      | with_reducible exact (addqconstant_quiet _).keeps_quiet
      | with_reducible exact (readlabel_quiet _).keeps_quiet
      | with_reducible exact (builtincheck_quiet _ _).keeps_quiet
      | with_reducible exact getid_quiet.keeps_quiet
      | with_reducible exact (definesymbol_quiet _ _).keeps_quiet
      | with_reducible exact (skipcommas_quiet _).keeps_quiet
      | with_reducible exact linenumber_quiet.keeps_quiet
      | with_reducible exact nextchar_is_colon_quiet.keeps_quiet
      | with_reducible exact (stringindex_quiet _).keeps_quiet
      | with_reducible exact (addop_spec _).keeps_expr
      | with_reducible exact (addopone_spec _ _).keeps_expr
      | with_reducible exact (addoptwo_spec _ _ _).keeps_expr
      | with_reducible exact (addopptr_spec _ _).keeps_expr
      | with_reducible exact (addopfunction_spec _ _ _).keeps_expr
      | with_reducible exact clearopt_spec.keeps_expr
      | with_reducible exact writeindexop_spec.keeps_expr
      | with_reducible exact (usesymbol_spec _ _).keeps_expr
      | with_reducible exact getelement_spec.keeps_expr
      | with_reducible exact (getshiftexpr_loop_spec _).keeps_expr
      | with_reducible exact (exprFrames _).getexprlist |>.keeps_expr
      | with_reducible exact (exprFrames _).getexprlist_loop _ |>.keeps_expr
      | with_reducible exact (exprFrames _).getassignment |>.keeps_expr
      | with_reducible exact (exprFrames _).getaltcond |>.keeps_expr
      | with_reducible exact (exprFrames _).getorcond |>.keeps_expr
      | with_reducible exact (exprFrames _).getandcond |>.keeps_expr
      | with_reducible exact (exprFrames _).getrelation |>.keeps_expr
      | with_reducible exact (exprFrames _).getsum |>.keeps_expr
      | with_reducible exact (exprFrames _).getsum_loop _ |>.keeps_expr
      | with_reducible exact (exprFrames _).getproduct |>.keeps_expr
      | with_reducible exact (exprFrames _).getproduct_loop _ |>.keeps_expr
      | with_reducible exact (exprFrames _).getorexpr |>.keeps_expr
      | with_reducible exact (exprFrames _).getorexpr_loop _ |>.keeps_expr
      | with_reducible exact (exprFrames _).getandexpr |>.keeps_expr
      | with_reducible exact (exprFrames _).getandexpr_loop _ |>.keeps_expr
      | with_reducible exact (exprFrames _).getshiftexpr |>.keeps_expr
      | with_reducible exact (exprFrames _).getterm |>.keeps_expr
      | with_reducible exact (exprFrames _).getidexpr _ _ |>.keeps_expr
      | with_reducible exact (exprFrames _).getidexpr_loop _ |>.keeps_expr
      | with_reducible exact (exprFrames _).getmatargs |>.keeps_expr
      | with_reducible exact (exprFrames _).getmatargs_loop _ |>.keeps_expr
      | with_reducible exact (exprFrames _).getcallargs _ |>.keeps_expr
      | with_reducible exact (exprFrames _).getcallargs_loop _ _ _ _ |>.keeps_expr
      | with_reducible exact (exprFrames _).getmatdeclaration _ |>.keeps_expr
      | with_reducible exact (exprFrames _).getonematrix _ |>.keeps_expr
      | with_reducible exact (exprFrames _).creatematrix _ |>.keeps_expr
      | with_reducible exact (exprFrames _).getinitlist |>.keeps_expr
      | with_reducible exact (exprFrames _).getinitlist_loop _ _ |>.keeps_expr
      | with_reducible exact (exprFrames _).getobjdeclaration _ |>.keeps_expr
      | with_reducible exact (exprFrames _).getobjdeclaration_loop _ _ _ _ |>.keeps_expr
      | with_reducible exact (exprFrames _).getoneobj _ _ |>.keeps_expr
      | with_reducible exact (exprFrames _).getobjvars _ _ |>.keeps_expr
      | with_reducible exact (exprFrames _).getobjvars_loop _ _ |>.keeps_expr
      | with_reducible exact (setlabel_spec _).keeps_label (by first | exact Or.inl (by assumption) | exact Or.inr (by simp))
      | with_reducible exact (addoplabel_spec _ _).keeps_label (by first | exact Or.inl (by assumption) | exact Or.inr (by simp))
      | with_reducible exact (clearlabel_spec _).keeps_label (by first | exact Or.inl (by assumption) | exact Or.inr (by simp))
      | with_reducible exact (ih _).keeps_expr
      | with_reducible exact (getonedeclaration_spec _ _).keeps_expr
      | dsimp only
      | split

set_option maxHeartbeats 1600000 in
theorem getdeclarations_spec (n : Nat) :
    Spec false [] (getdeclarations n) := by
  refine Keeps.to_spec fun s0 => ?_
  unfold getdeclarations
  repeat' first
    | with_reducible refine keeps_newlabel (fun _ _ => ?_)
    | with_reducible refine keeps_getS (fun _ _ => ?_)
    | with_reducible refine keeps_bind ?_ (fun _ => ?_)
    | with_reducible refine keeps_ite (fun _ => ?_) (fun _ => ?_)
    | with_reducible exact keeps_pure _
    | with_reducible exact gettoken_quiet.keeps_quiet
    | with_reducible exact rescantoken_quiet.keeps_quiet
    | with_reducible exact tokenstring_quiet.keeps_quiet
    | with_reducible exact tokennumber_quiet.keeps_quiet
    | with_reducible exact (tokenmode_quiet _).keeps_quiet
    | with_reducible exact (scanerror_quiet _).keeps_quiet
    | with_reducible exact getS_quiet.keeps_quiet
    | with_reducible exact outOfFuel_quiet.keeps_quiet
    | with_reducible exact math_error_quiet.keeps_quiet
    | with_reducible exact (symboltype_quiet _).keeps_quiet
    | with_reducible exact (getbuiltinfunc_quiet _).keeps_quiet
    | with_reducible exact (adduserfunc_quiet _).keeps_quiet
    | with_reducible exact (addelement_quiet _).keeps_quiet
    | with_reducible exact (checkobject_quiet _).keeps_quiet
    | with_reducible exact (defineobject_quiet _ _).keeps_quiet
    | with_reducible exact (addqconstant_quiet _).keeps_quiet
    | with_reducible exact (readlabel_quiet _).keeps_quiet
    | with_reducible exact (builtincheck_quiet _ _).keeps_quiet
    | with_reducible exact getid_quiet.keeps_quiet
    | with_reducible exact (definesymbol_quiet _ _).keeps_quiet
    | with_reducible exact (skipcommas_quiet _).keeps_quiet
    | with_reducible exact linenumber_quiet.keeps_quiet
    | with_reducible exact nextchar_is_colon_quiet.keeps_quiet
    | with_reducible exact (stringindex_quiet _).keeps_quiet
    | with_reducible exact (addop_spec _).keeps_expr
    | with_reducible exact (addopone_spec _ _).keeps_expr
    | with_reducible exact (addoptwo_spec _ _ _).keeps_expr
    | with_reducible exact (addopptr_spec _ _).keeps_expr
    | with_reducible exact (addopfunction_spec _ _ _).keeps_expr
    | with_reducible exact clearopt_spec.keeps_expr
    | with_reducible exact writeindexop_spec.keeps_expr
    | with_reducible exact (usesymbol_spec _ _).keeps_expr
    | with_reducible exact getelement_spec.keeps_expr
    | with_reducible exact (getshiftexpr_loop_spec _).keeps_expr
    | with_reducible exact (exprFrames _).getexprlist |>.keeps_expr
    | with_reducible exact (exprFrames _).getexprlist_loop _ |>.keeps_expr
    | with_reducible exact (exprFrames _).getassignment |>.keeps_expr
    | with_reducible exact (exprFrames _).getaltcond |>.keeps_expr
    | with_reducible exact (exprFrames _).getorcond |>.keeps_expr
    | with_reducible exact (exprFrames _).getandcond |>.keeps_expr
    | with_reducible exact (exprFrames _).getrelation |>.keeps_expr
    | with_reducible exact (exprFrames _).getsum |>.keeps_expr
    | with_reducible exact (exprFrames _).getsum_loop _ |>.keeps_expr
    | with_reducible exact (exprFrames _).getproduct |>.keeps_expr
    | with_reducible exact (exprFrames _).getproduct_loop _ |>.keeps_expr
    | with_reducible exact (exprFrames _).getorexpr |>.keeps_expr
    | with_reducible exact (exprFrames _).getorexpr_loop _ |>.keeps_expr
    | with_reducible exact (exprFrames _).getandexpr |>.keeps_expr
    | with_reducible exact (exprFrames _).getandexpr_loop _ |>.keeps_expr
    | with_reducible exact (exprFrames _).getshiftexpr |>.keeps_expr
    | with_reducible exact (exprFrames _).getterm |>.keeps_expr
    | with_reducible exact (exprFrames _).getidexpr _ _ |>.keeps_expr
    | with_reducible exact (exprFrames _).getidexpr_loop _ |>.keeps_expr
    | with_reducible exact (exprFrames _).getmatargs |>.keeps_expr
    | with_reducible exact (exprFrames _).getmatargs_loop _ |>.keeps_expr
    | with_reducible exact (exprFrames _).getcallargs _ |>.keeps_expr
    | with_reducible exact (exprFrames _).getcallargs_loop _ _ _ _ |>.keeps_expr
    | with_reducible exact (exprFrames _).getmatdeclaration _ |>.keeps_expr
    | with_reducible exact (exprFrames _).getonematrix _ |>.keeps_expr
    | with_reducible exact (exprFrames _).creatematrix _ |>.keeps_expr
    | with_reducible exact (exprFrames _).getinitlist |>.keeps_expr
    | with_reducible exact (exprFrames _).getinitlist_loop _ _ |>.keeps_expr
    | with_reducible exact (exprFrames _).getobjdeclaration _ |>.keeps_expr
    | with_reducible exact (exprFrames _).getobjdeclaration_loop _ _ _ _ |>.keeps_expr
    | with_reducible exact (exprFrames _).getoneobj _ _ |>.keeps_expr
    | with_reducible exact (exprFrames _).getobjvars _ _ |>.keeps_expr
    | with_reducible exact (exprFrames _).getobjvars_loop _ _ |>.keeps_expr
    | with_reducible exact (setlabel_spec _).keeps_label (by first | exact Or.inl (by assumption) | exact Or.inr (by simp))
    | with_reducible exact (addoplabel_spec _ _).keeps_label (by first | exact Or.inl (by assumption) | exact Or.inr (by simp))
    | with_reducible exact (clearlabel_spec _).keeps_label (by first | exact Or.inl (by assumption) | exact Or.inr (by simp))
    | with_reducible exact (getdeclarations_loop_spec _ _).keeps_expr
    | dsimp only
    | split

theorem Spec.keeps_named {α : Type} {L : List Nat} {s0 : PState} {p : P α}
    (h : Spec true [] p) : Keeps true L s0 p :=
  h.keeps (fun _ => rfl) (by simp)

theorem Spec.keeps_handed {α : Type} {L : List Nat} {s0 : PState} {p : P α}
    {c b x d : Option Nat} (h : Spec true (handed c b x d) p)
    (hc : ∀ i ∈ c, s0.labels.length ≤ i ∨ i ∈ L) (hb : ∀ i ∈ b, s0.labels.length ≤ i ∨ i ∈ L)
    (hx : ∀ i ∈ x, s0.labels.length ≤ i ∨ i ∈ L) (hd : ∀ i ∈ d, s0.labels.length ≤ i ∨ i ∈ L) :
    Keeps true L s0 p := by
  refine h.keeps (fun _ => rfl) ?_
  intro i hi hlt
  simp only [handed, List.mem_append, Option.mem_toList] at hi
  rcases hi with ((hi | hi) | hi) | hi
  · rcases hc i hi with h | h
    · omega
    · exact h
  · rcases hb i hi with h | h
    · omega
    · exact h
  · rcases hx i hi with h | h
    · omega
    · exact h
  · rcases hd i hi with h | h
    · omega
    · exact h

theorem stmtFrames_zero : StmtFrames 0 where
  getstatement := fun _ _ _ _ => by rw [getstatement]; exact outOfFuel_quiet.spec _ _
  getbody := fun _ _ _ _ _ => by rw [getbody]; exact outOfFuel_quiet.spec _ _
  getbody_loop := fun _ _ _ _ _ _ _ => by rw [getbody_loop]; exact outOfFuel_quiet.spec _ _

set_option maxHeartbeats 3200000 in
theorem getstatement_frame_succ (n : Nat) (ih : StmtFrames n) (c b x d : Option Nat) :
    Spec true (handed c b x d) (getstatement (n + 1) c b x d) := by
  refine Keeps.to_spec fun s0 => ?_
  rw [getstatement.eq_def]
  dsimp only
  repeat' first
    | with_reducible refine keeps_newlabel (fun _ _ => ?_)
    | with_reducible refine keeps_getS (fun _ _ => ?_)
    | with_reducible refine keeps_bind ?_ (fun _ => ?_)
    | with_reducible refine keeps_ite (fun _ => ?_) (fun _ => ?_)
    | with_reducible exact keeps_pure _
    | with_reducible exact gettoken_quiet.keeps_quiet
    | with_reducible exact rescantoken_quiet.keeps_quiet
    | with_reducible exact tokenstring_quiet.keeps_quiet
    | with_reducible exact tokennumber_quiet.keeps_quiet
    | with_reducible exact (tokenmode_quiet _).keeps_quiet
    | with_reducible exact (scanerror_quiet _).keeps_quiet
    | with_reducible exact getS_quiet.keeps_quiet
    | with_reducible exact outOfFuel_quiet.keeps_quiet
    | with_reducible exact math_error_quiet.keeps_quiet
    | with_reducible exact (symboltype_quiet _).keeps_quiet
    | with_reducible exact (getbuiltinfunc_quiet _).keeps_quiet
    | with_reducible exact (adduserfunc_quiet _).keeps_quiet
    | with_reducible exact (addelement_quiet _).keeps_quiet
    | with_reducible exact (checkobject_quiet _).keeps_quiet
    | with_reducible exact (defineobject_quiet _ _).keeps_quiet
    | with_reducible exact (addqconstant_quiet _).keeps_quiet
    | with_reducible exact (readlabel_quiet _).keeps_quiet
    | with_reducible exact (builtincheck_quiet _ _).keeps_quiet
    | with_reducible exact getid_quiet.keeps_quiet
    | with_reducible exact (definesymbol_quiet _ _).keeps_quiet
    | with_reducible exact (skipcommas_quiet _).keeps_quiet
    | with_reducible exact linenumber_quiet.keeps_quiet
    | with_reducible exact nextchar_is_colon_quiet.keeps_quiet
    | with_reducible exact (stringindex_quiet _).keeps_quiet
    | with_reducible exact (addop_spec _).keeps_expr
    | with_reducible exact (addopone_spec _ _).keeps_expr
    | with_reducible exact (addoptwo_spec _ _ _).keeps_expr
    | with_reducible exact (addopptr_spec _ _).keeps_expr
    | with_reducible exact (addopfunction_spec _ _ _).keeps_expr
    | with_reducible exact clearopt_spec.keeps_expr
    | with_reducible exact writeindexop_spec.keeps_expr
    | with_reducible exact (usesymbol_spec _ _).keeps_expr
    | with_reducible exact getelement_spec.keeps_expr
    | with_reducible exact (getshiftexpr_loop_spec _).keeps_expr
    | with_reducible exact (exprFrames _).getexprlist |>.keeps_expr
    | with_reducible exact (exprFrames _).getexprlist_loop _ |>.keeps_expr
    | with_reducible exact (exprFrames _).getassignment |>.keeps_expr
    | with_reducible exact (exprFrames _).getaltcond |>.keeps_expr
    | with_reducible exact (exprFrames _).getorcond |>.keeps_expr
    | with_reducible exact (exprFrames _).getandcond |>.keeps_expr
    | with_reducible exact (exprFrames _).getrelation |>.keeps_expr
    | with_reducible exact (exprFrames _).getsum |>.keeps_expr
    | with_reducible exact (exprFrames _).getsum_loop _ |>.keeps_expr
    | with_reducible exact (exprFrames _).getproduct |>.keeps_expr
    | with_reducible exact (exprFrames _).getproduct_loop _ |>.keeps_expr
    | with_reducible exact (exprFrames _).getorexpr |>.keeps_expr
    | with_reducible exact (exprFrames _).getorexpr_loop _ |>.keeps_expr
    | with_reducible exact (exprFrames _).getandexpr |>.keeps_expr
    | with_reducible exact (exprFrames _).getandexpr_loop _ |>.keeps_expr
    | with_reducible exact (exprFrames _).getshiftexpr |>.keeps_expr
    | with_reducible exact (exprFrames _).getterm |>.keeps_expr
    | with_reducible exact (exprFrames _).getidexpr _ _ |>.keeps_expr
    | with_reducible exact (exprFrames _).getidexpr_loop _ |>.keeps_expr
    | with_reducible exact (exprFrames _).getmatargs |>.keeps_expr
    | with_reducible exact (exprFrames _).getmatargs_loop _ |>.keeps_expr
    | with_reducible exact (exprFrames _).getcallargs _ |>.keeps_expr
    | with_reducible exact (exprFrames _).getcallargs_loop _ _ _ _ |>.keeps_expr
    | with_reducible exact (exprFrames _).getmatdeclaration _ |>.keeps_expr
    | with_reducible exact (exprFrames _).getonematrix _ |>.keeps_expr
    | with_reducible exact (exprFrames _).creatematrix _ |>.keeps_expr
    | with_reducible exact (exprFrames _).getinitlist |>.keeps_expr
    | with_reducible exact (exprFrames _).getinitlist_loop _ _ |>.keeps_expr
    | with_reducible exact (exprFrames _).getobjdeclaration _ |>.keeps_expr
    | with_reducible exact (exprFrames _).getobjdeclaration_loop _ _ _ _ |>.keeps_expr
    | with_reducible exact (exprFrames _).getoneobj _ _ |>.keeps_expr
    | with_reducible exact (exprFrames _).getobjvars _ _ |>.keeps_expr
    | with_reducible exact (exprFrames _).getobjvars_loop _ _ |>.keeps_expr
    | with_reducible exact (setlabel_spec _).keeps_label (by first | exact Or.inl (by assumption) | exact Or.inr (by simp))
    | with_reducible exact (addoplabel_spec _ _).keeps_label (by first | exact Or.inl (by assumption) | exact Or.inr (by simp))
    | with_reducible exact (clearlabel_spec _).keeps_label (by first | exact Or.inl (by assumption) | exact Or.inr (by simp))
    | with_reducible refine (ih.getstatement _ _ _ _).keeps_handed ?_ ?_ ?_ ?_
    | with_reducible refine (ih.getbody _ _ _ _ _).keeps_handed ?_ ?_ ?_ ?_
    | with_reducible refine (ih.getbody_loop _ _ _ _ _ _ _).keeps_handed ?_ ?_ ?_ ?_
    | ((with_reducible intro i hi); (cases hi <;> first | exact Or.inl (by assumption) | exact Or.inr (by simp [handed])))
    | with_reducible exact (definelabel_spec _).keeps_named
    | with_reducible exact (addlabel_spec _).keeps_named
    | with_reducible exact (getcondition_spec _).keeps_expr
    | with_reducible exact getshowstatement_spec.keeps_expr
    | with_reducible exact (getstatement_print_spec _ _).keeps_expr
    | with_reducible exact (getdeclarations_spec _).keeps_expr
    | with_reducible exact (setlabel_spec _).keeps_label (by first | exact Or.inl (by assumption) | exact Or.inr (by simp [handed]))
    | with_reducible exact (addoplabel_spec _ _).keeps_label (by first | exact Or.inl (by assumption) | exact Or.inr (by simp [handed]))
    | with_reducible exact (clearlabel_spec _).keeps_label (by first | exact Or.inl (by assumption) | exact Or.inr (by simp [handed]))
    | dsimp only
    | split

set_option maxHeartbeats 3200000 in
theorem getbody_frame_succ (n : Nat) (ih : StmtFrames n) (c b x d : Option Nat) (toplevel : Bool) :
    Spec true (handed c b x d) (getbody (n + 1) c b x d toplevel) := by
  refine Keeps.to_spec fun s0 => ?_
  rw [getbody.eq_def]
  dsimp only
  repeat' first
    | with_reducible refine keeps_newlabel (fun _ _ => ?_)
    | with_reducible refine keeps_getS (fun _ _ => ?_)
    | with_reducible refine keeps_bind ?_ (fun _ => ?_)
    | with_reducible refine keeps_ite (fun _ => ?_) (fun _ => ?_)
    | with_reducible exact keeps_pure _
    | with_reducible exact gettoken_quiet.keeps_quiet
    | with_reducible exact rescantoken_quiet.keeps_quiet
    | with_reducible exact tokenstring_quiet.keeps_quiet
    | with_reducible exact tokennumber_quiet.keeps_quiet
    | with_reducible exact (tokenmode_quiet _).keeps_quiet
    | with_reducible exact (scanerror_quiet _).keeps_quiet
    | with_reducible exact getS_quiet.keeps_quiet
    | with_reducible exact outOfFuel_quiet.keeps_quiet
    | with_reducible exact math_error_quiet.keeps_quiet
    | with_reducible exact (symboltype_quiet _).keeps_quiet
    | with_reducible exact (getbuiltinfunc_quiet _).keeps_quiet
    | with_reducible exact (adduserfunc_quiet _).keeps_quiet
    | with_reducible exact (addelement_quiet _).keeps_quiet
    | with_reducible exact (checkobject_quiet _).keeps_quiet
    | with_reducible exact (defineobject_quiet _ _).keeps_quiet
    | with_reducible exact (addqconstant_quiet _).keeps_quiet
    | with_reducible exact (readlabel_quiet _).keeps_quiet
    | with_reducible exact (builtincheck_quiet _ _).keeps_quiet
    | with_reducible exact getid_quiet.keeps_quiet
    | with_reducible exact (definesymbol_quiet _ _).keeps_quiet
    | with_reducible exact (skipcommas_quiet _).keeps_quiet
    | with_reducible exact linenumber_quiet.keeps_quiet
    | with_reducible exact nextchar_is_colon_quiet.keeps_quiet
    | with_reducible exact (stringindex_quiet _).keeps_quiet
    | with_reducible exact (addop_spec _).keeps_expr
    | with_reducible exact (addopone_spec _ _).keeps_expr
    | with_reducible exact (addoptwo_spec _ _ _).keeps_expr
    | with_reducible exact (addopptr_spec _ _).keeps_expr
    | with_reducible exact (addopfunction_spec _ _ _).keeps_expr
    | with_reducible exact clearopt_spec.keeps_expr
    | with_reducible exact writeindexop_spec.keeps_expr
    | with_reducible exact (usesymbol_spec _ _).keeps_expr
    | with_reducible exact getelement_spec.keeps_expr
    | with_reducible exact (getshiftexpr_loop_spec _).keeps_expr
    | with_reducible exact (exprFrames _).getexprlist |>.keeps_expr
    | with_reducible exact (exprFrames _).getexprlist_loop _ |>.keeps_expr
    | with_reducible exact (exprFrames _).getassignment |>.keeps_expr
    | with_reducible exact (exprFrames _).getaltcond |>.keeps_expr
    | with_reducible exact (exprFrames _).getorcond |>.keeps_expr
    | with_reducible exact (exprFrames _).getandcond |>.keeps_expr
    | with_reducible exact (exprFrames _).getrelation |>.keeps_expr
    | with_reducible exact (exprFrames _).getsum |>.keeps_expr
    | with_reducible exact (exprFrames _).getsum_loop _ |>.keeps_expr
    | with_reducible exact (exprFrames _).getproduct |>.keeps_expr
    | with_reducible exact (exprFrames _).getproduct_loop _ |>.keeps_expr
    | with_reducible exact (exprFrames _).getorexpr |>.keeps_expr
    | with_reducible exact (exprFrames _).getorexpr_loop _ |>.keeps_expr
    | with_reducible exact (exprFrames _).getandexpr |>.keeps_expr
    | with_reducible exact (exprFrames _).getandexpr_loop _ |>.keeps_expr
    | with_reducible exact (exprFrames _).getshiftexpr |>.keeps_expr
    | with_reducible exact (exprFrames _).getterm |>.keeps_expr
    | with_reducible exact (exprFrames _).getidexpr _ _ |>.keeps_expr
    | with_reducible exact (exprFrames _).getidexpr_loop _ |>.keeps_expr
    | with_reducible exact (exprFrames _).getmatargs |>.keeps_expr
    | with_reducible exact (exprFrames _).getmatargs_loop _ |>.keeps_expr
    | with_reducible exact (exprFrames _).getcallargs _ |>.keeps_expr
    | with_reducible exact (exprFrames _).getcallargs_loop _ _ _ _ |>.keeps_expr
    | with_reducible exact (exprFrames _).getmatdeclaration _ |>.keeps_expr
    | with_reducible exact (exprFrames _).getonematrix _ |>.keeps_expr
    | with_reducible exact (exprFrames _).creatematrix _ |>.keeps_expr
    | with_reducible exact (exprFrames _).getinitlist |>.keeps_expr
    | with_reducible exact (exprFrames _).getinitlist_loop _ _ |>.keeps_expr
    | with_reducible exact (exprFrames _).getobjdeclaration _ |>.keeps_expr
    | with_reducible exact (exprFrames _).getobjdeclaration_loop _ _ _ _ |>.keeps_expr
    | with_reducible exact (exprFrames _).getoneobj _ _ |>.keeps_expr
    | with_reducible exact (exprFrames _).getobjvars _ _ |>.keeps_expr
    | with_reducible exact (exprFrames _).getobjvars_loop _ _ |>.keeps_expr
    | with_reducible exact (setlabel_spec _).keeps_label (by first | exact Or.inl (by assumption) | exact Or.inr (by simp))
    | with_reducible exact (addoplabel_spec _ _).keeps_label (by first | exact Or.inl (by assumption) | exact Or.inr (by simp))
    | with_reducible exact (clearlabel_spec _).keeps_label (by first | exact Or.inl (by assumption) | exact Or.inr (by simp))
    | with_reducible refine (ih.getstatement _ _ _ _).keeps_handed ?_ ?_ ?_ ?_
    | with_reducible refine (ih.getbody _ _ _ _ _).keeps_handed ?_ ?_ ?_ ?_
    | with_reducible refine (ih.getbody_loop _ _ _ _ _ _ _).keeps_handed ?_ ?_ ?_ ?_
    | ((with_reducible intro i hi); (cases hi <;> first | exact Or.inl (by assumption) | exact Or.inr (by simp [handed])))
    | with_reducible exact (definelabel_spec _).keeps_named
    | with_reducible exact (addlabel_spec _).keeps_named
    | with_reducible exact (getcondition_spec _).keeps_expr
    | with_reducible exact getshowstatement_spec.keeps_expr
    | with_reducible exact (getstatement_print_spec _ _).keeps_expr
    | with_reducible exact (getdeclarations_spec _).keeps_expr
    | with_reducible exact (setlabel_spec _).keeps_label (by first | exact Or.inl (by assumption) | exact Or.inr (by simp [handed]))
    | with_reducible exact (addoplabel_spec _ _).keeps_label (by first | exact Or.inl (by assumption) | exact Or.inr (by simp [handed]))
    | with_reducible exact (clearlabel_spec _).keeps_label (by first | exact Or.inl (by assumption) | exact Or.inr (by simp [handed]))
    | dsimp only
    | split

set_option maxHeartbeats 3200000 in
theorem getbody_loop_frame_succ (n : Nat) (ih : StmtFrames n) (c b x d : Option Nat) (toplevel : Bool) (oldmode : Nat) (got : Bool) :
    Spec true (handed c b x d) (getbody_loop (n + 1) c b x d toplevel oldmode got) := by
  refine Keeps.to_spec fun s0 => ?_
  rw [getbody_loop.eq_def]
  dsimp only
  repeat' first
    | with_reducible refine keeps_newlabel (fun _ _ => ?_)
    | with_reducible refine keeps_getS (fun _ _ => ?_)
    | with_reducible refine keeps_bind ?_ (fun _ => ?_)
    | with_reducible refine keeps_ite (fun _ => ?_) (fun _ => ?_)
    | with_reducible exact keeps_pure _
    | with_reducible exact gettoken_quiet.keeps_quiet
    | with_reducible exact rescantoken_quiet.keeps_quiet
    | with_reducible exact tokenstring_quiet.keeps_quiet
    | with_reducible exact tokennumber_quiet.keeps_quiet
    | with_reducible exact (tokenmode_quiet _).keeps_quiet
    | with_reducible exact (scanerror_quiet _).keeps_quiet
    | with_reducible exact getS_quiet.keeps_quiet
    | with_reducible exact outOfFuel_quiet.keeps_quiet
    | with_reducible exact math_error_quiet.keeps_quiet
    | with_reducible exact (symboltype_quiet _).keeps_quiet
    | with_reducible exact (getbuiltinfunc_quiet _).keeps_quiet
    | with_reducible exact (adduserfunc_quiet _).keeps_quiet
    | with_reducible exact (addelement_quiet _).keeps_quiet
    | with_reducible exact (checkobject_quiet _).keeps_quiet
    | with_reducible exact (defineobject_quiet _ _).keeps_quiet
    | with_reducible exact (addqconstant_quiet _).keeps_quiet
    | with_reducible exact (readlabel_quiet _).keeps_quiet
    | with_reducible exact (builtincheck_quiet _ _).keeps_quiet
    | with_reducible exact getid_quiet.keeps_quiet
    | with_reducible exact (definesymbol_quiet _ _).keeps_quiet
    | with_reducible exact (skipcommas_quiet _).keeps_quiet
    | with_reducible exact linenumber_quiet.keeps_quiet
    | with_reducible exact nextchar_is_colon_quiet.keeps_quiet
    | with_reducible exact (stringindex_quiet _).keeps_quiet
    | with_reducible exact (addop_spec _).keeps_expr
    | with_reducible exact (addopone_spec _ _).keeps_expr
    | with_reducible exact (addoptwo_spec _ _ _).keeps_expr
    | with_reducible exact (addopptr_spec _ _).keeps_expr
    | with_reducible exact (addopfunction_spec _ _ _).keeps_expr
    | with_reducible exact clearopt_spec.keeps_expr
    | with_reducible exact writeindexop_spec.keeps_expr
    | with_reducible exact (usesymbol_spec _ _).keeps_expr
    | with_reducible exact getelement_spec.keeps_expr
    | with_reducible exact (getshiftexpr_loop_spec _).keeps_expr
    | with_reducible exact (exprFrames _).getexprlist |>.keeps_expr
    | with_reducible exact (exprFrames _).getexprlist_loop _ |>.keeps_expr
    | with_reducible exact (exprFrames _).getassignment |>.keeps_expr
    | with_reducible exact (exprFrames _).getaltcond |>.keeps_expr
    | with_reducible exact (exprFrames _).getorcond |>.keeps_expr
    | with_reducible exact (exprFrames _).getandcond |>.keeps_expr
    | with_reducible exact (exprFrames _).getrelation |>.keeps_expr
    | with_reducible exact (exprFrames _).getsum |>.keeps_expr
    | with_reducible exact (exprFrames _).getsum_loop _ |>.keeps_expr
    | with_reducible exact (exprFrames _).getproduct |>.keeps_expr
    | with_reducible exact (exprFrames _).getproduct_loop _ |>.keeps_expr
    | with_reducible exact (exprFrames _).getorexpr |>.keeps_expr
    | with_reducible exact (exprFrames _).getorexpr_loop _ |>.keeps_expr
    | with_reducible exact (exprFrames _).getandexpr |>.keeps_expr
    | with_reducible exact (exprFrames _).getandexpr_loop _ |>.keeps_expr
    | with_reducible exact (exprFrames _).getshiftexpr |>.keeps_expr
    | with_reducible exact (exprFrames _).getterm |>.keeps_expr
    | with_reducible exact (exprFrames _).getidexpr _ _ |>.keeps_expr
    | with_reducible exact (exprFrames _).getidexpr_loop _ |>.keeps_expr
    | with_reducible exact (exprFrames _).getmatargs |>.keeps_expr
    | with_reducible exact (exprFrames _).getmatargs_loop _ |>.keeps_expr
    | with_reducible exact (exprFrames _).getcallargs _ |>.keeps_expr
    | with_reducible exact (exprFrames _).getcallargs_loop _ _ _ _ |>.keeps_expr
    | with_reducible exact (exprFrames _).getmatdeclaration _ |>.keeps_expr
    | with_reducible exact (exprFrames _).getonematrix _ |>.keeps_expr
    | with_reducible exact (exprFrames _).creatematrix _ |>.keeps_expr
    | with_reducible exact (exprFrames _).getinitlist |>.keeps_expr
    | with_reducible exact (exprFrames _).getinitlist_loop _ _ |>.keeps_expr
    | with_reducible exact (exprFrames _).getobjdeclaration _ |>.keeps_expr
    | with_reducible exact (exprFrames _).getobjdeclaration_loop _ _ _ _ |>.keeps_expr
    | with_reducible exact (exprFrames _).getoneobj _ _ |>.keeps_expr
    | with_reducible exact (exprFrames _).getobjvars _ _ |>.keeps_expr
    | with_reducible exact (exprFrames _).getobjvars_loop _ _ |>.keeps_expr
    | with_reducible exact (setlabel_spec _).keeps_label (by first | exact Or.inl (by assumption) | exact Or.inr (by simp))
    | with_reducible exact (addoplabel_spec _ _).keeps_label (by first | exact Or.inl (by assumption) | exact Or.inr (by simp))
    | with_reducible exact (clearlabel_spec _).keeps_label (by first | exact Or.inl (by assumption) | exact Or.inr (by simp))
    | with_reducible refine (ih.getstatement _ _ _ _).keeps_handed ?_ ?_ ?_ ?_
    | with_reducible refine (ih.getbody _ _ _ _ _).keeps_handed ?_ ?_ ?_ ?_
    | with_reducible refine (ih.getbody_loop _ _ _ _ _ _ _).keeps_handed ?_ ?_ ?_ ?_
    | ((with_reducible intro i hi); (cases hi <;> first | exact Or.inl (by assumption) | exact Or.inr (by simp [handed])))
    | with_reducible exact (definelabel_spec _).keeps_named
    | with_reducible exact (addlabel_spec _).keeps_named
    | with_reducible exact (getcondition_spec _).keeps_expr
    | with_reducible exact getshowstatement_spec.keeps_expr
    | with_reducible exact (getstatement_print_spec _ _).keeps_expr
    | with_reducible exact (getdeclarations_spec _).keeps_expr
    | with_reducible exact (setlabel_spec _).keeps_label (by first | exact Or.inl (by assumption) | exact Or.inr (by simp [handed]))
    | with_reducible exact (addoplabel_spec _ _).keeps_label (by first | exact Or.inl (by assumption) | exact Or.inr (by simp [handed]))
    | with_reducible exact (clearlabel_spec _).keeps_label (by first | exact Or.inl (by assumption) | exact Or.inr (by simp [handed]))
    | dsimp only
    | split

theorem stmtFrames_succ (n : Nat) (ih : StmtFrames n) : StmtFrames (n + 1) where
  getstatement := getstatement_frame_succ n ih
  getbody := getbody_frame_succ n ih
  getbody_loop := getbody_loop_frame_succ n ih

/-- Every statement rule keeps the frame: of the labels that existed it changes
none but those it is handed and the named ones, and of the code that existed
nothing but the operands that wait for these labels. -/
theorem stmtFrames : ∀ n, StmtFrames n := by
  intro n
  induction n with
  | zero => exact stmtFrames_zero
  | succ n ih => exact stmtFrames_succ n ih

/-! ## The line that is evaluated -/

theorem evalPost_of_calculated {s t : PState} {r : Res Bool} (h : t.calculated = s.calculated)
    (he : s.errorcount ≤ t.errorcount) (hr : EvalPost t r) : EvalPost s r := by
  cases r with
  | ok b u =>
    obtain ⟨h1, h2, h3⟩ := hr
    exact ⟨fun h0 => h1 (le_trans h0 he), fun hb => by rw [← h]; exact h2 hb,
      fun hb => by rw [← h]; exact h3 hb⟩
  | abort u => exact (show u.calculated = t.calculated from hr).trans h
  | nofuel => trivial

theorem evalSpec_bind_frame {α : Type} {nm : Bool} {L : List Nat} {p : P α} {f : α → P Bool}
    (hp : Spec nm L p) (hf : ∀ a, EvalSpec (f a)) : EvalSpec (p >>= f) := by
  intro s
  have h1 := hp s
  rw [bind_run]
  cases hps : p s with
  | ok a t =>
    rw [hps] at h1
    exact evalPost_of_calculated h1.ext.calculated h1.ext.errorcount (hf a t)
  | abort t =>
    rw [hps] at h1
    exact h1.ext.calculated
  | nofuel => trivial

theorem evalSpec_bind_quiet {α : Type} {p : P α} {f : α → P Bool}
    (hp : QuietSpec p) (hf : ∀ a, EvalSpec (f a)) : EvalSpec (p >>= f) :=
  evalSpec_bind_frame (hp.spec false []) hf

theorem evalSpec_error (skip : TokenType) :
    EvalSpec (scanerror skip >>= fun _ => (pure false : P Bool)) := by
  intro s
  rw [bind_run]
  have h := scanerror_spec skip s
  split at h
  · rw [h]
    rfl
  · obtain ⟨s1, h1, h2, _⟩ := h
    rw [h1]
    have he : s1.errorcount = s.errorcount + 1 := by rw [h2]
    have hc : s1.calculated = s.calculated := by rw [h2]
    refine ⟨fun hs => ?_, ?_, fun _ => hc⟩
    · constructor
      · intro hb; cases hb
      · intro h0; omega
    · intro hb; cases hb

theorem evaluate_end_spec : EvalSpec evaluate_end := by
  intro s
  unfold evaluate_end
  simp only [bind_run, addop, modS]
  have hq := checklabels_quiet
    { s with f_opcodes := s.f_opcodes ++ [Slot.op OP_UNDEF] ++ [Slot.op OP_RETURN],
             oldop := OP_RETURN }
  cases hc : checklabels
    { s with f_opcodes := s.f_opcodes ++ [Slot.op OP_UNDEF] ++ [Slot.op OP_RETURN],
             oldop := OP_RETURN } with
  | ok a u =>
    rw [hc] at hq
    simp only [getS]
    by_cases he : u.errorcount = 0
    · simp only [he, ne_eq, not_true_eq_false, if_false, calculate, modS, bind_run, pure_run]
      refine ⟨fun _ => by simp [he], fun _ => ⟨?_, s.f_opcodes, ?_⟩, fun hb => by cases hb⟩
      · simp only [List.cons.injEq, true_and]
        exact hq.calculated
      · simp only
        rw [hq.f_opcodes]
        simp
    · simp only [he, ne_eq, not_false_eq_true, if_true, pure_run]
      exact ⟨fun _ => by simp [he], fun hb => Bool.noConfusion hb, fun _ => hq.calculated⟩
  | abort u =>
    rw [hc] at hq
    exact hq.calculated
  | nofuel => trivial

theorem evaluate_loop_spec : ∀ (n : Nat) (gotstatement : Bool),
    EvalSpec (evaluate_loop n gotstatement) := by
  intro n
  induction n with
  | zero => exact fun _ _ => trivial
  | succ n ih =>
    intro gotstatement
    rw [evaluate_loop]
    repeat' first
      | with_reducible exact ih _
      | with_reducible exact evaluate_end_spec
      | with_reducible exact evalSpec_error _
      | with_reducible refine evalSpec_bind_quiet gettoken_quiet (fun _ => ?_)
      | with_reducible refine evalSpec_bind_quiet rescantoken_quiet (fun _ => ?_)
      | with_reducible refine evalSpec_bind_frame (getdeclarations_spec _) (fun _ => ?_)
      | with_reducible refine evalSpec_bind_frame ((stmtFrames _).getstatement _ _ _ _) (fun _ => ?_)
      | dsimp only
      | split

/-- What `evaluate` leaves, whatever way it ends. -/
theorem evaluate_post (n : Nat) (nestflag : Bool) (s : PState) :
    match evaluate n nestflag s with
    | Res.ok b t =>
      (b = true ↔ t.errorcount = 0) ∧
      (b = true → t.calculated = t.f_opcodes :: s.calculated ∧
        ∃ code, t.f_opcodes = code ++ [Slot.op OP_UNDEF, Slot.op OP_RETURN]) ∧
      (b = false → t.calculated = s.calculated)
    | Res.abort t => t.calculated = s.calculated
    | Res.nofuel => True := by
  have hrest : ∀ q : P Bool, EvalSpec q →
      ∀ u : PState, u.errorcount = 0 → u.calculated = s.calculated →
      match q u with
      | Res.ok b t =>
        (b = true ↔ t.errorcount = 0) ∧
        (b = true → t.calculated = t.f_opcodes :: s.calculated ∧
          ∃ code, t.f_opcodes = code ++ [Slot.op OP_UNDEF, Slot.op OP_RETURN]) ∧
        (b = false → t.calculated = s.calculated)
      | Res.abort t => t.calculated = s.calculated
      | Res.nofuel => True := by
    intro q hq u hu hc
    have h := hq u
    cases hr : q u with
    | ok b t =>
      rw [hr] at h
      obtain ⟨h1, h2, h3⟩ := h
      exact ⟨h1 (by rw [hu]), fun hb => by rw [← hc]; exact h2 hb,
        fun hb => by rw [← hc]; exact h3 hb⟩
    | abort t =>
      rw [hr] at h
      exact (show t.calculated = u.calculated from h).trans hc
    | nofuel => trivial
  unfold evaluate
  simp only [bind_run, beginfunc, modS]
  refine hrest _ ?_ _ rfl rfl
  repeat' first
    | with_reducible exact evaluate_loop_spec _ _
    | with_reducible refine evalSpec_bind_quiet (tokenmode_quiet _) (fun _ => ?_)
    | with_reducible refine evalSpec_bind_quiet (quietSpec_pure _) (fun _ => ?_)
    | dsimp only
    | split

/-- C9: `evaluate` hands the code it compiled to `calculate` if and only if no
error is counted once the line is compiled, `OP_UNDEF`, `OP_RETURN` appended
and `checklabels` has run; then, and only then, it returns TRUE, and the code
handed over, once, is the code of the function, which ends in that pair.
When it returns FALSE, or the compilation is aborted, `calculate` has not been
called: the record of the calls is what it was. -/
theorem evaluate_calculates_iff_no_error (n : Nat) (nestflag : Bool) (s : PState) :
    (∀ b t, evaluate n nestflag s = Res.ok b t →
      (b = true ↔ t.errorcount = 0) ∧
      (b = true → t.calculated = t.f_opcodes :: s.calculated ∧
        ∃ code, t.f_opcodes = code ++ [Slot.op OP_UNDEF, Slot.op OP_RETURN]) ∧
      (b = false → t.calculated = s.calculated)) ∧
    (∀ t, evaluate n nestflag s = Res.abort t → t.calculated = s.calculated) := by
  have h := evaluate_post n nestflag s
  constructor
  · intro b t hr
    rw [hr] at h
    exact h
  · intro t hr
    rw [hr] at h
    exact h

/-- C9, at three lines.  The line `goto foo` compiles without an error of its own,
`checklabels` counts the error of the undefined target, the result is FALSE
and nothing is calculated; the line `1 + 2` is calculated, its code ending in
`OP_UNDEF`, `OP_RETURN`; in the line `1; local foo` the declaration follows
code, and nothing is calculated. -/
theorem evaluate_calculates_witness :
    evaluate 20 false (top_level line_goto_foo) = Res.ok false after_goto_foo ∧
    after_goto_foo.calculated = (top_level line_goto_foo).calculated ∧
    outcome (evaluate 20 false
        (top_level [numtok 0, optok T_PLUS, numtok 1, optok T_NEWLINE]))
      = some (true, 0, [[Slot.op OP_DEBUG, Slot.arg 1, Slot.op OP_NUMBER, Slot.arg 0,
          Slot.op OP_NUMBER, Slot.arg 1, Slot.op OP_ADD, Slot.op OP_SAVE,
          Slot.op OP_PRINTRESULT, Slot.op OP_UNDEF, Slot.op OP_RETURN]]) ∧
    outcome (evaluate 20 false
        (top_level [numtok 0, optok T_SEMICOLON, optok T_LOCAL, symtok 7, optok T_NEWLINE]))
      = some (false, 1, []) :=
  ⟨by decide!,
    ((evaluate_calculates_iff_no_error 20 false (top_level line_goto_foo)).1 false
      after_goto_foo (by decide!)).2.2 rfl,
    by decide!, by decide!⟩

/-! ## The tokens `scanerror` discards -/

namespace Lexer

theorem run_bind {α β : Type} (m : L α) (f : α → L β) (s : State) :
    (m >>= f) s = match m s with
      | Res.ok a s1 => f a s1
      | Res.abort s1 => Res.abort s1
      | Res.nofuel => Res.nofuel := rfl

theorem run_pure {α : Type} (a : α) (s : State) : (pure a : L α) s = Res.ok a s := rfl

theorem run_modify (f : State → State) (s : State) : modify f s = Res.ok () (f s) := rfl

theorem run_get (s : State) : get s = Res.ok s s := rfl

theorem Scans.here (s : State) : Scans s s := ⟨rfl, rfl, rfl, rfl, rfl, le_refl _⟩

theorem Scans.next {s t u : State} (h1 : Scans s t) (h2 : Scans t u) : Scans s u :=
  ⟨h2.rescan.trans h1.rescan, h2.newlines.trans h1.newlines, h2.allsyms.trans h1.allsyms,
   h2.maxscancount.trans h1.maxscancount, h2.terminal.trans h1.terminal,
   le_trans h1.errorcount h2.errorcount⟩

theorem scanSpec_bind {α β : Type} {p : L α} {f : α → L β}
    (hp : ScanSpec p) (hf : ∀ a, ScanSpec (f a)) : ScanSpec (p >>= f) := by
  intro s
  have h1 := hp s
  rw [run_bind]
  cases hps : p s with
  | ok a t =>
    rw [hps] at h1
    have h2 := hf a t
    simp only
    cases hft : f a t with
    | ok b u => rw [hft] at h2; exact h1.next h2
    | abort u => rw [hft] at h2; exact h1.next h2
    | nofuel => trivial
  | abort t => rw [hps] at h1; exact h1
  | nofuel => trivial

theorem scanSpec_pure {α : Type} (a : α) : ScanSpec (pure a : L α) := fun s => Scans.here s

theorem scanSpec_ite {α : Type} {c : Prop} [Decidable c] {p q : L α}
    (hp : ScanSpec p) (hq : ScanSpec q) : ScanSpec (if c then p else q) := by
  split
  · exact hp
  · exact hq

theorem get_scans : ScanSpec get := fun s => Scans.here s

theorem outOfFuel_scans {α : Type} : ScanSpec (outOfFuel : L α) := fun _ => trivial

theorem nextchar_scans : ScanSpec nextchar := by
  intro s
  unfold nextchar
  by_cases hp : s.pushed = true
  · rw [if_pos hp]
    exact ⟨rfl, rfl, rfl, rfl, rfl, le_refl _⟩
  · rw [if_neg hp]
    cases s.chars <;> exact ⟨rfl, rfl, rfl, rfl, rfl, le_refl _⟩

theorem reread_scans : ScanSpec reread := fun _ => ⟨rfl, rfl, rfl, rfl, rfl, le_refl _⟩

theorem scanerror_null_scans : ScanSpec scanerror_null := by
  intro s
  unfold scanerror_null
  simp only
  split_ifs <;> exact ⟨rfl, rfl, rfl, rfl, rfl, by simp⟩

theorem addstring_scans (str : List Char) (len : Nat) : ScanSpec (addstring str len) :=
  fun _ => ⟨rfl, rfl, rfl, rfl, rfl, le_refl _⟩

theorem addnumber_scans (text : List Char) : ScanSpec (addnumber text) := by
  intro s
  unfold addnumber
  cases s.numbers.indexOf? text <;> exact ⟨rfl, rfl, rfl, rfl, rfl, le_refl _⟩

theorem set_sym_scans (v : Option (List Char)) :
    ScanSpec (modify fun s => { s with t_sym := v }) :=
  fun _ => ⟨rfl, rfl, rfl, rfl, rfl, le_refl _⟩

theorem set_numindex_scans (v : Int) :
    ScanSpec (modify fun s => { s with t_numindex := v }) :=
  fun _ => ⟨rfl, rfl, rfl, rfl, rfl, le_refl _⟩

theorem set_strindex_scans (v : Int) :
    ScanSpec (modify fun s => { s with t_strindex := v }) :=
  fun _ => ⟨rfl, rfl, rfl, rfl, rfl, le_refl _⟩

theorem eatcomment_scans : ∀ n, ScanSpec (eatcomment n) := by
  intro n
  induction n with
  | zero => exact outOfFuel_scans
  | succ n ih =>
    rw [eatcomment]
    repeat' first
      | with_reducible exact ih
      | with_reducible exact nextchar_scans
      | with_reducible exact reread_scans
      | with_reducible exact get_scans
      | with_reducible exact scanerror_null_scans
      | with_reducible exact scanSpec_pure _
      | with_reducible refine scanSpec_bind ?_ (fun _ => ?_)
      | with_reducible refine scanSpec_ite ?_ ?_
      | dsimp only
      | split

theorem eatsymbol_loop_scans (stop : Option Char → Bool) :
    ∀ n buf cc, ScanSpec (eatsymbol_loop stop n buf cc) := by
  intro n
  induction n with
  | zero => exact fun _ _ => outOfFuel_scans
  | succ n ih =>
    intro buf cc
    rw [eatsymbol_loop]
    repeat' first
      | with_reducible exact ih _ _
      | with_reducible exact nextchar_scans
      | with_reducible exact scanSpec_pure _
      | with_reducible refine scanSpec_bind ?_ (fun _ => ?_)
      | with_reducible refine scanSpec_ite ?_ ?_
      | dsimp only
      | split

theorem eatsymbol_scans (SYMBOLSIZE n : Nat) : ScanSpec (eatsymbol SYMBOLSIZE n) := by
  unfold eatsymbol
  repeat' first
    | with_reducible exact eatsymbol_loop_scans _ _ _ _
    | with_reducible exact reread_scans
    | with_reducible exact get_scans
    | with_reducible exact scanerror_null_scans
    | with_reducible exact set_sym_scans _
    | with_reducible exact scanSpec_pure _
    | with_reducible refine scanSpec_bind ?_ (fun _ => ?_)
    | with_reducible refine scanSpec_ite ?_ ?_
    | dsimp only
    | split

theorem eatnumber_loop_scans (qparse : List Char → Int) :
    ∀ n numbuf, ScanSpec (eatnumber_loop qparse n numbuf) := by
  intro n
  induction n with
  | zero => exact fun _ => outOfFuel_scans
  | succ n ih =>
    intro numbuf
    rw [eatnumber_loop]
    repeat' first
      | with_reducible exact ih _
      | with_reducible exact nextchar_scans
      | with_reducible exact reread_scans
      | with_reducible exact scanerror_null_scans
      | with_reducible exact addnumber_scans _
      | with_reducible exact set_numindex_scans _
      | with_reducible exact scanSpec_pure _
      | with_reducible refine scanSpec_bind ?_ (fun _ => ?_)
      | with_reducible refine scanSpec_ite ?_ ?_
      | dsimp only
      | split

theorem eatnumber_scans (qparse : List Char → Int) (n : Nat) :
    ScanSpec (eatnumber qparse n) := by
  unfold eatnumber
  repeat' first
    | with_reducible exact eatnumber_loop_scans _ _ _
    | with_reducible exact reread_scans
    | with_reducible exact addnumber_scans _
    | with_reducible exact set_numindex_scans _
    | with_reducible exact scanSpec_pure _
    | with_reducible refine scanSpec_bind ?_ (fun _ => ?_)
    | with_reducible refine scanSpec_ite ?_ ?_
    | dsimp only
    | split

theorem eatstring_octal_scans : ∀ i ch, ScanSpec (eatstring_octal i ch) := by
  intro i
  induction i with
  | zero => exact fun _ => scanSpec_pure _
  | succ i ih =>
    intro ch
    rw [eatstring_octal]
    repeat' first
      | with_reducible exact ih _
      | with_reducible exact nextchar_scans
      | with_reducible exact scanSpec_pure _
      | with_reducible refine scanSpec_bind ?_ (fun _ => ?_)
      | with_reducible refine scanSpec_ite ?_ ?_
      | dsimp only
      | split

theorem eatstring_hex_scans : ∀ i ch, ScanSpec (eatstring_hex i ch) := by
  intro i
  induction i with
  | zero => exact fun _ => scanSpec_pure _
  | succ i ih =>
    intro ch
    rw [eatstring_hex]
    repeat' first
      | with_reducible exact ih _
      | with_reducible exact nextchar_scans
      | with_reducible exact scanSpec_pure _
      | with_reducible refine scanSpec_bind ?_ (fun _ => ?_)
      | with_reducible refine scanSpec_ite ?_ ?_
      | dsimp only
      | split

theorem eatstring_char_scans (quotechar : Char) : ScanSpec (eatstring_char quotechar) := by
  unfold eatstring_char
  repeat' first
    | with_reducible exact eatstring_octal_scans _ _
    | with_reducible exact eatstring_hex_scans _ _
    | with_reducible exact nextchar_scans
    | with_reducible exact reread_scans
    | with_reducible exact get_scans
    | with_reducible exact scanerror_null_scans
    | with_reducible exact scanSpec_pure _
    | with_reducible refine scanSpec_bind ?_ (fun _ => ?_)
    | with_reducible refine scanSpec_ite ?_ ?_
    | dsimp only
    | split

theorem eatstring_loop_scans (quotechar : Char) :
    ∀ n str totlen buf, ScanSpec (eatstring_loop quotechar n str totlen buf) := by
  intro n
  induction n with
  | zero => exact fun _ _ _ => outOfFuel_scans
  | succ n ih =>
    intro str totlen buf
    rw [eatstring_loop]
    repeat' first
      | with_reducible exact ih _ _ _
      | with_reducible exact eatstring_char_scans _
      | with_reducible exact addstring_scans _ _
      | with_reducible exact set_strindex_scans _
      | with_reducible exact scanSpec_pure _
      | with_reducible refine scanSpec_bind ?_ (fun _ => ?_)
      | with_reducible refine scanSpec_ite ?_ ?_
      | dsimp only
      | split

theorem eatstring_scans (quotechar : Char) (n : Nat) : ScanSpec (eatstring quotechar n) :=
  eatstring_loop_scans quotechar n [] 0 []

theorem gettoken_eq_scans (one two : TokenType) : ScanSpec (gettoken_eq one two) := by
  unfold gettoken_eq
  repeat' first
    | with_reducible exact nextchar_scans
    | with_reducible exact reread_scans
    | with_reducible exact scanSpec_pure _
    | with_reducible refine scanSpec_bind ?_ (fun _ => ?_)
    | with_reducible refine scanSpec_ite ?_ ?_
    | dsimp only

theorem gettoken_two_scans (c1 : Char) (t1 : TokenType) (c2 : Char) (t2 one : TokenType) :
    ScanSpec (gettoken_two c1 t1 c2 t2 one) := by
  unfold gettoken_two
  repeat' first
    | with_reducible exact nextchar_scans
    | with_reducible exact reread_scans
    | with_reducible exact scanSpec_pure _
    | with_reducible refine scanSpec_bind ?_ (fun _ => ?_)
    | with_reducible refine scanSpec_ite ?_ ?_
    | dsimp only

theorem gettoken_three_scans (c : Char) (one eq two three : TokenType) :
    ScanSpec (gettoken_three c one eq two three) := by
  unfold gettoken_three
  repeat' first
    | with_reducible exact nextchar_scans
    | with_reducible exact reread_scans
    | with_reducible exact gettoken_eq_scans _ _
    | with_reducible exact scanSpec_pure _
    | with_reducible refine scanSpec_bind ?_ (fun _ => ?_)
    | with_reducible refine scanSpec_ite ?_ ?_
    | dsimp only

theorem gettoken_loop_scans (SYMBOLSIZE : Nat) (qparse : List Char → Int) :
    ∀ n, ScanSpec (gettoken_loop SYMBOLSIZE qparse n) := by
  intro n
  induction n with
  | zero => exact outOfFuel_scans
  | succ n ih =>
    rw [gettoken_loop]
    repeat' first
      | with_reducible exact ih
      | with_reducible exact nextchar_scans
      | with_reducible exact reread_scans
      | with_reducible exact get_scans
      | with_reducible exact scanerror_null_scans
      | with_reducible exact eatsymbol_scans _ _
      | with_reducible exact eatnumber_scans _ _
      | with_reducible exact eatstring_scans _ _
      | with_reducible exact eatcomment_scans _
      | with_reducible exact gettoken_eq_scans _ _
      | with_reducible exact gettoken_two_scans _ _ _ _ _
      | with_reducible exact gettoken_three_scans _ _ _ _ _
      | with_reducible exact scanSpec_pure _
      | with_reducible refine scanSpec_bind ?_ (fun _ => ?_)
      | with_reducible refine scanSpec_ite ?_ ?_
      | dsimp only

end Lexer

namespace Lexer

/-- The two ways of `gettoken`: the current token again, or the scanning loop. -/
theorem gettoken_run (SYMBOLSIZE : Nat) (qparse : List Char → Int) (n : Nat) (s : State) :
    gettoken SYMBOLSIZE qparse n s =
      if s.rescan = true then Res.ok s.t_type { s with rescan := false }
      else
        match gettoken_loop SYMBOLSIZE qparse n
            { s with t_sym := none, t_strindex := 0, t_numindex := 0 } with
        | Res.ok type u => Res.ok type { u with t_type := type }
        | Res.abort u => Res.abort u
        | Res.nofuel => Res.nofuel := by
  by_cases hr : s.rescan = true
  · rw [if_pos hr]
    unfold gettoken
    rw [run_bind, run_get]
    dsimp only
    rw [if_pos hr]
    rfl
  · rw [if_neg hr]
    unfold gettoken
    rw [run_bind, run_get]
    dsimp only
    rw [if_neg hr, run_bind, run_modify]
    dsimp only
    rw [run_bind]
    cases gettoken_loop SYMBOLSIZE qparse n
      { s with t_sym := none, t_strindex := 0, t_numindex := 0 } <;> rfl

/-- C12: in a state `t` that `gettoken` has left returning the token type `ty`, the
type of the current token is `ty` and no pushback is pending; `rescantoken`
followed by `gettoken` returns `ty` again and leaves exactly the state `t`: no
character is read, and the symbol text, the string index and the number index
are what they were.  The `gettoken` after that does not return the token
again: it clears the payload and scans the input.  Calling `rescantoken`
twice is calling it once. -/
theorem rescantoken_gettoken (SYMBOLSIZE : Nat) (qparse : List Char → Int) (n m : Nat)
    (s t : State) (ty : TokenType) (h : gettoken SYMBOLSIZE qparse n s = Res.ok ty t) :
    t.t_type = ty ∧ t.rescan = false ∧
    (rescantoken >>= fun _ => gettoken SYMBOLSIZE qparse m) t = Res.ok ty t ∧
    gettoken SYMBOLSIZE qparse m t =
      (match gettoken_loop SYMBOLSIZE qparse m
          { t with t_sym := none, t_strindex := 0, t_numindex := 0 } with
        | Res.ok type u => Res.ok type { u with t_type := type }
        | Res.abort u => Res.abort u
        | Res.nofuel => Res.nofuel) ∧
    (rescantoken >>= fun _ => rescantoken) t = rescantoken t := by
  have key : t.t_type = ty ∧ t.rescan = false := by
    rw [gettoken_run] at h
    by_cases hr : s.rescan = true
    · rw [if_pos hr] at h
      cases h
      exact ⟨rfl, rfl⟩
    · rw [if_neg hr] at h
      have hs := gettoken_loop_scans SYMBOLSIZE qparse n
        { s with t_sym := none, t_strindex := 0, t_numindex := 0 }
      cases hl : gettoken_loop SYMBOLSIZE qparse n
          { s with t_sym := none, t_strindex := 0, t_numindex := 0 } with
      | ok a u =>
        rw [hl] at h hs
        cases h
        have := hs.rescan
        simp only at this
        exact ⟨rfl, by simp only; rw [this]; simpa using hr⟩
      | abort u => rw [hl] at h; cases h
      | nofuel => rw [hl] at h; cases h
  obtain ⟨h1, h2⟩ := key
  refine ⟨h1, h2, ?_, ?_, rfl⟩
  · rw [run_bind]
    simp only [rescantoken, run_modify]
    rw [gettoken_run]
    simp only [if_true]
    rw [← h1]
    congr 1
    cases t
    simp only at h2
    simp [h2]
  · rw [gettoken_run, if_neg (by simp [h2])]

end Lexer

namespace Lexer

/-- C12, at the input `x1 + 2`: `gettoken` returns the symbol `x1`; after
`rescantoken` it returns the symbol again and the state is the same, the
text `x1` still there; the `gettoken` after that scans the `+`. -/
theorem rescantoken_gettoken_witness :
    gettoken 256 qparse_decimal 20 { chars := ['x', '1', ' ', '+', ' ', '2'] } =
      Res.ok T_SYMBOL
        { chars := ['+', ' ', '2'], lastch := some ' ', pushed := true,
          t_type := T_SYMBOL, t_sym := some ['x', '1'] } ∧
    (rescantoken >>= fun _ => gettoken 256 qparse_decimal 20)
        { chars := ['+', ' ', '2'], lastch := some ' ', pushed := true,
          t_type := T_SYMBOL, t_sym := some ['x', '1'] } =
      Res.ok T_SYMBOL
        { chars := ['+', ' ', '2'], lastch := some ' ', pushed := true,
          t_type := T_SYMBOL, t_sym := some ['x', '1'] } ∧
    gettoken 256 qparse_decimal 20
        { chars := ['+', ' ', '2'], lastch := some ' ', pushed := true,
          t_type := T_SYMBOL, t_sym := some ['x', '1'] } =
      Res.ok T_PLUS
        { chars := ['2'], lastch := some ' ', pushed := true, t_type := T_PLUS } :=
  ⟨by decide!,
    (rescantoken_gettoken 256 qparse_decimal 20 20
      { chars := ['x', '1', ' ', '+', ' ', '2'] }
      { chars := ['+', ' ', '2'], lastch := some ' ', pushed := true,
        t_type := T_SYMBOL, t_sym := some ['x', '1'] } T_SYMBOL (by decide!)).2.2.1,
    by decide!⟩

end Lexer

namespace Lexer

theorem nextchar_cons {s : State} {c : Char} {rest : List Char} (h : Unread s (c :: rest)) :
    nextchar s = Res.ok (some c) { s with chars := rest, lastch := some c, pushed := false } := by
  unfold Unread at h
  unfold nextchar
  by_cases hp : s.pushed = true
  · rw [if_pos hp] at h
    rw [if_pos hp]
    cases hl : s.lastch with
    | none => rw [hl] at h; simp at h
    | some d =>
      rw [hl] at h
      simp only [List.cons.injEq] at h
      obtain ⟨rfl, rfl⟩ := h
      rfl
  · rw [if_neg hp] at h
    rw [if_neg hp, ← h]
    have : s.pushed = false := by simpa using hp
    simp only
    rw [← this]

theorem nextchar_nil {s : State} (h : Unread s []) :
    nextchar s = Res.ok none { s with chars := [], lastch := none, pushed := false } := by
  unfold Unread at h
  unfold nextchar
  by_cases hp : s.pushed = true
  · rw [if_pos hp] at h
    rw [if_pos hp]
    cases hl : s.lastch with
    | none =>
      rw [hl] at h
      simp only [true_and] at h
      rw [← h]
    | some d => rw [hl] at h; simp at h
  · rw [if_neg hp] at h
    rw [if_neg hp, ← h]
    have : s.pushed = false := by simpa using hp
    simp only
    rw [← this]

/-- The scanning loop sees of the character source only what is unread. -/
theorem gettoken_loop_unread (SYMBOLSIZE : Nat) (qparse : List Char → Int) (n : Nat)
    {s : State} {input : List Char} (h : Unread s input) :
    gettoken_loop SYMBOLSIZE qparse (n + 1) s =
      gettoken_loop SYMBOLSIZE qparse (n + 1) { s with chars := input, pushed := false } := by
  have h2 : Unread { s with chars := input, pushed := false } input := by simp [Unread]
  rw [gettoken_loop, run_bind, run_bind]
  cases input with
  | nil => rw [nextchar_nil h, nextchar_nil h2]
  | cons c rest => rw [nextchar_cons h, nextchar_cons h2]

end Lexer

namespace Lexer

theorem gettoken_loop_lbrace (SYMBOLSIZE : Nat) (qparse : List Char → Int) (n : Nat)
    (s : State) (rest text : List Char) (tok : TokenType) (ha : s.allsyms = false)
    (hop : longest_operator ('{' :: rest) = some (text, tok))
    (hx : ¬ ((['/', '*'].isPrefixOf ('{' :: rest) = true) ∨
      (['\\', '\n'].isPrefixOf ('{' :: rest) = true))) :
    ∃ t, gettoken_loop SYMBOLSIZE qparse (n + 1)
        { s with chars := '{' :: rest, pushed := false } = Res.ok tok t ∧
      Unread t (('{' :: rest).drop text.length) ∧
      t = { s with chars := t.chars, lastch := t.lastch, pushed := t.pushed } := by
  rw [gettoken_loop]
  simp only [run_bind, nextchar, run_get, ha, Bool.false_eq_true, false_and, if_false,
    Option.some.injEq, Char.reduceEq, or_self, reduceCtorEq, gettoken_two, gettoken_eq,
    gettoken_three]
  simp [longest_operator, operators, longer, List.isPrefixOf] at hop
  obtain ⟨rfl, rfl⟩ := hop
  simp [run_bind, nextchar, reread, run_modify, run_pure, run_get, Unread, gettoken_eq, gettoken_two, gettoken_three]

theorem gettoken_loop_rbrace (SYMBOLSIZE : Nat) (qparse : List Char → Int) (n : Nat)
    (s : State) (rest text : List Char) (tok : TokenType) (ha : s.allsyms = false)
    (hop : longest_operator ('}' :: rest) = some (text, tok))
    (hx : ¬ ((['/', '*'].isPrefixOf ('}' :: rest) = true) ∨
      (['\\', '\n'].isPrefixOf ('}' :: rest) = true))) :
    ∃ t, gettoken_loop SYMBOLSIZE qparse (n + 1)
        { s with chars := '}' :: rest, pushed := false } = Res.ok tok t ∧
      Unread t (('}' :: rest).drop text.length) ∧
      t = { s with chars := t.chars, lastch := t.lastch, pushed := t.pushed } := by
  rw [gettoken_loop]
  simp only [run_bind, nextchar, run_get, ha, Bool.false_eq_true, false_and, if_false,
    Option.some.injEq, Char.reduceEq, or_self, reduceCtorEq, gettoken_two, gettoken_eq,
    gettoken_three]
  simp [longest_operator, operators, longer, List.isPrefixOf] at hop
  obtain ⟨rfl, rfl⟩ := hop
  simp [run_bind, nextchar, reread, run_modify, run_pure, run_get, Unread, gettoken_eq, gettoken_two, gettoken_three]

theorem gettoken_loop_lparen (SYMBOLSIZE : Nat) (qparse : List Char → Int) (n : Nat)
    (s : State) (rest text : List Char) (tok : TokenType) (ha : s.allsyms = false)
    (hop : longest_operator ('(' :: rest) = some (text, tok))
    (hx : ¬ ((['/', '*'].isPrefixOf ('(' :: rest) = true) ∨
      (['\\', '\n'].isPrefixOf ('(' :: rest) = true))) :
    ∃ t, gettoken_loop SYMBOLSIZE qparse (n + 1)
        { s with chars := '(' :: rest, pushed := false } = Res.ok tok t ∧
      Unread t (('(' :: rest).drop text.length) ∧
      t = { s with chars := t.chars, lastch := t.lastch, pushed := t.pushed } := by
  rw [gettoken_loop]
  simp only [run_bind, nextchar, run_get, ha, Bool.false_eq_true, false_and, if_false,
    Option.some.injEq, Char.reduceEq, or_self, reduceCtorEq, gettoken_two, gettoken_eq,
    gettoken_three]
  simp [longest_operator, operators, longer, List.isPrefixOf] at hop
  obtain ⟨rfl, rfl⟩ := hop
  simp [run_bind, nextchar, reread, run_modify, run_pure, run_get, Unread, gettoken_eq, gettoken_two, gettoken_three]

theorem gettoken_loop_rparen (SYMBOLSIZE : Nat) (qparse : List Char → Int) (n : Nat)
    (s : State) (rest text : List Char) (tok : TokenType) (ha : s.allsyms = false)
    (hop : longest_operator (')' :: rest) = some (text, tok))
    (hx : ¬ ((['/', '*'].isPrefixOf (')' :: rest) = true) ∨
      (['\\', '\n'].isPrefixOf (')' :: rest) = true))) :
    ∃ t, gettoken_loop SYMBOLSIZE qparse (n + 1)
        { s with chars := ')' :: rest, pushed := false } = Res.ok tok t ∧
      Unread t ((')' :: rest).drop text.length) ∧
      t = { s with chars := t.chars, lastch := t.lastch, pushed := t.pushed } := by
  rw [gettoken_loop]
  simp only [run_bind, nextchar, run_get, ha, Bool.false_eq_true, false_and, if_false,
    Option.some.injEq, Char.reduceEq, or_self, reduceCtorEq, gettoken_two, gettoken_eq,
    gettoken_three]
  simp [longest_operator, operators, longer, List.isPrefixOf] at hop
  obtain ⟨rfl, rfl⟩ := hop
  simp [run_bind, nextchar, reread, run_modify, run_pure, run_get, Unread, gettoken_eq, gettoken_two, gettoken_three]

theorem gettoken_loop_lbracket (SYMBOLSIZE : Nat) (qparse : List Char → Int) (n : Nat)
    (s : State) (rest text : List Char) (tok : TokenType) (ha : s.allsyms = false)
    (hop : longest_operator ('[' :: rest) = some (text, tok))
    (hx : ¬ ((['/', '*'].isPrefixOf ('[' :: rest) = true) ∨
      (['\\', '\n'].isPrefixOf ('[' :: rest) = true))) :
    ∃ t, gettoken_loop SYMBOLSIZE qparse (n + 1)
        { s with chars := '[' :: rest, pushed := false } = Res.ok tok t ∧
      Unread t (('[' :: rest).drop text.length) ∧
      t = { s with chars := t.chars, lastch := t.lastch, pushed := t.pushed } := by
  rw [gettoken_loop]
  simp only [run_bind, nextchar, run_get, ha, Bool.false_eq_true, false_and, if_false,
    Option.some.injEq, Char.reduceEq, or_self, reduceCtorEq, gettoken_two, gettoken_eq,
    gettoken_three]
  simp [longest_operator, operators, longer, List.isPrefixOf] at hop
  obtain ⟨rfl, rfl⟩ := hop
  simp [run_bind, nextchar, reread, run_modify, run_pure, run_get, Unread, gettoken_eq, gettoken_two, gettoken_three]

theorem gettoken_loop_rbracket (SYMBOLSIZE : Nat) (qparse : List Char → Int) (n : Nat)
    (s : State) (rest text : List Char) (tok : TokenType) (ha : s.allsyms = false)
    (hop : longest_operator (']' :: rest) = some (text, tok))
    (hx : ¬ ((['/', '*'].isPrefixOf (']' :: rest) = true) ∨
      (['\\', '\n'].isPrefixOf (']' :: rest) = true))) :
    ∃ t, gettoken_loop SYMBOLSIZE qparse (n + 1)
        { s with chars := ']' :: rest, pushed := false } = Res.ok tok t ∧
      Unread t ((']' :: rest).drop text.length) ∧
      t = { s with chars := t.chars, lastch := t.lastch, pushed := t.pushed } := by
  rw [gettoken_loop]
  simp only [run_bind, nextchar, run_get, ha, Bool.false_eq_true, false_and, if_false,
    Option.some.injEq, Char.reduceEq, or_self, reduceCtorEq, gettoken_two, gettoken_eq,
    gettoken_three]
  simp [longest_operator, operators, longer, List.isPrefixOf] at hop
  obtain ⟨rfl, rfl⟩ := hop
  simp [run_bind, nextchar, reread, run_modify, run_pure, run_get, Unread, gettoken_eq, gettoken_two, gettoken_three]

theorem gettoken_loop_semicolon (SYMBOLSIZE : Nat) (qparse : List Char → Int) (n : Nat)
    (s : State) (rest text : List Char) (tok : TokenType) (ha : s.allsyms = false)
    (hop : longest_operator (';' :: rest) = some (text, tok))
    (hx : ¬ ((['/', '*'].isPrefixOf (';' :: rest) = true) ∨
      (['\\', '\n'].isPrefixOf (';' :: rest) = true))) :
    ∃ t, gettoken_loop SYMBOLSIZE qparse (n + 1)
        { s with chars := ';' :: rest, pushed := false } = Res.ok tok t ∧
      Unread t ((';' :: rest).drop text.length) ∧
      t = { s with chars := t.chars, lastch := t.lastch, pushed := t.pushed } := by
  rw [gettoken_loop]
  simp only [run_bind, nextchar, run_get, ha, Bool.false_eq_true, false_and, if_false,
    Option.some.injEq, Char.reduceEq, or_self, reduceCtorEq, gettoken_two, gettoken_eq,
    gettoken_three]
  simp [longest_operator, operators, longer, List.isPrefixOf] at hop
  obtain ⟨rfl, rfl⟩ := hop
  simp [run_bind, nextchar, reread, run_modify, run_pure, run_get, Unread, gettoken_eq, gettoken_two, gettoken_three]

theorem gettoken_loop_colon (SYMBOLSIZE : Nat) (qparse : List Char → Int) (n : Nat)
    (s : State) (rest text : List Char) (tok : TokenType) (ha : s.allsyms = false)
    (hop : longest_operator (':' :: rest) = some (text, tok))
    (hx : ¬ ((['/', '*'].isPrefixOf (':' :: rest) = true) ∨
      (['\\', '\n'].isPrefixOf (':' :: rest) = true))) :
    ∃ t, gettoken_loop SYMBOLSIZE qparse (n + 1)
        { s with chars := ':' :: rest, pushed := false } = Res.ok tok t ∧
      Unread t ((':' :: rest).drop text.length) ∧
      t = { s with chars := t.chars, lastch := t.lastch, pushed := t.pushed } := by
  rw [gettoken_loop]
  simp only [run_bind, nextchar, run_get, ha, Bool.false_eq_true, false_and, if_false,
    Option.some.injEq, Char.reduceEq, or_self, reduceCtorEq, gettoken_two, gettoken_eq,
    gettoken_three]
  simp [longest_operator, operators, longer, List.isPrefixOf] at hop
  obtain ⟨rfl, rfl⟩ := hop
  simp [run_bind, nextchar, reread, run_modify, run_pure, run_get, Unread, gettoken_eq, gettoken_two, gettoken_three]

theorem gettoken_loop_comma (SYMBOLSIZE : Nat) (qparse : List Char → Int) (n : Nat)
    (s : State) (rest text : List Char) (tok : TokenType) (ha : s.allsyms = false)
    (hop : longest_operator (',' :: rest) = some (text, tok))
    (hx : ¬ ((['/', '*'].isPrefixOf (',' :: rest) = true) ∨
      (['\\', '\n'].isPrefixOf (',' :: rest) = true))) :
    ∃ t, gettoken_loop SYMBOLSIZE qparse (n + 1)
        { s with chars := ',' :: rest, pushed := false } = Res.ok tok t ∧
      Unread t ((',' :: rest).drop text.length) ∧
      t = { s with chars := t.chars, lastch := t.lastch, pushed := t.pushed } := by
  rw [gettoken_loop]
  simp only [run_bind, nextchar, run_get, ha, Bool.false_eq_true, false_and, if_false,
    Option.some.injEq, Char.reduceEq, or_self, reduceCtorEq, gettoken_two, gettoken_eq,
    gettoken_three]
  simp [longest_operator, operators, longer, List.isPrefixOf] at hop
  obtain ⟨rfl, rfl⟩ := hop
  simp [run_bind, nextchar, reread, run_modify, run_pure, run_get, Unread, gettoken_eq, gettoken_two, gettoken_three]

theorem gettoken_loop_question (SYMBOLSIZE : Nat) (qparse : List Char → Int) (n : Nat)
    (s : State) (rest text : List Char) (tok : TokenType) (ha : s.allsyms = false)
    (hop : longest_operator ('?' :: rest) = some (text, tok))
    (hx : ¬ ((['/', '*'].isPrefixOf ('?' :: rest) = true) ∨
      (['\\', '\n'].isPrefixOf ('?' :: rest) = true))) :
    ∃ t, gettoken_loop SYMBOLSIZE qparse (n + 1)
        { s with chars := '?' :: rest, pushed := false } = Res.ok tok t ∧
      Unread t (('?' :: rest).drop text.length) ∧
      t = { s with chars := t.chars, lastch := t.lastch, pushed := t.pushed } := by
  rw [gettoken_loop]
  simp only [run_bind, nextchar, run_get, ha, Bool.false_eq_true, false_and, if_false,
    Option.some.injEq, Char.reduceEq, or_self, reduceCtorEq, gettoken_two, gettoken_eq,
    gettoken_three]
  simp [longest_operator, operators, longer, List.isPrefixOf] at hop
  obtain ⟨rfl, rfl⟩ := hop
  simp [run_bind, nextchar, reread, run_modify, run_pure, run_get, Unread, gettoken_eq, gettoken_two, gettoken_three]

theorem gettoken_loop_at (SYMBOLSIZE : Nat) (qparse : List Char → Int) (n : Nat)
    (s : State) (rest text : List Char) (tok : TokenType) (ha : s.allsyms = false)
    (hop : longest_operator ('@' :: rest) = some (text, tok))
    (hx : ¬ ((['/', '*'].isPrefixOf ('@' :: rest) = true) ∨
      (['\\', '\n'].isPrefixOf ('@' :: rest) = true))) :
    ∃ t, gettoken_loop SYMBOLSIZE qparse (n + 1)
        { s with chars := '@' :: rest, pushed := false } = Res.ok tok t ∧
      Unread t (('@' :: rest).drop text.length) ∧
      t = { s with chars := t.chars, lastch := t.lastch, pushed := t.pushed } := by
  rw [gettoken_loop]
  simp only [run_bind, nextchar, run_get, ha, Bool.false_eq_true, false_and, if_false,
    Option.some.injEq, Char.reduceEq, or_self, reduceCtorEq, gettoken_two, gettoken_eq,
    gettoken_three]
  simp [longest_operator, operators, longer, List.isPrefixOf] at hop
  obtain ⟨rfl, rfl⟩ := hop
  simp [run_bind, nextchar, reread, run_modify, run_pure, run_get, Unread, gettoken_eq, gettoken_two, gettoken_three]

theorem gettoken_loop_backquote (SYMBOLSIZE : Nat) (qparse : List Char → Int) (n : Nat)
    (s : State) (rest text : List Char) (tok : TokenType) (ha : s.allsyms = false)
    (hop : longest_operator ((Char.ofNat 96) :: rest) = some (text, tok))
    (hx : ¬ ((['/', '*'].isPrefixOf ((Char.ofNat 96) :: rest) = true) ∨
      (['\\', '\n'].isPrefixOf ((Char.ofNat 96) :: rest) = true))) :
    ∃ t, gettoken_loop SYMBOLSIZE qparse (n + 1)
        { s with chars := (Char.ofNat 96) :: rest, pushed := false } = Res.ok tok t ∧
      Unread t (((Char.ofNat 96) :: rest).drop text.length) ∧
      t = { s with chars := t.chars, lastch := t.lastch, pushed := t.pushed } := by
  rw [gettoken_loop]
  simp only [run_bind, nextchar, run_get, ha, Bool.false_eq_true, false_and, if_false,
    Option.some.injEq, Char.reduceEq, or_self, reduceCtorEq, gettoken_two, gettoken_eq,
    gettoken_three]
  simp [longest_operator, operators, longer, List.isPrefixOf] at hop
  obtain ⟨rfl, rfl⟩ := hop
  simp [run_bind, nextchar, reread, run_modify, run_pure, run_get, Unread, gettoken_eq, gettoken_two, gettoken_three]

theorem gettoken_loop_dollar (SYMBOLSIZE : Nat) (qparse : List Char → Int) (n : Nat)
    (s : State) (rest text : List Char) (tok : TokenType) (ha : s.allsyms = false)
    (hop : longest_operator ('$' :: rest) = some (text, tok))
    (hx : ¬ ((['/', '*'].isPrefixOf ('$' :: rest) = true) ∨
      (['\\', '\n'].isPrefixOf ('$' :: rest) = true))) :
    ∃ t, gettoken_loop SYMBOLSIZE qparse (n + 1)
        { s with chars := '$' :: rest, pushed := false } = Res.ok tok t ∧
      Unread t (('$' :: rest).drop text.length) ∧
      t = { s with chars := t.chars, lastch := t.lastch, pushed := t.pushed } := by
  rw [gettoken_loop]
  simp only [run_bind, nextchar, run_get, ha, Bool.false_eq_true, false_and, if_false,
    Option.some.injEq, Char.reduceEq, or_self, reduceCtorEq, gettoken_two, gettoken_eq,
    gettoken_three]
  simp [longest_operator, operators, longer, List.isPrefixOf] at hop
  obtain ⟨rfl, rfl⟩ := hop
  simp [run_bind, nextchar, reread, run_modify, run_pure, run_get, Unread, gettoken_eq, gettoken_two, gettoken_three]

theorem gettoken_loop_caret (SYMBOLSIZE : Nat) (qparse : List Char → Int) (n : Nat)
    (s : State) (rest text : List Char) (tok : TokenType) (ha : s.allsyms = false)
    (hop : longest_operator ('^' :: rest) = some (text, tok))
    (hx : ¬ ((['/', '*'].isPrefixOf ('^' :: rest) = true) ∨
      (['\\', '\n'].isPrefixOf ('^' :: rest) = true))) :
    ∃ t, gettoken_loop SYMBOLSIZE qparse (n + 1)
        { s with chars := '^' :: rest, pushed := false } = Res.ok tok t ∧
      Unread t (('^' :: rest).drop text.length) ∧
      t = { s with chars := t.chars, lastch := t.lastch, pushed := t.pushed } := by
  rw [gettoken_loop]
  simp only [run_bind, nextchar, run_get, ha, Bool.false_eq_true, false_and, if_false,
    Option.some.injEq, Char.reduceEq, or_self, reduceCtorEq, gettoken_two, gettoken_eq,
    gettoken_three]
  cases rest with
  | nil =>
    simp [longest_operator, operators, longer, List.isPrefixOf] at hop
    obtain ⟨rfl, rfl⟩ := hop
    simp [run_bind, nextchar, reread, run_modify, run_pure, run_get, Unread, gettoken_eq, gettoken_two, gettoken_three]
  | cons c2 rest2 =>
    by_cases h20 : c2 = '='
    · subst h20
      simp [longest_operator, operators, longer, List.isPrefixOf] at hop
      obtain ⟨rfl, rfl⟩ := hop
      simp [run_bind, nextchar, reread, run_modify, run_pure, run_get, Unread, gettoken_eq, gettoken_two, gettoken_three]
    have h20s : ¬ '=' = c2 := fun h => h20 h.symm
    simp [longest_operator, operators, longer, List.isPrefixOf, h20, h20s] at hop
    obtain ⟨rfl, rfl⟩ := hop
    simp [run_bind, nextchar, reread, run_modify, run_pure, run_get, Unread, gettoken_eq, gettoken_two, gettoken_three, h20, h20s]

theorem gettoken_loop_equals (SYMBOLSIZE : Nat) (qparse : List Char → Int) (n : Nat)
    (s : State) (rest text : List Char) (tok : TokenType) (ha : s.allsyms = false)
    (hop : longest_operator ('=' :: rest) = some (text, tok))
    (hx : ¬ ((['/', '*'].isPrefixOf ('=' :: rest) = true) ∨
      (['\\', '\n'].isPrefixOf ('=' :: rest) = true))) :
    ∃ t, gettoken_loop SYMBOLSIZE qparse (n + 1)
        { s with chars := '=' :: rest, pushed := false } = Res.ok tok t ∧
      Unread t (('=' :: rest).drop text.length) ∧
      t = { s with chars := t.chars, lastch := t.lastch, pushed := t.pushed } := by
  rw [gettoken_loop]
  simp only [run_bind, nextchar, run_get, ha, Bool.false_eq_true, false_and, if_false,
    Option.some.injEq, Char.reduceEq, or_self, reduceCtorEq, gettoken_two, gettoken_eq,
    gettoken_three]
  cases rest with
  | nil =>
    simp [longest_operator, operators, longer, List.isPrefixOf] at hop
    obtain ⟨rfl, rfl⟩ := hop
    simp [run_bind, nextchar, reread, run_modify, run_pure, run_get, Unread, gettoken_eq, gettoken_two, gettoken_three]
  | cons c2 rest2 =>
    by_cases h20 : c2 = '='
    · subst h20
      simp [longest_operator, operators, longer, List.isPrefixOf] at hop
      obtain ⟨rfl, rfl⟩ := hop
      simp [run_bind, nextchar, reread, run_modify, run_pure, run_get, Unread, gettoken_eq, gettoken_two, gettoken_three]
    have h20s : ¬ '=' = c2 := fun h => h20 h.symm
    simp [longest_operator, operators, longer, List.isPrefixOf, h20, h20s] at hop
    obtain ⟨rfl, rfl⟩ := hop
    simp [run_bind, nextchar, reread, run_modify, run_pure, run_get, Unread, gettoken_eq, gettoken_two, gettoken_three, h20, h20s]

theorem gettoken_loop_plus (SYMBOLSIZE : Nat) (qparse : List Char → Int) (n : Nat)
    (s : State) (rest text : List Char) (tok : TokenType) (ha : s.allsyms = false)
    (hop : longest_operator ('+' :: rest) = some (text, tok))
    (hx : ¬ ((['/', '*'].isPrefixOf ('+' :: rest) = true) ∨
      (['\\', '\n'].isPrefixOf ('+' :: rest) = true))) :
    ∃ t, gettoken_loop SYMBOLSIZE qparse (n + 1)
        { s with chars := '+' :: rest, pushed := false } = Res.ok tok t ∧
      Unread t (('+' :: rest).drop text.length) ∧
      t = { s with chars := t.chars, lastch := t.lastch, pushed := t.pushed } := by
  rw [gettoken_loop]
  simp only [run_bind, nextchar, run_get, ha, Bool.false_eq_true, false_and, if_false,
    Option.some.injEq, Char.reduceEq, or_self, reduceCtorEq, gettoken_two, gettoken_eq,
    gettoken_three]
  cases rest with
  | nil =>
    simp [longest_operator, operators, longer, List.isPrefixOf] at hop
    obtain ⟨rfl, rfl⟩ := hop
    simp [run_bind, nextchar, reread, run_modify, run_pure, run_get, Unread, gettoken_eq, gettoken_two, gettoken_three]
  | cons c2 rest2 =>
    by_cases h20 : c2 = '+'
    · subst h20
      simp [longest_operator, operators, longer, List.isPrefixOf] at hop
      obtain ⟨rfl, rfl⟩ := hop
      simp [run_bind, nextchar, reread, run_modify, run_pure, run_get, Unread, gettoken_eq, gettoken_two, gettoken_three]
    have h20s : ¬ '+' = c2 := fun h => h20 h.symm
    by_cases h21 : c2 = '='
    · subst h21
      simp [longest_operator, operators, longer, List.isPrefixOf, h20, h20s] at hop
      obtain ⟨rfl, rfl⟩ := hop
      simp [run_bind, nextchar, reread, run_modify, run_pure, run_get, Unread, gettoken_eq, gettoken_two, gettoken_three, h20, h20s]
    have h21s : ¬ '=' = c2 := fun h => h21 h.symm
    simp [longest_operator, operators, longer, List.isPrefixOf, h20, h20s, h21, h21s] at hop
    obtain ⟨rfl, rfl⟩ := hop
    simp [run_bind, nextchar, reread, run_modify, run_pure, run_get, Unread, gettoken_eq, gettoken_two, gettoken_three, h20, h20s, h21, h21s]

theorem gettoken_loop_minus (SYMBOLSIZE : Nat) (qparse : List Char → Int) (n : Nat)
    (s : State) (rest text : List Char) (tok : TokenType) (ha : s.allsyms = false)
    (hop : longest_operator ('-' :: rest) = some (text, tok))
    (hx : ¬ ((['/', '*'].isPrefixOf ('-' :: rest) = true) ∨
      (['\\', '\n'].isPrefixOf ('-' :: rest) = true))) :
    ∃ t, gettoken_loop SYMBOLSIZE qparse (n + 1)
        { s with chars := '-' :: rest, pushed := false } = Res.ok tok t ∧
      Unread t (('-' :: rest).drop text.length) ∧
      t = { s with chars := t.chars, lastch := t.lastch, pushed := t.pushed } := by
  rw [gettoken_loop]
  simp only [run_bind, nextchar, run_get, ha, Bool.false_eq_true, false_and, if_false,
    Option.some.injEq, Char.reduceEq, or_self, reduceCtorEq, gettoken_two, gettoken_eq,
    gettoken_three]
  cases rest with
  | nil =>
    simp [longest_operator, operators, longer, List.isPrefixOf] at hop
    obtain ⟨rfl, rfl⟩ := hop
    simp [run_bind, nextchar, reread, run_modify, run_pure, run_get, Unread, gettoken_eq, gettoken_two, gettoken_three]
  | cons c2 rest2 =>
    by_cases h20 : c2 = '-'
    · subst h20
      simp [longest_operator, operators, longer, List.isPrefixOf] at hop
      obtain ⟨rfl, rfl⟩ := hop
      simp [run_bind, nextchar, reread, run_modify, run_pure, run_get, Unread, gettoken_eq, gettoken_two, gettoken_three]
    have h20s : ¬ '-' = c2 := fun h => h20 h.symm
    by_cases h21 : c2 = '='
    · subst h21
      simp [longest_operator, operators, longer, List.isPrefixOf, h20, h20s] at hop
      obtain ⟨rfl, rfl⟩ := hop
      simp [run_bind, nextchar, reread, run_modify, run_pure, run_get, Unread, gettoken_eq, gettoken_two, gettoken_three, h20, h20s]
    have h21s : ¬ '=' = c2 := fun h => h21 h.symm
    by_cases h22 : c2 = '>'
    · subst h22
      simp [longest_operator, operators, longer, List.isPrefixOf, h20, h20s, h21, h21s] at hop
      obtain ⟨rfl, rfl⟩ := hop
      simp [run_bind, nextchar, reread, run_modify, run_pure, run_get, Unread, gettoken_eq, gettoken_two, gettoken_three, h20, h20s, h21, h21s]
    have h22s : ¬ '>' = c2 := fun h => h22 h.symm
    simp [longest_operator, operators, longer, List.isPrefixOf, h20, h20s, h21, h21s, h22, h22s] at hop
    obtain ⟨rfl, rfl⟩ := hop
    simp [run_bind, nextchar, reread, run_modify, run_pure, run_get, Unread, gettoken_eq, gettoken_two, gettoken_three, h20, h20s, h21, h21s, h22, h22s]

theorem gettoken_loop_star (SYMBOLSIZE : Nat) (qparse : List Char → Int) (n : Nat)
    (s : State) (rest text : List Char) (tok : TokenType) (ha : s.allsyms = false)
    (hop : longest_operator ('*' :: rest) = some (text, tok))
    (hx : ¬ ((['/', '*'].isPrefixOf ('*' :: rest) = true) ∨
      (['\\', '\n'].isPrefixOf ('*' :: rest) = true))) :
    ∃ t, gettoken_loop SYMBOLSIZE qparse (n + 1)
        { s with chars := '*' :: rest, pushed := false } = Res.ok tok t ∧
      Unread t (('*' :: rest).drop text.length) ∧
      t = { s with chars := t.chars, lastch := t.lastch, pushed := t.pushed } := by
  rw [gettoken_loop]
  simp only [run_bind, nextchar, run_get, ha, Bool.false_eq_true, false_and, if_false,
    Option.some.injEq, Char.reduceEq, or_self, reduceCtorEq, gettoken_two, gettoken_eq,
    gettoken_three]
  cases rest with
  | nil =>
    simp [longest_operator, operators, longer, List.isPrefixOf] at hop
    obtain ⟨rfl, rfl⟩ := hop
    simp [run_bind, nextchar, reread, run_modify, run_pure, run_get, Unread, gettoken_eq, gettoken_two, gettoken_three]
  | cons c2 rest2 =>
    by_cases h20 : c2 = '='
    · subst h20
      simp [longest_operator, operators, longer, List.isPrefixOf] at hop
      obtain ⟨rfl, rfl⟩ := hop
      simp [run_bind, nextchar, reread, run_modify, run_pure, run_get, Unread, gettoken_eq, gettoken_two, gettoken_three]
    have h20s : ¬ '=' = c2 := fun h => h20 h.symm
    by_cases h21 : c2 = '*'
    · subst h21
      cases rest2 with
      | nil =>
        simp [longest_operator, operators, longer, List.isPrefixOf, h20, h20s] at hop
        obtain ⟨rfl, rfl⟩ := hop
        simp [run_bind, nextchar, reread, run_modify, run_pure, run_get, Unread, gettoken_eq, gettoken_two, gettoken_three, h20, h20s]
      | cons c3 rest3 =>
        by_cases h30 : c3 = '='
        · subst h30
          simp [longest_operator, operators, longer, List.isPrefixOf, h20, h20s] at hop
          obtain ⟨rfl, rfl⟩ := hop
          simp [run_bind, nextchar, reread, run_modify, run_pure, run_get, Unread, gettoken_eq, gettoken_two, gettoken_three, h20, h20s]
        have h30s : ¬ '=' = c3 := fun h => h30 h.symm
        simp [longest_operator, operators, longer, List.isPrefixOf, h20, h20s, h30, h30s] at hop
        obtain ⟨rfl, rfl⟩ := hop
        simp [run_bind, nextchar, reread, run_modify, run_pure, run_get, Unread, gettoken_eq, gettoken_two, gettoken_three, h20, h20s, h30, h30s]
    have h21s : ¬ '*' = c2 := fun h => h21 h.symm
    simp [longest_operator, operators, longer, List.isPrefixOf, h20, h20s, h21, h21s] at hop
    obtain ⟨rfl, rfl⟩ := hop
    simp [run_bind, nextchar, reread, run_modify, run_pure, run_get, Unread, gettoken_eq, gettoken_two, gettoken_three, h20, h20s, h21, h21s]

theorem gettoken_loop_slash (SYMBOLSIZE : Nat) (qparse : List Char → Int) (n : Nat)
    (s : State) (rest text : List Char) (tok : TokenType) (ha : s.allsyms = false)
    (hop : longest_operator ('/' :: rest) = some (text, tok))
    (hx : ¬ ((['/', '*'].isPrefixOf ('/' :: rest) = true) ∨
      (['\\', '\n'].isPrefixOf ('/' :: rest) = true))) :
    ∃ t, gettoken_loop SYMBOLSIZE qparse (n + 1)
        { s with chars := '/' :: rest, pushed := false } = Res.ok tok t ∧
      Unread t (('/' :: rest).drop text.length) ∧
      t = { s with chars := t.chars, lastch := t.lastch, pushed := t.pushed } := by
  rw [gettoken_loop]
  simp only [run_bind, nextchar, run_get, ha, Bool.false_eq_true, false_and, if_false,
    Option.some.injEq, Char.reduceEq, or_self, reduceCtorEq, gettoken_two, gettoken_eq,
    gettoken_three]
  cases rest with
  | nil =>
    simp [longest_operator, operators, longer, List.isPrefixOf] at hop
    obtain ⟨rfl, rfl⟩ := hop
    simp [run_bind, nextchar, reread, run_modify, run_pure, run_get, Unread, gettoken_eq, gettoken_two, gettoken_three]
  | cons c2 rest2 =>
    by_cases h20 : c2 = '/'
    · subst h20
      cases rest2 with
      | nil =>
        simp [longest_operator, operators, longer, List.isPrefixOf] at hop
        obtain ⟨rfl, rfl⟩ := hop
        simp [run_bind, nextchar, reread, run_modify, run_pure, run_get, Unread, gettoken_eq, gettoken_two, gettoken_three]
      | cons c3 rest3 =>
        by_cases h30 : c3 = '='
        · subst h30
          simp [longest_operator, operators, longer, List.isPrefixOf] at hop
          obtain ⟨rfl, rfl⟩ := hop
          simp [run_bind, nextchar, reread, run_modify, run_pure, run_get, Unread, gettoken_eq, gettoken_two, gettoken_three]
        have h30s : ¬ '=' = c3 := fun h => h30 h.symm
        simp [longest_operator, operators, longer, List.isPrefixOf, h30, h30s] at hop
        obtain ⟨rfl, rfl⟩ := hop
        simp [run_bind, nextchar, reread, run_modify, run_pure, run_get, Unread, gettoken_eq, gettoken_two, gettoken_three, h30, h30s]
    have h20s : ¬ '/' = c2 := fun h => h20 h.symm
    by_cases h21 : c2 = '='
    · subst h21
      simp [longest_operator, operators, longer, List.isPrefixOf, h20, h20s] at hop
      obtain ⟨rfl, rfl⟩ := hop
      simp [run_bind, nextchar, reread, run_modify, run_pure, run_get, Unread, gettoken_eq, gettoken_two, gettoken_three, h20, h20s]
    have h21s : ¬ '=' = c2 := fun h => h21 h.symm
    by_cases h22 : c2 = '*'
    · subst h22
      exact absurd (by simp [List.isPrefixOf]) hx
    have h22s : ¬ '*' = c2 := fun h => h22 h.symm
    simp [longest_operator, operators, longer, List.isPrefixOf, h20, h20s, h21, h21s, h22, h22s] at hop
    obtain ⟨rfl, rfl⟩ := hop
    simp [run_bind, nextchar, reread, run_modify, run_pure, run_get, Unread, gettoken_eq, gettoken_two, gettoken_three, h20, h20s, h21, h21s, h22, h22s]

theorem gettoken_loop_percent (SYMBOLSIZE : Nat) (qparse : List Char → Int) (n : Nat)
    (s : State) (rest text : List Char) (tok : TokenType) (ha : s.allsyms = false)
    (hop : longest_operator ('%' :: rest) = some (text, tok))
    (hx : ¬ ((['/', '*'].isPrefixOf ('%' :: rest) = true) ∨
      (['\\', '\n'].isPrefixOf ('%' :: rest) = true))) :
    ∃ t, gettoken_loop SYMBOLSIZE qparse (n + 1)
        { s with chars := '%' :: rest, pushed := false } = Res.ok tok t ∧
      Unread t (('%' :: rest).drop text.length) ∧
      t = { s with chars := t.chars, lastch := t.lastch, pushed := t.pushed } := by
  rw [gettoken_loop]
  simp only [run_bind, nextchar, run_get, ha, Bool.false_eq_true, false_and, if_false,
    Option.some.injEq, Char.reduceEq, or_self, reduceCtorEq, gettoken_two, gettoken_eq,
    gettoken_three]
  cases rest with
  | nil =>
    simp [longest_operator, operators, longer, List.isPrefixOf] at hop
    obtain ⟨rfl, rfl⟩ := hop
    simp [run_bind, nextchar, reread, run_modify, run_pure, run_get, Unread, gettoken_eq, gettoken_two, gettoken_three]
  | cons c2 rest2 =>
    by_cases h20 : c2 = '='
    · subst h20
      simp [longest_operator, operators, longer, List.isPrefixOf] at hop
      obtain ⟨rfl, rfl⟩ := hop
      simp [run_bind, nextchar, reread, run_modify, run_pure, run_get, Unread, gettoken_eq, gettoken_two, gettoken_three]
    have h20s : ¬ '=' = c2 := fun h => h20 h.symm
    simp [longest_operator, operators, longer, List.isPrefixOf, h20, h20s] at hop
    obtain ⟨rfl, rfl⟩ := hop
    simp [run_bind, nextchar, reread, run_modify, run_pure, run_get, Unread, gettoken_eq, gettoken_two, gettoken_three, h20, h20s]

theorem gettoken_loop_less (SYMBOLSIZE : Nat) (qparse : List Char → Int) (n : Nat)
    (s : State) (rest text : List Char) (tok : TokenType) (ha : s.allsyms = false)
    (hop : longest_operator ('<' :: rest) = some (text, tok))
    (hx : ¬ ((['/', '*'].isPrefixOf ('<' :: rest) = true) ∨
      (['\\', '\n'].isPrefixOf ('<' :: rest) = true))) :
    ∃ t, gettoken_loop SYMBOLSIZE qparse (n + 1)
        { s with chars := '<' :: rest, pushed := false } = Res.ok tok t ∧
      Unread t (('<' :: rest).drop text.length) ∧
      t = { s with chars := t.chars, lastch := t.lastch, pushed := t.pushed } := by
  rw [gettoken_loop]
  simp only [run_bind, nextchar, run_get, ha, Bool.false_eq_true, false_and, if_false,
    Option.some.injEq, Char.reduceEq, or_self, reduceCtorEq, gettoken_two, gettoken_eq,
    gettoken_three]
  cases rest with
  | nil =>
    simp [longest_operator, operators, longer, List.isPrefixOf] at hop
    obtain ⟨rfl, rfl⟩ := hop
    simp [run_bind, nextchar, reread, run_modify, run_pure, run_get, Unread, gettoken_eq, gettoken_two, gettoken_three]
  | cons c2 rest2 =>
    by_cases h20 : c2 = '='
    · subst h20
      simp [longest_operator, operators, longer, List.isPrefixOf] at hop
      obtain ⟨rfl, rfl⟩ := hop
      simp [run_bind, nextchar, reread, run_modify, run_pure, run_get, Unread, gettoken_eq, gettoken_two, gettoken_three]
    have h20s : ¬ '=' = c2 := fun h => h20 h.symm
    by_cases h21 : c2 = '<'
    · subst h21
      cases rest2 with
      | nil =>
        simp [longest_operator, operators, longer, List.isPrefixOf, h20, h20s] at hop
        obtain ⟨rfl, rfl⟩ := hop
        simp [run_bind, nextchar, reread, run_modify, run_pure, run_get, Unread, gettoken_eq, gettoken_two, gettoken_three, h20, h20s]
      | cons c3 rest3 =>
        by_cases h30 : c3 = '='
        · subst h30
          simp [longest_operator, operators, longer, List.isPrefixOf, h20, h20s] at hop
          obtain ⟨rfl, rfl⟩ := hop
          simp [run_bind, nextchar, reread, run_modify, run_pure, run_get, Unread, gettoken_eq, gettoken_two, gettoken_three, h20, h20s]
        have h30s : ¬ '=' = c3 := fun h => h30 h.symm
        simp [longest_operator, operators, longer, List.isPrefixOf, h20, h20s, h30, h30s] at hop
        obtain ⟨rfl, rfl⟩ := hop
        simp [run_bind, nextchar, reread, run_modify, run_pure, run_get, Unread, gettoken_eq, gettoken_two, gettoken_three, h20, h20s, h30, h30s]
    have h21s : ¬ '<' = c2 := fun h => h21 h.symm
    simp [longest_operator, operators, longer, List.isPrefixOf, h20, h20s, h21, h21s] at hop
    obtain ⟨rfl, rfl⟩ := hop
    simp [run_bind, nextchar, reread, run_modify, run_pure, run_get, Unread, gettoken_eq, gettoken_two, gettoken_three, h20, h20s, h21, h21s]

theorem gettoken_loop_greater (SYMBOLSIZE : Nat) (qparse : List Char → Int) (n : Nat)
    (s : State) (rest text : List Char) (tok : TokenType) (ha : s.allsyms = false)
    (hop : longest_operator ('>' :: rest) = some (text, tok))
    (hx : ¬ ((['/', '*'].isPrefixOf ('>' :: rest) = true) ∨
      (['\\', '\n'].isPrefixOf ('>' :: rest) = true))) :
    ∃ t, gettoken_loop SYMBOLSIZE qparse (n + 1)
        { s with chars := '>' :: rest, pushed := false } = Res.ok tok t ∧
      Unread t (('>' :: rest).drop text.length) ∧
      t = { s with chars := t.chars, lastch := t.lastch, pushed := t.pushed } := by
  rw [gettoken_loop]
  simp only [run_bind, nextchar, run_get, ha, Bool.false_eq_true, false_and, if_false,
    Option.some.injEq, Char.reduceEq, or_self, reduceCtorEq, gettoken_two, gettoken_eq,
    gettoken_three]
  cases rest with
  | nil =>
    simp [longest_operator, operators, longer, List.isPrefixOf] at hop
    obtain ⟨rfl, rfl⟩ := hop
    simp [run_bind, nextchar, reread, run_modify, run_pure, run_get, Unread, gettoken_eq, gettoken_two, gettoken_three]
  | cons c2 rest2 =>
    by_cases h20 : c2 = '='
    · subst h20
      simp [longest_operator, operators, longer, List.isPrefixOf] at hop
      obtain ⟨rfl, rfl⟩ := hop
      simp [run_bind, nextchar, reread, run_modify, run_pure, run_get, Unread, gettoken_eq, gettoken_two, gettoken_three]
    have h20s : ¬ '=' = c2 := fun h => h20 h.symm
    by_cases h21 : c2 = '>'
    · subst h21
      cases rest2 with
      | nil =>
        simp [longest_operator, operators, longer, List.isPrefixOf, h20, h20s] at hop
        obtain ⟨rfl, rfl⟩ := hop
        simp [run_bind, nextchar, reread, run_modify, run_pure, run_get, Unread, gettoken_eq, gettoken_two, gettoken_three, h20, h20s]
      | cons c3 rest3 =>
        by_cases h30 : c3 = '='
        · subst h30
          simp [longest_operator, operators, longer, List.isPrefixOf, h20, h20s] at hop
          obtain ⟨rfl, rfl⟩ := hop
          simp [run_bind, nextchar, reread, run_modify, run_pure, run_get, Unread, gettoken_eq, gettoken_two, gettoken_three, h20, h20s]
        have h30s : ¬ '=' = c3 := fun h => h30 h.symm
        simp [longest_operator, operators, longer, List.isPrefixOf, h20, h20s, h30, h30s] at hop
        obtain ⟨rfl, rfl⟩ := hop
        simp [run_bind, nextchar, reread, run_modify, run_pure, run_get, Unread, gettoken_eq, gettoken_two, gettoken_three, h20, h20s, h30, h30s]
    have h21s : ¬ '>' = c2 := fun h => h21 h.symm
    simp [longest_operator, operators, longer, List.isPrefixOf, h20, h20s, h21, h21s] at hop
    obtain ⟨rfl, rfl⟩ := hop
    simp [run_bind, nextchar, reread, run_modify, run_pure, run_get, Unread, gettoken_eq, gettoken_two, gettoken_three, h20, h20s, h21, h21s]

theorem gettoken_loop_ampersand (SYMBOLSIZE : Nat) (qparse : List Char → Int) (n : Nat)
    (s : State) (rest text : List Char) (tok : TokenType) (ha : s.allsyms = false)
    (hop : longest_operator ('&' :: rest) = some (text, tok))
    (hx : ¬ ((['/', '*'].isPrefixOf ('&' :: rest) = true) ∨
      (['\\', '\n'].isPrefixOf ('&' :: rest) = true))) :
    ∃ t, gettoken_loop SYMBOLSIZE qparse (n + 1)
        { s with chars := '&' :: rest, pushed := false } = Res.ok tok t ∧
      Unread t (('&' :: rest).drop text.length) ∧
      t = { s with chars := t.chars, lastch := t.lastch, pushed := t.pushed } := by
  rw [gettoken_loop]
  simp only [run_bind, nextchar, run_get, ha, Bool.false_eq_true, false_and, if_false,
    Option.some.injEq, Char.reduceEq, or_self, reduceCtorEq, gettoken_two, gettoken_eq,
    gettoken_three]
  cases rest with
  | nil =>
    simp [longest_operator, operators, longer, List.isPrefixOf] at hop
    obtain ⟨rfl, rfl⟩ := hop
    simp [run_bind, nextchar, reread, run_modify, run_pure, run_get, Unread, gettoken_eq, gettoken_two, gettoken_three]
  | cons c2 rest2 =>
    by_cases h20 : c2 = '&'
    · subst h20
      simp [longest_operator, operators, longer, List.isPrefixOf] at hop
      obtain ⟨rfl, rfl⟩ := hop
      simp [run_bind, nextchar, reread, run_modify, run_pure, run_get, Unread, gettoken_eq, gettoken_two, gettoken_three]
    have h20s : ¬ '&' = c2 := fun h => h20 h.symm
    by_cases h21 : c2 = '='
    · subst h21
      simp [longest_operator, operators, longer, List.isPrefixOf, h20, h20s] at hop
      obtain ⟨rfl, rfl⟩ := hop
      simp [run_bind, nextchar, reread, run_modify, run_pure, run_get, Unread, gettoken_eq, gettoken_two, gettoken_three, h20, h20s]
    have h21s : ¬ '=' = c2 := fun h => h21 h.symm
    simp [longest_operator, operators, longer, List.isPrefixOf, h20, h20s, h21, h21s] at hop
    obtain ⟨rfl, rfl⟩ := hop
    simp [run_bind, nextchar, reread, run_modify, run_pure, run_get, Unread, gettoken_eq, gettoken_two, gettoken_three, h20, h20s, h21, h21s]

theorem gettoken_loop_bar (SYMBOLSIZE : Nat) (qparse : List Char → Int) (n : Nat)
    (s : State) (rest text : List Char) (tok : TokenType) (ha : s.allsyms = false)
    (hop : longest_operator ('|' :: rest) = some (text, tok))
    (hx : ¬ ((['/', '*'].isPrefixOf ('|' :: rest) = true) ∨
      (['\\', '\n'].isPrefixOf ('|' :: rest) = true))) :
    ∃ t, gettoken_loop SYMBOLSIZE qparse (n + 1)
        { s with chars := '|' :: rest, pushed := false } = Res.ok tok t ∧
      Unread t (('|' :: rest).drop text.length) ∧
      t = { s with chars := t.chars, lastch := t.lastch, pushed := t.pushed } := by
  rw [gettoken_loop]
  simp only [run_bind, nextchar, run_get, ha, Bool.false_eq_true, false_and, if_false,
    Option.some.injEq, Char.reduceEq, or_self, reduceCtorEq, gettoken_two, gettoken_eq,
    gettoken_three]
  cases rest with
  | nil =>
    simp [longest_operator, operators, longer, List.isPrefixOf] at hop
    obtain ⟨rfl, rfl⟩ := hop
    simp [run_bind, nextchar, reread, run_modify, run_pure, run_get, Unread, gettoken_eq, gettoken_two, gettoken_three]
  | cons c2 rest2 =>
    by_cases h20 : c2 = '|'
    · subst h20
      simp [longest_operator, operators, longer, List.isPrefixOf] at hop
      obtain ⟨rfl, rfl⟩ := hop
      simp [run_bind, nextchar, reread, run_modify, run_pure, run_get, Unread, gettoken_eq, gettoken_two, gettoken_three]
    have h20s : ¬ '|' = c2 := fun h => h20 h.symm
    by_cases h21 : c2 = '='
    · subst h21
      simp [longest_operator, operators, longer, List.isPrefixOf, h20, h20s] at hop
      obtain ⟨rfl, rfl⟩ := hop
      simp [run_bind, nextchar, reread, run_modify, run_pure, run_get, Unread, gettoken_eq, gettoken_two, gettoken_three, h20, h20s]
    have h21s : ¬ '=' = c2 := fun h => h21 h.symm
    simp [longest_operator, operators, longer, List.isPrefixOf, h20, h20s, h21, h21s] at hop
    obtain ⟨rfl, rfl⟩ := hop
    simp [run_bind, nextchar, reread, run_modify, run_pure, run_get, Unread, gettoken_eq, gettoken_two, gettoken_three, h20, h20s, h21, h21s]

theorem gettoken_loop_bang (SYMBOLSIZE : Nat) (qparse : List Char → Int) (n : Nat)
    (s : State) (rest text : List Char) (tok : TokenType) (ha : s.allsyms = false)
    (hop : longest_operator ('!' :: rest) = some (text, tok))
    (hx : ¬ ((['/', '*'].isPrefixOf ('!' :: rest) = true) ∨
      (['\\', '\n'].isPrefixOf ('!' :: rest) = true))) :
    ∃ t, gettoken_loop SYMBOLSIZE qparse (n + 1)
        { s with chars := '!' :: rest, pushed := false } = Res.ok tok t ∧
      Unread t (('!' :: rest).drop text.length) ∧
      t = { s with chars := t.chars, lastch := t.lastch, pushed := t.pushed } := by
  rw [gettoken_loop]
  simp only [run_bind, nextchar, run_get, ha, Bool.false_eq_true, false_and, if_false,
    Option.some.injEq, Char.reduceEq, or_self, reduceCtorEq, gettoken_two, gettoken_eq,
    gettoken_three]
  cases rest with
  | nil =>
    simp [longest_operator, operators, longer, List.isPrefixOf] at hop
    obtain ⟨rfl, rfl⟩ := hop
    simp [run_bind, nextchar, reread, run_modify, run_pure, run_get, Unread, gettoken_eq, gettoken_two, gettoken_three]
  | cons c2 rest2 =>
    by_cases h20 : c2 = '='
    · subst h20
      simp [longest_operator, operators, longer, List.isPrefixOf] at hop
      obtain ⟨rfl, rfl⟩ := hop
      simp [run_bind, nextchar, reread, run_modify, run_pure, run_get, Unread, gettoken_eq, gettoken_two, gettoken_three]
    have h20s : ¬ '=' = c2 := fun h => h20 h.symm
    simp [longest_operator, operators, longer, List.isPrefixOf, h20, h20s] at hop
    obtain ⟨rfl, rfl⟩ := hop
    simp [run_bind, nextchar, reread, run_modify, run_pure, run_get, Unread, gettoken_eq, gettoken_two, gettoken_three, h20, h20s]

theorem gettoken_loop_hash (SYMBOLSIZE : Nat) (qparse : List Char → Int) (n : Nat)
    (s : State) (rest text : List Char) (tok : TokenType) (ha : s.allsyms = false)
    (hop : longest_operator ('#' :: rest) = some (text, tok))
    (hx : ¬ ((['/', '*'].isPrefixOf ('#' :: rest) = true) ∨
      (['\\', '\n'].isPrefixOf ('#' :: rest) = true))) :
    ∃ t, gettoken_loop SYMBOLSIZE qparse (n + 1)
        { s with chars := '#' :: rest, pushed := false } = Res.ok tok t ∧
      Unread t (('#' :: rest).drop text.length) ∧
      t = { s with chars := t.chars, lastch := t.lastch, pushed := t.pushed } := by
  rw [gettoken_loop]
  simp only [run_bind, nextchar, run_get, ha, Bool.false_eq_true, false_and, if_false,
    Option.some.injEq, Char.reduceEq, or_self, reduceCtorEq, gettoken_two, gettoken_eq,
    gettoken_three]
  cases rest with
  | nil =>
    simp [longest_operator, operators, longer, List.isPrefixOf] at hop
    obtain ⟨rfl, rfl⟩ := hop
    simp [run_bind, nextchar, reread, run_modify, run_pure, run_get, Unread, gettoken_eq, gettoken_two, gettoken_three]
  | cons c2 rest2 =>
    by_cases h20 : c2 = '='
    · subst h20
      simp [longest_operator, operators, longer, List.isPrefixOf] at hop
      obtain ⟨rfl, rfl⟩ := hop
      simp [run_bind, nextchar, reread, run_modify, run_pure, run_get, Unread, gettoken_eq, gettoken_two, gettoken_three]
    have h20s : ¬ '=' = c2 := fun h => h20 h.symm
    simp [longest_operator, operators, longer, List.isPrefixOf, h20, h20s] at hop
    obtain ⟨rfl, rfl⟩ := hop
    simp [run_bind, nextchar, reread, run_modify, run_pure, run_get, Unread, gettoken_eq, gettoken_two, gettoken_three, h20, h20s]

theorem gettoken_loop_tilde (SYMBOLSIZE : Nat) (qparse : List Char → Int) (n : Nat)
    (s : State) (rest text : List Char) (tok : TokenType) (ha : s.allsyms = false)
    (hop : longest_operator ('~' :: rest) = some (text, tok))
    (hx : ¬ ((['/', '*'].isPrefixOf ('~' :: rest) = true) ∨
      (['\\', '\n'].isPrefixOf ('~' :: rest) = true))) :
    ∃ t, gettoken_loop SYMBOLSIZE qparse (n + 1)
        { s with chars := '~' :: rest, pushed := false } = Res.ok tok t ∧
      Unread t (('~' :: rest).drop text.length) ∧
      t = { s with chars := t.chars, lastch := t.lastch, pushed := t.pushed } := by
  rw [gettoken_loop]
  simp only [run_bind, nextchar, run_get, ha, Bool.false_eq_true, false_and, if_false,
    Option.some.injEq, Char.reduceEq, or_self, reduceCtorEq, gettoken_two, gettoken_eq,
    gettoken_three]
  cases rest with
  | nil =>
    simp [longest_operator, operators, longer, List.isPrefixOf] at hop
    obtain ⟨rfl, rfl⟩ := hop
    simp [run_bind, nextchar, reread, run_modify, run_pure, run_get, Unread, gettoken_eq, gettoken_two, gettoken_three]
  | cons c2 rest2 =>
    by_cases h20 : c2 = '='
    · subst h20
      simp [longest_operator, operators, longer, List.isPrefixOf] at hop
      obtain ⟨rfl, rfl⟩ := hop
      simp [run_bind, nextchar, reread, run_modify, run_pure, run_get, Unread, gettoken_eq, gettoken_two, gettoken_three]
    have h20s : ¬ '=' = c2 := fun h => h20 h.symm
    simp [longest_operator, operators, longer, List.isPrefixOf, h20, h20s] at hop
    obtain ⟨rfl, rfl⟩ := hop
    simp [run_bind, nextchar, reread, run_modify, run_pure, run_get, Unread, gettoken_eq, gettoken_two, gettoken_three, h20, h20s]

theorem gettoken_loop_backslash (SYMBOLSIZE : Nat) (qparse : List Char → Int) (n : Nat)
    (s : State) (rest text : List Char) (tok : TokenType) (ha : s.allsyms = false)
    (hop : longest_operator ('\\' :: rest) = some (text, tok))
    (hx : ¬ ((['/', '*'].isPrefixOf ('\\' :: rest) = true) ∨
      (['\\', '\n'].isPrefixOf ('\\' :: rest) = true))) :
    ∃ t, gettoken_loop SYMBOLSIZE qparse (n + 1)
        { s with chars := '\\' :: rest, pushed := false } = Res.ok tok t ∧
      Unread t (('\\' :: rest).drop text.length) ∧
      t = { s with chars := t.chars, lastch := t.lastch, pushed := t.pushed } := by
  rw [gettoken_loop]
  simp only [run_bind, nextchar, run_get, ha, Bool.false_eq_true, false_and, if_false,
    Option.some.injEq, Char.reduceEq, or_self, reduceCtorEq, gettoken_two, gettoken_eq,
    gettoken_three]
  cases rest with
  | nil =>
    simp [longest_operator, operators, longer, List.isPrefixOf] at hop
    obtain ⟨rfl, rfl⟩ := hop
    simp [run_bind, nextchar, reread, run_modify, run_pure, run_get, Unread, gettoken_eq, gettoken_two, gettoken_three]
  | cons c2 rest2 =>
    by_cases h20 : c2 = '\n'
    · subst h20
      exact absurd (by simp [List.isPrefixOf]) hx
    have h20s : ¬ '\n' = c2 := fun h => h20 h.symm
    by_cases h21 : c2 = '='
    · subst h21
      simp [longest_operator, operators, longer, List.isPrefixOf, h20, h20s] at hop
      obtain ⟨rfl, rfl⟩ := hop
      simp [run_bind, nextchar, reread, run_modify, run_pure, run_get, Unread, gettoken_eq, gettoken_two, gettoken_three, h20, h20s]
    have h21s : ¬ '=' = c2 := fun h => h21 h.symm
    simp [longest_operator, operators, longer, List.isPrefixOf, h20, h20s, h21, h21s] at hop
    obtain ⟨rfl, rfl⟩ := hop
    simp [run_bind, nextchar, reread, run_modify, run_pure, run_get, Unread, gettoken_eq, gettoken_two, gettoken_three, h20, h20s, h21, h21s]

end Lexer

namespace Lexer

/-- The scanning loop, where the unread input starts with an operator. -/
theorem gettoken_loop_operator (SYMBOLSIZE : Nat) (qparse : List Char → Int) (n : Nat)
    (s : State) (input text : List Char) (tok : TokenType) (ha : s.allsyms = false)
    (hop : longest_operator input = some (text, tok))
    (hx : ¬ ((['/', '*'].isPrefixOf input = true) ∨ (['\\', '\n'].isPrefixOf input = true))) :
    ∃ t, gettoken_loop SYMBOLSIZE qparse (n + 1)
        { s with chars := input, pushed := false } = Res.ok tok t ∧
      Unread t (input.drop text.length) ∧
      t = { s with chars := t.chars, lastch := t.lastch, pushed := t.pushed } := by
  cases input with
  | nil => simp [longest_operator, operators, longer, List.isPrefixOf] at hop
  | cons c rest =>
    by_cases h0 : c = '{'
    · subst h0
      exact gettoken_loop_lbrace SYMBOLSIZE qparse n s rest text tok ha hop hx
    have h0s : ¬ '{' = c := fun h => h0 h.symm
    by_cases h1 : c = '}'
    · subst h1
      exact gettoken_loop_rbrace SYMBOLSIZE qparse n s rest text tok ha hop hx
    have h1s : ¬ '}' = c := fun h => h1 h.symm
    by_cases h2 : c = '('
    · subst h2
      exact gettoken_loop_lparen SYMBOLSIZE qparse n s rest text tok ha hop hx
    have h2s : ¬ '(' = c := fun h => h2 h.symm
    by_cases h3 : c = ')'
    · subst h3
      exact gettoken_loop_rparen SYMBOLSIZE qparse n s rest text tok ha hop hx
    have h3s : ¬ ')' = c := fun h => h3 h.symm
    by_cases h4 : c = '['
    · subst h4
      exact gettoken_loop_lbracket SYMBOLSIZE qparse n s rest text tok ha hop hx
    have h4s : ¬ '[' = c := fun h => h4 h.symm
    by_cases h5 : c = ']'
    · subst h5
      exact gettoken_loop_rbracket SYMBOLSIZE qparse n s rest text tok ha hop hx
    have h5s : ¬ ']' = c := fun h => h5 h.symm
    by_cases h6 : c = ';'
    · subst h6
      exact gettoken_loop_semicolon SYMBOLSIZE qparse n s rest text tok ha hop hx
    have h6s : ¬ ';' = c := fun h => h6 h.symm
    by_cases h7 : c = ':'
    · subst h7
      exact gettoken_loop_colon SYMBOLSIZE qparse n s rest text tok ha hop hx
    have h7s : ¬ ':' = c := fun h => h7 h.symm
    by_cases h8 : c = ','
    · subst h8
      exact gettoken_loop_comma SYMBOLSIZE qparse n s rest text tok ha hop hx
    have h8s : ¬ ',' = c := fun h => h8 h.symm
    by_cases h9 : c = '?'
    · subst h9
      exact gettoken_loop_question SYMBOLSIZE qparse n s rest text tok ha hop hx
    have h9s : ¬ '?' = c := fun h => h9 h.symm
    by_cases h10 : c = '@'
    · subst h10
      exact gettoken_loop_at SYMBOLSIZE qparse n s rest text tok ha hop hx
    have h10s : ¬ '@' = c := fun h => h10 h.symm
    by_cases h11 : c = (Char.ofNat 96)
    · subst h11
      exact gettoken_loop_backquote SYMBOLSIZE qparse n s rest text tok ha hop hx
    have h11s : ¬ (Char.ofNat 96) = c := fun h => h11 h.symm
    by_cases h12 : c = '$'
    · subst h12
      exact gettoken_loop_dollar SYMBOLSIZE qparse n s rest text tok ha hop hx
    have h12s : ¬ '$' = c := fun h => h12 h.symm
    by_cases h13 : c = '^'
    · subst h13
      exact gettoken_loop_caret SYMBOLSIZE qparse n s rest text tok ha hop hx
    have h13s : ¬ '^' = c := fun h => h13 h.symm
    by_cases h14 : c = '='
    · subst h14
      exact gettoken_loop_equals SYMBOLSIZE qparse n s rest text tok ha hop hx
    have h14s : ¬ '=' = c := fun h => h14 h.symm
    by_cases h15 : c = '+'
    · subst h15
      exact gettoken_loop_plus SYMBOLSIZE qparse n s rest text tok ha hop hx
    have h15s : ¬ '+' = c := fun h => h15 h.symm
    by_cases h16 : c = '-'
    · subst h16
      exact gettoken_loop_minus SYMBOLSIZE qparse n s rest text tok ha hop hx
    have h16s : ¬ '-' = c := fun h => h16 h.symm
    by_cases h17 : c = '*'
    · subst h17
      exact gettoken_loop_star SYMBOLSIZE qparse n s rest text tok ha hop hx
    have h17s : ¬ '*' = c := fun h => h17 h.symm
    by_cases h18 : c = '/'
    · subst h18
      exact gettoken_loop_slash SYMBOLSIZE qparse n s rest text tok ha hop hx
    have h18s : ¬ '/' = c := fun h => h18 h.symm
    by_cases h19 : c = '%'
    · subst h19
      exact gettoken_loop_percent SYMBOLSIZE qparse n s rest text tok ha hop hx
    have h19s : ¬ '%' = c := fun h => h19 h.symm
    by_cases h20 : c = '<'
    · subst h20
      exact gettoken_loop_less SYMBOLSIZE qparse n s rest text tok ha hop hx
    have h20s : ¬ '<' = c := fun h => h20 h.symm
    by_cases h21 : c = '>'
    · subst h21
      exact gettoken_loop_greater SYMBOLSIZE qparse n s rest text tok ha hop hx
    have h21s : ¬ '>' = c := fun h => h21 h.symm
    by_cases h22 : c = '&'
    · subst h22
      exact gettoken_loop_ampersand SYMBOLSIZE qparse n s rest text tok ha hop hx
    have h22s : ¬ '&' = c := fun h => h22 h.symm
    by_cases h23 : c = '|'
    · subst h23
      exact gettoken_loop_bar SYMBOLSIZE qparse n s rest text tok ha hop hx
    have h23s : ¬ '|' = c := fun h => h23 h.symm
    by_cases h24 : c = '!'
    · subst h24
      exact gettoken_loop_bang SYMBOLSIZE qparse n s rest text tok ha hop hx
    have h24s : ¬ '!' = c := fun h => h24 h.symm
    by_cases h25 : c = '#'
    · subst h25
      exact gettoken_loop_hash SYMBOLSIZE qparse n s rest text tok ha hop hx
    have h25s : ¬ '#' = c := fun h => h25 h.symm
    by_cases h26 : c = '~'
    · subst h26
      exact gettoken_loop_tilde SYMBOLSIZE qparse n s rest text tok ha hop hx
    have h26s : ¬ '~' = c := fun h => h26 h.symm
    by_cases h27 : c = '\\'
    · subst h27
      exact gettoken_loop_backslash SYMBOLSIZE qparse n s rest text tok ha hop hx
    have h27s : ¬ '\\' = c := fun h => h27 h.symm
    exfalso
    simp [longest_operator, operators, longer, List.isPrefixOf, h0, h0s, h1, h1s, h2, h2s, h3, h3s, h4, h4s, h5, h5s, h6, h6s, h7, h7s, h8, h8s, h9, h9s, h10, h10s, h11, h11s, h12, h12s, h13, h13s, h14, h14s, h15, h15s, h16, h16s, h17, h17s, h18, h18s, h19, h19s, h20, h20s, h21, h21s, h22, h22s, h23, h23s, h24, h24s, h25, h25s, h26, h26s, h27, h27s] at hop

/-- C13: in default mode, when the unread input starts with an operator or a
punctuation mark of the scanner (and not with the opener of a comment or
with a backslash at the end of a line, which are no tokens), `gettoken`
returns the token of the longest prefix of the input that spells an operator,
`//=` being the one token `T_SLASHSLASHEQUALS`, and has consumed exactly that
prefix: what is unread afterwards is the input without it, a character that
was looked at and does not extend the operator being pushed back. -/
theorem gettoken_longest_operator (SYMBOLSIZE : Nat) (qparse : List Char → Int) (n : Nat)
    (s : State) (input text : List Char) (tok : TokenType)
    (hu : Unread s input) (hr : s.rescan = false) (ha : s.allsyms = false)
    (hop : longest_operator input = some (text, tok))
    (hx : ¬ ((['/', '*'].isPrefixOf input = true) ∨ (['\\', '\n'].isPrefixOf input = true))) :
    ∃ t, gettoken SYMBOLSIZE qparse (n + 1) s = Res.ok tok t ∧
      Unread t (input.drop text.length) ∧
      t = { s with chars := t.chars, lastch := t.lastch, pushed := t.pushed,
                   t_type := tok, t_sym := none, t_strindex := 0, t_numindex := 0 } := by
  rw [gettoken_run, if_neg (by simp [hr])]
  have hu2 : Unread { s with t_sym := none, t_strindex := 0, t_numindex := 0 } input := hu
  rw [gettoken_loop_unread SYMBOLSIZE qparse n hu2]
  obtain ⟨t, ht, hut, hst⟩ := gettoken_loop_operator SYMBOLSIZE qparse n
    { s with t_sym := none, t_strindex := 0, t_numindex := 0 } input text tok ha hop hx
  simp only at ht
  rw [ht]
  refine ⟨_, rfl, hut, ?_⟩
  simp only
  rw [hst]

end Lexer

namespace Lexer

/-- C13, at the inputs `//= 3`, `**=x`, `<<=1`, `>>=1` and `<<3`: the three
characters of `//=`, `**=`, `<<=` and `>>=` are one token, and in `<<3` the `3`
that was looked at is pushed back. -/
theorem gettoken_longest_operator_witness :
    longest_operator ['/', '/', '=', ' ', '3'] = some (['/', '/', '='], T_SLASHSLASHEQUALS) ∧
    (∃ t, gettoken 256 qparse_decimal (0 + 1) { chars := ['/', '/', '=', ' ', '3'] } =
        Res.ok T_SLASHSLASHEQUALS t ∧
      Unread t (['/', '/', '=', ' ', '3'].drop ['/', '/', '='].length) ∧
      t = { ({ chars := ['/', '/', '=', ' ', '3'] } : State) with
            chars := t.chars, lastch := t.lastch, pushed := t.pushed,
            t_type := T_SLASHSLASHEQUALS, t_sym := none, t_strindex := 0, t_numindex := 0 }) ∧
    gettoken 256 qparse_decimal 1 { chars := ['*', '*', '=', 'x'] } =
      Res.ok T_POWEREQUALS { chars := ['x'], lastch := some '=', t_type := T_POWEREQUALS } ∧
    gettoken 256 qparse_decimal 1 { chars := ['<', '<', '=', '1'] } =
      Res.ok T_LSHIFTEQUALS { chars := ['1'], lastch := some '=', t_type := T_LSHIFTEQUALS } ∧
    gettoken 256 qparse_decimal 1 { chars := ['>', '>', '=', '1'] } =
      Res.ok T_RSHIFTEQUALS { chars := ['1'], lastch := some '=', t_type := T_RSHIFTEQUALS } ∧
    gettoken 256 qparse_decimal 1 { chars := ['<', '<', '3'] } =
      Res.ok T_LEFTSHIFT
        { chars := [], lastch := some '3', pushed := true, t_type := T_LEFTSHIFT } :=
  ⟨by decide,
    gettoken_longest_operator 256 qparse_decimal 0 { chars := ['/', '/', '=', ' ', '3'] }
      ['/', '/', '=', ' ', '3'] ['/', '/', '='] T_SLASHSLASHEQUALS
      (by simp [Unread]) rfl rfl (by decide) (by decide),
    by decide!, by decide!, by decide!, by decide!⟩

end Lexer

namespace Lexer

theorem unread_canon (s : State) (input : List Char) (l : Option Char) :
    Unread { s with chars := input, lastch := l, pushed := false } input := by
  simp [Unread]

/-- The loop of `eatsymbol` over a run of characters that do not stop it, up to
the character that does, which is read too: the characters of the run are
kept while there is room. -/
theorem eatsymbol_loop_run (stop : Option Char → Bool) :
    ∀ (run : List Char) (n : Nat) (buf : List Char) (cc : Int) (s : State) (rest : List Char),
      (∀ c ∈ run, stop (some c) = false) → stop rest.head? = true →
      Unread s (run ++ rest) → run.length < n →
      eatsymbol_loop stop n buf cc s =
        Res.ok (buf ++ run.take cc.toNat, cc - run.length)
          { s with chars := rest.tail, lastch := rest.head?, pushed := false } := by
  intro run
  induction run with
  | nil =>
    intro n buf cc s rest _ hstop hu hn
    obtain ⟨m, rfl⟩ : ∃ m, n = m + 1 := ⟨n - 1, by simp at hn; omega⟩
    rw [eatsymbol_loop, run_bind]
    cases rest with
    | nil =>
      rw [nextchar_nil hu]
      simp only [List.head?_nil] at hstop
      simp [hstop, run_pure]
    | cons c r =>
      rw [nextchar_cons hu]
      simp only [List.head?_cons] at hstop
      simp [hstop, run_pure]
  | cons c run ih =>
    intro n buf cc s rest hrun hstop hu hn
    obtain ⟨m, rfl⟩ : ∃ m, n = m + 1 := ⟨n - 1, by simp at hn; omega⟩
    have hc : stop (some c) = false := hrun c (List.mem_cons_self _ _)
    rw [eatsymbol_loop, run_bind, nextchar_cons (by simpa using hu)]
    simp only [hc, Bool.false_eq_true, if_false]
    have hrun' : ∀ d ∈ run, stop (some d) = false :=
      fun d hd => hrun d (List.mem_cons_of_mem _ hd)
    have hlen : run.length < m := by simp at hn; omega
    by_cases hcc : cc > 0
    · rw [if_pos hcc, ih m (buf ++ [tochar (some c)]) (cc - 1) _ rest hrun' hstop
        (unread_canon _ _ _) hlen]
      have e1 : cc.toNat = (cc - 1).toNat + 1 := by omega
      simp only [tochar, e1, List.take_succ_cons, List.append_assoc, List.singleton_append,
        List.length_cons, Nat.cast_add, Nat.cast_one]
      congr 2
      omega
    · rw [if_neg hcc, ih m buf (cc - 1) _ rest hrun' hstop (unread_canon _ _ _) hlen]
      have e1 : cc.toNat = 0 := by omega
      have e2 : (cc - 1).toNat = 0 := by omega
      simp only [e1, e2, List.take_zero, List.append_nil, List.length_cons, Nat.cast_add,
        Nat.cast_one]
      congr 2
      omega

theorem cstring_of_no_nul (l : List Char) (h : ∀ c ∈ l, c ≠ Char.ofNat 0) : cstring l = l := by
  unfold cstring
  rw [List.takeWhile_eq_self_iff]
  intro c hc
  simpa using h c hc

theorem issymbol_ne_nul (c : Char) (h : issymbol (some c) = true) : c ≠ Char.ofNat 0 := by
  rintro rfl
  revert h
  decide

end Lexer

namespace Lexer

theorem unread_pushed (s : State) (rest : List Char) :
    Unread { s with chars := rest.tail, lastch := rest.head?, pushed := true } rest := by
  cases rest <;> simp [Unread]

/-- What `eatsymbol` does in default mode at a run of symbol characters, when the
name is not too long or the ceiling of errors is not reached. -/
theorem eatsymbol_default_run (SYMBOLSIZE n : Nat) (s : State) (run rest : List Char)
    (hmode : s.allsyms = false) (hu : Unread s (run ++ rest))
    (hrun : ∀ c ∈ run, issymbol (some c) = true) (hrest : issymbol rest.head? = false)
    (hfuel : run.length < n)
    (hceiling : run.length ≤ SYMBOLSIZE ∨
      ¬ (s.maxscancount > 0 ∧ s.errorcount + 1 > s.maxscancount)) :
    eatsymbol SYMBOLSIZE n s =
      match keywords.find? (fun kp => kp.1.toList == run.take SYMBOLSIZE) with
      | some kp =>
        Res.ok kp.2
          { s with chars := rest.tail, lastch := rest.head?, pushed := true,
                   errorcount := if run.length ≤ SYMBOLSIZE then s.errorcount
                     else s.errorcount + 1 }
      | none =>
        Res.ok T_SYMBOL
          { s with chars := rest.tail, lastch := rest.head?, pushed := true,
                   errorcount := if run.length ≤ SYMBOLSIZE then s.errorcount
                     else s.errorcount + 1,
                   t_sym := some (run.take SYMBOLSIZE) } := by
  have hloop := eatsymbol_loop_run (fun ch => !issymbol ch) run n [] SYMBOLSIZE s rest
    (by intro c hc; simp [hrun c hc]) (by simp [hrest]) hu hfuel
  have hcs : cstring (run.take SYMBOLSIZE) = run.take SYMBOLSIZE :=
    cstring_of_no_nul _ fun c hc => issymbol_ne_nul c (hrun c (List.mem_of_mem_take hc))
  unfold eatsymbol
  rw [run_bind, run_get]
  simp only [hmode, Bool.false_eq_true, if_false]
  rw [run_bind, hloop]
  simp only [List.nil_append, Int.toNat_ofNat, run_bind, reread, run_modify, hcs]
  by_cases hlen : run.length ≤ SYMBOLSIZE
  · have hcc : ¬ ((SYMBOLSIZE : Int) - (run.length : Int) < 0) := by omega
    simp only [hcc, if_false, hlen, if_true, run_pure]
    cases keywords.find? (fun kp => kp.1.toList == run.take SYMBOLSIZE) <;>
      simp [run_bind, run_pure, run_modify, hmode]
  · have hcc : (SYMBOLSIZE : Int) - (run.length : Int) < 0 := by omega
    have hce : ¬ (s.maxscancount > 0 ∧ s.errorcount + 1 > s.maxscancount) := by
      rcases hceiling with h | h
      · exact absurd h hlen
      · exact h
    simp only [hcc, if_true, hlen, if_false, scanerror_null, hce, run_bind]
    cases keywords.find? (fun kp => kp.1.toList == run.take SYMBOLSIZE) <;>
      simp [run_bind, run_pure, run_modify, hmode]

end Lexer

namespace Lexer

theorem keywords_functional :
    ∀ a ∈ keywords, ∀ b ∈ keywords, a.1 = b.1 → a.2 = b.2 := by decide

theorem keywords_iskeyword : ∀ a ∈ keywords, iskeyword a.2 = true := by decide

/-- C14, amended: in default mode `eatsymbol` reads the maximal run of letters,
digits and underscores and leaves what follows it unread; the text of the
identifier is that run, cut to its first `SYMBOLSIZE` characters, with one
error counted, when it is longer.  The token is a keyword token if and only
if the text is equal to the name of an entry of the table of keywords, and
then it is the token of that entry, the symbol name being untouched;
otherwise it is `T_SYMBOL` and the text is the symbol name. -/
theorem eatsymbol_keyword_iff (SYMBOLSIZE n : Nat) (s : State) (run rest : List Char)
    (hmode : s.allsyms = false) (hu : Unread s (run ++ rest))
    (hrun : ∀ c ∈ run, issymbol (some c) = true) (hrest : issymbol rest.head? = false)
    (hfuel : run.length < n)
    (hceiling : run.length ≤ SYMBOLSIZE ∨
      ¬ (s.maxscancount > 0 ∧ s.errorcount + 1 > s.maxscancount)) :
    ∃ tok t, eatsymbol SYMBOLSIZE n s = Res.ok tok t ∧
      Unread t rest ∧
      t.errorcount = (if run.length ≤ SYMBOLSIZE then s.errorcount else s.errorcount + 1) ∧
      (iskeyword tok = true ↔ ∃ kp ∈ keywords, kp.1.toList = run.take SYMBOLSIZE) ∧
      (∀ name k, (name, k) ∈ keywords → name.toList = run.take SYMBOLSIZE →
        tok = k ∧ t.t_sym = s.t_sym) ∧
      ((∀ kp ∈ keywords, kp.1.toList ≠ run.take SYMBOLSIZE) →
        tok = T_SYMBOL ∧ t.t_sym = some (run.take SYMBOLSIZE)) := by
  rw [eatsymbol_default_run SYMBOLSIZE n s run rest hmode hu hrun hrest hfuel hceiling]
  cases hk : keywords.find? (fun kp => kp.1.toList == run.take SYMBOLSIZE) with
  | some kp =>
    have hmem : kp ∈ keywords := List.mem_of_find?_eq_some hk
    have heq : kp.1.toList = run.take SYMBOLSIZE := by
      have := List.find?_some hk
      simpa using this
    refine ⟨_, _, rfl, (by cases rest <;> simp [Unread]), rfl, ?_, ?_, ?_⟩
    · exact ⟨fun _ => ⟨kp, hmem, heq⟩, fun _ => keywords_iskeyword kp hmem⟩
    · intro name k hnk hname
      refine ⟨?_, rfl⟩
      have h1 : kp.1 = name := String.ext (heq.trans hname.symm)
      exact keywords_functional kp hmem (name, k) hnk h1
    · intro hnone
      exact absurd heq (hnone kp hmem)
  | none =>
    have hnone : ∀ kp ∈ keywords, kp.1.toList ≠ run.take SYMBOLSIZE := by
      intro kp hmem
      have := List.find?_eq_none.mp hk kp hmem
      simpa using this
    refine ⟨_, _, rfl, (by cases rest <;> simp [Unread]), rfl, ?_, ?_, fun _ => ⟨rfl, rfl⟩⟩
    · constructor
      · intro h; exact absurd h (by decide)
      · rintro ⟨kp, hmem, heq⟩; exact absurd heq (hnone kp hmem)
    · intro name k hnk hname
      exact absurd hname (hnone (name, k) hnk)

/-- C14, at the inputs `exit(` and `exits(`: the text `exit` is the name of an
entry of the table, whose token is `T_QUIT`; the text `exits` is none, and is
the name of the symbol. -/
theorem eatsymbol_keyword_iff_witness :
    eatsymbol 256 10 { chars := ['e', 'x', 'i', 't', '('] } =
      Res.ok T_QUIT { chars := [], lastch := some '(', pushed := true } ∧
    eatsymbol 256 10 { chars := ['q', 'u', 'i', 't', '('] } =
      Res.ok T_QUIT { chars := [], lastch := some '(', pushed := true } ∧
    eatsymbol 256 10 { chars := ['e', 'x', 'i', 't', 's', '('] } =
      Res.ok T_SYMBOL
        { chars := [], lastch := some '(', pushed := true,
          t_sym := some ['e', 'x', 'i', 't', 's'] } ∧
    (∃ tok t, eatsymbol 256 10 { chars := ['e', 'x', 'i', 't', '('] } = Res.ok tok t ∧
      (iskeyword tok = true ↔
        ∃ kp ∈ keywords, kp.1.toList = ['e', 'x', 'i', 't'].take 256)) :=
  ⟨by decide!, by decide!, by decide!,
    (eatsymbol_keyword_iff 256 10 { chars := ['e', 'x', 'i', 't', '('] }
      ['e', 'x', 'i', 't'] ['('] rfl (by simp [Unread]) (by decide) (by decide)
      (by decide) (Or.inl (by decide))).imp
      fun _ h => h.imp fun _ h => ⟨h.1, h.2.2.2.1⟩⟩

/-- C14 as it is stated fails for a name of 257 letters when `SYMBOLSIZE` is 256:
the name of the symbol is not the run of the letters but its first 256, and an
error is counted. -/
theorem eatsymbol_truncates_long_names :
    eatsymbol 256 300 { chars := List.replicate 257 'a' ++ [' '] } =
      Res.ok T_SYMBOL
        { chars := [], lastch := some ' ', pushed := true, errorcount := 1,
          t_sym := some (List.replicate 256 'a') } ∧
    some (List.replicate 256 'a') ≠ some (List.replicate 257 'a') :=
  ⟨by decide!, by decide⟩

end Lexer

namespace Lexer

/-- What `eatsymbol` does in filename mode at a run of characters without space,
semicolon and end of line that one of these follows, when the name is not too
long or the ceiling of errors is not reached. -/
theorem eatsymbol_allsyms_run (SYMBOLSIZE n : Nat) (s : State) (run rest : List Char)
    (hmode : s.allsyms = true) (hu : Unread s (run ++ rest))
    (hrun : ∀ c ∈ run, c ≠ ' ' ∧ c ≠ ';' ∧ c ≠ '\n')
    (hrest : rest.head? = some ' ' ∨ rest.head? = some ';' ∨ rest.head? = some '\n')
    (hfuel : run.length < n)
    (hceiling : run.length ≤ SYMBOLSIZE ∨
      ¬ (s.maxscancount > 0 ∧ s.errorcount + 1 > s.maxscancount)) :
    eatsymbol SYMBOLSIZE n s =
      Res.ok T_SYMBOL
        { s with chars := rest.tail, lastch := rest.head?, pushed := true,
                 errorcount := if run.length ≤ SYMBOLSIZE then s.errorcount
                   else s.errorcount + 1,
                 t_sym := some (cstring (run.take SYMBOLSIZE)) } := by
  have hloop := eatsymbol_loop_run
    (fun ch => ch = some ' ' ∨ ch = some ';' ∨ ch = some '\n') run n [] SYMBOLSIZE s rest
    (by
      intro c hc
      obtain ⟨h1, h2, h3⟩ := hrun c hc
      simp [h1, h2, h3])
    (by simpa using hrest) hu hfuel
  unfold eatsymbol
  rw [run_bind, run_get]
  simp only [hmode, if_true]
  rw [run_bind, hloop]
  simp only [List.nil_append, Int.toNat_ofNat, run_bind, reread, run_modify]
  by_cases hlen : run.length ≤ SYMBOLSIZE
  · have hcc : ¬ ((SYMBOLSIZE : Int) - (run.length : Int) < 0) := by omega
    simp [hcc, hlen, run_pure, run_bind, run_modify, hmode]
  · have hcc : (SYMBOLSIZE : Int) - (run.length : Int) < 0 := by omega
    have hce : ¬ (s.maxscancount > 0 ∧ s.errorcount + 1 > s.maxscancount) := by
      rcases hceiling with h | h
      · exact absurd h hlen
      · exact h
    simp [hcc, hlen, scanerror_null, hce, run_bind, run_pure, run_modify, hmode]

/-- C18, amended: in filename mode, when the unread input starts with a character
that is no space, semicolon, double quote or end of line, `gettoken` returns
`T_SYMBOL` without looking at the table of keywords; the text of the symbol is
the run of the characters up to, and without, the first space, semicolon or
end of line (a quote after the first character is part of it), cut to its
first `SYMBOLSIZE` characters, with one error counted, when it is longer; the
character that ends the run is left unread. -/
theorem gettoken_filename (SYMBOLSIZE : Nat) (qparse : List Char → Int) (n : Nat)
    (s : State) (c : Char) (run rest : List Char)
    (hr : s.rescan = false) (hmode : s.allsyms = true) (hu : Unread s (c :: run ++ rest))
    (hstart : c ≠ ' ' ∧ c ≠ ';' ∧ c ≠ '"' ∧ c ≠ '\n')
    (hrun : ∀ d ∈ run, d ≠ ' ' ∧ d ≠ ';' ∧ d ≠ '\n')
    (hrest : rest.head? = some ' ' ∨ rest.head? = some ';' ∨ rest.head? = some '\n')
    (hfuel : run.length + 2 < n)
    (hceiling : run.length + 1 ≤ SYMBOLSIZE ∨
      ¬ (s.maxscancount > 0 ∧ s.errorcount + 1 > s.maxscancount)) :
    ∃ t, gettoken SYMBOLSIZE qparse n s = Res.ok T_SYMBOL t ∧
      t.t_sym = some (cstring ((c :: run).take SYMBOLSIZE)) ∧
      Unread t rest ∧
      t.errorcount =
        (if run.length + 1 ≤ SYMBOLSIZE then s.errorcount else s.errorcount + 1) := by
  obtain ⟨m, rfl⟩ : ∃ m, n = m + 1 := ⟨n - 1, by omega⟩
  rw [gettoken_run, if_neg (by simp [hr])]
  have hu2 : Unread { s with t_sym := none, t_strindex := 0, t_numindex := 0 }
      (c :: run ++ rest) := hu
  obtain ⟨h1, h2, h3, h4⟩ := hstart
  have hloop : gettoken_loop SYMBOLSIZE qparse (m + 1)
        { s with t_sym := none, t_strindex := 0, t_numindex := 0 } =
      eatsymbol SYMBOLSIZE m
        { s with t_sym := none, t_strindex := 0, t_numindex := 0,
                 chars := run ++ rest, lastch := some c, pushed := true } := by
    rw [gettoken_loop, run_bind, nextchar_cons hu2]
    simp [run_bind, run_get, hmode, h1, h2, h3, h4, reread, run_modify]
  have hes := eatsymbol_allsyms_run SYMBOLSIZE m
    { s with t_sym := none, t_strindex := 0, t_numindex := 0,
             chars := run ++ rest, lastch := some c, pushed := true }
    (c :: run) rest hmode (by simp [Unread])
    (by
      intro d hd
      rcases List.mem_cons.mp hd with rfl | hd
      · exact ⟨h1, h2, h4⟩
      · exact hrun d hd)
    hrest (by simp; omega) (by simpa using hceiling)
  rw [hloop, hes]
  refine ⟨_, rfl, rfl, by cases rest <;> simp [Unread], by simp⟩

/-- C18, at the input `a"b c` in filename mode: the text of the symbol is `a"b`. -/
theorem gettoken_filename_witness :
    gettoken 256 qparse_decimal 10 { chars := ['a', '"', 'b', ' ', 'c'], allsyms := true } =
      Res.ok T_SYMBOL
        { chars := ['c'], lastch := some ' ', pushed := true, allsyms := true,
          t_type := T_SYMBOL, t_sym := some ['a', '"', 'b'] } ∧
    (∃ t, gettoken 256 qparse_decimal 10
        { chars := ['a', '"', 'b', ' ', 'c'], allsyms := true } = Res.ok T_SYMBOL t ∧
      t.t_sym = some (cstring (('a' :: ['"', 'b']).take 256)) ∧ Unread t [' ', 'c']) :=
  ⟨by decide!,
    (gettoken_filename 256 qparse_decimal 10 { chars := ['a', '"', 'b', ' ', 'c'], allsyms := true }
      'a' ['"', 'b'] [' ', 'c'] rfl rfl (by simp [Unread]) (by decide) (by decide)
      (by decide) (by decide) (Or.inl (by decide))).imp
      fun _ h => ⟨h.1, h.2.1, h.2.2.1⟩⟩

/-- C18 as it is stated fails at the input `a"b c` in filename mode: the text of
the symbol is not `a`, and what is left unread is not the quote: the quote is
part of the text, and the space after `a"b` is left.  It fails too at a name
of 257 letters when `SYMBOLSIZE` is 256, of which the text is the first 256. -/
theorem gettoken_filename_quote_in_text :
    gettoken 256 qparse_decimal 10 { chars := ['a', '"', 'b', ' ', 'c'], allsyms := true } =
      Res.ok T_SYMBOL
        { chars := ['c'], lastch := some ' ', pushed := true, allsyms := true,
          t_type := T_SYMBOL, t_sym := some ['a', '"', 'b'] } ∧
    some ['a', '"', 'b'] ≠ some ['a'] ∧
    gettoken 256 qparse_decimal 300
        { chars := List.replicate 257 'a' ++ [' '], allsyms := true } =
      Res.ok T_SYMBOL
        { chars := [], lastch := some ' ', pushed := true, allsyms := true, errorcount := 1,
          t_type := T_SYMBOL, t_sym := some (List.replicate 256 'a') } :=
  ⟨by decide!, by decide, by decide!⟩

end Lexer

namespace Lexer

/-- The loop of `eatnumber` over a text of which `qparse` accepts every prefix
whole, up to the character after it, with which `qparse` accepts no more. -/
theorem eatnumber_loop_break (qparse : List Char → Int) :
    ∀ (more : List Char) (n : Nat) (pre : List Char) (s : State) (rest : List Char),
      (∀ j, j < more.length →
        ¬ ((pre ++ more.take (j + 1)).getD 0 (Char.ofNat 0) = '.' ∧
            isletter (some ((pre ++ more.take (j + 1)).getD 1 (Char.ofNat 0))) = true) ∧
        qparse (cstring (pre ++ more.take (j + 1))) = (pre.length + (j + 1) : Nat)) →
      ¬ ((pre ++ more ++ [tochar rest.head?]).getD 0 (Char.ofNat 0) = '.' ∧
          isletter (some ((pre ++ more ++ [tochar rest.head?]).getD 1 (Char.ofNat 0))) = true) →
      0 ≤ qparse (cstring (pre ++ more ++ [tochar rest.head?])) →
      qparse (cstring (pre ++ more ++ [tochar rest.head?])) ≠ (pre.length + more.length + 1 : Nat) →
      Unread s (more ++ rest) → more.length < n →
      eatnumber_loop qparse n pre s =
        Res.ok (none, pre ++ more ++ [tochar rest.head?])
          { s with chars := rest.tail, lastch := rest.head?, pushed := false } := by
  intro more
  induction more with
  | nil =>
    intro n pre s rest _ hdot hpos hne hu hn
    obtain ⟨m, rfl⟩ : ∃ m, n = m + 1 := ⟨n - 1, by simp at hn; omega⟩
    simp only [List.append_nil] at hdot hpos hne
    have hne' : qparse (cstring (pre ++ [tochar rest.head?])) ≠
        ((pre ++ [tochar rest.head?]).length : Nat) := by
      simpa using hne
    have hneg : ¬ qparse (cstring (pre ++ [tochar rest.head?])) < 0 := by omega
    rw [eatnumber_loop, run_bind]
    cases rest with
    | nil =>
      rw [nextchar_nil hu]
      simp only [List.head?_nil] at hdot hneg hne'
      simp only [List.head?_nil, List.append_nil, List.tail_nil]
      rw [if_neg hdot, if_neg hneg, if_pos hne']
      rfl
    | cons c r =>
      rw [nextchar_cons hu]
      simp only [List.head?_cons] at hdot hneg hne'
      simp only [List.head?_cons, List.append_nil, List.tail_cons]
      rw [if_neg hdot, if_neg hneg, if_pos hne']
      rfl
  | cons c more ih =>
    intro n pre s rest hall hdot hpos hne hu hn
    obtain ⟨m, rfl⟩ : ∃ m, n = m + 1 := ⟨n - 1, by simp at hn; omega⟩
    have h0 := hall 0 (by simp)
    simp only [List.take_succ_cons, List.take_zero, zero_add] at h0
    obtain ⟨hd0, hq0⟩ := h0
    rw [eatnumber_loop, run_bind, nextchar_cons (by simpa using hu)]
    have htc : tochar (some c) = c := rfl
    simp only [htc]
    have hq0' : qparse (cstring (pre ++ [c])) = ((pre ++ [c]).length : Nat) := by
      simpa using hq0
    have hneg : ¬ qparse (cstring (pre ++ [c])) < 0 := by rw [hq0']; omega
    have hne0 : ¬ qparse (cstring (pre ++ [c])) ≠ ((pre ++ [c]).length : Nat) := by
      simpa using hq0'
    rw [if_neg hd0, if_neg hneg, if_neg hne0]
    have e1 : ∀ l : List Char, pre ++ c :: l = (pre ++ [c]) ++ l := by simp
    have hlen : more.length < m := by simp at hn; omega
    rw [ih m (pre ++ [c]) _ rest ?_ ?_ ?_ ?_ (unread_canon _ _ _) hlen]
    · simp
    · intro j hj
      have := hall (j + 1) (by simpa using hj)
      simp only [List.take_succ_cons] at this
      rw [e1] at this
      simpa [Nat.add_assoc, Nat.add_comm 1] using this
    · simpa using hdot
    · simpa using hpos
    · simpa [Nat.add_assoc, Nat.add_comm 1] using hne

end Lexer

namespace Lexer

/-- What `addnumber` returns is the index of the text among the constants. -/
theorem addnumber_spec (text : List Char) (s : State) :
    ∃ (i : Int) (t : State), addnumber text s = Res.ok i t ∧
      t = { s with numbers := t.numbers } ∧ 0 ≤ i ∧
      t.numbers[i.toNat]? = some text ∧
      (t.numbers = s.numbers ∨ t.numbers = s.numbers ++ [text]) := by
  unfold addnumber
  cases h : s.numbers.indexOf? text with
  | some i =>
    refine ⟨i, s, rfl, rfl, by simp, ?_, Or.inl rfl⟩
    unfold List.indexOf? at h
    rw [List.findIdx?_eq_some_iff_getElem] at h
    obtain ⟨hi, hp, _⟩ := h
    simp only [Int.toNat_ofNat]
    rw [List.getElem?_eq_getElem hi]
    simpa using hp
  | none =>
    refine ⟨s.numbers.length, { s with numbers := s.numbers ++ [text] }, rfl, rfl, by simp,
      ?_, Or.inr rfl⟩
    simp

theorem getD_zero_append (l m : List Char) (d : Char) (h : l ≠ []) :
    (l ++ m).getD 0 d = l.getD 0 d := by
  cases l with
  | nil => exact absurd rfl h
  | cons a l => rfl

theorem getD_one_take (l : List Char) (x d : Char) (j : Nat) (hj : j < l.length) :
    (l.take (j + 1)).getD 1 d = d ∨ (l.take (j + 1)).getD 1 d = (l ++ [x]).getD 1 d := by
  cases l with
  | nil => simp at hj
  | cons a l =>
    cases j with
    | zero => left; simp
    | succ j =>
      right
      cases l with
      | nil => simp at hj
      | cons b l => simp

end Lexer

namespace Lexer

/-- The loop of `eatnumber` from the empty buffer, over a text that is a number. -/
theorem eatnumber_loop_text (qparse : List Char → Int) (n : Nat) (s : State)
    (text rest : List Char)
    (hu : Unread s (text ++ rest)) (hk : text ≠ [])
    (hacc : ∀ j, 1 ≤ j → j ≤ text.length → qparse (cstring (text.take j)) = (j : Nat))
    (hpos : 0 ≤ qparse (cstring (text ++ [tochar rest.head?])))
    (hstop : qparse (cstring (text ++ [tochar rest.head?])) ≠ (text.length + 1 : Nat))
    (hperiod : ¬ (text.head? = some '.' ∧
      isletter (some ((text ++ [tochar rest.head?]).getD 1 (Char.ofNat 0))) = true))
    (hfuel : text.length < n) :
    eatnumber_loop qparse n [] s =
      Res.ok (none, text ++ [tochar rest.head?])
        { s with chars := rest.tail, lastch := rest.head?, pushed := false } := by
  have hhead : ∀ m : List Char, (text ++ m).getD 0 (Char.ofNat 0) = '.' →
      text.head? = some '.' := by
    intro m h
    cases text with
    | nil => exact absurd rfl hk
    | cons a l => simpa using h
  have h := eatnumber_loop_break qparse text n [] s rest ?_ ?_ ?_ ?_ hu hfuel
  · simpa using h
  · intro j hj
    simp only [List.nil_append, List.length_nil, zero_add]
    refine ⟨?_, hacc (j + 1) (by omega) (by omega)⟩
    rintro ⟨h0, h1⟩
    have hne : text.take (j + 1) ≠ [] := by
      cases text with
      | nil => exact absurd rfl hk
      | cons a l => simp
    have h0' : text.head? = some '.' := by
      apply hhead []
      rw [List.append_nil]
      cases text with
      | nil => exact absurd rfl hk
      | cons a l => simpa using h0
    rcases getD_one_take text (tochar rest.head?) (Char.ofNat 0) j hj with e | e
    · rw [e] at h1
      exact absurd h1 (by decide)
    · rw [e] at h1
      exact hperiod ⟨h0', h1⟩
  · simp only [List.nil_append]
    rintro ⟨h0, h1⟩
    exact hperiod ⟨hhead _ h0, h1⟩
  · simpa using hpos
  · simpa using hstop

/-- C15, amended: when `qparse` accepts every prefix of the text whole, and with
the character that follows the text it accepts no more and reports no error,
`eatnumber` consumes exactly the text: the character after it is read and
pushed back.  Unless the text is a lone `.` or a `.` before a letter, the
token is `T_IMAGINARY` when the text ends in `i` or `I` and `T_NUMBER`
otherwise, and the constant interned, whose index is the number index of the
token, is the text without that `i` or `I`. -/
theorem eatnumber_consumes_number (qparse : List Char → Int) (n : Nat) (s : State)
    (text rest : List Char)
    (hu : Unread s (text ++ rest)) (hk : text ≠ [])
    (hnul : ∀ c ∈ text, c ≠ Char.ofNat 0)
    (hacc : ∀ j, 1 ≤ j → j ≤ text.length → qparse (cstring (text.take j)) = (j : Nat))
    (hpos : 0 ≤ qparse (cstring (text ++ [tochar rest.head?])))
    (hstop : qparse (cstring (text ++ [tochar rest.head?])) ≠ (text.length + 1 : Nat))
    (hperiod : ¬ (text.head? = some '.' ∧
      isletter (some ((text ++ [tochar rest.head?]).getD 1 (Char.ofNat 0))) = true))
    (hold : text ≠ ['.'])
    (hfuel : text.length < n) :
    ∃ t, eatnumber qparse n s =
        Res.ok (if text.getLast? = some 'i' ∨ text.getLast? = some 'I' then T_IMAGINARY
          else T_NUMBER) t ∧
      Unread t rest ∧ t.pushed = true ∧ t.lastch = rest.head? ∧ t.chars = rest.tail ∧
      0 ≤ t.t_numindex ∧
      t.numbers[t.t_numindex.toNat]? =
        some (if text.getLast? = some 'i' ∨ text.getLast? = some 'I' then text.dropLast
          else text) ∧
      t.errorcount = s.errorcount := by
  have hloop := eatnumber_loop_text qparse n s text rest hu hk hacc hpos hstop hperiod hfuel
  have hnotold : ¬ (text.getD 0 (Char.ofNat 0) = '.' ∧
      text.getD 1 (Char.ofNat 0) = Char.ofNat 0) := by
    rintro ⟨h0, h1⟩
    cases text with
    | nil => exact hk rfl
    | cons a l =>
      cases l with
      | nil =>
        simp only [List.getD_cons_zero] at h0
        exact hold (by rw [h0])
      | cons b l =>
        simp only [List.getD_cons_succ, List.getD_cons_zero] at h1
        exact hnul b (by simp) h1
  have hcs : cstring text = text := cstring_of_no_nul text hnul
  have hcs2 : cstring text.dropLast = text.dropLast :=
    cstring_of_no_nul _ fun c hc => hnul c (List.mem_of_mem_dropLast hc)
  unfold eatnumber
  rw [run_bind, hloop]
  simp only [List.dropLast_concat, run_bind, reread, run_modify]
  rw [if_neg hnotold]
  by_cases hi : text.getLast? = some 'i' ∨ text.getLast? = some 'I'
  · rw [if_pos hi, if_pos hi, if_pos hi, hcs2]
    obtain ⟨i, t, ht, hst, hi0, hget, _⟩ := addnumber_spec text.dropLast
      { s with chars := rest.tail, lastch := rest.head?, pushed := true }
    rw [run_bind, ht]
    simp only [run_bind, run_modify, run_pure]
    refine ⟨_, rfl, ?_, ?_, ?_, ?_, hi0, hget, ?_⟩
    all_goals rw [hst]
    · cases rest <;> simp [Unread]
    all_goals rfl
  · rw [if_neg hi, if_neg hi, if_neg hi, hcs]
    obtain ⟨i, t, ht, hst, hi0, hget, _⟩ := addnumber_spec text
      { s with chars := rest.tail, lastch := rest.head?, pushed := true }
    rw [run_bind, ht]
    simp only [run_bind, run_modify, run_pure]
    refine ⟨_, rfl, ?_, ?_, ?_, ?_, hi0, hget, ?_⟩
    all_goals rw [hst]
    · cases rest <;> simp [Unread]
    all_goals rfl

end Lexer

namespace Lexer

/-- C15, at the input `12.5i+3` with the decimal parser of the examples: the text
`12.5i` is consumed, the `+` is read and pushed back, the token is
`T_IMAGINARY` and the constant interned is `12.5`. -/
theorem eatnumber_consumes_number_witness :
    eatnumber qparse_decimal 10 { chars := ['1', '2', '.', '5', 'i', '+', '3'] } =
      Res.ok T_IMAGINARY
        { chars := ['3'], lastch := some '+', pushed := true,
          numbers := [['1', '2', '.', '5']] } ∧
    (∃ t, eatnumber qparse_decimal 10 { chars := ['1', '2', '.', '5', 'i', '+', '3'] } =
        Res.ok (if ['1', '2', '.', '5', 'i'].getLast? = some 'i' ∨
            ['1', '2', '.', '5', 'i'].getLast? = some 'I' then T_IMAGINARY else T_NUMBER) t ∧
      Unread t ['+', '3']) :=
  ⟨by decide!,
    (eatnumber_consumes_number qparse_decimal 10
      { chars := ['1', '2', '.', '5', 'i', '+', '3'] } ['1', '2', '.', '5', 'i'] ['+', '3']
      (by simp [Unread]) (by decide) (by decide)
      (by intro j h1 h2; simp only [List.length_cons, List.length_nil] at h2
          interval_cases j <;> decide)
      (by decide) (by decide) (by decide) (by decide) (by decide)).imp
      fun _ h => ⟨h.1, h.2.1⟩⟩

/-- C15 as it is stated fails at the input `. ` with the decimal parser of the
examples: the parser accepts the text `.` whole and `. ` not, so that one
character is consumed, which is no `i`; yet the token is not `T_NUMBER` but
`T_OLDVALUE`, and no constant is interned. -/
theorem eatnumber_lone_period_is_oldvalue :
    qparse_decimal ['.'] = 1 ∧ qparse_decimal ['.', ' '] = 1 ∧
    eatnumber qparse_decimal 10 { chars := ['.', ' '] } =
      Res.ok T_OLDVALUE { chars := [], lastch := some ' ', pushed := true, numbers := [] } :=
  ⟨by decide, by decide, by decide!⟩

end Lexer

namespace Lexer

/-- The scanning loop at a `.` in default mode: the `.` is pushed back and
`eatnumber` is called. -/
theorem gettoken_loop_period (SYMBOLSIZE : Nat) (qparse : List Char → Int) (m : Nat)
    (s : State) (rest : List Char) (ha : s.allsyms = false) (hu : Unread s ('.' :: rest)) :
    gettoken_loop SYMBOLSIZE qparse (m + 1) s =
      eatnumber qparse m { s with chars := rest, lastch := some '.', pushed := true } := by
  rw [gettoken_loop, run_bind, nextchar_cons hu]
  simp [run_bind, run_get, ha, reread, run_modify, isletter, isdigit]

/-- The end of the branch `res < 0` of `eatnumber`, behind the `reread()`: the
error is counted and the constant `0` is interned. -/
theorem eatnumber_bad_number (u : State) (numbuf : List Char)
    (hceil : ¬ (u.maxscancount > 0 ∧ u.errorcount + 1 > u.maxscancount)) :
    ∃ t, (do
        scanerror_null
        let i ← addnumber ['0']
        modify fun s => { s with t_numindex := i }
        pure (some T_NUMBER, numbuf) : L (Option TokenType × List Char)) u =
        Res.ok (some T_NUMBER, numbuf) t ∧
      t.chars = u.chars ∧ t.lastch = u.lastch ∧ t.pushed = u.pushed ∧
      t.errorcount = u.errorcount + 1 ∧
      (t.numbers = u.numbers ∨ t.numbers = u.numbers ++ [['0']]) ∧
      t.numbers[t.t_numindex.toNat]? = some ['0'] ∧ 0 ≤ t.t_numindex := by
  obtain ⟨i, t, h1, h2, h3, h4, h5⟩ := addnumber_spec ['0']
    { u with errorcount := u.errorcount + 1 }
  refine ⟨{ t with t_numindex := i }, ?_, ?_, ?_, ?_, ?_, h5, h4, h3⟩
  · simp only [run_bind, scanerror_null, hceil, if_false, h1, run_modify, run_pure]
  · rw [h2]
  · rw [h2]
  · rw [h2]
  · rw [h2]

/-- One round of the loop of `eatnumber` in which `qparse` reports an error: the
character read is pushed back, the error is counted and the constant `0` is
interned. -/
theorem eatnumber_loop_bad (qparse : List Char → Int) (n : Nat) (pre : List Char) (s : State)
    (rest : List Char) (hu : Unread s rest)
    (hdot : ¬ ((pre ++ [tochar rest.head?]).getD 0 (Char.ofNat 0) = '.' ∧
      isletter (some ((pre ++ [tochar rest.head?]).getD 1 (Char.ofNat 0))) = true))
    (hneg : qparse (cstring (pre ++ [tochar rest.head?])) < 0)
    (hceil : ¬ (s.maxscancount > 0 ∧ s.errorcount + 1 > s.maxscancount)) :
    ∃ t, eatnumber_loop qparse (n + 1) pre s =
        Res.ok (some T_NUMBER, pre ++ [tochar rest.head?]) t ∧
      Unread t rest ∧ t.errorcount = s.errorcount + 1 ∧
      (t.numbers = s.numbers ∨ t.numbers = s.numbers ++ [['0']]) ∧
      t.numbers[t.t_numindex.toNat]? = some ['0'] ∧ 0 ≤ t.t_numindex := by
  rw [eatnumber_loop, run_bind]
  cases rest with
  | nil =>
    rw [nextchar_nil hu]
    simp only [List.head?_nil] at hdot hneg
    dsimp only
    rw [if_neg hdot, if_pos hneg, run_bind, reread, run_modify]
    dsimp only
    obtain ⟨t, ht, h1, h2, h3, h4, h5, h6, h7⟩ := eatnumber_bad_number
      { s with chars := [], lastch := none, pushed := true } (pre ++ [tochar none]) hceil
    refine ⟨t, ht, ?_, h4, h5, h6, h7⟩
    simp [Unread, h1, h2, h3]
  | cons c r =>
    rw [nextchar_cons hu]
    simp only [List.head?_cons] at hdot hneg
    dsimp only
    rw [if_neg hdot, if_pos hneg, run_bind, reread, run_modify]
    dsimp only
    obtain ⟨t, ht, h1, h2, h3, h4, h5, h6, h7⟩ := eatnumber_bad_number
      { s with chars := r, lastch := some c, pushed := true } (pre ++ [tochar (some c)]) hceil
    refine ⟨t, ht, ?_, h4, h5, h6, h7⟩
    simp [Unread, h1, h2, h3]

/-- C16: in default mode, when the unread input starts with a `.` and `qparse`
accepts the lone `.` whole: if a letter follows the `.`, `gettoken` returns
`T_PERIOD`; if what follows is no letter and, with it, `qparse` accepts no more
and reports no error, `gettoken` returns `T_OLDVALUE` with the number index 0;
in both cases the token is no `T_NUMBER` and no constant is interned.  If what
follows is no letter and `qparse` reports an error for the `.` with it, as for
a second `.`, and the ceiling of errors is not reached, `gettoken` counts the
error and returns `T_NUMBER`, the number index being that of the constant `0`,
which is interned.  In all three cases only the `.` is consumed and what
followed it is unread. -/
theorem gettoken_period (SYMBOLSIZE : Nat) (qparse : List Char → Int) (n : Nat)
    (s : State) (rest : List Char)
    (hr : s.rescan = false) (ha : s.allsyms = false) (hu : Unread s ('.' :: rest))
    (hq : qparse ['.'] = 1) (hfuel : 3 ≤ n) :
    (isletter rest.head? = true →
      ∃ t, gettoken SYMBOLSIZE qparse n s = Res.ok T_PERIOD t ∧ Unread t rest ∧
        t.numbers = s.numbers ∧ t.t_numindex = 0) ∧
    (isletter rest.head? = false →
      0 ≤ qparse (cstring ['.', tochar rest.head?]) →
      qparse (cstring ['.', tochar rest.head?]) ≠ 2 →
      ∃ t, gettoken SYMBOLSIZE qparse n s = Res.ok T_OLDVALUE t ∧ Unread t rest ∧
        t.numbers = s.numbers ∧ t.t_numindex = 0) ∧
    (isletter rest.head? = false →
      qparse (cstring ['.', tochar rest.head?]) < 0 →
      ¬ (s.maxscancount > 0 ∧ s.errorcount + 1 > s.maxscancount) →
      ∃ t, gettoken SYMBOLSIZE qparse n s = Res.ok T_NUMBER t ∧ Unread t rest ∧
        t.errorcount = s.errorcount + 1 ∧
        (t.numbers = s.numbers ∨ t.numbers = s.numbers ++ [['0']]) ∧
        t.numbers[t.t_numindex.toNat]? = some ['0']) := by
  obtain ⟨m, rfl⟩ : ∃ m, n = m + 3 := ⟨n - 3, by omega⟩
  have hu2 : Unread { s with t_sym := none, t_strindex := 0, t_numindex := 0 }
      ('.' :: rest) := hu
  have hcs : cstring ['.'] = ['.'] := by decide
  have hl := gettoken_loop_period SYMBOLSIZE qparse (m + 2)
    { s with t_sym := none, t_strindex := 0, t_numindex := 0 } rest ha hu2
  refine ⟨?_, ?_, ?_⟩
  · intro hletter
    rw [gettoken_run, if_neg (by simp [hr]), hl]
    cases rest with
    | nil => exact absurd hletter (by decide)
    | cons c r =>
      simp only [List.head?_cons] at hletter
      unfold eatnumber
      rw [run_bind, eatnumber_loop, run_bind]
      simp only [nextchar, if_true, List.nil_append, tochar, List.getD_cons_zero,
        List.getD_cons_succ, List.getD_nil, hcs, hq]
      simp only [show isletter (some (Char.ofNat 0)) = false by decide, Bool.false_eq_true,
        and_false, if_false, show ¬ ((1 : Int) < 0) by decide,
        show ¬ ((1 : Int) ≠ (([('.' : Char)].length : Nat) : Int)) by decide]
      rw [eatnumber_loop, run_bind]
      simp only [nextchar, Bool.false_eq_true, if_false, List.cons_append, List.nil_append,
        tochar, List.getD_cons_zero, List.getD_cons_succ, hletter, and_self, if_true, run_bind,
        reread, run_modify, run_pure]
      exact ⟨_, rfl, by simp [Unread], rfl, rfl⟩
  · intro hletter hpos hstop
    rw [gettoken_run, if_neg (by simp [hr]), hl]
    have hloop := eatnumber_loop_text qparse (m + 2)
      { s with t_sym := none, t_strindex := 0, t_numindex := 0,
               chars := rest, lastch := some '.', pushed := true }
      ['.'] rest (by simp [Unread]) (by simp)
      (by
        intro j h1 h2
        simp only [List.length_cons, List.length_nil] at h2
        have : j = 1 := by omega
        subst this
        simpa [hcs] using hq)
      (by simpa using hpos) (by simpa using hstop)
      (by
        rintro ⟨_, h⟩
        simp only [List.cons_append, List.nil_append, List.getD_cons_succ,
          List.getD_cons_zero] at h
        cases rest with
        | nil => exact absurd h (by decide)
        | cons c r =>
          simp only [List.head?_cons, tochar] at h hletter
          rw [hletter] at h
          exact absurd h (by decide))
      (by simp)
    unfold eatnumber
    rw [run_bind, hloop]
    simp only [List.dropLast_concat, run_bind, reread, run_modify, List.getD_cons_zero,
      List.getD_cons_succ, List.getD_nil, and_self, if_true, run_pure]
    exact ⟨_, rfl, by cases rest <;> simp [Unread], rfl, rfl⟩
  · intro hletter hneg hceil
    rw [gettoken_run, if_neg (by simp [hr]), hl]
    unfold eatnumber
    rw [run_bind, eatnumber_loop, run_bind]
    simp only [nextchar, if_true, List.nil_append, tochar, List.getD_cons_zero,
      List.getD_cons_succ, List.getD_nil, hcs, hq]
    simp only [show isletter (some (Char.ofNat 0)) = false by decide, Bool.false_eq_true,
      and_false, if_false, show ¬ ((1 : Int) < 0) by decide,
      show ¬ ((1 : Int) ≠ (([('.' : Char)].length : Nat) : Int)) by decide]
    obtain ⟨t, ht, h1, h2, h3, h4, -⟩ := eatnumber_loop_bad qparse m ['.']
      { s with t_sym := none, t_strindex := 0, t_numindex := 0,
               chars := rest, lastch := some '.', pushed := false }
      rest (by simp [Unread])
      (by
        rintro ⟨-, h⟩
        simp only [List.cons_append, List.nil_append, List.getD_cons_succ,
          List.getD_cons_zero] at h
        cases rest with
        | nil => exact absurd h (by decide)
        | cons c r =>
          simp only [List.head?_cons, tochar] at h hletter
          rw [hletter] at h
          exact absurd h (by decide))
      (by simpa using hneg) hceil
    rw [ht]
    exact ⟨_, rfl, h1, h2, h3, h4⟩

/-- C16, at the inputs `.x`, `. ` and `..` with the decimal parser of the
examples. -/
theorem gettoken_period_witness :
    gettoken 256 qparse_decimal 5 { chars := ['.', 'x'] } =
      Res.ok T_PERIOD { chars := [], lastch := some 'x', pushed := true, t_type := T_PERIOD } ∧
    gettoken 256 qparse_decimal 5 { chars := ['.', ' '] } =
      Res.ok T_OLDVALUE
        { chars := [], lastch := some ' ', pushed := true, t_type := T_OLDVALUE } ∧
    (∃ t, gettoken 256 qparse_decimal 5 { chars := ['.', 'x'] } = Res.ok T_PERIOD t ∧
      Unread t ['x'] ∧ t.numbers = [] ∧ t.t_numindex = 0) ∧
    (∃ t, gettoken 256 qparse_decimal 5 { chars := ['.', ' '] } = Res.ok T_OLDVALUE t ∧
      Unread t [' '] ∧ t.numbers = [] ∧ t.t_numindex = 0) ∧
    (∃ t, gettoken 256 qparse_decimal 5 { chars := ['.', '.'] } = Res.ok T_NUMBER t ∧
      Unread t ['.'] ∧ t.errorcount = 0 + 1 ∧ (t.numbers = [] ∨ t.numbers = [] ++ [['0']]) ∧
      t.numbers[t.t_numindex.toNat]? = some ['0']) :=
  ⟨by decide!, by decide!,
    (gettoken_period 256 qparse_decimal 5 { chars := ['.', 'x'] } ['x'] rfl rfl
      (by simp [Unread]) (by decide) (by decide)).1 (by decide),
    (gettoken_period 256 qparse_decimal 5 { chars := ['.', ' '] } [' '] rfl rfl
      (by simp [Unread]) (by decide) (by decide)).2.1 (by decide) (by decide) (by decide),
    (gettoken_period 256 qparse_decimal 5 { chars := ['.', '.'] } ['.'] rfl rfl
      (by simp [Unread]) (by decide) (by decide)).2.2 (by decide) (by decide) (by decide)⟩

/-- C16, the claim as stated fails: at `..`, with the decimal parser of the
examples, which like `qparse` reports an error for a number that a second `.`
follows, the character behind the first `.` is no letter and continues no
number, yet `gettoken` returns `T_NUMBER` and not `T_OLDVALUE`: only the first
`.` is consumed, one error is counted and the constant `0` is interned. -/
theorem gettoken_period_period_is_number :
    isletter (some '.') = false ∧ qparse_decimal ['.', '.'] = -1 ∧
    gettoken 256 qparse_decimal 5 { chars := ['.', '.'] } =
      Res.ok T_NUMBER
        { chars := [], lastch := some '.', pushed := true, t_type := T_NUMBER,
          numbers := [['0']], errorcount := 1 } :=
  ⟨by decide, by decide, by decide!⟩

end Lexer

namespace Lexer

theorem isoctal_toNat (c : Char) (h : isoctal (some c) = true) : 48 ≤ c.toNat := by
  simp only [isoctal, decide_eq_true_eq] at h
  exact h.1

theorem octal_ofNat (a b : Nat) (h : a = b) : Char.ofNat (a % 256) = Char.ofNat (b % 256) := by
  rw [h]

/-- C17, amended: in a string literal, at a backslash before an octal digit,
`eatstring` takes the octal digits that follow the backslash, three at most,
for one character, whose code is the number they denote, modulo 256; a fourth
octal digit, and a character that is no octal digit and ends the escape
early, is left unread, to be scanned as the next character of the string. -/
theorem eatstring_octal_escape (quotechar : Char) (s : State) (d : Char) (rest : List Char)
    (hu : Unread s ('\\' :: d :: rest)) (hd : isoctal (some d) = true) :
    ∃ c t, eatstring_char quotechar s = Res.ok (some (false, c)) t ∧
      c = Char.ofNat (octal_value (octal_digits (d :: rest)) % 256) ∧
      Unread t ((d :: rest).drop (octal_digits (d :: rest)).length) ∧
      (octal_digits (d :: rest)).length ≤ 3 ∧
      t = { s with chars := t.chars, lastch := t.lastch, pushed := t.pushed } := by
  have hd0 := isoctal_toNat d hd
  unfold eatstring_char
  rw [run_bind, nextchar_cons hu]
  simp only [Option.some.injEq, Char.reduceEq, if_false, reduceCtorEq, if_true, run_bind,
    nextchar, Bool.false_eq_true, hd, tochar]
  cases rest with
  | nil =>
    have hdig : octal_digits [d] = [d] := by simp [octal_digits, List.takeWhile, hd]
    rw [hdig]
    simp only [eatstring_octal, run_bind, nextchar, Bool.false_eq_true, if_false]
    refine ⟨_, _, rfl, ?_, ?_, by simp, rfl⟩
    · simp [octal_value]
    · simp [Unread]
  | cons c2 r2 =>
    by_cases h2 : isoctal (some c2) = true
    · have h20 := isoctal_toNat c2 h2
      cases r2 with
      | nil =>
        have hdig : octal_digits [d, c2] = [d, c2] := by
          simp [octal_digits, List.takeWhile, hd, h2]
        rw [hdig]
        simp only [eatstring_octal, run_bind, nextchar, Bool.false_eq_true, if_false, h2,
          Bool.not_true, tochar]
        refine ⟨_, _, rfl, ?_, ?_, by simp, rfl⟩
        · apply octal_ofNat
          simp only [octal_value, List.foldl_cons, List.foldl_nil,
            show '0'.toNat = 48 from rfl]
          omega
        · simp [Unread]
      | cons c3 r3 =>
        by_cases h3 : isoctal (some c3) = true
        · have h30 := isoctal_toNat c3 h3
          have hdig : octal_digits (d :: c2 :: c3 :: r3) = [d, c2, c3] := by
            simp [octal_digits, List.takeWhile, hd, h2, h3]
          rw [hdig]
          simp only [eatstring_octal, run_bind, nextchar, Bool.false_eq_true, if_false, h2, h3,
            Bool.not_true, tochar, run_pure]
          refine ⟨_, _, rfl, ?_, ?_, by simp, rfl⟩
          · apply octal_ofNat
            simp only [octal_value, List.foldl_cons, List.foldl_nil,
              show '0'.toNat = 48 from rfl]
            omega
          · simp [Unread]
        · have h3' : isoctal (some c3) = false := by simpa using h3
          have hdig : octal_digits (d :: c2 :: c3 :: r3) = [d, c2] := by
            simp [octal_digits, List.takeWhile, hd, h2, h3']
          rw [hdig]
          simp only [eatstring_octal, run_bind, nextchar, Bool.false_eq_true, if_false, h2, h3',
            Bool.not_true, Bool.not_false, if_true, tochar, run_pure]
          refine ⟨_, _, rfl, ?_, ?_, by simp, rfl⟩
          · apply octal_ofNat
            simp only [octal_value, List.foldl_cons, List.foldl_nil,
              show '0'.toNat = 48 from rfl]
            omega
          · simp [Unread]
    · have h2' : isoctal (some c2) = false := by simpa using h2
      have hdig : octal_digits (d :: c2 :: r2) = [d] := by
        simp [octal_digits, List.takeWhile, hd, h2']
      rw [hdig]
      simp only [eatstring_octal, run_bind, nextchar, Bool.false_eq_true, if_false, h2',
        Bool.not_false, if_true, tochar, run_pure]
      refine ⟨_, _, rfl, ?_, ?_, by simp, rfl⟩
      · simp [octal_value]
      · simp [Unread]

end Lexer

namespace Lexer

/-- C17, at the input `\18"` after the opening quote: the escape is the one digit
`1`; the `8`, which is no octal digit, is pushed back and is the next character
of the string.  The string `"\18"` is the characters 1 and `8`. -/
theorem eatstring_octal_escape_witness :
    eatstring_char '"' { chars := ['\\', '1', '8', '"'] } =
      Res.ok (some (false, Char.ofNat 1))
        { chars := ['"'], lastch := some '8', pushed := true } ∧
    gettoken 256 qparse_decimal 20 { chars := ['"', '\\', '1', '8', '"', ' '] } =
      Res.ok T_STRING
        { chars := [' '], lastch := some '"', t_type := T_STRING,
          strings := [[Char.ofNat 1, '8', Char.ofNat 0]] } ∧
    (∃ c t, eatstring_char '"' { chars := ['\\', '1', '8', '"'] } =
        Res.ok (some (false, c)) t ∧
      c = Char.ofNat (octal_value (octal_digits ('1' :: ['8', '"'])) % 256) ∧
      Unread t (('1' :: ['8', '"']).drop (octal_digits ('1' :: ['8', '"'])).length)) :=
  ⟨by decide!, by decide!,
    (eatstring_octal_escape '"' { chars := ['\\', '1', '8', '"'] } '1' ['8', '"']
      (by simp [Unread]) (by decide)).imp
      fun _ h => h.imp fun _ h => ⟨h.1, h.2.1, h.2.2.1⟩⟩

/-- C17 as it is stated fails at the literal `"\101"`: the three octal digits are
one escape, and the string has the one character `A`, of code 65, before the
NUL that ends it; it is not the character of code 8 and the character `1`. -/
theorem eatstring_octal_takes_three_digits :
    eatstring_char '"' { chars := ['\\', '1', '0', '1', '"'] } =
      Res.ok (some (false, 'A')) { chars := ['"'], lastch := some '1' } ∧
    gettoken 256 qparse_decimal 20 { chars := ['"', '\\', '1', '0', '1', '"', ' '] } =
      Res.ok T_STRING
        { chars := [' '], lastch := some '"', t_type := T_STRING,
          strings := [['A', Char.ofNat 0]] } ∧
    ['A', Char.ofNat 0] ≠ [Char.ofNat 8, '1', Char.ofNat 0] :=
  ⟨by decide!, by decide!, by decide⟩

end Lexer

/-! ## The conditional expression -/

theorem bind_run_ok {α β : Type} {m : P α} {f : α → P β} {s t : PState} {a : α}
    (h : m s = Res.ok a t) : (m >>= f) s = f a t := by
  rw [bind_run, h]

/-- With no label handed over, a run appends to the code that was there, when the
last instruction was not an index address open to be marked for writing. -/
theorem Frame.code_append {s t : PState} (h : Frame false [] s t)
    (hflag : s.oldop = OP_INDEXADDR → 0 < s.f_opcodes.length →
      s.f_opcodes[s.f_opcodes.length - 1]? = some (Slot.arg 1)) :
    ∃ code, t.f_opcodes = s.f_opcodes ++ code := by
  have hno : ∀ j i, Touchable false [] s i → j ∉ sitesOf s i := by
    intro j i hi
    simp [Touchable] at hi
  have hpre : t.f_opcodes.take s.f_opcodes.length = s.f_opcodes := by
    apply List.ext_getElem?
    intro j
    by_cases hj : j < s.f_opcodes.length
    · rw [List.getElem?_take_of_lt hj]
      by_cases hp : j < plen s
      · exact h.code j hp (hno j)
      · have ho : s.oldop = OP_INDEXADDR := by
          by_contra hne
          simp [plen, hne] at hp
          omega
        have hpl : plen s = s.f_opcodes.length - 1 := by simp [plen, ho]
        have hje : j = plen s := by omega
        have hlast := hflag ho (by omega)
        rw [← hpl] at hlast
        subst hje
        rcases h.flag ho hj (hno _) with e | e
        · exact e
        · rw [e, hlast]
    · rw [List.getElem?_eq_none (by simp; omega), List.getElem?_eq_none (by omega)]
  refine ⟨t.f_opcodes.drop s.f_opcodes.length, ?_⟩
  conv_lhs => rw [← List.take_append_drop s.f_opcodes.length t.f_opcodes]
  rw [hpre]

/-- With no label handed over, the labels that existed are as they were. -/
theorem Frame.label_kept {s t : PState} (h : Frame false [] s t) (i : Nat)
    (hi : i < s.labels.length) : t.labels.getD i {} = s.labels.getD i {} :=
  h.labels i hi (by simp [Touchable])

theorem getElem_append_two (ls : List LABEL) (a b : LABEL)
    (h : ls.length + 1 < (ls ++ [a, b]).length) : (ls ++ [a, b])[ls.length + 1] = b := by
  rw [List.getElem_append_right (by omega)]
  simp

theorem getElem_append_one (ls : List LABEL) (a b : LABEL)
    (h : ls.length < (ls ++ [a, b]).length) : (ls ++ [a, b])[ls.length] = a := by
  rw [List.getElem_append_right (by omega)]
  simp

theorem altcond_test_run (s : PState) :
    altcond_test s = Res.ok (s.labels.length, s.labels.length + 1) (stateOf altcond_test s) := by
  simp [altcond_test, stateOf, bind_run, newlabel, addoplabel, addop, uselabel, modS, pure_run]

theorem altcond_test_state (s : PState) :
    (stateOf altcond_test s).f_opcodes = s.f_opcodes ++ [Slot.op OP_JUMPEQ, Slot.arg (-1)] ∧
    (stateOf altcond_test s).oldop = OP_JUMPEQ ∧
    (stateOf altcond_test s).labels.length = s.labels.length + 2 ∧
    (stateOf altcond_test s).labels.getD s.labels.length {} = {} ∧
    (stateOf altcond_test s).labels.getD (s.labels.length + 1) {} =
      { l_sites := [s.f_opcodes.length + 1] } := by
  simp [altcond_test, stateOf, bind_run, newlabel, addoplabel, addop, uselabel, modS, pure_run,
    LABEL.l_chain, getD_set, getElem_append_two, getElem_append_one]
theorem altcond_else_state (s : PState) (dl p : Nat) (hlen : dl + 1 < s.labels.length)
    (hdone : s.labels.getD dl {} = {})
    (halt : s.labels.getD (dl + 1) {} = { l_sites := [p] }) :
    (stateOf (altcond_else dl (dl + 1)) s).f_opcodes =
      (s.f_opcodes ++ [Slot.op OP_JUMP, Slot.arg (-1)]).set p
        (Slot.arg ((s.f_opcodes.length + 2 : Nat) : Int)) ∧
    (stateOf (altcond_else dl (dl + 1)) s).oldop = OP_JUMP ∧
    (stateOf (altcond_else dl (dl + 1)) s).labels.length = s.labels.length ∧
    (stateOf (altcond_else dl (dl + 1)) s).labels.getD dl {} =
      { l_sites := [s.f_opcodes.length + 1] } ∧
    (stateOf (altcond_else dl (dl + 1)) s).labels.getD (dl + 1) {} =
      { l_offset := ((s.f_opcodes.length + 2 : Nat) : Int) } ∧
    (stateOf (altcond_else dl (dl + 1)) s).errorcount = s.errorcount := by
  have hlt : dl < s.labels.length := by omega
  have hd : s.labels[dl] = {} := by
    simpa [List.getD_eq_getElem?_getD, List.getElem?_eq_getElem hlt] using hdone
  have ha : s.labels[dl + 1] = { l_sites := [p] } := by
    simpa [List.getD_eq_getElem?_getD, List.getElem?_eq_getElem hlen] using halt
  simp [altcond_else, stateOf, bind_run, addoplabel, addop, uselabel, setlabel, modS, pure_run,
    LABEL.l_chain, getD_set, hd, ha, hlt, hlen, patchsites, List.getElem_set]

theorem setlabel_state (s : PState) (dl p : Nat) (hlen : dl + 1 < s.labels.length)
    (hdone : s.labels.getD dl {} = { l_sites := [p] }) :
    setlabel dl s = Res.ok () (stateOf (setlabel dl) s) ∧
    (stateOf (setlabel dl) s).f_opcodes =
      s.f_opcodes.set p (Slot.arg (s.f_opcodes.length : Int)) ∧
    (stateOf (setlabel dl) s).labels.getD dl {} = { l_offset := (s.f_opcodes.length : Int) } ∧
    (stateOf (setlabel dl) s).labels.getD (dl + 1) {} = s.labels.getD (dl + 1) {} ∧
    (stateOf (setlabel dl) s).errorcount = s.errorcount := by
  have hlt : dl < s.labels.length := by omega
  have hd : s.labels[dl] = { l_sites := [p] } := by
    simpa [List.getD_eq_getElem?_getD, List.getElem?_eq_getElem hlt] using hdone
  simp [stateOf, setlabel, modS, getD_set, hd, hlt, patchsites]

theorem set_append_mid {α : Type} (xs ys : List α) (a b c : α) :
    (xs ++ a :: b :: ys).set (xs.length + 1) c = xs ++ a :: c :: ys := by
  induction xs with
  | nil => rfl
  | cons x xs ih => simp [ih]
theorem gettoken_counts (s t : PState) (tok : TokenType) (h : gettoken s = Res.ok tok t) :
    t.errorcount = s.errorcount ∧ t.maxscancount = s.maxscancount := by
  unfold gettoken at h
  split at h <;> cases h <;> exact ⟨rfl, rfl⟩

/-- C19: `getaltcond` on `c ? t : f`.  Let the condition be parsed by `getorcond`,
the next token be `?`, and the true branch be parsed by `getaltcond` from the
state in which the labels `donelab` and `altlab` are new and `OP_JUMPEQ altlab`
is emitted.  When the next token is `:` and the false branch is parsed, again
by `getaltcond` (so that a conditional in the false branch belongs to it),
then `getaltcond` returns `EXPR_RVALUE`, and the code is the code of the
condition, `OP_JUMPEQ` with the offset of the first opcode of the false
branch, the code `codeT` that the true branch appended, `OP_JUMP` with the
offset just after the false branch, and the code `codeF` that the false
branch appended; `altlab` and `donelab` are resolved to these two offsets and
have no patch site left.  When the next token is not `:`, and the ceiling of
errors is not reached, `getaltcond` returns `EXPR_RVALUE` with one error more
than the true branch left, and emits nothing after the true branch. -/
theorem getaltcond_conditional (n : Nat) (s s1 s2 s3 : PState) (tc tt : Nat)
    (hc : getorcond n s = Res.ok tc s1)
    (hq : gettoken s1 = Res.ok T_QUESTIONMARK s2)
    (ht : getaltcond n (stateOf altcond_test s2) = Res.ok tt s3) :
    (∀ s4 s5 tf, gettoken s3 = Res.ok T_COLON s4 →
      getaltcond n (stateOf (altcond_else s2.labels.length (s2.labels.length + 1)) s4)
        = Res.ok tf s5 →
      ∃ t codeT codeF,
        getaltcond (n + 1) s = Res.ok EXPR_RVALUE t ∧
        s3.f_opcodes = s1.f_opcodes ++ [Slot.op OP_JUMPEQ, Slot.arg (-1)] ++ codeT ∧
        s5.f_opcodes = s1.f_opcodes ++
          [Slot.op OP_JUMPEQ, Slot.arg ((s1.f_opcodes.length + 2 + codeT.length + 2 : Nat) : Int)]
          ++ codeT ++ [Slot.op OP_JUMP, Slot.arg (-1)] ++ codeF ∧
        t.f_opcodes = s1.f_opcodes ++
          [Slot.op OP_JUMPEQ, Slot.arg ((s1.f_opcodes.length + 2 + codeT.length + 2 : Nat) : Int)]
          ++ codeT ++
          [Slot.op OP_JUMP,
            Slot.arg ((s1.f_opcodes.length + 2 + codeT.length + 2 + codeF.length : Nat) : Int)]
          ++ codeF ∧
        t.labels.getD (s2.labels.length + 1) {} =
          { l_offset := ((s1.f_opcodes.length + 2 + codeT.length + 2 : Nat) : Int) } ∧
        t.labels.getD s2.labels.length {} =
          { l_offset :=
              ((s1.f_opcodes.length + 2 + codeT.length + 2 + codeF.length : Nat) : Int) } ∧
        t.errorcount = s5.errorcount) ∧
    (∀ tok s4, gettoken s3 = Res.ok tok s4 → tok ≠ T_COLON →
      ¬ (0 < s4.maxscancount ∧ s4.maxscancount < s4.errorcount + 1) →
      ∃ t, getaltcond (n + 1) s = Res.ok EXPR_RVALUE t ∧
        t.errorcount = s3.errorcount + 1 ∧ t.f_opcodes = s3.f_opcodes ∧
        t.labels = s3.labels) := by
  have hrun : getaltcond (n + 1) s = (do
        let _ ← getaltcond n
        if (← gettoken) ≠ T_COLON then
          scanerror T_SEMICOLON
          pure EXPR_RVALUE
        else
          addoplabel OP_JUMP s2.labels.length
          setlabel (s2.labels ++ [({} : LABEL)]).length
          let _ ← getaltcond n
          setlabel s2.labels.length
          pure EXPR_RVALUE) (stateOf altcond_test s2) := by
    rw [getaltcond, bind_run, hc]
    dsimp only
    rw [bind_run, hq]
    dsimp only
    rw [if_neg (fun h => h rfl)]
    rfl
  simp only [List.length_append, List.length_singleton] at hrun
  rw [bind_run, ht] at hrun
  dsimp only at hrun
  have hq12 : Quiet s1 s2 := by
    have := gettoken_quiet s1
    rw [hq] at this
    exact this
  obtain ⟨ha1, ha2, ha3, ha4, ha5⟩ := altcond_test_state s2
  have hf1 : Frame false [] (stateOf altcond_test s2) s3 := by
    have := (exprFrames n).getaltcond (stateOf altcond_test s2)
    rw [ht] at this
    exact this
  obtain ⟨codeT, hT⟩ := hf1.code_append (by rw [ha2]; intro h; exact absurd h (by decide))
  have hl3d := hf1.label_kept s2.labels.length (by omega)
  have hl3a := hf1.label_kept (s2.labels.length + 1) (by omega)
  have hn3 := hf1.ext.nlabels
  rw [ha1, hq12.f_opcodes] at hT
  rw [ha4] at hl3d
  rw [ha5, hq12.f_opcodes] at hl3a
  constructor
  · intro s4 s5 tf hcol hfalse
    have hq34 : Quiet s3 s4 := by
      have := gettoken_quiet s3
      rw [hcol] at this
      exact this
    rw [bind_run, hcol] at hrun
    dsimp only at hrun
    rw [if_neg (fun h => h rfl)] at hrun
    have hrun2 : getaltcond (n + 1) s = (do
        let _ ← getaltcond n
        setlabel s2.labels.length
        pure EXPR_RVALUE)
        (stateOf (altcond_else s2.labels.length (s2.labels.length + 1)) s4) := hrun.trans rfl
    rw [bind_run, hfalse] at hrun2
    dsimp only at hrun2
    obtain ⟨hb1, hb2, hb3, hb4, hb5, hb6⟩ := altcond_else_state s4 s2.labels.length
      (s1.f_opcodes.length + 1) (by rw [hq34.labels]; omega)
      (by rw [hq34.labels]; exact hl3d) (by rw [hq34.labels]; exact hl3a)
    have hf2 : Frame false []
        (stateOf (altcond_else s2.labels.length (s2.labels.length + 1)) s4) s5 := by
      have := (exprFrames n).getaltcond
        (stateOf (altcond_else s2.labels.length (s2.labels.length + 1)) s4)
      rw [hfalse] at this
      exact this
    obtain ⟨codeF, hF⟩ := hf2.code_append (by rw [hb2]; intro h; exact absurd h (by decide))
    have hn4 : s2.labels.length + 1 < s4.labels.length := by rw [hq34.labels]; omega
    have hl5d := hf2.label_kept s2.labels.length (by omega)
    have hl5a := hf2.label_kept (s2.labels.length + 1) (by omega)
    have hn5 := hf2.ext.nlabels
    rw [hb4] at hl5d
    rw [hb5] at hl5a
    obtain ⟨hs1, hs2, hs3, hs4, hs5⟩ := setlabel_state s5 s2.labels.length
      (s4.f_opcodes.length + 1) (by omega) hl5d
    have hlen4 : s4.f_opcodes.length = s1.f_opcodes.length + 2 + codeT.length := by
      rw [hq34.f_opcodes, hT]
      simp
      omega
    have h5 : s5.f_opcodes = s1.f_opcodes ++
        [Slot.op OP_JUMPEQ, Slot.arg ((s1.f_opcodes.length + 2 + codeT.length + 2 : Nat) : Int)]
        ++ codeT ++ [Slot.op OP_JUMP, Slot.arg (-1)] ++ codeF := by
      rw [hF, hb1, hlen4, hq34.f_opcodes, hT]
      have := set_append_mid s1.f_opcodes (codeT ++ [Slot.op OP_JUMP, Slot.arg (-1)])
        (Slot.op OP_JUMPEQ) (Slot.arg (-1))
        (Slot.arg ((s1.f_opcodes.length + 2 + codeT.length + 2 : Nat) : Int))
      simp only [List.append_assoc, List.cons_append, List.nil_append] at this ⊢
      rw [this]
      simp
    have hlen5 : s5.f_opcodes.length =
        s1.f_opcodes.length + 2 + codeT.length + 2 + codeF.length := by
      rw [h5]
      simp
      omega
    refine ⟨stateOf (setlabel s2.labels.length) s5, codeT, codeF, ?_, hT, h5, ?_, ?_, ?_, hs5⟩
    · rw [hrun2, bind_run, hs1]
      rfl
    · rw [hs2, hlen4, hlen5, h5]
      have := set_append_mid (s1.f_opcodes ++
        [Slot.op OP_JUMPEQ, Slot.arg ((s1.f_opcodes.length + 2 + codeT.length + 2 : Nat) : Int)]
        ++ codeT) codeF (Slot.op OP_JUMP) (Slot.arg (-1))
        (Slot.arg ((s1.f_opcodes.length + 2 + codeT.length + 2 + codeF.length : Nat) : Int))
      have hX : (s1.f_opcodes ++
        [Slot.op OP_JUMPEQ, Slot.arg ((s1.f_opcodes.length + 2 + codeT.length + 2 : Nat) : Int)]
        ++ codeT).length + 1 = s1.f_opcodes.length + 2 + codeT.length + 1 := by
        simp
        omega
      rw [hX] at this
      simp only [List.append_assoc, List.cons_append, List.nil_append] at this ⊢
      exact this
    · rw [hs4, hl5a, hlen4]
    · rw [hs3, hlen5]
  · intro tok s4 htok hne hceiling
    have hq34 : Quiet s3 s4 := by
      have := gettoken_quiet s3
      rw [htok] at this
      exact this
    rw [bind_run, htok] at hrun
    dsimp only at hrun
    rw [if_pos hne, bind_run] at hrun
    have hsp := scanerror_spec T_SEMICOLON s4
    rw [if_neg hceiling] at hsp
    obtain ⟨t, h1, h2, _⟩ := hsp
    rw [h1] at hrun
    refine ⟨t, hrun, ?_, ?_, ?_⟩
    · rw [h2, (gettoken_counts s3 s4 tok htok).1]
    · rw [h2, hq34.f_opcodes]
    · rw [h2, hq34.labels]

/-- C19, at the line `1 ? 2 : 3 ? 1 : 2;`: the false branch is the conditional
`3 ? 1 : 2`; the jump of the outer condition goes to offset 8, where the code
of the false branch begins, and both jumps over a false branch go to offset
18, the end of the code.  At the line `1 ? 2 ; 3` the missing `:` is counted as
one error, the flags returned are `EXPR_RVALUE`, and nothing is emitted after
the true branch. -/
theorem getaltcond_conditional_witness :
    (∃ t, getaltcond 30 cond_line = Res.ok EXPR_RVALUE t ∧
      t.f_opcodes =
        [Slot.op OP_NUMBER, Slot.arg 0, Slot.op OP_JUMPEQ, Slot.arg 8,
         Slot.op OP_NUMBER, Slot.arg 1, Slot.op OP_JUMP, Slot.arg 18,
         Slot.op OP_NUMBER, Slot.arg 2, Slot.op OP_JUMPEQ, Slot.arg 16,
         Slot.op OP_NUMBER, Slot.arg 0, Slot.op OP_JUMP, Slot.arg 18,
         Slot.op OP_NUMBER, Slot.arg 1] ∧
      t.errorcount = 0) ∧
    (∃ t, getaltcond 30 nocolon_line = Res.ok EXPR_RVALUE t ∧ t.errorcount = 1 ∧
      t.f_opcodes =
        [Slot.op OP_NUMBER, Slot.arg 0, Slot.op OP_JUMPEQ, Slot.arg (-1),
         Slot.op OP_NUMBER, Slot.arg 1]) := by
  constructor
  · obtain ⟨t, codeT, codeF, hrun, h3, h5, ht, -, -, herr⟩ :=
      (getaltcond_conditional 29 cond_line cond_states.1 cond_states.2.1 cond_states.2.2.1
        3 3 (by decide!) (by decide!) (by decide!)).1
        cond_states.2.2.2.1 cond_states.2.2.2.2 1 (by decide!) (by decide!)
    have e1 : cond_states.1.f_opcodes = [Slot.op OP_NUMBER, Slot.arg 0] := by decide!
    have e3 : cond_states.2.2.1.f_opcodes = [Slot.op OP_NUMBER, Slot.arg 0,
        Slot.op OP_JUMPEQ, Slot.arg (-1), Slot.op OP_NUMBER, Slot.arg 1] := by decide!
    have e5 : cond_states.2.2.2.2.f_opcodes = [Slot.op OP_NUMBER, Slot.arg 0,
        Slot.op OP_JUMPEQ, Slot.arg 8, Slot.op OP_NUMBER, Slot.arg 1, Slot.op OP_JUMP,
        Slot.arg (-1), Slot.op OP_NUMBER, Slot.arg 2, Slot.op OP_JUMPEQ, Slot.arg 16,
        Slot.op OP_NUMBER, Slot.arg 0, Slot.op OP_JUMP, Slot.arg 18,
        Slot.op OP_NUMBER, Slot.arg 1] := by decide!
    have e5e : cond_states.2.2.2.2.errorcount = 0 := by decide!
    rw [e1, e3] at h3
    have hT : codeT = [Slot.op OP_NUMBER, Slot.arg 1] := by simpa using h3.symm
    subst hT
    rw [e1, e5] at h5
    have hF : codeF = [Slot.op OP_NUMBER, Slot.arg 2, Slot.op OP_JUMPEQ, Slot.arg 16,
        Slot.op OP_NUMBER, Slot.arg 0, Slot.op OP_JUMP, Slot.arg 18,
        Slot.op OP_NUMBER, Slot.arg 1] := by simpa using h5.symm
    subst hF
    rw [e1] at ht
    exact ⟨t, hrun, by simpa using ht, by rw [herr, e5e]⟩
  · obtain ⟨t, hrun, herr, hcode, -⟩ :=
      (getaltcond_conditional 29 nocolon_line nocolon_states.1 nocolon_states.2.1
        nocolon_states.2.2.1 3 3 (by decide!) (by decide!) (by decide!)).2
        T_SEMICOLON nocolon_states.2.2.2 (by decide!) (by decide) (by decide!)
    have e3 : nocolon_states.2.2.1.f_opcodes = [Slot.op OP_NUMBER, Slot.arg 0,
        Slot.op OP_JUMPEQ, Slot.arg (-1), Slot.op OP_NUMBER, Slot.arg 1] := by decide!
    have e3e : nocolon_states.2.2.1.errorcount = 0 := by decide!
    exact ⟨t, hrun, by rw [herr, e3e]; rfl, by rw [hcode, e3]⟩

/-! ## Assignment -/

theorem writeindexop_state (s : PState) :
    (stateOf writeindexop s).f_opcodes.length = s.f_opcodes.length ∧
    (stateOf writeindexop s).oldop = s.oldop ∧
    (s.oldop = OP_INDEXADDR → 0 < s.f_opcodes.length →
      (stateOf writeindexop s).f_opcodes[s.f_opcodes.length - 1]? = some (Slot.arg 1)) := by
  simp only [stateOf, writeindexop, modS]
  split_ifs with h
  · refine ⟨by simp, rfl, fun _ hl => ?_⟩
    simp only
    rw [List.getElem?_set_eq_of_lt _ (by omega)]
  · exact ⟨rfl, rfl, fun h' => absurd h' h⟩

theorem assign_mark_state (op : Option Opcode) (s : PState) :
    (stateOf (assign_mark op) s).f_opcodes =
      (stateOf writeindexop s).f_opcodes ++
        (if op.isSome then [Slot.op OP_DUPLICATE] else []) ∧
    ((stateOf (assign_mark op) s).oldop = OP_INDEXADDR →
      0 < (stateOf (assign_mark op) s).f_opcodes.length →
      (stateOf (assign_mark op) s).f_opcodes[(stateOf (assign_mark op) s).f_opcodes.length - 1]?
        = some (Slot.arg 1)) := by
  obtain ⟨h1, h2, h3⟩ := writeindexop_state s
  cases op with
  | none =>
    have e : stateOf (assign_mark none) s = stateOf writeindexop s := rfl
    rw [e]
    refine ⟨by simp, fun ho hl => ?_⟩
    rw [h1] at hl ⊢
    exact h3 (by rw [← h2]; exact ho) hl
  | some o =>
    have e : stateOf (assign_mark (some o)) s =
        { stateOf writeindexop s with
          f_opcodes := (stateOf writeindexop s).f_opcodes ++ [Slot.op OP_DUPLICATE]
          oldop := OP_DUPLICATE } := rfl
    rw [e]
    exact ⟨by simp, fun ho => absurd (show OP_DUPLICATE = OP_INDEXADDR from ho) (by decide)⟩

/-- C20: `getassignment` on `L op= R` and on `L = R`.  Let the left side be parsed
by `getaltcond` with flags that are not those of an rvalue, the next token be
an assignment operator, `op` the opcode of its base operation (none for `=`),
the token after it not be `{`, and the right side be parsed by `getassignment`
itself (so that `a = b = c` is `a = (b = c)`).  Then `getassignment` returns
`EXPR_ASSIGN`, and the code is the code of the left side as `writeindexop`
left it, `OP_DUPLICATE` for a compound assignment and nothing for `=`, the
code `codeR` that the right side appended, the opcode of the base operation
for a compound assignment, and `OP_ASSIGN`. -/
theorem getassignment_compound (n : Nat) (s s1 s2 s3 s4 : PState) (type ty : Nat)
    (tok tok2 : TokenType) (op : Option Opcode)
    (hleft : getaltcond n s = Res.ok type s1) (hlvalue : isrvalue type = false)
    (htok : gettoken s1 = Res.ok tok s2) (hop : assign_opcode tok = some op)
    (hnext : gettoken (stateOf (assign_mark op) s2) = Res.ok tok2 s3)
    (hbrace : tok2 ≠ T_LEFTBRACE)
    (hright : getassignment n (stateOf rescantoken s3) = Res.ok ty s4) :
    ∃ t codeR,
      getassignment (n + 1) s = Res.ok EXPR_ASSIGN t ∧
      s4.f_opcodes = (stateOf writeindexop s1).f_opcodes ++
        (if op.isSome then [Slot.op OP_DUPLICATE] else []) ++ codeR ∧
      t.f_opcodes = (stateOf writeindexop s1).f_opcodes ++
        (if op.isSome then [Slot.op OP_DUPLICATE] else []) ++ codeR ++
        (op.toList.map Slot.op) ++ [Slot.op OP_ASSIGN] ∧
      t.errorcount = s4.errorcount := by
  have hrun : getassignment (n + 1) s = (do
      if (← gettoken) = T_LEFTBRACE then
        rescantoken
        match op with
        | some o => do
          addop OP_DUPVALUE
          let _ ← getinitlist n
          addop o
          addop OP_ASSIGN
          pure EXPR_ASSIGN
        | none => do
          let _ ← getinitlist n
          pure EXPR_ASSIGN
      else
        rescantoken
        let _ ← getassignment n
        match op with
        | some o => do
          addop o
          addop OP_ASSIGN
          pure EXPR_ASSIGN
        | none => do
          addop OP_ASSIGN
          pure EXPR_ASSIGN) (stateOf (assign_mark op) s2) := by
    rw [getassignment, bind_run, hleft]
    dsimp only
    rw [bind_run, htok]
    dsimp only
    have hnr : ¬ isrvalue type = true := by rw [hlvalue]; decide
    cases tok <;> first
      | (simp only [assign_opcode, Option.some.injEq] at hop
         subst hop
         dsimp only
         rw [if_neg hnr]
         rfl)
      | (simp only [assign_opcode] at hop
         exact absurd hop (fun h => nomatch h))
  rw [bind_run, hnext] at hrun
  dsimp only at hrun
  rw [if_neg hbrace] at hrun
  rw [bind_run_ok (show rescantoken s3 = Res.ok () (stateOf rescantoken s3) from rfl)] at hrun
  rw [bind_run, hright] at hrun
  dsimp only at hrun
  have hq12 : Quiet s1 s2 := by
    have := gettoken_quiet s1
    rw [htok] at this
    exact this
  have hs12 : stateOf (assign_mark op) s2 =
      { stateOf (assign_mark op) s1 with
        input := s2.input, curtoken := s2.curtoken, rescan := s2.rescan } := by
    unfold gettoken at htok
    split at htok <;> cases htok <;> cases op <;>
      simp only [stateOf, assign_mark, bind_run, writeindexop, addop, modS, pure_run] <;>
      split_ifs <;> rfl
  obtain ⟨hm1, hm2⟩ := assign_mark_state op s1
  have hq23 : Quiet (stateOf (assign_mark op) s2) s3 := by
    have := gettoken_quiet (stateOf (assign_mark op) s2)
    rw [hnext] at this
    exact this
  have hfr : Frame false [] (stateOf rescantoken s3) s4 := by
    have := (exprFrames n).getassignment (stateOf rescantoken s3)
    rw [hright] at this
    exact this
  have hc3 : (stateOf rescantoken s3).f_opcodes = (stateOf (assign_mark op) s1).f_opcodes := by
    show s3.f_opcodes = _
    rw [hq23.f_opcodes, hs12]
  have ho3 : (stateOf rescantoken s3).oldop = (stateOf (assign_mark op) s1).oldop := by
    show s3.oldop = _
    rw [hq23.oldop, hs12]
  obtain ⟨codeR, hR⟩ := hfr.code_append (by rw [hc3, ho3]; exact hm2)
  rw [hc3, hm1] at hR
  refine ⟨stateOf (assign_emit op) s4, codeR, ?_, hR, ?_, ?_⟩
  · rw [hrun]
    cases op <;> rfl
  · cases op with
    | none =>
      show s4.f_opcodes ++ [Slot.op OP_ASSIGN] = _
      rw [hR]
      simp
    | some o =>
      show s4.f_opcodes ++ [Slot.op o] ++ [Slot.op OP_ASSIGN] = _
      rw [hR]
      simp
  · cases op <;> rfl

/-- C20, at the line `a += 2;`: the code is the address of `a`, `OP_DUPLICATE`, the
number, `OP_ADD`, `OP_ASSIGN`; and at the line `a = b = c;`: the code is the
three addresses and `OP_ASSIGN` twice, with no `OP_DUPLICATE`.  Both return
`EXPR_ASSIGN`. -/
theorem getassignment_compound_witness :
    (∃ t, getassignment 30 plus_line = Res.ok EXPR_ASSIGN t ∧
      t.f_opcodes =
        [Slot.op OP_GLOBALADDR, Slot.arg 0, Slot.op OP_DUPLICATE, Slot.op OP_NUMBER,
         Slot.arg 1, Slot.op OP_ADD, Slot.op OP_ASSIGN]) ∧
    (∃ t, getassignment 30 chain_line = Res.ok EXPR_ASSIGN t ∧
      t.f_opcodes =
        [Slot.op OP_GLOBALADDR, Slot.arg 0, Slot.op OP_GLOBALADDR, Slot.arg 1,
         Slot.op OP_GLOBALADDR, Slot.arg 2, Slot.op OP_ASSIGN, Slot.op OP_ASSIGN]) := by
  constructor
  · obtain ⟨t, codeR, hrun, h4, ht, -⟩ :=
      getassignment_compound 29 plus_line (assign_states plus_line (some OP_ADD)).1
        (assign_states plus_line (some OP_ADD)).2.1
        (assign_states plus_line (some OP_ADD)).2.2.1
        (assign_states plus_line (some OP_ADD)).2.2.2 0 3 T_PLUSEQUALS T_NUMBER (some OP_ADD)
        (by decide!) (by decide) (by decide!) (by decide) (by decide!) (by decide) (by decide!)
    have e1 : (stateOf writeindexop (assign_states plus_line (some OP_ADD)).1).f_opcodes =
        [Slot.op OP_GLOBALADDR, Slot.arg 0] := by decide!
    have e4 : (assign_states plus_line (some OP_ADD)).2.2.2.f_opcodes =
        [Slot.op OP_GLOBALADDR, Slot.arg 0, Slot.op OP_DUPLICATE, Slot.op OP_NUMBER,
         Slot.arg 1] := by decide!
    rw [e1, e4] at h4
    have hR : codeR = [Slot.op OP_NUMBER, Slot.arg 1] := by simpa using h4.symm
    subst hR
    rw [e1] at ht
    exact ⟨t, hrun, by simpa using ht⟩
  · obtain ⟨t, codeR, hrun, h4, ht, -⟩ :=
      getassignment_compound 29 chain_line (assign_states chain_line none).1
        (assign_states chain_line none).2.1
        (assign_states chain_line none).2.2.1
        (assign_states chain_line none).2.2.2 0 4 T_ASSIGN T_SYMBOL none
        (by decide!) (by decide) (by decide!) (by decide) (by decide!) (by decide) (by decide!)
    have e1 : (stateOf writeindexop (assign_states chain_line none).1).f_opcodes =
        [Slot.op OP_GLOBALADDR, Slot.arg 0] := by decide!
    have e4 : (assign_states chain_line none).2.2.2.f_opcodes =
        [Slot.op OP_GLOBALADDR, Slot.arg 0, Slot.op OP_GLOBALADDR, Slot.arg 1,
         Slot.op OP_GLOBALADDR, Slot.arg 2, Slot.op OP_ASSIGN] := by decide!
    rw [e1, e4] at h4
    have hR : codeR = [Slot.op OP_GLOBALADDR, Slot.arg 1,
         Slot.op OP_GLOBALADDR, Slot.arg 2, Slot.op OP_ASSIGN] := by simpa using h4.symm
    subst hR
    rw [e1] at ht
    exact ⟨t, hrun, by simpa using ht⟩

/-! ## The relational level -/

/-- C27, the amended claim: `getrelation` takes one relational operator and no
more.  When the first sum is parsed, the next token is a relational operator
with the opcode `op`, and the second sum is parsed, `getrelation` returns
`EXPR_RVALUE` in the state in which the second sum returned, with the opcode
`op` appended and nothing else: it reads no token after the second sum, so a
relational operator that follows is left to the caller. -/
theorem getrelation_one_operator (n : Nat) (s s1 s2 s3 : PState) (type ty : Nat)
    (tok : TokenType) (op : Opcode)
    (hleft : getsum n s = Res.ok type s1) (htok : gettoken s1 = Res.ok tok s2)
    (hop : relation_opcode tok = some op) (hright : getsum n s2 = Res.ok ty s3) :
    getrelation (n + 1) s =
      Res.ok EXPR_RVALUE { s3 with f_opcodes := s3.f_opcodes ++ [Slot.op op], oldop := op } := by
  rw [getrelation, bind_run, hleft]
  dsimp only
  rw [bind_run, htok]
  dsimp only
  cases tok <;> first
    | (simp only [relation_opcode, Option.some.injEq] at hop
       subst hop
       dsimp only
       rw [bind_run, hright]
       rfl)
    | (simp only [relation_opcode] at hop
       exact absurd hop (fun h => nomatch h))

/-- C27, the claim as stated fails: on `1 < 2 == 3;` the function `getrelation`
returns after `1 < 2` with the code of the two numbers and `OP_LT`; the token
`==` is left to be read again and no `OP_EQ` is emitted.  The statement
`1 < 2 == 3;` is compiled with one error. -/
theorem getrelation_leaves_second_operator :
    getrelation 30 relation_line =
      Res.ok EXPR_RVALUE
        { relation_line with
          input := [numtok 2, optok T_SEMICOLON]
          curtoken := optok T_EQ
          rescan := true
          f_opcodes := [Slot.op OP_NUMBER, Slot.arg 0, Slot.op OP_NUMBER, Slot.arg 1,
            Slot.op OP_LT]
          oldop := OP_LT } ∧
    (stateOf (getstatement 40 none none none none) relation_line).errorcount = 1 := by
  decide!

/-- C27, the amended claim at the line `1 < 2 == 3;`. -/
theorem getrelation_one_operator_witness :
    getrelation 30 relation_line =
      Res.ok EXPR_RVALUE
        { stateOf (getsum 29) (stateOf gettoken (stateOf (getsum 29) relation_line)) with
          f_opcodes :=
            (stateOf (getsum 29) (stateOf gettoken (stateOf (getsum 29) relation_line))).f_opcodes
              ++ [Slot.op OP_LT]
          oldop := OP_LT } :=
  getrelation_one_operator 29 relation_line (stateOf (getsum 29) relation_line)
    (stateOf gettoken (stateOf (getsum 29) relation_line))
    (stateOf (getsum 29) (stateOf gettoken (stateOf (getsum 29) relation_line)))
    3 3 T_LT OP_LT (by decide!) (by decide!) (by decide) (by decide!)

/-! ## The shift and power level -/

/-- One level of `getshiftexpr`: a term, an operator of the level, and the rest,
which `getshiftexpr` parses itself. -/
theorem getshiftexpr_step (n : Nat) (s s1 s2 s3 : PState) (type ty : Nat)
    (tok : TokenType) (op : Opcode)
    (hterm : getterm n s = Res.ok type s1) (htok : gettoken s1 = Res.ok tok s2)
    (hop : shift_opcode tok = some op) (hright : getshiftexpr n s2 = Res.ok ty s3) :
    getshiftexpr (n + 1) s =
      Res.ok EXPR_RVALUE { s3 with f_opcodes := s3.f_opcodes ++ [Slot.op op], oldop := op } := by
  rw [getshiftexpr, bind_run, hterm]
  dsimp only
  rw [bind_run, htok]
  dsimp only
  cases tok <;> first
    | (simp only [shift_opcode, Option.some.injEq] at hop
       subst hop
       simp only [reduceCtorEq, or_self, if_false, bind_run, pure_run, hright]
       rfl)
    | (simp only [shift_opcode] at hop
       exact absurd hop (fun h => nomatch h))

namespace Lexer

theorem longest_operator_starstar (rest : List Char) (h : rest.head? ≠ some '=') :
    longest_operator ('*' :: '*' :: rest) = some (['*', '*'], T_POWER) := by
  cases rest with
  | nil => decide
  | cons c rest =>
    have hc : c ≠ '=' := fun e => h (by simp [e])
    have hc2 : ¬ '=' = c := fun e => hc e.symm
    simp [longest_operator, operators, longer, List.isPrefixOf, hc, hc2]

theorem longest_operator_caret (rest : List Char) (h : rest.head? ≠ some '=') :
    longest_operator ('^' :: rest) = some (['^'], T_POWER) := by
  cases rest with
  | nil => decide
  | cons c rest =>
    have hc : c ≠ '=' := fun e => h (by simp [e])
    have hc2 : ¬ '=' = c := fun e => hc e.symm
    simp [longest_operator, operators, longer, List.isPrefixOf, hc, hc2]

theorem gettoken_operator_run (SYMBOLSIZE : Nat) (qparse : List Char → Int) (n : Nat)
    (s : State) (input text : List Char) (tok : TokenType)
    (hu : Unread s input) (hr : s.rescan = false) (ha : s.allsyms = false)
    (hop : longest_operator input = some (text, tok))
    (hx : ¬ ((['/', '*'].isPrefixOf input = true) ∨ (['\\', '\n'].isPrefixOf input = true))) :
    ∃ t, gettoken SYMBOLSIZE qparse (n + 1) s = Res.ok tok t ∧
      Unread t (input.drop text.length) := by
  rw [gettoken_run, if_neg (by simp [hr])]
  have hu2 : Unread { s with t_sym := none, t_strindex := 0, t_numindex := 0 } input := hu
  rw [gettoken_loop_unread SYMBOLSIZE qparse n hu2]
  obtain ⟨t, ht, hut, hst⟩ := gettoken_loop_operator SYMBOLSIZE qparse n
    { s with t_sym := none, t_strindex := 0, t_numindex := 0 } input text tok ha hop hx
  simp only at ht
  rw [ht]
  exact ⟨_, rfl, hut⟩

end Lexer

/-- C28: the shift and power level.  Let `a` and `b` be parsed by `getterm`, each
followed by one of the operators `^`, `<<`, `>>` with the opcodes `op1` and
`op2`, and let what follows be parsed by `getshiftexpr`.  Then `getshiftexpr`
returns `EXPR_RVALUE` and emits, after the code of what follows, the opcode
`op2` of the second operator and then the opcode `op1` of the first: the three
operators are one level, which groups to the right.  In the scanner, `**`
and `^`, not followed by `=`, are both the token `T_POWER`. -/
theorem getshiftexpr_right_recursive (n : Nat) (s s1 s2 s3 s4 s5 : PState) (ta tb tc : Nat)
    (tok1 tok2 : TokenType) (op1 op2 : Opcode)
    (hfirst : getterm (n + 1) s = Res.ok ta s1)
    (htok1 : gettoken s1 = Res.ok tok1 s2) (hop1 : shift_opcode tok1 = some op1)
    (hsecond : getterm n s2 = Res.ok tb s3)
    (htok2 : gettoken s3 = Res.ok tok2 s4) (hop2 : shift_opcode tok2 = some op2)
    (hthird : getshiftexpr n s4 = Res.ok tc s5) :
    getshiftexpr (n + 2) s =
      Res.ok EXPR_RVALUE
        { s5 with f_opcodes := s5.f_opcodes ++ [Slot.op op2, Slot.op op1], oldop := op1 } ∧
    ∀ (SYMBOLSIZE : Nat) (qparse : List Char → Int) (m : Nat) (ls : Lexer.State)
      (rest : List Char), ls.rescan = false → ls.allsyms = false → rest.head? ≠ some '=' →
      (Lexer.Unread ls ('*' :: '*' :: rest) →
        ∃ t, Lexer.gettoken SYMBOLSIZE qparse (m + 1) ls = Lexer.Res.ok T_POWER t ∧
          Lexer.Unread t rest) ∧
      (Lexer.Unread ls ('^' :: rest) →
        ∃ t, Lexer.gettoken SYMBOLSIZE qparse (m + 1) ls = Lexer.Res.ok T_POWER t ∧
          Lexer.Unread t rest) := by
  constructor
  · rw [getshiftexpr_step (n + 1) s s1 s2 _ ta EXPR_RVALUE tok1 op1 hfirst htok1 hop1
      (getshiftexpr_step n s2 s3 s4 s5 tb tc tok2 op2 hsecond htok2 hop2 hthird)]
    simp
  · intro SYMBOLSIZE qparse m ls rest hr ha hne
    constructor
    · intro hu
      exact Lexer.gettoken_operator_run SYMBOLSIZE qparse m ls _ _ _ hu hr ha
        (Lexer.longest_operator_starstar rest hne) (by simp [List.isPrefixOf])
    · intro hu
      exact Lexer.gettoken_operator_run SYMBOLSIZE qparse m ls _ _ _ hu hr ha
        (Lexer.longest_operator_caret rest hne) (by simp [List.isPrefixOf])

/-- C28, at the line `1 << 2 >> 3;`: the code is the three numbers,
`OP_RIGHTSHIFT`, `OP_LEFTSHIFT`; and at the characters `**2` and `^2`: the
token is `T_POWER` and the `2` is unread. -/
theorem getshiftexpr_right_recursive_witness :
    (∃ t, getshiftexpr 30 shift_line = Res.ok EXPR_RVALUE t ∧
      t.f_opcodes = [Slot.op OP_NUMBER, Slot.arg 0, Slot.op OP_NUMBER, Slot.arg 1,
        Slot.op OP_NUMBER, Slot.arg 2, Slot.op OP_RIGHTSHIFT, Slot.op OP_LEFTSHIFT]) ∧
    (∃ t, Lexer.gettoken 256 Lexer.qparse_decimal 10 { chars := ['*', '*', '2'] } =
        Lexer.Res.ok T_POWER t ∧ Lexer.Unread t ['2']) ∧
    (∃ t, Lexer.gettoken 256 Lexer.qparse_decimal 10 { chars := ['^', '2'] } =
        Lexer.Res.ok T_POWER t ∧ Lexer.Unread t ['2']) := by
  have h := getshiftexpr_right_recursive 28 shift_line
    (stateOf (getterm 29) shift_line)
    (stateOf gettoken (stateOf (getterm 29) shift_line))
    (stateOf (getterm 28) (stateOf gettoken (stateOf (getterm 29) shift_line)))
    (stateOf gettoken
      (stateOf (getterm 28) (stateOf gettoken (stateOf (getterm 29) shift_line))))
    (stateOf (getshiftexpr 28) (stateOf gettoken
      (stateOf (getterm 28) (stateOf gettoken (stateOf (getterm 29) shift_line)))))
    3 3 3 T_LEFTSHIFT T_RIGHTSHIFT OP_LEFTSHIFT OP_RIGHTSHIFT
    (by decide!) (by decide!) (by decide) (by decide!) (by decide!) (by decide) (by decide!)
  refine ⟨⟨_, h.1, by decide!⟩, ?_, ?_⟩
  · exact (h.2 256 Lexer.qparse_decimal 9 { chars := ['*', '*', '2'] } ['2'] rfl rfl
      (by decide)).1 (by simp [Lexer.Unread])
  · exact (h.2 256 Lexer.qparse_decimal 9 { chars := ['^', '2'] } ['2'] rfl rfl
      (by decide)).2 (by simp [Lexer.Unread])

/-! ## The expression statement -/

/-- C26: the expression statement.  Let the token after the `OP_DEBUG` of the
statement begin an expression statement (for a symbol: no colon follows it),
and let `getexprlist` parse the expression, the token pushed back, with the
flags `type`.  Then `getstatement` appends to the code of the expression
`OP_POP` alone when a continue or a break label is in force or the name of the
function does not begin with `*`; otherwise `OP_SAVE`, `OP_PRINTRESULT` when
the flags are not those of an assignment and the name of the function is `*`
and no more; otherwise `OP_SAVE`, `OP_POP`; and then looks for the end of the
statement. -/
theorem getstatement_expression (n : Nat) (contlabel breaklabel nextcaselabel
    defaultlabel : Option Nat) (s s1 s2 : PState) (tok : TokenType) (type : Nat)
    (htok : gettoken (stateOf statement_begin s) = Res.ok tok s1)
    (hstart : starts_expression tok = true)
    (hcolon : tok = T_SYMBOL → nextchar_is_colon s1 = Res.ok false s1)
    (hexpr : getexprlist n (stateOf rescantoken s1) = Res.ok type s2) :
    getstatement (n + 1) contlabel breaklabel nextcaselabel defaultlabel s =
      statement_finish
        { s2 with
          f_opcodes := s2.f_opcodes ++
            (expression_tail contlabel breaklabel type s2).map Slot.op
          oldop := (expression_tail contlabel breaklabel type s2).getLastD OP_NOP } := by
  rw [getstatement.eq_def]
  dsimp only
  rw [bind_run_ok (show linenumber s = Res.ok s.lineno s from rfl)]
  rw [bind_run_ok (show addopone OP_DEBUG s.lineno s = Res.ok () (stateOf statement_begin s)
    from rfl)]
  rw [bind_run_ok htok]
  have hexpression : (do
      rescantoken
      let type ← getexprlist n
      let s ← getS
      if contlabel.isSome ∨ breaklabel.isSome ∨ f_name_at s 0 ≠ '*' then
        addop OP_POP
        statement_finish
      else
        addop OP_SAVE
        if isassign type ∨ f_name_at s 1 ≠ Char.ofNat 0 then
          addop OP_POP
          statement_finish
        else
          addop OP_PRINTRESULT
          statement_finish : P Unit) s1 =
      statement_finish
        { s2 with
          f_opcodes := s2.f_opcodes ++
            (expression_tail contlabel breaklabel type s2).map Slot.op
          oldop := (expression_tail contlabel breaklabel type s2).getLastD OP_NOP } := by
    rw [bind_run_ok (show rescantoken s1 = Res.ok () (stateOf rescantoken s1) from rfl)]
    rw [bind_run_ok hexpr]
    rw [bind_run_ok (show getS s2 = Res.ok s2 s2 from rfl)]
    unfold expression_tail
    by_cases h1 : contlabel.isSome ∨ breaklabel.isSome ∨ f_name_at s2 0 ≠ '*'
    · rw [if_pos h1, if_pos h1]
      simp [bind_run, addop, modS]
    · rw [if_neg h1, if_neg h1]
      by_cases h2 : isassign type ∨ f_name_at s2 1 ≠ Char.ofNat 0
      · have h2' : ¬ (isassign type = false ∧ f_name_at s2 1 = Char.ofNat 0) := by
          rintro ⟨ha, hb⟩
          rcases h2 with h | h
          · rw [ha] at h; exact absurd h (by decide)
          · exact h hb
        rw [if_pos h2, if_neg h2']
        simp [bind_run, addop, modS]
      · have h2' : isassign type = false ∧ f_name_at s2 1 = Char.ofNat 0 := by
          constructor
          · cases hv : isassign type
            · rfl
            · exact absurd (Or.inl hv) h2
          · by_contra hb
            exact h2 (Or.inr hb)
        rw [if_neg h2, if_pos h2']
        simp [bind_run, addop, modS]
  by_cases hsym : tok = T_SYMBOL
  · subst hsym
    dsimp only
    rw [bind_run_ok (hcolon rfl)]
    exact hexpression
  · cases tok <;> first
      | exact absurd rfl hsym
      | exact absurd hstart (by decide)
      | exact hexpression

/-- C26, at the line `1 + 2;`: at the top level the code ends with `OP_SAVE`,
`OP_PRINTRESULT`; with a break label in force it ends with `OP_POP`; and at
the line `a += 2;`, an assignment, it ends with `OP_SAVE`, `OP_POP`. -/
theorem getstatement_expression_witness :
    (getstatement 30 none none none none sum_line =
      Res.ok ()
        { top_level [] with
          curtoken := optok T_SEMICOLON
          f_opcodes := [Slot.op OP_DEBUG, Slot.arg 1, Slot.op OP_NUMBER, Slot.arg 0,
            Slot.op OP_NUMBER, Slot.arg 1, Slot.op OP_ADD, Slot.op OP_SAVE,
            Slot.op OP_PRINTRESULT]
          oldop := OP_PRINTRESULT
          labels := [{}, {}] }) ∧
    (getstatement 30 none (some 0) none none sum_line =
      Res.ok ()
        { top_level [] with
          curtoken := optok T_SEMICOLON
          f_opcodes := [Slot.op OP_DEBUG, Slot.arg 1, Slot.op OP_NUMBER, Slot.arg 0,
            Slot.op OP_NUMBER, Slot.arg 1, Slot.op OP_ADD, Slot.op OP_POP]
          oldop := OP_POP
          labels := [{}, {}] }) ∧
    (stateOf (getstatement 30 none none none none) plus_line).f_opcodes =
      [Slot.op OP_DEBUG, Slot.arg 1, Slot.op OP_GLOBALADDR, Slot.arg 0, Slot.op OP_DUPLICATE,
        Slot.op OP_NUMBER, Slot.arg 1, Slot.op OP_ADD, Slot.op OP_ASSIGN, Slot.op OP_SAVE,
        Slot.op OP_POP] :=
  ⟨(getstatement_expression 29 none none none none sum_line
      (stateOf gettoken (stateOf statement_begin sum_line))
      (stateOf (getexprlist 29)
        (stateOf rescantoken (stateOf gettoken (stateOf statement_begin sum_line))))
      T_NUMBER 1 (by decide!) (by decide) (fun h => nomatch h) (by decide!)).trans
      (by decide!),
   (getstatement_expression 29 none (some 0) none none sum_line
      (stateOf gettoken (stateOf statement_begin sum_line))
      (stateOf (getexprlist 29)
        (stateOf rescantoken (stateOf gettoken (stateOf statement_begin sum_line))))
      T_NUMBER 1 (by decide!) (by decide) (fun h => nomatch h) (by decide!)).trans
      (by decide!),
   by
    rw [stateOf, getstatement_expression 29 none none none none plus_line
      (stateOf gettoken (stateOf statement_begin plus_line))
      (stateOf (getexprlist 29)
        (stateOf rescantoken (stateOf gettoken (stateOf statement_begin plus_line))))
      T_SYMBOL 4 (by decide!) (by decide) (fun _ => by decide!) (by decide!)]
    decide!⟩

/-! ## Names that are not defined -/

theorem indexOf_append_new (xs : List Int) (x : Int) (h : x ∉ xs) :
    (xs ++ [x]).indexOf x = xs.length := by
  induction xs with
  | nil => simp
  | cons y ys ih =>
    simp only [List.mem_cons, not_or] at h
    have hne : ¬ y = x := fun e => h.1 e.symm
    simp [List.indexOf_cons, hne, ih h.2]

theorem symboltype_undefined (name : Int) (s : PState)
    (h : symboltype name s = Res.ok SYM_UNDEFINED s) :
    s.globals.any (fun g => g.1 == name) = false ∧ name ∉ s.globals.map Prod.fst := by
  unfold symboltype at h
  have h' := h
  simp only [Res.ok.injEq, and_true] at h'
  split_ifs at h' with h1 h2
  · cases hf : s.globals.find? (fun g => g.1 == name) with
    | some g =>
      rw [hf] at h'
      dsimp only at h'
      split_ifs at h'
    | none =>
      rw [List.find?_eq_none] at hf
      constructor
      · rw [List.any_eq_false]
        intro g hg
        exact hf g hg
      · intro hm
        rw [List.mem_map] at hm
        obtain ⟨g, hg, hgn⟩ := hm
        exact hf g hg (by simp [hgn])

/-- C25: `usesymbol` at a name that is undefined.  When the name of the function
under construction begins with `*` and `autodef` is true, the name is put among
the globals, not static, and `OP_GLOBALADDR` with its slot is emitted, with no
error.  In every other case `usesymbol` is `scanerror`: one error is counted,
nothing is declared and nothing emitted, whether the function returns or the
ceiling of errors aborts it.  An identifier that `getterm` meets, and that no
`(` follows, is handed to `usesymbol` with `autodef` true exactly when the
token after it is `=`. -/
theorem usesymbol_undefined (name : Int) (autodef : Bool) (s : PState)
    (hundefined : symboltype name s = Res.ok SYM_UNDEFINED s) :
    (s.f_name.head? = some '*' ∧ autodef = true →
      usesymbol name autodef s =
        Res.ok ()
          { s with
            globals := s.globals ++ [(name, false)]
            f_opcodes := s.f_opcodes ++
              [Slot.op OP_GLOBALADDR, Slot.arg (s.globals.length : Int)]
            oldop := OP_GLOBALADDR }) ∧
    (¬ (s.f_name.head? = some '*' ∧ autodef = true) →
      (usesymbol name autodef s = Res.ok () { s with errorcount := s.errorcount + 1 } ∨
       usesymbol name autodef s = Res.abort { s with errorcount := s.errorcount + 1 })) ∧
    (∀ (n : Nat) (s0 s1 s2 s3 : PState) (tok : TokenType),
      gettoken s0 = Res.ok T_SYMBOL s1 →
      getid (stateOf rescantoken s1) = Res.ok (true, name) s2 →
      gettoken s2 = Res.ok tok s3 → tok ≠ T_LEFTPAREN →
      getterm (n + 2) s0 =
        (do
          usesymbol name (decide (tok = T_ASSIGN))
          getidexpr_loop n true) (stateOf rescantoken s3)) := by
  obtain ⟨hany, hmem⟩ := symboltype_undefined name s hundefined
  refine ⟨?_, ?_, ?_⟩
  · rintro ⟨hf, ha⟩
    subst ha
    rw [usesymbol, bind_run_ok hundefined]
    dsimp only
    rw [bind_run_ok (show getS s = Res.ok s s from rfl)]
    rw [if_neg (by simp [hf])]
    simp only [bind_run, addglobal, modS, hany, Bool.false_eq_true, if_false, findglobal,
      addopptr, addop, addarg, List.map_append, List.map_cons, List.map_nil]
    rw [indexOf_append_new _ _ hmem]
    simp
  · intro hneg
    rw [usesymbol, bind_run_ok hundefined]
    dsimp only
    rw [bind_run_ok (show getS s = Res.ok s s from rfl)]
    have hc : s.f_name.head? ≠ some '*' ∨ autodef = false := by
      by_cases hf : s.f_name.head? = some '*'
      · right
        cases autodef
        · rfl
        · exact absurd ⟨hf, rfl⟩ hneg
      · exact Or.inl hf
    rw [if_pos hc]
    have hsp := scanerror_spec T_NULL s
    split_ifs at hsp with hceil
    · exact Or.inr hsp
    · obtain ⟨s1, h1, -, h3⟩ := hsp
      rw [h3 rfl] at h1
      exact Or.inl h1
  · intro n s0 s1 s2 s3 tok h0 hid htok hne
    rw [getterm, bind_run_ok h0]
    dsimp only
    rw [bind_run_ok (show rescantoken s1 = Res.ok () (stateOf rescantoken s1) from rfl)]
    rw [bind_run, getidexpr, bind_run_ok hid]
    dsimp only
    rw [if_neg (by decide)]
    rw [bind_run, htok]
    dsimp only
    cases tok <;> first
      | exact absurd rfl hne
      | rfl

/-- C25, at the top level with no global defined: with `autodef` the name 7 becomes
the first global and `OP_GLOBALADDR 0` is emitted; without it one error is
counted and nothing else changes; and in `x = 2;` the term `x`, followed by
`=`, is handed to `usesymbol` with `autodef` true. -/
theorem usesymbol_undefined_witness :
    usesymbol 7 true (top_level []) =
      Res.ok ()
        { top_level [] with
          globals := [(7, false)]
          f_opcodes := [Slot.op OP_GLOBALADDR, Slot.arg 0]
          oldop := OP_GLOBALADDR } ∧
    (usesymbol 7 false (top_level []) = Res.ok () { top_level [] with errorcount := 1 } ∨
      usesymbol 7 false (top_level []) = Res.abort { top_level [] with errorcount := 1 }) ∧
    getterm 30 define_line =
      (do
        usesymbol 7 (decide (T_ASSIGN = T_ASSIGN))
        getidexpr_loop 28 true)
        (stateOf rescantoken (stateOf gettoken (stateOf getid
          (stateOf rescantoken (stateOf gettoken define_line))))) :=
  ⟨(usesymbol_undefined 7 true (top_level []) (by decide!)).1 ⟨rfl, rfl⟩,
   (usesymbol_undefined 7 false (top_level []) (by decide!)).2.1 (by decide),
   (usesymbol_undefined 7 false (top_level []) (by decide!)).2.2 28 define_line
     (stateOf gettoken define_line)
     (stateOf getid (stateOf rescantoken (stateOf gettoken define_line)))
     (stateOf gettoken (stateOf getid (stateOf rescantoken (stateOf gettoken define_line))))
     T_ASSIGN (by decide!) (by decide!) (by decide!) (by decide)⟩

/-! ## Names that are too long -/

namespace Lexer

/-- What `eatsymbol` does in default mode at a run of symbol characters that is
too long, when the ceiling of errors is reached: the error is counted and the
scan is aborted. -/
theorem eatsymbol_default_abort (SYMBOLSIZE n : Nat) (s : State) (run rest : List Char)
    (hmode : s.allsyms = false) (hu : Unread s (run ++ rest))
    (hrun : ∀ c ∈ run, issymbol (some c) = true) (hrest : issymbol rest.head? = false)
    (hfuel : run.length < n) (hlong : SYMBOLSIZE < run.length)
    (hceiling : s.maxscancount > 0 ∧ s.errorcount + 1 > s.maxscancount) :
    eatsymbol SYMBOLSIZE n s =
      Res.abort { s with chars := rest.tail, lastch := rest.head?, pushed := true,
                         errorcount := s.errorcount + 1 } := by
  have hloop := eatsymbol_loop_run (fun ch => !issymbol ch) run n [] SYMBOLSIZE s rest
    (by intro c hc; simp [hrun c hc]) (by simp [hrest]) hu hfuel
  unfold eatsymbol
  rw [run_bind, run_get]
  simp only [hmode, Bool.false_eq_true, if_false]
  rw [run_bind, hloop]
  simp only [List.nil_append, Int.toNat_ofNat, run_bind, reread, run_modify]
  have hcc : (SYMBOLSIZE : Int) - (run.length : Int) < 0 := by omega
  simp only [hcc, if_true, scanerror_null, hceiling, run_bind, and_self]
  simp [hmode]

/-- C29: in default mode, at a run of `run.length` letters, digits and underscores
that a character of another kind (or the end of the input) follows,
`eatsymbol` consumes the whole run and leaves what follows it unread.  When
the run is not longer than `SYMBOLSIZE`, or the ceiling of errors is not
reached, it returns; the text looked up in the table of keywords, and the name
of the symbol when it is none of them, is the first `min run.length SYMBOLSIZE`
characters of the run; and the errors counted are one more than before if
`run.length > SYMBOLSIZE`, and as many as before otherwise, so that a run of
exactly `SYMBOLSIZE` characters counts none.  When the run is longer and
the ceiling of errors is reached, the one error is counted and the scan is
aborted. -/
theorem eatsymbol_symbol_too_long (SYMBOLSIZE n : Nat) (s : State) (run rest : List Char)
    (hmode : s.allsyms = false) (hu : Unread s (run ++ rest))
    (hrun : ∀ c ∈ run, issymbol (some c) = true) (hrest : issymbol rest.head? = false)
    (hfuel : run.length < n) :
    ((run.length ≤ SYMBOLSIZE ∨ ¬ (s.maxscancount > 0 ∧ s.errorcount + 1 > s.maxscancount)) →
      ∃ tok t, eatsymbol SYMBOLSIZE n s = Res.ok tok t ∧ Unread t rest ∧
        (t.errorcount = s.errorcount + 1 ↔ SYMBOLSIZE < run.length) ∧
        (t.errorcount = s.errorcount ↔ run.length ≤ SYMBOLSIZE) ∧
        (∀ kp, keywords.find? (fun kp => kp.1.toList == run.take (min run.length SYMBOLSIZE))
            = some kp → tok = kp.2) ∧
        (keywords.find? (fun kp => kp.1.toList == run.take (min run.length SYMBOLSIZE)) = none →
          tok = T_SYMBOL ∧ t.t_sym = some (run.take (min run.length SYMBOLSIZE)))) ∧
    (SYMBOLSIZE < run.length → (s.maxscancount > 0 ∧ s.errorcount + 1 > s.maxscancount) →
      ∃ t, eatsymbol SYMBOLSIZE n s = Res.abort t ∧ Unread t rest ∧
        t.errorcount = s.errorcount + 1) := by
  have htake : run.take (min run.length SYMBOLSIZE) = run.take SYMBOLSIZE := by
    rcases Nat.le_total run.length SYMBOLSIZE with h | h
    · rw [Nat.min_eq_left h, List.take_of_length_le h, List.take_of_length_le (le_refl _)]
    · rw [Nat.min_eq_right h]
  rw [htake]
  constructor
  · intro hceiling
    rw [eatsymbol_default_run SYMBOLSIZE n s run rest hmode hu hrun hrest hfuel hceiling]
    have herr1 : (if run.length ≤ SYMBOLSIZE then s.errorcount else s.errorcount + 1)
        = s.errorcount + 1 ↔ SYMBOLSIZE < run.length := by
      split_ifs with h <;> constructor <;> intro h' <;> omega
    have herr0 : (if run.length ≤ SYMBOLSIZE then s.errorcount else s.errorcount + 1)
        = s.errorcount ↔ run.length ≤ SYMBOLSIZE := by
      split_ifs with h <;> constructor <;> intro h' <;> omega
    cases hk : keywords.find? (fun kp => kp.1.toList == run.take SYMBOLSIZE) with
    | some kp =>
      refine ⟨_, _, rfl, (by cases rest <;> simp [Unread]), herr1, herr0, ?_, ?_⟩
      · intro kp' h
        cases h
        rfl
      · intro h
        exact absurd h (by simp)
    | none =>
      refine ⟨_, _, rfl, (by cases rest <;> simp [Unread]), herr1, herr0, ?_, ?_⟩
      · intro kp' h
        exact absurd h (by simp)
      · intro _
        exact ⟨rfl, rfl⟩
  · intro hlong hceiling
    rw [eatsymbol_default_abort SYMBOLSIZE n s run rest hmode hu hrun hrest hfuel hlong hceiling]
    exact ⟨_, rfl, (by cases rest <;> simp [Unread]), rfl⟩

/-- C29, with `SYMBOLSIZE` 4: the name `abcd` of exactly four characters is taken
whole with no error; of the name `abcde` the first four characters are the
text, all five are consumed and one error is counted. -/
theorem eatsymbol_symbol_too_long_witness :
    (∃ tok t, eatsymbol 4 10 { chars := ['a', 'b', 'c', 'd', '+'] } = Res.ok tok t ∧
      Unread t ['+'] ∧ (t.errorcount = 0 ↔ 4 ≤ 4) ∧ tok = T_SYMBOL ∧
      t.t_sym = some ['a', 'b', 'c', 'd']) ∧
    (∃ tok t, eatsymbol 4 10 { chars := ['a', 'b', 'c', 'd', 'e', '+'] } = Res.ok tok t ∧
      Unread t ['+'] ∧ (t.errorcount = 1 ↔ 4 < 5) ∧ tok = T_SYMBOL ∧
      t.t_sym = some ['a', 'b', 'c', 'd']) := by
  constructor
  · obtain ⟨tok, t, h1, h2, -, h4, -, h6⟩ :=
      (eatsymbol_symbol_too_long 4 10 { chars := ['a', 'b', 'c', 'd', '+'] }
        ['a', 'b', 'c', 'd'] ['+'] rfl (by simp [Unread]) (by decide) (by decide)
        (by decide)).1 (Or.inl (by decide))
    exact ⟨tok, t, h1, h2, h4, h6 (by decide)⟩
  · obtain ⟨tok, t, h1, h2, h3, -, -, h6⟩ :=
      (eatsymbol_symbol_too_long 4 10 { chars := ['a', 'b', 'c', 'd', 'e', '+'] }
        ['a', 'b', 'c', 'd', 'e'] ['+'] rfl (by simp [Unread]) (by decide) (by decide)
        (by decide)).1 (Or.inr (by decide))
    exact ⟨tok, t, h1, h2, h3, h6 (by decide)⟩

end Lexer

/-! ## The scanning mode -/

theorem restores_bind {α β : Type} {m : Nat} (x : P α) {f : α → P β}
    (hf : ∀ a, Restores m (f a)) : Restores m (x >>= f) := by
  intro s
  rw [bind_run]
  cases hx : x s with
  | ok a s1 => exact hf a s1
  | abort s1 => trivial
  | nofuel => trivial

theorem restores_tokenmode {α : Type} (m : Nat) (v : α) :
    Restores m (tokenmode m >>= fun _ => pure v) := by
  intro s
  exact ⟨rfl, rfl⟩

theorem restores_ite {α : Type} {m : Nat} {c : Prop} [Decidable c] {p q : P α}
    (hp : Restores m p) (hq : Restores m q) : Restores m (if c then p else q) := by
  split
  · exact hp
  · exact hq

theorem getinitlist_loop_restores :
    ∀ (n oldmode : Nat) (index : Int), Restores oldmode (getinitlist_loop n oldmode index) := by
  intro n
  induction n with
  | zero => intro oldmode index s; rw [getinitlist_loop]; trivial
  | succ n ih =>
    intro oldmode index
    rw [getinitlist_loop]
    dsimp only
    refine restores_bind _ fun tok => ?_
    split
    all_goals repeat' first
      | with_reducible exact ih _ _
      | with_reducible exact restores_tokenmode _ _
      | with_reducible refine restores_bind _ (fun _ => ?_)
      | split

theorem tokenmode_encodes (s : PState) :
    ∃ t, tokenmode TM_DEFAULT s =
      Res.ok (if s.newlines then (if s.allsyms then 3 else 1)
        else (if s.allsyms then 2 else 0)) t ∧
      t.errorcount = s.errorcount := by
  unfold tokenmode
  refine ⟨{ s with newlines := (TM_DEFAULT &&& TM_NEWLINES) != 0,
                   allsyms := (TM_DEFAULT &&& TM_ALLSYMS) != 0 }, ?_, rfl⟩
  cases s.newlines <;> cases s.allsyms <;> rfl

theorem inMode_encoded (s t : PState)
    (h : InMode (if s.newlines then (if s.allsyms then 3 else 1)
        else (if s.allsyms then 2 else 0)) t) :
    t.newlines = s.newlines ∧ t.allsyms = s.allsyms := by
  obtain ⟨h1, h2⟩ := h
  rw [h1, h2]
  cases s.newlines <;> cases s.allsyms <;> decide

theorem getinitlist_restores (n : Nat) (s t : PState) (v : Int)
    (h : getinitlist n s = Res.ok v t) : t.newlines = s.newlines ∧ t.allsyms = s.allsyms := by
  cases n with
  | zero => rw [getinitlist] at h; cases h
  | succ n =>
    obtain ⟨s1, h1, -⟩ := tokenmode_encodes s
    rw [getinitlist, bind_run_ok h1] at h
    have hrest : Restores (if s.newlines then (if s.allsyms then 3 else 1)
        else (if s.allsyms then 2 else 0))
        (do
          if (← gettoken) ≠ T_LEFTBRACE then
            scanerror T_SEMICOLON
            let _ ← tokenmode (if s.newlines then (if s.allsyms then 3 else 1)
              else (if s.allsyms then 2 else 0))
            pure (-1)
          else
            getinitlist_loop n (if s.newlines then (if s.allsyms then 3 else 1)
              else (if s.allsyms then 2 else 0)) 0) := by
      refine restores_bind _ fun tok => ?_
      refine restores_ite ?_ (getinitlist_loop_restores _ _ _)
      exact restores_bind _ fun _ => restores_tokenmode _ _
    have := hrest s1
    rw [h] at this
    exact inMode_encoded s t this

theorem countsUp_of_spec {α : Type} {nm : Bool} {L : List Nat} {p : P α} (h : Spec nm L p) :
    CountsUp p := by
  intro s
  have := h s
  cases hp : p s with
  | ok a t => rw [hp] at this; exact this.ext.errorcount
  | abort t => trivial
  | nofuel => trivial

theorem countsUp_of_quiet {α : Type} {p : P α} (h : QuietSpec p) : CountsUp p :=
  countsUp_of_spec (h.spec false [])

theorem countsUp_tokenmode (m : Nat) : CountsUp (tokenmode m) := fun _ => le_refl _

theorem body_bind {α β : Type} {m : Nat} {x : P α} {f : α → P β} (hx : CountsUp x)
    (hf : ∀ a, CountsUp (f a) ∧ RestoresOrErr m (f a)) :
    CountsUp (x >>= f) ∧ RestoresOrErr m (x >>= f) := by
  constructor
  · intro s
    rw [bind_run]
    have h1 := hx s
    cases hxs : x s with
    | ok a s1 =>
      rw [hxs] at h1
      have h2 := (hf a).1 s1
      dsimp only
      cases hfs : f a s1 with
      | ok b t => rw [hfs] at h2; exact le_trans h1 h2
      | abort t => trivial
      | nofuel => trivial
    | abort s1 => trivial
    | nofuel => trivial
  · intro s
    rw [bind_run]
    have h1 := hx s
    cases hxs : x s with
    | ok a s1 =>
      rw [hxs] at h1
      have h2 := (hf a).1 s1
      have h3 := (hf a).2 s1
      dsimp only
      cases hfs : f a s1 with
      | ok b t =>
        rw [hfs] at h2 h3
        intro he
        exact h3 (by omega)
      | abort t => trivial
      | nofuel => trivial
    | abort s1 => trivial
    | nofuel => trivial

theorem body_scanerror (m : Nat) (skip : TokenType) :
    CountsUp (scanerror skip) ∧ RestoresOrErr m (scanerror skip) := by
  refine ⟨countsUp_of_quiet (scanerror_quiet skip), ?_⟩
  intro s
  have h := scanerror_spec skip s
  split at h
  · rw [h]; trivial
  · obtain ⟨s1, h1, h2, -⟩ := h
    rw [h1]
    intro he
    rw [h2] at he
    simp at he

theorem body_tokenmode (m : Nat) :
    CountsUp (tokenmode m >>= fun _ => (pure PUnit.unit : P PUnit)) ∧
      RestoresOrErr m (tokenmode m >>= fun _ => (pure PUnit.unit : P PUnit)) :=
  ⟨fun _ => le_refl _, fun _ _ => ⟨rfl, rfl⟩⟩

theorem body_ite {α : Type} {m : Nat} {c : Prop} [Decidable c] {p q : P α}
    (hp : CountsUp p ∧ RestoresOrErr m p) (hq : CountsUp q ∧ RestoresOrErr m q) :
    CountsUp (if c then p else q) ∧ RestoresOrErr m (if c then p else q) := by
  split
  · exact hp
  · exact hq

theorem getbody_loop_body (n : Nat) :
    ∀ (c b x d : Option Nat) (toplevel : Bool) (oldmode : Nat) (got : Bool),
      CountsUp (getbody_loop n c b x d toplevel oldmode got) ∧
      RestoresOrErr oldmode (getbody_loop n c b x d toplevel oldmode got) := by
  induction n with
  | zero =>
    intro c b x d toplevel oldmode got
    rw [getbody_loop]
    exact ⟨fun _ => trivial, fun _ => trivial⟩
  | succ n ih =>
    intro c b x d toplevel oldmode got
    rw [getbody_loop.eq_def]
    dsimp only
    refine body_bind (countsUp_of_quiet gettoken_quiet) fun tok => ?_
    have hdecl : CountsUp
          (if toplevel = false then scanerror T_SEMICOLON
          else
            if got = true then scanerror T_SEMICOLON
            else do
              rescantoken
              getdeclarations n
              getbody_loop n c b x d toplevel oldmode got) ∧
        RestoresOrErr oldmode
          (if toplevel = false then scanerror T_SEMICOLON
          else
            if got = true then scanerror T_SEMICOLON
            else do
              rescantoken
              getdeclarations n
              getbody_loop n c b x d toplevel oldmode got) := by
      refine body_ite (body_scanerror _ _) (body_ite (body_scanerror _ _) ?_)
      refine body_bind (countsUp_of_quiet rescantoken_quiet) (fun _ => ?_)
      refine body_bind (countsUp_of_spec (getdeclarations_spec n)) (fun _ => ?_)
      exact ih _ _ _ _ _ _ _
    split
    · exact body_tokenmode _
    · exact hdecl
    · exact hdecl
    · exact hdecl
    · refine body_bind (countsUp_of_quiet rescantoken_quiet) (fun _ => ?_)
      refine body_bind (countsUp_of_spec ((stmtFrames n).getstatement _ _ _ _)) (fun _ => ?_)
      exact ih _ _ _ _ _ _ _

theorem getbody_restores (n : Nat) (c b x d : Option Nat) (toplevel : Bool) (s t : PState)
    (h : getbody n c b x d toplevel s = Res.ok () t) (herr : t.errorcount = s.errorcount) :
    t.newlines = s.newlines ∧ t.allsyms = s.allsyms := by
  cases n with
  | zero => rw [getbody] at h; cases h
  | succ n =>
    rw [getbody.eq_def] at h
    dsimp only at h
    obtain ⟨tok, s1, hg, hs1, -⟩ := gettoken_spec s
    rw [bind_run_ok hg] at h
    have he1 : s1.errorcount = s.errorcount := by rw [hs1]
    have hn1 : s1.newlines = s.newlines := by rw [hs1]
    have ha1 : s1.allsyms = s.allsyms := by rw [hs1]
    by_cases htok : tok ≠ T_LEFTBRACE
    · rw [if_pos htok] at h
      have := (body_scanerror 0 T_SEMICOLON).2 s1
      rw [h] at this
      have hm := this (by omega)
      have hsp := scanerror_spec T_SEMICOLON s1
      split at hsp
      · rw [hsp] at h; cases h
      · obtain ⟨s2, h2, h3, -⟩ := hsp
        rw [h2] at h
        cases h
        rw [h3] at herr
        simp at herr
        omega
    · rw [if_neg htok] at h
      obtain ⟨s2, h2, he2⟩ := tokenmode_encodes s1
      rw [bind_run_ok h2] at h
      have := (getbody_loop_body n c b x d toplevel
        (if s1.newlines then (if s1.allsyms then 3 else 1)
          else (if s1.allsyms then 2 else 0)) false).2 s2
      rw [h] at this
      have hm := inMode_encoded s1 t (this (by omega))
      rw [hn1, ha1] at hm
      exact hm

/-- The scanning mode at the returns: `getinitlist` returns, on every path, in the
scanning mode in which it was entered; `getbody` returns in the mode in which
it was entered when it has counted no error. -/
theorem tokenmode_restored (n : Nat) (s t : PState) :
    (∀ v, getinitlist n s = Res.ok v t → t.newlines = s.newlines ∧ t.allsyms = s.allsyms) ∧
    (∀ c b x d toplevel, getbody n c b x d toplevel s = Res.ok () t →
      t.errorcount = s.errorcount → t.newlines = s.newlines ∧ t.allsyms = s.allsyms) :=
  ⟨fun v h => getinitlist_restores n s t v h,
   fun c b x d toplevel h herr => getbody_restores n c b x d toplevel s t h herr⟩

/-- At the lines `{ 1, 2 }` and `{ 1; }`, in the mode of the top level, in which
ends of line are tokens, `getinitlist` and `getbody` return with ends of line
as tokens again. -/
theorem tokenmode_restored_witness :
    ((stateOf (getinitlist 30) initlist_line).newlines = true ∧
      (stateOf (getinitlist 30) initlist_line).allsyms = false) ∧
    ((stateOf (getbody 30 none none none none false) body_line).newlines = true ∧
      (stateOf (getbody 30 none none none none false) body_line).allsyms = false) :=
  ⟨(tokenmode_restored 30 initlist_line (stateOf (getinitlist 30) initlist_line)).1 1
      (by decide!),
   (tokenmode_restored 30 body_line
      (stateOf (getbody 30 none none none none false) body_line)).2
      none none none none false (by decide!) (by decide!)⟩

/-- C30: `getbody` returns from its two declaration errors without the call
`tokenmode(oldmode)`.  At `{ local x; }`, a body that is not the top level of
a function, and at `{ 1; local x; }`, a top level body with a declaration
behind a statement, it is entered in the mode in which ends of line are
tokens, changes the mode, counts the error and returns in the mode it
changed to.  At `{ 1; }`, read as an initializer list, `getinitlist` counts its
error and returns in the mode in which it was entered. -/
theorem getbody_error_keeps_mode :
    local_line.newlines = true ∧
    getbody 30 none none none none false local_line =
      Res.ok ()
        { local_line with
          input := [optok T_RIGHTBRACE]
          curtoken := optok T_SEMICOLON
          rescan := true
          newlines := false
          errorcount := 1 } ∧
    late_local_line.newlines = true ∧
    getbody 30 none none none none true late_local_line =
      Res.ok ()
        { late_local_line with
          input := [optok T_RIGHTBRACE]
          curtoken := optok T_SEMICOLON
          rescan := true
          newlines := false
          errorcount := 1
          f_opcodes := [Slot.op OP_DEBUG, Slot.arg 1, Slot.op OP_NUMBER, Slot.arg 0,
            Slot.op OP_SAVE, Slot.op OP_PRINTRESULT]
          oldop := OP_PRINTRESULT
          labels := [{}, {}] } ∧
    body_line.newlines = true ∧
    getinitlist 30 body_line =
      Res.ok (-1)
        { body_line with
          input := [optok T_RIGHTBRACE]
          curtoken := optok T_SEMICOLON
          rescan := true
          newlines := true
          errorcount := 1
          f_opcodes := [Slot.op OP_NUMBER, Slot.arg 0, Slot.op OP_ELEMINIT, Slot.arg 0]
          oldop := OP_ELEMINIT
          labels := [{}, {}] } := by
  decide!

/-! ## Expressions in front of a token that ends them -/

theorem getD_with_labels (ls : List LABEL) :
    (ls ++ [({} : LABEL)] ++ [({} : LABEL)]).getD ls.length {} = {} ∧
    (ls ++ [({} : LABEL)] ++ [({} : LABEL)]).getD (ls ++ [({} : LABEL)]).length {} = {} := by
  constructor
  · rw [List.getD_eq_getElem?_getD, List.getElem?_append_left (by simp),
      List.getElem?_append_right (le_refl _)]
    simp
  · rw [List.getD_eq_getElem?_getD, List.getElem?_append_right (le_refl _)]
    simp

theorem gettoken_rescan (s : PState) (h : s.rescan = true) :
    gettoken s = Res.ok s.curtoken.t_type { s with rescan := false } := by
  simp [gettoken, h]

theorem rescan_again (s : PState) (h : s.rescan = true) :
    ({ ({ s with rescan := false } : PState) with rescan := true } : PState) = s := by
  cases s
  simp only at h
  subst h
  rfl

/-- The relational level passes on what the sum level returned, when the token
left to be read again is no relational operator. -/
theorem getrelation_pass (n : Nat) (s s1 : PState) (type : Nat)
    (hsum : getsum n s = Res.ok type s1) (hr : s1.rescan = true)
    (hT : relation_opcode s1.curtoken.t_type = none) :
    getrelation (n + 1) s = Res.ok type s1 := by
  rw [getrelation, bind_run, hsum]
  dsimp only
  rw [bind_run, gettoken_rescan s1 hr]
  dsimp only
  have he := rescan_again s1 hr
  generalize s1.curtoken.t_type = T at *
  cases T <;> first
    | (dsimp only [bind_run, rescantoken, modS, pure_run]
       rw [he])
    | exact absurd hT (fun h => nomatch h)

/-- The level of `&&` passes on what the relational level returned. -/
theorem getandcond_pass (n : Nat) (s s1 : PState) (type : Nat)
    (hrel : getrelation (n + 1) { s with labels := s.labels ++ [{}] } = Res.ok type s1)
    (hr : s1.rescan = true) (hT : s1.curtoken.t_type ≠ T_ANDAND)
    (hlab : s1.labels.getD s.labels.length {} = {}) :
    getandcond (n + 2) s = Res.ok type s1 := by
  rw [getandcond]
  rw [bind_run_ok (show newlabel s = Res.ok s.labels.length
    { s with labels := s.labels ++ [{}] } from rfl)]
  rw [bind_run_ok hrel, getandcond_loop, bind_run_ok (gettoken_rescan s1 hr)]
  rw [if_neg hT]
  simp only [bind_run, rescantoken, modS, readlabel, rescan_again s1 hr, hlab, pure_run]
  rfl

/-- The level of `||` passes on what the level of `&&` returned. -/
theorem getorcond_pass (n : Nat) (s s1 : PState) (type : Nat)
    (hand : getandcond (n + 1) { s with labels := s.labels ++ [{}] } = Res.ok type s1)
    (hr : s1.rescan = true) (hT : s1.curtoken.t_type ≠ T_OROR)
    (hlab : s1.labels.getD s.labels.length {} = {}) :
    getorcond (n + 2) s = Res.ok type s1 := by
  rw [getorcond]
  rw [bind_run_ok (show newlabel s = Res.ok s.labels.length
    { s with labels := s.labels ++ [{}] } from rfl)]
  rw [bind_run_ok hand, getorcond_loop, bind_run_ok (gettoken_rescan s1 hr)]
  rw [if_neg hT]
  simp only [bind_run, rescantoken, modS, readlabel, rescan_again s1 hr, hlab, pure_run]
  rfl

/-- The conditional level passes on what the level of `||` returned. -/
theorem getaltcond_pass (n : Nat) (s s1 : PState) (type : Nat)
    (hor : getorcond n s = Res.ok type s1)
    (hr : s1.rescan = true) (hT : s1.curtoken.t_type ≠ T_QUESTIONMARK) :
    getaltcond (n + 1) s = Res.ok type s1 := by
  rw [getaltcond, bind_run_ok hor, bind_run_ok (gettoken_rescan s1 hr)]
  rw [if_pos hT]
  simp only [bind_run, rescantoken, modS, rescan_again s1 hr, pure_run]

/-- The assignment level passes on what the conditional level returned. -/
theorem getassignment_pass (n : Nat) (s s1 : PState) (type : Nat)
    (halt : getaltcond n s = Res.ok type s1)
    (hr : s1.rescan = true) (hT : assign_opcode s1.curtoken.t_type = none)
    (hmiss : missing_operator s1.curtoken.t_type = false) :
    getassignment (n + 1) s = Res.ok type s1 := by
  rw [getassignment, bind_run_ok halt]
  dsimp only
  rw [bind_run_ok (gettoken_rescan s1 hr)]
  have he := rescan_again s1 hr
  generalize s1.curtoken.t_type = T at *
  cases T <;> first
    | (dsimp only [bind_run, rescantoken, modS, pure_run]
       rw [he])
    | exact absurd hmiss (by decide)
    | exact absurd hT (by decide)

/-- A sum of number literals in front of a token that continues no expression:
`getassignment` emits the code of the sum and leaves that token to be read
again; the labels of `getorcond` and `getandcond` are declared and not used. -/
theorem getassignment_sum (s : PState) (rest : List Token)
    (hstop : continues_assignment (starts s.newlines rest) = false)
    (e : SumExpr) (n : Nat) (hn : e.cost + 5 ≤ n) (c : List Slot) (o : Opcode) (cur : Token)
    (inp : List Token) (r : Bool)
    (h : (if r then cur :: inp else inp) = e.tokens ++ rest) :
    ∃ type, getassignment n (s.advance c o cur inp r) =
      Res.ok type
        (s.with_labels.advance (c ++ e.tree.postorder) e.tree.lastop
          (scantoken s.newlines rest).1 (scantoken s.newlines rest).2 true) := by
  obtain ⟨m, rfl⟩ : ∃ m, n = m + 5 := ⟨n - 5, by omega⟩
  have hsum : continues_sum (starts s.newlines rest) = false := by
    generalize starts s.newlines rest = T at *
    cases T <;> first | rfl | exact absurd hstop (by decide)
  obtain ⟨type, hg⟩ := getsum_spec s.with_labels rest hsum e m (by omega) c o cur inp r h
  refine ⟨type, ?_⟩
  obtain ⟨hd1, hd2⟩ := getD_with_labels s.labels
  have hnl : s.with_labels.newlines = s.newlines := rfl
  rw [hnl] at hg
  unfold starts at hstop
  have hrel := getrelation_pass m _ _ type hg rfl (by
    show relation_opcode (scantoken s.newlines rest).1.t_type = none
    generalize (scantoken s.newlines rest).1.t_type = T at *
    cases T <;> first | rfl | exact absurd hstop (by decide))
  have hand := getandcond_pass m
    (({ s with labels := s.labels ++ [{}] } : PState).advance c o cur inp r) _ type hrel rfl (by
    show (scantoken s.newlines rest).1.t_type ≠ T_ANDAND
    intro hh; rw [hh] at hstop; exact absurd hstop (by decide)) hd2
  have hor := getorcond_pass (m + 1) (s.advance c o cur inp r) _ type hand rfl (by
    show (scantoken s.newlines rest).1.t_type ≠ T_OROR
    intro hh; rw [hh] at hstop; exact absurd hstop (by decide)) hd1
  have halt := getaltcond_pass (m + 3) _ _ type hor rfl (by
    show (scantoken s.newlines rest).1.t_type ≠ T_QUESTIONMARK
    intro hh; rw [hh] at hstop; exact absurd hstop (by decide))
  exact getassignment_pass (m + 4) _ _ type halt rfl
    (by
      show assign_opcode (scantoken s.newlines rest).1.t_type = none
      generalize (scantoken s.newlines rest).1.t_type = T at *
      cases T <;> first | rfl | exact absurd hstop (by decide))
    (by
      show missing_operator (scantoken s.newlines rest).1.t_type = false
      generalize (scantoken s.newlines rest).1.t_type = T at *
      cases T <;> first | rfl | exact absurd hstop (by decide))

/-- The sum level passes on what the product level returned. -/
theorem getsum_pass (n : Nat) (s s1 : PState) (type : Nat)
    (h : getproduct (n + 1) s = Res.ok type s1) (hr : s1.rescan = true)
    (hT : continues_assignment s1.curtoken.t_type = false) :
    getsum (n + 2) s = Res.ok type s1 := by
  rw [getsum, bind_run_ok h, getsum_loop]
  dsimp only
  rw [bind_run_ok (gettoken_rescan s1 hr)]
  have he := rescan_again s1 hr
  generalize s1.curtoken.t_type = T at *
  cases T <;> first
    | (dsimp only [bind_run, rescantoken, modS, pure_run]
       rw [he])
    | exact absurd hT (by decide)

/-- The product level passes on what the level of `|` returned. -/
theorem getproduct_pass (n : Nat) (s s1 : PState) (type : Nat)
    (h : getorexpr (n + 1) s = Res.ok type s1) (hr : s1.rescan = true)
    (hT : continues_assignment s1.curtoken.t_type = false) :
    getproduct (n + 2) s = Res.ok type s1 := by
  rw [getproduct, bind_run_ok h, getproduct_loop]
  dsimp only
  rw [bind_run_ok (gettoken_rescan s1 hr)]
  have he := rescan_again s1 hr
  generalize s1.curtoken.t_type = T at *
  cases T <;> first
    | (dsimp only [bind_run, rescantoken, modS, pure_run]
       rw [he])
    | exact absurd hT (by decide)

/-- The level of `|` passes on what the level of `&` returned. -/
theorem getorexpr_pass (n : Nat) (s s1 : PState) (type : Nat)
    (h : getandexpr (n + 1) s = Res.ok type s1) (hr : s1.rescan = true)
    (hT : continues_assignment s1.curtoken.t_type = false) :
    getorexpr (n + 2) s = Res.ok type s1 := by
  rw [getorexpr, bind_run_ok h, getorexpr_loop, bind_run_ok (gettoken_rescan s1 hr)]
  have hne : s1.curtoken.t_type ≠ T_OR := by
    intro hh; rw [hh] at hT; exact absurd hT (by decide)
  rw [if_neg hne]
  simp only [bind_run, rescantoken, modS, rescan_again s1 hr, pure_run]

/-- The level of `&` passes on what the shift level returned. -/
theorem getandexpr_pass (n : Nat) (s s1 : PState) (type : Nat)
    (h : getshiftexpr (n + 1) s = Res.ok type s1) (hr : s1.rescan = true)
    (hT : continues_assignment s1.curtoken.t_type = false) :
    getandexpr (n + 2) s = Res.ok type s1 := by
  rw [getandexpr, bind_run_ok h, getandexpr_loop, bind_run_ok (gettoken_rescan s1 hr)]
  have hne : s1.curtoken.t_type ≠ T_AND := by
    intro hh; rw [hh] at hT; exact absurd hT (by decide)
  rw [if_neg hne]
  simp only [bind_run, rescantoken, modS, rescan_again s1 hr, pure_run]

/-- The shift level passes on what `getterm` returned. -/
theorem getshiftexpr_pass (n : Nat) (s s1 : PState) (type : Nat)
    (h : getterm n s = Res.ok type s1) (hr : s1.rescan = true)
    (hT : continues_assignment s1.curtoken.t_type = false) :
    getshiftexpr (n + 1) s = Res.ok type s1 := by
  rw [getshiftexpr, bind_run_ok h, bind_run_ok (gettoken_rescan s1 hr)]
  have he := rescan_again s1 hr
  generalize s1.curtoken.t_type = T at *
  cases T <;> first
    | (simp only [reduceCtorEq, or_self, if_false, bind_run, pure_run, rescantoken, modS]
       rw [he])
    | exact absurd hT (by decide)

/-- All the levels from `getshiftexpr` to `getassignment` pass on what `getterm`
returned, when the token left to be read again continues no expression and
the two labels declared on the way are not used. -/
theorem getassignment_term (n : Nat) (s s1 : PState) (type : Nat)
    (h : getterm n s.with_labels = Res.ok type s1) (hr : s1.rescan = true)
    (hT : continues_assignment s1.curtoken.t_type = false)
    (hlab1 : s1.labels.getD s.labels.length {} = {})
    (hlab2 : s1.labels.getD (s.labels.length + 1) {} = {}) :
    getassignment (n + 10) s = Res.ok type s1 := by
  have h1 := getshiftexpr_pass n _ _ type h hr hT
  have h2 := getandexpr_pass n _ _ type h1 hr hT
  have h3 := getorexpr_pass (n + 1) _ _ type h2 hr hT
  have h4 := getproduct_pass (n + 2) _ _ type h3 hr hT
  have h5 := getsum_pass (n + 3) _ _ type h4 hr hT
  have h6 := getrelation_pass (n + 5) _ _ type h5 hr (by
    generalize s1.curtoken.t_type = T at *
    cases T <;> first | rfl | exact absurd hT (by decide))
  have h7 := getandcond_pass (n + 5) ({ s with labels := s.labels ++ [{}] } : PState) s1 type h6
    hr (by intro hh; rw [hh] at hT; exact absurd hT (by decide))
    (by simpa using hlab2)
  have h8 := getorcond_pass (n + 6) s s1 type h7 hr
    (by intro hh; rw [hh] at hT; exact absurd hT (by decide)) hlab1
  have h9 := getaltcond_pass (n + 8) s s1 type h8 hr
    (by intro hh; rw [hh] at hT; exact absurd hT (by decide))
  exact getassignment_pass (n + 9) s s1 type h9 hr
    (by
      generalize s1.curtoken.t_type = T at *
      cases T <;> first | rfl | exact absurd hT (by decide))
    (by
      generalize s1.curtoken.t_type = T at *
      cases T <;> first | rfl | exact absurd hT (by decide))

theorem symtok_plain (x : Int) : (symtok x).plain := by simp [Token.plain, symtok]

/-- A name that is a global of the function, in front of a token that continues
no expression: `getterm` emits `OP_GLOBALADDR` with the slot of the global and
leaves that token to be read again. -/
theorem getterm_global (n : Nat) (s : PState) (c : List Slot) (o : Opcode) (cur : Token)
    (inp : List Token) (r : Bool) (x : Int) (t : Token) (rest : List Token) (g : Int × Bool)
    (h : (if r then cur :: inp else inp) = symtok x :: t :: rest) (ht : t.plain)
    (hT : continues_assignment t.t_type = false)
    (hT2 : t.t_type ≠ T_LEFTBRACKET ∧ t.t_type ≠ T_PERIOD)
    (hp : s.params.contains x = false) (hl : s.locals.contains x = false)
    (hg : s.globals.find? (fun g => g.1 == x) = some g) :
    getterm (n + 3) (s.advance c o cur inp r) =
      Res.ok 0
        (s.advance (c ++ [Slot.op OP_GLOBALADDR, Slot.arg ((s.globals.map Prod.fst).indexOf x)])
          OP_GLOBALADDR t rest true) := by
  have e1 : (symtok x).t_type = T_SYMBOL := rfl
  have hid : getid (s.advance c o (symtok x) (t :: rest) true) =
      Res.ok (true, x) (s.advance c o (symtok x) (t :: rest) false) := by
    rw [getid, bind_run_ok (gettoken_advance_rescan s c o (symtok x) (t :: rest))]
    rfl
  have huse : usesymbol x false (s.advance c o t rest true) =
      Res.ok () (s.advance (c ++ [Slot.op OP_GLOBALADDR,
        Slot.arg ((s.globals.map Prod.fst).indexOf x)]) OP_GLOBALADDR t rest true) := by
    have hst : symboltype x (s.advance c o t rest true) =
        Res.ok (if g.2 then SYM_STATIC else SYM_GLOBAL) (s.advance c o t rest true) := by
      have hp' : x ∉ s.params := by simpa using hp
      have hl' : x ∉ s.locals := by simpa using hl
      simp [symboltype, PState.advance, hp', hl', hg]
    rw [usesymbol, bind_run_ok hst]
    cases g.2 <;>
      simp [bind_run, findglobal, addopptr, addop, addarg, modS, PState.advance]
  rw [getterm, bind_run_ok (gettoken_advance s c o cur inp r _ _ (symtok_plain x) h)]
  rw [e1]
  dsimp only
  rw [bind_run_ok (rescantoken_advance s c o (symtok x) (t :: rest) false)]
  rw [getidexpr, bind_run_ok hid]
  dsimp only
  rw [if_neg (by decide)]
  rw [bind_run, gettoken_advance s c o (symtok x) (t :: rest) false t rest ht rfl]
  dsimp only
  have hgt := gettoken_advance_rescan s (c ++ [Slot.op OP_GLOBALADDR,
        Slot.arg ((s.globals.map Prod.fst).indexOf x)]) OP_GLOBALADDR t rest
  have hrs := rescantoken_advance s c o t rest false
  obtain ⟨tt, a1, a2, a3, a4⟩ := t
  simp only at hT hT2
  cases tt <;> first
    | exact absurd hT (by decide)
    | exact absurd rfl hT2.1
    | exact absurd rfl hT2.2
    | (dsimp only
       rw [bind_run_ok hrs, bind_run_ok huse, getidexpr_loop, bind_run_ok hgt]
       rfl)

/-- A name that is a global of the function, in front of a token that continues
no expression: `getassignment` emits `OP_GLOBALADDR` with the slot of the
global, returns the flags 0, and leaves that token to be read again. -/
theorem getassignment_global (n : Nat) (s : PState) (c : List Slot) (o : Opcode) (cur : Token)
    (inp : List Token) (r : Bool) (x : Int) (t : Token) (rest : List Token) (g : Int × Bool)
    (h : (if r then cur :: inp else inp) = symtok x :: t :: rest) (ht : t.plain)
    (hT : continues_assignment t.t_type = false)
    (hT2 : t.t_type ≠ T_LEFTBRACKET ∧ t.t_type ≠ T_PERIOD)
    (hp : s.params.contains x = false) (hl : s.locals.contains x = false)
    (hg : s.globals.find? (fun g => g.1 == x) = some g) :
    getassignment (n + 13) (s.advance c o cur inp r) =
      Res.ok 0
        (s.with_labels.advance
          (c ++ [Slot.op OP_GLOBALADDR, Slot.arg ((s.globals.map Prod.fst).indexOf x)])
          OP_GLOBALADDR t rest true) := by
  have h1 := getterm_global n s.with_labels c o cur inp r x t rest g h ht hT hT2 hp hl hg
  obtain ⟨hd1, hd2⟩ := getD_with_labels s.labels
  exact getassignment_term (n + 3) (s.advance c o cur inp r) _ 0 h1 rfl hT
    (by simpa [PState.advance, PState.with_labels] using hd1)
    (by simpa [PState.advance, PState.with_labels] using hd2)

/-! ## Calls -/

theorem grown_with_labels (s : PState) (g : Nat) :
    (s.grown g).with_labels = s.grown (g + 2) := by
  simp [PState.grown, PState.with_labels, List.replicate_succ', List.append_assoc]

theorem writeindexop_advance (s : PState) (c : List Slot) (o : Opcode) (cur : Token)
    (inp : List Token) (r : Bool) (ho : o ≠ OP_INDEXADDR) :
    writeindexop (s.advance c o cur inp r) = Res.ok () (s.advance c o cur inp r) := by
  simp [writeindexop, modS, PState.advance, ho]

theorem callargs_value_round (n : Nat) (name : Int) (op : Opcode) (index k : Int)
    (s : PState) (g : Nat) (c : List Slot) (o : Opcode) (cur : Token) (inp : List Token)
    (r : Bool) (i : Int) (t : Token) (rest : List Token)
    (h : (if r then cur :: inp else inp) = numtok i :: t :: rest)
    (ht : t = optok T_COMMA ∨ t = optok T_RIGHTPAREN) (hn : 15 ≤ n) :
    getcallargs_loop (n + 1) name op index k ((s.grown g).advance c o cur inp r) =
      (if t.t_type = T_RIGHTPAREN then call_end op index (k + 1)
        else getcallargs_loop n name op index (k + 1))
        ((s.grown (g + 2)).advance (c ++ (CallArg.value i).code op s.globals)
          ((CallArg.value i).lastop op) t rest false) := by
  have htp : t.plain := by rcases ht with rfl | rfl <;> simp [Token.plain, optok]
  have hstop : continues_assignment (starts (s.grown g).newlines (t :: rest)) = false := by
    rw [starts_cons _ _ _ htp]
    rcases ht with rfl | rfl <;> rfl
  obtain ⟨type, hg⟩ := getassignment_sum (s.grown g) (t :: rest) hstop (SumExpr.literal i) n
    (by simp [SumExpr.literal, SumExpr.cost, ProductExpr.cost, OrExpr.cost, AndExpr.cost]; omega)
    c o (numtok i) (t :: rest) true rfl
  rw [scantoken_plain _ _ _ htp, grown_with_labels] at hg
  rw [getcallargs_loop]
  dsimp only
  rw [bind_run_ok (gettoken_advance _ c o cur inp r _ _ (numtok_plain i) h)]
  rw [if_neg (fun h => nomatch h)]
  have hnum : (numtok i).t_type = T_NUMBER := rfl
  have hlast : (SumExpr.literal i).tree.lastop = OP_NUMBER := rfl
  have hcode : (SumExpr.literal i).tree.postorder = [Slot.op OP_NUMBER, Slot.arg i] := rfl
  rw [hlast, hcode] at hg
  have hw1 : ∀ c1, writeindexop ((s.grown (g + 2)).advance c1 OP_NUMBER t rest true) =
      Res.ok () ((s.grown (g + 2)).advance c1 OP_NUMBER t rest true) :=
    fun c1 => writeindexop_advance _ c1 _ _ _ _ (by decide)
  have hw2 : ∀ c1, writeindexop ((s.grown (g + 2)).advance c1 OP_GETVALUE t rest true) =
      Res.ok () ((s.grown (g + 2)).advance c1 OP_GETVALUE t rest true) :=
    fun c1 => writeindexop_advance _ c1 _ _ _ _ (by decide)
  simp only at hg
  have hc1 : (optok T_COMMA).t_type = T_COMMA := rfl
  have hc2 : (optok T_RIGHTPAREN).t_type = T_RIGHTPAREN := rfl
  by_cases hop : op = OP_CALL <;> by_cases hq : name = NAME_quomod ∧ k + 1 > 2 <;>
    rcases ht with rfl | rfl <;>
    simp [bind_run, rescantoken_advance, gettoken_advance_rescan, hnum, hg, addop_advance,
      pure_run, hw1, hw2, hop, hq, CallArg.code, CallArg.lastop, hc1, hc2, call_end]

theorem callargs_address_round (n : Nat) (name : Int) (op : Opcode) (index k : Int)
    (s : PState) (g : Nat) (c : List Slot) (o : Opcode) (cur : Token) (inp : List Token)
    (r : Bool) (x : Int) (t : Token) (rest : List Token)
    (h : (if r then cur :: inp else inp) = optok T_AND :: symtok x :: t :: rest)
    (ht : t = optok T_COMMA ∨ t = optok T_RIGHTPAREN) (hn : 15 ≤ n)
    (hk : (CallArg.address x).known s) :
    getcallargs_loop (n + 1) name op index k ((s.grown g).advance c o cur inp r) =
      (if t.t_type = T_RIGHTPAREN then call_end op index (k + 1)
        else getcallargs_loop n name op index (k + 1))
        ((s.grown (g + 2)).advance (c ++ (CallArg.address x).code op s.globals)
          ((CallArg.address x).lastop op) t rest false) := by
  have htp : t.plain := by rcases ht with rfl | rfl <;> simp [Token.plain, optok]
  have hstop : continues_assignment t.t_type = false := by
    rcases ht with rfl | rfl <;> rfl
  have hT2 : t.t_type ≠ T_LEFTBRACKET ∧ t.t_type ≠ T_PERIOD := by
    rcases ht with rfl | rfl <;> exact ⟨by decide, by decide⟩
  obtain ⟨hp, hl, hgl⟩ := hk
  obtain ⟨gl, hgl⟩ := Option.isSome_iff_exists.mp hgl
  obtain ⟨m, rfl⟩ : ∃ m, n = m + 13 := ⟨n - 13, by omega⟩
  have hg := getassignment_global m (s.grown g) (c) o (optok T_AND) (symtok x :: t :: rest) false
    x t rest gl rfl htp hstop hT2 hp hl hgl
  rw [grown_with_labels] at hg
  rw [getcallargs_loop]
  dsimp only
  have hand : (optok T_AND).plain := by simp [Token.plain, optok]
  rw [bind_run_ok (gettoken_advance _ c o cur inp r _ _ hand h)]
  rw [if_neg (fun h => nomatch h)]
  have ha : (optok T_AND).t_type = T_AND := rfl
  have hw : ∀ c1, writeindexop ((s.grown (g + 2)).advance c1 OP_GLOBALADDR t rest true) =
      Res.ok () ((s.grown (g + 2)).advance c1 OP_GLOBALADDR t rest true) :=
    fun c1 => writeindexop_advance _ c1 _ _ _ _ (by decide)
  have hgs : (s.grown g).globals = s.globals := rfl
  rw [hgs] at hg
  have hc1 : (optok T_COMMA).t_type = T_COMMA := rfl
  have hc2 : (optok T_RIGHTPAREN).t_type = T_RIGHTPAREN := rfl
  by_cases hq : name = NAME_quomod ∧ k + 1 > 2 <;>
    rcases ht with rfl | rfl <;>
    simp [bind_run, rescantoken_advance, gettoken_advance_rescan, ha, hg, addop_advance,
      pure_run, hw, hq, CallArg.code, CallArg.lastop, hc1, hc2, call_end, isrvalue]

theorem callargs_empty_round (n : Nat) (name : Int) (op : Opcode) (index k : Int)
    (s : PState) (g : Nat) (c : List Slot) (o : Opcode) (cur : Token) (inp : List Token)
    (r : Bool) (t : Token) (rest : List Token)
    (h : (if r then cur :: inp else inp) = t :: rest)
    (ht : t = optok T_COMMA ∨ t = optok T_RIGHTPAREN) :
    getcallargs_loop (n + 1) name op index k ((s.grown g).advance c o cur inp r) =
      (if t.t_type = T_RIGHTPAREN then call_end op index (k + 1)
        else getcallargs_loop n name op index (k + 1))
        ((s.grown g).advance (c ++ CallArg.empty.code op s.globals)
          (CallArg.empty.lastop op) t rest false) := by
  have htp : t.plain := by rcases ht with rfl | rfl <;> simp [Token.plain, optok]
  rw [getcallargs_loop]
  dsimp only
  rw [bind_run_ok (gettoken_advance _ c o cur inp r _ _ htp h)]
  have hc1 : (optok T_COMMA).t_type = T_COMMA := rfl
  have hc2 : (optok T_RIGHTPAREN).t_type = T_RIGHTPAREN := rfl
  rcases ht with rfl | rfl <;>
    simp [bind_run, rescantoken_advance, gettoken_advance_rescan, addop_advance,
      pure_run, CallArg.code, CallArg.lastop, hc1, hc2, call_end]

/-- One round of the loop of `getcallargs`: an argument in front of a comma or of
the closing parenthesis. -/
theorem callargs_round (a : CallArg) (n : Nat) (name : Int) (op : Opcode) (index k : Int)
    (s : PState) (g : Nat) (c : List Slot) (o : Opcode) (cur : Token) (inp : List Token)
    (r : Bool) (t : Token) (rest : List Token)
    (h : (if r then cur :: inp else inp) = a.tokens ++ t :: rest)
    (ht : t = optok T_COMMA ∨ t = optok T_RIGHTPAREN) (hn : 15 ≤ n) (hk : a.known s) :
    getcallargs_loop (n + 1) name op index k ((s.grown g).advance c o cur inp r) =
      (if t.t_type = T_RIGHTPAREN then call_end op index (k + 1)
        else getcallargs_loop n name op index (k + 1))
        ((s.grown (g + a.nlabels)).advance (c ++ a.code op s.globals)
          (a.lastop op) t rest false) := by
  cases a with
  | value i => exact callargs_value_round n name op index k s g c o cur inp r i t rest h ht hn
  | address x =>
    exact callargs_address_round n name op index k s g c o cur inp r x t rest h ht hn hk
  | empty => exact callargs_empty_round n name op index k s g c o cur inp r t rest h ht

theorem grown_zero (s : PState) : s.grown 0 = s := by
  simp [PState.grown]

theorem call_end_advance (s : PState) (op : Opcode) (index k : Int) (c : List Slot)
    (o : Opcode) (cur : Token) (inp : List Token) (r : Bool)
    (ha : op = OP_CALL → arity_fits s index k) :
    call_end op index k (s.advance c o cur inp r) =
      Res.ok () (s.advance (c ++ [Slot.op op, Slot.arg index, Slot.arg k]) op cur inp r) := by
  by_cases hop : op = OP_CALL
  · obtain ⟨h1, h2⟩ := ha hop
    rw [List.getD_eq_getElem?_getD] at h1 h2
    have h1 : ¬ k < (s.builtins[index.toNat]?.getD
        { b_name := 0, b_minargs := 0, b_maxargs := 0 }).b_minargs := by omega
    have h2 : ¬ (s.builtins[index.toNat]?.getD
        { b_name := 0, b_minargs := 0, b_maxargs := 0 }).b_maxargs < k := by omega
    simp [call_end, hop, builtincheck, bind_run, getS, addopfunction, addop, addarg, modS,
      PState.advance, pure_run, h1, h2]
  · simp [call_end, hop, bind_run, addopfunction, addop, addarg, modS, PState.advance,
      pure_run]

/-- The loop of `getcallargs` over the arguments `a :: l` in front of the closing
parenthesis: it ends with the check and the call for `k + 1 + l.length`
arguments, after the code of the arguments. -/
theorem getcallargs_loop_args (name : Int) (op : Opcode) (index : Int) (s : PState)
    (rest : List Token) (l : List CallArg) :
    ∀ (a : CallArg) (n : Nat) (k : Int) (g : Nat) (c : List Slot) (o : Opcode) (cur : Token)
      (inp : List Token) (r : Bool),
      (∀ b ∈ a :: l, b.known s) →
      (if r then cur :: inp else inp) = call_tokens (a :: l) ++ optok T_RIGHTPAREN :: rest →
      15 + l.length ≤ n →
      getcallargs_loop (n + 1) name op index k ((s.grown g).advance c o cur inp r) =
        call_end op index (k + 1 + l.length)
          ((s.grown (g + call_labels (a :: l))).advance (c ++ call_code op s.globals (a :: l))
            (call_lastop op o (a :: l)) (optok T_RIGHTPAREN) rest false) := by
  induction l with
  | nil =>
    intro a n k g c o cur inp r hk h hn
    have h1 := callargs_round a n name op index k s g c o cur inp r (optok T_RIGHTPAREN) rest
      (by simpa [call_tokens] using h) (Or.inr rfl) (by simpa using hn)
      (hk a (List.mem_cons_self _ _))
    rw [h1, if_pos (show (optok T_RIGHTPAREN).t_type = T_RIGHTPAREN from rfl)]
    simp [call_code, call_lastop, call_labels]
  | cons b l ih =>
    intro a n k g c o cur inp r hk h hn
    obtain ⟨m, rfl⟩ : ∃ m, n = m + 1 := ⟨n - 1, by simp at hn; omega⟩
    have h1 := callargs_round a (m + 1) name op index k s g c o cur inp r (optok T_COMMA)
      (call_tokens (b :: l) ++ optok T_RIGHTPAREN :: rest)
      (by simpa [call_tokens] using h) (Or.inl rfl) (by simp at hn; omega)
      (hk a (List.mem_cons_self _ _))
    rw [h1, if_neg (show ¬ (optok T_COMMA).t_type = T_RIGHTPAREN by decide)]
    rw [ih b m (k + 1) (g + a.nlabels) (c ++ a.code op s.globals) (a.lastop op)
      (optok T_COMMA) (call_tokens (b :: l) ++ optok T_RIGHTPAREN :: rest) false
      (fun x hx => hk x (List.mem_cons_of_mem _ hx)) rfl (by simp at hn; omega)]
    simp [call_code, call_lastop, call_labels, Nat.add_assoc, List.append_assoc]
    congr 1
    omega

/-! ## The call -/

theorem call_tokens_nil_iff (l : List CallArg) (h : l ≠ [CallArg.empty]) (t : Token)
    (ts rest : List Token)
    (he : call_tokens l ++ optok T_RIGHTPAREN :: rest = t :: ts) :
    t.t_type = T_RIGHTPAREN ↔ l = [] := by
  constructor
  · intro h1
    match l, h, he with
    | [], _, _ => rfl
    | [CallArg.empty], h, _ => exact absurd rfl h
    | [CallArg.value i], _, he =>
      simp [call_tokens, CallArg.tokens] at he
      rw [← he.1] at h1
      exact absurd h1 (by simp [numtok])
    | [CallArg.address i], _, he =>
      simp [call_tokens, CallArg.tokens] at he
      rw [← he.1] at h1
      exact absurd h1 (by decide)
    | CallArg.empty :: b :: l, _, he =>
      simp [call_tokens, CallArg.tokens] at he
      rw [← he.1] at h1
      exact absurd h1 (by decide)
    | CallArg.value i :: b :: l, _, he =>
      simp [call_tokens, CallArg.tokens] at he
      rw [← he.1] at h1
      exact absurd h1 (by simp [numtok])
    | CallArg.address i :: b :: l, _, he =>
      simp [call_tokens, CallArg.tokens] at he
      rw [← he.1] at h1
      exact absurd h1 (by decide)
  · rintro rfl
    simp [call_tokens] at he
    rw [← he.1]
    rfl

theorem call_tokens_plain (l : List CallArg) (t : Token) (ts rest : List Token)
    (he : call_tokens l ++ optok T_RIGHTPAREN :: rest = t :: ts) : t.plain := by
  match l, he with
  | [], he =>
    simp [call_tokens] at he
    rw [← he.1]
    simp [Token.plain, optok]
  | [CallArg.empty], he =>
    simp [call_tokens, CallArg.tokens] at he
    rw [← he.1]
    simp [Token.plain, optok]
  | [CallArg.value i], he =>
    simp [call_tokens, CallArg.tokens] at he
    rw [← he.1]
    simp [Token.plain, numtok]
  | [CallArg.address i], he =>
    simp [call_tokens, CallArg.tokens] at he
    rw [← he.1]
    simp [Token.plain, optok]
  | CallArg.empty :: b :: l, he =>
    simp [call_tokens, CallArg.tokens] at he
    rw [← he.1]
    simp [Token.plain, optok]
  | CallArg.value i :: b :: l, he =>
    simp [call_tokens, CallArg.tokens] at he
    rw [← he.1]
    simp [Token.plain, numtok]
  | CallArg.address i :: b :: l, he =>
    simp [call_tokens, CallArg.tokens] at he
    rw [← he.1]
    simp [Token.plain, optok]

/-- The part of `getcallargs` in front of the first token: the function is looked
up among the built-in functions and, when it is not there, among the user
functions, where it is entered when it is new. -/
theorem getcallargs_target (n : Nat) (name : Int) (s : PState) (c : List Slot) (o : Opcode)
    (cur : Token) (inp : List Token) (r : Bool) :
    getcallargs (n + 1) name (s.advance c o cur inp r) =
      (do
        if (← gettoken) = T_RIGHTPAREN then
          call_end (call_target s name).1 (call_target s name).2 0
        else
          rescantoken
          getcallargs_loop n name (call_target s name).1 (call_target s name).2 0)
        ((s.calling name).advance c o cur inp r) := by
  rw [getcallargs]
  by_cases hb : findstr (s.builtins.map BuiltinFunc.b_name) name < 0 <;>
    by_cases hu : name ∈ s.userfuncs <;>
    simp [bind_run, getbuiltinfunc, adduserfunc, hb, hu, pure_run, call_target, PState.calling,
      PState.advance, call_end] <;> rfl

/-! ## The code and the commas of a call -/

theorem call_target_opcode (s : PState) (name : Int) :
    (call_target s name).1 = OP_USERCALL ∨ (call_target s name).1 = OP_CALL := by
  unfold call_target
  split
  · exact Or.inl rfl
  · exact Or.inr rfl

theorem call_code_flatten (op : Opcode) (hop : op = OP_USERCALL ∨ op = OP_CALL)
    (globals : List (Int × Bool)) (l : List CallArg) :
    call_code op globals l =
      (l.map fun a =>
        match a with
        | CallArg.value i =>
          if op = OP_USERCALL then [Slot.op OP_NUMBER, Slot.arg i, Slot.op OP_GETVALUE]
          else [Slot.op OP_NUMBER, Slot.arg i]
        | CallArg.address x =>
          [Slot.op OP_GLOBALADDR, Slot.arg ((globals.map Prod.fst).indexOf x)]
        | CallArg.empty => [Slot.op OP_UNDEF]).flatten := by
  induction l with
  | nil => rfl
  | cons a l ih =>
    rw [call_code, ih, List.map_cons, List.flatten_cons]
    congr 1
    rcases hop with rfl | rfl <;> cases a <;> simp [CallArg.code]

theorem arg_commas (a : CallArg) :
    (a.tokens.filter fun t => t.t_type = T_COMMA) = [] := by
  cases a <;> simp [CallArg.tokens, numtok, optok, symtok]

theorem call_commas (l : List CallArg) (a : CallArg) :
    ((call_tokens (a :: l)).filter fun t => t.t_type = T_COMMA).length + 1 =
      (a :: l).length := by
  induction l generalizing a with
  | nil => simp [call_tokens, arg_commas]
  | cons b l ih =>
    have := ih b
    simp [call_tokens, arg_commas, List.filter_cons, optok] at this ⊢
    omega

/-! ## The arguments of a call -/

/-- The run of `getcallargs`, after `name(`, in front of arguments that are number
literals, addresses `&x` of globals and empty positions, with commas between
them, and the closing parenthesis, no tokens at all being the call `name()`:
the call is emitted with the number of the arguments in the list, which is 0
for `name()` and one more than the number of commas otherwise, after the code
of the arguments; an empty position is `OP_UNDEF`, an address is
`OP_GLOBALADDR` with no `OP_GETVALUE`, and a number is followed by
`OP_GETVALUE` in the call of a user function (`OP_USERCALL`) and by nothing in
the call of a built-in function (`OP_CALL`), whose bounds the number of
arguments is supposed to keep. -/
theorem getcallargs_arguments (n : Nat) (name : Int) (s : PState) (c : List Slot) (o : Opcode)
    (cur : Token) (inp : List Token) (r : Bool) (rest : List Token) (l : List CallArg)
    (hl : l ≠ [CallArg.empty]) (hk : ∀ b ∈ l, b.known s)
    (h : (if r then cur :: inp else inp) = call_tokens l ++ optok T_RIGHTPAREN :: rest)
    (hn : l.length + 17 ≤ n)
    (ha : (call_target s name).1 = OP_CALL → arity_fits s (call_target s name).2 l.length) :
    getcallargs n name (s.advance c o cur inp r) =
      Res.ok ()
        (((s.calling name).grown (call_labels l)).advance
          (c ++ call_code (call_target s name).1 s.globals l ++
            [Slot.op (call_target s name).1, Slot.arg (call_target s name).2,
              Slot.arg l.length])
          (call_target s name).1 (optok T_RIGHTPAREN) rest false) ∧
    call_code (call_target s name).1 s.globals l =
      (l.map fun a =>
        match a with
        | CallArg.value i =>
          if (call_target s name).1 = OP_USERCALL then
            [Slot.op OP_NUMBER, Slot.arg i, Slot.op OP_GETVALUE]
          else [Slot.op OP_NUMBER, Slot.arg i]
        | CallArg.address x =>
          [Slot.op OP_GLOBALADDR, Slot.arg ((s.globals.map Prod.fst).indexOf x)]
        | CallArg.empty => [Slot.op OP_UNDEF]).flatten ∧
    (l ≠ [] → ((call_tokens l).filter fun t => t.t_type = T_COMMA).length + 1 = l.length) := by
  have hgl : (s.calling name).globals = s.globals := by
    simp only [PState.calling]
    split <;> rfl
  have hbu : (s.calling name).builtins = s.builtins := by
    simp only [PState.calling]
    split <;> rfl
  have hpa : (s.calling name).params = s.params := by
    simp only [PState.calling]
    split <;> rfl
  have hlo : (s.calling name).locals = s.locals := by
    simp only [PState.calling]
    split <;> rfl
  refine ⟨?_, ?_, ?_⟩
  · obtain ⟨m, rfl⟩ : ∃ m, n = m + 1 := ⟨n - 1, by omega⟩
    rw [getcallargs_target]
    cases l with
    | nil =>
      rw [bind_run_ok (gettoken_advance _ c o cur inp r (optok T_RIGHTPAREN) rest
        (by simp [Token.plain, optok]) (by simpa [call_tokens] using h))]
      rw [if_pos (show (optok T_RIGHTPAREN).t_type = T_RIGHTPAREN from rfl)]
      rw [call_end_advance _ _ _ _ _ _ _ _ _ (by
        intro hop
        have := ha hop
        simpa [arity_fits, hbu] using this)]
      simp [call_code, call_labels, grown_zero]
    | cons a l =>
      obtain ⟨t, ts, he⟩ : ∃ t ts, call_tokens (a :: l) ++ optok T_RIGHTPAREN :: rest = t :: ts := by
        cases hc : call_tokens (a :: l) ++ optok T_RIGHTPAREN :: rest with
        | nil => simp at hc
        | cons t ts => exact ⟨t, ts, rfl⟩
      have htp := call_tokens_plain _ t ts rest he
      have hne : t.t_type ≠ T_RIGHTPAREN := fun h1 =>
        absurd ((call_tokens_nil_iff _ hl t ts rest he).mp h1) (by simp)
      rw [bind_run_ok (gettoken_advance _ c o cur inp r t ts htp (h.trans he))]
      rw [if_neg hne]
      rw [bind_run_ok (rescantoken_advance _ c o t ts false)]
      obtain ⟨m, rfl⟩ : ∃ k, m = k + 1 := ⟨m - 1, by simp at hn; omega⟩
      have hloop := getcallargs_loop_args name (call_target s name).1 (call_target s name).2
        (s.calling name) rest l a m 0 0 c o t ts true
        (by
          intro b hb
          have := hk b hb
          cases b <;> simp_all [CallArg.known])
        (by simpa using he.symm) (by simp at hn; omega)
      rw [grown_zero] at hloop
      rw [hloop, hgl]
      rw [call_end_advance _ _ _ _ _ _ _ _ _ (by
        intro hop
        have := ha hop
        have hbg : ((s.calling name).grown (call_labels (a :: l))).builtins = s.builtins := hbu
        simpa [arity_fits, hbg, add_comm] using this)]
      simp [add_comm]
  · exact call_code_flatten _ (call_target_opcode s name) _ l
  · intro hne
    cases l with
    | nil => exact absurd rfl hne
    | cons a l => exact call_commas l a

/-- On the calls `f(1, , &a, )`, `f()` and `b(1)`, where `f`, the name 5, is
not built in and `b`, the name 3, is: four arguments for three commas, the
second and the fourth `OP_UNDEF`, the first with `OP_GETVALUE` and the third an
address without; no argument; and one argument without `OP_GETVALUE`. -/
theorem getcallargs_arguments_witness :
    getcallargs 30 5 (call_state.advance [] OP_NOP (optok T_LEFTPAREN) call_lines.1 false) =
      Res.ok ()
        { call_state with
          userfuncs := [5]
          labels := [{}, {}, {}, {}]
          f_opcodes := [Slot.op OP_NUMBER, Slot.arg 0, Slot.op OP_GETVALUE, Slot.op OP_UNDEF,
            Slot.op OP_GLOBALADDR, Slot.arg 0, Slot.op OP_UNDEF,
            Slot.op OP_USERCALL, Slot.arg 0, Slot.arg 4]
          oldop := OP_USERCALL
          curtoken := optok T_RIGHTPAREN
          input := [optok T_SEMICOLON] } ∧
    getcallargs 30 5 (call_state.advance [] OP_NOP (optok T_LEFTPAREN) call_lines.2.2 false) =
      Res.ok ()
        { call_state with
          userfuncs := [5]
          f_opcodes := [Slot.op OP_USERCALL, Slot.arg 0, Slot.arg 0]
          oldop := OP_USERCALL
          curtoken := optok T_RIGHTPAREN
          input := [optok T_SEMICOLON] } ∧
    getcallargs 30 3 (call_state.advance [] OP_NOP (optok T_LEFTPAREN) call_lines.2.1 false) =
      Res.ok ()
        { call_state with
          labels := [{}, {}]
          f_opcodes := [Slot.op OP_NUMBER, Slot.arg 0, Slot.op OP_CALL, Slot.arg 0, Slot.arg 1]
          oldop := OP_CALL
          curtoken := optok T_RIGHTPAREN
          input := [optok T_SEMICOLON] } :=
  ⟨(getcallargs_arguments 30 5 call_state [] OP_NOP (optok T_LEFTPAREN) call_lines.1 false
      [optok T_SEMICOLON]
      [CallArg.value 0, CallArg.empty, CallArg.address 7, CallArg.empty]
      (by decide) (by simp [CallArg.known, call_state]) rfl (by decide)
      (fun h => absurd h (by decide))).1,
   (getcallargs_arguments 30 5 call_state [] OP_NOP (optok T_LEFTPAREN) call_lines.2.2 false
      [optok T_SEMICOLON] [] (by decide) (by simp) rfl (by decide)
      (fun h => absurd h (by decide))).1,
   (getcallargs_arguments 30 3 call_state [] OP_NOP (optok T_LEFTPAREN) call_lines.2.1 false
      [optok T_SEMICOLON] [CallArg.value 0] (by decide) (by simp [CallArg.known]) rfl
      (by decide) (fun _ => ⟨by decide, by decide⟩)).1⟩

/-! ## Initializer lists -/

theorem tokenmode_advance (s : PState) (m : Nat) (c : List Slot) (o : Opcode) (cur : Token)
    (inp : List Token) (r : Bool) :
    tokenmode m (s.advance c o cur inp r) = Res.ok s.mode ((s.inmode m).advance c o cur inp r) :=
  rfl

theorem inmode_mode (s : PState) (m : Nat) : (s.inmode m).inmode s.mode = s := by
  obtain ⟨a1, a2, a3, nl, al, a6, a7, a8, a9, a10, a11, a12, a13, a14, a15, a16, a17, a18, a19,
    a20, a21, a22⟩ := s
  cases nl <;> cases al <;> simp [PState.inmode, PState.mode] <;> decide

theorem inmode_grown (s : PState) (m g : Nat) : (s.grown g).inmode m = (s.inmode m).grown g :=
  rfl

theorem initlist_value_round (n m : Nat) (k : Int)
    (s : PState) (g : Nat) (c : List Slot) (o : Opcode) (cur : Token) (inp : List Token)
    (r : Bool) (i : Int) (t : Token) (rest : List Token)
    (h : (if r then cur :: inp else inp) = numtok i :: t :: rest)
    (ht : t = optok T_COMMA ∨ t = optok T_RIGHTBRACE) (hn : 15 ≤ n) :
    getinitlist_loop (n + 1) m k ((s.grown g).advance c o cur inp r) =
      initlist_next n m k t.t_type
        ((s.grown (g + 2)).advance
          (c ++ [Slot.op OP_NUMBER, Slot.arg i, Slot.op OP_ELEMINIT, Slot.arg k])
          OP_ELEMINIT t rest false) := by
  have htp : t.plain := by rcases ht with rfl | rfl <;> simp [Token.plain, optok]
  have hstop : continues_assignment (starts (s.grown g).newlines (t :: rest)) = false := by
    rw [starts_cons _ _ _ htp]
    rcases ht with rfl | rfl <;> rfl
  obtain ⟨type, hg⟩ := getassignment_sum (s.grown g) (t :: rest) hstop (SumExpr.literal i) n
    (by simp [SumExpr.literal, SumExpr.cost, ProductExpr.cost, OrExpr.cost, AndExpr.cost]; omega)
    c o (numtok i) (t :: rest) true rfl
  rw [scantoken_plain _ _ _ htp, grown_with_labels] at hg
  rw [getinitlist_loop]
  dsimp only
  rw [bind_run_ok (gettoken_advance _ c o cur inp r _ _ (numtok_plain i) h)]
  have hnum : (numtok i).t_type = T_NUMBER := rfl
  have hlast : (SumExpr.literal i).tree.lastop = OP_NUMBER := rfl
  have hcode : (SumExpr.literal i).tree.postorder = [Slot.op OP_NUMBER, Slot.arg i] := rfl
  rw [hlast, hcode] at hg
  simp only at hg
  have hc1 : (optok T_COMMA).t_type = T_COMMA := rfl
  have hc2 : (optok T_RIGHTBRACE).t_type = T_RIGHTBRACE := rfl
  rcases ht with rfl | rfl <;>
    simp [bind_run, rescantoken_advance, gettoken_advance_rescan, hnum, hg, addopone_advance,
      pure_run, hc1, hc2, initlist_next]

theorem initlist_empty_round (n m : Nat) (k : Int)
    (s : PState) (g : Nat) (c : List Slot) (o : Opcode) (cur : Token) (inp : List Token)
    (r : Bool) (t : Token) (rest : List Token)
    (h : (if r then cur :: inp else inp) = t :: rest)
    (ht : t = optok T_COMMA ∨ t = optok T_RIGHTBRACE) :
    getinitlist_loop (n + 1) m k ((s.grown g).advance c o cur inp r) =
      initlist_next n m k t.t_type ((s.grown g).advance c o t rest false) := by
  have htp : t.plain := by rcases ht with rfl | rfl <;> simp [Token.plain, optok]
  rw [getinitlist_loop]
  dsimp only
  rw [bind_run_ok (gettoken_advance _ c o cur inp r _ _ htp h)]
  have hc1 : (optok T_COMMA).t_type = T_COMMA := rfl
  have hc2 : (optok T_RIGHTBRACE).t_type = T_RIGHTBRACE := rfl
  rcases ht with rfl | rfl <;> simp [hc1, hc2, initlist_next]

/-! ## The loop of getinitlist -/

theorem initlist_nested_round (n m : Nat) (k : Int)
    (s : PState) (g : Nat) (c : List Slot) (o : Opcode) (cur : Token) (inp : List Token)
    (r : Bool) (inner : List Token) (t : Token) (rest : List Token) (v : Int) (g1 : Nat)
    (c1 : List Slot) (o1 : Opcode)
    (h : (if r then cur :: inp else inp) = optok T_LEFTBRACE :: (inner ++ t :: rest))
    (hA : getinitlist n ((s.grown g).advance
        (c ++ [Slot.op OP_DUPLICATE, Slot.op OP_ELEMADDR, Slot.arg k]) OP_ELEMADDR
        (optok T_LEFTBRACE) (inner ++ t :: rest) true) =
      Res.ok v ((s.grown (g + g1)).advance
        (c ++ [Slot.op OP_DUPLICATE, Slot.op OP_ELEMADDR, Slot.arg k] ++ c1) o1
        (optok T_RIGHTBRACE) (t :: rest) false))
    (ht : t = optok T_COMMA ∨ t = optok T_RIGHTBRACE) :
    getinitlist_loop (n + 1) m k ((s.grown g).advance c o cur inp r) =
      initlist_next n m k t.t_type
        ((s.grown (g + g1)).advance
          (c ++ [Slot.op OP_DUPLICATE, Slot.op OP_ELEMADDR, Slot.arg k] ++ c1 ++
            [Slot.op OP_ELEMINIT, Slot.arg k])
          OP_ELEMINIT t rest false) := by
  have htp : t.plain := by rcases ht with rfl | rfl <;> simp [Token.plain, optok]
  rw [getinitlist_loop]
  dsimp only
  rw [bind_run_ok (gettoken_advance _ c o cur inp r (optok T_LEFTBRACE) _
    (by simp [Token.plain, optok]) h)]
  have hb : (optok T_LEFTBRACE).t_type = T_LEFTBRACE := rfl
  have hc1 : (optok T_COMMA).t_type = T_COMMA := rfl
  have hc2 : (optok T_RIGHTBRACE).t_type = T_RIGHTBRACE := rfl
  have hg2 := gettoken_advance (s.grown (g + g1))
    (c ++ [Slot.op OP_DUPLICATE, Slot.op OP_ELEMADDR, Slot.arg k] ++ c1 ++
      [Slot.op OP_ELEMINIT, Slot.arg k]) OP_ELEMINIT (optok T_RIGHTBRACE) (t :: rest) false
    t rest htp rfl
  simp only [List.append_assoc, List.cons_append, List.nil_append] at hA hg2
  rcases ht with rfl | rfl <;>
    simp [hb, bind_run, rescantoken_advance, addop_advance, addopone_advance, hA, hg2, hc1, hc2,
      initlist_next]

/-- The function `getinitlist` on a list in braces, when its loop does what
`InitLoop` says. -/
theorem getinitlist_of_loop (l : InitList) (hl : InitLoop l) (n : Nat) (s : PState) (g : Nat)
    (c : List Slot) (o : Opcode) (cur : Token) (inp : List Token) (r : Bool)
    (rest : List Token)
    (h : (if r then cur :: inp else inp) =
      optok T_LEFTBRACE :: (l.tokens ++ optok T_RIGHTBRACE :: rest))
    (hn : l.cost + 1 ≤ n) :
    getinitlist n ((s.grown g).advance c o cur inp r) =
      Res.ok (l.last 0)
        ((s.grown (g + l.nlabels)).advance (c ++ l.code 0) (l.lastop o)
          (optok T_RIGHTBRACE) rest false) := by
  obtain ⟨n, rfl⟩ : ∃ k, n = k + 1 := ⟨n - 1, by omega⟩
  rw [getinitlist, bind_run_ok (tokenmode_advance _ _ c o cur inp r)]
  rw [inmode_grown]
  rw [bind_run_ok (gettoken_advance _ c o cur inp r (optok T_LEFTBRACE) _
    (by simp [Token.plain, optok]) h)]
  rw [if_neg (fun h => h rfl)]
  have := hl n (s.grown g).mode 0 (s.inmode TM_DEFAULT) g c o (optok T_LEFTBRACE)
    (l.tokens ++ optok T_RIGHTBRACE :: rest) false rest rfl (by omega)
  rw [this]
  have hm : (s.grown g).mode = s.mode := rfl
  rw [hm, inmode_mode]

theorem initlist_sep_split (more : InitList) (rest : List Token) :
    (more = InitList.done ∧
      more.sep ++ more.tokens ++ optok T_RIGHTBRACE :: rest = optok T_RIGHTBRACE :: rest) ∨
    (more ≠ InitList.done ∧
      more.sep ++ more.tokens ++ optok T_RIGHTBRACE :: rest =
        optok T_COMMA :: (more.tokens ++ optok T_RIGHTBRACE :: rest)) := by
  cases more
  · exact Or.inl ⟨rfl, rfl⟩
  all_goals exact Or.inr ⟨(fun h => nomatch h), rfl⟩

/-- After a slot, in front of the slots `more`: the loop of `getinitlist` goes on
with them at a comma, and returns at the closing brace. -/
theorem initlist_next_more (more : InitList) (hl : InitLoop more) (n m : Nat) (k : Int)
    (s : PState) (g : Nat) (c : List Slot) (o : Opcode) (t : Token) (ts rest : List Token)
    (h : more.sep ++ more.tokens ++ optok T_RIGHTBRACE :: rest = t :: ts)
    (hn : more.cost ≤ n) :
    initlist_next n m k t.t_type ((s.grown g).advance c o t ts false) =
      Res.ok (if more = InitList.done then k else more.last (k + 1))
        (((s.inmode m).grown (g + more.nlabels)).advance (c ++ more.code (k + 1))
          (more.lastop o) (optok T_RIGHTBRACE) rest false) := by
  rcases initlist_sep_split more rest with ⟨hd, he⟩ | ⟨hd, he⟩
  · rw [he] at h
    obtain ⟨rfl, rfl⟩ := List.cons.inj h
    subst hd
    simp [initlist_next, optok, bind_run, tokenmode_advance, pure_run, InitList.code,
      InitList.lastop, InitList.nlabels, inmode_grown]
  · rw [he] at h
    obtain ⟨rfl, rfl⟩ := List.cons.inj h
    rw [if_neg hd]
    have := hl n m (k + 1) s g c o (optok T_COMMA)
      (more.tokens ++ optok T_RIGHTBRACE :: rest) false rest rfl hn
    rw [← this]
    simp [initlist_next, optok]

/-! ## Every list of slots -/

theorem initlist_cost_pos (l : InitList) : 16 ≤ l.cost := by
  induction l with
  | done => simp [InitList.cost]
  | value i more ih => simp [InitList.cost]; omega
  | nested inner more ih1 ih2 => simp [InitList.cost]; omega
  | empty more ih => simp [InitList.cost]; omega

theorem initlist_sep_token (more : InitList) (rest : List Token) :
    ∃ t ts, more.sep ++ more.tokens ++ optok T_RIGHTBRACE :: rest = t :: ts ∧
      (t = optok T_COMMA ∨ t = optok T_RIGHTBRACE) := by
  rcases initlist_sep_split more rest with ⟨-, he⟩ | ⟨-, he⟩
  · exact ⟨_, _, he, Or.inr rfl⟩
  · exact ⟨_, _, he, Or.inl rfl⟩

/-- The loop of `getinitlist` on every list of slots. -/
theorem initloop_all (l : InitList) : InitLoop l := by
  induction l with
  | done =>
    intro n m k s g c o cur inp r rest h hn
    obtain ⟨n, rfl⟩ : ∃ j, n = j + 1 := ⟨n - 1, by simp [InitList.cost] at hn; omega⟩
    rw [initlist_empty_round n m k s g c o cur inp r (optok T_RIGHTBRACE) rest
      (by simpa [InitList.tokens] using h) (Or.inr rfl)]
    simp [initlist_next, optok, bind_run, tokenmode_advance, pure_run, InitList.code,
      InitList.lastop, InitList.nlabels, InitList.last, inmode_grown]
  | value i more ih =>
    intro n m k s g c o cur inp r rest h hn
    have hc := initlist_cost_pos more
    obtain ⟨n, rfl⟩ : ∃ j, n = j + 1 := ⟨n - 1, by simp [InitList.cost] at hn; omega⟩
    obtain ⟨t, ts, he, ht⟩ := initlist_sep_token more rest
    rw [initlist_value_round n m k s g c o cur inp r i t ts
      (by rw [h]; simp [InitList.tokens]; simpa using he) ht
      (by simp [InitList.cost] at hn; omega)]
    rw [initlist_next_more more ih n m k s (g + 2) _ _ t ts rest he
      (by simp [InitList.cost] at hn; omega)]
    simp [InitList.code, InitList.lastop, InitList.nlabels, InitList.last, Nat.add_assoc]
  | nested inner more ih1 ih2 =>
    intro n m k s g c o cur inp r rest h hn
    have hc := initlist_cost_pos more
    have hc1 := initlist_cost_pos inner
    obtain ⟨n, rfl⟩ : ∃ j, n = j + 1 := ⟨n - 1, by simp [InitList.cost] at hn; omega⟩
    obtain ⟨t, ts, he, ht⟩ := initlist_sep_token more rest
    have hA := getinitlist_of_loop inner ih1 n s g
      (c ++ [Slot.op OP_DUPLICATE, Slot.op OP_ELEMADDR, Slot.arg k]) OP_ELEMADDR
      (optok T_LEFTBRACE) (inner.tokens ++ optok T_RIGHTBRACE :: t :: ts) true (t :: ts) rfl
      (by simp [InitList.cost] at hn; omega)
    rw [initlist_nested_round n m k s g c o cur inp r (inner.tokens ++ [optok T_RIGHTBRACE])
      t ts (inner.last 0) inner.nlabels (inner.code 0) (inner.lastop OP_ELEMADDR)
      (by rw [h]; simp [InitList.tokens]; simpa using he)
      (by simpa using hA) ht]
    rw [initlist_next_more more ih2 n m k s (g + inner.nlabels) _ _ t ts rest he
      (by simp [InitList.cost] at hn; omega)]
    simp [InitList.code, InitList.lastop, InitList.nlabels, InitList.last, Nat.add_assoc]
  | empty more ih =>
    intro n m k s g c o cur inp r rest h hn
    obtain ⟨n, rfl⟩ : ∃ j, n = j + 1 := ⟨n - 1, by simp [InitList.cost] at hn; omega⟩
    obtain ⟨t, ts, he, ht⟩ := initlist_sep_token more rest
    rw [initlist_empty_round n m k s g c o cur inp r t ts
      (by rw [h]; simp [InitList.tokens]; simpa using he) ht]
    rw [initlist_next_more more ih n m k s g _ _ t ts rest he
      (by simp [InitList.cost] at hn; omega)]
    simp [InitList.code, InitList.lastop, InitList.nlabels, InitList.last]

/-! ## Positions in an initializer list -/

theorem values_code (is : List Int) (k : Nat) :
    (InitList.values is).code k =
      ((is.enumFrom k).map fun p =>
        [Slot.op OP_NUMBER, Slot.arg p.2, Slot.op OP_ELEMINIT, Slot.arg p.1]).flatten := by
  induction is generalizing k with
  | nil => rfl
  | cons i is ih =>
    have := ih (k + 1)
    simp only [Nat.cast_add, Nat.cast_one] at this
    simp [InitList.values, InitList.code, List.enumFrom_cons, this]

/-- The run of `getinitlist` on a list in braces whose slots hold number literals,
nested lists of the same kind, or nothing: the code of a literal at the
position `k` is followed by `OP_ELEMINIT k`, a nested list at the position `k`
is `OP_DUPLICATE`, `OP_ELEMADDR k`, the code of the nested list and
`OP_ELEMINIT k`, and an empty slot has no code and takes its position; so
that a list of the `n` literals `is` with no empty slot is the literals, each
followed by its `OP_ELEMINIT`, with the operands 0 to `n - 1` in order. -/
theorem getinitlist_positions (l : InitList) (n : Nat) (s : PState) (c : List Slot)
    (o : Opcode) (cur : Token) (inp : List Token) (r : Bool) (rest : List Token)
    (h : (if r then cur :: inp else inp) =
      optok T_LEFTBRACE :: (l.tokens ++ optok T_RIGHTBRACE :: rest))
    (hn : l.cost + 1 ≤ n) :
    getinitlist n (s.advance c o cur inp r) =
      Res.ok (l.last 0)
        ((s.grown l.nlabels).advance (c ++ l.code 0) (l.lastop o)
          (optok T_RIGHTBRACE) rest false) ∧
    ∀ is : List Int, l = InitList.values is →
      l.code 0 =
        (is.enum.map fun p =>
          [Slot.op OP_NUMBER, Slot.arg p.2, Slot.op OP_ELEMINIT, Slot.arg p.1]).flatten := by
  constructor
  · have := getinitlist_of_loop l (initloop_all l) n s 0 c o cur inp r rest h hn
    rw [grown_zero, Nat.zero_add] at this
    exact this
  · rintro is rfl
    exact values_code is 0

/-- On `{1, {2, 3}, , 4}` the literals are initialised at the positions 0 and
3, the nested list at the position 1, its literals at the positions 0 and 1 of
the nested list, and nothing at the position 2. -/
theorem getinitlist_positions_witness :
    getinitlist 60 (({} : PState).advance [] OP_NOP (optok T_ASSIGN)
        (optok T_LEFTBRACE :: init_line) false) =
      Res.ok 3
        { input := [optok T_SEMICOLON]
          curtoken := optok T_RIGHTBRACE
          labels := [{}, {}, {}, {}, {}, {}, {}, {}]
          oldop := OP_ELEMINIT
          f_opcodes := [Slot.op OP_NUMBER, Slot.arg 0, Slot.op OP_ELEMINIT, Slot.arg 0,
            Slot.op OP_DUPLICATE, Slot.op OP_ELEMADDR, Slot.arg 1,
            Slot.op OP_NUMBER, Slot.arg 1, Slot.op OP_ELEMINIT, Slot.arg 0,
            Slot.op OP_NUMBER, Slot.arg 2, Slot.op OP_ELEMINIT, Slot.arg 1,
            Slot.op OP_ELEMINIT, Slot.arg 1,
            Slot.op OP_NUMBER, Slot.arg 3, Slot.op OP_ELEMINIT, Slot.arg 3] } :=
  (getinitlist_positions
    (InitList.value 0 (InitList.nested (InitList.value 1 (InitList.value 2 InitList.done))
      (InitList.empty (InitList.value 3 InitList.done))))
    60 {} [] OP_NOP (optok T_ASSIGN) (optok T_LEFTBRACE :: init_line) false
    [optok T_SEMICOLON] rfl (by decide)).1

/-! ## The default clause of a switch -/

theorem statement_begin_state (s : PState) :
    (stateOf statement_begin s).f_opcodes = s.f_opcodes ++ [Slot.op OP_DEBUG, Slot.arg s.lineno] ∧
    (stateOf statement_begin s).labels = s.labels ∧
    (stateOf statement_begin s).errorcount = s.errorcount := by
  simp [statement_begin, stateOf, bind_run, linenumber, addopone, addop, addarg, modS]

/-- The `for` statement in `getstatement` up to the `b` part. -/
theorem getstatement_for_init (n : Nat) (contlabel breaklabel nextcaselabel
    defaultlabel : Option Nat) (s s1 s2 : PState)
    (h1 : gettoken (stateOf statement_begin s) = Res.ok T_FOR s1)
    (h2 : gettoken (stateOf for_begin s1) = Res.ok T_LEFTPAREN s2) :
    getstatement (n + 1) contlabel breaklabel nextcaselabel defaultlabel s =
      (do
        if (← gettoken) ≠ T_SEMICOLON then
          rescantoken
          let _ ← getexprlist n
          addop OP_POP
          if (← gettoken) ≠ T_SEMICOLON then scanerror T_SEMICOLON
          else
            (for_test n s.labels.length (s.labels.length + 1) (s.labels.length + 2)
              (s.labels.length + 3))
        else
          (for_test n s.labels.length (s.labels.length + 1) (s.labels.length + 2)
            (s.labels.length + 3))) s2 := by
  obtain ⟨hb1, hb2, hb3⟩ := statement_begin_state s
  have hq1 : Quiet (stateOf statement_begin s) s1 := by
    have := gettoken_quiet (stateOf statement_begin s)
    rw [h1] at this
    exact this
  have hl1 : s1.labels = s.labels := by rw [hq1.labels, hb2]
  have hrun : getstatement (n + 1) contlabel breaklabel nextcaselabel defaultlabel s =
      (do
        if (← gettoken) ≠ T_LEFTPAREN then
          scanerror T_SEMICOLON
        else if (← gettoken) ≠ T_SEMICOLON then
          rescantoken
          let _ ← getexprlist n
          addop OP_POP
          if (← gettoken) ≠ T_SEMICOLON then scanerror T_SEMICOLON
          else
            (for_test n s1.labels.length (s1.labels ++ [({} : LABEL)]).length
              (s1.labels ++ [({} : LABEL)] ++ [({} : LABEL)]).length
              (s1.labels ++ [({} : LABEL)] ++ [({} : LABEL)] ++ [({} : LABEL)]).length)
        else
          (for_test n s1.labels.length (s1.labels ++ [({} : LABEL)]).length
            (s1.labels ++ [({} : LABEL)] ++ [({} : LABEL)]).length
            (s1.labels ++ [({} : LABEL)] ++ [({} : LABEL)] ++ [({} : LABEL)]).length))
        (stateOf for_begin s1) := by
    rw [getstatement.eq_def]
    dsimp only
    rw [bind_run_ok (show linenumber s = Res.ok s.lineno s from rfl)]
    rw [bind_run_ok (show addopone OP_DEBUG s.lineno s = Res.ok () (stateOf statement_begin s)
      from rfl)]
    rw [bind_run_ok h1]
    rfl
  simp only [List.length_append, List.length_singleton, hl1] at hrun
  rw [hrun, bind_run_ok h2, if_neg (fun h => h rfl)]

/-! ## The parts of a for statement -/

theorem for_body_run (n : Nat) (label3 label4 : Nat) (contlabel : Option Nat) (s se : PState)
    (hS : getstatement n (some (contlabel.getD label3)) (some label4) none none
      (stateOf (setlabel label3) s) = Res.ok () se) :
    for_body n label3 label4 contlabel s =
      Res.ok () (stateOf (for_end (contlabel.getD label3) label4) se) := by
  unfold for_body
  rw [bind_run_ok (show setlabel label3 s = Res.ok () (stateOf (setlabel label3) s) from rfl)]
  cases contlabel <;>
  · dsimp only [Option.getD] at hS ⊢
    rw [bind_run_ok hS]
    rfl

theorem for_step_absent (n : Nat) (label1 label2 label3 label4 : Nat) (contlabel : Option Nat)
    (sc0 sd : PState) (hc0 : gettoken sc0 = Res.ok T_RIGHTPAREN sd) :
    for_step n label1 label2 label3 label4 contlabel sc0 =
      for_body n label3 label4 contlabel sd := by
  unfold for_step
  rw [bind_run_ok hc0, if_neg (fun h => h rfl)]

theorem for_step_begin_run (label1 label2 label3 : Nat) (s : PState) (k : P Unit) :
    (do
      if (← readlabel label1).l_offset ≤ 0 then addoplabel OP_JUMP label3
      setlabel label2
      rescantoken
      k) s = k (stateOf (for_step_begin label1 label2 label3) s) := by
  by_cases h : (s.labels.getD label1 {}).l_offset ≤ 0
  · simp only [bind_run, readlabel, if_pos h, for_step_begin, stateOf]
    rfl
  · simp only [bind_run, readlabel, if_neg h, for_step_begin, stateOf]
    rfl

theorem for_step_end_run (label1 : Nat) (s : PState) (k : P Unit) :
    (do
      addop OP_POP
      if (← readlabel label1).l_offset > 0 then addoplabel OP_JUMP label1
      k) s = k (stateOf (for_step_end label1) s) := by
  by_cases h : (s.labels.getD label1 {}).l_offset > 0
  · simp only [bind_run, readlabel, addop, modS, if_pos h, for_step_end, stateOf]
    rfl
  · simp only [bind_run, readlabel, addop, modS, if_neg h, for_step_end, stateOf]
    rfl

theorem for_step_present (n : Nat) (label1 label2 label3 label4 : Nat)
    (contlabel : Option Nat) (sc0 sc sc1 sd : PState) (tokc : TokenType) (tc : Nat)
    (hc0 : gettoken sc0 = Res.ok tokc sc) (hne : tokc ≠ T_RIGHTPAREN)
    (hc : getexprlist n (stateOf (for_step_begin label1 label2 label3) sc) = Res.ok tc sc1)
    (hc2 : gettoken (stateOf (for_step_end label1) sc1) = Res.ok T_RIGHTPAREN sd) :
    for_step n label1 label2 label3 label4 contlabel sc0 =
      for_body n label3 label4 (some label2) sd := by
  unfold for_step
  rw [bind_run_ok hc0, if_pos hne, for_step_begin_run, bind_run_ok hc, for_step_end_run,
    bind_run_ok hc2, if_neg (fun h => h rfl)]

theorem for_test_absent (n : Nat) (label1 label2 label3 label4 : Nat)
    (sa sc0 : PState) (hb0 : gettoken sa = Res.ok T_SEMICOLON sc0) :
    for_test n label1 label2 label3 label4 sa =
      for_step n label1 label2 label3 label4 none sc0 := by
  unfold for_test
  rw [bind_run_ok hb0, if_neg (fun h => h rfl)]

theorem for_test_present (n : Nat) (label1 label2 label3 label4 : Nat)
    (sa sb sb1 sc0 : PState) (tokb : TokenType) (tb : Nat)
    (hb0 : gettoken sa = Res.ok tokb sb) (hne : tokb ≠ T_SEMICOLON)
    (hb : getexprlist n (stateOf (for_test_begin label1) sb) = Res.ok tb sb1)
    (hb2 : gettoken (stateOf (for_test_end label3 label4) sb1) = Res.ok T_SEMICOLON sc0) :
    for_test n label1 label2 label3 label4 sa =
      for_step n label1 label2 label3 label4 (some label1) sc0 := by
  unfold for_test
  rw [bind_run_ok hb0, if_pos hne]
  rw [bind_run_ok (show setlabel label1 sb = Res.ok () (stateOf (setlabel label1) sb) from rfl)]
  rw [bind_run_ok (show rescantoken (stateOf (setlabel label1) sb) =
    Res.ok () (stateOf (for_test_begin label1) sb) from rfl)]
  rw [bind_run_ok hb]
  rw [bind_run_ok (show addoplabel OP_JUMPNE label3 sb1 =
    Res.ok () (stateOf (addoplabel OP_JUMPNE label3) sb1) from rfl)]
  rw [bind_run_ok (show addoplabel OP_JUMP label4 (stateOf (addoplabel OP_JUMPNE label3) sb1) =
    Res.ok () (stateOf (for_test_end label3 label4) sb1) from rfl)]
  rw [bind_run_ok hb2, if_neg (fun h => h rfl)]

/-! ## The labels of a for statement -/

theorem for_begin_state (s : PState) :
    for_begin s = Res.ok (s.labels.length, s.labels.length + 1, s.labels.length + 2,
      s.labels.length + 3) (stateOf for_begin s) ∧
    (stateOf for_begin s).labels.length = s.labels.length + 4 ∧
    (stateOf for_begin s).f_opcodes = s.f_opcodes ∧
    (stateOf for_begin s).labels.getD s.labels.length {} = {} := by
  refine ⟨?_, ?_, ?_, ?_⟩
  · simp [for_begin, stateOf, bind_run, newlabel, pure_run]
  · simp [for_begin, stateOf, bind_run, newlabel, pure_run]
  · simp [for_begin, stateOf, bind_run, newlabel, pure_run]
  · have e : (stateOf for_begin s).labels =
        s.labels ++ [({} : LABEL), ({} : LABEL), ({} : LABEL), ({} : LABEL)] := by
      simp [for_begin, stateOf, bind_run, newlabel, pure_run]
    rw [e, List.getD_append_right _ _ _ _ (le_refl _)]
    simp

theorem setlabel_facts (l : Nat) (s : PState) :
    (stateOf (setlabel l) s).labels.length = s.labels.length ∧
    (stateOf (setlabel l) s).f_opcodes.length = s.f_opcodes.length ∧
    (stateOf (setlabel l) s).oldop = s.oldop ∧
    (∀ i, i ≠ l → (stateOf (setlabel l) s).labels.getD i {} = s.labels.getD i {}) ∧
    (l < s.labels.length →
      ((stateOf (setlabel l) s).labels.getD l {}).l_offset = (s.f_opcodes.length : Int)) := by
  refine ⟨?_, ?_, ?_, ?_, ?_⟩
  · simp [stateOf, setlabel, modS]
  · simp [stateOf, setlabel, modS, patchsites_length]
  · simp [stateOf, setlabel, modS]
  · intro i hi
    have e : (stateOf (setlabel l) s).labels = s.labels.set l
        { s.labels.getD l {} with l_offset := (s.f_opcodes.length : Int), l_sites := [] } := rfl
    rw [e, getD_set, if_neg (fun h => hi h.1)]
  · intro hl
    have e : (stateOf (setlabel l) s).labels = s.labels.set l
        { s.labels.getD l {} with l_offset := (s.f_opcodes.length : Int), l_sites := [] } := rfl
    rw [e, getD_set, if_pos ⟨rfl, hl⟩]

theorem addoplabel_facts (op : Opcode) (l : Nat) (s : PState) :
    (stateOf (addoplabel op l) s).labels.length = s.labels.length ∧
    (stateOf (addoplabel op l) s).f_opcodes.length = s.f_opcodes.length + 2 ∧
    (stateOf (addoplabel op l) s).oldop = op ∧
    (∀ i, i ≠ l → (stateOf (addoplabel op l) s).labels.getD i {} = s.labels.getD i {}) ∧
    (0 ≤ (s.labels.getD l {}).l_offset →
      (stateOf (addoplabel op l) s).labels = s.labels ∧
      (stateOf (addoplabel op l) s).f_opcodes =
        s.f_opcodes ++ [Slot.op op, Slot.arg (s.labels.getD l {}).l_offset]) := by
  have e : stateOf (addoplabel op l) s =
      (if (s.labels.getD l {}).l_offset ≥ 0 then
        { s with
          f_opcodes := s.f_opcodes ++ [Slot.op op] ++ [Slot.arg (s.labels.getD l {}).l_offset]
          oldop := op }
      else
        { s with
          f_opcodes := s.f_opcodes ++ [Slot.op op] ++ [Slot.arg (s.labels.getD l {}).l_chain]
          oldop := op
          labels := s.labels.set l
            { s.labels.getD l {} with
              l_sites := (s.f_opcodes ++ [Slot.op op]).length :: (s.labels.getD l {}).l_sites } }) :=
    rfl
  rw [e]
  by_cases h : (s.labels.getD l {}).l_offset ≥ 0
  · rw [if_pos h]
    exact ⟨rfl, by simp, rfl, fun _ _ => rfl, fun _ => ⟨rfl, by simp⟩⟩
  · rw [if_neg h]
    refine ⟨by simp, by simp, rfl, fun i hi => ?_, fun h0 => absurd h0 h⟩
    dsimp only
    rw [getD_set, if_neg (fun h => hi h.1)]

theorem for_end_state (contlabel label4 : Nat) (s : PState) (h : label4 < s.labels.length) :
    ((stateOf (for_end contlabel label4) s).labels.getD label4 {}).l_offset =
      ((s.f_opcodes.length + 2 : Nat) : Int) ∧
    (stateOf (for_end contlabel label4) s).f_opcodes.length = s.f_opcodes.length + 2 := by
  have e : stateOf (for_end contlabel label4) s =
      stateOf (setlabel label4) (stateOf (addoplabel OP_JUMP contlabel) s) := rfl
  obtain ⟨a1, a2, -, -, -⟩ := addoplabel_facts OP_JUMP contlabel s
  obtain ⟨b1, b2, -, -, b5⟩ := setlabel_facts label4 (stateOf (addoplabel OP_JUMP contlabel) s)
  rw [e]
  exact ⟨by rw [b5 (by omega), a2], by rw [b2, a2]⟩

theorem for_test_begin_state (label1 : Nat) (s : PState) :
    (stateOf (for_test_begin label1) s).labels.length = s.labels.length ∧
    (stateOf (for_test_begin label1) s).f_opcodes.length = s.f_opcodes.length ∧
    (stateOf (for_test_begin label1) s).oldop = s.oldop ∧
    (∀ i, i ≠ label1 →
      (stateOf (for_test_begin label1) s).labels.getD i {} = s.labels.getD i {}) ∧
    (label1 < s.labels.length →
      ((stateOf (for_test_begin label1) s).labels.getD label1 {}).l_offset =
        (s.f_opcodes.length : Int)) :=
  setlabel_facts label1 s

theorem for_test_end_state (label3 label4 : Nat) (s : PState) :
    (stateOf (for_test_end label3 label4) s).labels.length = s.labels.length ∧
    (stateOf (for_test_end label3 label4) s).f_opcodes.length = s.f_opcodes.length + 4 ∧
    (stateOf (for_test_end label3 label4) s).oldop = OP_JUMP ∧
    (∀ i, i ≠ label3 → i ≠ label4 →
      (stateOf (for_test_end label3 label4) s).labels.getD i {} = s.labels.getD i {}) := by
  have e : stateOf (for_test_end label3 label4) s =
      stateOf (addoplabel OP_JUMP label4) (stateOf (addoplabel OP_JUMPNE label3) s) := rfl
  obtain ⟨a1, a2, -, a4, -⟩ := addoplabel_facts OP_JUMPNE label3 s
  obtain ⟨b1, b2, b3, b4, -⟩ :=
    addoplabel_facts OP_JUMP label4 (stateOf (addoplabel OP_JUMPNE label3) s)
  rw [e]
  exact ⟨by rw [b1, a1], by rw [b2, a2], b3, fun i h3 h4 => by rw [b4 i h4, a4 i h3]⟩

theorem for_step_begin_state (label1 label2 label3 : Nat) (s : PState)
    (h12 : label1 ≠ label2) (h13 : label1 ≠ label3) :
    (stateOf (for_step_begin label1 label2 label3) s).labels.length = s.labels.length ∧
    s.f_opcodes.length ≤ (stateOf (for_step_begin label1 label2 label3) s).f_opcodes.length ∧
    (stateOf (for_step_begin label1 label2 label3) s).labels.getD label1 {} =
      s.labels.getD label1 {} ∧
    (label2 < s.labels.length →
      ((stateOf (for_step_begin label1 label2 label3) s).labels.getD label2 {}).l_offset =
        ((stateOf (for_step_begin label1 label2 label3) s).f_opcodes.length : Int)) ∧
    (0 < (s.labels.getD label1 {}).l_offset →
      (stateOf (for_step_begin label1 label2 label3) s).oldop = s.oldop ∧
      (stateOf (for_step_begin label1 label2 label3) s).f_opcodes.length =
        s.f_opcodes.length) ∧
    ((s.labels.getD label1 {}).l_offset ≤ 0 →
      (stateOf (for_step_begin label1 label2 label3) s).oldop = OP_JUMP ∧
      (stateOf (for_step_begin label1 label2 label3) s).f_opcodes.length =
        s.f_opcodes.length + 2) := by
  by_cases h : (s.labels.getD label1 {}).l_offset ≤ 0
  · have e : stateOf (for_step_begin label1 label2 label3) s =
        stateOf rescantoken (stateOf (setlabel label2) (stateOf (addoplabel OP_JUMP label3) s)) := by
      simp only [for_step_begin, stateOf, bind_run, readlabel, if_pos h]
      rfl
    have el : (stateOf (for_step_begin label1 label2 label3) s).labels =
        (stateOf (setlabel label2) (stateOf (addoplabel OP_JUMP label3) s)).labels := by
      rw [e]; rfl
    have ec : (stateOf (for_step_begin label1 label2 label3) s).f_opcodes =
        (stateOf (setlabel label2) (stateOf (addoplabel OP_JUMP label3) s)).f_opcodes := by
      rw [e]; rfl
    have eo : (stateOf (for_step_begin label1 label2 label3) s).oldop =
        (stateOf (setlabel label2) (stateOf (addoplabel OP_JUMP label3) s)).oldop := by
      rw [e]; rfl
    obtain ⟨a1, a2, a3, a4, -⟩ := addoplabel_facts OP_JUMP label3 s
    obtain ⟨b1, b2, b3, b4, b5⟩ := setlabel_facts label2 (stateOf (addoplabel OP_JUMP label3) s)
    rw [el, ec, eo]
    refine ⟨by rw [b1, a1], by rw [b2, a2]; omega, by rw [b4 _ h12, a4 _ h13],
      fun h2 => by rw [b5 (by omega), b2], fun h0 => by omega,
      fun _ => ⟨by rw [b3, a3], by rw [b2, a2]⟩⟩
  · have e : stateOf (for_step_begin label1 label2 label3) s =
        stateOf rescantoken (stateOf (setlabel label2) s) := by
      simp only [for_step_begin, stateOf, bind_run, readlabel, if_neg h]
      rfl
    have el : (stateOf (for_step_begin label1 label2 label3) s).labels =
        (stateOf (setlabel label2) s).labels := by
      rw [e]; rfl
    have ec : (stateOf (for_step_begin label1 label2 label3) s).f_opcodes =
        (stateOf (setlabel label2) s).f_opcodes := by
      rw [e]; rfl
    have eo : (stateOf (for_step_begin label1 label2 label3) s).oldop =
        (stateOf (setlabel label2) s).oldop := by
      rw [e]; rfl
    obtain ⟨b1, b2, b3, b4, b5⟩ := setlabel_facts label2 s
    rw [el, ec, eo]
    refine ⟨b1, by rw [b2], b4 _ h12, fun h2 => by rw [b5 h2, b2], fun _ => ⟨b3, b2⟩,
      fun h0 => absurd h0 h⟩

theorem for_step_end_state (label1 : Nat) (s : PState) :
    (stateOf (for_step_end label1) s).labels.length = s.labels.length ∧
    (∀ i, i ≠ label1 →
      (stateOf (for_step_end label1) s).labels.getD i {} = s.labels.getD i {}) ∧
    (0 < (s.labels.getD label1 {}).l_offset →
      (stateOf (for_step_end label1) s).labels = s.labels ∧
      (stateOf (for_step_end label1) s).f_opcodes =
        s.f_opcodes ++
          [Slot.op OP_POP, Slot.op OP_JUMP, Slot.arg (s.labels.getD label1 {}).l_offset]) ∧
    ((s.labels.getD label1 {}).l_offset ≤ 0 →
      (stateOf (for_step_end label1) s).labels = s.labels) := by
  by_cases h : (s.labels.getD label1 {}).l_offset > 0
  · have e : stateOf (for_step_end label1) s =
        stateOf (addoplabel OP_JUMP label1) (stateOf (addop OP_POP) s) := by
      simp only [for_step_end, stateOf, bind_run, readlabel, addop, modS, if_pos h]
      rfl
    obtain ⟨a1, a2, a3, a4, a5⟩ := addoplabel_facts OP_JUMP label1 (stateOf (addop OP_POP) s)
    have hl : (stateOf (addop OP_POP) s).labels = s.labels := rfl
    have hc : (stateOf (addop OP_POP) s).f_opcodes = s.f_opcodes ++ [Slot.op OP_POP] := rfl
    rw [hl] at a1 a4 a5
    rw [e]
    refine ⟨a1, a4, fun _ => ⟨(a5 (by omega)).1, ?_⟩, fun h0 => by omega⟩
    rw [(a5 (by omega)).2, hc]
    simp
  · have e : stateOf (for_step_end label1) s = stateOf (addop OP_POP) s := by
      simp only [for_step_end, stateOf, bind_run, readlabel, addop, modS, if_neg h]
      rfl
    rw [e]
    exact ⟨rfl, fun _ _ => rfl, fun h0 => absurd h0 h, fun _ => rfl⟩

/-! ## The parts of a for statement that are present -/

theorem gettoken_keeps (s t : PState) (tok : TokenType) (h : gettoken s = Res.ok tok t) :
    t.labels = s.labels ∧ t.f_opcodes = s.f_opcodes ∧ t.oldop = s.oldop := by
  have := gettoken_quiet s
  rw [h] at this
  exact ⟨this.labels, this.f_opcodes, this.oldop⟩

theorem getexprlist_keeps (n : Nat) (s t : PState) (type : Nat)
    (h : getexprlist n s = Res.ok type t) :
    s.labels.length ≤ t.labels.length ∧ s.f_opcodes.length ≤ t.f_opcodes.length ∧
    (∀ i, i < s.labels.length → t.labels.getD i {} = s.labels.getD i {}) ∧
    (s.oldop ≠ OP_INDEXADDR → ∃ code, t.f_opcodes = s.f_opcodes ++ code) := by
  have hf : Frame false [] s t := by
    have := (exprFrames n).getexprlist s
    rw [h] at this
    exact this
  exact ⟨hf.ext.nlabels, hf.ext.length, fun i hi => hf.label_kept i hi,
    fun ho => hf.code_append (fun h => absurd h ho)⟩

theorem for_init_facts (n : Nat) (s2 sa : PState) (present : Bool)
    (h : for_init_parsed n s2 sa present) :
    s2.labels.length ≤ sa.labels.length ∧ s2.f_opcodes.length ≤ sa.f_opcodes.length ∧
    (∀ i, i < s2.labels.length → sa.labels.getD i {} = s2.labels.getD i {}) := by
  cases present with
  | false =>
    obtain ⟨g1, g2, -⟩ := gettoken_keeps _ _ _ h
    rw [g1, g2]
    exact ⟨le_refl _, le_refl _, fun _ _ => rfl⟩
  | true =>
    obtain ⟨tok, s2a, s2b, ta, h1, -, h2, h3⟩ := h
    obtain ⟨g1, g2, -⟩ := gettoken_keeps _ _ _ h1
    obtain ⟨e1, e2, e3, -⟩ := getexprlist_keeps _ _ _ _ h2
    obtain ⟨k1, k2, -⟩ := gettoken_keeps _ _ _ h3
    have r1 : (stateOf rescantoken s2a).labels = s2.labels := g1
    have r2 : (stateOf rescantoken s2a).f_opcodes = s2.f_opcodes := g2
    have p1 : (stateOf (addop OP_POP) s2b).labels = s2b.labels := rfl
    have p2 : (stateOf (addop OP_POP) s2b).f_opcodes = s2b.f_opcodes ++ [Slot.op OP_POP] := rfl
    rw [r1] at e1 e3
    rw [r2] at e2
    rw [k1, k2, p1, p2]
    refine ⟨e1, by simp; omega, e3⟩

theorem for_test_facts (n : Nat) (label1 label3 label4 : Nat) (sa sc0 : PState)
    (bpos : Option Nat) (h13 : label1 ≠ label3) (h14 : label1 ≠ label4)
    (hl : label1 < sa.labels.length)
    (h : for_test_parsed n label1 label3 label4 sa sc0 bpos) :
    sa.labels.length ≤ sc0.labels.length ∧
    (bpos = none → sc0.labels.getD label1 {} = sa.labels.getD label1 {}) ∧
    (∀ b, bpos = some b →
      (sc0.labels.getD label1 {}).l_offset = (b : Int) ∧ sa.f_opcodes.length ≤ b ∧
      sc0.oldop = OP_JUMP) := by
  cases bpos with
  | none =>
    obtain ⟨g1, -, -⟩ := gettoken_keeps _ _ _ h
    rw [g1]
    exact ⟨le_refl _, (fun _ => rfl), fun b hb => nomatch hb⟩
  | some p =>
    obtain ⟨tokb, sb, sb1, tb, h1, -, hp, h2, h3⟩ := h
    obtain ⟨g1, g2, -⟩ := gettoken_keeps _ _ _ h1
    obtain ⟨t1, t2, -, t4, t5⟩ := for_test_begin_state label1 sb
    obtain ⟨e1, e2, e3, -⟩ := getexprlist_keeps _ _ _ _ h2
    obtain ⟨f1, f2, f3, f4⟩ := for_test_end_state label3 label4 sb1
    obtain ⟨k1, k2, k3⟩ := gettoken_keeps _ _ _ h3
    rw [k1, k3, f1, f3]
    rw [t1, g1] at e1 e3
    refine ⟨e1, (fun hn => nomatch hn), fun b hb => ?_⟩
    obtain rfl : p = b := Option.some.inj hb
    refine ⟨?_, by rw [hp, g2], rfl⟩
    rw [f4 _ h13 h14, e3 _ hl, t5 (by rw [g1]; exact hl), hp]

theorem for_step_facts (n : Nat) (label1 label2 label3 : Nat) (sc0 sd : PState)
    (cpos : Option Nat) (h12 : label1 ≠ label2) (h13 : label1 ≠ label3)
    (hl1 : label1 < sc0.labels.length) (hl2 : label2 < sc0.labels.length)
    (h : for_step_parsed n label1 label2 label3 sc0 sd cpos) :
    sc0.labels.length ≤ sd.labels.length ∧
    sd.labels.getD label1 {} = sc0.labels.getD label1 {} ∧
    (∀ c, cpos = some c →
      (sd.labels.getD label2 {}).l_offset = (c : Int) ∧
      (0 < (sc0.labels.getD label1 {}).l_offset → sc0.oldop ≠ OP_INDEXADDR →
        ∃ codeC, sd.f_opcodes.drop c =
          codeC ++ [Slot.op OP_POP, Slot.op OP_JUMP,
            Slot.arg (sc0.labels.getD label1 {}).l_offset])) := by
  cases cpos with
  | none =>
    obtain ⟨g1, -, -⟩ := gettoken_keeps _ _ _ h
    rw [g1]
    exact ⟨le_refl _, rfl, fun c hc => nomatch hc⟩
  | some p =>
    obtain ⟨tokc, sc, sc1, tc, h1, -, hp, h2, h3⟩ := h
    obtain ⟨g1, g2, g3⟩ := gettoken_keeps _ _ _ h1
    obtain ⟨t1, t2, t3, t4, t5, t6⟩ := for_step_begin_state label1 label2 label3 sc h12 h13
    obtain ⟨e1, e2, e3, e4⟩ := getexprlist_keeps _ _ _ _ h2
    obtain ⟨f1, f2, f3, f4⟩ := for_step_end_state label1 sc1
    obtain ⟨k1, k2, k3⟩ := gettoken_keeps _ _ _ h3
    rw [t1, g1] at e1 e3
    have hL1 : sc1.labels.getD label1 {} = sc0.labels.getD label1 {} := by
      rw [e3 _ hl1, t3, g1]
    refine ⟨by rw [k1, f1]; exact e1, ?_, fun c hc => ?_⟩
    · rw [k1]
      by_cases h0 : 0 < (sc1.labels.getD label1 {}).l_offset
      · rw [(f3 h0).1, hL1]
      · rw [f4 (by omega), hL1]
    · obtain rfl : p = c := Option.some.inj hc
      refine ⟨?_, fun h0 ho => ?_⟩
      · rw [k1, f2 _ (Ne.symm h12), e3 _ hl2, t4 (by rw [g1]; exact hl2), hp]
      · rw [← g1] at h0
        obtain ⟨code, hcode⟩ := e4 (by rw [(t5 h0).1, g3]; exact ho)
        refine ⟨code, ?_⟩
        rw [g1] at h0
        rw [k2, (f3 (by rw [hL1]; exact h0)).2, hL1, hcode, hp, List.append_assoc,
          List.drop_left]

/-! ## The labels handed to the body of a for statement -/

/-- C21: the `for` statement.  Behind `for (`, let the parts `a`, `b` and `c`
be parsed, each present or not, `b` at the position `b` and `c` at the position
`c` when they are present, and let the body be parsed by `getstatement` with
the continue label `for_continue` and the break label `label4`, the labels of
the statement being the four that are new.  Then `getstatement` returns in
the state that `for_end` leaves of the body; at the beginning of the body the
continue label handed to it, which is `label2` when `c` is present, otherwise
`label1` when `b` is present, otherwise `label3`, is resolved to the position
of `c`, otherwise to the position of `b`, otherwise to the offset at which
the body begins; `for_end` emits the jump to that continue label and resolves
the break label to the offset behind the jump; and when `b` and `c` are
present, the code of `c` is followed by `OP_POP` and the jump back to the
position of `b`. -/
theorem getstatement_for (n : Nat) (contlabel breaklabel nextcaselabel
    defaultlabel : Option Nat) (s s1 s2 sa sc0 sd se : PState) (apresent : Bool)
    (bpos cpos : Option Nat) (l : Nat) (hl : l = s.labels.length)
    (h1 : gettoken (stateOf statement_begin s) = Res.ok T_FOR s1)
    (h2 : gettoken (stateOf for_begin s1) = Res.ok T_LEFTPAREN s2)
    (ha : for_init_parsed n s2 sa apresent)
    (hb : for_test_parsed n l (l + 2) (l + 3) sa sc0 bpos)
    (hc : for_step_parsed n l (l + 1) (l + 2) sc0 sd cpos)
    (hS : getstatement n (some (for_continue l (l + 1) (l + 2) bpos cpos)) (some (l + 3))
      none none (stateOf (setlabel (l + 2)) sd) = Res.ok () se) :
    getstatement (n + 1) contlabel breaklabel nextcaselabel defaultlabel s =
      Res.ok () (stateOf (for_end (for_continue l (l + 1) (l + 2) bpos cpos) (l + 3)) se) ∧
    for_end (for_continue l (l + 1) (l + 2) bpos cpos) (l + 3) =
      (do
        addoplabel OP_JUMP (for_continue l (l + 1) (l + 2) bpos cpos)
        setlabel (l + 3)) ∧
    ((stateOf (setlabel (l + 2)) sd).labels.getD
        (for_continue l (l + 1) (l + 2) bpos cpos) {}).l_offset =
      ((cpos.getD (bpos.getD sd.f_opcodes.length) : Nat) : Int) ∧
    (stateOf (setlabel (l + 2)) sd).f_opcodes.length = sd.f_opcodes.length ∧
    ((stateOf (for_end (for_continue l (l + 1) (l + 2) bpos cpos) (l + 3)) se).labels.getD
        (l + 3) {}).l_offset = ((se.f_opcodes.length + 2 : Nat) : Int) ∧
    (stateOf (for_end (for_continue l (l + 1) (l + 2) bpos cpos) (l + 3)) se).f_opcodes.length =
      se.f_opcodes.length + 2 ∧
    (∀ b c, bpos = some b → cpos = some c →
      ∃ codeC, sd.f_opcodes.drop c =
        codeC ++ [Slot.op OP_POP, Slot.op OP_JUMP, Slot.arg (b : Int)]) := by
  subst hl
  obtain ⟨hb1, hb2, -⟩ := statement_begin_state s
  obtain ⟨q1, q2, -⟩ := gettoken_keeps _ _ _ h1
  obtain ⟨-, fb2, fb3, fb4⟩ := for_begin_state s1
  obtain ⟨r1, r2, -⟩ := gettoken_keeps _ _ _ h2
  have hl1 : s1.labels.length = s.labels.length := by rw [q1, hb2]
  have hlen2 : s2.labels.length = s.labels.length + 4 := by rw [r1, fb2, hl1]
  have hcode2 : 2 ≤ s2.f_opcodes.length := by
    rw [r2, fb3, q2, hb1]
    simp
  have hlab2 : s2.labels.getD s.labels.length {} = {} := by
    rw [r1, ← hl1]
    exact fb4
  obtain ⟨a1, a2, a3⟩ := for_init_facts n s2 sa apresent ha
  obtain ⟨b1, b2, b3⟩ := for_test_facts n _ _ _ sa sc0 bpos (by omega) (by omega) (by omega) hb
  obtain ⟨c1, c2, c3⟩ := for_step_facts n _ _ _ sc0 sd cpos (by omega) (by omega) (by omega)
    (by omega) hc
  obtain ⟨d1, d2, -, d4, d5⟩ := setlabel_facts (s.labels.length + 2) sd
  have hfS : Frame true
      (handed
        (some (for_continue s.labels.length (s.labels.length + 1) (s.labels.length + 2) bpos cpos))
        (some (s.labels.length + 3)) none none)
      (stateOf (setlabel (s.labels.length + 2)) sd) se := by
    have := (stmtFrames n).getstatement
      (some (for_continue s.labels.length (s.labels.length + 1) (s.labels.length + 2) bpos cpos))
      (some (s.labels.length + 3)) none none (stateOf (setlabel (s.labels.length + 2)) sd)
    rw [hS] at this
    exact this
  have hlen_e : s.labels.length + 3 < se.labels.length := by
    have := hfS.ext.nlabels
    omega
  obtain ⟨e1, e2⟩ := for_end_state
    (for_continue s.labels.length (s.labels.length + 1) (s.labels.length + 2) bpos cpos)
    (s.labels.length + 3) se hlen_e
  have hrun0 := getstatement_for_init n contlabel breaklabel nextcaselabel defaultlabel s s1 s2
    h1 h2
  have hrunA : getstatement (n + 1) contlabel breaklabel nextcaselabel defaultlabel s =
      for_test n s.labels.length (s.labels.length + 1) (s.labels.length + 2)
        (s.labels.length + 3) sa := by
    rw [hrun0]
    cases apresent with
    | false => rw [bind_run_ok ha, if_neg (fun h => h rfl)]
    | true =>
      obtain ⟨tok, s2a, s2b, ta, g1, g2, g3, g4⟩ := ha
      rw [bind_run_ok g1, if_pos g2]
      rw [bind_run_ok (show rescantoken s2a = Res.ok () (stateOf rescantoken s2a) from rfl)]
      rw [bind_run_ok g3]
      rw [bind_run_ok (show addop OP_POP s2b = Res.ok () (stateOf (addop OP_POP) s2b) from rfl)]
      rw [bind_run_ok g4, if_neg (fun h => h rfl)]
  have hrunB : for_test n s.labels.length (s.labels.length + 1) (s.labels.length + 2)
        (s.labels.length + 3) sa =
      for_step n s.labels.length (s.labels.length + 1) (s.labels.length + 2)
        (s.labels.length + 3) (bpos.map fun _ => s.labels.length) sc0 := by
    cases bpos with
    | none => exact for_test_absent _ _ _ _ _ _ _ hb
    | some p =>
      obtain ⟨tokb, sb, sb1, tb, g1, g2, -, g3, g4⟩ := hb
      exact for_test_present _ _ _ _ _ _ _ _ _ _ _ g1 g2 g3 g4
  have hrunC : for_step n s.labels.length (s.labels.length + 1) (s.labels.length + 2)
        (s.labels.length + 3) (bpos.map fun _ => s.labels.length) sc0 =
      Res.ok () (stateOf (for_end
        (for_continue s.labels.length (s.labels.length + 1) (s.labels.length + 2) bpos cpos)
        (s.labels.length + 3)) se) := by
    cases cpos with
    | none =>
      rw [for_step_absent _ _ _ _ _ _ _ _ hc]
      cases bpos <;> exact for_body_run _ _ _ _ _ _ hS
    | some p =>
      obtain ⟨tokc, sc, sc1, tc, g1, g2, -, g3, g4⟩ := hc
      rw [for_step_present _ _ _ _ _ _ _ _ _ _ _ _ g1 g2 g3 g4]
      cases bpos <;> exact for_body_run _ _ _ _ _ _ hS
  refine ⟨by rw [hrunA, hrunB, hrunC], rfl, ?_, d2, e1, e2, ?_⟩
  · cases cpos with
    | some c =>
      have := (c3 c rfl).1
      cases bpos <;>
      · simp only [for_continue, Option.getD]
        rw [d4 _ (by omega), this]
    | none =>
      cases bpos with
      | some b =>
        simp only [for_continue, Option.getD]
        rw [d4 _ (by omega), c2, (b3 b rfl).1]
      | none =>
        simp only [for_continue, Option.getD]
        rw [d5 (by omega)]
  · rintro b c rfl rfl
    obtain ⟨k1, k2, k3⟩ := b3 b rfl
    have := (c3 c rfl).2 (by rw [k1]; omega) (by rw [k3]; decide)
    rw [k1] at this
    exact this

/-! ## Three for statements -/

/-- C21 on `for (1; 2; 3) ;`, where the test is at the offset 5 and the increment
at the offset 11: the increment is followed by `OP_POP` and `OP_JUMP 5`, the
jump behind the body is `OP_JUMP 11`, and the break label is the offset 20
behind it; on `for (; 2;) continue;`, where the test is at the offset 2: the
`continue` and the jump behind the body are `OP_JUMP 2`; and on `for (;;) ;`,
where the body is at the offset 2: the jump behind the body is `OP_JUMP 2`. -/
theorem getstatement_for_witness :
    (∃ t, getstatement 31 none none none none for_line = Res.ok () t ∧
      t.f_opcodes =
        [Slot.op OP_DEBUG, Slot.arg 1, Slot.op OP_NUMBER, Slot.arg 0, Slot.op OP_POP,
          Slot.op OP_NUMBER, Slot.arg 1, Slot.op OP_JUMPNE, Slot.arg 16,
          Slot.op OP_JUMP, Slot.arg 20,
          Slot.op OP_NUMBER, Slot.arg 2, Slot.op OP_POP, Slot.op OP_JUMP, Slot.arg 5,
          Slot.op OP_DEBUG, Slot.arg 1, Slot.op OP_JUMP, Slot.arg 11] ∧
      (t.labels.getD 3 {}).l_offset = 20) ∧
    (∃ t, getstatement 31 none none none none for_while = Res.ok () t ∧
      t.f_opcodes =
        [Slot.op OP_DEBUG, Slot.arg 1, Slot.op OP_NUMBER, Slot.arg 1, Slot.op OP_JUMPNE,
          Slot.arg 8, Slot.op OP_JUMP, Slot.arg 14,
          Slot.op OP_DEBUG, Slot.arg 1, Slot.op OP_JUMP, Slot.arg 2,
          Slot.op OP_JUMP, Slot.arg 2] ∧
      (t.labels.getD 3 {}).l_offset = 14) ∧
    (∃ t, getstatement 31 none none none none for_ever = Res.ok () t ∧
      t.f_opcodes =
        [Slot.op OP_DEBUG, Slot.arg 1, Slot.op OP_DEBUG, Slot.arg 1, Slot.op OP_JUMP,
          Slot.arg 2] ∧
      (t.labels.getD 3 {}).l_offset = 6) := by
  refine ⟨?_, ?_, ?_⟩
  · have h := getstatement_for 30 none none none none for_line
      (stateOf gettoken (stateOf statement_begin for_line)) (for_open for_line)
      (for_init_states (for_open for_line)).2.2
      (for_test_states (for_init_states (for_open for_line)).2.2).2.2
      (for_step_states (for_test_states (for_init_states (for_open for_line)).2.2).2.2).2.2
      (for_body_state 1
        (for_step_states (for_test_states (for_init_states (for_open for_line)).2.2).2.2).2.2)
      true (some 5) (some 11) 0 rfl (by decide!) (by decide!)
      ⟨T_NUMBER, (for_init_states (for_open for_line)).1,
        (for_init_states (for_open for_line)).2.1, 3, by decide!, by decide, by decide!,
        by decide!⟩
      ⟨T_NUMBER, (for_test_states (for_init_states (for_open for_line)).2.2).1,
        (for_test_states (for_init_states (for_open for_line)).2.2).2.1, 3, by decide!,
        by decide, by decide!, by decide!, by decide!⟩
      ⟨T_NUMBER,
        (for_step_states (for_test_states (for_init_states (for_open for_line)).2.2).2.2).1,
        (for_step_states (for_test_states (for_init_states (for_open for_line)).2.2).2.2).2.1,
        3, by decide!, by decide, by decide!, by decide!, by decide!⟩
      (by decide!)
    exact ⟨_, h.1, by decide!, by decide!⟩
  · have h := getstatement_for 30 none none none none for_while
      (stateOf gettoken (stateOf statement_begin for_while)) (for_open for_while)
      (stateOf gettoken (for_open for_while))
      (for_test_states (stateOf gettoken (for_open for_while))).2.2
      (stateOf gettoken (for_test_states (stateOf gettoken (for_open for_while))).2.2)
      (for_body_state 0
        (stateOf gettoken (for_test_states (stateOf gettoken (for_open for_while))).2.2))
      false (some 2) none 0 rfl (by decide!) (by decide!)
      (show gettoken (for_open for_while) = _ by decide!)
      ⟨T_NUMBER, (for_test_states (stateOf gettoken (for_open for_while))).1,
        (for_test_states (stateOf gettoken (for_open for_while))).2.1, 3, by decide!,
        by decide, by decide!, by decide!, by decide!⟩
      (show gettoken _ = _ by decide!)
      (by decide!)
    exact ⟨_, h.1, by decide!, by decide!⟩
  · have h := getstatement_for 30 none none none none for_ever
      (stateOf gettoken (stateOf statement_begin for_ever)) (for_open for_ever)
      (stateOf gettoken (for_open for_ever))
      (stateOf gettoken (stateOf gettoken (for_open for_ever)))
      (stateOf gettoken (stateOf gettoken (stateOf gettoken (for_open for_ever))))
      (for_body_state 2
        (stateOf gettoken (stateOf gettoken (stateOf gettoken (for_open for_ever)))))
      false none none 0 rfl (by decide!) (by decide!)
      (show gettoken (for_open for_ever) = _ by decide!)
      (show gettoken _ = _ by decide!)
      (show gettoken _ = _ by decide!)
      (by decide!)
    exact ⟨_, h.1, by decide!, by decide!⟩

/-! ## Static declarations -/

set_option maxHeartbeats 1600000 in
theorem static_declarator_spec (n : Nat) : Spec false [] (static_declarator n) := by
  refine Keeps.to_spec fun s0 => ?_
  unfold static_declarator
  repeat' first
    | with_reducible refine keeps_newlabel (fun _ _ => ?_)
    | with_reducible refine keeps_getS (fun _ _ => ?_)
    | with_reducible refine keeps_bind ?_ (fun _ => ?_)
    | with_reducible refine keeps_ite (fun _ => ?_) (fun _ => ?_)
    | with_reducible exact keeps_pure _
    | with_reducible exact gettoken_quiet.keeps_quiet
    | with_reducible exact rescantoken_quiet.keeps_quiet
    | with_reducible exact tokenstring_quiet.keeps_quiet
    | with_reducible exact tokennumber_quiet.keeps_quiet
    | with_reducible exact (tokenmode_quiet _).keeps_quiet
    | with_reducible exact (scanerror_quiet _).keeps_quiet
    | with_reducible exact getS_quiet.keeps_quiet
    | with_reducible exact outOfFuel_quiet.keeps_quiet
    | with_reducible exact math_error_quiet.keeps_quiet
    | with_reducible exact (symboltype_quiet _).keeps_quiet
    | with_reducible exact (getbuiltinfunc_quiet _).keeps_quiet
    | with_reducible exact (adduserfunc_quiet _).keeps_quiet
    | with_reducible exact (addelement_quiet _).keeps_quiet
    | with_reducible exact (checkobject_quiet _).keeps_quiet
    | with_reducible exact (defineobject_quiet _ _).keeps_quiet
    | with_reducible exact (addqconstant_quiet _).keeps_quiet
    | with_reducible exact (readlabel_quiet _).keeps_quiet
    | with_reducible exact (builtincheck_quiet _ _).keeps_quiet
    | with_reducible exact getid_quiet.keeps_quiet
    | with_reducible exact (definesymbol_quiet _ _).keeps_quiet
    | with_reducible exact (skipcommas_quiet _).keeps_quiet
    | with_reducible exact linenumber_quiet.keeps_quiet
    | with_reducible exact nextchar_is_colon_quiet.keeps_quiet
    | with_reducible exact (stringindex_quiet _).keeps_quiet
    | with_reducible exact (addop_spec _).keeps_expr
    | with_reducible exact (addopone_spec _ _).keeps_expr
    | with_reducible exact (addoptwo_spec _ _ _).keeps_expr
    | with_reducible exact (addopptr_spec _ _).keeps_expr
    | with_reducible exact (addopfunction_spec _ _ _).keeps_expr
    | with_reducible exact clearopt_spec.keeps_expr
    | with_reducible exact writeindexop_spec.keeps_expr
    | with_reducible exact (usesymbol_spec _ _).keeps_expr
    | with_reducible exact getelement_spec.keeps_expr
    | with_reducible exact (getshiftexpr_loop_spec _).keeps_expr
    | with_reducible exact (exprFrames _).getexprlist |>.keeps_expr
    | with_reducible exact (exprFrames _).getexprlist_loop _ |>.keeps_expr
    | with_reducible exact (exprFrames _).getassignment |>.keeps_expr
    | with_reducible exact (exprFrames _).getaltcond |>.keeps_expr
    | with_reducible exact (exprFrames _).getorcond |>.keeps_expr
    | with_reducible exact (exprFrames _).getandcond |>.keeps_expr
    | with_reducible exact (exprFrames _).getrelation |>.keeps_expr
    | with_reducible exact (exprFrames _).getsum |>.keeps_expr
    | with_reducible exact (exprFrames _).getsum_loop _ |>.keeps_expr
    | with_reducible exact (exprFrames _).getproduct |>.keeps_expr
    | with_reducible exact (exprFrames _).getproduct_loop _ |>.keeps_expr
    | with_reducible exact (exprFrames _).getorexpr |>.keeps_expr
    | with_reducible exact (exprFrames _).getorexpr_loop _ |>.keeps_expr
    | with_reducible exact (exprFrames _).getandexpr |>.keeps_expr
    | with_reducible exact (exprFrames _).getandexpr_loop _ |>.keeps_expr
    | with_reducible exact (exprFrames _).getshiftexpr |>.keeps_expr
    | with_reducible exact (exprFrames _).getterm |>.keeps_expr
    | with_reducible exact (exprFrames _).getidexpr _ _ |>.keeps_expr
    | with_reducible exact (exprFrames _).getidexpr_loop _ |>.keeps_expr
    | with_reducible exact (exprFrames _).getmatargs |>.keeps_expr
    | with_reducible exact (exprFrames _).getmatargs_loop _ |>.keeps_expr
    | with_reducible exact (exprFrames _).getcallargs _ |>.keeps_expr
    | with_reducible exact (exprFrames _).getcallargs_loop _ _ _ _ |>.keeps_expr
    | with_reducible exact (exprFrames _).getmatdeclaration _ |>.keeps_expr
    | with_reducible exact (exprFrames _).getonematrix _ |>.keeps_expr
    | with_reducible exact (exprFrames _).creatematrix _ |>.keeps_expr
    | with_reducible exact (exprFrames _).getinitlist |>.keeps_expr
    | with_reducible exact (exprFrames _).getinitlist_loop _ _ |>.keeps_expr
    | with_reducible exact (exprFrames _).getobjdeclaration _ |>.keeps_expr
    | with_reducible exact (exprFrames _).getobjdeclaration_loop _ _ _ _ |>.keeps_expr
    | with_reducible exact (exprFrames _).getoneobj _ _ |>.keeps_expr
    | with_reducible exact (exprFrames _).getobjvars _ _ |>.keeps_expr
    | with_reducible exact (exprFrames _).getobjvars_loop _ _ |>.keeps_expr
    | with_reducible exact (setlabel_spec _).keeps_label (by first | exact Or.inl (by assumption) | exact Or.inr (by simp))
    | with_reducible exact (addoplabel_spec _ _).keeps_label (by first | exact Or.inl (by assumption) | exact Or.inr (by simp))
    | with_reducible exact (clearlabel_spec _).keeps_label (by first | exact Or.inl (by assumption) | exact Or.inr (by simp))
    | dsimp only
    | split

theorem static_begin_state (s : PState) :
    static_begin s = Res.ok s.labels.length (stateOf static_begin s) ∧
    (stateOf static_begin s).f_opcodes =
      s.f_opcodes ++ [Slot.op OP_INITSTATIC, Slot.arg (-1)] ∧
    (stateOf static_begin s).oldop = OP_INITSTATIC ∧
    (stateOf static_begin s).labels = s.labels ++ [{ l_sites := [s.f_opcodes.length + 1] }] ∧
    (stateOf static_begin s).errorcount = s.errorcount := by
  simp [static_begin, stateOf, bind_run, newlabel, clearlabel, addoplabel, addop, uselabel, modS,
    pure_run, LABEL.l_chain, List.getD_eq_getElem?_getD]

/-! ## The guard of a static declaration -/

theorem set_append_second {α : Type} (xs ys : List α) (a b c : α) :
    (xs ++ [a, b] ++ ys).set (xs.length + 1) c = xs ++ [a, c] ++ ys := by
  induction xs with
  | nil => rfl
  | cons x xs ih =>
    simp only [List.cons_append, List.length_cons, List.set_cons_succ]
    rw [ih]

/-- A static declaration in `getonedeclaration` is the guard, the declarator and
the `setlabel` of the guard, when the declarator is one that the function
knows. -/
theorem getonedeclaration_guard (n : Nat) (s s1 t : PState) (tok : TokenType)
    (htok : gettoken (stateOf static_begin s) = Res.ok tok s1)
    (hrec : tok = T_SYMBOL ∨ tok = T_MAT ∨ tok = T_OBJ)
    (hdecl : static_declarator n (stateOf static_begin s) = Res.ok () t) :
    getonedeclaration n T_STATIC s = Res.ok () (stateOf (setlabel s.labels.length) t) := by
  have hrun : getonedeclaration n T_STATIC s =
      (do
        match (← gettoken) with
        | T_SYMBOL => do
          let name ← tokenstring
          definesymbol name SYM_STATIC
          if (← gettoken) ≠ T_ASSIGN then
            rescantoken
            if SYM_STATIC = SYM_STATIC then setlabel s.labels.length
          else
            addopone OP_DEBUG (← linenumber)
            usesymbol name false
            let _ ← getassignment n
            addop OP_ASSIGNPOP
            if SYM_STATIC = SYM_STATIC then setlabel s.labels.length
        | T_MAT => do
          addopone OP_DEBUG (← linenumber)
          getmatdeclaration n SYM_STATIC
          addop OP_POP
          if SYM_STATIC = SYM_STATIC then setlabel s.labels.length
        | T_OBJ => do
          addopone OP_DEBUG (← linenumber)
          getobjdeclaration n SYM_STATIC
          addop OP_POP
          if SYM_STATIC = SYM_STATIC then setlabel s.labels.length
        | _ => scanerror T_COMMA) (stateOf static_begin s) := rfl
  rw [hrun, bind_run_ok htok]
  unfold static_declarator at hdecl
  rw [bind_run_ok htok] at hdecl
  rcases hrec with rfl | rfl | rfl
  · dsimp only at hdecl ⊢
    rw [bind_run_ok (show tokenstring s1 = Res.ok s1.curtoken.t_strindex s1 from rfl)] at hdecl ⊢
    cases h2 : definesymbol s1.curtoken.t_strindex SYM_STATIC s1 with
    | ok a s2 =>
      rw [bind_run_ok h2] at hdecl ⊢
      cases h3 : gettoken s2 with
      | ok tok2 s3 =>
        rw [bind_run_ok h3] at hdecl ⊢
        by_cases hne : tok2 ≠ T_ASSIGN
        · rw [if_pos hne] at hdecl ⊢
          cases hdecl
          rfl
        · rw [if_neg hne] at hdecl ⊢
          rw [bind_run_ok (show linenumber s3 = Res.ok s3.lineno s3 from rfl)] at hdecl ⊢
          rw [bind_run_ok (show addopone OP_DEBUG s3.lineno s3 =
            Res.ok () (stateOf (addopone OP_DEBUG s3.lineno) s3) from rfl)] at hdecl ⊢
          cases h4 : usesymbol s1.curtoken.t_strindex false
              (stateOf (addopone OP_DEBUG s3.lineno) s3) with
          | ok a s4 =>
            rw [bind_run_ok h4] at hdecl ⊢
            cases h5 : getassignment n s4 with
            | ok a s5 =>
              rw [bind_run_ok h5] at hdecl ⊢
              cases hdecl
              rfl
            | abort u => rw [bind_run, h5] at hdecl; cases hdecl
            | nofuel => rw [bind_run, h5] at hdecl; cases hdecl
          | abort u => rw [bind_run, h4] at hdecl; cases hdecl
          | nofuel => rw [bind_run, h4] at hdecl; cases hdecl
      | abort u => rw [bind_run, h3] at hdecl; cases hdecl
      | nofuel => rw [bind_run, h3] at hdecl; cases hdecl
    | abort u => rw [bind_run, h2] at hdecl; cases hdecl
    | nofuel => rw [bind_run, h2] at hdecl; cases hdecl
  · dsimp only at hdecl ⊢
    rw [bind_run_ok (show linenumber s1 = Res.ok s1.lineno s1 from rfl)] at hdecl ⊢
    rw [bind_run_ok (show addopone OP_DEBUG s1.lineno s1 =
      Res.ok () (stateOf (addopone OP_DEBUG s1.lineno) s1) from rfl)] at hdecl ⊢
    cases h4 : getmatdeclaration n SYM_STATIC (stateOf (addopone OP_DEBUG s1.lineno) s1) with
    | ok a s4 =>
      rw [bind_run_ok h4] at hdecl ⊢
      cases hdecl
      rfl
    | abort u => rw [bind_run, h4] at hdecl; cases hdecl
    | nofuel => rw [bind_run, h4] at hdecl; cases hdecl
  · dsimp only at hdecl ⊢
    rw [bind_run_ok (show linenumber s1 = Res.ok s1.lineno s1 from rfl)] at hdecl ⊢
    rw [bind_run_ok (show addopone OP_DEBUG s1.lineno s1 =
      Res.ok () (stateOf (addopone OP_DEBUG s1.lineno) s1) from rfl)] at hdecl ⊢
    cases h4 : getobjdeclaration n SYM_STATIC (stateOf (addopone OP_DEBUG s1.lineno) s1) with
    | ok a s4 =>
      rw [bind_run_ok h4] at hdecl ⊢
      cases hdecl
      rfl
    | abort u => rw [bind_run, h4] at hdecl; cases hdecl
    | nofuel => rw [bind_run, h4] at hdecl; cases hdecl

/-! ## The guards of a line of static declarations -/

/-- C8, the claim as it stands fails: in `static mat a[2], b[3];` the names `a` and
`b` are both defined as static, and the code has one `OP_INITSTATIC`, in front,
whose label is resolved behind the code of both matrices. -/
theorem static_mat_names_share_guard :
    ∃ t, getdeclarations 40 static_mats = Res.ok () t ∧ t.errorcount = 0 ∧
      t.globals = [(7, true), (8, true)] ∧
      t.f_opcodes.count (Slot.op OP_INITSTATIC) = 1 ∧
      t.f_opcodes.take 2 = [Slot.op OP_INITSTATIC, Slot.arg 30] ∧
      t.f_opcodes.length = 30 :=
  ⟨stateOf (getdeclarations 40) static_mats, by decide!, by decide!, by decide!, by decide!,
    by decide!, by decide!⟩

/-- C8, amended: a static declaration in `getonedeclaration` whose declarator
begins with a name, with `mat` or with `obj`.  The function emits
`OP_INITSTATIC` with a label that is new, then the code of the declarator and
its initializer, and returns with the label resolved to the offset behind that
code, which is the operand of the `OP_INITSTATIC`; a name that no `=` follows
has no code, so that the offset is the one behind the `OP_INITSTATIC`.  The
loop of `getdeclarations` calls `getonedeclaration`, and with it emits a
guard, once for every declarator that it finds between its commas. -/
theorem getonedeclaration_static (n : Nat) (s s1 t : PState) (tok : TokenType)
    (htok : gettoken (stateOf static_begin s) = Res.ok tok s1)
    (hrec : tok = T_SYMBOL ∨ tok = T_MAT ∨ tok = T_OBJ)
    (hdecl : static_declarator n (stateOf static_begin s) = Res.ok () t) :
    getonedeclaration n T_STATIC s = Res.ok () (stateOf (setlabel s.labels.length) t) ∧
    (∃ code,
      t.f_opcodes = s.f_opcodes ++ [Slot.op OP_INITSTATIC, Slot.arg (-1)] ++ code ∧
      (stateOf (setlabel s.labels.length) t).f_opcodes =
        s.f_opcodes ++
          [Slot.op OP_INITSTATIC, Slot.arg ((s.f_opcodes.length + 2 + code.length : Nat) : Int)]
          ++ code ∧
      (stateOf (setlabel s.labels.length) t).labels.getD s.labels.length {} =
        { l_offset := ((s.f_opcodes.length + 2 + code.length : Nat) : Int) } ∧
      (∀ s2 tok2 s3, tok = T_SYMBOL →
        definesymbol s1.curtoken.t_strindex SYM_STATIC s1 = Res.ok () s2 →
        gettoken s2 = Res.ok tok2 s3 → tok2 ≠ T_ASSIGN → code = [])) ∧
    getdeclarations_loop (n + 1) T_STATIC s =
      (do
        getonedeclaration n T_STATIC
        match (← gettoken) with
        | T_COMMA => getdeclarations_loop n T_STATIC
        | T_NEWLINE => rescantoken
        | T_SEMICOLON => pure ()
        | _ => scanerror T_SEMICOLON) s := by
  obtain ⟨-, b2, b3, b4, -⟩ := static_begin_state s
  have hf : Frame false [] (stateOf static_begin s) t := by
    have := static_declarator_spec n (stateOf static_begin s)
    rw [hdecl] at this
    exact this
  obtain ⟨code, hcode⟩ := hf.code_append (by rw [b3]; intro h; exact absurd h (by decide))
  have hlab : t.labels.getD s.labels.length {} = { l_sites := [s.f_opcodes.length + 1] } := by
    rw [hf.label_kept _ (by rw [b4]; simp), b4, List.getD_append_right _ _ _ _ (le_refl _)]
    simp
  have hlen : s.labels.length < t.labels.length := by
    have := hf.ext.nlabels
    rw [b4] at this
    simp at this
    omega
  rw [b2] at hcode
  have hfin : (stateOf (setlabel s.labels.length) t).f_opcodes =
      s.f_opcodes ++
        [Slot.op OP_INITSTATIC, Slot.arg ((s.f_opcodes.length + 2 + code.length : Nat) : Int)]
        ++ code := by
    have e : (stateOf (setlabel s.labels.length) t).f_opcodes =
        patchsites (t.labels.getD s.labels.length {}).l_sites (t.f_opcodes.length : Int)
          t.f_opcodes := rfl
    rw [e, hlab, hcode]
    simp only [patchsites, List.foldl_cons, List.foldl_nil]
    rw [set_append_second]
    simp
    omega
  have hfl : (stateOf (setlabel s.labels.length) t).labels.getD s.labels.length {} =
      { l_offset := ((s.f_opcodes.length + 2 + code.length : Nat) : Int) } := by
    have e : (stateOf (setlabel s.labels.length) t).labels = t.labels.set s.labels.length
        { t.labels.getD s.labels.length {} with
          l_offset := (t.f_opcodes.length : Int), l_sites := [] } := rfl
    rw [e, getD_set, if_pos ⟨rfl, hlen⟩, hlab, hcode]
    simp
    omega
  refine ⟨getonedeclaration_guard n s s1 t tok htok hrec hdecl, ⟨code, hcode, hfin, hfl, ?_⟩,
    by rfl⟩
  rintro s2 tok2 s3 rfl h2 h3 hne
  unfold static_declarator at hdecl
  rw [bind_run_ok htok] at hdecl
  dsimp only at hdecl
  rw [bind_run_ok (show tokenstring s1 = Res.ok s1.curtoken.t_strindex s1 from rfl),
    bind_run_ok h2, bind_run_ok h3, if_pos hne] at hdecl
  have ht : t.f_opcodes = s3.f_opcodes := by
    cases hdecl
    rfl
  obtain ⟨-, g2, -⟩ := gettoken_keeps _ _ _ htok
  obtain ⟨-, k2, -⟩ := gettoken_keeps _ _ _ h3
  have hq : Quiet s1 s2 := by
    have := definesymbol_quiet s1.curtoken.t_strindex SYM_STATIC s1
    rw [h2] at this
    exact this
  rw [ht, k2, hq.f_opcodes, g2, b2] at hcode
  exact (List.self_eq_append_right.mp hcode)

/-- C8, amended, on `static a, b = 1;`: the declarator `a` is `OP_INITSTATIC 2`
alone, the offset behind it; the declarator `b = 1` has a guard of its own,
`OP_INITSTATIC 11`, the offset behind the code of the assignment. -/
theorem getonedeclaration_static_witness :
    (∃ t, getonedeclaration 30 T_STATIC (static_first static_names) = Res.ok () t ∧
      t.f_opcodes = [Slot.op OP_INITSTATIC, Slot.arg 2]) ∧
    (∃ t, getonedeclaration 30 T_STATIC (stateOf gettoken (static_second static_names)) =
        Res.ok () t ∧
      t.f_opcodes =
        [Slot.op OP_INITSTATIC, Slot.arg 2, Slot.op OP_INITSTATIC, Slot.arg 11,
          Slot.op OP_DEBUG, Slot.arg 1, Slot.op OP_GLOBALADDR, Slot.arg 1,
          Slot.op OP_NUMBER, Slot.arg 0, Slot.op OP_ASSIGNPOP]) := by
  constructor
  · have h := getonedeclaration_static 30 (static_first static_names)
      (stateOf gettoken (stateOf static_begin (static_first static_names)))
      (stateOf (static_declarator 30) (stateOf static_begin (static_first static_names)))
      T_SYMBOL (by decide!) (Or.inl rfl) (by decide!)
    exact ⟨_, h.1, by decide!⟩
  · have h := getonedeclaration_static 30 (stateOf gettoken (static_second static_names))
      (stateOf gettoken (stateOf static_begin (stateOf gettoken (static_second static_names))))
      (stateOf (static_declarator 30)
        (stateOf static_begin (stateOf gettoken (static_second static_names))))
      T_SYMBOL (by decide!) (Or.inl rfl) (by decide!)
    exact ⟨_, h.1, by decide!⟩

/-! ## The if statement -/

theorem if_begin_state (s : PState) :
    (stateOf if_begin s).labels = s.labels ++ [({} : LABEL), ({} : LABEL)] ∧
    (stateOf if_begin s).f_opcodes = s.f_opcodes ∧
    (stateOf if_begin s).oldop = s.oldop := by
  simp [if_begin, stateOf, bind_run, newlabel, pure_run]

theorem jumpeq_state (s : PState) (l : Nat) (hl : s.labels.getD l {} = {})
    (hlen : l < s.labels.length) :
    (stateOf (addoplabel OP_JUMPEQ l) s).f_opcodes =
      s.f_opcodes ++ [Slot.op OP_JUMPEQ, Slot.arg (-1)] ∧
    (stateOf (addoplabel OP_JUMPEQ l) s).oldop = OP_JUMPEQ ∧
    (stateOf (addoplabel OP_JUMPEQ l) s).labels.length = s.labels.length ∧
    (stateOf (addoplabel OP_JUMPEQ l) s).labels.getD l {} =
      { l_sites := [s.f_opcodes.length + 1] } ∧
    (∀ i, i ≠ l →
      (stateOf (addoplabel OP_JUMPEQ l) s).labels.getD i {} = s.labels.getD i {}) := by
  obtain ⟨a1, -, a3, a4, -⟩ := addoplabel_facts OP_JUMPEQ l s
  have e : stateOf (addoplabel OP_JUMPEQ l) s =
      (if (s.labels.getD l {}).l_offset ≥ 0 then
        { s with
          f_opcodes := s.f_opcodes ++ [Slot.op OP_JUMPEQ] ++
            [Slot.arg (s.labels.getD l {}).l_offset]
          oldop := OP_JUMPEQ }
      else
        { s with
          f_opcodes := s.f_opcodes ++ [Slot.op OP_JUMPEQ] ++
            [Slot.arg (s.labels.getD l {}).l_chain]
          oldop := OP_JUMPEQ
          labels := s.labels.set l
            { s.labels.getD l {} with
              l_sites := (s.f_opcodes ++ [Slot.op OP_JUMPEQ]).length ::
                (s.labels.getD l {}).l_sites } }) :=
    rfl
  refine ⟨?_, a3, a1, ?_, a4⟩
  · rw [e, hl, if_neg (by decide)]
    simp [LABEL.l_chain]
  · rw [e, hl, if_neg (by decide)]
    dsimp only
    rw [getD_set, if_pos ⟨rfl, hlen⟩]
    simp

theorem if_else_state (s : PState) (l p : Nat) (hlen : l + 1 < s.labels.length)
    (h1 : s.labels.getD l {} = { l_sites := [p] })
    (h2 : s.labels.getD (l + 1) {} = {}) :
    (stateOf (if_else l (l + 1)) s).f_opcodes =
      (s.f_opcodes ++ [Slot.op OP_JUMP, Slot.arg (-1)]).set p
        (Slot.arg ((s.f_opcodes.length + 2 : Nat) : Int)) ∧
    (stateOf (if_else l (l + 1)) s).labels.length = s.labels.length ∧
    (stateOf (if_else l (l + 1)) s).labels.getD l {} =
      { l_offset := ((s.f_opcodes.length + 2 : Nat) : Int) } ∧
    (stateOf (if_else l (l + 1)) s).labels.getD (l + 1) {} =
      { l_sites := [s.f_opcodes.length + 1] } := by
  have hlt : l < s.labels.length := by omega
  have hd : s.labels[l] = { l_sites := [p] } := by
    simpa [List.getD_eq_getElem?_getD, List.getElem?_eq_getElem hlt] using h1
  have ha : s.labels[l + 1] = {} := by
    simpa [List.getD_eq_getElem?_getD, List.getElem?_eq_getElem hlen] using h2
  simp [if_else, stateOf, bind_run, addoplabel, addop, uselabel, setlabel, modS, pure_run,
    LABEL.l_chain, getD_set, hd, ha, hlt, hlen, patchsites, List.getElem_set]

/-! ## The jumps of an if statement -/

/-- C3: the `if` statement.  Let the labels handed to `getstatement` exist, let
the token after the `OP_DEBUG` of the statement be `if`, let `getcondition`
parse the condition, and let `getstatement` parse the statement `S1` from the
state in which `OP_JUMPEQ label1` follows the code of the condition, both
labels of the statement being new.  When the next token is `else` and
`getstatement` parses `S2`: before `S2` the statement emits `OP_JUMP label2`
behind the code of `S1` and resolves `label1`, so that the operand of the
`OP_JUMPEQ` and the offset of `label1` are the offset behind that jump, where
the code of `S2` begins; and it returns with `label2` resolved to the offset
behind the code of `S2`.  When the next token is not `else`, it is pushed back,
and the statement returns with `label1` resolved to the offset behind the code
of `S1`, which is then the operand of the `OP_JUMPEQ`. -/
theorem getstatement_if (n : Nat) (contlabel breaklabel nextcaselabel
    defaultlabel : Option Nat) (s s1 s2 s3 : PState)
    (hhand : ∀ l ∈ handed contlabel breaklabel none none, l < s.labels.length)
    (h1 : gettoken (stateOf statement_begin s) = Res.ok T_IF s1)
    (hc : getcondition n (stateOf if_begin s1) = Res.ok () s2)
    (hS1 : getstatement n contlabel breaklabel none none
      (stateOf (addoplabel OP_JUMPEQ s.labels.length) s2) = Res.ok () s3) :
    (stateOf (addoplabel OP_JUMPEQ s.labels.length) s2).f_opcodes =
      s2.f_opcodes ++ [Slot.op OP_JUMPEQ, Slot.arg (-1)] ∧
    (∀ s4 s5, gettoken s3 = Res.ok T_ELSE s4 →
      getstatement n contlabel breaklabel none none
        (stateOf (if_else s.labels.length (s.labels.length + 1)) s4) = Res.ok () s5 →
      getstatement (n + 1) contlabel breaklabel nextcaselabel defaultlabel s =
        Res.ok () (stateOf (setlabel (s.labels.length + 1)) s5) ∧
      (stateOf (if_else s.labels.length (s.labels.length + 1)) s4).f_opcodes =
        (s3.f_opcodes ++ [Slot.op OP_JUMP, Slot.arg (-1)]).set (s2.f_opcodes.length + 1)
          (Slot.arg ((s3.f_opcodes.length + 2 : Nat) : Int)) ∧
      (stateOf (if_else s.labels.length (s.labels.length + 1)) s4).labels.getD
          s.labels.length {} = { l_offset := ((s3.f_opcodes.length + 2 : Nat) : Int) } ∧
      ((stateOf (setlabel (s.labels.length + 1)) s5).labels.getD (s.labels.length + 1)
          {}).l_offset = (s5.f_opcodes.length : Int) ∧
      (stateOf (setlabel (s.labels.length + 1)) s5).f_opcodes.length = s5.f_opcodes.length) ∧
    (∀ tok s4, gettoken s3 = Res.ok tok s4 → tok ≠ T_ELSE →
      getstatement (n + 1) contlabel breaklabel nextcaselabel defaultlabel s =
        Res.ok () (stateOf rescantoken (stateOf (setlabel s.labels.length) s4)) ∧
      (stateOf rescantoken (stateOf (setlabel s.labels.length) s4)).f_opcodes =
        s3.f_opcodes.set (s2.f_opcodes.length + 1) (Slot.arg (s3.f_opcodes.length : Int)) ∧
      (stateOf rescantoken (stateOf (setlabel s.labels.length) s4)).labels.getD
          s.labels.length {} = { l_offset := (s3.f_opcodes.length : Int) }) := by
  obtain ⟨-, hb2, -⟩ := statement_begin_state s
  obtain ⟨q1, -, -⟩ := gettoken_keeps _ _ _ h1
  obtain ⟨i1, i2, i3⟩ := if_begin_state s1
  have hl1 : s1.labels = s.labels := by rw [q1, hb2]
  rw [hl1] at i1
  have hfc : Frame false [] (stateOf if_begin s1) s2 := by
    have : Spec false [] (getcondition n) := by
      unfold getcondition
      refine Keeps.to_spec fun s0 => ?_
      repeat' first
        | with_reducible refine keeps_bind ?_ (fun _ => ?_)
        | with_reducible refine keeps_ite (fun _ => ?_) (fun _ => ?_)
        | with_reducible exact keeps_pure _
        | with_reducible exact gettoken_quiet.keeps_quiet
        | with_reducible exact (scanerror_quiet _).keeps_quiet
        | with_reducible exact (exprFrames _).getexprlist |>.keeps_expr
    have := this (stateOf if_begin s1)
    rw [hc] at this
    exact this
  have hlen2 : s.labels.length + 2 ≤ s2.labels.length := by
    have := hfc.ext.nlabels
    rw [i1] at this
    simpa using this
  have hL2 : s2.labels.getD s.labels.length {} = {} := by
    rw [hfc.label_kept _ (by rw [i1]; simp), i1, List.getD_append_right _ _ _ _ (le_refl _)]
    simp
  have hL2' : s2.labels.getD (s.labels.length + 1) {} = {} := by
    rw [hfc.label_kept _ (by rw [i1]; simp), i1,
      List.getD_append_right _ _ _ _ (Nat.le_add_right _ _)]
    simp
  obtain ⟨j1, j2, j3, j4, j5⟩ := jumpeq_state s2 s.labels.length hL2 (by omega)
  have hfS : Frame true (handed contlabel breaklabel none none)
      (stateOf (addoplabel OP_JUMPEQ s.labels.length) s2) s3 := by
    have := (stmtFrames n).getstatement contlabel breaklabel none none
      (stateOf (addoplabel OP_JUMPEQ s.labels.length) s2)
    rw [hS1] at this
    exact this
  have hnt : ∀ i, (i = s.labels.length ∨ i = s.labels.length + 1) →
      ¬ Touchable true (handed contlabel breaklabel none none)
        (stateOf (addoplabel OP_JUMPEQ s.labels.length) s2) i := by
    rintro i hi (hh | ⟨-, hn⟩)
    · have := hhand i hh
      omega
    · apply hn
      rcases hi with rfl | rfl
      · simp only [nameOf]
        rw [j4]
      · simp only [nameOf]
        rw [j5 _ (by omega), hL2']
  have hL3 : s3.labels.getD s.labels.length {} = { l_sites := [s2.f_opcodes.length + 1] } := by
    rw [hfS.labels _ (by rw [j3]; omega) (hnt _ (Or.inl rfl)), j4]
  have hL3' : s3.labels.getD (s.labels.length + 1) {} = {} := by
    rw [hfS.labels _ (by rw [j3]; omega) (hnt _ (Or.inr rfl)), j5 _ (by omega), hL2']
  have hlen3 : s.labels.length + 2 ≤ s3.labels.length := by
    have := hfS.ext.nlabels
    rw [j3] at this
    omega
  have hrun : getstatement (n + 1) contlabel breaklabel nextcaselabel defaultlabel s =
      (do
        getcondition n
        addoplabel OP_JUMPEQ s1.labels.length
        getstatement n contlabel breaklabel none none
        if (← gettoken) ≠ T_ELSE then
          setlabel s1.labels.length
          rescantoken
        else
          addoplabel OP_JUMP (s1.labels ++ [({} : LABEL)]).length
          setlabel s1.labels.length
          getstatement n contlabel breaklabel none none
          setlabel (s1.labels ++ [({} : LABEL)]).length) (stateOf if_begin s1) := by
    rw [getstatement.eq_def]
    dsimp only
    rw [bind_run_ok (show linenumber s = Res.ok s.lineno s from rfl)]
    rw [bind_run_ok (show addopone OP_DEBUG s.lineno s = Res.ok () (stateOf statement_begin s)
      from rfl)]
    rw [bind_run_ok h1]
    rfl
  simp only [List.length_append, List.length_singleton, hl1] at hrun
  rw [bind_run_ok hc] at hrun
  rw [bind_run_ok (show addoplabel OP_JUMPEQ s.labels.length s2 =
    Res.ok () (stateOf (addoplabel OP_JUMPEQ s.labels.length) s2) from rfl)] at hrun
  rw [bind_run_ok hS1] at hrun
  refine ⟨j1, ?_, ?_⟩
  · intro s4 s5 he hS2
    obtain ⟨k1, k2, -⟩ := gettoken_keeps _ _ _ he
    rw [bind_run_ok he, if_neg (fun h => h rfl)] at hrun
    rw [bind_run_ok (show addoplabel OP_JUMP (s.labels.length + 1) s4 =
      Res.ok () (stateOf (addoplabel OP_JUMP (s.labels.length + 1)) s4) from rfl)] at hrun
    rw [bind_run_ok (show setlabel s.labels.length
        (stateOf (addoplabel OP_JUMP (s.labels.length + 1)) s4) =
      Res.ok () (stateOf (if_else s.labels.length (s.labels.length + 1)) s4) from rfl)] at hrun
    rw [bind_run_ok hS2] at hrun
    obtain ⟨e1, e2, e3, e4⟩ := if_else_state s4 s.labels.length (s2.f_opcodes.length + 1)
      (by rw [k1]; omega) (by rw [k1]; exact hL3) (by rw [k1]; exact hL3')
    have hfS2 : Frame true (handed contlabel breaklabel none none)
        (stateOf (if_else s.labels.length (s.labels.length + 1)) s4) s5 := by
      have := (stmtFrames n).getstatement contlabel breaklabel none none
        (stateOf (if_else s.labels.length (s.labels.length + 1)) s4)
      rw [hS2] at this
      exact this
    have hlen5 : s.labels.length + 1 < s5.labels.length := by
      have := hfS2.ext.nlabels
      rw [e2, k1] at this
      omega
    obtain ⟨-, f2, -, -, f5⟩ := setlabel_facts (s.labels.length + 1) s5
    rw [k2] at e1 e3
    exact ⟨hrun, e1, e3, f5 hlen5, f2⟩
  · intro tok s4 he hne
    obtain ⟨k1, k2, -⟩ := gettoken_keeps _ _ _ he
    rw [bind_run_ok he, if_pos hne] at hrun
    refine ⟨hrun, ?_, ?_⟩
    · have e : (stateOf rescantoken (stateOf (setlabel s.labels.length) s4)).f_opcodes =
          patchsites (s4.labels.getD s.labels.length {}).l_sites (s4.f_opcodes.length : Int)
            s4.f_opcodes := rfl
      rw [e, k1, hL3, k2]
      rfl
    · have e : (stateOf rescantoken (stateOf (setlabel s.labels.length) s4)).labels =
          s4.labels.set s.labels.length
            { s4.labels.getD s.labels.length {} with
              l_offset := (s4.f_opcodes.length : Int), l_sites := [] } := rfl
      rw [e, getD_set, if_pos ⟨rfl, by rw [k1]; omega⟩, k1, hL3, k2]

/-! ## Two if statements -/

/-- C3 on `if (1) 2; else 3;`: the `OP_JUMPEQ` behind the condition goes to the
offset 14, where the code of `3;` begins behind `OP_JUMP 20`, and 20 is the
offset behind that code; and on `if (1) 2;`: the `OP_JUMPEQ` goes to the offset
12 behind the code of `2;`. -/
theorem getstatement_if_witness :
    (∃ t, getstatement 31 none none none none if_line = Res.ok () t ∧
      t.f_opcodes =
        [Slot.op OP_DEBUG, Slot.arg 1, Slot.op OP_NUMBER, Slot.arg 0,
          Slot.op OP_JUMPEQ, Slot.arg 14,
          Slot.op OP_DEBUG, Slot.arg 1, Slot.op OP_NUMBER, Slot.arg 1, Slot.op OP_SAVE,
          Slot.op OP_PRINTRESULT,
          Slot.op OP_JUMP, Slot.arg 20,
          Slot.op OP_DEBUG, Slot.arg 1, Slot.op OP_NUMBER, Slot.arg 2, Slot.op OP_SAVE,
          Slot.op OP_PRINTRESULT] ∧
      t.errorcount = 0) ∧
    (∃ t, getstatement 31 none none none none if_only = Res.ok () t ∧
      t.f_opcodes =
        [Slot.op OP_DEBUG, Slot.arg 1, Slot.op OP_NUMBER, Slot.arg 0,
          Slot.op OP_JUMPEQ, Slot.arg 12,
          Slot.op OP_DEBUG, Slot.arg 1, Slot.op OP_NUMBER, Slot.arg 1, Slot.op OP_SAVE,
          Slot.op OP_PRINTRESULT] ∧
      t.errorcount = 0) := by
  constructor
  · have h := (getstatement_if 30 none none none none if_line (if_states if_line).1
      (if_states if_line).2.1 (if_states if_line).2.2.1 (by decide) (by decide!) (by decide!)
      (by decide!)).2.1 (if_states if_line).2.2.2
      (stateOf (getstatement 30 none none none none)
        (stateOf (if_else 0 1) (if_states if_line).2.2.2))
      (by decide!) (by decide!)
    exact ⟨_, h.1, by decide!, by decide!⟩
  · have h := (getstatement_if 30 none none none none if_only (if_states if_only).1
      (if_states if_only).2.1 (if_states if_only).2.2.1 (by decide) (by decide!) (by decide!)
      (by decide!)).2.2 T_NEWLINE (if_states if_only).2.2.2 (by decide!) (by decide)
    exact ⟨_, h.1, by decide!, by decide!⟩

/-! ## Chains of conditions -/

theorem patchsites_cons (p : Nat) (sites : List Nat) (v : Int) (code : List Slot) :
    patchsites (p :: sites) v code = patchsites sites v (code.set p (Slot.arg v)) := rfl

theorem patchsites_append_left (sites : List Nat) (v : Int) (xs ys : List Slot)
    (h : ∀ p ∈ sites, p < xs.length) :
    patchsites sites v (xs ++ ys) = patchsites sites v xs ++ ys := by
  induction sites generalizing xs with
  | nil => rfl
  | cons p sites ih =>
    rw [patchsites_cons, patchsites_cons, List.set_append_left _ _ (h p (List.mem_cons_self _ _))]
    exact ih _ (fun q hq => by
      rw [List.length_set]
      exact h q (List.mem_cons_of_mem _ hq))

theorem chain_pending_length (op : Opcode) (es : List SumExpr) :
    ∀ (base : Nat) (prev : Int) (target : Int),
      (chain_pending op base prev es).length = (chain_code op target es).length := by
  induction es with
  | nil => intro _ _ _; rfl
  | cons e es ih =>
    intro base prev target
    simp only [chain_pending, chain_code, List.length_append]
    rw [ih _ _ target]
    rfl

/-- Resolving the label of a chain writes the offset into every jump of it. -/
theorem patch_chain (op : Opcode) (v : Int) (es : List SumExpr) :
    ∀ (xs : List Slot) (sites : List Nat) (prev : Int), (∀ p ∈ sites, p < xs.length) →
      patchsites (chain_sites xs.length es sites) v (xs ++ chain_pending op xs.length prev es) =
        patchsites sites v xs ++ chain_code op v es := by
  induction es with
  | nil =>
    intro xs sites prev _
    simp [chain_sites, chain_pending, chain_code]
  | cons e es ih =>
    intro xs sites prev h
    have hlen : (xs ++ ([Slot.op op, Slot.arg prev] ++ e.tree.postorder)).length =
        xs.length + 2 + e.tree.postorder.length := by
      simp
      omega
    have := ih (xs ++ ([Slot.op op, Slot.arg prev] ++ e.tree.postorder))
      ((xs.length + 1) :: sites) ((xs.length + 1 : Nat) : Int) (by
        intro p hp
        rw [hlen]
        rcases List.mem_cons.mp hp with rfl | hp
        · omega
        · have := h p hp
          omega)
    rw [hlen] at this
    simp only [chain_sites, chain_pending, chain_code]
    rw [← List.append_assoc xs, this, patchsites_cons]
    have hset : (xs ++ ([Slot.op op, Slot.arg prev] ++ e.tree.postorder)).set (xs.length + 1)
        (Slot.arg v) = xs ++ ([Slot.op op, Slot.arg v] ++ e.tree.postorder) := by
      rw [List.set_append_right _ _ (by omega)]
      simp
    rw [hset, patchsites_append_left _ _ _ _ h]
    simp

theorem chain_sites_head (es : List SumExpr) :
    ∀ (base : Nat) (sites : List Nat),
      (0 < ({ l_sites := sites } : LABEL).l_chain ∨ es ≠ []) →
      0 < ({ l_sites := chain_sites base es sites } : LABEL).l_chain := by
  induction es with
  | nil =>
    intro base sites h
    rcases h with h | h
    · exact h
    · exact absurd rfl h
  | cons e es ih =>
    intro base sites _
    simp only [chain_sites]
    apply ih
    left
    simp [LABEL.l_chain]

theorem chain_sites_bound (es : List SumExpr) :
    ∀ (base : Nat) (sites : List Nat) (prev target : Int) (op : Opcode),
      (∀ p ∈ sites, p < base) →
      ∀ p ∈ chain_sites base es sites, p < base + (chain_code op target es).length := by
  induction es with
  | nil =>
    intro base sites _ _ _ h p hp
    have := h p hp
    simp [chain_code]
    omega
  | cons e es ih =>
    intro base sites prev target op h p hp
    simp only [chain_sites] at hp
    have := ih (base + 2 + e.tree.postorder.length) ((base + 1) :: sites) prev target op (by
      intro q hq
      rcases List.mem_cons.mp hq with rfl | hq
      · omega
      · have := h q hq
        omega) p hp
    simp only [chain_code, List.length_append, List.length_cons, List.length_nil]
    omega

/-! ## The label of a chain -/

theorem chain_getD (s : PState) (label : LABEL) (k : Nat) :
    (s.chain label k).labels.getD s.labels.length {} = label := by
  simp only [PState.chain]
  rw [List.getD_append_right _ _ _ _ (le_refl _)]
  simp

theorem chain_set (s : PState) (label label2 : LABEL) (k : Nat) :
    (s.chain label k).labels.set s.labels.length label2 = (s.chain label2 k).labels := by
  simp only [PState.chain]
  rw [List.set_append_right _ _ (le_refl _)]
  simp

theorem addoplabel_chain (op : Opcode) (s : PState) (sites : List Nat) (k : Nat)
    (c : List Slot) (o : Opcode) (cur : Token) (inp : List Token) (r : Bool) :
    addoplabel op s.labels.length ((s.chain { l_sites := sites } k).advance c o cur inp r) =
      Res.ok ()
        ((s.chain { l_sites := (s.f_opcodes.length + c.length + 1) :: sites } k).advance
          (c ++ [Slot.op op, Slot.arg ({ l_sites := sites } : LABEL).l_chain]) op cur inp r) := by
  have hg := chain_getD s { l_sites := sites } k
  have hs := chain_set s { l_sites := sites }
    { l_sites := (s.f_opcodes.length + c.length + 1) :: sites } k
  simp only [addoplabel, addop, uselabel, modS, bind_run, PState.advance] at hg hs ⊢
  simp only [hg]
  rw [if_neg (by decide)]
  simp only [List.length_append, List.length_singleton, hs]
  simp [PState.chain, List.append_assoc]

theorem chain_end (s : PState) (sites : List Nat) (k : Nat) (type : Nat)
    (c : List Slot) (o : Opcode) (cur : Token) (inp : List Token) (r : Bool) :
    (do
      rescantoken
      if (← readlabel s.labels.length).l_chain > 0 then setlabel s.labels.length
      pure type) ((s.chain { l_sites := sites } k).advance c o cur inp r) =
      Res.ok type (chain_done s sites k c o cur inp) := by
  have hg := chain_getD s { l_sites := sites } k
  have hs := chain_set s { l_sites := sites }
    { l_offset := ((s.f_opcodes ++ c).length : Int) } k
  simp only [PState.chain] at hg hs
  unfold chain_done
  by_cases h : 0 < ({ l_sites := sites } : LABEL).l_chain
  · simp only [rescantoken, readlabel, modS, bind_run, PState.advance, pure_run, PState.chain,
      hg]
    rw [if_pos h, if_pos h]
    simp only [setlabel, modS, bind_run, pure_run, hg, hs]
  · simp only [rescantoken, readlabel, modS, bind_run, PState.advance, pure_run, PState.chain,
      hg]
    rw [if_neg h, if_neg h]
    rfl

theorem chain_grow (s : PState) (label : LABEL) (k : Nat) (c : List Slot) (o : Opcode)
    (cur : Token) (inp : List Token) (r : Bool) :
    ({ (s.chain label k).advance c o cur inp r with
        labels := ((s.chain label k).advance c o cur inp r).labels ++ [{}] } : PState) =
      (s.chain label (k + 1)).advance c o cur inp r := by
  simp [PState.chain, PState.advance, List.replicate_succ']

/-- An operand of a chain of `||`, a sum in front of a token that the levels up to
`getandcond` leave: `getandcond` emits the code of the sum, declares its label,
and leaves the token to be read again. -/
theorem getandcond_operand (s : PState) (label : LABEL) (k : Nat) (e : SumExpr) (n : Nat)
    (hn : e.cost + 2 ≤ n) (c : List Slot) (o : Opcode) (cur : Token) (inp : List Token)
    (r : Bool) (t : Token) (rest : List Token) (ht : t.plain)
    (h1 : continues_sum t.t_type = false) (h2 : relation_opcode t.t_type = none)
    (h3 : t.t_type ≠ T_ANDAND)
    (h : (if r then cur :: inp else inp) = e.tokens ++ t :: rest) :
    ∃ type, getandcond n ((s.chain label k).advance c o cur inp r) =
      Res.ok type ((s.chain label (k + 1)).advance (c ++ e.tree.postorder) e.tree.lastop
        t rest true) := by
  obtain ⟨m, rfl⟩ : ∃ m, n = m + 2 := ⟨n - 2, by omega⟩
  obtain ⟨type, hg⟩ := getsum_spec (s.chain label (k + 1)) (t :: rest)
    (by rw [starts_cons _ _ _ ht]; exact h1) e m (by omega) c o cur inp r h
  rw [scantoken_plain _ _ _ ht] at hg
  have hrel := getrelation_pass m _ _ type hg rfl h2
  refine ⟨type, ?_⟩
  apply getandcond_pass m ((s.chain label k).advance c o cur inp r) _ type
    (by rw [chain_grow]; exact hrel) rfl h3
  show (s.labels ++ label :: List.replicate (k + 1) {}).getD
    (s.labels ++ label :: List.replicate k {}).length {} = {}
  rw [List.getD_append_right _ _ _ _ (by simp)]
  simp [List.getD_eq_getElem?_getD, List.getElem?_replicate]

/-! ## The loop of getorcond on a chain -/

theorem chain_next (tt : TokenType) (htt : tt = T_OROR ∨ tt = T_ANDAND) (es : List SumExpr)
    (t : Token) (rest : List Token)
    (ht : t.plain ∧ continues_sum t.t_type = false ∧ relation_opcode t.t_type = none) :
    ∃ t1 rest1, chain_tokens tt es ++ t :: rest = t1 :: rest1 ∧
      (t1 = t ∨ t1 = optok tt) ∧
      t1.plain ∧ continues_sum t1.t_type = false ∧ relation_opcode t1.t_type = none := by
  cases es with
  | nil => exact ⟨t, rest, rfl, Or.inl rfl, ht⟩
  | cons e es =>
    refine ⟨optok tt, _, rfl, Or.inr rfl, ?_⟩
    rcases htt with rfl | rfl <;> simp [Token.plain, optok, continues_sum, relation_opcode]

/-- The loop of `getorcond` on the right operands `es` of a chain of `||`, in
front of a token that ends the chain. -/
theorem getorcond_loop_chain (s : PState) (t : Token) (rest : List Token)
    (ht : t.ends_chain) (es : List SumExpr) :
    ∀ (n type : Nat) (sites : List Nat) (k : Nat) (c : List Slot) (o : Opcode) (cur : Token)
      (inp : List Token) (r : Bool),
      (if r then cur :: inp else inp) = chain_tokens T_OROR es ++ t :: rest →
      chain_cost es + 1 ≤ n →
      getorcond_loop n s.labels.length type
          ((s.chain { l_sites := sites } k).advance c o cur inp r) =
        Res.ok (if es = [] then type else EXPR_RVALUE)
          (chain_done s (chain_sites (s.f_opcodes.length + c.length) es sites) (k + es.length)
            (c ++ chain_pending OP_CONDORJUMP (s.f_opcodes.length + c.length)
              ({ l_sites := sites } : LABEL).l_chain es)
            (chain_lastop o es) t rest) := by
  obtain ⟨hp, h1, h2, h3, h4⟩ := ht
  induction es with
  | nil =>
    intro n type sites k c o cur inp r h hn
    obtain ⟨n, rfl⟩ : ∃ m, n = m + 1 := ⟨n - 1, by omega⟩
    rw [getorcond_loop, bind_run_ok (gettoken_advance _ c o cur inp r t rest hp
      (by simpa [chain_tokens] using h)), if_neg h4]
    rw [chain_end]
    simp [chain_sites, chain_pending, chain_lastop]
  | cons e es ih =>
    intro n type sites k c o cur inp r h hn
    obtain ⟨n, rfl⟩ : ∃ m, n = m + 1 := ⟨n - 1, by omega⟩
    simp only [chain_cost] at hn
    obtain ⟨t1, rest1, hsplit, hwhich, hp1, hs1, hr1⟩ :=
      chain_next T_OROR (Or.inl rfl) es t rest ⟨hp, h1, h2⟩
    have hand1 : t1.t_type ≠ T_ANDAND := by
      rcases hwhich with rfl | rfl
      · exact h3
      · decide
    rw [getorcond_loop, bind_run_ok (gettoken_advance _ c o cur inp r (optok T_OROR)
      (e.tokens ++ (chain_tokens T_OROR es ++ t :: rest)) (by simp [Token.plain, optok])
      (by simpa [chain_tokens] using h)),
      if_pos (show (optok T_OROR).t_type = T_OROR from rfl)]
    rw [bind_run_ok (addoplabel_chain OP_CONDORJUMP s sites k c o _ _ false)]
    obtain ⟨type1, hop⟩ := getandcond_operand s
      { l_sites := (s.f_opcodes.length + c.length + 1) :: sites } k e n (by omega)
      (c ++ [Slot.op OP_CONDORJUMP, Slot.arg ({ l_sites := sites } : LABEL).l_chain])
      OP_CONDORJUMP (optok T_OROR) (e.tokens ++ (chain_tokens T_OROR es ++ t :: rest)) false
      t1 rest1 hp1 hs1 hr1 hand1 (by rw [hsplit]; rfl)
    rw [bind_run_ok hop]
    rw [ih n EXPR_RVALUE _ (k + 1) _ _ t1 rest1 true (by simpa using hsplit.symm) (by omega)]
    have hlen : s.f_opcodes.length +
        (c ++ [Slot.op OP_CONDORJUMP, Slot.arg ({ l_sites := sites } : LABEL).l_chain] ++
          e.tree.postorder).length =
        s.f_opcodes.length + c.length + 2 + e.tree.postorder.length := by
      simp
      omega
    rw [hlen]
    simp only [chain_sites, chain_pending, chain_lastop, List.length_cons]
    have hk : k + 1 + es.length = k + (es.length + 1) := by omega
    have hch : ({ l_sites := (s.f_opcodes.length + c.length + 1) :: sites } : LABEL).l_chain =
        ((s.f_opcodes.length + c.length + 1 : Nat) : Int) := rfl
    rw [hk, hch]
    simp [List.append_assoc]

/-! ## The loop of getandcond on a chain -/

/-- An operand of a chain of `&&`, a sum in front of a token that the levels up to
`getrelation` leave: `getrelation` emits the code of the sum and leaves the
token to be read again. -/
theorem getrelation_operand (s : PState) (label : LABEL) (k : Nat) (e : SumExpr) (n : Nat)
    (hn : e.cost + 1 ≤ n) (c : List Slot) (o : Opcode) (cur : Token) (inp : List Token)
    (r : Bool) (t : Token) (rest : List Token) (ht : t.plain)
    (h1 : continues_sum t.t_type = false) (h2 : relation_opcode t.t_type = none)
    (h : (if r then cur :: inp else inp) = e.tokens ++ t :: rest) :
    ∃ type, getrelation n ((s.chain label k).advance c o cur inp r) =
      Res.ok type ((s.chain label k).advance (c ++ e.tree.postorder) e.tree.lastop
        t rest true) := by
  obtain ⟨m, rfl⟩ : ∃ m, n = m + 1 := ⟨n - 1, by omega⟩
  obtain ⟨type, hg⟩ := getsum_spec (s.chain label k) (t :: rest)
    (by rw [starts_cons _ _ _ ht]; exact h1) e m (by omega) c o cur inp r h
  rw [scantoken_plain _ _ _ ht] at hg
  exact ⟨type, getrelation_pass m _ _ type hg rfl h2⟩

/-- The loop of `getandcond` on the right operands `es` of a chain of `&&`, in
front of a token that ends the chain. -/
theorem getandcond_loop_chain (s : PState) (t : Token) (rest : List Token)
    (hp : t.plain) (h1 : continues_sum t.t_type = false)
    (h2 : relation_opcode t.t_type = none) (h3 : t.t_type ≠ T_ANDAND) (es : List SumExpr) :
    ∀ (n type : Nat) (sites : List Nat) (k : Nat) (c : List Slot) (o : Opcode) (cur : Token)
      (inp : List Token) (r : Bool),
      (if r then cur :: inp else inp) = chain_tokens T_ANDAND es ++ t :: rest →
      chain_cost es + 1 ≤ n →
      getandcond_loop n s.labels.length type
          ((s.chain { l_sites := sites } k).advance c o cur inp r) =
        Res.ok (if es = [] then type else EXPR_RVALUE)
          (chain_done s (chain_sites (s.f_opcodes.length + c.length) es sites) k
            (c ++ chain_pending OP_CONDANDJUMP (s.f_opcodes.length + c.length)
              ({ l_sites := sites } : LABEL).l_chain es)
            (chain_lastop o es) t rest) := by
  induction es with
  | nil =>
    intro n type sites k c o cur inp r h hn
    obtain ⟨n, rfl⟩ : ∃ m, n = m + 1 := ⟨n - 1, by omega⟩
    rw [getandcond_loop, bind_run_ok (gettoken_advance _ c o cur inp r t rest hp
      (by simpa [chain_tokens] using h)), if_neg h3]
    rw [chain_end]
    simp [chain_sites, chain_pending, chain_lastop]
  | cons e es ih =>
    intro n type sites k c o cur inp r h hn
    obtain ⟨n, rfl⟩ : ∃ m, n = m + 1 := ⟨n - 1, by omega⟩
    simp only [chain_cost] at hn
    obtain ⟨t1, rest1, hsplit, hwhich, hp1, hs1, hr1⟩ :=
      chain_next T_ANDAND (Or.inr rfl) es t rest ⟨hp, h1, h2⟩
    rw [getandcond_loop, bind_run_ok (gettoken_advance _ c o cur inp r (optok T_ANDAND)
      (e.tokens ++ (chain_tokens T_ANDAND es ++ t :: rest)) (by simp [Token.plain, optok])
      (by simpa [chain_tokens] using h)),
      if_pos (show (optok T_ANDAND).t_type = T_ANDAND from rfl)]
    rw [bind_run_ok (addoplabel_chain OP_CONDANDJUMP s sites k c o _ _ false)]
    obtain ⟨type1, hop⟩ := getrelation_operand s
      { l_sites := (s.f_opcodes.length + c.length + 1) :: sites } k e n (by omega)
      (c ++ [Slot.op OP_CONDANDJUMP, Slot.arg ({ l_sites := sites } : LABEL).l_chain])
      OP_CONDANDJUMP (optok T_ANDAND) (e.tokens ++ (chain_tokens T_ANDAND es ++ t :: rest)) false
      t1 rest1 hp1 hs1 hr1 (by rw [hsplit]; rfl)
    rw [bind_run_ok hop]
    rw [ih n EXPR_RVALUE _ k _ _ t1 rest1 true (by simpa using hsplit.symm) (by omega)]
    have hlen : s.f_opcodes.length +
        (c ++ [Slot.op OP_CONDANDJUMP, Slot.arg ({ l_sites := sites } : LABEL).l_chain] ++
          e.tree.postorder).length =
        s.f_opcodes.length + c.length + 2 + e.tree.postorder.length := by
      simp
      omega
    rw [hlen]
    simp only [chain_sites, chain_pending, chain_lastop]
    have hch : ({ l_sites := (s.f_opcodes.length + c.length + 1) :: sites } : LABEL).l_chain =
        ((s.f_opcodes.length + c.length + 1 : Nat) : Int) := rfl
    rw [hch]
    simp [List.append_assoc]

/-- The state in which the loop of a chain returns is the state with the jumps of
the chain going to the end of the chain. -/
theorem chain_done_eq (op : Opcode) (s : PState) (es : List SumExpr) (k : Nat) (c : List Slot)
    (o : Opcode) (t : Token) (rest : List Token) :
    chain_done s (chain_sites (s.f_opcodes.length + c.length) es []) k
        (c ++ chain_pending op (s.f_opcodes.length + c.length) (-1) es) o t rest =
      (s.chain (chain_label es ((s.f_opcodes ++ c ++ chain_code op 0 es).length : Int))
        k).advance
        (c ++ chain_code op ((s.f_opcodes ++ c ++ chain_code op 0 es).length : Int) es)
        o t rest true := by
  unfold chain_done chain_label
  have hlen : (s.f_opcodes ++ (c ++ chain_pending op (s.f_opcodes.length + c.length) (-1) es)).length
      = (s.f_opcodes ++ c ++ chain_code op 0 es).length := by
    simp only [List.length_append]
    rw [chain_pending_length op es _ _ 0]
    omega
  cases es with
  | nil =>
    rw [if_neg (by simp [chain_sites, LABEL.l_chain]), if_pos rfl]
    simp [chain_pending, chain_code, chain_sites]
  | cons e es =>
    rw [if_pos (chain_sites_head (e :: es) _ [] (Or.inr (by simp))), if_neg (by simp), hlen]
    have hp := patch_chain op ((s.f_opcodes ++ c ++ chain_code op 0 (e :: es)).length : Int)
      (e :: es) (s.f_opcodes ++ c) [] (-1) (by simp)
    rw [List.length_append s.f_opcodes c] at hp
    rw [← List.append_assoc, hp]
    simp [PState.advance, PState.chain, patchsites]

/-! ## Chains of conditions: the theorem -/

/-- Chains of `||` and of `&&` whose operands are sums of number literals, in
front of a token `t` that is no operator of these levels.  For the chain
`e1 || e2 || ... || en`, `getorcond` emits the code of `e1` and then, for every
right operand, `OP_CONDORJUMP` with the operand `target` and the code of the
operand, where `target` is the offset behind the code of the last operand, to
which the label of the chain is resolved; with no right operand, no jump is
emitted and the label is as it was cleared.  The same holds of `getandcond`
with `&&` and `OP_CONDANDJUMP`. -/
theorem getorcond_chain (s : PState) (e1 : SumExpr) (es : List SumExpr) (t : Token)
    (rest : List Token) (n : Nat) (c : List Slot) (o : Opcode) (cur : Token)
    (inp : List Token) (r : Bool)
    (hp : t.plain) (h1 : continues_sum t.t_type = false)
    (h2 : relation_opcode t.t_type = none) (h3 : t.t_type ≠ T_ANDAND)
    (hn : e1.cost + chain_cost es + 4 ≤ n) :
    (t.t_type ≠ T_OROR →
      (if r then cur :: inp else inp) = e1.tokens ++ (chain_tokens T_OROR es ++ t :: rest) →
      ∃ type, getorcond n (s.advance c o cur inp r) =
        Res.ok type
          ((s.chain
            (chain_label es
              ((s.f_opcodes ++ (c ++ e1.tree.postorder) ++
                chain_code OP_CONDORJUMP 0 es).length : Int))
            (1 + es.length)).advance
            (c ++ e1.tree.postorder ++
              chain_code OP_CONDORJUMP
                ((s.f_opcodes ++ (c ++ e1.tree.postorder) ++
                  chain_code OP_CONDORJUMP 0 es).length : Int) es)
            (chain_lastop e1.tree.lastop es) t rest true)) ∧
    ((if r then cur :: inp else inp) = e1.tokens ++ (chain_tokens T_ANDAND es ++ t :: rest) →
      ∃ type, getandcond n (s.advance c o cur inp r) =
        Res.ok type
          ((s.chain
            (chain_label es
              ((s.f_opcodes ++ (c ++ e1.tree.postorder) ++
                chain_code OP_CONDANDJUMP 0 es).length : Int))
            0).advance
            (c ++ e1.tree.postorder ++
              chain_code OP_CONDANDJUMP
                ((s.f_opcodes ++ (c ++ e1.tree.postorder) ++
                  chain_code OP_CONDANDJUMP 0 es).length : Int) es)
            (chain_lastop e1.tree.lastop es) t rest true)) := by
  obtain ⟨m, rfl⟩ : ∃ m, n = m + 1 := ⟨n - 1, by omega⟩
  constructor
  · intro h4 h
    obtain ⟨t1, rest1, hsplit, hwhich, hp1, hs1, hr1⟩ :=
      chain_next T_OROR (Or.inl rfl) es t rest ⟨hp, h1, h2⟩
    have hand1 : t1.t_type ≠ T_ANDAND := by
      rcases hwhich with rfl | rfl
      · exact h3
      · decide
    obtain ⟨type1, hop⟩ := getandcond_operand s {} 0 e1 m (by omega) c o cur inp r t1 rest1
      hp1 hs1 hr1 hand1 (by rw [h, hsplit])
    rw [getorcond]
    rw [bind_run_ok (show newlabel (s.advance c o cur inp r) = Res.ok s.labels.length
      ((s.chain {} 0).advance c o cur inp r) from rfl)]
    rw [bind_run_ok hop]
    have hloop := getorcond_loop_chain s t rest ⟨hp, h1, h2, h3, h4⟩ es m type1 [] 1
      (c ++ e1.tree.postorder) e1.tree.lastop t1 rest1 true (by simpa using hsplit.symm)
      (by omega)
    have hfin := chain_done_eq OP_CONDORJUMP s es (1 + es.length) (c ++ e1.tree.postorder)
      (chain_lastop e1.tree.lastop es) t rest
    exact ⟨(if es = [] then type1 else EXPR_RVALUE), hloop.trans (congrArg (Res.ok _) hfin)⟩
  · intro h
    obtain ⟨t1, rest1, hsplit, hwhich, hp1, hs1, hr1⟩ :=
      chain_next T_ANDAND (Or.inr rfl) es t rest ⟨hp, h1, h2⟩
    obtain ⟨type1, hop⟩ := getrelation_operand s {} 0 e1 m (by omega) c o cur inp r t1 rest1
      hp1 hs1 hr1 (by rw [h, hsplit])
    rw [getandcond]
    rw [bind_run_ok (show newlabel (s.advance c o cur inp r) = Res.ok s.labels.length
      ((s.chain {} 0).advance c o cur inp r) from rfl)]
    rw [bind_run_ok hop]
    have hloop := getandcond_loop_chain s t rest hp h1 h2 h3 es m type1 [] 0
      (c ++ e1.tree.postorder) e1.tree.lastop t1 rest1 true (by simpa using hsplit.symm)
      (by omega)
    have hfin := chain_done_eq OP_CONDANDJUMP s es 0 (c ++ e1.tree.postorder)
      (chain_lastop e1.tree.lastop es) t rest
    exact ⟨(if es = [] then type1 else EXPR_RVALUE), hloop.trans (congrArg (Res.ok _) hfin)⟩

/-! ## Three chains -/

/-- On `1 || 2 || 3;` both jumps go to the offset 10 behind the code of the
last operand, to which the label of the chain is resolved; on `1 && 2;`: the
jump goes to the offset 6; and on `1;`: no jump, and no label resolved. -/
theorem getorcond_chain_witness :
    (∃ type, getorcond 40 ((top_level []).advance [] OP_NOP (optok T_SEMICOLON)
        chain_lines.1 false) =
      Res.ok type
        { top_level [] with
          f_opcodes := [Slot.op OP_NUMBER, Slot.arg 0, Slot.op OP_CONDORJUMP, Slot.arg 10,
            Slot.op OP_NUMBER, Slot.arg 1, Slot.op OP_CONDORJUMP, Slot.arg 10,
            Slot.op OP_NUMBER, Slot.arg 2]
          oldop := OP_NUMBER
          labels := [{ l_offset := 10 }, {}, {}, {}]
          curtoken := optok T_SEMICOLON
          rescan := true }) ∧
    (∃ type, getandcond 40 ((top_level []).advance [] OP_NOP (optok T_SEMICOLON)
        chain_lines.2.1 false) =
      Res.ok type
        { top_level [] with
          f_opcodes := [Slot.op OP_NUMBER, Slot.arg 0, Slot.op OP_CONDANDJUMP, Slot.arg 6,
            Slot.op OP_NUMBER, Slot.arg 1]
          oldop := OP_NUMBER
          labels := [{ l_offset := 6 }]
          curtoken := optok T_SEMICOLON
          rescan := true }) ∧
    (∃ type, getorcond 40 ((top_level []).advance [] OP_NOP (optok T_SEMICOLON)
        chain_lines.2.2 false) =
      Res.ok type
        { top_level [] with
          f_opcodes := [Slot.op OP_NUMBER, Slot.arg 0]
          oldop := OP_NUMBER
          labels := [{}, {}]
          curtoken := optok T_SEMICOLON
          rescan := true }) :=
  ⟨(getorcond_chain (top_level []) (SumExpr.literal 0) [SumExpr.literal 1, SumExpr.literal 2]
      (optok T_SEMICOLON) [] 40 [] OP_NOP (optok T_SEMICOLON) chain_lines.1 false
      (by simp [Token.plain, optok]) (by decide) (by decide) (by decide) (by decide)).1 (by decide) rfl,
   (getorcond_chain (top_level []) (SumExpr.literal 0) [SumExpr.literal 1]
      (optok T_SEMICOLON) [] 40 [] OP_NOP (optok T_SEMICOLON) chain_lines.2.1 false
      (by simp [Token.plain, optok]) (by decide) (by decide) (by decide) (by decide)).2 rfl,
   (getorcond_chain (top_level []) (SumExpr.literal 0) []
      (optok T_SEMICOLON) [] 40 [] OP_NOP (optok T_SEMICOLON) chain_lines.2.2 false
      (by simp [Token.plain, optok]) (by decide) (by decide) (by decide) (by decide)).1 (by decide) rfl⟩

/-! ## commath.c: the complex product, square and quotient -/

namespace Commath

theorem exactLib_exact : exactLib.Exact where
  qzero := rfl
  qone := rfl
  qnegone := rfl
  qqadd := fun _ _ => rfl
  qsub := fun _ _ => rfl
  qmul := fun _ _ => rfl
  qdiv := fun _ _ _ => rfl
  qsquare := fun _ => rfl
  qneg := fun _ => rfl
  qscale := fun a n => by simp [exactLib, zpow_natCast]

theorem qiszero_iff (q : NUMBER) : qiszero q = true ↔ q.val = 0 := by
  simp [qiszero, Rat.num_eq_zero]

theorem qisone_iff (q : NUMBER) : qisone q = true ↔ q.val = 1 := by
  simp only [qisone, Bool.and_eq_true, beq_iff_eq]
  constructor
  · intro h
    rw [← Rat.num_div_den q.val, h.1, h.2]
    norm_num
  · intro h
    rw [h]
    exact ⟨rfl, rfl⟩

theorem qisnegone_iff (q : NUMBER) : qisnegone q = true ↔ q.val = -1 := by
  simp only [qisnegone, Bool.and_eq_true, beq_iff_eq]
  constructor
  · intro h
    rw [← Rat.num_div_den q.val, h.1, h.2]
    norm_num
  · intro h
    rw [h]
    exact ⟨rfl, rfl⟩

theorem qisunit_iff (q : NUMBER) : qisunit q = true ↔ q.val = 1 ∨ q.val = -1 := by
  simp only [qisunit, Bool.and_eq_true, beq_iff_eq]
  constructor
  · intro h
    rcases Int.natAbs_eq q.val.num with h1 | h1
    · left
      rw [← Rat.num_div_den q.val, h1, h.1, h.2]
      norm_num
    · right
      rw [← Rat.num_div_den q.val, h1, h.1, h.2]
      norm_num
  · intro h
    rcases h with h | h <;> rw [h] <;> exact ⟨rfl, rfl⟩

end Commath

namespace Commath

theorem qiszero_false_iff (q : NUMBER) : qiszero q = false ↔ q.val ≠ 0 := by
  have h := qiszero_iff q
  cases hq : qiszero q
  · rw [hq] at h
    simpa using h
  · rw [hq] at h
    simpa using h

theorem ciszero_iff (c : COMPLEX) : ciszero c = true ↔ c.real.val = 0 ∧ c.imag.val = 0 := by
  simp [ciszero, cisreal, qiszero_iff, and_comm]

theorem cisreal_iff (c : COMPLEX) : cisreal c = true ↔ c.imag.val = 0 := by
  simp [cisreal, qiszero_iff]

theorem cisone_iff (c : COMPLEX) : cisone c = true ↔ c.real.val = 1 ∧ c.imag.val = 0 := by
  simp [cisone, cisreal, qiszero_iff, qisone_iff, and_comm]

theorem cisimag_iff (c : COMPLEX) : cisimag c = true ↔ c.real.val = 0 ∧ c.imag.val ≠ 0 := by
  simp [cisimag, cisreal, qiszero_iff, qiszero_false_iff]

theorem cisrunit_iff (c : COMPLEX) :
    cisrunit c = true ↔ (c.real.val = 1 ∨ c.real.val = -1) ∧ c.imag.val = 0 := by
  simp [cisrunit, cisreal, qiszero_iff, qisunit_iff, and_comm]

theorem cisiunit_iff (c : COMPLEX) :
    cisiunit c = true ↔ c.real.val = 0 ∧ (c.imag.val = 1 ∨ c.imag.val = -1) := by
  simp [cisiunit, qiszero_iff, qisunit_iff]

theorem czero_value (m : QMath) (h : m.Exact) : (czero m).value = (0, 0) := by
  simp [czero, COMPLEX.value, h.qzero]

theorem cneg_value (m : QMath) (h : m.Exact) (c : COMPLEX) :
    (cneg m c).value = (-c.real.val, -c.imag.val) := by
  unfold cneg
  by_cases h0 : ciszero c = true
  · rw [if_pos h0, czero_value m h]
    rw [ciszero_iff] at h0
    simp [h0.1, h0.2]
  · rw [if_neg h0]
    by_cases hr : c.real.val = 0 <;> by_cases hi : c.imag.val = 0 <;>
      simp [COMPLEX.value, comalloc, (qiszero_iff c.real).mpr, (qiszero_iff c.imag).mpr,
        (qiszero_false_iff c.real).mpr, (qiszero_false_iff c.imag).mpr, hr, hi, h.qneg, h.qzero]

theorem cmulq_value (m : QMath) (h : m.Exact) (c : COMPLEX) (q : NUMBER) :
    (cmulq m c q).value = (c.real.val * q.val, c.imag.val * q.val) := by
  unfold cmulq
  by_cases h0 : qiszero q = true
  · rw [if_pos h0, czero_value m h]
    rw [qiszero_iff] at h0
    simp [h0]
  · rw [if_neg h0]
    by_cases h1 : qisone q = true
    · rw [if_pos h1]
      rw [qisone_iff] at h1
      simp [COMPLEX.value, h1]
    · rw [if_neg h1]
      by_cases h2 : qisnegone q = true
      · rw [if_pos h2, cneg_value m h]
        rw [qisnegone_iff] at h2
        simp [h2]
      · rw [if_neg h2]
        simp [COMPLEX.value, comalloc, h.qmul]

/-- C35: for all complex numbers a+bi and c+di with rational parts, `cmul` returns
exactly (ac - bd) + (ad + bc)i, on every path: the shortcuts for a zero
operand, for an operand that is one and for a real operand (through `cmulq`),
and the general case with its three products. -/
theorem cmul_exact (m : QMath) (h : m.Exact) (c1 c2 : COMPLEX) :
    (cmul m c1 c2).value =
      (c1.real.val * c2.real.val - c1.imag.val * c2.imag.val,
       c1.real.val * c2.imag.val + c1.imag.val * c2.real.val) := by
  unfold cmul
  by_cases h0 : (ciszero c1 || ciszero c2) = true
  · rw [if_pos h0, czero_value m h]
    rw [Bool.or_eq_true, ciszero_iff, ciszero_iff] at h0
    rcases h0 with h0 | h0 <;> simp [h0.1, h0.2]
  · rw [if_neg h0]
    by_cases h1 : cisone c1 = true
    · rw [if_pos h1]
      rw [cisone_iff] at h1
      simp [COMPLEX.value, h1.1, h1.2]
    · rw [if_neg h1]
      by_cases h2 : cisone c2 = true
      · rw [if_pos h2]
        rw [cisone_iff] at h2
        simp [COMPLEX.value, h2.1, h2.2]
      · rw [if_neg h2]
        by_cases h3 : cisreal c2 = true
        · rw [if_pos h3, cmulq_value m h]
          rw [cisreal_iff] at h3
          simp [h3]
        · rw [if_neg h3]
          by_cases h4 : cisreal c1 = true
          · rw [if_pos h4, cmulq_value m h]
            rw [cisreal_iff] at h4
            simp [h4, mul_comm]
          · rw [if_neg h4]
            simp only [COMPLEX.value, comalloc, h.qsub, h.qmul, h.qqadd]
            refine Prod.ext ?_ ?_
            · rfl
            · show _ = _
              ring

theorem cmul_exact_witness :
    exactLib.Exact ∧
    (cmul exactLib ⟨⟨10, 1 / 2⟩, ⟨11, 3⟩⟩ ⟨⟨12, 2⟩, ⟨13, -1 / 3⟩⟩).value = (2, 35 / 6) ∧
    (cmul exactLib ⟨⟨10, 1 / 2⟩, ⟨11, 3⟩⟩ ⟨⟨12, 2⟩, ⟨13, -1 / 3⟩⟩).value =
      ((1 / 2 : ℚ) * 2 - 3 * (-1 / 3), (1 / 2 : ℚ) * (-1 / 3) + 3 * 2) :=
  ⟨exactLib_exact, by decide!, cmul_exact exactLib exactLib_exact _ _⟩

end Commath

namespace Commath

theorem csquare_value (m : QMath) (h : m.Exact) (c : COMPLEX) :
    (csquare m c).value =
      (c.real.val * c.real.val - c.imag.val * c.imag.val, 2 * (c.real.val * c.imag.val)) := by
  unfold csquare
  by_cases h0 : ciszero c = true
  · rw [if_pos h0, czero_value m h]
    rw [ciszero_iff] at h0
    simp [h0.1, h0.2]
  · rw [if_neg h0]
    by_cases h1 : cisrunit c = true
    · rw [if_pos h1]
      rw [cisrunit_iff] at h1
      rcases h1 with ⟨h1 | h1, h2⟩ <;> simp [cone, COMPLEX.value, h.qone, h.qzero, h1, h2]
    · rw [if_neg h1]
      by_cases h2 : cisiunit c = true
      · rw [if_pos h2]
        rw [cisiunit_iff] at h2
        rcases h2 with ⟨h2, h3 | h3⟩ <;>
          simp [cnegone, COMPLEX.value, h.qnegone, h.qzero, h2, h3]
      · rw [if_neg h2]
        by_cases h3 : cisreal c = true
        · simp only [h3, if_true]
          rw [cisreal_iff] at h3
          simp [COMPLEX.value, comalloc, h.qsquare, h.qzero, h3]
        · simp only [h3]
          by_cases h4 : cisimag c = true
          · simp only [h4, if_true]
            rw [cisimag_iff] at h4
            simp [COMPLEX.value, comalloc, h.qsquare, h.qneg, h.qzero, h4.1]
          · simp only [h4]
            have hs := h.qscale (m.qmul c.real c.imag) 1
            simp only [Nat.cast_one, pow_one] at hs
            simp only [COMPLEX.value, h.qsub, h.qsquare, hs, h.qmul, Bool.false_eq_true,
              if_false]
            refine Prod.ext rfl ?_
            show _ = _
            ring

/-- C37: for every complex number c, `csquare c` denotes the same value as
`cmul c c`, on each path of `csquare`: zero, the real units 1 and -1, the
imaginary units i and -i, a real number, an imaginary number, and the general
case. -/
theorem csquare_eq_cmul (m : QMath) (h : m.Exact) (c : COMPLEX) :
    (csquare m c).value = (cmul m c c).value := by
  rw [csquare_value m h, cmul_exact m h]
  refine Prod.ext rfl ?_
  show _ = _
  ring

theorem csquare_eq_cmul_witness :
    exactLib.Exact ∧
    (csquare exactLib ⟨⟨10, 1 / 2⟩, ⟨11, 3⟩⟩).value = (-35 / 4, 3) ∧
    (csquare exactLib ⟨⟨10, -1⟩, ⟨11, 0⟩⟩) = cone exactLib ∧
    (csquare exactLib ⟨⟨10, 0⟩, ⟨11, -1⟩⟩) = cnegone exactLib ∧
    (csquare exactLib ⟨⟨10, 1 / 2⟩, ⟨11, 3⟩⟩).value =
      (cmul exactLib ⟨⟨10, 1 / 2⟩, ⟨11, 3⟩⟩ ⟨⟨10, 1 / 2⟩, ⟨11, 3⟩⟩).value :=
  ⟨exactLib_exact, by decide!, by decide!, by decide!,
    csquare_eq_cmul exactLib exactLib_exact _⟩

/-- C36: for every complex c1 and every complex c2 that is not zero, `cdiv`
returns a quotient whose product with c2, by `cmul`, is c1, on each of its
paths: the operands that are the same numbers (compared by their pointers),
real by real, imaginary by imaginary, imaginary by real, real by imaginary, a
real divisor, and the general formula; with a divisor that is zero it raises
the error "Division by zero" and returns no value. -/
theorem cdiv_cmul (m : QMath) (h : m.Exact) (c1 c2 : COMPLEX)
    (hr : c1.real.addr = c2.real.addr → c1.real.val = c2.real.val)
    (hi : c1.imag.addr = c2.imag.addr → c1.imag.val = c2.imag.val) :
    (c2.value = (0, 0) → cdiv m c1 c2 = Except.error "Division by zero") ∧
    (c2.value ≠ (0, 0) →
      ∃ r, cdiv m c1 c2 = Except.ok r ∧ (cmul m r c2).value = c1.value) := by
  have hz : ciszero c2 = true ↔ c2.value = (0, 0) := by
    rw [ciszero_iff]
    simp [COMPLEX.value, Prod.ext_iff]
  constructor
  · intro h0
    unfold cdiv
    rw [if_pos (hz.mpr h0)]
  · intro h0
    have h0' : ¬ ciszero c2 = true := fun hc => h0 (hz.mp hc)
    have hne : ¬ (c2.real.val = 0 ∧ c2.imag.val = 0) := fun hc => h0' ((ciszero_iff c2).mpr hc)
    unfold cdiv
    rw [if_neg h0']
    by_cases hp : c1.real.addr = c2.real.addr ∧ c1.imag.addr = c2.imag.addr
    · rw [if_pos hp]
      refine ⟨_, rfl, ?_⟩
      rw [cmul_exact m h]
      simp [cone, COMPLEX.value, h.qone, h.qzero, hr hp.1, hi hp.2]
    · rw [if_neg hp]
      by_cases h1 : (cisreal c1 && cisreal c2) = true
      · simp only [h1, if_true]
        refine ⟨_, rfl, ?_⟩
        rw [Bool.and_eq_true, cisreal_iff, cisreal_iff] at h1
        have hc : c2.real.val ≠ 0 := fun hc => hne ⟨hc, h1.2⟩
        rw [cmul_exact m h]
        simp [COMPLEX.value, comalloc, h.qdiv _ _ hc, h.qzero, h1.1, h1.2, hc]
      · simp only [h1]
        by_cases h2 : (cisimag c1 && cisimag c2) = true
        · simp only [h2, if_true]
          refine ⟨_, rfl, ?_⟩
          rw [Bool.and_eq_true, cisimag_iff, cisimag_iff] at h2
          rw [cmul_exact m h]
          simp [COMPLEX.value, comalloc, h.qdiv _ _ h2.2.2, h.qzero, h2.1.1, h2.2.1, h2.2.2]
        · simp only [h2]
          by_cases h3 : (cisimag c1 && cisreal c2) = true
          · simp only [h3, if_true]
            refine ⟨_, rfl, ?_⟩
            rw [Bool.and_eq_true, cisimag_iff, cisreal_iff] at h3
            have hc : c2.real.val ≠ 0 := fun hc => hne ⟨hc, h3.2⟩
            rw [cmul_exact m h]
            simp [COMPLEX.value, comalloc, h.qdiv _ _ hc, h.qzero, h3.1.1, h3.2, hc]
          · simp only [h3]
            by_cases h4 : (cisreal c1 && cisimag c2) = true
            · simp only [h4, if_true]
              refine ⟨_, rfl, ?_⟩
              rw [Bool.and_eq_true, cisreal_iff, cisimag_iff] at h4
              rw [cmul_exact m h]
              simp [COMPLEX.value, comalloc, h.qdiv _ _ h4.2.2, h.qneg, h.qzero, h4.1, h4.2.1,
                h4.2.2]
            · simp only [h4]
              by_cases h5 : cisreal c2 = true
              · simp only [h5, if_true]
                refine ⟨_, rfl, ?_⟩
                rw [cisreal_iff] at h5
                have hc : c2.real.val ≠ 0 := fun hc => hne ⟨hc, h5⟩
                rw [cmul_exact m h]
                simp [COMPLEX.value, comalloc, h.qdiv _ _ hc, h5, hc]
              · simp only [h5]
                refine ⟨_, rfl, ?_⟩
                have hd : c2.real.val * c2.real.val + c2.imag.val * c2.imag.val ≠ 0 := by
                  intro hd
                  have h6 := mul_self_nonneg c2.real.val
                  have h7 := mul_self_nonneg c2.imag.val
                  have h8 : c2.real.val * c2.real.val = 0 := by linarith
                  have h9 : c2.imag.val * c2.imag.val = 0 := by linarith
                  exact hne ⟨mul_self_eq_zero.mp h8, mul_self_eq_zero.mp h9⟩
                have hden : (m.qqadd (m.qsquare c2.real) (m.qsquare c2.imag)).val ≠ 0 := by
                  rw [h.qqadd, h.qsquare, h.qsquare]
                  exact hd
                rw [cmul_exact m h]
                simp only [COMPLEX.value, h.qdiv _ _ hden, h.qqadd, h.qsquare, h.qmul, h.qsub,
                  Bool.false_eq_true, if_false]
                refine Prod.ext ?_ ?_
                · show _ = _
                  field_simp
                  ring
                · show _ = _
                  field_simp
                  ring

theorem cdiv_cmul_witness :
    exactLib.Exact ∧
    cdiv exactLib ⟨⟨10, 1 / 2⟩, ⟨11, 3⟩⟩ ⟨⟨12, 0⟩, ⟨13, 0⟩⟩ = Except.error "Division by zero" ∧
    cdiv exactLib ⟨⟨10, 1 / 2⟩, ⟨11, 3⟩⟩ ⟨⟨12, 2⟩, ⟨13, -1⟩⟩ =
      Except.ok ⟨⟨0, -2 / 5⟩, ⟨0, 13 / 10⟩⟩ ∧
    ((⟨⟨12, 2⟩, ⟨13, -1⟩⟩ : COMPLEX).value ≠ (0, 0) →
      ∃ r, cdiv exactLib ⟨⟨10, 1 / 2⟩, ⟨11, 3⟩⟩ ⟨⟨12, 2⟩, ⟨13, -1⟩⟩ = Except.ok r ∧
        (cmul exactLib r ⟨⟨12, 2⟩, ⟨13, -1⟩⟩).value =
          (⟨⟨10, 1 / 2⟩, ⟨11, 3⟩⟩ : COMPLEX).value) :=
  ⟨exactLib_exact, by decide!, by decide!,
    (cdiv_cmul exactLib exactLib_exact ⟨⟨10, 1 / 2⟩, ⟨11, 3⟩⟩ ⟨⟨12, 2⟩, ⟨13, -1⟩⟩
      (fun h => absurd h (by decide)) (fun h => absurd h (by decide))).2⟩

end Commath

namespace Obj

theorem two_pow_and (j n : Nat) : 2 ^ j &&& n = if n.testBit j then 2 ^ j else 0 := by
  apply Nat.eq_of_testBit_eq
  intro i
  rw [Nat.testBit_and, Nat.testBit_two_pow]
  by_cases h : j = i
  · subst h
    cases hb : n.testBit j <;> simp [Nat.testBit_two_pow_self]
  · cases hb : n.testBit j <;> simp [h, Nat.testBit_two_pow, hb]

theorem two_pow_and_eq_zero (j n : Nat) : 2 ^ j &&& n = 0 ↔ n.testBit j = false := by
  rw [two_pow_and]
  cases n.testBit j <;> simp

theorem testBit_log (n : Nat) (h : n ≠ 0) : n.testBit (Nat.log 2 n) = true := by
  rw [Nat.testBit_to_div_mod]
  have h1 := Nat.pow_log_le_self 2 h
  have h2 := Nat.lt_pow_succ_log_self (by decide : 1 < 2) n
  have h3 : n / 2 ^ Nat.log 2 n = 1 := by
    apply Nat.div_eq_of_lt_le
    · simpa using h1
    · rw [pow_succ] at h2
      omega
  simp [h3]

theorem shiftRight_two_pow_succ (j : Nat) : 2 ^ (j + 1) >>> 1 = 2 ^ j := by
  rw [Nat.shiftRight_eq_div_pow, pow_succ]
  simp

/-- The first loop stops at the highest bit of the exponent. -/
theorem findbit_top (n : Nat) (h : n ≠ 0) :
    ∀ (d fuel : Nat), d < fuel →
      findbit n fuel (2 ^ (Nat.log 2 n + d)) = Outcome.value (2 ^ Nat.log 2 n) := by
  intro d
  induction d with
  | zero =>
    intro fuel hf
    obtain ⟨m, rfl⟩ : ∃ m, fuel = m + 1 := ⟨fuel - 1, by omega⟩
    rw [findbit, Nat.add_zero, if_neg]
    rw [two_pow_and_eq_zero, testBit_log n h]
    simp
  | succ d ih =>
    intro fuel hf
    obtain ⟨m, rfl⟩ : ∃ m, fuel = m + 1 := ⟨fuel - 1, by omega⟩
    rw [findbit, if_pos]
    · rw [← Nat.add_assoc, shiftRight_two_pow_succ]
      exact ih m (by omega)
    · rw [two_pow_and_eq_zero]
      apply Nat.testBit_lt_two_pow
      have h2 := Nat.lt_pow_succ_log_self (by decide : 1 < 2) n
      calc n < 2 ^ (Nat.log 2 n).succ := h2
        _ ≤ 2 ^ (Nat.log 2 n + (d + 1)) := Nat.pow_le_pow_right (by decide) (by omega)

theorem bit_of_succ (m : Nat) : bit_of (m + 1) = 2 ^ m := by simp [bit_of]

theorem bit_of_shift (m : Nat) : bit_of (m + 1) >>> 1 = bit_of m := by
  rw [bit_of_succ]
  cases m with
  | zero => rfl
  | succ m => rw [shiftRight_two_pow_succ, bit_of_succ]

/-- With enough fuel the second loop returns, and does what `runbits` says. -/
theorem powloop_runbits {V : Type} (a : Actions V) (v : V) (n : Nat) :
    ∀ (m fuel : Nat) (st : V × List (Call V)), m < fuel →
      powloop a v n fuel (bit_of m) st = Outcome.value (runbits a v n m st) := by
  intro m
  induction m with
  | zero =>
    intro fuel st hf
    obtain ⟨k, rfl⟩ : ∃ k, fuel = k + 1 := ⟨fuel - 1, by omega⟩
    obtain ⟨res, log⟩ := st
    rw [powloop, runbits]
    simp [bit_of]
  | succ m ih =>
    intro fuel st hf
    obtain ⟨k, rfl⟩ : ∃ k, fuel = k + 1 := ⟨fuel - 1, by omega⟩
    obtain ⟨res, log⟩ := st
    rw [powloop, runbits, bit_of_shift, if_pos (by rw [bit_of_succ]; positivity)]
    dsimp only
    rw [bit_of_succ, two_pow_and]
    by_cases hb : n.testBit m = true
    · simp only [hb, if_true]
      rw [if_pos (by positivity), ih k _ (by omega)]
    · simp only [hb]
      rw [if_neg (by simp), ih k _ (by omega)]
      simp

/-- The calls of the loops: a square for each bit, a product by `v` for each bit
that is one, and no other call. -/
theorem runbits_calls {V : Type} (a : Actions V) (v : V) (n : Nat) :
    ∀ (m : Nat) (st : V × List (Call V)),
      ∃ ext, (runbits a v n m st).2 = st.2 ++ ext ∧
        ext.countP Call.is_square = m ∧
        ext.countP Call.is_mul = onebits_below n m ∧
        ext.countP Call.is_inv = 0 ∧
        (∀ c ∈ ext, ∀ x w, c = Call.mul x w → w = v) ∧
        (∀ c ∈ ext, Call.is_square c = true ∨ Call.is_mul c = true) := by
  intro m
  induction m with
  | zero =>
    intro st
    exact ⟨[], by simp [runbits], rfl, by simp [onebits_below], rfl, by simp, by simp⟩
  | succ m ih =>
    intro st
    obtain ⟨res, log⟩ := st
    have hob : onebits_below n (m + 1) = onebits_below n m + (if n.testBit m then 1 else 0) := by
      simp only [onebits_below, List.range_succ, List.filter_append, List.length_append]
      by_cases hb : n.testBit m = true <;> simp [hb]
    rw [runbits]
    by_cases hb : n.testBit m = true
    · simp only [hb, if_true]
      obtain ⟨ext, h1, h2, h3, h4, h5, h6⟩ := ih (a.mul (a.square res) v,
        log ++ [Call.square res] ++ [Call.mul (a.square res) v])
      refine ⟨[Call.square res, Call.mul (a.square res) v] ++ ext, ?_, ?_, ?_, ?_, ?_, ?_⟩
      · rw [h1]; simp
      · simp [List.countP_cons, Call.is_square, h2]
      · rw [hob]; simp [List.countP_cons, Call.is_mul, h3, hb]
      · simp [List.countP_cons, Call.is_inv, h4]
      · intro c hc x w hcw
        simp only [List.cons_append, List.nil_append, List.mem_cons] at hc
        rcases hc with hc | hc | hc
        · rw [hc] at hcw; cases hcw
        · rw [hc] at hcw; cases hcw; rfl
        · exact h5 c hc x w hcw
      · intro c hc
        simp only [List.cons_append, List.nil_append, List.mem_cons] at hc
        rcases hc with hc | hc | hc
        · rw [hc]; exact Or.inl rfl
        · rw [hc]; exact Or.inr rfl
        · exact h6 c hc
    · simp only [hb]
      obtain ⟨ext, h1, h2, h3, h4, h5, h6⟩ := ih (a.square res, log ++ [Call.square res])
      refine ⟨[Call.square res] ++ ext, ?_, ?_, ?_, ?_, ?_, ?_⟩
      · simp only [Bool.false_eq_true, if_false]; rw [h1]; simp
      · simp [List.countP_cons, Call.is_square, h2]
      · rw [hob]; simp [List.countP_cons, Call.is_mul, h3, hb]
      · simp [List.countP_cons, Call.is_inv, h4]
      · intro c hc x w hcw
        simp only [List.cons_append, List.nil_append, List.mem_cons] at hc
        rcases hc with hc | hc
        · rw [hc] at hcw; cases hcw
        · exact h5 c hc x w hcw
      · intro c hc
        simp only [List.cons_append, List.nil_append, List.mem_cons] at hc
        rcases hc with hc | hc
        · rw [hc]; exact Or.inl rfl
        · exact h6 c hc

theorem power_of_add {V : Type} (a : Actions V) (v : V)
    (hassoc : ∀ x y z, a.mul (a.mul x y) z = a.mul x (a.mul y z)) (i j : Nat) :
    a.mul (power_of a v i) (power_of a v j) = power_of a v (i + j + 1) := by
  induction j with
  | zero => rfl
  | succ j ih =>
    show a.mul (power_of a v i) (a.mul (power_of a v j) v) = a.mul (power_of a v (i + j + 1)) v
    rw [← hassoc, ih]

/-- The value of the loops: from the product of `e` factors, the product of
`e * 2 ^ m + n % 2 ^ m` factors. -/
theorem runbits_value {V : Type} (a : Actions V) (v : V) (n : Nat)
    (hsq : ∀ x, a.square x = a.mul x x)
    (hassoc : ∀ x y z, a.mul (a.mul x y) z = a.mul x (a.mul y z)) :
    ∀ (m e : Nat) (log : List (Call V)), 0 < e →
      (runbits a v n m (power_of a v (e - 1), log)).1 =
        power_of a v (e * 2 ^ m + n % 2 ^ m - 1) := by
  intro m
  induction m with
  | zero =>
    intro e log he
    simp [runbits, Nat.mod_one]
  | succ m ih =>
    intro e log he
    have hmod := Nat.mod_pow_succ (b := 2) (k := m) (x := n)
    have htb := Nat.testBit_to_div_mod (x := n) (i := m)
    have hsquare : a.square (power_of a v (e - 1)) = power_of a v (2 * e - 1) := by
      rw [hsq, power_of_add a v hassoc]
      congr 1
      omega
    rw [runbits]
    by_cases hb : n.testBit m = true
    · simp only [hb, if_true]
      have h1 : n / 2 ^ m % 2 = 1 := by simpa [hb] using htb.symm
      have h2 : a.mul (a.square (power_of a v (e - 1))) v = power_of a v (2 * e + 1 - 1) := by
        rw [hsquare]
        show power_of a v (2 * e - 1 + 1) = _
        congr 1
        omega
      rw [h2, ih (2 * e + 1) _ (by omega), hmod, h1]
      congr 1
      rw [pow_succ]
      ring_nf
    · simp only [hb]
      have h1 : n / 2 ^ m % 2 = 0 := by
        have : ¬ n / 2 ^ m % 2 = 1 := by simpa [hb] using htb.symm
        omega
      simp only [Bool.false_eq_true, if_false]
      rw [hsquare, ih (2 * e) _ (by omega), hmod, h1]
      congr 1
      rw [pow_succ]
      ring_nf

theorem onebits_eq (n : Nat) (h : n ≠ 0) : onebits n = onebits_below n (Nat.log 2 n) + 1 := by
  simp only [onebits, onebits_below, List.range_succ, List.filter_append, List.length_append]
  simp [testBit_log n h]

/-- The general case of `objpowi`, after the highest bit of the exponent `n`: the
first square, the first product and the loop are `runbits` for the bits below
the highest one. -/
theorem powloop_general {V : Type} (a : Actions V) (vp : V) (n k fuel : Nat) (hk : 0 < k)
    (hf : k < fuel) :
    powloop a vp n fuel ((2 ^ k >>> 1) >>> 1)
      (if (2 ^ k >>> 1) &&& n ≠ 0 then
        (a.mul (a.square vp) vp, [Call.square vp] ++ [Call.mul (a.square vp) vp])
       else (a.square vp, [Call.square vp])) =
    Outcome.value (runbits a vp n k (vp, [])) := by
  obtain ⟨j, rfl⟩ : ∃ j, k = j + 1 := ⟨k - 1, by omega⟩
  rw [shiftRight_two_pow_succ, ← bit_of_succ j, bit_of_shift, bit_of_succ, two_pow_and, runbits]
  by_cases hb : n.testBit j = true
  · simp only [hb, if_true]
    rw [if_pos (by positivity), powloop_runbits a vp n j fuel _ (by omega)]
    rfl
  · simp only [hb]
    rw [if_neg (by simp), powloop_runbits a vp n j fuel _ (by omega)]
    simp

/-- The general case of `objpowi` for an exponent of magnitude `n`, at least 2. -/
theorem objpowi_general {V : Type} (w TOPFULL : Nat) (a : Actions V) (fuel : Nat) (vp : V)
    (n : Nat) (neg : Prop) [Decidable neg] (hT : TOPFULL = 2 ^ w) (hn : 2 ≤ n) (hlt : n < 2 ^ 31) (hw : 31 ≤ w)
    (hfuel : w + 2 ≤ fuel) :
    (match findbit n fuel TOPFULL with
      | Outcome.value bit =>
        match powloop a vp n fuel ((bit >>> 1) >>> 1)
          (if (bit >>> 1) &&& n ≠ 0 then
            (a.mul (a.square vp) vp, [Call.square vp] ++ [Call.mul (a.square vp) vp])
          else (a.square vp, [Call.square vp])) with
        | Outcome.value (res, log) =>
          if neg then Outcome.value (a.inv res, log ++ [Call.inv res])
          else Outcome.value (res, log)
        | Outcome.error msg => Outcome.error msg
        | Outcome.nofuel => Outcome.nofuel
      | Outcome.error msg => Outcome.error msg
      | Outcome.nofuel => Outcome.nofuel) =
    (if neg then
      Outcome.value (a.inv (runbits a vp n (Nat.log 2 n) (vp, [])).1,
        (runbits a vp n (Nat.log 2 n) (vp, [])).2 ++
          [Call.inv (runbits a vp n (Nat.log 2 n) (vp, [])).1])
    else Outcome.value (runbits a vp n (Nat.log 2 n) (vp, []))) := by
  have hn0 : n ≠ 0 := by omega
  have hk : 0 < Nat.log 2 n := Nat.log_pos (by decide) hn
  have hkw : Nat.log 2 n < 31 := by
    apply Nat.log_lt_of_lt_pow hn0 hlt
  obtain ⟨d, hd⟩ : ∃ d, w = Nat.log 2 n + d := ⟨w - Nat.log 2 n, by omega⟩
  rw [hT, hd, findbit_top n hn0 d fuel (by omega)]
  dsimp only
  rw [powloop_general a vp n _ fuel hk (by omega)]

theorem objpowi_unfold {V : Type} (TOPFULL : Nat) (a : Actions V) (fuel : Nat) (vp : V) (q : ℚ)
    (hden : q.den = 1) (hlt : q.num.natAbs < 2 ^ 31)
    (h2 : 2 ≤ q.num.natAbs) (hne : q.num ≠ 2) :
    objpowi TOPFULL a fuel vp q =
    (match findbit q.num.natAbs fuel TOPFULL with
      | Outcome.value bit =>
        match powloop a vp q.num.natAbs fuel ((bit >>> 1) >>> 1)
          (if (bit >>> 1) &&& q.num.natAbs ≠ 0 then
            (a.mul (a.square vp) vp, [Call.square vp] ++ [Call.mul (a.square vp) vp])
          else (a.square vp, [Call.square vp])) with
        | Outcome.value (res, log) =>
          if q.num < 0 then Outcome.value (a.inv res, log ++ [Call.inv res])
          else Outcome.value (res, log)
        | Outcome.error msg => Outcome.error msg
        | Outcome.nofuel => Outcome.nofuel
      | Outcome.error msg => Outcome.error msg
      | Outcome.nofuel => Outcome.nofuel) := by
  unfold objpowi
  rw [if_neg (by simp [hden]), if_neg (by omega)]
  have hp : ((if (if q.num < 0 then -(q.num.natAbs : Int) else (q.num.natAbs : Int)) < 0
      then -(if q.num < 0 then -(q.num.natAbs : Int) else (q.num.natAbs : Int))
      else (if q.num < 0 then -(q.num.natAbs : Int) else (q.num.natAbs : Int))) : Int).toNat =
      q.num.natAbs := by
    split <;> split <;> omega
  dsimp only
  rw [hp]
  have hgen : ∀ x : Outcome (V × List (Call V)),
      (if (if q.num < 0 then -(q.num.natAbs : Int) else (q.num.natAbs : Int)) ≤ 2 ∧
          (if q.num < 0 then -(q.num.natAbs : Int) else (q.num.natAbs : Int)) ≥ -2 then
        if (if q.num < 0 then -(q.num.natAbs : Int) else (q.num.natAbs : Int)) = 0 then
          Outcome.value (a.one vp, [Call.one vp])
        else if (if q.num < 0 then -(q.num.natAbs : Int) else (q.num.natAbs : Int)) = 1 then
          Outcome.value (a.copy vp, [Call.copy vp])
        else if (if q.num < 0 then -(q.num.natAbs : Int) else (q.num.natAbs : Int)) = -1 then
          Outcome.value (a.inv vp, [Call.inv vp])
        else if (if q.num < 0 then -(q.num.natAbs : Int) else (q.num.natAbs : Int)) = 2 then
          Outcome.value (a.square vp, [Call.square vp])
        else x
      else x) = x := by
    intro x
    have hv : (if q.num < 0 then -(q.num.natAbs : Int) else (q.num.natAbs : Int)) = q.num := by
      split <;> omega
    rw [hv]
    by_cases hc : q.num ≤ 2 ∧ q.num ≥ -2
    · rw [if_pos hc, if_neg (by omega), if_neg (by omega), if_neg (by omega), if_neg hne]
    · rw [if_neg hc]
  rw [hgen]

theorem objpowi_small {V : Type} (TOPFULL : Nat) (a : Actions V) (fuel : Nat) (vp : V) (q : ℚ)
    (hden : q.den = 1) (hc : q.num = 0 ∨ q.num = 1 ∨ q.num = -1 ∨ q.num = 2) :
    objpowi TOPFULL a fuel vp q =
      (if q.num = 0 then Outcome.value (a.one vp, [Call.one vp])
       else if q.num = 1 then Outcome.value (a.copy vp, [Call.copy vp])
       else if q.num = -1 then Outcome.value (a.inv vp, [Call.inv vp])
       else Outcome.value (a.square vp, [Call.square vp])) := by
  unfold objpowi
  rw [if_neg (by simp [hden]), if_neg (by rcases hc with h | h | h | h <;> rw [h] <;> decide)]
  have hv : (if q.num < 0 then -(q.num.natAbs : Int) else (q.num.natAbs : Int)) = q.num := by
    split <;> omega
  dsimp only
  rw [hv, if_pos (by omega)]
  rcases hc with h | h | h | h <;> rw [h] <;> rfl

/-- C38: the default power of an object.  A fractional exponent and an exponent
of magnitude at least 2^31 raise the two errors.  Otherwise exponent 0 gives
the one of the type, 1 a copy and -1 the inverse, each by a single call; and for
a magnitude of at least 2 the routine returns after floor(log2 |p|) calls of
the square routine and (one bits of |p|) - 1 calls of the product routine, each
of them by the object itself, with no other call, which gives the product of |p|
factors when the square is the product with itself and the product is
associative, followed by exactly one call of the inverse when p is negative.
`TOPFULL` is the highest bit of a machine word of `w` bits. -/
theorem objpowi_power {V : Type} (w TOPFULL : Nat) (a : Actions V) (fuel : Nat) (vp : V)
    (q : ℚ) (hw : 31 ≤ w) (hT : TOPFULL = 2 ^ w) (hfuel : w + 2 ≤ fuel) :
    (q.den ≠ 1 →
      objpowi TOPFULL a fuel vp q = Outcome.error "Raising object to non-integral power") ∧
    (q.den = 1 → 2 ^ 31 ≤ q.num.natAbs →
      objpowi TOPFULL a fuel vp q = Outcome.error "Raising object to very large power") ∧
    (q.den = 1 → q.num.natAbs < 2 ^ 31 →
      (q.num = 0 → objpowi TOPFULL a fuel vp q = Outcome.value (a.one vp, [Call.one vp])) ∧
      (q.num = 1 → objpowi TOPFULL a fuel vp q = Outcome.value (a.copy vp, [Call.copy vp])) ∧
      (q.num = -1 → objpowi TOPFULL a fuel vp q = Outcome.value (a.inv vp, [Call.inv vp])) ∧
      (2 ≤ q.num.natAbs → ∃ r log,
        objpowi TOPFULL a fuel vp q =
          Outcome.value (if q.num < 0 then a.inv r else r,
            if q.num < 0 then log ++ [Call.inv r] else log) ∧
        log.countP Call.is_square = Nat.log 2 q.num.natAbs ∧
        log.countP Call.is_mul = onebits q.num.natAbs - 1 ∧
        log.countP Call.is_inv = 0 ∧
        (∀ c ∈ log, Call.is_square c = true ∨ Call.is_mul c = true) ∧
        (∀ c ∈ log, ∀ x y, c = Call.mul x y → y = vp) ∧
        ((∀ x, a.square x = a.mul x x) →
          (∀ x y z, a.mul (a.mul x y) z = a.mul x (a.mul y z)) →
          r = power_of a vp (q.num.natAbs - 1)))) := by
  refine ⟨?_, ?_, ?_⟩
  · intro hden
    unfold objpowi
    rw [if_pos hden]
  · intro hden hbig
    unfold objpowi
    rw [if_neg (by simp [hden]), if_pos hbig]
  · intro hden hlt
    refine ⟨?_, ?_, ?_, ?_⟩
    · intro h
      rw [objpowi_small TOPFULL a fuel vp q hden (by omega), if_pos h]
    · intro h
      rw [objpowi_small TOPFULL a fuel vp q hden (by omega), if_neg (by omega), if_pos h]
    · intro h
      rw [objpowi_small TOPFULL a fuel vp q hden (by omega), if_neg (by omega),
        if_neg (by omega), if_pos h]
    · intro h2
      by_cases h : q.num = 2
      · refine ⟨a.square vp, [Call.square vp], ?_, ?_, ?_, ?_, ?_, ?_, ?_⟩
        · rw [objpowi_small TOPFULL a fuel vp q hden (by omega), if_neg (by omega),
            if_neg (by omega), if_neg (by omega), if_neg (by omega), if_neg (by omega)]
        · rw [h]
          have e : Nat.log 2 (Int.natAbs 2) = 1 := Nat.log_pow (by decide) 1
          rw [e]
          rfl
        · rw [h]
          have e : onebits (Int.natAbs 2) = 1 := by
            have e1 : Nat.log 2 (Int.natAbs 2) = 1 := Nat.log_pow (by decide) 1
            unfold onebits
            rw [e1]
            decide
          rw [e]
          rfl
        · rfl
        · intro c hc
          rw [List.mem_singleton] at hc
          rw [hc]
          exact Or.inl rfl
        · intro c hc x y hxy
          rw [List.mem_singleton] at hc
          rw [hc] at hxy
          cases hxy
        · intro hsq _
          rw [h, hsq]
          rfl
      · obtain ⟨ext, hext, hs, hm, hi, hby, hall⟩ :=
          runbits_calls a vp q.num.natAbs (Nat.log 2 q.num.natAbs) (vp, [])
        rw [List.nil_append] at hext
        have hn0 : q.num.natAbs ≠ 0 := by omega
        refine ⟨(runbits a vp q.num.natAbs (Nat.log 2 q.num.natAbs) (vp, [])).1,
          (runbits a vp q.num.natAbs (Nat.log 2 q.num.natAbs) (vp, [])).2,
          ?_, ?_, ?_, ?_, ?_, ?_, ?_⟩
        · rw [objpowi_unfold TOPFULL a fuel vp q hden hlt h2 h,
            objpowi_general w TOPFULL a fuel vp q.num.natAbs (q.num < 0) hT h2 hlt hw hfuel]
          split <;> rfl
        · rw [hext, hs]
        · rw [hext, hm, onebits_eq _ hn0]
          rfl
        · rw [hext, hi]
        · rw [hext]
          exact hall
        · rw [hext]
          exact hby
        · intro hsq hassoc
          have hv := runbits_value a vp q.num.natAbs hsq hassoc (Nat.log 2 q.num.natAbs) 1 []
            (by decide)
          have hp : power_of a vp (1 - 1) = vp := rfl
          rw [hp] at hv
          rw [hv]
          congr 1
          have hlo : 2 ^ Nat.log 2 q.num.natAbs ≤ q.num.natAbs := Nat.pow_log_le_self 2 hn0
          have hhi : q.num.natAbs < 2 ^ (Nat.log 2 q.num.natAbs + 1) :=
            Nat.lt_pow_succ_log_self (by decide) _
          rw [pow_succ] at hhi
          have hmod : q.num.natAbs % 2 ^ Nat.log 2 q.num.natAbs =
              q.num.natAbs - 2 ^ Nat.log 2 q.num.natAbs := by
            rw [Nat.mod_eq_sub_mod hlo, Nat.mod_eq_of_lt (by omega)]
          rw [hmod]
          omega

theorem objpowi_power_witness :
    objpowi (2 ^ 63) modular 70 3 13 =
      Outcome.value (323, [Call.square 3, Call.mul 9 3, Call.square 27, Call.square 729,
        Call.mul 441 3]) ∧
    (((13 : ℚ).den ≠ 1 →
      objpowi (2 ^ 63) modular 70 3 13 = Outcome.error "Raising object to non-integral power") ∧
    ((13 : ℚ).den = 1 → 2 ^ 31 ≤ (13 : ℚ).num.natAbs →
      objpowi (2 ^ 63) modular 70 3 13 = Outcome.error "Raising object to very large power") ∧
    ((13 : ℚ).den = 1 → (13 : ℚ).num.natAbs < 2 ^ 31 →
      ((13 : ℚ).num = 0 →
        objpowi (2 ^ 63) modular 70 3 13 = Outcome.value (modular.one 3, [Call.one 3])) ∧
      ((13 : ℚ).num = 1 →
        objpowi (2 ^ 63) modular 70 3 13 = Outcome.value (modular.copy 3, [Call.copy 3])) ∧
      ((13 : ℚ).num = -1 →
        objpowi (2 ^ 63) modular 70 3 13 = Outcome.value (modular.inv 3, [Call.inv 3])) ∧
      (2 ≤ (13 : ℚ).num.natAbs → ∃ r log,
        objpowi (2 ^ 63) modular 70 3 13 =
          Outcome.value (if (13 : ℚ).num < 0 then modular.inv r else r,
            if (13 : ℚ).num < 0 then log ++ [Call.inv r] else log) ∧
        log.countP Call.is_square = Nat.log 2 (13 : ℚ).num.natAbs ∧
        log.countP Call.is_mul = onebits (13 : ℚ).num.natAbs - 1 ∧
        log.countP Call.is_inv = 0 ∧
        (∀ c ∈ log, Call.is_square c = true ∨ Call.is_mul c = true) ∧
        (∀ c ∈ log, ∀ x y, c = Call.mul x y → y = 3) ∧
        ((∀ x, modular.square x = modular.mul x x) →
          (∀ x y z, modular.mul (modular.mul x y) z = modular.mul x (modular.mul y z)) →
          r = power_of modular 3 ((13 : ℚ).num.natAbs - 1))))) :=
  ⟨by decide!, objpowi_power 63 (2 ^ 63) modular 70 3 13 (by decide) rfl (by decide)⟩

end Obj

namespace Obj

theorem sameelements_iff (elements indices : List Int) (count : Int) :
    ∀ (n : Nat) (index : Int), 0 ≤ index → count - index < n →
      (sameelements elements indices count n index = true ↔
        ∀ i : Nat, index ≤ (i : Int) → (i : Int) < count →
          elements.getD i 0 = indices.getD i 0) := by
  intro n
  induction n with
  | zero => intro index h0 h; constructor
            · intro _ i hi hc; omega
            · intro _; rfl
  | succ n ih =>
    intro index h0 h
    rw [sameelements]
    by_cases hc : index ≥ count
    · rw [if_pos hc]
      constructor
      · intro _ i hi hic; omega
      · intro _; rfl
    · rw [if_neg hc]
      by_cases hne : elements.getD index.toNat 0 ≠ indices.getD index.toNat 0
      · rw [if_pos hne]
        constructor
        · intro hf; cases hf
        · intro hall
          exact absurd (hall index.toNat (by omega) (by omega)) hne
      · rw [if_neg hne, ih (index + 1) (by omega) (by omega)]
        have heq : elements.getD index.toNat 0 = indices.getD index.toNat 0 := by
          by_contra hh; exact hne hh
        constructor
        · intro hall i hi hic
          by_cases hii : (i : Int) = index
          · have : i = index.toNat := by omega
            rw [this]; exact heq
          · exact hall i (by omega) hic
        · intro hall i hi hic
          exact hall i (by omega) hic

theorem clearactions_length : ∀ (n : Nat) (actions : List Int),
    (clearactions n actions).length = actions.length := by
  intro n
  induction n with
  | zero => intro actions; rfl
  | succ n ih => intro actions; rw [clearactions, ih, List.length_set]

theorem clearactions_getD : ∀ (n : Nat) (actions : List Int) (i : Nat), n ≤ actions.length →
    (clearactions n actions).getD i 7 = if i < n then 0 else actions.getD i 7 := by
  intro n
  induction n with
  | zero => intro actions i _; rfl
  | succ n ih =>
    intro actions i hn
    rw [clearactions, ih _ i (by rw [List.length_set]; omega)]
    by_cases h1 : i < n
    · rw [if_pos h1, if_pos (by omega)]
    · rw [if_neg h1]
      by_cases h2 : i = n
      · subst h2
        rw [if_pos (by omega)]
        simp only [List.getD_eq_getElem?_getD, List.getElem?_set, if_true]
        rw [if_pos (by omega)]
        rfl
      · rw [if_neg (by omega)]
        simp only [List.getD_eq_getElem?_getD, List.getElem?_set]
        rw [if_neg (by omega)]

theorem clearactions_all (n : Nat) (actions : List Int) (h : actions.length = n) :
    clearactions n actions = List.replicate n 0 := by
  apply List.ext_getElem
  · rw [clearactions_length, List.length_replicate, h]
  · intro i h1 h2
    have := clearactions_getD n actions i (by omega)
    rw [List.length_replicate] at h2
    rw [if_pos h2, List.getD_eq_getElem _ _ h1] at this
    rw [this, List.getElem_replicate]

theorem copyelements_length (indices : List Int) (count : Int) :
    ∀ (n : Nat) (index : Int) (elements : List Int),
      (copyelements indices count n index elements).length = elements.length := by
  intro n
  induction n with
  | zero => intro index elements; rfl
  | succ n ih =>
    intro index elements
    rw [copyelements]
    split
    · rw [ih, List.length_set]
    · rfl

theorem copyelements_get (indices : List Int) (c : Nat) :
    ∀ (n k : Nat) (elements : List Int) (i : Nat), k + n = c → c ≤ elements.length →
      (copyelements indices (c : Int) n (k : Int) elements)[i]? =
        if k ≤ i ∧ i < c then some (indices.getD i 0) else elements[i]? := by
  intro n
  induction n with
  | zero =>
    intro k elements i hk hc
    rw [copyelements, if_neg (by omega)]
  | succ n ih =>
    intro k elements i hk hc
    rw [copyelements, if_pos (by omega)]
    have e : (k : Int) + 1 = ((k + 1 : Nat) : Int) := by omega
    rw [e, ih (k + 1) _ i (by omega) (by rw [List.length_set]; exact hc)]
    have e2 : (k : Int).toNat = k := by omega
    rw [e2, List.getElem?_set]
    by_cases h1 : k + 1 ≤ i ∧ i < c
    · rw [if_pos h1, if_pos (by omega)]
    · rw [if_neg h1]
      by_cases h2 : k = i
      · subst h2
        rw [if_pos rfl, if_pos (by omega), if_pos (by omega)]
      · rw [if_neg h2, if_neg (by omega)]

theorem copyelements_all (indices : List Int) (count : Int) (elements : List Int)
    (hlen : elements.length = count.toNat) (hind : count.toNat ≤ indices.length) :
    copyelements indices count count.toNat 0 elements = indices.take count.toNat := by
  by_cases hc : 0 ≤ count
  · obtain ⟨c, rfl⟩ : ∃ c : Nat, count = (c : Int) := ⟨count.toNat, by omega⟩
    have e : ((c : Int)).toNat = c := by omega
    rw [e] at hlen hind ⊢
    apply List.ext_getElem?
    intro i
    have h := copyelements_get indices c c 0 elements i (by omega) (by omega)
    rw [Nat.cast_zero] at h
    rw [h, List.getElem?_take]
    by_cases hi : i < c
    · rw [if_pos ⟨by omega, hi⟩, if_pos hi, List.getD_eq_getElem?_getD,
        List.getElem?_eq_getElem (by omega)]
      rfl
    · rw [if_neg (by omega), if_neg hi, List.getElem?_eq_none (by omega)]
  · have e : count.toNat = 0 := by omega
    rw [e] at hlen ⊢
    rw [copyelements, List.take_zero]
    exact List.length_eq_zero.mp hlen

/-- C40: `defineobject` on the statics `s`; the table of names is the one of `s`,
set up by `initstr` when it was not yet.  For a name that `findstr` finds in
it, with the stored type `old`: when the new count is the stored one and the
new element indices are the stored ones position by position the call returns
with the table `objects[]` and the names as they were, and otherwise it raises
the error that the type is already defined, with the table and the names as
they were as well.  For a name that `findstr` does not find, while fewer than
`MAXOBJECTS` names are in the table and `malloc` and `addstr` succeed, the call
returns with a type entered at the index that `findstr` gives the name in the
new table: it has the name, the count, the `count` given element indices, and
0 in each of its `OBJ_MAXFUNC + 1` action entries. -/
theorem defineobject_registers {H : Type} (ops : StringOps H) (MAXOBJECTS : Int)
    (OBJ_MAXFUNC : Nat) (mem : Option OBJECTACTIONS) (name : String) (indices : List Int)
    (count : Int) (s : Types H) :
    (∀ old, 0 ≤ ops.findstr (openedNames ops s.objectnames) name →
      s.objects (ops.findstr (openedNames ops s.objectnames) name) = some old →
      ((old.count = count ∧
          ∀ i : Nat, (i : Int) < count → old.elements.getD i 0 = indices.getD i 0) →
        defineobject ops MAXOBJECTS OBJ_MAXFUNC mem name indices count s =
          Ended.returned { s with objectnames := openedNames ops s.objectnames }) ∧
      (¬ (old.count = count ∧
          ∀ i : Nat, (i : Int) < count → old.elements.getD i 0 = indices.getD i 0) →
        defineobject ops MAXOBJECTS OBJ_MAXFUNC mem name indices count s =
          Ended.math_error ("Object type \"" ++ name ++ "\" is already defined")
            { s with objectnames := openedNames ops s.objectnames })) ∧
    (ops.findstr (openedNames ops s.objectnames) name < 0 →
      ops.h_count (openedNames ops s.objectnames) < MAXOBJECTS →
      ∀ m hp stored, mem = some m →
        ops.addstr (openedNames ops s.objectnames) name = (hp, some stored) →
        m.actions.length = OBJ_MAXFUNC + 1 → m.elements.length = count.toNat →
        count.toNat ≤ indices.length →
        defineobject ops MAXOBJECTS OBJ_MAXFUNC mem name indices count s =
          Ended.returned
            { objectnames := hp,
              objects := Function.update s.objects (ops.findstr hp stored)
                (some { name := stored, count := count,
                        actions := List.replicate (OBJ_MAXFUNC + 1) 0,
                        elements := indices.take count.toNat }) }) ∧
    (ops.h_list_null s.objectnames = false → openedNames ops s.objectnames = s.objectnames) ∧
    (ops.h_list_null s.objectnames = true →
      openedNames ops s.objectnames = ops.initstr s.objectnames) := by
  have hopen : (if ops.h_list_null s.objectnames = true then ops.initstr s.objectnames
      else s.objectnames) = openedNames ops s.objectnames := rfl
  refine ⟨?_, ?_, ?_, ?_⟩
  · intro old hfound hold
    have hsame := sameelements_iff old.elements indices count (count.toNat + 1) 0 (le_refl 0)
      (by omega)
    constructor
    · intro hc
      unfold defineobject
      dsimp only
      rw [hopen, if_pos hfound, hold]
      dsimp only
      rw [if_pos ⟨hc.1, hsame.mpr (fun i _ hi => hc.2 i hi)⟩]
    · intro hc
      unfold defineobject
      dsimp only
      rw [hopen, if_pos hfound, hold]
      dsimp only
      rw [if_neg]
      intro hh
      exact hc ⟨hh.1, fun i hi => hsame.mp hh.2 i (by omega) hi⟩
  · intro hnew hroom m hp stored hmem hadd hact hel hind
    unfold defineobject
    dsimp only
    rw [hopen, if_neg (by omega), if_neg (by omega), hmem]
    dsimp only
    rw [hadd]
    dsimp only
    rw [clearactions_all _ _ hact, copyelements_all indices count m.elements hel hind]
  · intro h
    unfold openedNames
    rw [h]
    rfl
  · intro h
    unfold openedNames
    rw [h]
    rfl

theorem defineobject_registers_witness :
    onePoint.objects (listOps.findstr onePoint.objectnames "point") =
      some { name := "point", count := 2, actions := [0, 0, 0], elements := [0, 1] } ∧
    defineobject listOps 10 2 none "point" [0, 1] 2 onePoint = Ended.returned onePoint ∧
    defineobject listOps 10 2 none "point" [1, 0] 2 onePoint =
      Ended.math_error "Object type \"point\" is already defined" onePoint ∧
    defineobject listOps 10 2 none "point" [0, 1, 2] 3 onePoint =
      Ended.math_error "Object type \"point\" is already defined" onePoint ∧
    defineobject listOps 10 2
        (some { name := "", count := 77, actions := [5, 6, 7], elements := [8, 9, 10] })
        "line" [0, 1, 2, 3] 3 onePoint =
      Ended.returned
        { objectnames := some ["point", "line"],
          objects := Function.update onePoint.objects 1
            (some { name := "line", count := 3, actions := [0, 0, 0],
                    elements := [0, 1, 2] }) } ∧
    listOps.addstr noTypes.objectnames "point" = (none, none) ∧
    defineobject listOps 10 2
        (some { name := "", count := 77, actions := [5, 6, 7], elements := [8, 9] })
        "point" [0, 1] 2 noTypes =
      Ended.returned
        { objectnames := some ["point"],
          objects := Function.update noTypes.objects 0
            (some { name := "point", count := 2, actions := [0, 0, 0],
                    elements := [0, 1] }) } :=
  ⟨rfl,
   ((defineobject_registers listOps 10 2 none "point" [0, 1] 2 onePoint).1
      { name := "point", count := 2, actions := [0, 0, 0], elements := [0, 1] }
      (by decide) rfl).1
     ⟨rfl, fun i hi => by
        have h : i = 0 ∨ i = 1 := by omega
        rcases h with h | h <;> rw [h] <;> rfl⟩,
   ((defineobject_registers listOps 10 2 none "point" [1, 0] 2 onePoint).1
      { name := "point", count := 2, actions := [0, 0, 0], elements := [0, 1] }
      (by decide) rfl).2
     (fun h => absurd (h.2 0 (by decide)) (by decide)),
   ((defineobject_registers listOps 10 2 none "point" [0, 1, 2] 3 onePoint).1
      { name := "point", count := 2, actions := [0, 0, 0], elements := [0, 1] }
      (by decide) rfl).2
     (fun h => absurd h.1 (by decide)),
   (defineobject_registers listOps 10 2
      (some { name := "", count := 77, actions := [5, 6, 7], elements := [8, 9, 10] })
      "line" [0, 1, 2, 3] 3 onePoint).2.1 (by decide) (by decide)
      { name := "", count := 77, actions := [5, 6, 7], elements := [8, 9, 10] }
      (some ["point", "line"]) "line" rfl rfl rfl rfl (by decide),
   rfl,
   (defineobject_registers listOps 10 2
      (some { name := "", count := 77, actions := [5, 6, 7], elements := [8, 9] })
      "point" [0, 1] 2 noTypes).2.1 (by decide) (by decide)
      { name := "", count := 77, actions := [5, 6, 7], elements := [8, 9] }
      (some ["point"]) "point" rfl rfl rfl rfl (by decide)⟩

end Obj

/-! ## codegen.c: the element names of an object type -/

theorem firstIndices_succ (j : Nat) : firstIndices (j + 1) = firstIndices j ++ [(j : Int)] := by
  simp [firstIndices, List.range_succ]

theorem firstIndices_not_mem (j : Nat) : (j : Int) ∉ firstIndices j := by
  simp [firstIndices]

theorem firstIndices_length (j : Nat) : (firstIndices j).length = j := by
  simp [firstIndices]

theorem findstr_absent (table : List Int) (x : Int) (h : x ∉ table) : findstr table x = -1 := by
  unfold findstr
  rw [if_neg]
  simpa using h

theorem findstr_last (table : List Int) (x : Int) (h : x ∉ table) :
    findstr (table ++ [x]) x = table.length := by
  unfold findstr
  rw [if_pos (by simp)]
  congr 1
  rw [List.indexOf_append_of_not_mem h]
  simp

/-- One round of the loop of `getobjdeclaration` on a new element name that a
comma follows: the index is stored behind the indices stored so far, however
many they are. -/
theorem getobjdeclaration_round (n : Nat) (name : Int) (symtype : SymType) (j : Nat)
    (b : PState) (c : Token) (rest : List Token) :
    getobjdeclaration_loop (n + 1) name symtype (firstIndices j) false
      { b with input := { t_type := T_SYMBOL, t_strindex := j } :: { t_type := T_COMMA } :: rest,
               curtoken := c, rescan := false, elements := firstIndices j } =
    getobjdeclaration_loop n name symtype (firstIndices (j + 1)) false
      { b with input := rest, curtoken := { t_type := T_COMMA }, rescan := false,
               elements := firstIndices (j + 1) } := by
  rw [getobjdeclaration_loop]
  have hf := findstr_absent (firstIndices j) j (firstIndices_not_mem j)
  have hl := findstr_last (firstIndices j) j (firstIndices_not_mem j)
  have hc : (firstIndices j).contains ((firstIndices j).length : Int) = false := by
    rw [firstIndices_length]
    simpa using firstIndices_not_mem j
  simp [bind_run, gettoken, scantoken, tokenstring, addelement, hf, hl, hc,
    firstIndices_succ, pure_run, firstIndices_length, firstIndices_not_mem]

/-- The last round of the loop of `getobjdeclaration`, on a new element name that
the closing brace follows: all the indices stored go to `defineobject`. -/
theorem getobjdeclaration_last (n : Nat) (name : Int) (symtype : SymType) (j : Nat)
    (b : PState) (c : Token) (rest : List Token) :
    getobjdeclaration_loop (n + 1) name symtype (firstIndices j) false
      { b with input := { t_type := T_SYMBOL, t_strindex := j } :: { t_type := T_RIGHTBRACE } :: rest,
               curtoken := c, rescan := false, elements := firstIndices j } =
    (defineobject name (firstIndices (j + 1)) >>= fun _ => getobjvars n name symtype)
      { b with input := rest, curtoken := { t_type := T_RIGHTBRACE }, rescan := false,
               elements := firstIndices (j + 1) } := by
  rw [getobjdeclaration_loop]
  have hf := findstr_absent (firstIndices j) j (firstIndices_not_mem j)
  have hl := findstr_last (firstIndices j) j (firstIndices_not_mem j)
  simp [bind_run, gettoken, scantoken, tokenstring, addelement, hf, hl,
    firstIndices_succ, pure_run, firstIndices_length, firstIndices_not_mem]

/-- The loop of `getobjdeclaration` on `k + 1` new element names. -/
theorem getobjdeclaration_rounds (name : Int) (symtype : SymType) (b : PState)
    (rest : List Token) :
    ∀ (k n j : Nat) (c : Token),
      getobjdeclaration_loop (n + k + 1) name symtype (firstIndices j) false
        { b with input := elementNames k j ++ rest, curtoken := c, rescan := false,
                 elements := firstIndices j } =
      (defineobject name (firstIndices (j + k + 1)) >>= fun _ => getobjvars n name symtype)
        { b with input := rest, curtoken := { t_type := T_RIGHTBRACE }, rescan := false,
                 elements := firstIndices (j + k + 1) } := by
  intro k
  induction k with
  | zero =>
    intro n j c
    exact getobjdeclaration_last n name symtype j b c rest
  | succ k ih =>
    intro n j c
    have h := getobjdeclaration_round (n + k + 1) name symtype j b c (elementNames k (j + 1) ++ rest)
    have e : n + (k + 1) + 1 = n + k + 1 + 1 := by omega
    rw [e]
    have e2 : elementNames (k + 1) j ++ rest =
        { t_type := T_SYMBOL, t_strindex := j } :: { t_type := T_COMMA } ::
          (elementNames k (j + 1) ++ rest) := by
      simp [elementNames]
    rw [e2, h, ih n (j + 1) { t_type := T_COMMA }]
    have e3 : j + 1 + k + 1 = j + (k + 1) + 1 := by omega
    rw [e3]

/-- C34: for every size `MAXINDICES` of the table `indices[]`, the statement that
defines an object type with `MAXINDICES + 1` new element names makes
`getobjdeclaration` store an index in every round of its loop, the last one at
position `MAXINDICES`, and pass the count `MAXINDICES + 1` to `defineobject`:
no test of the count stands before the store. -/
theorem getobjdeclaration_overrun (MAXINDICES n : Nat) (name : Int) (symtype : SymType)
    (b : PState) (rest : List Token) :
    getobjdeclaration (n + MAXINDICES + 2) symtype
      { b with input := { t_type := T_SYMBOL, t_strindex := name } :: { t_type := T_LEFTBRACE } ::
                 (elementNames MAXINDICES 0 ++ rest),
               rescan := false, elements := [] } =
    (defineobject name (firstIndices (MAXINDICES + 1)) >>= fun _ => getobjvars n name symtype)
      { b with input := rest, curtoken := { t_type := T_RIGHTBRACE }, rescan := false,
               elements := firstIndices (MAXINDICES + 1) } ∧
    (firstIndices (MAXINDICES + 1)).length = MAXINDICES + 1 ∧
    MAXINDICES < (firstIndices (MAXINDICES + 1)).length := by
  refine ⟨?_, firstIndices_length _, by rw [firstIndices_length]; omega⟩
  have h := getobjdeclaration_rounds name symtype b rest MAXINDICES n 0
    { t_type := T_LEFTBRACE }
  rw [Nat.zero_add] at h
  rw [← h]
  have e : n + MAXINDICES + 2 = (n + MAXINDICES + 1) + 1 := by omega
  rw [e, getobjdeclaration]
  simp [bind_run, gettoken, scantoken, tokenstring, pure_run, firstIndices]

namespace Hist

theorem find_event_none (pat : List Char) (len : Int) :
    ∀ (records : List HIST) (i : Nat),
      (∀ hp ∈ records, ¬ (hp.len = len ∧ hp.data.take len.toNat = pat.take len.toNat)) →
      find_event pat len records i = none := by
  intro records
  induction records with
  | nil => intro i _; rfl
  | cons hp rest ih =>
    intro i h
    rw [find_event]
    split
    · rfl
    · rw [if_neg (h hp (List.mem_cons_self _ _))]
      exact ih (i + 1) (fun x hx => h x (List.mem_cons_of_mem _ hx))

theorem no_newline_at (line : List Char) (h : '\n' ∉ line) (hl : 0 < line.length) :
    ¬ ((line.length : Int) > 0 ∧
      line.getD ((line.length : Int) - 1).toNat (Char.ofNat 0) = '\n') := by
  intro hh
  have e : ((line.length : Int) - 1).toNat = line.length - 1 := by omega
  rw [e, List.getD_eq_getElem _ _ (by omega)] at hh
  apply h
  rw [← hh.2]
  exact List.getElem_mem _

/-- A call of `hist_saveline` with a line that is not in the table and for which
the test of the loop finds room: the line goes to the end of the table. -/
theorem hist_saveline_fresh (HIST_SIZE isz : Int) (fuel : Nat) (line : List Char) (s : Table)
    (hnl : '\n' ∉ line) (hl : 0 < line.length)
    (hnew : ∀ hp ∈ s.records, ¬ (hp.len = line.length ∧
      hp.data.take line.length = line.take line.length))
    (hroom : s.histused + line.length < HIST_SIZE) :
    hist_saveline HIST_SIZE isz (fuel + 1) line line.length s =
      Outcome.value (addline isz line line.length s) := by
  unfold hist_saveline
  rw [if_neg (no_newline_at line hnl hl)]
  dsimp only
  rw [if_neg (by omega), find_event_none line line.length s.records 0 (by simpa using hnew)]
  dsimp only
  rw [makeroom, if_neg (by omega)]

theorem savelines_append (HIST_SIZE isz : Int) (fuel : Nat) (b : List (List Char)) :
    ∀ (a : List (List Char)) (s t : Table),
      savelines HIST_SIZE isz fuel a s = Outcome.value t →
      savelines HIST_SIZE isz fuel (a ++ b) s = savelines HIST_SIZE isz fuel b t := by
  intro a
  induction a with
  | nil =>
    intro s t h
    rw [savelines] at h
    cases h
    rfl
  | cons line rest ih =>
    intro s t h
    rw [savelines] at h
    rw [List.cons_append, savelines]
    cases hc : hist_saveline HIST_SIZE isz fuel line line.length s with
    | value u =>
      rw [hc] at h
      exact ih u t h
    | undefined => rw [hc] at h; cases h
    | nofuel => rw [hc] at h; cases h

theorem histlen_twelve (l : List Char) : HISTLEN 4 { len := 12, data := l } = 16 := by
  simp [HISTLEN]

theorem histlen_fifteen (l : List Char) : HISTLEN 4 { len := 15, data := l } = 20 := by
  simp [HISTLEN]

/-- Lines of 12 characters, all different, go into the table one behind the other
as long as the test of the loop finds room. -/
theorem savelines_twelve (HIST_SIZE : Int) (fuel : Nat) :
    ∀ (lines prev : List (List Char)), (prev ++ lines).Nodup →
      (∀ l ∈ prev ++ lines, l.length = 12 ∧ '\n' ∉ l) →
      16 * ((prev.length : Int) + lines.length) < HIST_SIZE + 4 →
      savelines HIST_SIZE 4 (fuel + 1) lines (tableOf prev) =
        Outcome.value (tableOf (prev ++ lines)) := by
  intro lines
  induction lines with
  | nil =>
    intro prev _ _ _
    rw [List.append_nil]
    rfl
  | cons line rest ih =>
    intro prev hnd hall hroom
    have hline := hall line (by simp)
    have hnotin : line ∉ prev := by
      intro hin
      have := List.nodup_append.mp hnd
      exact this.2.2 hin (List.mem_cons_self _ _) 
    rw [List.length_cons] at hroom
    rw [savelines, hist_saveline_fresh HIST_SIZE 4 fuel line (tableOf prev) hline.2
      (by omega)]
    · dsimp only
      have e : addline 4 line line.length (tableOf prev) = tableOf (prev ++ [line]) := by
        simp only [addline, tableOf, hline.1]
        have e12 : ((12 : Nat) : Int) = 12 := rfl
        rw [e12, histlen_twelve]
        simp [List.take_of_length_le, hline.1]
        omega
      rw [e]
      have e2 : prev ++ line :: rest = (prev ++ [line]) ++ rest := by simp
      rw [e2]
      apply ih
      · rw [← e2]; exact hnd
      · rw [← e2]; exact hall
      · rw [List.length_append, List.length_singleton]
        push_cast
        omega
    · intro hp hmem hh
      simp only [tableOf, List.mem_map] at hmem
      obtain ⟨l, hl, rfl⟩ := hmem
      have hl12 := (hall l (by simp [hl])).1
      dsimp only at hh
      rw [hline.1, List.take_of_length_le (by omega), List.take_of_length_le (by omega)] at hh
      exact hnotin (hh.2 ▸ hl)
    · simp only [tableOf]
      rw [hline.1]
      push_cast
      omega

/-- C39: with `sizeof(int)` 4 and a buffer size `HIST_SIZE` that is a multiple of
16, as 10240 is, saving that many different lines of 12 characters less one
fills the table up to 16 bytes below `HIST_SIZE` with no line deleted, and a
line of 15 characters saved next passes the test `histused + len >= HIST_SIZE`
of the loop, so that nothing is deleted: its record of 20 bytes is stored at
`HIST_SIZE - 16`, and the call returns with `histused` at `HIST_SIZE + 4`. -/
theorem hist_saveline_overrun (HIST_SIZE : Int) (fuel : Nat) (lines : List (List Char))
    (last : List Char) (hsize : HIST_SIZE = 16 * ((lines.length : Int) + 1))
    (hnodup : lines.Nodup) (hlines : ∀ l ∈ lines, l.length = 12 ∧ '\n' ∉ l)
    (hlast : last.length = 15 ∧ '\n' ∉ last) :
    savelines HIST_SIZE 4 (fuel + 1) lines noLines = Outcome.value (tableOf lines) ∧
    (tableOf lines).histused = HIST_SIZE - 16 ∧
    hist_saveline HIST_SIZE 4 (fuel + 1) last last.length (tableOf lines) =
      Outcome.value
        { histused := HIST_SIZE + 4,
          records := (tableOf lines).records ++ [{ len := 15, data := last }],
          histcount := lines.length + 1, curhist := lines.length + 1 } ∧
    savelines HIST_SIZE 4 (fuel + 1) (lines ++ [last]) noLines =
      Outcome.value
        { histused := HIST_SIZE + 4,
          records := (tableOf lines).records ++ [{ len := 15, data := last }],
          histcount := lines.length + 1, curhist := lines.length + 1 } := by
  have h1 : savelines HIST_SIZE 4 (fuel + 1) lines noLines = Outcome.value (tableOf lines) := by
    have h := savelines_twelve HIST_SIZE fuel lines [] (by simpa using hnodup)
      (by simpa using hlines) (by simp only [List.length_nil]; push_cast; omega)
    exact h
  have h2 : (tableOf lines).histused = HIST_SIZE - 16 := by
    simp only [tableOf]
    omega
  have h3 : hist_saveline HIST_SIZE 4 (fuel + 1) last last.length (tableOf lines) =
      Outcome.value
        { histused := HIST_SIZE + 4,
          records := (tableOf lines).records ++ [{ len := 15, data := last }],
          histcount := lines.length + 1, curhist := lines.length + 1 } := by
    rw [hist_saveline_fresh HIST_SIZE 4 fuel last (tableOf lines) hlast.2 (by omega)]
    · simp only [addline, hlast.1]
      have e15 : ((15 : Nat) : Int) = 15 := rfl
      rw [e15, histlen_fifteen, h2]
      simp [tableOf, List.take_of_length_le, hlast.1]
      omega
    · intro hp hmem hh
      simp only [tableOf, List.mem_map] at hmem
      obtain ⟨l, hl, rfl⟩ := hmem
      dsimp only at hh
      rw [hlast.1] at hh
      have := hh.1
      omega
    · rw [h2, hlast.1]
      push_cast
      omega
  refine ⟨h1, h2, h3, ?_⟩
  rw [savelines_append HIST_SIZE 4 (fuel + 1) [last] lines noLines (tableOf lines) h1,
    savelines, h3]
  rfl

theorem hist_saveline_overrun_witness :
    savelines 32 4 1 [['a', 'b', 'c', 'd', 'e', 'f', 'g', 'h', 'i', 'j', 'k', 'l']] noLines =
      Outcome.value (tableOf [['a', 'b', 'c', 'd', 'e', 'f', 'g', 'h', 'i', 'j', 'k', 'l']]) ∧
    (tableOf [['a', 'b', 'c', 'd', 'e', 'f', 'g', 'h', 'i', 'j', 'k', 'l']]).histused = 32 - 16 ∧
    hist_saveline 32 4 1 ['m', 'n', 'o', 'p', 'q', 'r', 's', 't', 'u', 'v', 'w', 'x', 'y', 'z', '0']
        ['m', 'n', 'o', 'p', 'q', 'r', 's', 't', 'u', 'v', 'w', 'x', 'y', 'z', '0'].length
        (tableOf [['a', 'b', 'c', 'd', 'e', 'f', 'g', 'h', 'i', 'j', 'k', 'l']]) =
      Outcome.value
        { histused := 32 + 4,
          records := (tableOf [['a', 'b', 'c', 'd', 'e', 'f', 'g', 'h', 'i', 'j', 'k', 'l']]).records ++
            [{ len := 15,
               data := ['m', 'n', 'o', 'p', 'q', 'r', 's', 't', 'u', 'v', 'w', 'x', 'y', 'z', '0'] }],
          histcount := [['a', 'b', 'c', 'd', 'e', 'f', 'g', 'h', 'i', 'j', 'k', 'l']].length + 1,
          curhist := [['a', 'b', 'c', 'd', 'e', 'f', 'g', 'h', 'i', 'j', 'k', 'l']].length + 1 } ∧
    savelines 32 4 1
        ([['a', 'b', 'c', 'd', 'e', 'f', 'g', 'h', 'i', 'j', 'k', 'l']] ++
          [['m', 'n', 'o', 'p', 'q', 'r', 's', 't', 'u', 'v', 'w', 'x', 'y', 'z', '0']]) noLines =
      Outcome.value
        { histused := 32 + 4,
          records := (tableOf [['a', 'b', 'c', 'd', 'e', 'f', 'g', 'h', 'i', 'j', 'k', 'l']]).records ++
            [{ len := 15,
               data := ['m', 'n', 'o', 'p', 'q', 'r', 's', 't', 'u', 'v', 'w', 'x', 'y', 'z', '0'] }],
          histcount := [['a', 'b', 'c', 'd', 'e', 'f', 'g', 'h', 'i', 'j', 'k', 'l']].length + 1,
          curhist := [['a', 'b', 'c', 'd', 'e', 'f', 'g', 'h', 'i', 'j', 'k', 'l']].length + 1 } :=
  hist_saveline_overrun 32 0 [['a', 'b', 'c', 'd', 'e', 'f', 'g', 'h', 'i', 'j', 'k', 'l']]
    ['m', 'n', 'o', 'p', 'q', 'r', 's', 't', 'u', 'v', 'w', 'x', 'y', 'z', '0']
    (by decide) (by decide) (by decide) (by decide)

end Hist

namespace Lexer

theorem eatstring_char_plain (s : State) (c : Char) (cs : List Char)
    (hc : plainChar c = true) :
    eatstring_char '"' { s with chars := c :: cs, pushed := false } =
      Res.ok (some (false, c)) { s with chars := cs, pushed := false, lastch := some c } := by
  simp only [plainChar, Bool.and_eq_true, bne_iff_ne, ne_eq] at hc
  obtain ⟨⟨h1, h2⟩, h3⟩ := hc
  unfold eatstring_char
  simp [run_bind, nextchar, h1, h2, h3, run_pure, tochar]

theorem eatstring_char_quote (s : State) (cs : List Char) :
    eatstring_char '"' { s with chars := '"' :: cs, pushed := false } =
      Res.ok (some (true, Char.ofNat 0))
        { s with chars := cs, pushed := false, lastch := some '"' } := by
  unfold eatstring_char
  simp [run_bind, nextchar, run_pure, tochar]

/-- The inner loop of `eatstring` on characters it stores as they are, while the
buffer has room for them. -/
theorem eatstring_loop_plain (str : List Char) (totlen : Nat) (rest : List Char) :
    ∀ (body buf : List Char) (n : Nat) (s : State),
      (∀ c ∈ body, plainChar c = true) → buf.length + body.length ≤ STRBUFSIZE →
      eatstring_loop '"' (n + body.length) str totlen buf
          { s with chars := body ++ rest, pushed := false } =
        eatstring_loop '"' n str totlen (buf ++ body)
          { s with chars := rest, pushed := false, lastch := lastOf body s.lastch } := by
  intro body
  induction body with
  | nil =>
    intro buf n s _ _
    simp [lastOf]
  | cons c cs ih =>
    intro buf n s hp hl
    rw [List.length_cons] at hl
    have e : n + (c :: cs).length = (n + cs.length) + 1 := by simp; omega
    rw [e, eatstring_loop, if_pos (by omega), List.cons_append, run_bind,
      eatstring_char_plain s c (cs ++ rest) (hp c (List.mem_cons_self _ _))]
    dsimp only
    have h := ih (buf ++ [c]) n { s with lastch := some c }
      (fun x hx => hp x (List.mem_cons_of_mem _ hx)) (by simp; omega)
    simp only [Bool.false_eq_true, if_false]
    rw [List.append_assoc, List.singleton_append] at h
    exact h

/-- C31: `eatstring` on a string in double quotes whose characters are stored as
they are.  When they are fewer than `STRBUFSIZE`, the call hands `addstring`
the characters with the closing NUL and their number.  When they are
`STRBUFSIZE`, a full buffer, the NUL goes to a second chunk, whose length of
1 is added to `totlen` and then once more in the call of `addstring`: the call
hands over the characters with the NUL, `STRBUFSIZE + 1` bytes, and the length
`STRBUFSIZE + 2`. -/
theorem eatstring_length (n : Nat) (body rest : List Char) (s : State)
    (hplain : ∀ c ∈ body, plainChar c = true) :
    (body.length < STRBUFSIZE →
      eatstring '"' (n + body.length + 1) { s with chars := body ++ '"' :: rest, pushed := false } =
        (addstring (body ++ [Char.ofNat 0]) (body.length + 1) >>= fun i =>
          modify fun s => { s with t_strindex := i })
          { s with chars := rest, pushed := false, lastch := some '"' }) ∧
    (body.length = STRBUFSIZE →
      eatstring '"' (n + body.length + 2) { s with chars := body ++ '"' :: rest, pushed := false } =
        (addstring (body ++ [Char.ofNat 0]) (body.length + 2) >>= fun i =>
          modify fun s => { s with t_strindex := i })
          { s with chars := rest, pushed := false, lastch := some '"' }) := by
  constructor
  · intro hl
    unfold eatstring
    have e : n + body.length + 1 = (n + 1) + body.length := by omega
    rw [e, eatstring_loop_plain [] 0 ('"' :: rest) body [] (n + 1) s hplain (by simp; omega),
      eatstring_loop, List.nil_append, if_pos hl, run_bind,
      eatstring_char_quote { s with lastch := lastOf body s.lastch } rest]
    simp
  · intro hl
    unfold eatstring
    have e : n + body.length + 2 = (n + 2) + body.length := by omega
    rw [e, eatstring_loop_plain [] 0 ('"' :: rest) body [] (n + 2) s hplain (by simp; omega),
      eatstring_loop, List.nil_append, if_neg (by omega), eatstring_loop,
      if_pos (by simp [STRBUFSIZE]), run_bind,
      eatstring_char_quote { s with lastch := lastOf body s.lastch } rest]
    have hne : body ≠ [] := by
      intro h
      rw [h] at hl
      cases hl
    simp [hne]

theorem eatstring_length_witness :
    eatstring '"' (0 + (List.replicate 3 'a').length + 1)
        { ({} : State) with chars := List.replicate 3 'a' ++ '"' :: [], pushed := false } =
      (addstring (List.replicate 3 'a' ++ [Char.ofNat 0]) ((List.replicate 3 'a').length + 1) >>=
        fun i => modify fun s => { s with t_strindex := i })
        { ({} : State) with chars := [], pushed := false, lastch := some '"' } ∧
    eatstring '"' (0 + (List.replicate 1024 'a').length + 2)
        { ({} : State) with chars := List.replicate 1024 'a' ++ '"' :: [], pushed := false } =
      (addstring (List.replicate 1024 'a' ++ [Char.ofNat 0])
          ((List.replicate 1024 'a').length + 2) >>=
        fun i => modify fun s => { s with t_strindex := i })
        { ({} : State) with chars := [], pushed := false, lastch := some '"' } ∧
    (List.replicate 1024 'a' ++ [Char.ofNat 0]).length = 1025 ∧
    (List.replicate 1024 'a').length + 2 = 1026 :=
  ⟨(eatstring_length 0 (List.replicate 3 'a') [] {} (by decide)).1 (by decide),
   (eatstring_length 0 (List.replicate 1024 'a') [] {}
      (fun c hc => by rw [List.eq_of_mem_replicate hc]; rfl)).2 (List.length_replicate 1024 'a'),
   by rw [List.length_append, List.length_replicate]; rfl,
   by rw [List.length_replicate]⟩

end Lexer

namespace Lexer

/-- The loop of `eatsymbol` does not come to an end when the test that stops it
holds of no character still to be read and not of `EOF`: it is out of fuel
for every amount of fuel. -/
theorem eatsymbol_loop_runs_on (stop : Option Char → Bool) (hne : stop none = false) :
    ∀ (n : Nat) (buf : List Char) (cc : Int) (s : State),
      (∀ c ∈ s.chars, stop (some c) = false) → (s.pushed = true → stop s.lastch = false) →
      eatsymbol_loop stop n buf cc s = Res.nofuel := by
  intro n
  induction n with
  | zero => intro buf cc s _ _; rfl
  | succ n ih =>
    intro buf cc s hc hp
    rw [eatsymbol_loop, run_bind]
    by_cases hpushed : s.pushed = true
    · have e : nextchar s = Res.ok s.lastch { s with pushed := false } := by
        simp [nextchar, hpushed]
      rw [e]
      dsimp only
      rw [hp hpushed]
      simp only [Bool.false_eq_true, if_false]
      split
      · exact ih _ _ _ hc (by intro h; cases h)
      · exact ih _ _ _ hc (by intro h; cases h)
    · cases hch : s.chars with
      | nil =>
        have e : nextchar s = Res.ok none { s with lastch := none } := by
          simp [nextchar, hpushed, hch]
        rw [e]
        dsimp only
        rw [hne]
        simp only [Bool.false_eq_true, if_false]
        split
        · exact ih _ _ _ (by simp [hch]) (by intro h; exact absurd h hpushed)
        · exact ih _ _ _ (by simp [hch]) (by intro h; exact absurd h hpushed)
      | cons c cs =>
        have e : nextchar s = Res.ok (some c) { s with chars := cs, lastch := some c } := by
          simp [nextchar, hpushed, hch]
        rw [e]
        dsimp only
        have hcs : ∀ x ∈ cs, stop (some x) = false := by
          intro x hx
          exact hc x (by rw [hch]; exact List.mem_cons_of_mem _ hx)
        rw [hc c (by rw [hch]; exact List.mem_cons_self _ _)]
        simp only [Bool.false_eq_true, if_false]
        split
        · exact ih _ _ _ hcs (by intro h; exact absurd h hpushed)
        · exact ih _ _ _ hcs (by intro h; exact absurd h hpushed)

/-- C32: in the mode `TM_ALLSYMS`, in which a filename is read, with an input that
ends after the characters of the name, `gettoken` does not return and does not
abort: the loop of `eatsymbol` ends at a blank, a semicolon and an end of
line only, `EOF` is none of them and is read again and again, and the run is
out of fuel whatever fuel it is given. -/
theorem gettoken_filename_eof (SYMBOLSIZE : Nat) (qparse : List Char → Int) (s : State)
    (hmode : s.allsyms = true) (hrescan : s.rescan = false) (hpushed : s.pushed = false)
    (hname : ∀ c ∈ s.chars, nameChar c = true) :
    ∀ n, gettoken SYMBOLSIZE qparse n s = Res.nofuel := by
  intro n
  have hstop : ∀ c ∈ s.chars,
      (fun ch : Option Char => decide (ch = some ' ' ∨ ch = some ';' ∨ ch = some '\n'))
        (some c) = false := by
    intro c hc
    have h := hname c hc
    simp only [nameChar, Bool.and_eq_true, bne_iff_ne, ne_eq] at h
    simp [h.1.1.1, h.1.1.2, h.1.2]
  unfold gettoken
  simp only [run_bind, run_get, hrescan, Bool.false_eq_true, if_false, run_modify]
  cases n with
  | zero => rfl
  | succ n =>
    rw [gettoken_loop, run_bind]
    cases hch : s.chars with
    | nil =>
      simp only [nextchar, hpushed, Bool.false_eq_true, if_false, hch, run_bind, run_get, hmode,
        reread, run_modify, eatsymbol]
      simp only [reduceCtorEq, not_false_eq_true, ne_eq, and_self, if_true]
      rw [run_bind, run_modify]
      dsimp only
      simp only [run_bind, run_get, hmode, if_true]
      rw [eatsymbol_loop_runs_on _ (by decide) n [] SYMBOLSIZE _ (by simp) (by simp)]
    | cons c cs =>
      have h := hname c (by rw [hch]; exact List.mem_cons_self _ _)
      simp only [nameChar, Bool.and_eq_true, bne_iff_ne, ne_eq] at h
      simp only [nextchar, hpushed, Bool.false_eq_true, if_false, hch, run_bind, run_get, hmode,
        reread, run_modify, eatsymbol]
      simp only [Option.some.injEq, h.1.1.1, h.1.1.2, h.1.2, h.2, not_false_eq_true, ne_eq,
        and_self, if_true]
      rw [run_bind, run_modify]
      dsimp only
      simp only [run_bind, run_get, hmode, if_true]
      rw [eatsymbol_loop_runs_on _ (by decide) n [] SYMBOLSIZE _
        (by
          intro x hx
          exact hstop x (by rw [hch]; exact List.mem_cons_of_mem _ hx))
        (by
          intro _
          exact hstop c (by rw [hch]; exact List.mem_cons_self _ _))]

theorem gettoken_filename_eof_witness :
    gettoken 256 (fun _ => 0) 1000 { chars := ['l', 'i', 'b'], allsyms := true } =
      Res.nofuel :=
  gettoken_filename_eof 256 (fun _ => 0) { chars := ['l', 'i', 'b'], allsyms := true }
    rfl rfl rfl (by decide) 1000

end Lexer

/-! ## codegen.c: the end of the input inside a block -/

theorem ends_pure {α : Type} {Q : α → Prop} (a : α) (h : Q a) : Ends Q (pure a : P α) :=
  fun s hs => Or.inr ⟨a, s, rfl, h, hs⟩

theorem ends_outOfFuel {α : Type} {Q : α → Prop} : Ends Q (outOfFuel : P α) :=
  fun _ _ => Or.inl rfl

theorem ends_bind {α β : Type} {Q : α → Prop} {R : β → Prop} {m : P α} {f : α → P β}
    (hm : Ends Q m) (hf : ∀ a, Q a → Ends R (f a)) : Ends R (m >>= f) := by
  intro s hs
  rcases hm s hs with h | ⟨a, t, h, hq, ht⟩
  · left
    rw [bind_run, h]
  · rw [bind_run, h]
    exact hf a hq t ht

theorem ends_weaken {α : Type} {Q R : α → Prop} {p : P α} (h : Ends Q p)
    (hqr : ∀ a, Q a → R a) : Ends R p := by
  intro s hs
  rcases h s hs with h | ⟨a, t, h, hq, ht⟩
  · exact Or.inl h
  · exact Or.inr ⟨a, t, h, hqr a hq, ht⟩

theorem never_bind {α β : Type} {Q : α → Prop} {m : P α} {f : α → P β}
    (hm : Ends Q m) (hf : ∀ a, Q a → Never (f a)) : Never (m >>= f) := by
  intro s hs
  rcases hm s hs with h | ⟨a, t, h, hq, ht⟩
  · rw [bind_run, h]
  · rw [bind_run, h]
    exact hf a hq t ht

theorem ends_modS (f : PState → PState) (h : ∀ s, AtEof s → AtEof (f s)) :
    Ends (fun _ => True) (modS f) :=
  fun s hs => Or.inr ⟨(), f s, rfl, trivial, h s hs⟩

theorem ends_gettoken : Ends (fun t => t = T_EOF) gettoken := by
  intro s hs
  right
  obtain ⟨h1, h2, h3⟩ := hs
  by_cases hr : s.rescan = true
  · refine ⟨T_EOF, { s with rescan := false }, ?_, rfl, h1, h2, h3⟩
    simp [gettoken, hr, h2]
  · refine ⟨T_EOF, { s with curtoken := { t_type := T_EOF }, input := [] }, ?_, rfl, rfl, rfl, h3⟩
    simp [gettoken, hr, h1, scantoken]

theorem ends_rescantoken : Ends (fun _ => True) rescantoken :=
  ends_modS _ (fun _ hs => hs)

theorem ends_addop (op : Opcode) : Ends (fun _ => True) (addop op) :=
  ends_modS _ (fun _ hs => hs)

theorem ends_addarg (v : Int) : Ends (fun _ => True) (addarg v) :=
  ends_modS _ (fun _ hs => hs)

theorem ends_addopone (op : Opcode) (v : Int) : Ends (fun _ => True) (addopone op v) :=
  ends_bind (ends_addop op) (fun _ _ => ends_addarg v)

theorem ends_linenumber : Ends (fun _ => True) linenumber :=
  fun s hs => Or.inr ⟨_, s, rfl, trivial, hs⟩

theorem ends_getS : Ends (fun _ => True) getS :=
  fun s hs => Or.inr ⟨_, s, rfl, trivial, hs⟩

theorem ends_newlabel : Ends (fun _ => True) newlabel :=
  fun s hs => Or.inr ⟨_, _, rfl, trivial, hs⟩

theorem ends_readlabel (lp : Nat) : Ends (fun _ => True) (readlabel lp) :=
  fun s hs => Or.inr ⟨_, s, rfl, trivial, hs⟩

theorem ends_setlabel (lp : Nat) : Ends (fun _ => True) (setlabel lp) :=
  ends_modS _ (fun _ hs => hs)

/-- With the ceiling 0 and the input at its end, `scanerror` counts the error and
returns. -/
theorem ends_scanerror (skip : TokenType) : Ends (fun _ => True) (scanerror skip) := by
  intro s hs
  right
  obtain ⟨h1, h2, h3⟩ := hs
  have hno : ¬ (s.maxscancount > 0 ∧ s.errorcount + 1 > s.maxscancount) := by
    rw [h3]
    intro h
    exact absurd h.1 (by decide)
  unfold scanerror
  simp only [hno, if_false]
  have hskip : ∀ comma, scanerror_skip comma (s.input.length + 2)
      { s with errorcount := s.errorcount + 1, rescan := true } =
      Res.ok () { s with errorcount := s.errorcount + 1, rescan := true } := by
    intro comma
    rw [h1]
    simp [scanerror_skip, bind_run, gettoken, h2, modS]
  cases skip <;>
    first
    | exact ⟨(), _, rfl, trivial, h1, h2, h3⟩
    | exact ⟨(), _, hskip true, trivial, h1, h2, h3⟩
    | exact ⟨(), _, hskip false, trivial, h1, h2, h3⟩

theorem ends_getterm (n : Nat) : Ends (fun _ => True) (getterm n) := by
  cases n with
  | zero => rw [getterm]; exact ends_outOfFuel
  | succ n =>
    rw [getterm]
    refine ends_bind ends_gettoken (fun a ha => ?_)
    subst ha
    dsimp only
    rw [if_neg (by decide)]
    exact ends_bind ends_rescantoken
      (fun _ _ => ends_bind (ends_scanerror _) (fun _ _ => ends_pure _ trivial))

theorem pure_then {α β : Type} (a : α) (f : α → P β) : (pure a >>= f) = f a := rfl

theorem ends_getshiftexpr (n : Nat) : Ends (fun _ => True) (getshiftexpr n) := by
  cases n with
  | zero => rw [getshiftexpr]; exact ends_outOfFuel
  | succ n =>
    rw [getshiftexpr]
    refine ends_bind (ends_getterm n) (fun type _ => ?_)
    refine ends_bind ends_gettoken (fun a ha => ?_)
    subst ha
    simp only [reduceCtorEq, or_self, if_false, pure_then]
    exact ends_bind ends_rescantoken (fun _ _ => ends_pure _ trivial)

theorem ends_getandexpr_loop (n : Nat) (type : Nat) :
    Ends (fun _ => True) (getandexpr_loop n type) := by
  cases n with
  | zero => rw [getandexpr_loop]; exact ends_outOfFuel
  | succ n =>
    rw [getandexpr_loop]
    refine ends_bind ends_gettoken (fun a ha => ?_)
    subst ha
    simp only [reduceCtorEq, if_false]
    exact ends_bind ends_rescantoken (fun _ _ => ends_pure _ trivial)

theorem ends_getandexpr (n : Nat) : Ends (fun _ => True) (getandexpr n) := by
  cases n with
  | zero => rw [getandexpr]; exact ends_outOfFuel
  | succ n =>
    rw [getandexpr]
    exact ends_bind (ends_getshiftexpr n) (fun type _ => ends_getandexpr_loop n type)

theorem ends_getorexpr_loop (n : Nat) (type : Nat) :
    Ends (fun _ => True) (getorexpr_loop n type) := by
  cases n with
  | zero => rw [getorexpr_loop]; exact ends_outOfFuel
  | succ n =>
    rw [getorexpr_loop]
    refine ends_bind ends_gettoken (fun a ha => ?_)
    subst ha
    simp only [reduceCtorEq, if_false]
    exact ends_bind ends_rescantoken (fun _ _ => ends_pure _ trivial)

theorem ends_getorexpr (n : Nat) : Ends (fun _ => True) (getorexpr n) := by
  cases n with
  | zero => rw [getorexpr]; exact ends_outOfFuel
  | succ n =>
    rw [getorexpr]
    exact ends_bind (ends_getandexpr n) (fun type _ => ends_getorexpr_loop n type)

theorem ends_getproduct_loop (n : Nat) (type : Nat) :
    Ends (fun _ => True) (getproduct_loop n type) := by
  cases n with
  | zero => rw [getproduct_loop]; exact ends_outOfFuel
  | succ n =>
    rw [getproduct_loop]
    refine ends_bind ends_gettoken (fun a ha => ?_)
    subst ha
    dsimp only
    exact ends_bind ends_rescantoken (fun _ _ => ends_pure _ trivial)

theorem ends_getproduct (n : Nat) : Ends (fun _ => True) (getproduct n) := by
  cases n with
  | zero => rw [getproduct]; exact ends_outOfFuel
  | succ n =>
    rw [getproduct]
    exact ends_bind (ends_getorexpr n) (fun type _ => ends_getproduct_loop n type)

theorem ends_getsum_loop (n : Nat) (type : Nat) :
    Ends (fun _ => True) (getsum_loop n type) := by
  cases n with
  | zero => rw [getsum_loop]; exact ends_outOfFuel
  | succ n =>
    rw [getsum_loop]
    refine ends_bind ends_gettoken (fun a ha => ?_)
    subst ha
    dsimp only
    exact ends_bind ends_rescantoken (fun _ _ => ends_pure _ trivial)

theorem ends_getsum (n : Nat) : Ends (fun _ => True) (getsum n) := by
  cases n with
  | zero => rw [getsum]; exact ends_outOfFuel
  | succ n =>
    rw [getsum]
    exact ends_bind (ends_getproduct n) (fun type _ => ends_getsum_loop n type)

theorem ends_getrelation (n : Nat) : Ends (fun _ => True) (getrelation n) := by
  cases n with
  | zero => rw [getrelation]; exact ends_outOfFuel
  | succ n =>
    rw [getrelation]
    refine ends_bind (ends_getsum n) (fun type _ => ?_)
    refine ends_bind ends_gettoken (fun a ha => ?_)
    subst ha
    dsimp only
    exact ends_bind ends_rescantoken (fun _ _ => ends_pure _ trivial)

theorem ends_cond_loop_tail ( donelab type : Nat) :
    Ends (fun _ => True) (do
      rescantoken
      if (← readlabel donelab).l_chain > 0 then setlabel donelab
      pure type : P Nat) := by
  refine ends_bind ends_rescantoken (fun _ _ => ?_)
  refine ends_bind (ends_readlabel _) (fun l _ => ?_)
  split
  · exact ends_bind (ends_setlabel _) (fun _ _ => ends_pure _ trivial)
  · exact ends_bind (Q := fun _ => True) (ends_pure _ trivial) (fun _ _ => ends_pure _ trivial)

theorem ends_getandcond_loop (n : Nat) ( donelab type : Nat) :
    Ends (fun _ => True) (getandcond_loop n donelab type) := by
  cases n with
  | zero => rw [getandcond_loop]; exact ends_outOfFuel
  | succ n =>
    rw [getandcond_loop]
    refine ends_bind ends_gettoken (fun a ha => ?_)
    subst ha
    simp only [reduceCtorEq, if_false]
    exact ends_cond_loop_tail donelab type

theorem ends_getandcond (n : Nat) : Ends (fun _ => True) (getandcond n) := by
  cases n with
  | zero => rw [getandcond]; exact ends_outOfFuel
  | succ n =>
    rw [getandcond]
    exact ends_bind ends_newlabel (fun donelab _ =>
      ends_bind (ends_getrelation n) (fun type _ => ends_getandcond_loop n donelab type))

theorem ends_getorcond_loop (n : Nat) ( donelab type : Nat) :
    Ends (fun _ => True) (getorcond_loop n donelab type) := by
  cases n with
  | zero => rw [getorcond_loop]; exact ends_outOfFuel
  | succ n =>
    rw [getorcond_loop]
    refine ends_bind ends_gettoken (fun a ha => ?_)
    subst ha
    simp only [reduceCtorEq, if_false]
    exact ends_cond_loop_tail donelab type

theorem ends_getorcond (n : Nat) : Ends (fun _ => True) (getorcond n) := by
  cases n with
  | zero => rw [getorcond]; exact ends_outOfFuel
  | succ n =>
    rw [getorcond]
    exact ends_bind ends_newlabel (fun donelab _ =>
      ends_bind (ends_getandcond n) (fun type _ => ends_getorcond_loop n donelab type))

theorem ends_getaltcond (n : Nat) : Ends (fun _ => True) (getaltcond n) := by
  cases n with
  | zero => rw [getaltcond]; exact ends_outOfFuel
  | succ n =>
    rw [getaltcond]
    refine ends_bind (ends_getorcond n) (fun type _ => ?_)
    refine ends_bind ends_gettoken (fun a ha => ?_)
    subst ha
    simp only [ne_eq, reduceCtorEq, not_false_eq_true, if_true]
    exact ends_bind ends_rescantoken (fun _ _ => ends_pure _ trivial)

theorem ends_getassignment (n : Nat) : Ends (fun _ => True) (getassignment n) := by
  cases n with
  | zero => rw [getassignment]; exact ends_outOfFuel
  | succ n =>
    rw [getassignment]
    refine ends_bind (ends_getaltcond n) (fun type _ => ?_)
    refine ends_bind ends_gettoken (fun a ha => ?_)
    subst ha
    dsimp only
    exact ends_bind ends_rescantoken (fun _ _ => ends_pure _ trivial)

theorem ends_getexprlist_loop (n : Nat) (type : Nat) :
    Ends (fun _ => True) (getexprlist_loop n type) := by
  cases n with
  | zero => rw [getexprlist_loop]; exact ends_outOfFuel
  | succ n =>
    rw [getexprlist_loop]
    refine ends_bind ends_gettoken (fun a ha => ?_)
    subst ha
    simp only [reduceCtorEq, if_false]
    exact ends_bind ends_rescantoken (fun _ _ => ends_pure _ trivial)

theorem ends_getexprlist (n : Nat) : Ends (fun _ => True) (getexprlist n) := by
  cases n with
  | zero => rw [getexprlist]; exact ends_outOfFuel
  | succ n =>
    rw [getexprlist]
    exact ends_bind (ends_getassignment n) (fun type _ => ends_getexprlist_loop n type)

theorem ends_finish :
    Ends (fun _ => True) (do
      match (← gettoken) with
      | T_RIGHTBRACE | T_NEWLINE | T_EOF => rescantoken
      | T_SEMICOLON => pure ()
      | _ => scanerror T_SEMICOLON : P Unit) := by
  refine ends_bind ends_gettoken (fun a ha => ?_)
  subst ha
  exact ends_rescantoken

/-- At the end of the input, with the ceiling 0, a statement is an expression
that is missing: `getstatement` counts the error and returns, with nothing
read. -/
theorem ends_getstatement (n : Nat) (c b x d : Option Nat) :
    Ends (fun _ => True) (getstatement n c b x d) := by
  cases n with
  | zero => rw [getstatement]; exact ends_outOfFuel
  | succ n =>
    rw [getstatement.eq_def]
    dsimp only
    refine ends_bind ends_linenumber (fun l _ => ?_)
    refine ends_bind (ends_addopone _ _) (fun _ _ => ?_)
    refine ends_bind ends_gettoken (fun a ha => ?_)
    subst ha
    dsimp only
    refine ends_bind ends_rescantoken (fun _ _ => ?_)
    refine ends_bind (ends_getexprlist n) (fun type _ => ?_)
    refine ends_bind ends_getS (fun s _ => ?_)
    split
    · exact ends_bind (ends_addop _) (fun _ _ => ends_finish)
    · refine ends_bind (ends_addop _) (fun _ _ => ?_)
      split
      · exact ends_bind (ends_addop _) (fun _ _ => ends_finish)
      · exact ends_bind (ends_addop _) (fun _ _ => ends_finish)

/-- At the end of the input, with the ceiling 0, the loop of `getbody` does not
come to an end: every round is a statement that is missing. -/
theorem never_getbody_loop (c b x d : Option Nat) (toplevel : Bool) (oldmode : Nat) :
    ∀ (n : Nat) (got : Bool), Never (getbody_loop n c b x d toplevel oldmode got) := by
  intro n
  induction n with
  | zero =>
    intro got s _
    rw [getbody_loop]
    rfl
  | succ n ih =>
    intro got
    rw [getbody_loop]
    refine never_bind ends_gettoken (fun a ha => ?_)
    subst ha
    dsimp only
    refine never_bind ends_rescantoken (fun _ _ => ?_)
    exact never_bind (ends_getstatement n c b x d) (fun _ _ => ih true)

/-- C33: with the error ceiling 0, a block that is opened and not closed before
the end of the input makes `getbody` loop: at `T_EOF` its loop calls
`getstatement`, which reports a missing expression, reads nothing and
returns, and `scanerror` does not abort, so that the run is out of fuel
whatever fuel it is given. -/
theorem getbody_eof_loops (n : Nat) (c b x d : Option Nat) (toplevel : Bool) (s : PState)
    (hinput : s.input = [{ t_type := T_LEFTBRACE }]) (hrescan : s.rescan = false)
    (hceiling : s.maxscancount = 0) :
    getbody n c b x d toplevel s = Res.nofuel := by
  cases n with
  | zero => rw [getbody]; rfl
  | succ n =>
    rw [getbody, bind_run]
    have e : gettoken s = Res.ok T_LEFTBRACE
        { s with curtoken := { t_type := T_LEFTBRACE }, input := [] } := by
      simp [gettoken, hrescan, hinput, scantoken]
    rw [e]
    dsimp only
    rw [if_neg (fun h => h rfl), bind_run]
    cases n with
    | zero => rfl
    | succ n =>
      have e2 : ∀ u : PState, tokenmode TM_DEFAULT u = Res.ok
          ((if u.allsyms then (if u.newlines then TM_DEFAULT ||| TM_NEWLINES else TM_DEFAULT)
              ||| TM_ALLSYMS
            else (if u.newlines then TM_DEFAULT ||| TM_NEWLINES else TM_DEFAULT)))
          { u with newlines := (TM_DEFAULT &&& TM_NEWLINES) != 0,
                   allsyms := (TM_DEFAULT &&& TM_ALLSYMS) != 0 } := fun _ => rfl
      rw [e2]
      dsimp only
      rw [getbody_loop, bind_run]
      have e3 : ∀ u : PState, u.input = [] → u.rescan = false →
          gettoken u = Res.ok T_EOF { u with curtoken := { t_type := T_EOF }, input := [] } := by
        intro u h1 h2
        simp [gettoken, h1, h2, scantoken]
      rw [e3]
      · dsimp only
        exact never_bind ends_rescantoken
          (fun _ _ => never_bind (ends_getstatement n c b x d)
            (fun _ _ => never_getbody_loop c b x d toplevel _ n true)) _ ⟨rfl, rfl, hceiling⟩
      · rfl
      · exact hrescan

theorem getbody_eof_loops_witness :
    getbody 1000 none none none none true
      { input := [{ t_type := T_LEFTBRACE }], maxscancount := 0 } = Res.nofuel :=
  getbody_eof_loops 1000 none none none none true
    { input := [{ t_type := T_LEFTBRACE }], maxscancount := 0 } rfl rfl rfl

/-! ## codegen.c: initializer lists of any expressions -/

theorem stateOf_ok {α : Type} {p : P α} {s t : PState} {a : α} (h : p s = Res.ok a t) :
    stateOf p s = t := by
  unfold stateOf
  rw [h]

theorem run_stateOf_rescantoken (s : PState) :
    rescantoken s = Res.ok () (stateOf rescantoken s) := rfl

theorem run_stateOf_addopone (op : Opcode) (v : Int) (s : PState) :
    addopone op v s = Res.ok () (stateOf (addopone op v) s) := rfl

theorem run_stateOf_nested_begin (k : Int) (s : PState) :
    nested_begin k s = Res.ok () (stateOf (nested_begin k) s) := rfl

theorem run_stateOf_tokenmode (m : Nat) (s : PState) :
    ∃ old, tokenmode m s = Res.ok old (stateOf (tokenmode m) s) := ⟨_, rfl⟩

theorem initlist_loop_close (n m : Nat) (k : Int) (s t : PState)
    (hg : gettoken s = Res.ok T_RIGHTBRACE t) :
    getinitlist_loop (n + 1) m k s = Res.ok k (stateOf (tokenmode m) t) := by
  rw [getinitlist_loop, bind_run_ok hg]
  rfl

theorem initlist_loop_empty (n m : Nat) (k : Int) (s s1 : PState)
    (hg : gettoken s = Res.ok T_COMMA s1) :
    getinitlist_loop (n + 1) m k s = getinitlist_loop n m (k + 1) s1 := by
  rw [getinitlist_loop, bind_run_ok hg]

theorem initlist_loop_value (n m : Nat) (k : Int) (s s1 s2 s3 : PState) (tok : TokenType)
    (ty : Nat) (hg : gettoken s = Res.ok tok s1)
    (h1 : tok ≠ T_COMMA) (h2 : tok ≠ T_RIGHTBRACE) (h3 : tok ≠ T_LEFTBRACE)
    (ha : getassignment n (stateOf rescantoken s1) = Res.ok ty s2)
    (hc : gettoken (stateOf (addopone OP_ELEMINIT k) s2) = Res.ok T_COMMA s3) :
    getinitlist_loop (n + 1) m k s = getinitlist_loop n m (k + 1) s3 := by
  rw [getinitlist_loop, bind_run_ok hg]
  split
  · exact absurd rfl h1
  · exact absurd rfl h2
  · exact absurd rfl h3
  · rw [bind_run_ok (run_stateOf_rescantoken s1), bind_run_ok ha,
      bind_run_ok (run_stateOf_addopone _ _ s2), bind_run_ok hc]

theorem initlist_loop_value_last (n m : Nat) (k : Int) (s s1 s2 t : PState) (tok : TokenType)
    (ty : Nat) (hg : gettoken s = Res.ok tok s1)
    (h1 : tok ≠ T_COMMA) (h2 : tok ≠ T_RIGHTBRACE) (h3 : tok ≠ T_LEFTBRACE)
    (ha : getassignment n (stateOf rescantoken s1) = Res.ok ty s2)
    (hc : gettoken (stateOf (addopone OP_ELEMINIT k) s2) = Res.ok T_RIGHTBRACE t) :
    getinitlist_loop (n + 1) m k s = Res.ok k (stateOf (tokenmode m) t) := by
  rw [getinitlist_loop, bind_run_ok hg]
  split
  · exact absurd rfl h1
  · exact absurd rfl h2
  · exact absurd rfl h3
  · rw [bind_run_ok (run_stateOf_rescantoken s1), bind_run_ok ha,
      bind_run_ok (run_stateOf_addopone _ _ s2), bind_run_ok hc]
    rfl

theorem initlist_loop_nested (n m : Nat) (k : Int) (s s1 s2 s3 : PState) (vi : Int)
    (hg : gettoken s = Res.ok T_LEFTBRACE s1)
    (ha : getinitlist n (stateOf (nested_begin k) s1) = Res.ok vi s2)
    (hc : gettoken (stateOf (addopone OP_ELEMINIT k) s2) = Res.ok T_COMMA s3) :
    getinitlist_loop (n + 1) m k s = getinitlist_loop n m (k + 1) s3 := by
  rw [getinitlist_loop, bind_run_ok hg]
  dsimp only
  have ha2 : getinitlist n (stateOf (addopone OP_ELEMADDR k)
      (stateOf (addop OP_DUPLICATE) (stateOf rescantoken s1))) = Res.ok vi s2 := ha
  rw [bind_run_ok (run_stateOf_rescantoken s1),
    bind_run_ok (show addop OP_DUPLICATE (stateOf rescantoken s1) =
      Res.ok () (stateOf (addop OP_DUPLICATE) (stateOf rescantoken s1)) from rfl),
    bind_run_ok (run_stateOf_addopone _ _ _), bind_run_ok ha2, bind_run_ok (run_stateOf_addopone _ _ s2), bind_run_ok hc]

theorem initlist_loop_nested_last (n m : Nat) (k : Int) (s s1 s2 t : PState) (vi : Int)
    (hg : gettoken s = Res.ok T_LEFTBRACE s1)
    (ha : getinitlist n (stateOf (nested_begin k) s1) = Res.ok vi s2)
    (hc : gettoken (stateOf (addopone OP_ELEMINIT k) s2) = Res.ok T_RIGHTBRACE t) :
    getinitlist_loop (n + 1) m k s = Res.ok k (stateOf (tokenmode m) t) := by
  rw [getinitlist_loop, bind_run_ok hg]
  dsimp only
  have ha2 : getinitlist n (stateOf (addopone OP_ELEMADDR k)
      (stateOf (addop OP_DUPLICATE) (stateOf rescantoken s1))) = Res.ok vi s2 := ha
  rw [bind_run_ok (run_stateOf_rescantoken s1),
    bind_run_ok (show addop OP_DUPLICATE (stateOf rescantoken s1) =
      Res.ok () (stateOf (addop OP_DUPLICATE) (stateOf rescantoken s1)) from rfl),
    bind_run_ok (run_stateOf_addopone _ _ _), bind_run_ok ha2, bind_run_ok (run_stateOf_addopone _ _ s2), bind_run_ok hc]
  rfl

/-- With the slots as runs, the loop of `getinitlist` returns the position
reached at the closing brace, in the mode it is to restore. -/
theorem initlist_loop_returns (m : Nat) :
    ∀ (n : Nat) (k : Int) (s : PState) (l : List InitSlot) (v : Int) (t : PState),
      InitSlots n k s l v t →
      getinitlist_loop n m k s = Res.ok v (stateOf (tokenmode m) t) := by
  intro n k s l v t h
  induction h with
  | close n k s t hg => exact initlist_loop_close n m k s t hg
  | empty n k s s1 l v t hg _ ih => rw [initlist_loop_empty n m k s s1 hg, ih]
  | value n k s s1 s2 s3 tok ty l v t hg h1 h2 h3 ha hc _ ih =>
    rw [initlist_loop_value n m k s s1 s2 s3 tok ty hg h1 h2 h3 ha hc, ih]
  | value_last n k s s1 s2 tok ty t hg h1 h2 h3 ha hc =>
    exact initlist_loop_value_last n m k s s1 s2 t tok ty hg h1 h2 h3 ha hc
  | nested n k s s1 s2 s3 vi l v t hg ha hc _ ih =>
    rw [initlist_loop_nested n m k s s1 s2 s3 vi hg ha hc, ih]
  | nested_last n k s s1 s2 vi t hg ha hc =>
    exact initlist_loop_nested_last n m k s s1 s2 t vi hg ha hc

/-- What a run that keeps the frame does to the code: it appends, behind cells
that are as many as before and, when the last cell is no index address still
to be marked, the same as before. -/
theorem subrun_code {α : Type} {p : P α} (hp : Spec false [] p) {u w : PState} {a : α}
    (h : p u = Res.ok a w) :
    u.f_opcodes.length ≤ w.f_opcodes.length ∧
    (FlagSet u → w.f_opcodes = u.f_opcodes ++ w.f_opcodes.drop u.f_opcodes.length) := by
  have hf : Frame false [] u w := by
    have := hp u
    rw [h] at this
    exact this
  refine ⟨hf.ext.length, fun hflag => ?_⟩
  obtain ⟨code, hc⟩ := hf.code_append hflag
  rw [hc]
  simp

theorem flagSet_of_oldop (s : PState) (h : s.oldop ≠ OP_INDEXADDR) : FlagSet s :=
  fun ho => absurd ho h

theorem flagSet_of_eq (s u : PState) (h1 : u.f_opcodes = s.f_opcodes) (h2 : u.oldop = s.oldop)
    (h : FlagSet s) : FlagSet u := by
  unfold FlagSet
  rw [h1, h2]
  exact h

/-- With the slots as runs, the code behind the loop of `getinitlist` is the code
of the slots in their order: each slot at the position behind the one before
it. -/
theorem initslots_code :
    ∀ (n : Nat) (k : Int) (s : PState) (l : List InitSlot) (v : Int) (t : PState),
      InitSlots n k s l v t →
      ∃ pre, pre.length = s.f_opcodes.length ∧ (FlagSet s → pre = s.f_opcodes) ∧
        t.f_opcodes = pre ++ slotsCode k l ∧ v = k + l.length - 1 := by
  intro n k s l v t h
  induction h with
  | close n k s t hg =>
    obtain ⟨-, hc, -⟩ := gettoken_keeps s t _ hg
    exact ⟨s.f_opcodes, rfl, fun _ => rfl, by simp [slotsCode, InitSlot.code, hc], by simp⟩
  | empty n k s s1 l v t hg _ ih =>
    obtain ⟨-, hc, ho⟩ := gettoken_keeps s s1 _ hg
    obtain ⟨pre, h1, h2, h3, h4⟩ := ih
    refine ⟨pre, by rw [h1, hc], fun hf => ?_, ?_, ?_⟩
    · rw [h2 (flagSet_of_eq s s1 hc ho hf), hc]
    · rw [h3]
      simp [slotsCode, InitSlot.code]
    · rw [h4]
      simp only [List.length_cons]
      push_cast
      omega
  | value n k s s1 s2 s3 tok ty l v t hg _ _ _ ha hc _ ih =>
    obtain ⟨-, hc1, ho1⟩ := gettoken_keeps s s1 _ hg
    obtain ⟨-, hc3, ho3⟩ := gettoken_keeps _ s3 _ hc
    obtain ⟨hlen, happ⟩ := subrun_code (exprFrames n).getassignment ha
    obtain ⟨pre3, -, h2, h3, h4⟩ := ih
    have hf3 : FlagSet s3 := flagSet_of_oldop s3 (by rw [ho3]; exact fun h => by cases h)
    have e3 : s3.f_opcodes = s2.f_opcodes ++ [Slot.op OP_ELEMINIT, Slot.arg k] := by
      rw [hc3]
      simp [stateOf, addopone, addop, addarg, modS, bind_run]
    have hlen1 : (stateOf rescantoken s1).f_opcodes.length = s1.f_opcodes.length := rfl
    refine ⟨s2.f_opcodes.take s.f_opcodes.length, ?_, fun hf => ?_, ?_, ?_⟩
    · rw [List.length_take]
      rw [hlen1, hc1] at hlen
      omega
    · have := happ (flagSet_of_eq s _ hc1 ho1 hf)
      rw [hlen1] at this
      have e : (stateOf rescantoken s1).f_opcodes = s.f_opcodes := hc1
      rw [e, hc1] at this
      rw [this]
      simp
    · rw [h3, h2 hf3, e3, hc1]
      simp only [slotsCode, InitSlot.code, List.append_assoc]
      conv_lhs => rw [← List.take_append_drop s.f_opcodes.length s2.f_opcodes]
      simp only [List.append_assoc]
    · rw [h4]
      simp only [List.length_cons]
      push_cast
      omega
  | value_last n k s s1 s2 tok ty t hg _ _ _ ha hc =>
    obtain ⟨-, hc1, ho1⟩ := gettoken_keeps s s1 _ hg
    obtain ⟨-, hc3, ho3⟩ := gettoken_keeps _ t _ hc
    obtain ⟨hlen, happ⟩ := subrun_code (exprFrames n).getassignment ha
    have e3 : t.f_opcodes = s2.f_opcodes ++ [Slot.op OP_ELEMINIT, Slot.arg k] := by
      rw [hc3]
      simp [stateOf, addopone, addop, addarg, modS, bind_run]
    have hlen1 : (stateOf rescantoken s1).f_opcodes.length = s1.f_opcodes.length := rfl
    refine ⟨s2.f_opcodes.take s.f_opcodes.length, ?_, fun hf => ?_, ?_, ?_⟩
    · rw [List.length_take]
      rw [hlen1, hc1] at hlen
      omega
    · have := happ (flagSet_of_eq s _ hc1 ho1 hf)
      rw [hlen1] at this
      have e : (stateOf rescantoken s1).f_opcodes = s.f_opcodes := hc1
      rw [e, hc1] at this
      rw [this]
      simp
    · rw [e3, hc1]
      simp only [slotsCode, InitSlot.code, List.append_assoc, List.append_nil]
      conv_lhs => rw [← List.take_append_drop s.f_opcodes.length s2.f_opcodes]
      simp only [List.append_assoc]
    · simp
  | nested n k s s1 s2 s3 vi l v t hg ha hc _ ih =>
    obtain ⟨-, hc1, ho1⟩ := gettoken_keeps s s1 _ hg
    obtain ⟨-, hc3, ho3⟩ := gettoken_keeps _ s3 _ hc
    obtain ⟨hlen, happ⟩ := subrun_code (exprFrames n).getinitlist ha
    obtain ⟨pre3, -, h2, h3, h4⟩ := ih
    have hf3 : FlagSet s3 := flagSet_of_oldop s3 (by rw [ho3]; exact fun h => by cases h)
    have e3 : s3.f_opcodes = s2.f_opcodes ++ [Slot.op OP_ELEMINIT, Slot.arg k] := by
      rw [hc3]
      simp [stateOf, addopone, addop, addarg, modS, bind_run]
    have eb : (stateOf (nested_begin k) s1).f_opcodes =
        s.f_opcodes ++ [Slot.op OP_DUPLICATE, Slot.op OP_ELEMADDR, Slot.arg k] := by
      rw [← hc1]
      simp [stateOf, nested_begin, rescantoken, addopone, addop, addarg, modS, bind_run]
    have hfb : FlagSet (stateOf (nested_begin k) s1) :=
      flagSet_of_oldop _ (by
        simp [stateOf, nested_begin, rescantoken, addopone, addop, addarg, modS, bind_run])
    have happ2 := happ hfb
    rw [eb] at happ2
    refine ⟨s.f_opcodes, rfl, fun _ => rfl, ?_, ?_⟩
    · rw [h3, h2 hf3, e3, happ2, hc1]
      simp [slotsCode, InitSlot.code]
    · rw [h4]
      simp only [List.length_cons]
      push_cast
      omega
  | nested_last n k s s1 s2 vi t hg ha hc =>
    obtain ⟨-, hc1, ho1⟩ := gettoken_keeps s s1 _ hg
    obtain ⟨-, hc3, ho3⟩ := gettoken_keeps _ t _ hc
    obtain ⟨hlen, happ⟩ := subrun_code (exprFrames n).getinitlist ha
    have e3 : t.f_opcodes = s2.f_opcodes ++ [Slot.op OP_ELEMINIT, Slot.arg k] := by
      rw [hc3]
      simp [stateOf, addopone, addop, addarg, modS, bind_run]
    have eb : (stateOf (nested_begin k) s1).f_opcodes =
        s.f_opcodes ++ [Slot.op OP_DUPLICATE, Slot.op OP_ELEMADDR, Slot.arg k] := by
      rw [← hc1]
      simp [stateOf, nested_begin, rescantoken, addopone, addop, addarg, modS, bind_run]
    have hfb : FlagSet (stateOf (nested_begin k) s1) :=
      flagSet_of_oldop _ (by
        simp [stateOf, nested_begin, rescantoken, addopone, addop, addarg, modS, bind_run])
    have happ2 := happ hfb
    rw [eb] at happ2
    refine ⟨s.f_opcodes, rfl, fun _ => rfl, ?_, ?_⟩
    · rw [e3, happ2, hc1]
      simp [slotsCode, InitSlot.code]
    · simp

theorem slotsCode_enum (l : List InitSlot) :
    ∀ k : Nat, slotsCode (k : Int) l =
      ((l.enumFrom k).map fun p => p.2.code (p.1 : Int)).flatten := by
  induction l with
  | nil => intro k; rfl
  | cons slot l ih =>
    intro k
    have := ih (k + 1)
    simp only [Nat.cast_add, Nat.cast_one] at this
    simp [slotsCode, List.enumFrom_cons, this]

theorem tokenmode_returns_mode (flag : Nat) (s : PState) :
    tokenmode flag s = Res.ok s.mode (stateOf (tokenmode flag) s) := by
  unfold stateOf tokenmode PState.mode
  rfl

/-- C23: `getinitlist` on a list in braces, with the slots as runs: an expression
is whatever `getassignment` parses, a nested list whatever `getinitlist`
parses.  The call returns the position of the last slot, and the code it
appended is the code of the slots in their order, the slot number `i` at the
position `i`: for an expression its code and `OP_ELEMINIT i`; for a nested
list `OP_DUPLICATE`, `OP_ELEMADDR i`, the code of the nested list and
`OP_ELEMINIT i`; for an empty slot nothing, the position being taken all the
same.  So a list of `n` entries with no empty slot has `n` times
`OP_ELEMINIT`, with the operands 0 to `n - 1`, each right behind the code of
its entry.  The cells in front are as many as before, and the same when the
last of them is no index address still to be marked for writing. -/
theorem getinitlist_slots (n : Nat) (s s1 t : PState) (l : List InitSlot) (v : Int)
    (hbrace : gettoken (stateOf (tokenmode TM_DEFAULT) s) = Res.ok T_LEFTBRACE s1)
    (hslots : InitSlots n 0 s1 l v t) :
    ∃ pre,
      getinitlist (n + 1) s = Res.ok v (stateOf (tokenmode s.mode) t) ∧
      (stateOf (tokenmode s.mode) t).f_opcodes =
        pre ++ (l.enum.map fun p => p.2.code (p.1 : Int)).flatten ∧
      pre.length = s.f_opcodes.length ∧ (FlagSet s → pre = s.f_opcodes) ∧
      v = (l.length : Int) - 1 := by
  obtain ⟨pre, h1, h2, h3, h4⟩ := initslots_code n 0 s1 l v t hslots
  obtain ⟨-, hc, ho⟩ := gettoken_keeps _ s1 _ hbrace
  have hc0 : (stateOf (tokenmode TM_DEFAULT) s).f_opcodes = s.f_opcodes := rfl
  have ho0 : (stateOf (tokenmode TM_DEFAULT) s).oldop = s.oldop := rfl
  refine ⟨pre, ?_, ?_, ?_, ?_, ?_⟩
  · rw [getinitlist, bind_run_ok (tokenmode_returns_mode TM_DEFAULT s), bind_run_ok hbrace]
    dsimp only
    rw [if_neg (fun h => h rfl)]
    exact initlist_loop_returns s.mode n 0 s1 l v t hslots
  · have e : (stateOf (tokenmode s.mode) t).f_opcodes = t.f_opcodes := rfl
    rw [e, h3]
    have := slotsCode_enum l 0
    simp only [Nat.cast_zero] at this
    rw [this]
    rfl
  · rw [h1, hc, hc0]
  · intro hf
    rw [h2 (flagSet_of_eq s s1 (by rw [hc, hc0]) (by rw [ho, ho0]) hf), hc, hc0]
  · rw [h4]
    omega

/-- C23 on `{a, 1 + 2, , {3}}`: the variable is initialised at the position 0, the
sum at the position 1, nothing at the position 2, and the nested list at the
position 3, its number at the position 0 of the nested list; the call returns
3. -/
theorem getinitlist_slots_witness :
    [InitSlot.value ((slots_state 2).f_opcodes.drop (slots_state 1).f_opcodes.length),
      InitSlot.value ((slots_state 5).f_opcodes.drop (slots_state 4).f_opcodes.length),
      InitSlot.empty,
      InitSlot.nested ((slots_state 9).f_opcodes.drop ((slots_state 8).f_opcodes.length + 3))] =
    [InitSlot.value [Slot.op OP_GLOBALADDR, Slot.arg 0],
      InitSlot.value [Slot.op OP_NUMBER, Slot.arg 0, Slot.op OP_NUMBER, Slot.arg 1,
        Slot.op OP_ADD],
      InitSlot.empty,
      InitSlot.nested [Slot.op OP_NUMBER, Slot.arg 2, Slot.op OP_ELEMINIT, Slot.arg 0]] ∧
    (stateOf (tokenmode slots_line.mode) (slots_state 10)).f_opcodes =
      [Slot.op OP_GLOBALADDR, Slot.arg 0, Slot.op OP_ELEMINIT, Slot.arg 0,
        Slot.op OP_NUMBER, Slot.arg 0, Slot.op OP_NUMBER, Slot.arg 1, Slot.op OP_ADD,
        Slot.op OP_ELEMINIT, Slot.arg 1,
        Slot.op OP_DUPLICATE, Slot.op OP_ELEMADDR, Slot.arg 3, Slot.op OP_NUMBER, Slot.arg 2,
        Slot.op OP_ELEMINIT, Slot.arg 0, Slot.op OP_ELEMINIT, Slot.arg 3] ∧
    ∃ pre,
      getinitlist (30 + 1) slots_line =
        Res.ok 3 (stateOf (tokenmode slots_line.mode) (slots_state 10)) ∧
      (stateOf (tokenmode slots_line.mode) (slots_state 10)).f_opcodes =
        pre ++
          ([InitSlot.value ((slots_state 2).f_opcodes.drop (slots_state 1).f_opcodes.length),
            InitSlot.value ((slots_state 5).f_opcodes.drop (slots_state 4).f_opcodes.length),
            InitSlot.empty,
            InitSlot.nested
              ((slots_state 9).f_opcodes.drop ((slots_state 8).f_opcodes.length + 3))].enum.map
            fun p => p.2.code (p.1 : Int)).flatten ∧
      pre.length = slots_line.f_opcodes.length ∧
      (FlagSet slots_line → pre = slots_line.f_opcodes) ∧
      (3 : Int) =
        ([InitSlot.value ((slots_state 2).f_opcodes.drop (slots_state 1).f_opcodes.length),
          InitSlot.value ((slots_state 5).f_opcodes.drop (slots_state 4).f_opcodes.length),
          InitSlot.empty,
          InitSlot.nested
            ((slots_state 9).f_opcodes.drop ((slots_state 8).f_opcodes.length + 3))].length :
          Int) - 1 :=
  ⟨by decide!, by decide!,
   getinitlist_slots 30 slots_line (slots_state 0) (slots_state 10) _ 3 (by decide!)
    (InitSlots.value 29 0 (slots_state 0) (slots_state 1) (slots_state 2) (slots_state 3)
      T_SYMBOL 0 _ 3 (slots_state 10) (by decide!) (by decide) (by decide) (by decide)
      (by decide!) (by decide!)
      (InitSlots.value 28 1 (slots_state 3) (slots_state 4) (slots_state 5) (slots_state 6)
        T_NUMBER 1 _ 3 (slots_state 10) (by decide!) (by decide) (by decide) (by decide)
        (by decide!) (by decide!)
        (InitSlots.empty 27 2 (slots_state 6) (slots_state 7) _ 3 (slots_state 10) (by decide!)
          (InitSlots.nested_last 26 3 (slots_state 7) (slots_state 8) (slots_state 9) 0
            (slots_state 10) (by decide!) (by decide!) (by decide!)))))⟩

/-! ## codegen.c: calls with any expressions as arguments -/

theorem gettoken_again (s s1 : PState) (tok : TokenType) (h : gettoken s = Res.ok tok s1) :
    gettoken (stateOf rescantoken s1) = Res.ok tok s1 := by
  unfold gettoken at h
  by_cases hr : s.rescan = true
  · rw [if_pos hr] at h
    cases h
    rfl
  · rw [if_neg hr] at h
    cases h
    simp only [Bool.not_eq_true] at hr
    simp [gettoken, stateOf, rescantoken, modS, hr]

theorem run_stateOf_addop (op : Opcode) (s : PState) :
    addop op s = Res.ok () (stateOf (addop op) s) := rfl

theorem callargs_loop_close (name : Int) (op : Opcode) (index : Int) (n : Nat) (a : Int)
    (s s1 : PState) (hg : gettoken s = Res.ok T_RIGHTPAREN s1) :
    getcallargs_loop (n + 1) name op index a s =
      call_end op index (a + 1) (stateOf (addop OP_UNDEF) s1) := by
  rw [getcallargs_loop, bind_run_ok hg]
  rfl

theorem callargs_loop_empty (name : Int) (op : Opcode) (index : Int) (n : Nat) (a : Int)
    (s s1 : PState) (hg : gettoken s = Res.ok T_COMMA s1) :
    getcallargs_loop (n + 1) name op index a s =
      getcallargs_loop n name op index (a + 1) (stateOf (addop OP_UNDEF) s1) := by
  rw [getcallargs_loop, bind_run_ok hg]
  rw [if_neg (by decide)]
  rw [bind_run_ok (run_stateOf_rescantoken s1), bind_run_ok (gettoken_again s s1 _ hg)]
  rfl

theorem arg_end_value (name : Int) (op : Opcode) (a : Int) (ty : Nat) (s : PState) :
    arg_end name op a false ty s = Res.ok () (stateOf (arg_end name op a false ty) s) := by
  by_cases h1 : op = OP_CALL <;> by_cases h2 : name = NAME_quomod ∧ a > 2 <;>
    simp [arg_end, stateOf, bind_run, pure_run, h1, h2, addop, writeindexop, modS]

theorem value_tail {α : Type} (name : Int) (op : Opcode) (a : Int) (ty : Nat) (K : P α)
    (s : PState) :
    (if op ≠ OP_CALL then addop OP_GETVALUE >>= fun _ =>
        if name = NAME_quomod ∧ a > 2 then writeindexop >>= fun _ => K
        else pure PUnit.unit >>= fun _ => K
      else pure PUnit.unit >>= fun _ =>
        if name = NAME_quomod ∧ a > 2 then writeindexop >>= fun _ => K
        else pure PUnit.unit >>= fun _ => K) s =
      K (stateOf (arg_end name op a false ty) s) := by
  by_cases h1 : op = OP_CALL <;> by_cases h2 : name = NAME_quomod ∧ a > 2 <;>
    simp [arg_end, stateOf, bind_run, pure_run, h1, h2, addop, writeindexop, modS]

theorem callargs_loop_value (name : Int) (op : Opcode) (index : Int) (n : Nat) (a : Int)
    (s s1 s2 s3 : PState) (tok : TokenType) (ty : Nat)
    (hg : gettoken s = Res.ok tok s1)
    (h1 : tok ≠ T_RIGHTPAREN) (h2 : tok ≠ T_COMMA) (h3 : tok ≠ T_AND)
    (ha : getassignment n (stateOf rescantoken s1) = Res.ok ty s2)
    (hc : gettoken (stateOf (arg_end name op (a + 1) false ty) s2) = Res.ok T_COMMA s3) :
    getcallargs_loop (n + 1) name op index a s =
      getcallargs_loop n name op index (a + 1) s3 := by
  rw [getcallargs_loop, bind_run_ok hg]
  rw [if_neg h1]
  rw [bind_run_ok (run_stateOf_rescantoken s1), bind_run_ok (gettoken_again s s1 _ hg)]
  rw [if_neg h2]
  rw [bind_run_ok (run_stateOf_rescantoken s1), bind_run_ok (gettoken_again s s1 _ hg)]
  have hd : decide (tok = T_AND) = false := by simpa using h3
  simp only [hd, if_true, Bool.false_eq_true, if_false, false_and, true_and]
  rw [bind_run_ok (run_stateOf_rescantoken s1), bind_run_ok ha]
  rw [bind_run_ok (show (pure PUnit.unit : P PUnit) s2 = Res.ok PUnit.unit s2 from rfl)]
  refine (value_tail name op (a + 1) ty _ s2).trans ?_
  rw [bind_run_ok hc]

theorem callargs_loop_value_last (name : Int) (op : Opcode) (index : Int) (n : Nat) (a : Int)
    (s s1 s2 t : PState) (tok : TokenType) (ty : Nat)
    (hg : gettoken s = Res.ok tok s1)
    (h1 : tok ≠ T_RIGHTPAREN) (h2 : tok ≠ T_COMMA) (h3 : tok ≠ T_AND)
    (ha : getassignment n (stateOf rescantoken s1) = Res.ok ty s2)
    (hc : gettoken (stateOf (arg_end name op (a + 1) false ty) s2) = Res.ok T_RIGHTPAREN t) :
    getcallargs_loop (n + 1) name op index a s = call_end op index (a + 1) t := by
  rw [getcallargs_loop, bind_run_ok hg]
  rw [if_neg h1]
  rw [bind_run_ok (run_stateOf_rescantoken s1), bind_run_ok (gettoken_again s s1 _ hg)]
  rw [if_neg h2]
  rw [bind_run_ok (run_stateOf_rescantoken s1), bind_run_ok (gettoken_again s s1 _ hg)]
  have hd : decide (tok = T_AND) = false := by simpa using h3
  simp only [hd, if_true, Bool.false_eq_true, if_false, false_and, true_and]
  rw [bind_run_ok (run_stateOf_rescantoken s1), bind_run_ok ha]
  rw [bind_run_ok (show (pure PUnit.unit : P PUnit) s2 = Res.ok PUnit.unit s2 from rfl)]
  refine (value_tail name op (a + 1) ty _ s2).trans ?_
  rw [bind_run_ok hc]
  rfl

theorem address_tail {α : Type} (name : Int) (op : Opcode) (a : Int) (ty : Nat) (K : P α)
    (s : PState) (hty : isrvalue ty = false) :
    (pure PUnit.unit >>= fun _ => writeindexop >>= fun _ =>
        pure PUnit.unit >>= fun _ =>
          if name = NAME_quomod ∧ a > 2 then writeindexop >>= fun _ => K
          else pure PUnit.unit >>= fun _ => K) s =
      K (stateOf (arg_end name op a true ty) s) := by
  by_cases h2 : name = NAME_quomod ∧ a > 2 <;>
    simp [arg_end, stateOf, bind_run, pure_run, hty, h2, writeindexop, modS]

theorem callargs_loop_address (name : Int) (op : Opcode) (index : Int) (n : Nat) (a : Int)
    (s s1 s2 s3 : PState) (ty : Nat)
    (hg : gettoken s = Res.ok T_AND s1)
    (ha : getassignment n s1 = Res.ok ty s2) (hty : isrvalue ty = false)
    (hc : gettoken (stateOf (arg_end name op (a + 1) true ty) s2) = Res.ok T_COMMA s3) :
    getcallargs_loop (n + 1) name op index a s =
      getcallargs_loop n name op index (a + 1) s3 := by
  rw [getcallargs_loop, bind_run_ok hg]
  rw [if_neg (by decide)]
  rw [bind_run_ok (run_stateOf_rescantoken s1), bind_run_ok (gettoken_again s s1 _ hg)]
  rw [if_neg (by decide)]
  rw [bind_run_ok (run_stateOf_rescantoken s1), bind_run_ok (gettoken_again s s1 _ hg)]
  simp only [decide_True, if_true, Bool.true_eq_false, if_false, false_and, true_and]
  rw [bind_run_ok (show (pure PUnit.unit : P PUnit) s1 = Res.ok PUnit.unit s1 from rfl)]
  rw [bind_run_ok ha]
  rw [if_neg (by simp [hty])]
  refine (address_tail name op (a + 1) ty _ s2 hty).trans ?_
  rw [bind_run_ok hc]

theorem callargs_loop_address_last (name : Int) (op : Opcode) (index : Int) (n : Nat)
    (a : Int) (s s1 s2 t : PState) (ty : Nat)
    (hg : gettoken s = Res.ok T_AND s1)
    (ha : getassignment n s1 = Res.ok ty s2) (hty : isrvalue ty = false)
    (hc : gettoken (stateOf (arg_end name op (a + 1) true ty) s2) = Res.ok T_RIGHTPAREN t) :
    getcallargs_loop (n + 1) name op index a s = call_end op index (a + 1) t := by
  rw [getcallargs_loop, bind_run_ok hg]
  rw [if_neg (by decide)]
  rw [bind_run_ok (run_stateOf_rescantoken s1), bind_run_ok (gettoken_again s s1 _ hg)]
  rw [if_neg (by decide)]
  rw [bind_run_ok (run_stateOf_rescantoken s1), bind_run_ok (gettoken_again s s1 _ hg)]
  simp only [decide_True, if_true, Bool.true_eq_false, if_false, false_and, true_and]
  rw [bind_run_ok (show (pure PUnit.unit : P PUnit) s1 = Res.ok PUnit.unit s1 from rfl)]
  rw [bind_run_ok ha]
  rw [if_neg (by simp [hty])]
  refine (address_tail name op (a + 1) ty _ s2 hty).trans ?_
  rw [bind_run_ok hc]
  rfl

/-- With the rounds as runs, the loop of `getcallargs` ends with the check and the
call for as many arguments as there are positions. -/
theorem callargs_loop_returns (name : Int) (op : Opcode) (index : Int) :
    ∀ (n : Nat) (a : Int) (s : PState) (l : List ArgSlot) (c : Nat) (t : PState),
      CallArgs name op n a s l c t →
      getcallargs_loop n name op index a s = call_end op index (a + l.length) t ∧
      l.length = c + 1 := by
  intro n a s l c t h
  induction h with
  | close n a s s1 hg =>
    exact ⟨by rw [callargs_loop_close name op index n a s s1 hg]; simp, rfl⟩
  | empty n a s s1 l c t hg _ ih =>
    refine ⟨?_, by simp [ih.2]⟩
    rw [callargs_loop_empty name op index n a s s1 hg, ih.1]
    simp only [List.length_cons]
    push_cast
    ring_nf
  | value n a s s1 s2 s3 tok ty l c t hg h1 h2 h3 ha hc _ ih =>
    refine ⟨?_, by simp [ih.2]⟩
    rw [callargs_loop_value name op index n a s s1 s2 s3 tok ty hg h1 h2 h3 ha hc, ih.1]
    simp only [List.length_cons]
    push_cast
    ring_nf
  | value_last n a s s1 s2 tok ty t hg h1 h2 h3 ha hc =>
    exact ⟨by
      rw [callargs_loop_value_last name op index n a s s1 s2 t tok ty hg h1 h2 h3 ha hc]
      simp, rfl⟩
  | address n a s s1 s2 s3 ty l c t hg ha hty hc _ ih =>
    refine ⟨?_, by simp [ih.2]⟩
    rw [callargs_loop_address name op index n a s s1 s2 s3 ty hg ha hty hc, ih.1]
    simp only [List.length_cons]
    push_cast
    ring_nf
  | address_last n a s s1 s2 ty t hg ha hty hc =>
    exact ⟨by
      rw [callargs_loop_address_last name op index n a s s1 s2 t ty hg ha hty hc]
      simp, rfl⟩

theorem marked_nil : marked [] = [] := rfl

theorem marked_length (c : List Slot) : (marked c).length = c.length := by
  simp [marked]

theorem marked_idem (c : List Slot) : marked (marked c) = marked c := by
  simp [marked]

theorem marked_append (x y : List Slot) (hy : y ≠ []) : marked (x ++ y) = x ++ marked y := by
  have hl : 0 < y.length := List.length_pos.mpr hy
  unfold marked
  rw [List.set_append]
  rw [if_neg (by simp only [List.length_append]; omega)]
  congr 2
  simp only [List.length_append]
  omega

theorem reach_length {c pre : List Slot} {o : Opcode} (h : Reach c o pre) :
    pre.length = c.length := by
  rcases h with rfl | ⟨-, rfl⟩
  · rfl
  · exact marked_length c

theorem reach_flagSet (s : PState) (pre : List Slot) (h : Reach s.f_opcodes s.oldop pre)
    (hf : FlagSet s) : pre = s.f_opcodes := by
  rcases h with h | ⟨ho, rfl⟩
  · exact h
  · by_cases hl : 0 < s.f_opcodes.length
    · have := hf ho hl
      unfold marked
      apply List.ext_getElem?
      intro j
      rw [List.getElem?_set]
      split
      · rename_i hj
        subst hj
        rw [if_pos (by omega), this]
      · rfl
    · have : s.f_opcodes = [] := List.length_eq_zero.mp (by omega)
      rw [this]
      rfl

/-- What a run that keeps the frame does to the code: it appends, behind the cells
that were there, the flag of a closing index address being as it was or
TRUE. -/
theorem frame_reach {u w : PState} (h : Frame false [] u w) :
    ∃ pre, Reach u.f_opcodes u.oldop pre ∧
      w.f_opcodes = pre ++ w.f_opcodes.drop u.f_opcodes.length := by
  have hno : ∀ j i, Touchable false [] u i → j ∉ sitesOf u i := by
    intro j i hi
    simp [Touchable] at hi
  have hlen := h.ext.length
  refine ⟨w.f_opcodes.take u.f_opcodes.length, ?_, (List.take_append_drop _ _).symm⟩
  by_cases ho : u.oldop = OP_INDEXADDR ∧ 0 < u.f_opcodes.length
  · obtain ⟨ho, hl⟩ := ho
    have hpl : plen u = u.f_opcodes.length - 1 := by simp [plen, ho]
    rcases h.flag ho (by omega) (hno _) with e | e
    · left
      apply List.ext_getElem?
      intro j
      by_cases hj : j < u.f_opcodes.length
      · rw [List.getElem?_take_of_lt hj]
        by_cases hp : j < plen u
        · exact h.code j hp (hno j)
        · have hje : j = plen u := by omega
          rw [hje]
          exact e
      · rw [List.getElem?_eq_none (by simp; omega), List.getElem?_eq_none (by omega)]
    · right
      refine ⟨ho, ?_⟩
      apply List.ext_getElem?
      intro j
      unfold marked
      rw [List.getElem?_set]
      by_cases hj : j < u.f_opcodes.length
      · rw [List.getElem?_take_of_lt hj]
        by_cases hp : j < plen u
        · rw [if_neg (by omega)]
          exact h.code j hp (hno j)
        · have hje : j = plen u := by omega
          rw [if_pos (by omega), if_pos (by omega), hje]
          exact e
      · rw [List.getElem?_eq_none (by simp; omega)]
        split
        · omega
        · rw [List.getElem?_eq_none (by omega)]
  · left
    have hpl : plen u = u.f_opcodes.length := by
      by_cases ho2 : u.oldop = OP_INDEXADDR
      · have : u.f_opcodes.length = 0 := by
          by_contra hne
          exact ho ⟨ho2, by omega⟩
        simp [plen, ho2, this]
      · simp [plen, ho2]
    apply List.ext_getElem?
    intro j
    by_cases hj : j < u.f_opcodes.length
    · rw [List.getElem?_take_of_lt hj]
      exact h.code j (by omega) (hno j)
    · rw [List.getElem?_eq_none (by simp; omega), List.getElem?_eq_none (by omega)]

/-- Marking the index address that a run leaves as the last instruction is
marking it in the code that the run appended. -/
theorem frame_reach_marked {u w : PState} (h : Frame false [] u w)
    (ho : w.oldop = OP_INDEXADDR) :
    ∃ pre, Reach u.f_opcodes u.oldop pre ∧
      marked w.f_opcodes = pre ++ marked (w.f_opcodes.drop u.f_opcodes.length) := by
  obtain ⟨pre, hr, hw⟩ := frame_reach h
  by_cases hc : w.f_opcodes.drop u.f_opcodes.length = []
  · rw [hc] at hw ⊢
    simp only [List.append_nil] at hw
    simp only [marked_nil, List.append_nil]
    rw [hw]
    have hlen : w.f_opcodes.length = u.f_opcodes.length := by
      rw [hw]
      exact reach_length hr
    have hp := h.ext.plen
    by_cases hu : u.oldop = OP_INDEXADDR
    · refine ⟨marked pre, ?_, rfl⟩
      rcases hr with rfl | ⟨-, rfl⟩
      · exact Or.inr ⟨hu, rfl⟩
      · exact Or.inr ⟨hu, marked_idem _⟩
    · have hz : u.f_opcodes.length = 0 := by
        simp only [plen, hu, ho, if_true, if_false, hlen] at hp
        omega
      have hpre : pre = [] := List.length_eq_zero.mp (by rw [reach_length hr, hz])
      refine ⟨[], ?_, by rw [hpre]; rfl⟩
      left
      exact (List.length_eq_zero.mp hz).symm
  · refine ⟨pre, hr, ?_⟩
    conv_lhs => rw [hw]
    exact marked_append _ _ hc

theorem arg_end_value_code (name : Int) (op : Opcode) (a : Int) (ty : Nat) (s : PState) :
    (op ≠ OP_CALL →
      (stateOf (arg_end name op a false ty) s).f_opcodes =
          s.f_opcodes ++ [Slot.op OP_GETVALUE] ∧
        (stateOf (arg_end name op a false ty) s).oldop = OP_GETVALUE) ∧
    (op = OP_CALL →
      (stateOf (arg_end name op a false ty) s).oldop = s.oldop ∧
        (stateOf (arg_end name op a false ty) s).f_opcodes =
          if name = NAME_quomod ∧ a > 2 ∧ s.oldop = OP_INDEXADDR then marked s.f_opcodes
          else s.f_opcodes) := by
  constructor
  · intro h1
    by_cases h2 : name = NAME_quomod ∧ a > 2 <;>
      simp [arg_end, stateOf, bind_run, pure_run, h1, h2, addop, writeindexop, modS]
  · intro h1
    by_cases h2 : name = NAME_quomod ∧ a > 2 <;> by_cases h3 : s.oldop = OP_INDEXADDR <;>
      simp [arg_end, stateOf, bind_run, pure_run, h1, h2, h3, addop, writeindexop, modS,
        marked]

theorem arg_end_address_code (name : Int) (op : Opcode) (a : Int) (ty : Nat) (s : PState)
    (hty : isrvalue ty = false) :
    (stateOf (arg_end name op a true ty) s).oldop = s.oldop ∧
      (stateOf (arg_end name op a true ty) s).f_opcodes =
        if s.oldop = OP_INDEXADDR then marked s.f_opcodes else s.f_opcodes := by
  by_cases h2 : name = NAME_quomod ∧ a > 2 <;> by_cases h3 : s.oldop = OP_INDEXADDR <;>
    simp [arg_end, stateOf, bind_run, pure_run, hty, h2, h3, writeindexop, modS, marked]

theorem slotRun_value (name : Int) (op : Opcode) (a : Int) (ty : Nat) (u s2 : PState)
    (hf : Frame false [] u s2) :
    SlotRun u.f_opcodes u.oldop (stateOf (arg_end name op a false ty) s2)
      ((ArgSlot.value (s2.f_opcodes.drop u.f_opcodes.length)
        (decide (s2.oldop = OP_INDEXADDR))).code name op a)
      ((ArgSlot.value (s2.f_opcodes.drop u.f_opcodes.length)
        (decide (s2.oldop = OP_INDEXADDR))).isopen op) := by
  obtain ⟨hu, hb⟩ := arg_end_value_code name op a ty s2
  obtain ⟨pre, hr, hw⟩ := frame_reach hf
  by_cases hop : op = OP_CALL
  · obtain ⟨ho, hc⟩ := hb hop
    by_cases hq : name = NAME_quomod ∧ a > 2 ∧ s2.oldop = OP_INDEXADDR
    · obtain ⟨pre2, hr2, hw2⟩ := frame_reach_marked hf hq.2.2
      have hcode : (ArgSlot.value (s2.f_opcodes.drop u.f_opcodes.length)
          (decide (s2.oldop = OP_INDEXADDR))).code name op a =
          marked (s2.f_opcodes.drop u.f_opcodes.length) := by
        simp [ArgSlot.code, hop, hq.1, hq.2.1, hq.2.2]
      rw [hcode]
      rw [if_pos hq] at hc
      refine ⟨⟨pre2, hr2, by rw [hc, hw2]⟩, fun _ => ⟨pre2, _, hr2, ?_, Or.inl rfl⟩⟩
      rw [hc, marked_idem, hw2]
    · have hcode : (ArgSlot.value (s2.f_opcodes.drop u.f_opcodes.length)
          (decide (s2.oldop = OP_INDEXADDR))).code name op a =
          s2.f_opcodes.drop u.f_opcodes.length := by
        simp only [ArgSlot.code, hop, ne_eq, not_true_eq_false, if_false, decide_eq_true_eq]
        rw [if_neg hq]
      rw [hcode]
      rw [if_neg hq] at hc
      refine ⟨⟨pre, hr, by rw [hc]; exact hw⟩, fun ho2 => ?_⟩
      rw [ho] at ho2
      obtain ⟨pre2, hr2, hw2⟩ := frame_reach_marked hf ho2
      refine ⟨pre2, _, hr2, by rw [hc, hw2], Or.inr ⟨?_, rfl⟩⟩
      simp [ArgSlot.isopen, hop, ho2]
  · obtain ⟨hc, ho⟩ := hu hop
    have hcode : (ArgSlot.value (s2.f_opcodes.drop u.f_opcodes.length)
        (decide (s2.oldop = OP_INDEXADDR))).code name op a =
        s2.f_opcodes.drop u.f_opcodes.length ++ [Slot.op OP_GETVALUE] := by
      simp [ArgSlot.code, hop]
    rw [hcode]
    refine ⟨⟨pre, hr, ?_⟩, fun ho2 => ?_⟩
    · rw [hc]
      conv_lhs => rw [hw]
      simp
    · rw [ho] at ho2
      cases ho2

theorem slotRun_address (name : Int) (op : Opcode) (a : Int) (ty : Nat) (u s2 : PState)
    (hf : Frame false [] u s2) (hty : isrvalue ty = false) :
    SlotRun u.f_opcodes u.oldop (stateOf (arg_end name op a true ty) s2)
      ((ArgSlot.address (s2.f_opcodes.drop u.f_opcodes.length)
        (decide (s2.oldop = OP_INDEXADDR))).code name op a)
      ((ArgSlot.address (s2.f_opcodes.drop u.f_opcodes.length)
        (decide (s2.oldop = OP_INDEXADDR))).isopen op) := by
  obtain ⟨ho, hc⟩ := arg_end_address_code name op a ty s2 hty
  obtain ⟨pre, hr, hw⟩ := frame_reach hf
  by_cases hq : s2.oldop = OP_INDEXADDR
  · obtain ⟨pre2, hr2, hw2⟩ := frame_reach_marked hf hq
    have hcode : (ArgSlot.address (s2.f_opcodes.drop u.f_opcodes.length)
        (decide (s2.oldop = OP_INDEXADDR))).code name op a =
        marked (s2.f_opcodes.drop u.f_opcodes.length) := by
      simp [ArgSlot.code, hq]
    rw [hcode]
    rw [if_pos hq] at hc
    refine ⟨⟨pre2, hr2, by rw [hc, hw2]⟩, fun _ => ⟨pre2, _, hr2, ?_, Or.inl rfl⟩⟩
    rw [hc, marked_idem, hw2]
  · have hcode : (ArgSlot.address (s2.f_opcodes.drop u.f_opcodes.length)
        (decide (s2.oldop = OP_INDEXADDR))).code name op a =
        s2.f_opcodes.drop u.f_opcodes.length := by
      simp [ArgSlot.code, hq]
    rw [hcode]
    rw [if_neg hq] at hc
    refine ⟨⟨pre, hr, by rw [hc]; exact hw⟩, fun ho2 => ?_⟩
    rw [ho] at ho2
    exact absurd ho2 hq

/-- A round and the rounds behind it: the cells in front of the rounds behind it
are the cells in front of the round and the code of its position. -/
theorem slotRun_step {c : List Slot} {o : Opcode} {w : PState} {code : List Slot}
    {isopen : Bool} (h : SlotRun c o w code isopen) (pre3 : List Slot)
    (hr : Reach w.f_opcodes w.oldop pre3) :
    ∃ pre code2, Reach c o pre ∧ pre3 = pre ++ code2 ∧
      (code2 = code ∨ (isopen = true ∧ code2 = marked code)) := by
  rcases hr with rfl | ⟨ho, rfl⟩
  · obtain ⟨pre, hp, hw⟩ := h.1
    exact ⟨pre, code, hp, hw, Or.inl rfl⟩
  · obtain ⟨pre, code2, hp, hw, hc⟩ := h.2 ho
    exact ⟨pre, code2, hp, hw, hc⟩

theorem frame_of_run {α : Type} {p : P α} (hp : Spec false [] p) {u w : PState} {a : α}
    (h : p u = Res.ok a w) : Frame false [] u w := by
  have := hp u
  rw [h] at this
  exact this

/-- With the rounds as runs, the code behind the loop of `getcallargs` is the
cells that were there and the codes of the argument positions in their
order. -/
theorem callargs_code (name : Int) (op : Opcode) :
    ∀ (n : Nat) (a : Int) (s : PState) (l : List ArgSlot) (c : Nat) (t : PState),
      CallArgs name op n a s l c t →
      ∃ pre codes, Reach s.f_opcodes s.oldop pre ∧ t.f_opcodes = pre ++ codes.flatten ∧
        slotCodes name op (a + 1) l codes := by
  intro n a s l c t h
  induction h with
  | close n a s s1 hg =>
    obtain ⟨-, hc, -⟩ := gettoken_keeps s s1 _ hg
    refine ⟨s.f_opcodes, [[Slot.op OP_UNDEF]], Or.inl rfl, ?_, ?_⟩
    · rw [← hc]
      rfl
    · simp [slotCodes, ArgSlot.code]
  | empty n a s s1 l c t hg _ ih =>
    obtain ⟨-, hc, -⟩ := gettoken_keeps s s1 _ hg
    obtain ⟨pre3, codes, hr, ht, hs⟩ := ih
    have e : pre3 = s.f_opcodes ++ [Slot.op OP_UNDEF] := by
      rcases hr with h | ⟨ho, -⟩
      · rw [h, ← hc]
        rfl
      · cases ho
    refine ⟨s.f_opcodes, [Slot.op OP_UNDEF] :: codes, Or.inl rfl, ?_, ?_⟩
    · rw [ht, e]
      simp
    · exact ⟨Or.inl rfl, hs⟩
  | value n a s s1 s2 s3 tok ty l c t hg _ _ _ ha hc _ ih =>
    obtain ⟨-, hc1, ho1⟩ := gettoken_keeps s s1 _ hg
    obtain ⟨-, hc3, ho3⟩ := gettoken_keeps _ s3 _ hc
    obtain ⟨pre3, codes, hr, ht, hs⟩ := ih
    have hrun := slotRun_value name op (a + 1) ty _ s2
      (frame_of_run (exprFrames n).getassignment ha)
    rw [hc3, ho3] at hr
    obtain ⟨pre, code2, hp, hw, hcode⟩ := slotRun_step hrun pre3 hr
    refine ⟨pre, code2 :: codes, ?_, ?_, ?_⟩
    · rw [← hc1, ← ho1]
      exact hp
    · rw [ht, hw]
      simp
    · exact ⟨hcode, hs⟩
  | value_last n a s s1 s2 tok ty t hg _ _ _ ha hc =>
    obtain ⟨-, hc1, ho1⟩ := gettoken_keeps s s1 _ hg
    obtain ⟨-, hc3, ho3⟩ := gettoken_keeps _ t _ hc
    have hrun := slotRun_value name op (a + 1) ty _ s2
      (frame_of_run (exprFrames n).getassignment ha)
    obtain ⟨pre, hp, hw⟩ := hrun.1
    refine ⟨pre, [_], ?_, ?_, ⟨Or.inl rfl, trivial⟩⟩
    · rw [← hc1, ← ho1]
      exact hp
    · rw [hc3, hw]
      simp
      rfl
  | address n a s s1 s2 s3 ty l c t hg ha hty hc _ ih =>
    obtain ⟨-, hc1, ho1⟩ := gettoken_keeps s s1 _ hg
    obtain ⟨-, hc3, ho3⟩ := gettoken_keeps _ s3 _ hc
    obtain ⟨pre3, codes, hr, ht, hs⟩ := ih
    have hrun := slotRun_address name op (a + 1) ty _ s2
      (frame_of_run (exprFrames n).getassignment ha) hty
    rw [hc3, ho3] at hr
    obtain ⟨pre, code2, hp, hw, hcode⟩ := slotRun_step hrun pre3 hr
    refine ⟨pre, code2 :: codes, ?_, ?_, ?_⟩
    · rw [← hc1, ← ho1]
      exact hp
    · rw [ht, hw]
      simp
    · exact ⟨hcode, hs⟩
  | address_last n a s s1 s2 ty t hg ha hty hc =>
    obtain ⟨-, hc1, ho1⟩ := gettoken_keeps s s1 _ hg
    obtain ⟨-, hc3, ho3⟩ := gettoken_keeps _ t _ hc
    have hrun := slotRun_address name op (a + 1) ty _ s2
      (frame_of_run (exprFrames n).getassignment ha) hty
    obtain ⟨pre, hp, hw⟩ := hrun.1
    refine ⟨pre, [_], ?_, ?_, ⟨Or.inl rfl, trivial⟩⟩
    · rw [← hc1, ← ho1]
      exact hp
    · rw [hc3, hw]
      simp

theorem getcallargs_begin (n : Nat) (name : Int) (s : PState) :
    getcallargs (n + 1) name s =
      (do
        if (← gettoken) = T_RIGHTPAREN then
          call_end (call_target s name).1 (call_target s name).2 0
        else
          rescantoken
          getcallargs_loop n name (call_target s name).1 (call_target s name).2 0)
        (s.calling name) := by
  rw [getcallargs]
  by_cases hb : findstr (s.builtins.map BuiltinFunc.b_name) name < 0 <;>
    by_cases hu : name ∈ s.userfuncs <;>
    simp [bind_run, getbuiltinfunc, adduserfunc, hb, hu, pure_run, call_target, PState.calling,
      call_end] <;> rfl

theorem calling_code (s : PState) (name : Int) :
    (s.calling name).f_opcodes = s.f_opcodes ∧ (s.calling name).oldop = s.oldop := by
  unfold PState.calling
  split <;> exact ⟨rfl, rfl⟩

theorem call_end_fits (op : Opcode) (index k : Int) (t : PState)
    (ha : op = OP_CALL → arity_fits t index k) :
    call_end op index k t = Res.ok () (stateOf (addopfunction op index k) t) := by
  by_cases hop : op = OP_CALL
  · obtain ⟨h1, h2⟩ := ha hop
    rw [List.getD_eq_getElem?_getD] at h1 h2
    have h1 : ¬ k < (t.builtins[index.toNat]?.getD
        { b_name := 0, b_minargs := 0, b_maxargs := 0 }).b_minargs := by omega
    have h2 : ¬ (t.builtins[index.toNat]?.getD
        { b_name := 0, b_minargs := 0, b_maxargs := 0 }).b_maxargs < k := by omega
    simp [call_end, hop, builtincheck, bind_run, getS, addopfunction, addop, addarg, modS,
      pure_run, h1, h2, stateOf]
  · simp [call_end, hop, bind_run, addopfunction, addop, addarg, modS, pure_run, stateOf]

theorem addopfunction_code (op : Opcode) (index k : Int) (t : PState) :
    (stateOf (addopfunction op index k) t).f_opcodes =
      t.f_opcodes ++ [Slot.op op, Slot.arg index, Slot.arg k] := by
  simp [addopfunction, addop, addarg, modS, bind_run, stateOf]

theorem slotCodes_closed (name : Int) (op : Opcode) :
    ∀ (l : List ArgSlot) (a : Int) (codes : List (List Slot)),
      slotCodes name op a l codes → (∀ slot ∈ l, slot.isopen op = false) →
      codes.flatten = argsCode name op a l := by
  intro l
  induction l with
  | nil =>
    intro a codes h _
    cases codes with
    | nil => rfl
    | cons c cs => exact absurd h (by simp [slotCodes])
  | cons slot l ih =>
    intro a codes h hcl
    cases codes with
    | nil => exact absurd h (by simp [slotCodes])
    | cons c cs =>
      obtain ⟨h1, h2⟩ := h
      have hs := hcl slot (List.mem_cons_self _ _)
      have e : c = slot.code name op a := by
        rcases h1 with h1 | ⟨h1, -⟩
        · exact h1
        · rw [hs] at h1
          cases h1
      rw [List.flatten_cons, e, ih (a + 1) cs h2 fun x hx => hcl x (List.mem_cons_of_mem _ hx)]
      rfl

/-- C24: `getcallargs` behind `name(`, the arguments being whatever
`getassignment` parses.  When the next token is the closing parenthesis the call
is emitted with the count 0 and nothing in front of it.  Otherwise the rounds
of the loop run as `CallArgs` says, and the call is emitted with the count
`commas + 1`, one more than the number of the commas that the loop read between
the argument positions, which are as many as the count; the code in front of
the call is the codes of the positions in their order: `OP_UNDEF` for a
position left empty, the code of the expression with nothing behind it for an
argument behind `&` and for an argument of a built-in function (`OP_CALL`),
and the code of the expression followed by `OP_GETVALUE` for any other argument
of a user function.  The number of arguments of a built-in function is supposed
to keep the bounds of the function. -/
theorem getcallargs_slots (n : Nat) (name : Int) (s : PState) :
    (∀ t : PState, gettoken (s.calling name) = Res.ok T_RIGHTPAREN t →
      ((call_target s name).1 = OP_CALL → arity_fits t (call_target s name).2 0) →
      getcallargs (n + 1) name s =
        Res.ok ()
          (stateOf (addopfunction (call_target s name).1 (call_target s name).2 0) t) ∧
      (stateOf (addopfunction (call_target s name).1 (call_target s name).2 0) t).f_opcodes =
        s.f_opcodes ++
          [Slot.op (call_target s name).1, Slot.arg (call_target s name).2, Slot.arg 0]) ∧
    (∀ (tok : TokenType) (s1 t : PState) (l : List ArgSlot) (commas : Nat),
      gettoken (s.calling name) = Res.ok tok s1 → tok ≠ T_RIGHTPAREN →
      CallArgs name (call_target s name).1 n 0 (stateOf rescantoken s1) l commas t →
      ((call_target s name).1 = OP_CALL →
        arity_fits t (call_target s name).2 ((commas : Int) + 1)) →
      getcallargs (n + 1) name s =
        Res.ok ()
          (stateOf
            (addopfunction (call_target s name).1 (call_target s name).2 ((commas : Int) + 1))
            t) ∧
      l.length = commas + 1 ∧
      ∃ pre codes,
        (stateOf
            (addopfunction (call_target s name).1 (call_target s name).2 ((commas : Int) + 1))
            t).f_opcodes =
          pre ++ codes.flatten ++
            [Slot.op (call_target s name).1, Slot.arg (call_target s name).2,
              Slot.arg ((commas : Int) + 1)] ∧
        pre.length = s.f_opcodes.length ∧ (FlagSet s → pre = s.f_opcodes) ∧
        slotCodes name (call_target s name).1 1 l codes ∧
        ((∀ slot ∈ l, slot.isopen (call_target s name).1 = false) →
          codes.flatten = argsCode name (call_target s name).1 1 l)) := by
  obtain ⟨hcf, hco⟩ := calling_code s name
  constructor
  · intro t hg ha
    obtain ⟨-, hc, -⟩ := gettoken_keeps _ t _ hg
    constructor
    · rw [getcallargs_begin, bind_run_ok hg, if_pos rfl]
      exact call_end_fits _ _ _ _ ha
    · rw [addopfunction_code, hc, hcf]
  · intro tok s1 t l commas hg htok hargs ha
    obtain ⟨-, hc, ho⟩ := gettoken_keeps _ s1 _ hg
    obtain ⟨hloop, hlen⟩ := callargs_loop_returns name (call_target s name).1
      (call_target s name).2 n 0 _ l commas t hargs
    obtain ⟨pre, codes, hr, ht, hs⟩ := callargs_code name (call_target s name).1 n 0 _ l
      commas t hargs
    have hcount : (0 : Int) + (l.length : Int) = (commas : Int) + 1 := by
      rw [hlen]
      push_cast
      ring
    rw [hcount] at hloop
    have hr2 : Reach s.f_opcodes s.oldop pre := by
      have e1 : (stateOf rescantoken s1).f_opcodes = s.f_opcodes := hc.trans hcf
      have e2 : (stateOf rescantoken s1).oldop = s.oldop := ho.trans hco
      rw [e1, e2] at hr
      exact hr
    refine ⟨?_, hlen, pre, codes, ?_, reach_length hr2, reach_flagSet s pre hr2, ?_, ?_⟩
    · rw [getcallargs_begin, bind_run_ok hg, if_neg htok,
        bind_run_ok (run_stateOf_rescantoken s1), hloop]
      exact call_end_fits _ _ _ _ ha
    · rw [addopfunction_code, ht]
    · simpa using hs
    · intro hcl
      exact slotCodes_closed name _ l 1 codes (by simpa using hs) hcl

/-- C24 on the calls `f(a + 1, , &a, )`, `f()` and `b(a)`, where `f`, the name 5, is
not built in, `b`, the name 3, is, and `a` is a global variable: four
arguments for three commas, the sum followed by `OP_GETVALUE`, the second and
the fourth position `OP_UNDEF`, the third the address with nothing behind it;
no argument; and one argument with nothing behind it. -/
theorem getcallargs_slots_witness :
    (call_target args_line 5 = (OP_USERCALL, 0) ∧ call_target noarg_line 5 = (OP_USERCALL, 0) ∧
      call_target arg_line 3 = (OP_CALL, 0)) ∧
    [ArgSlot.value ((args_state 1).f_opcodes.drop (args_state 0).f_opcodes.length)
        (decide ((args_state 1).oldop = OP_INDEXADDR)),
      ArgSlot.empty,
      ArgSlot.address ((args_state 5).f_opcodes.drop (args_state 4).f_opcodes.length)
        (decide ((args_state 5).oldop = OP_INDEXADDR)),
      ArgSlot.empty] =
    [ArgSlot.value [Slot.op OP_GLOBALADDR, Slot.arg 0, Slot.op OP_NUMBER, Slot.arg 0,
        Slot.op OP_ADD] false,
      ArgSlot.empty,
      ArgSlot.address [Slot.op OP_GLOBALADDR, Slot.arg 0] false,
      ArgSlot.empty] ∧
    argsCode 5 OP_USERCALL 1
      [ArgSlot.value [Slot.op OP_GLOBALADDR, Slot.arg 0, Slot.op OP_NUMBER, Slot.arg 0,
          Slot.op OP_ADD] false,
        ArgSlot.empty,
        ArgSlot.address [Slot.op OP_GLOBALADDR, Slot.arg 0] false,
        ArgSlot.empty] =
      [Slot.op OP_GLOBALADDR, Slot.arg 0, Slot.op OP_NUMBER, Slot.arg 0, Slot.op OP_ADD,
        Slot.op OP_GETVALUE, Slot.op OP_UNDEF, Slot.op OP_GLOBALADDR, Slot.arg 0,
        Slot.op OP_UNDEF] ∧
    (stateOf (addopfunction OP_USERCALL 0 4) (stateOf (addop OP_UNDEF) (args_state 7))).f_opcodes =
      [Slot.op OP_GLOBALADDR, Slot.arg 0, Slot.op OP_NUMBER, Slot.arg 0, Slot.op OP_ADD,
        Slot.op OP_GETVALUE, Slot.op OP_UNDEF, Slot.op OP_GLOBALADDR, Slot.arg 0,
        Slot.op OP_UNDEF, Slot.op OP_USERCALL, Slot.arg 0, Slot.arg 4] ∧
    (stateOf (addopfunction OP_CALL 0 1) (arg_state 2)).f_opcodes =
      [Slot.op OP_GLOBALADDR, Slot.arg 0, Slot.op OP_CALL, Slot.arg 0, Slot.arg 1] ∧
    (getcallargs (30 + 1) 5 noarg_line =
        Res.ok ()
          (stateOf (addopfunction (call_target noarg_line 5).1 (call_target noarg_line 5).2 0)
            (stateOf gettoken (noarg_line.calling 5))) ∧
      (stateOf (addopfunction (call_target noarg_line 5).1 (call_target noarg_line 5).2 0)
          (stateOf gettoken (noarg_line.calling 5))).f_opcodes =
        noarg_line.f_opcodes ++
          [Slot.op (call_target noarg_line 5).1, Slot.arg (call_target noarg_line 5).2,
            Slot.arg 0]) ∧
    (getcallargs (30 + 1) 5 args_line =
        Res.ok ()
          (stateOf
            (addopfunction (call_target args_line 5).1 (call_target args_line 5).2
              (((3 : Nat) : Int) + 1))
            (stateOf (addop OP_UNDEF) (args_state 7))) ∧
      [ArgSlot.value ((args_state 1).f_opcodes.drop (args_state 0).f_opcodes.length)
          (decide ((args_state 1).oldop = OP_INDEXADDR)),
        ArgSlot.empty,
        ArgSlot.address ((args_state 5).f_opcodes.drop (args_state 4).f_opcodes.length)
          (decide ((args_state 5).oldop = OP_INDEXADDR)),
        ArgSlot.empty].length = 3 + 1 ∧
      ∃ pre codes,
        (stateOf
            (addopfunction (call_target args_line 5).1 (call_target args_line 5).2
              (((3 : Nat) : Int) + 1))
            (stateOf (addop OP_UNDEF) (args_state 7))).f_opcodes =
          pre ++ codes.flatten ++
            [Slot.op (call_target args_line 5).1, Slot.arg (call_target args_line 5).2,
              Slot.arg (((3 : Nat) : Int) + 1)] ∧
        pre.length = args_line.f_opcodes.length ∧ (FlagSet args_line → pre = args_line.f_opcodes) ∧
        slotCodes 5 (call_target args_line 5).1 1
          [ArgSlot.value ((args_state 1).f_opcodes.drop (args_state 0).f_opcodes.length)
              (decide ((args_state 1).oldop = OP_INDEXADDR)),
            ArgSlot.empty,
            ArgSlot.address ((args_state 5).f_opcodes.drop (args_state 4).f_opcodes.length)
              (decide ((args_state 5).oldop = OP_INDEXADDR)),
            ArgSlot.empty] codes ∧
        ((∀ slot ∈
            [ArgSlot.value ((args_state 1).f_opcodes.drop (args_state 0).f_opcodes.length)
                (decide ((args_state 1).oldop = OP_INDEXADDR)),
              ArgSlot.empty,
              ArgSlot.address ((args_state 5).f_opcodes.drop (args_state 4).f_opcodes.length)
                (decide ((args_state 5).oldop = OP_INDEXADDR)),
              ArgSlot.empty], slot.isopen (call_target args_line 5).1 = false) →
          codes.flatten = argsCode 5 (call_target args_line 5).1 1
            [ArgSlot.value ((args_state 1).f_opcodes.drop (args_state 0).f_opcodes.length)
                (decide ((args_state 1).oldop = OP_INDEXADDR)),
              ArgSlot.empty,
              ArgSlot.address ((args_state 5).f_opcodes.drop (args_state 4).f_opcodes.length)
                (decide ((args_state 5).oldop = OP_INDEXADDR)),
              ArgSlot.empty])) ∧
    (getcallargs (30 + 1) 3 arg_line =
        Res.ok ()
          (stateOf
            (addopfunction (call_target arg_line 3).1 (call_target arg_line 3).2
              (((0 : Nat) : Int) + 1))
            (arg_state 2)) ∧
      [ArgSlot.value ((arg_state 1).f_opcodes.drop (arg_state 0).f_opcodes.length)
          (decide ((arg_state 1).oldop = OP_INDEXADDR))].length = 0 + 1 ∧
      ∃ pre codes,
        (stateOf
            (addopfunction (call_target arg_line 3).1 (call_target arg_line 3).2
              (((0 : Nat) : Int) + 1))
            (arg_state 2)).f_opcodes =
          pre ++ codes.flatten ++
            [Slot.op (call_target arg_line 3).1, Slot.arg (call_target arg_line 3).2,
              Slot.arg (((0 : Nat) : Int) + 1)] ∧
        pre.length = arg_line.f_opcodes.length ∧ (FlagSet arg_line → pre = arg_line.f_opcodes) ∧
        slotCodes 3 (call_target arg_line 3).1 1
          [ArgSlot.value ((arg_state 1).f_opcodes.drop (arg_state 0).f_opcodes.length)
              (decide ((arg_state 1).oldop = OP_INDEXADDR))] codes ∧
        ((∀ slot ∈
            [ArgSlot.value ((arg_state 1).f_opcodes.drop (arg_state 0).f_opcodes.length)
                (decide ((arg_state 1).oldop = OP_INDEXADDR))],
            slot.isopen (call_target arg_line 3).1 = false) →
          codes.flatten = argsCode 3 (call_target arg_line 3).1 1
            [ArgSlot.value ((arg_state 1).f_opcodes.drop (arg_state 0).f_opcodes.length)
                (decide ((arg_state 1).oldop = OP_INDEXADDR))])) :=
  ⟨⟨by decide!, by decide!, by decide!⟩, by decide!, by decide!, by decide!, by decide!,
   (getcallargs_slots 30 5 noarg_line).1 (stateOf gettoken (noarg_line.calling 5))
      (by decide!) (fun h => absurd h (by decide!)),
   (getcallargs_slots 30 5 args_line).2 T_SYMBOL (args_state 0)
      (stateOf (addop OP_UNDEF) (args_state 7)) _ 3 (by decide!) (by decide)
      (CallArgs.value 29 0 (stateOf rescantoken (args_state 0)) (args_state 0) (args_state 1)
        (args_state 2) T_SYMBOL 1 _ 2 _ (by decide!) (by decide) (by decide) (by decide)
        (by decide!) (by decide!)
        (CallArgs.empty 28 1 (args_state 2) (args_state 3) _ 1 _ (by decide!)
          (CallArgs.address 27 2 (stateOf (addop OP_UNDEF) (args_state 3)) (args_state 4)
            (args_state 5) (args_state 6) 0 _ 0 _ (by decide!) (by decide!) (by decide)
            (by decide!)
            (CallArgs.close 26 3 (args_state 6) (args_state 7) (by decide!)))))
      (fun h => absurd h (by decide!)),
   (getcallargs_slots 30 3 arg_line).2 T_SYMBOL (arg_state 0) (arg_state 2) _ 0
      (by decide!) (by decide)
      (CallArgs.value_last 29 0 (stateOf rescantoken (arg_state 0)) (arg_state 0) (arg_state 1)
        T_SYMBOL 0 (arg_state 2) (by decide!) (by decide) (by decide) (by decide)
        (by decide!) (by decide!))
      (fun _ => ⟨by decide!, by decide!⟩)⟩

/-! ## codegen.c: the bound of a matrix with an initializer list -/

theorem run_stateOf_clearopt (s : PState) : clearopt s = Res.ok () (stateOf clearopt s) := rfl

theorem run_getS (s : PState) : getS s = Res.ok s s := rfl

theorem matrix_head_code (s : PState) :
    (stateOf matrix_head s).f_opcodes =
        s.f_opcodes ++ [Slot.op OP_NUMBER, Slot.arg (-1), Slot.op OP_ZERO, Slot.op OP_MATCREATE,
          Slot.arg 1, Slot.op OP_ZERO, Slot.op OP_INITFILL] ∧
      (stateOf matrix_head s).oldop = OP_INITFILL := by
  simp [matrix_head, stateOf, bind_run, clearopt, addopone, addop, addarg, modS]

theorem addqconstant_index (q : QConst) (s : PState) :
    ∃ index t, addqconstant q s = Res.ok index t ∧ t.constants[index.toNat]? = some q ∧
      0 ≤ index ∧ t.f_opcodes = s.f_opcodes := by
  unfold addqconstant
  by_cases h : s.constants.contains q = true
  · rw [if_pos h]
    have hm : q ∈ s.constants := by simpa using h
    have hlt := List.indexOf_lt_length.mpr hm
    refine ⟨_, _, rfl, ?_, by omega, rfl⟩
    simp only [Int.toNat_ofNat]
    rw [List.getElem?_eq_getElem hlt]
    simp
  · rw [if_neg h]
    refine ⟨_, _, rfl, ?_, by omega, rfl⟩
    simp

theorem set_reserved (a rest : List Slot) (x0 x1 v : Slot) (mid : List Slot) :
    (a ++ (x0 :: x1 :: mid) ++ rest).set (a.length + 1) v = a ++ (x0 :: v :: mid) ++ rest := by
  rw [List.append_assoc, List.set_append_right _ _ (by omega)]
  simp

/-- C7: `getonematrix` at a bound left out and an initializer list, `[] = ...`, the
list being whatever `getinitlist` parses: the operand of the `OP_NUMBER` that
was emitted with -1, the cell behind the first new one, is overwritten behind
the list with the index, in the table of constants, of the number that
`getinitlist` returned; every other cell of the code is as it was before the
patch: the code that was there, the head of the matrix and the code of the
list.  When the list is slots, as `InitSlots` says, the number is the position
of the last slot, one less than the number of the slots. -/
theorem getonematrix_elided (n : Nat) (symtype : SymType) (s s1 s2 s3 s4 : PState) (count : Int)
    (h1 : gettoken s = Res.ok T_LEFTBRACKET s1)
    (h2 : gettoken s1 = Res.ok T_RIGHTBRACKET s2)
    (h3 : gettoken (stateOf matrix_head s2) = Res.ok T_ASSIGN s3)
    (h4 : getinitlist n s3 = Res.ok count s4) :
    ∃ index s5,
      addqconstant (itoq count) s4 = Res.ok index s5 ∧
      s5.constants[index.toNat]? = some (itoq count) ∧ 0 ≤ index ∧
      getonematrix (n + 1) symtype s =
        Res.ok ()
          { s5 with
            f_opcodes := s4.f_opcodes.set (s.f_opcodes.length + 1) (Slot.arg index) } ∧
      s4.f_opcodes =
        s.f_opcodes ++
          [Slot.op OP_NUMBER, Slot.arg (-1), Slot.op OP_ZERO, Slot.op OP_MATCREATE, Slot.arg 1,
            Slot.op OP_ZERO, Slot.op OP_INITFILL] ++
          s4.f_opcodes.drop (s.f_opcodes.length + 7) ∧
      s4.f_opcodes.set (s.f_opcodes.length + 1) (Slot.arg index) =
        s.f_opcodes ++
          [Slot.op OP_NUMBER, Slot.arg index, Slot.op OP_ZERO, Slot.op OP_MATCREATE, Slot.arg 1,
            Slot.op OP_ZERO, Slot.op OP_INITFILL] ++
          s4.f_opcodes.drop (s.f_opcodes.length + 7) ∧
      ∀ (m : Nat) (u t : PState) (l : List InitSlot) (v : Int), n = m + 1 →
        gettoken (stateOf (tokenmode TM_DEFAULT) s3) = Res.ok T_LEFTBRACE u →
        InitSlots m 0 u l v t →
        count = (l.length : Int) - 1 ∧
          s4.f_opcodes.drop (s.f_opcodes.length + 7) = slotsCode 0 l := by
  obtain ⟨-, hc1, -⟩ := gettoken_keeps s s1 _ h1
  obtain ⟨-, hc2, -⟩ := gettoken_keeps s1 s2 _ h2
  obtain ⟨-, hc3, ho3⟩ := gettoken_keeps _ s3 _ h3
  obtain ⟨hhead, hhop⟩ := matrix_head_code s2
  have e2 : s2.f_opcodes = s.f_opcodes := hc2.trans hc1
  have e3 : s3.f_opcodes = s.f_opcodes ++ [Slot.op OP_NUMBER, Slot.arg (-1), Slot.op OP_ZERO,
      Slot.op OP_MATCREATE, Slot.arg 1, Slot.op OP_ZERO, Slot.op OP_INITFILL] := by
    rw [hc3, hhead, e2]
  have hf3 : FlagSet s3 := flagSet_of_oldop s3 (by rw [ho3, hhop]; exact fun h => by cases h)
  have hlen3 : s3.f_opcodes.length = s.f_opcodes.length + 7 := by
    rw [e3]
    simp
  have e4 : s4.f_opcodes = s.f_opcodes ++ [Slot.op OP_NUMBER, Slot.arg (-1), Slot.op OP_ZERO,
      Slot.op OP_MATCREATE, Slot.arg 1, Slot.op OP_ZERO, Slot.op OP_INITFILL] ++
      s4.f_opcodes.drop (s.f_opcodes.length + 7) := by
    have := (subrun_code (exprFrames n).getinitlist h4).2 hf3
    rw [hlen3, e3] at this
    exact this
  obtain ⟨index, s5, hq, hget, hpos, hcode⟩ := addqconstant_index (itoq count) s4
  refine ⟨index, s5, hq, hget, hpos, ?_, e4, ?_, ?_⟩
  · rw [getonematrix, bind_run_ok h1]
    rw [if_neg (by decide)]
    rw [bind_run_ok (run_stateOf_rescantoken s1), bind_run_ok (gettoken_again s s1 _ h1)]
    rw [if_neg (by decide)]
    dsimp only
    rw [bind_run_ok h2]
    rw [if_pos rfl]
    rw [bind_run_ok (run_stateOf_clearopt s2), bind_run_ok (run_getS _),
      bind_run_ok (run_stateOf_addopone _ _ _), bind_run_ok (run_stateOf_clearopt _),
      bind_run_ok (run_stateOf_addop _ _), bind_run_ok (run_stateOf_addopone _ _ _),
      bind_run_ok (run_stateOf_addop _ _), bind_run_ok (run_stateOf_addop _ _)]
    have h3b : gettoken (stateOf (addop OP_INITFILL) (stateOf (addop OP_ZERO)
        (stateOf (addopone OP_MATCREATE 1) (stateOf (addop OP_ZERO) (stateOf clearopt
          (stateOf (addopone OP_NUMBER (-1)) (stateOf clearopt s2))))))) =
        Res.ok T_ASSIGN s3 := h3
    rw [bind_run_ok h3b, if_pos rfl, bind_run_ok h4, bind_run_ok hq]
    rw [if_neg (by omega)]
    have e : (stateOf clearopt s2).f_opcodes.length = s.f_opcodes.length := by
      rw [← e2]
      rfl
    rw [e, ← hcode]
    rfl
  · conv_lhs => rw [e4]
    exact set_reserved _ _ _ _ _ _
  · intro m u t l v hn hb hslots
    subst hn
    obtain ⟨pre, hp1, hp2, hp3, hp4⟩ := initslots_code m 0 u l v t hslots
    obtain ⟨-, hcu, hou⟩ := gettoken_keeps _ u _ hb
    have hfu : FlagSet u := flagSet_of_eq s3 u hcu hou hf3
    have hrun : getinitlist (m + 1) s3 = Res.ok v (stateOf (tokenmode s3.mode) t) := by
      rw [getinitlist, bind_run_ok (tokenmode_returns_mode TM_DEFAULT s3), bind_run_ok hb]
      dsimp only
      rw [if_neg (fun h => h rfl)]
      exact initlist_loop_returns s3.mode m 0 u l v t hslots
    rw [h4] at hrun
    cases hrun
    refine ⟨by omega, ?_⟩
    have et : (stateOf (tokenmode s3.mode) t).f_opcodes = t.f_opcodes := rfl
    rw [et, hp3, hp2 hfu, hcu]
    have el : (stateOf (tokenmode TM_DEFAULT) s3).f_opcodes = s3.f_opcodes := rfl
    rw [el, ← hlen3]
    simp

/-- C7 on `[] = {a, {1, 2}, 1 + 2};`: the list has the three slots 0, 1 and 2, the
second a nested list; `getinitlist` returns 2, and the reserved operand, the
cell 1, is overwritten with 1, the index of the constant 2; the other cells are
those of the head and of the list. -/
theorem getonematrix_elided_witness :
    (stateOf (getonematrix 30 SYM_UNDEFINED) matrix_line).f_opcodes =
      [Slot.op OP_NUMBER, Slot.arg 1, Slot.op OP_ZERO, Slot.op OP_MATCREATE, Slot.arg 1,
        Slot.op OP_ZERO, Slot.op OP_INITFILL,
        Slot.op OP_GLOBALADDR, Slot.arg 0, Slot.op OP_ELEMINIT, Slot.arg 0,
        Slot.op OP_DUPLICATE, Slot.op OP_ELEMADDR, Slot.arg 1,
        Slot.op OP_NUMBER, Slot.arg 0, Slot.op OP_ELEMINIT, Slot.arg 0,
        Slot.op OP_NUMBER, Slot.arg 1, Slot.op OP_ELEMINIT, Slot.arg 1,
        Slot.op OP_ELEMINIT, Slot.arg 1,
        Slot.op OP_NUMBER, Slot.arg 0, Slot.op OP_NUMBER, Slot.arg 1, Slot.op OP_ADD,
        Slot.op OP_ELEMINIT, Slot.arg 2] ∧
    (stateOf (getonematrix 30 SYM_UNDEFINED) matrix_line).constants =
      [itoq 1, itoq 2, itoq 3] ∧
    ∃ index s5,
      addqconstant (itoq 2) (matrix_state 3) = Res.ok index s5 ∧
      s5.constants[index.toNat]? = some (itoq 2) ∧ 0 ≤ index ∧
      getonematrix (29 + 1) SYM_UNDEFINED matrix_line =
        Res.ok ()
          { s5 with
            f_opcodes :=
              (matrix_state 3).f_opcodes.set (matrix_line.f_opcodes.length + 1)
                (Slot.arg index) } ∧
      (matrix_state 3).f_opcodes =
        matrix_line.f_opcodes ++
          [Slot.op OP_NUMBER, Slot.arg (-1), Slot.op OP_ZERO, Slot.op OP_MATCREATE, Slot.arg 1,
            Slot.op OP_ZERO, Slot.op OP_INITFILL] ++
          (matrix_state 3).f_opcodes.drop (matrix_line.f_opcodes.length + 7) ∧
      (matrix_state 3).f_opcodes.set (matrix_line.f_opcodes.length + 1) (Slot.arg index) =
        matrix_line.f_opcodes ++
          [Slot.op OP_NUMBER, Slot.arg index, Slot.op OP_ZERO, Slot.op OP_MATCREATE, Slot.arg 1,
            Slot.op OP_ZERO, Slot.op OP_INITFILL] ++
          (matrix_state 3).f_opcodes.drop (matrix_line.f_opcodes.length + 7) ∧
      (2 : Int) =
          ([InitSlot.value
              ((matrix_state 6).f_opcodes.drop (matrix_state 5).f_opcodes.length),
            InitSlot.nested
              ((matrix_state 9).f_opcodes.drop ((matrix_state 8).f_opcodes.length + 3)),
            InitSlot.value
              ((matrix_state 12).f_opcodes.drop (matrix_state 11).f_opcodes.length)].length :
            Int) - 1 ∧
        (matrix_state 3).f_opcodes.drop (matrix_line.f_opcodes.length + 7) =
          slotsCode 0
            [InitSlot.value
                ((matrix_state 6).f_opcodes.drop (matrix_state 5).f_opcodes.length),
              InitSlot.nested
                ((matrix_state 9).f_opcodes.drop ((matrix_state 8).f_opcodes.length + 3)),
              InitSlot.value
                ((matrix_state 12).f_opcodes.drop (matrix_state 11).f_opcodes.length)] := by
  refine ⟨by decide!, by decide!, ?_⟩
  obtain ⟨index, s5, h1, h2, h3, h4, h5, h6, h7⟩ :=
    getonematrix_elided 29 SYM_UNDEFINED matrix_line (matrix_state 0) (matrix_state 1)
      (matrix_state 2) (matrix_state 3) 2 (by decide!) (by decide!) (by decide!) (by decide!)
  exact ⟨index, s5, h1, h2, h3, h4, h5, h6,
    h7 28 (matrix_state 4) (matrix_state 13) _ 2 rfl (by decide!)
      (InitSlots.value 27 0 (matrix_state 4) (matrix_state 5) (matrix_state 6) (matrix_state 7)
        T_SYMBOL 0 _ 2 (matrix_state 13) (by decide!) (by decide) (by decide) (by decide)
        (by decide!) (by decide!)
        (InitSlots.nested 26 1 (matrix_state 7) (matrix_state 8) (matrix_state 9)
          (matrix_state 10) 1 _ 2 (matrix_state 13) (by decide!) (by decide!) (by decide!)
          (InitSlots.value_last 25 2 (matrix_state 10) (matrix_state 11) (matrix_state 12)
            T_NUMBER 1 (matrix_state 13) (by decide!) (by decide) (by decide) (by decide)
            (by decide!) (by decide!))))⟩

/-- C7, the claim as stated fails: at `mat m[] = {1,2,3};` the list has three
entries, `getinitlist` returns 2, the position of the last entry, and
`getonematrix`, run on `[] = {1,2,3};`, overwrites the operand it reserved, the
cell 1, with 1, the index of the constant 2 in the table of constants, and not
with 2, the index of the constant 3. -/
theorem getonematrix_bound_last_position :
    getinitlist 20
        (top_level [optok T_LEFTBRACE, numtok 0, optok T_COMMA, numtok 1, optok T_COMMA,
          numtok 2, optok T_RIGHTBRACE, optok T_SEMICOLON]) =
      Res.ok 2
        { top_level [optok T_SEMICOLON] with
          curtoken := optok T_RIGHTBRACE
          f_opcodes := [Slot.op OP_NUMBER, Slot.arg 0, Slot.op OP_ELEMINIT, Slot.arg 0,
            Slot.op OP_NUMBER, Slot.arg 1, Slot.op OP_ELEMINIT, Slot.arg 1,
            Slot.op OP_NUMBER, Slot.arg 2, Slot.op OP_ELEMINIT, Slot.arg 2]
          oldop := OP_ELEMINIT
          labels := [{}, {}, {}, {}, {}, {}] } ∧
    getonematrix 30 SYM_UNDEFINED bound_line =
      Res.ok ()
        { top_level [optok T_SEMICOLON] with
          curtoken := optok T_RIGHTBRACE
          f_opcodes := [Slot.op OP_NUMBER, Slot.arg 1, Slot.op OP_ZERO,
            Slot.op OP_MATCREATE, Slot.arg 1, Slot.op OP_ZERO, Slot.op OP_INITFILL,
            Slot.op OP_NUMBER, Slot.arg 0, Slot.op OP_ELEMINIT, Slot.arg 0,
            Slot.op OP_NUMBER, Slot.arg 1, Slot.op OP_ELEMINIT, Slot.arg 1,
            Slot.op OP_NUMBER, Slot.arg 2, Slot.op OP_ELEMINIT, Slot.arg 2]
          oldop := OP_ELEMINIT
          labels := [{}, {}, {}, {}, {}, {}] } ∧
    (stateOf (getonematrix 30 SYM_UNDEFINED) bound_line).constants = [itoq 1, itoq 2, itoq 3] ∧
    (stateOf (getonematrix 30 SYM_UNDEFINED) bound_line).f_opcodes[1]? = some (Slot.arg 1) ∧
    (stateOf (getonematrix 30 SYM_UNDEFINED) bound_line).f_opcodes[1]? ≠ some (Slot.arg 2) := by
  decide!

/-! ## codegen.c: chains of conditions with any operands -/

theorem run_stateOf_chain_close (d : Nat) (s : PState) :
    chain_close d s = Res.ok () (stateOf (chain_close d) s) := by
  have : ∃ t, chain_close d s = Res.ok () t := by
    unfold chain_close
    simp only [bind_run, rescantoken, readlabel, modS]
    split
    · exact ⟨_, rfl⟩
    · exact ⟨_, rfl⟩
  obtain ⟨t, ht⟩ := this
  unfold stateOf
  rw [ht]

theorem run_stateOf_addoplabel (op : Opcode) (d : Nat) (s : PState) :
    addoplabel op d s = Res.ok () (stateOf (addoplabel op d) s) := rfl

theorem orcond_loop_done (n d type : Nat) (s t : PState) (last : TokenType)
    (hg : gettoken s = Res.ok last t) (hl : last ≠ T_OROR) :
    getorcond_loop (n + 1) d type s = Res.ok type (stateOf (chain_close d) t) := by
  rw [getorcond_loop, bind_run_ok hg, if_neg hl]
  simp only [bind_run, rescantoken, readlabel, modS, stateOf, chain_close]
  split <;> rfl

theorem orcond_loop_more (n d type ty : Nat) (s s1 s2 : PState)
    (hg : gettoken s = Res.ok T_OROR s1)
    (ho : getandcond n (stateOf (addoplabel OP_CONDORJUMP d) s1) = Res.ok ty s2) :
    getorcond_loop (n + 1) d type s = getorcond_loop n d EXPR_RVALUE s2 := by
  rw [getorcond_loop, bind_run_ok hg, if_pos rfl,
    bind_run_ok (run_stateOf_addoplabel OP_CONDORJUMP d s1), bind_run_ok ho]

theorem andcond_loop_done (n d type : Nat) (s t : PState) (last : TokenType)
    (hg : gettoken s = Res.ok last t) (hl : last ≠ T_ANDAND) :
    getandcond_loop (n + 1) d type s = Res.ok type (stateOf (chain_close d) t) := by
  rw [getandcond_loop, bind_run_ok hg, if_neg hl]
  simp only [bind_run, rescantoken, readlabel, modS, stateOf, chain_close]
  split <;> rfl

theorem andcond_loop_more (n d type ty : Nat) (s s1 s2 : PState)
    (hg : gettoken s = Res.ok T_ANDAND s1)
    (ho : getrelation n (stateOf (addoplabel OP_CONDANDJUMP d) s1) = Res.ok ty s2) :
    getandcond_loop (n + 1) d type s = getandcond_loop n d EXPR_RVALUE s2 := by
  rw [getandcond_loop, bind_run_ok hg, if_pos rfl,
    bind_run_ok (run_stateOf_addoplabel OP_CONDANDJUMP d s1), bind_run_ok ho]

/-- With the rounds as runs, the loop of `getorcond` returns, behind the end of
the chain, the type of the only operand or that of a value. -/
theorem orcond_loop_returns (d : Nat) :
    ∀ (n : Nat) (s : PState) (l : List (List Slot)) (t : PState),
      CondChain T_OROR OP_CONDORJUMP getandcond d n s l t → ∀ type : Nat,
      getorcond_loop n d type s =
        Res.ok (if l = [] then type else EXPR_RVALUE) (stateOf (chain_close d) t) := by
  intro n s l t h
  induction h with
  | done n s t last hg hl =>
    intro type
    rw [orcond_loop_done n d type s t last hg hl, if_pos rfl]
  | more n s s1 s2 t ty l hg ho _ ih =>
    intro type
    rw [orcond_loop_more n d type ty s s1 s2 hg ho, ih EXPR_RVALUE,
      if_neg (List.cons_ne_nil _ _), ite_self]

/-- With the rounds as runs, the loop of `getandcond` returns, behind the end of
the chain, the type of the only operand or that of a value. -/
theorem andcond_loop_returns (d : Nat) :
    ∀ (n : Nat) (s : PState) (l : List (List Slot)) (t : PState),
      CondChain T_ANDAND OP_CONDANDJUMP getrelation d n s l t → ∀ type : Nat,
      getandcond_loop n d type s =
        Res.ok (if l = [] then type else EXPR_RVALUE) (stateOf (chain_close d) t) := by
  intro n s l t h
  induction h with
  | done n s t last hg hl =>
    intro type
    rw [andcond_loop_done n d type s t last hg hl, if_pos rfl]
  | more n s s1 s2 t ty l hg ho _ ih =>
    intro type
    rw [andcond_loop_more n d type ty s s1 s2 hg ho, ih EXPR_RVALUE,
      if_neg (List.cons_ne_nil _ _), ite_self]

theorem frame_label {u w : PState} (h : Frame false [] u w) (i : Nat)
    (hi : i < u.labels.length) :
    w.labels.getD i {} = u.labels.getD i {} ∧ i < w.labels.length :=
  ⟨h.labels i hi (by simp [Touchable]), lt_of_lt_of_le hi h.ext.nlabels⟩

theorem chain_close_state (d : Nat) (t : PState) (sites : List Nat) (nm : Option Int)
    (hd : d < t.labels.length)
    (hl : t.labels.getD d {} = { l_offset := -1, l_sites := sites, l_name := nm })
    (hs : ∀ p ∈ sites, 0 < p) :
    (stateOf (chain_close d) t).f_opcodes =
        patchsites sites (t.f_opcodes.length : Int) t.f_opcodes ∧
      (stateOf (chain_close d) t).labels.getD d {} =
        (if sites = [] then { l_offset := -1, l_sites := [], l_name := nm }
          else { l_offset := (t.f_opcodes.length : Int), l_sites := [], l_name := nm }) := by
  cases sites with
  | nil =>
    have hc : ¬ (t.labels.getD d {}).l_chain > 0 := by
      rw [hl]
      simp [LABEL.l_chain]
    simp only [chain_close, stateOf, bind_run, rescantoken, readlabel, modS]
    rw [if_neg hc]
    exact ⟨rfl, hl⟩
  | cons p sites =>
    have hc : (t.labels.getD d {}).l_chain > 0 := by
      rw [hl]
      have := hs p (List.mem_cons_self _ _)
      simp only [LABEL.l_chain]
      omega
    simp only [chain_close, stateOf, bind_run, rescantoken, readlabel, modS]
    rw [if_pos hc]
    simp only [setlabel, modS, hl]
    constructor
    · trivial
    · rw [if_neg (by simp)]
      rw [List.getD_eq_getElem?_getD, List.getElem?_set_self (by simpa using hd)]
      rfl

theorem addoplabel_state (op : Opcode) (d : Nat) (s : PState) (sites : List Nat)
    (nm : Option Int) (hd : d < s.labels.length)
    (hl : s.labels.getD d {} = { l_offset := -1, l_sites := sites, l_name := nm }) :
    ∃ x, (stateOf (addoplabel op d) s).f_opcodes = s.f_opcodes ++ [Slot.op op, Slot.arg x] ∧
      (stateOf (addoplabel op d) s).oldop = op ∧
      (stateOf (addoplabel op d) s).labels.length = s.labels.length ∧
      (stateOf (addoplabel op d) s).labels.getD d {} =
        { l_offset := -1, l_sites := (s.f_opcodes.length + 1) :: sites, l_name := nm } := by
  refine ⟨({ l_offset := -1, l_sites := sites, l_name := nm } : LABEL).l_chain, ?_⟩
  simp only [addoplabel, addop, uselabel, stateOf, bind_run, modS, hl]
  rw [if_neg (by decide)]
  refine ⟨by simp, rfl, by simp, ?_⟩
  rw [List.getD_eq_getElem?_getD, List.getElem?_set_self (by simpa using hd)]
  simp

theorem chainCode_length (op : Opcode) (x y : Int) (l : List (List Slot)) :
    (chainCode op x l).length = (chainCode op y l).length := by
  induction l with
  | nil => rfl
  | cons c l ih => simp [chainCode, ih]

/-- With the rounds as runs, the code behind a chain is the code that was there,
the patch sites of the label holding the offset of the end, and for every right
operand the jump to that offset and the code of the operand; the label of the
chain is resolved to that offset, unless no jump refers to it. -/
theorem condchain_code (tok : TokenType) (op : Opcode) (operand : Nat → P Nat) (d : Nat)
    (hop : ∀ n, Spec false [] (operand n)) (hj : op ≠ OP_INDEXADDR) :
    ∀ (n : Nat) (s : PState) (l : List (List Slot)) (t : PState),
      CondChain tok op operand d n s l t →
      ∀ (sites : List Nat) (nm : Option Int), d < s.labels.length →
        s.labels.getD d {} = { l_offset := -1, l_sites := sites, l_name := nm } →
        (∀ p ∈ sites, 0 < p ∧ p < s.f_opcodes.length) →
        (stateOf (chain_close d) t).f_opcodes =
            patchsites sites ((s.f_opcodes ++ chainCode op 0 l).length : Int) s.f_opcodes ++
              chainCode op ((s.f_opcodes ++ chainCode op 0 l).length : Int) l ∧
          (stateOf (chain_close d) t).labels.getD d {} =
            (if sites = [] ∧ l = [] then { l_offset := -1, l_sites := [], l_name := nm }
              else
                { l_offset := ((s.f_opcodes ++ chainCode op 0 l).length : Int), l_sites := [],
                  l_name := nm }) := by
  intro n s l t h
  induction h with
  | done n s t last hg hl =>
    intro sites nm hd hlab hs
    obtain ⟨hlb, hc, -⟩ := gettoken_keeps s t _ hg
    obtain ⟨h1, h2⟩ := chain_close_state d t sites nm (by rw [hlb]; exact hd)
      (by rw [hlb]; exact hlab) (fun p hp => (hs p hp).1)
    rw [hc] at h1 h2
    refine ⟨by simpa [chainCode] using h1, ?_⟩
    rw [h2]
    by_cases hsi : sites = []
    · simp [hsi, chainCode]
    · simp [hsi, chainCode]
  | more n s s1 s2 t ty l hg ho _ ih =>
    intro sites nm hd hlab hs
    obtain ⟨hlb, hc, -⟩ := gettoken_keeps s s1 _ hg
    obtain ⟨x, hjc, hjo, hjl, hjd⟩ := addoplabel_state op d s1 sites nm (by rw [hlb]; exact hd)
      (by rw [hlb]; exact hlab)
    have hf := frame_of_run (hop n) ho
    obtain ⟨hlab2, hd2⟩ := frame_label hf d (by rw [hjl, hlb]; exact hd)
    have hcode := (subrun_code (hop n) ho).2 (flagSet_of_oldop _ (by rw [hjo]; exact hj))
    rw [hjc, hc] at hcode
    have hdrop : s2.f_opcodes.drop (s1.f_opcodes.length + 2) =
        s2.f_opcodes.drop (s.f_opcodes ++ [Slot.op op, Slot.arg x]).length := by
      rw [hc]
      simp
    rw [← hdrop] at hcode
    have hlen2 : s2.f_opcodes.length =
        s.f_opcodes.length + 2 + (s2.f_opcodes.drop (s1.f_opcodes.length + 2)).length := by
      conv_lhs => rw [hcode]
      simp
      omega
    obtain ⟨h1, h2⟩ := ih ((s.f_opcodes.length + 1) :: sites) nm hd2
      (by rw [hlab2, hjd, hc]) (by
        intro p hp
        rcases List.mem_cons.mp hp with rfl | hp
        · omega
        · have := hs p hp
          omega)
    have hT : ((s2.f_opcodes ++ chainCode op 0 l).length : Int) =
        ((s.f_opcodes ++
          chainCode op 0 (s2.f_opcodes.drop (s1.f_opcodes.length + 2) :: l)).length : Int) := by
      simp only [List.length_append, chainCode, List.length_cons, List.length_nil]
      rw [hlen2]
      push_cast
      ring
    rw [hT] at h1 h2
    generalize s2.f_opcodes.drop (s1.f_opcodes.length + 2) = c at hcode h1 h2 ⊢
    constructor
    · rw [h1, patchsites_cons, hcode]
      rw [List.append_assoc s.f_opcodes, List.set_append_right _ _ (by omega)]
      simp only [Nat.add_sub_cancel_left, List.cons_append, List.nil_append, List.set_cons_succ,
        List.set_cons_zero]
      rw [patchsites_append_left _ _ _ _ (fun p hp => (hs p hp).2)]
      simp [chainCode, List.append_assoc]
    · rw [h2, if_neg (by simp), if_neg (by simp)]

theorem run_stateOf_newlabel (s : PState) :
    newlabel s = Res.ok s.labels.length (stateOf newlabel s) := rfl

/-- The code and the label behind a rule of a chain, from the frame of the first
operand and the rounds of the loop. -/
theorem chain_rule_code (tok : TokenType) (op : Opcode) (operand : Nat → P Nat)
    (hop : ∀ n, Spec false [] (operand n)) (hj : op ≠ OP_INDEXADDR) (n : Nat)
    (s a1 t : PState) (l : List (List Slot))
    (hf : Frame false [] (stateOf newlabel s) a1)
    (hchain : CondChain tok op operand s.labels.length n a1 l t) :
    ∃ pre target,
      (stateOf (chain_close s.labels.length) t).f_opcodes =
        pre ++ a1.f_opcodes.drop s.f_opcodes.length ++ chainCode op target l ∧
      target = ((stateOf (chain_close s.labels.length) t).f_opcodes.length : Int) ∧
      pre.length = s.f_opcodes.length ∧ (FlagSet s → pre = s.f_opcodes) ∧
      (stateOf (chain_close s.labels.length) t).labels.getD s.labels.length {} =
        (if l = [] then {} else { l_offset := target }) := by
  have hd0 : s.labels.length < (stateOf newlabel s).labels.length := by
    simp [stateOf, newlabel]
  have hl0 : (stateOf newlabel s).labels.getD s.labels.length {} = {} := by
    simp [stateOf, newlabel]
  obtain ⟨hlab, hd⟩ := frame_label hf _ hd0
  rw [hl0] at hlab
  obtain ⟨pre, hr, hw⟩ := frame_reach hf
  have hr2 : Reach s.f_opcodes s.oldop pre := hr
  have hw2 : a1.f_opcodes = pre ++ a1.f_opcodes.drop s.f_opcodes.length := hw
  obtain ⟨h1, h2⟩ := condchain_code tok op operand s.labels.length hop hj n a1 l t hchain []
    none hd hlab (by simp)
  have hlen : ((a1.f_opcodes ++ chainCode op 0 l).length : Int) =
      ((stateOf (chain_close s.labels.length) t).f_opcodes.length : Int) := by
    rw [h1]
    simp only [patchsites, List.foldl_nil, List.length_append]
    rw [chainCode_length op ((a1.f_opcodes.length + (chainCode op 0 l).length : Nat) : Int) 0 l]
  rw [hlen] at h1 h2
  refine ⟨pre, _, ?_, rfl, reach_length hr2, reach_flagSet s pre hr2, ?_⟩
  · conv_lhs => rw [h1]
    simp only [patchsites, List.foldl_nil]
    rw [← hw2]
  · rw [h2]
    simp

/-- C2: `getorcond` on a chain `e1 || e2 || ... || en` and `getandcond` on a chain
`e1 && e2 && ... && en`, the operands being whatever `getandcond` and
`getrelation` parse and the rounds of the loop being as `CondChain` says.  The
rule returns; the code it leaves is the cells in front, the code of `e1` and,
for every right operand, the conditional jump, `OP_CONDORJUMP` or
`OP_CONDANDJUMP`, with the operand `target`, and the code of the operand;
`target` is the same in all the jumps and is the length of the code, the offset
right behind the code of `en`, to which the label of the chain is resolved.
With no right operand no jump is emitted and the label is as it was declared,
unresolved.  The cells in front are as many as before, and the same when the
last of them is no index address still to be marked for writing. -/
theorem getorcond_jumps (n : Nat) (s : PState) :
    (∀ (a1 t : PState) (type : Nat) (l : List (List Slot)),
      getandcond n (stateOf newlabel s) = Res.ok type a1 →
      CondChain T_OROR OP_CONDORJUMP getandcond s.labels.length n a1 l t →
      ∃ pre target,
        getorcond (n + 1) s =
          Res.ok (if l = [] then type else EXPR_RVALUE)
            (stateOf (chain_close s.labels.length) t) ∧
        (stateOf (chain_close s.labels.length) t).f_opcodes =
          pre ++ a1.f_opcodes.drop s.f_opcodes.length ++ chainCode OP_CONDORJUMP target l ∧
        target = ((stateOf (chain_close s.labels.length) t).f_opcodes.length : Int) ∧
        pre.length = s.f_opcodes.length ∧ (FlagSet s → pre = s.f_opcodes) ∧
        (stateOf (chain_close s.labels.length) t).labels.getD s.labels.length {} =
          (if l = [] then {} else { l_offset := target })) ∧
    (∀ (a1 t : PState) (type : Nat) (l : List (List Slot)),
      getrelation n (stateOf newlabel s) = Res.ok type a1 →
      CondChain T_ANDAND OP_CONDANDJUMP getrelation s.labels.length n a1 l t →
      ∃ pre target,
        getandcond (n + 1) s =
          Res.ok (if l = [] then type else EXPR_RVALUE)
            (stateOf (chain_close s.labels.length) t) ∧
        (stateOf (chain_close s.labels.length) t).f_opcodes =
          pre ++ a1.f_opcodes.drop s.f_opcodes.length ++ chainCode OP_CONDANDJUMP target l ∧
        target = ((stateOf (chain_close s.labels.length) t).f_opcodes.length : Int) ∧
        pre.length = s.f_opcodes.length ∧ (FlagSet s → pre = s.f_opcodes) ∧
        (stateOf (chain_close s.labels.length) t).labels.getD s.labels.length {} =
          (if l = [] then {} else { l_offset := target })) := by
  constructor
  · intro a1 t type l h1 hchain
    obtain ⟨pre, target, hc, ht, hp1, hp2, hl⟩ := chain_rule_code T_OROR OP_CONDORJUMP getandcond
      (fun m => (exprFrames m).getandcond) (by decide) n s a1 t l
      (frame_of_run (exprFrames n).getandcond h1) hchain
    refine ⟨pre, target, ?_, hc, ht, hp1, hp2, hl⟩
    rw [getorcond, bind_run_ok (run_stateOf_newlabel s), bind_run_ok h1]
    exact orcond_loop_returns s.labels.length n a1 l t hchain type
  · intro a1 t type l h1 hchain
    obtain ⟨pre, target, hc, ht, hp1, hp2, hl⟩ := chain_rule_code T_ANDAND OP_CONDANDJUMP
      getrelation (fun m => (exprFrames m).getrelation) (by decide) n s a1 t l
      (frame_of_run (exprFrames n).getrelation h1) hchain
    refine ⟨pre, target, ?_, hc, ht, hp1, hp2, hl⟩
    rw [getandcond, bind_run_ok (run_stateOf_newlabel s), bind_run_ok h1]
    exact andcond_loop_returns s.labels.length n a1 l t hchain type

/-- C2 on `a || 1 && 2 || 3 < 1;`, on `a && 1 == 2;` and on `a;`: in the first both
`OP_CONDORJUMP` go to the offset 17 behind the code of the last operand, to
which the label of the chain is resolved, the second operand being a chain of
`&&` with its own jump to the offset 10; in the second the jump goes to the
offset 9; in the third no jump is emitted and the label is unresolved. -/
theorem getorcond_jumps_witness :
    ((stateOf (chain_close 0) (or_state 5)).f_opcodes =
        [Slot.op OP_GLOBALADDR, Slot.arg 0, Slot.op OP_CONDORJUMP, Slot.arg 17,
          Slot.op OP_NUMBER, Slot.arg 0, Slot.op OP_CONDANDJUMP, Slot.arg 10,
          Slot.op OP_NUMBER, Slot.arg 1, Slot.op OP_CONDORJUMP, Slot.arg 17,
          Slot.op OP_NUMBER, Slot.arg 2, Slot.op OP_NUMBER, Slot.arg 0, Slot.op OP_LT] ∧
      [(or_state 2).f_opcodes.drop ((or_state 1).f_opcodes.length + 2),
        (or_state 4).f_opcodes.drop ((or_state 3).f_opcodes.length + 2)] =
        [[Slot.op OP_NUMBER, Slot.arg 0, Slot.op OP_CONDANDJUMP, Slot.arg 10,
            Slot.op OP_NUMBER, Slot.arg 1],
          [Slot.op OP_NUMBER, Slot.arg 2, Slot.op OP_NUMBER, Slot.arg 0, Slot.op OP_LT]] ∧
      (stateOf (chain_close 0) (and_state 3)).f_opcodes =
        [Slot.op OP_GLOBALADDR, Slot.arg 0, Slot.op OP_CONDANDJUMP, Slot.arg 9,
          Slot.op OP_NUMBER, Slot.arg 0, Slot.op OP_NUMBER, Slot.arg 1, Slot.op OP_EQ] ∧
      (stateOf (chain_close 0) (one_state 1)).f_opcodes =
        [Slot.op OP_GLOBALADDR, Slot.arg 0]) ∧
    (∃ pre target,
      getorcond (29 + 1) cond_lines.1 =
        Res.ok
          (if [(or_state 2).f_opcodes.drop ((or_state 1).f_opcodes.length + 2),
            (or_state 4).f_opcodes.drop ((or_state 3).f_opcodes.length + 2)] = [] then 0
            else EXPR_RVALUE)
          (stateOf (chain_close cond_lines.1.labels.length) (or_state 5)) ∧
      (stateOf (chain_close cond_lines.1.labels.length) (or_state 5)).f_opcodes =
        pre ++ (or_state 0).f_opcodes.drop cond_lines.1.f_opcodes.length ++
          chainCode OP_CONDORJUMP target
            [(or_state 2).f_opcodes.drop ((or_state 1).f_opcodes.length + 2),
              (or_state 4).f_opcodes.drop ((or_state 3).f_opcodes.length + 2)] ∧
      target =
        ((stateOf (chain_close cond_lines.1.labels.length) (or_state 5)).f_opcodes.length :
          Int) ∧
      pre.length = cond_lines.1.f_opcodes.length ∧
      (FlagSet cond_lines.1 → pre = cond_lines.1.f_opcodes) ∧
      (stateOf (chain_close cond_lines.1.labels.length) (or_state 5)).labels.getD
          cond_lines.1.labels.length {} =
        (if [(or_state 2).f_opcodes.drop ((or_state 1).f_opcodes.length + 2),
          (or_state 4).f_opcodes.drop ((or_state 3).f_opcodes.length + 2)] = [] then {}
          else { l_offset := target })) ∧
    (∃ pre target,
      getandcond (29 + 1) cond_lines.2.1 =
        Res.ok
          (if [(and_state 2).f_opcodes.drop ((and_state 1).f_opcodes.length + 2)] = [] then 0
            else EXPR_RVALUE)
          (stateOf (chain_close cond_lines.2.1.labels.length) (and_state 3)) ∧
      (stateOf (chain_close cond_lines.2.1.labels.length) (and_state 3)).f_opcodes =
        pre ++ (and_state 0).f_opcodes.drop cond_lines.2.1.f_opcodes.length ++
          chainCode OP_CONDANDJUMP target
            [(and_state 2).f_opcodes.drop ((and_state 1).f_opcodes.length + 2)] ∧
      target =
        ((stateOf (chain_close cond_lines.2.1.labels.length) (and_state 3)).f_opcodes.length :
          Int) ∧
      pre.length = cond_lines.2.1.f_opcodes.length ∧
      (FlagSet cond_lines.2.1 → pre = cond_lines.2.1.f_opcodes) ∧
      (stateOf (chain_close cond_lines.2.1.labels.length) (and_state 3)).labels.getD
          cond_lines.2.1.labels.length {} =
        (if [(and_state 2).f_opcodes.drop ((and_state 1).f_opcodes.length + 2)] = [] then {}
          else { l_offset := target })) ∧
    (∃ pre target,
      getorcond (29 + 1) cond_lines.2.2 =
        Res.ok (if ([] : List (List Slot)) = [] then 0 else EXPR_RVALUE)
          (stateOf (chain_close cond_lines.2.2.labels.length) (one_state 1)) ∧
      (stateOf (chain_close cond_lines.2.2.labels.length) (one_state 1)).f_opcodes =
        pre ++ (one_state 0).f_opcodes.drop cond_lines.2.2.f_opcodes.length ++
          chainCode OP_CONDORJUMP target [] ∧
      target =
        ((stateOf (chain_close cond_lines.2.2.labels.length) (one_state 1)).f_opcodes.length :
          Int) ∧
      pre.length = cond_lines.2.2.f_opcodes.length ∧
      (FlagSet cond_lines.2.2 → pre = cond_lines.2.2.f_opcodes) ∧
      (stateOf (chain_close cond_lines.2.2.labels.length) (one_state 1)).labels.getD
          cond_lines.2.2.labels.length {} =
        (if ([] : List (List Slot)) = [] then {} else { l_offset := target })) :=
  ⟨⟨by decide!, by decide!, by decide!, by decide!⟩,
   (getorcond_jumps 29 cond_lines.1).1 (or_state 0) (or_state 5) 0 _ (by decide!)
      (CondChain.more 28 (or_state 0) (or_state 1) (or_state 2) (or_state 5) 1 _ (by decide!)
        (by decide!)
        (CondChain.more 27 (or_state 2) (or_state 3) (or_state 4) (or_state 5) 1 _
          (by decide!) (by decide!)
          (CondChain.done 26 (or_state 4) (or_state 5) T_SEMICOLON (by decide!) (by decide)))),
   (getorcond_jumps 29 cond_lines.2.1).2 (and_state 0) (and_state 3) 0 _ (by decide!)
      (CondChain.more 28 (and_state 0) (and_state 1) (and_state 2) (and_state 3) 1 _
        (by decide!) (by decide!)
        (CondChain.done 27 (and_state 2) (and_state 3) T_SEMICOLON (by decide!) (by decide))),
   (getorcond_jumps 29 cond_lines.2.2).1 (one_state 0) (one_state 1) 0 _ (by decide!)
      (CondChain.done 28 (one_state 0) (one_state 1) T_SEMICOLON (by decide!) (by decide))⟩
